import Mathlib

/-!
# Hash files over a block store: a shallow embedding

The development follows the C sources `prj2/HT.c`, `prj2/SHT.c` and
`prj2/Common.h`.

Conventions of the embedding.

* A C `int32_t` value is an `Int` in `[-2^31, 2^31)`; arithmetic that may leave
  the range is wrapped with `toInt32` (two's complement).  `uint32_t`,
  `uint64_t` and `size_t` (64 bits, LP64) values are `Nat`s below `2^32` and
  `2^64`; `toUInt32` and `toUInt64` are the C conversions to those types.
* Bytes are held as the little-endian number they spell: byte `i` of `b` is
  `(b / 256^i) % 256`, that is, bits `8 * i .. 8 * i + 7`.  A block is the number
  of its `BLOCK_SIZE` bytes, a character array the number of its bytes, a file
  is the number of its blocks together with the number of all its bytes.
  Struct fields are read and written at their byte offsets; `int32_t`,
  `uint32_t` and the enumeration `FileType` take 4 bytes, `Record` takes 96.
  An access past the end of a block is undefined in C; the embedding then reads
  zeros and drops what is written past the end when the block is persisted.
  The functions of `SHT.c` compare strings and copy records and segments at
  offsets that depend on the contents of the file and on their arguments; there
  an access past the end of a block or of an array makes the operation yield
  `none`.
* `BLOCK_SIZE` and the functions of the block store come from `BF/BF.h`, which
  is not part of the sources; `BLOCK_SIZE` is a parameter and the functions are
  modelled from the specification.
* A loop that follows `NextBlockIndex` links runs on fuel equal to the number of
  blocks of the file plus one.  While such a loop runs the file is only read,
  so a walk that is still going after that many steps has met some block twice
  and the C loop never ends; the operation then yields `none`.  So `none` is
  the outcome of a call that has no defined result in C.
* A C function that returns a code and changes the file yields the pair of the
  code and the file afterwards.
-/

/-! ## Machine integers -/

/-- Conversion of an integer to `uint32_t`: reduction modulo `2^32 = 4294967296`. -/
def toUInt32 (x : Int) : Nat := (x % 4294967296).toNat

/-- Conversion of an integer to `int32_t`: the value in `[-2^31, 2^31)` that is
congruent to it modulo `2^32` (`2^31 = 2147483648`). -/
def toInt32 (x : Int) : Int :=
  if toUInt32 x < 2147483648 then (toUInt32 x : Int) else (toUInt32 x : Int) - 4294967296

/-- Conversion of an integer to `uint64_t` (also `size_t`): reduction modulo
`2^64 = 18446744073709551616`. -/
def toUInt64 (x : Int) : Nat := (x % 18446744073709551616).toNat

/-- Conversion of a byte to `int8_t`: the value in `[-128, 128)` that is congruent
to it modulo `256`. -/
def toInt8 (x : Nat) : Int := if x % 256 < 128 then (x % 256 : Nat) else ((x % 256 : Nat) : Int) - 256

/-! ## Blocks and the block store -/

/-- A block, as the little-endian number spelled by its bytes. -/
abbrev Block := Nat

/-- The `len` bytes of `b` that start at byte offset `off`: `b` shifted right by
`8 * off` bits and masked to `8 * len` bits. -/
def readBytes (b : Nat) (off len : Nat) : Nat := (b >>> (8 * off)) &&& (2 ^ (8 * len) - 1)

/-- The bytes `b` after `memcpy(b + off, &v, len)`: the bytes below `off`, the
first `len` bytes of `v` moved to `off`, and the bytes from `off + len` on. -/
def writeBytes (b : Nat) (off len : Nat) (v : Nat) : Nat :=
  (b &&& (2 ^ (8 * off) - 1)) + ((v &&& (2 ^ (8 * len) - 1)) <<< (8 * off))
    + ((b >>> (8 * (off + len))) <<< (8 * (off + len)))

/-- The block `b` after `memset(b + off, c, count)`. -/
def memset (b : Block) (off : Nat) (c : Int) (count : Nat) : Block :=
  writeBytes b off count ((c % 256).toNat * ((256 ^ count - 1) / 255))

/-- An `int32_t` field at byte offset `off`. -/
def readInt32 (b : Block) (off : Nat) : Int := toInt32 (readBytes b off 4)

/-- A `uint32_t` field at byte offset `off`. -/
def readUInt32 (b : Block) (off : Nat) : Nat := readBytes b off 4

/-- Assignment of `v` to a 32-bit field at byte offset `off`. -/
def writeInt32 (b : Block) (off : Nat) (v : Int) : Block := writeBytes b off 4 (toUInt32 v)

/-- A block file: the number of its blocks and its bytes, block `i` being the
`BLOCK_SIZE` bytes from offset `i * BLOCK_SIZE` on. -/
structure File where
  blockCount : Nat
  bytes : Nat
deriving DecidableEq, Repr

/-- Modelled from the spec: the block store's `BF_CreateFile` followed by
`BF_OpenFile`, whose source (`BF/BF.h`) is not in the repository; the new file
has no block. -/
def BF_CreateFile : File := { blockCount := 0, bytes := 0 }

/-- Modelled from the spec: the block store's `BF_AllocateBlock` (source not in
the repository); it appends one zeroed block. -/
def BF_AllocateBlock (BLOCK_SIZE : Nat) (f : File) : File :=
  { blockCount := f.blockCount + 1
    bytes := writeBytes f.bytes (f.blockCount * BLOCK_SIZE) BLOCK_SIZE 0 }

/-- Modelled from the spec: the block store's `BF_GetBlockCounter` (source not
in the repository), the number of blocks of the file. -/
def BF_GetBlockCounter (f : File) : Int := f.blockCount

/-- Modelled from the spec: the block store's `BF_ReadBlock` (source not in the
repository).  It yields the view of block `blockIndex`, and fails (`none`)
when the file has no block of that index. -/
def BF_ReadBlock (BLOCK_SIZE : Nat) (f : File) (blockIndex : Int) : Option Block :=
  if 0 ≤ blockIndex ∧ blockIndex < f.blockCount then
    some (readBytes f.bytes (blockIndex.toNat * BLOCK_SIZE) BLOCK_SIZE)
  else none

/-- Modelled from the spec: the block store's `BF_WriteBlock` (source not in the
repository).  The engines edit the view obtained from `BF_ReadBlock` in place
and then persist it; `b` is the edited view of block `blockIndex`. -/
def BF_WriteBlock (BLOCK_SIZE : Nat) (f : File) (blockIndex : Int) (b : Block) : File :=
  if 0 ≤ blockIndex ∧ blockIndex < f.blockCount then
    { f with bytes := writeBytes f.bytes (blockIndex.toNat * BLOCK_SIZE) BLOCK_SIZE b }
  else f

/-- Outcome of a piece of a C function body: `ret r` when the function has
executed `return r`, `next a` when control falls through with state `a`. -/
inductive CFlow (ρ α : Type) where
  | ret (r : ρ)
  | next (a : α)
deriving DecidableEq, Repr

/-- A file name: the bytes of the C string. -/
abbrev FileName := List Nat

/-- Modelled from the spec: the state of the block store (`BF/BF.h`, not in the
repository).  It holds the files by name and the table of open files: handle
`h` is open when entry `h` of the table is `some name`, and then designates the
file of that name. -/
structure BFState where
  files : List (FileName × File)
  openFiles : List (Option FileName)
deriving DecidableEq, Repr

/-- The file of a name, among the files of the store. -/
def BFState.find : List (FileName × File) → FileName → Option File
  | [], _ => none
  | p :: files, fileName => if p.1 = fileName then some p.2 else BFState.find files fileName

/-- The first free entry of the table of open files (its length when no entry is
free). -/
def BFState.firstFree : List (Option FileName) → Nat
  | [] => 0
  | none :: _ => 0
  | some _ :: openFiles => BFState.firstFree openFiles + 1

/-- The file that `handle` designates, when the handle is open. -/
def BFState.view (store : BFState) (handle : Int) : Option File :=
  if 0 ≤ handle then
    match store.openFiles.get? handle.toNat with
    | some (some fileName) => BFState.find store.files fileName
    | _ => none
  else none

/-- The store after the file that `handle` designates has become `f` (no change
when the handle is not open). -/
def BFState.update (store : BFState) (handle : Int) (f : File) : BFState :=
  if 0 ≤ handle then
    match store.openFiles.get? handle.toNat with
    | some (some fileName) =>
      { store with files := store.files.map fun p => if p.1 = fileName then (p.1, f) else p }
    | _ => store
  else store

/-- Modelled from the spec: the block store's `create(name)` (source not in the
repository): a new file without blocks; it fails (`-1`) when a file of that
name exists. -/
def BFState.createFile (store : BFState) (fileName : FileName) : Int × BFState :=
  if (BFState.find store.files fileName).isSome then (-1, store)
  else (0, { store with files := store.files ++ [(fileName, BF_CreateFile)] })

/-- Modelled from the spec: the block store's `open(name) -> handle | fail`
(source not in the repository).  It fails (`-1`) when no file has that name;
otherwise the first free entry of the table of open files is taken and its index
is the handle, which is never negative. -/
def BF_OpenFile (store : BFState) (fileName : FileName) : Int × BFState :=
  if (BFState.find store.files fileName).isSome then
    let handle := BFState.firstFree store.openFiles
    (handle,
      { store with
        openFiles :=
          if handle < store.openFiles.length then store.openFiles.set handle (some fileName)
          else store.openFiles ++ [some fileName] })
  else (-1, store)

/-- Modelled from the spec: the block store's `close(handle) -> ok | fail`
(source not in the repository).  It fails (`-1`) when the handle is not open. -/
def BF_CloseFile (store : BFState) (handle : Int) : Int × BFState :=
  if 0 ≤ handle then
    match store.openFiles.get? handle.toNat with
    | some (some _) => (0, { store with openFiles := store.openFiles.set handle.toNat none })
    | _ => (-1, store)
  else (-1, store)

/-- Modelled from the spec: `BF_ReadBlock` by handle; it fails when the handle is
not open or the file has no block of that index. -/
def BFState.readBlock (BLOCK_SIZE : Nat) (store : BFState) (handle : Int) (blockIndex : Int) :
    Option Block :=
  match store.view handle with
  | none => none
  | some f => BF_ReadBlock BLOCK_SIZE f blockIndex

namespace prj2

/-! ### `Common.h` -/

/-- The macro `INVALID_BLOCK_INDEX`. -/
def INVALID_BLOCK_INDEX : Int := -1

/-- The macro `HEADER_BLOCK_INDEX`. -/
def HEADER_BLOCK_INDEX : Int := 0

/-- The enumerator `HashFile` of `FileType` (`None = 0`, `HeapFile = 1`). -/
def HashFile : Nat := 2

/-- The enumerator `SecondaryHashFile` of `FileType`. -/
def SecondaryHashFile : Nat := 3

/-- The macro `MAX_BUCKET_COUNT_PER_BLOCK`,
`(BLOCK_SIZE - sizeof(HashBucketBlockHeader)) / sizeof(int32_t)`.  `BLOCK_SIZE`
belongs to the block store's header, which is not in the repository, and is a
parameter throughout. -/
def MAX_BUCKET_COUNT_PER_BLOCK (BLOCK_SIZE : Nat) : Nat := (BLOCK_SIZE - 4) / 4

/-- The struct `Record`: `int32_t ID; char Name[15]; char Surname[25];
char Address[50];`.  Each character array is the little-endian number of its
bytes. -/
structure Record where
  ID : Int
  Name : Nat
  Surname : Nat
  Address : Nat
deriving DecidableEq, Repr

/-- The value of `sizeof(Record)`: 94 bytes of fields and 2 of tail padding. -/
def sizeofRecord : Nat := 96

/-- The value of `sizeof(HashDataBlockHeader)`: `uint32_t ElementCount` at
offset 0, `int32_t NextBlockIndex` at offset 4. -/
def sizeofHashDataBlockHeader : Nat := 8

/-- The value of `sizeof(HashBucketBlockHeader)`: `int32_t NextBlockIndex` at
offset 0. -/
def sizeofHashBucketBlockHeader : Nat := 4

/-- The object representation of a `Record`: `ID` at offset 0, `Name` at 4,
`Surname` at 19, `Address` at 44; the two padding bytes are zero. -/
def Record.toBytes (r : Record) : Nat :=
  toUInt32 r.ID + r.Name % 256 ^ 15 * 256 ^ 4
    + r.Surname % 256 ^ 25 * 256 ^ 19 + r.Address % 256 ^ 50 * 256 ^ 44

/-- The `Record` that lies at byte offset `off` of a block (`(Record*)ptr`). -/
def readRecord (b : Block) (off : Nat) : Record where
  ID := readInt32 b off
  Name := readBytes b (off + 4) 15
  Surname := readBytes b (off + 19) 25
  Address := readBytes b (off + 44) 50

/-- The fields of a record are values of their C types: `ID` is an `int32_t` and
the three strings are arrays of 15, 25 and 50 bytes. -/
def Record.InRange (r : Record) : Prop :=
  -2147483648 ≤ r.ID ∧ r.ID < 2147483648 ∧ r.Name < 256 ^ 15 ∧ r.Surname < 256 ^ 25
    ∧ r.Address < 256 ^ 50

instance Record.InRange.decidable (r : Record) : Decidable r.InRange := by
  unfold Record.InRange
  infer_instance

/-- The struct `SecondaryRecord`: `Record Record; int32_t BlockID;`. -/
structure SecondaryRecord where
  Record : Record
  BlockID : Int
deriving DecidableEq, Repr

/-- The bytes of a character array of length `len` that is held as the number
`v`, in order. -/
def charArray (v : Nat) : Nat → List Nat
  | 0 => []
  | len + 1 => v % 256 :: charArray (v / 256) len

/-- The characters of the C string that starts at the first of `bytes`: the bytes
before the first zero byte, all of `bytes` when none of them is zero.  The
functions that take a string from memory say where its bytes come from and what
happens when the memory holds no zero byte (`Record.surnameString`, `strcmp`,
`SHT_SecondaryGetAllEntries`). -/
def cString (bytes : List Nat) : List Nat :=
  bytes.takeWhile fun c => decide (c % 256 ≠ 0)

/-- The string at `record.Surname`, as `strlen`, `strcmp` and the hash function of
`SHT.c` read it from a `Record` object: the characters of `Surname` up to its
first zero byte; when `Surname` holds no zero byte the string runs on into
`Address`, the member that follows it in the struct, up to the first zero byte
there.  `none` when neither array holds a zero byte: the string does not end
inside the two arrays. -/
def Record.surnameString (r : Record) : Option (List Nat) :=
  if (charArray r.Surname 25 ++ charArray r.Address 50).all (fun c => decide (c % 256 ≠ 0)) then
    none
  else some (cString (charArray r.Surname 25 ++ charArray r.Address 50))

/-- The value of `strcmp(p, string) == 0` for a pointer `p` to the byte `off` of
the block `b`, which has `BLOCK_SIZE` bytes; `string` holds the characters of the
second string, without the zero byte that ends it.  The bytes are compared in
order up to the first difference, or up to the zero byte that ends both strings.
`none`: the comparison comes to the end of the block, so that the call reads
memory behind the block. -/
def strcmp (BLOCK_SIZE : Nat) (b : Block) : Nat → List Nat → Option Bool
  | off, [] => if off < BLOCK_SIZE then some (decide (readBytes b off 1 = 0)) else none
  | off, c :: string =>
    if off < BLOCK_SIZE then
      if readBytes b off 1 = c then strcmp BLOCK_SIZE b (off + 1) string else some false
    else none

/-- What a loop over the occupied slots of a block comes to: the first slot whose
string is the one looked for, no such slot, or `outside` when a comparison reads
memory behind the block. -/
inductive SlotScan where
  | found (index : Nat)
  | absent
  | outside
deriving DecidableEq, Repr

/-- The result of a search of the slots of a block, when no comparison reads
behind the block. -/
def SlotScan.ofOption : Option Nat → SlotScan
  | some index => .found index
  | none => .absent

/-- The slot that a loop over the slots of a block has found, if any. -/
def SlotScan.toOption : SlotScan → Option Nat
  | .found index => some index
  | .absent => none
  | .outside => none

/-- The static variables of the program next to the block store: each of `HT.c`
and `SHT.c` has its own `s_HandleStorage`, initially `-1`. -/
structure State where
  store : BFState
  HT_s_HandleStorage : Int
  SHT_s_HandleStorage : Int
deriving DecidableEq, Repr

/-- A non-null pointer to a file handle, as the functions that close a file take
it: the address of the `s_HandleStorage` of `HT.c` (what `HT_OpenIndex`
returns), the address of the one of `SHT.c` (what `SHT_OpenSecondaryIndex`
returns), or the address of some other variable, which holds `value`. -/
inductive HandlePtr where
  | HT_s_HandleStorage
  | SHT_s_HandleStorage
  | other (value : Int)
deriving DecidableEq, Repr

/-- The value `*handle`. -/
def HandlePtr.deref (st : State) : HandlePtr → Int
  | .HT_s_HandleStorage => st.HT_s_HandleStorage
  | .SHT_s_HandleStorage => st.SHT_s_HandleStorage
  | .other value => value

namespace HT

/-- The function `HashFunction` of `HT.c`.  A left shift `key << s` is the
product `key * 2^s` wrapped to 32 bits (`2^6 = 64`, `2^9 = 512`, `2^4 = 16`,
`2^3 = 8`, `2^10 = 1024`), subtractions wrap to 32 bits, right shifts of the
signed `key` are arithmetic, `%` is the C remainder, which truncates toward
zero.  (For `hashTableSize = 0` the C program divides by zero.) -/
def HashFunction (key : Int) (hashTableSize : Int) : Int :=
  let key := toInt32 (key - toInt32 (key * 64))
  let key := Int.xor key (Int.shiftRight key 17)
  let key := toInt32 (key - toInt32 (key * 512))
  let key := Int.xor key (toInt32 (key * 16))
  let key := toInt32 (key - toInt32 (key * 8))
  let key := Int.xor key (toInt32 (key * 1024))
  let key := Int.xor key (Int.shiftRight key 15)
  Int.tmod key hashTableSize

/-- The macro `MAX_RECORD_COUNT_PER_BLOCK` of `HT.c`,
`(BLOCK_SIZE - sizeof(HashDataBlockHeader)) / sizeof(Record)`. -/
def MAX_RECORD_COUNT_PER_BLOCK (BLOCK_SIZE : Nat) : Nat :=
  (BLOCK_SIZE - sizeofHashDataBlockHeader) / sizeofRecord

/-- The loop of `HT_CreateIndex` over the required bucket blocks (lines 100-198),
with `k` iterations left.  The result is the return code and the file. -/
def HT_CreateIndex.loop (BLOCK_SIZE : Nat) (bucketCount requiredBlockCount : Int) :
    Nat → Int → Int → File → Int × File
  | 0, _, _, f => (0, f)
  | k + 1, index, previousBucketBlockIndex, f =>
    let f := BF_AllocateBlock BLOCK_SIZE f
    let blockCount := BF_GetBlockCounter f
    let newBucketBlockIndex := blockCount - 1
    match BF_ReadBlock BLOCK_SIZE f newBucketBlockIndex with
    | none => (-1, f)
    | some newBucketBlock =>
      let newBucketBlock := writeInt32 newBucketBlock 0 INVALID_BLOCK_INDEX
      let bucketCountInCurrentBucketBlock : Int :=
        if index = requiredBlockCount - 1 then
          toInt32 (toUInt64 bucketCount % MAX_BUCKET_COUNT_PER_BLOCK BLOCK_SIZE : Nat)
        else toInt32 (MAX_BUCKET_COUNT_PER_BLOCK BLOCK_SIZE : Nat)
      let newBucketBlock := memset newBucketBlock sizeofHashBucketBlockHeader INVALID_BLOCK_INDEX
        (toUInt64 bucketCountInCurrentBucketBlock * 4 % 2 ^ 64)
      let f := BF_WriteBlock BLOCK_SIZE f newBucketBlockIndex newBucketBlock
      match BF_ReadBlock BLOCK_SIZE f previousBucketBlockIndex with
      | none => (-1, f)
      | some previousBucketBlock =>
        let previousBucketBlock :=
          if previousBucketBlockIndex = HEADER_BLOCK_INDEX then
            writeInt32 previousBucketBlock 8 newBucketBlockIndex
          else writeInt32 previousBucketBlock 0 newBucketBlockIndex
        let f := BF_WriteBlock BLOCK_SIZE f previousBucketBlockIndex previousBucketBlock
        HT_CreateIndex.loop BLOCK_SIZE bucketCount requiredBlockCount k (index + 1)
          newBucketBlockIndex f

/-- The function `HT_CreateIndex`: the return code and the file it leaves.  The
block store creates an empty file; `HashFileHeader` has `Type` at offset 0,
`BucketCount` at 4 and `NextBlockIndex` at 8. -/
def HT_CreateIndex (BLOCK_SIZE : Nat) (bucketCount : Int) : Int × File :=
  let f : File := BF_CreateFile
  let f := BF_AllocateBlock BLOCK_SIZE f
  match BF_ReadBlock BLOCK_SIZE f HEADER_BLOCK_INDEX with
  | none => (-1, f)
  | some headerBlock =>
    let headerBlock := writeInt32 headerBlock 0 HashFile
    let headerBlock := writeInt32 headerBlock 4 bucketCount
    let headerBlock := writeInt32 headerBlock 8 INVALID_BLOCK_INDEX
    let f := BF_WriteBlock BLOCK_SIZE f HEADER_BLOCK_INDEX headerBlock
    let requiredBlockCount : Int :=
      toInt32 (toUInt64 bucketCount / MAX_BUCKET_COUNT_PER_BLOCK BLOCK_SIZE : Nat)
    let requiredBlockCount : Int :=
      toInt32 (requiredBlockCount
        + (if toUInt64 bucketCount % MAX_BUCKET_COUNT_PER_BLOCK BLOCK_SIZE > 0 then 1 else 0))
    HT_CreateIndex.loop BLOCK_SIZE bucketCount requiredBlockCount requiredBlockCount.toNat 0
      HEADER_BLOCK_INDEX f

/-- The value `bucketBlockNumber` that insert, delete and keyed scan compute from
`bucketIndex` (lines 302-303, 609-610, 776-777); the division and remainder are
taken in `size_t`. -/
def bucketBlockNumber (BLOCK_SIZE : Nat) (bucketIndex : Int) : Int :=
  let n : Int := toInt32 (toUInt64 (toInt32 (bucketIndex + 1)) / MAX_BUCKET_COUNT_PER_BLOCK BLOCK_SIZE : Nat)
  toInt32 (n + (if toUInt64 (toInt32 (bucketIndex + 1)) % MAX_BUCKET_COUNT_PER_BLOCK BLOCK_SIZE > 0
    then 1 else 0))

/-- The loop `for (index = 0; index < bucketBlockNumber; index++)` over the bucket
blocks (lines 312-330, 619-637, 786-807), with `k` iterations left: `none` when
a read fails, else the final `(previousBucketBlockIndex, currentBucketBlockIndex)`. -/
def walkBucketBlocks (BLOCK_SIZE : Nat) (f : File) : Nat → Int → Int → Option (Int × Int)
  | 0, previousBucketBlockIndex, currentBucketBlockIndex =>
    some (previousBucketBlockIndex, currentBucketBlockIndex)
  | k + 1, _, currentBucketBlockIndex =>
    match BF_ReadBlock BLOCK_SIZE f currentBucketBlockIndex with
    | none => none
    | some currentBucketBlock =>
      walkBucketBlocks BLOCK_SIZE f k currentBucketBlockIndex (readInt32 currentBucketBlock 0)

/-- The byte offset, inside its bucket block, of the bucket `bucketIndex`
(lines 336 and 349-353): the header, then `bucketIndexInBucketBlock` slots. -/
def bucketOffset (BLOCK_SIZE : Nat) (bucketIndex : Int) : Nat :=
  let bucketIndexInBucketBlock : Int :=
    toInt32 (toUInt64 bucketIndex % MAX_BUCKET_COUNT_PER_BLOCK BLOCK_SIZE : Nat)
  sizeofHashBucketBlockHeader + (toUInt64 bucketIndexInBucketBlock * 4 % 2 ^ 64)

/-- The inner loop `for (recordIndex = 0; recordIndex < ElementCount; recordIndex++)`
that compares `currentRecord->ID` with `key`, with `k` iterations left: the first
`recordIndex` whose record has that ID. -/
def findRecord (b : Block) (key : Int) : Nat → Nat → Option Nat
  | 0, _ => none
  | k + 1, recordIndex =>
    if readInt32 b (sizeofHashDataBlockHeader + sizeofRecord * recordIndex) = key then
      some recordIndex
    else findRecord b key k (recordIndex + 1)

/-- The first `while` loop of `HT_InsertEntry` (lines 364-401), which looks for a
record with the ID of `record`: `ret (-1)` when the function returns there,
`next ()` when the chain ends.  `none`: the loop does not end. -/
def HT_InsertEntry.checkLoop (BLOCK_SIZE : Nat) (f : File) (record : Record) :
    Nat → Int → Option (CFlow Int Unit)
  | 0, _ => none
  | fuel + 1, currentDataBlockIndex =>
    if currentDataBlockIndex = INVALID_BLOCK_INDEX then some (.next ())
    else
      match BF_ReadBlock BLOCK_SIZE f currentDataBlockIndex with
      | none => some (.ret (-1))
      | some currentDataBlock =>
        match findRecord currentDataBlock record.ID (readUInt32 currentDataBlock 0) 0 with
        | some _ => some (.ret (-1))
        | none =>
          HT_InsertEntry.checkLoop BLOCK_SIZE f record fuel (readInt32 currentDataBlock 4)

/-- The second `while` loop of `HT_InsertEntry` (lines 412-459), which inserts into
the first block with room: `ret` with the return code and the file when the
function returns there, `next previousDataBlockIndex` when the chain ends. -/
def HT_InsertEntry.insertLoop (BLOCK_SIZE : Nat) (f : File) (record : Record) :
    Nat → Int → Int → Option (CFlow (Int × File) Int)
  | 0, _, _ => none
  | fuel + 1, previousDataBlockIndex, currentDataBlockIndex =>
    if currentDataBlockIndex = INVALID_BLOCK_INDEX then some (.next previousDataBlockIndex)
    else
      match BF_ReadBlock BLOCK_SIZE f currentDataBlockIndex with
      | none => some (.ret (-1, f))
      | some currentDataBlock =>
        let ElementCount := readUInt32 currentDataBlock 0
        if ElementCount < MAX_RECORD_COUNT_PER_BLOCK BLOCK_SIZE then
          let currentDataBlock := writeBytes currentDataBlock
            (sizeofHashDataBlockHeader + ElementCount * sizeofRecord % 2 ^ 64) sizeofRecord
            record.toBytes
          let currentDataBlock := writeInt32 currentDataBlock 0 (ElementCount + 1 : Nat)
          some (.ret (currentDataBlockIndex, BF_WriteBlock BLOCK_SIZE f currentDataBlockIndex currentDataBlock))
        else
          HT_InsertEntry.insertLoop BLOCK_SIZE f record fuel currentDataBlockIndex
            (readInt32 currentDataBlock 4)

/-- The end of `HT_InsertEntry` (lines 461-582): a new data block is allocated,
filled with the record and linked after `previousDataBlockIndex`, or entered in
the bucket when there is no previous data block. -/
def HT_InsertEntry.newBlock (BLOCK_SIZE : Nat) (f : File) (record : Record) (previousDataBlockIndex : Int)
    (bucketBlockIndex : Int) (bucketOffset : Nat) : Int × File :=
  let f := BF_AllocateBlock BLOCK_SIZE f
  let blockCount := BF_GetBlockCounter f
  let newDataBlockIndex := blockCount - 1
  match BF_ReadBlock BLOCK_SIZE f newDataBlockIndex with
  | none => (-1, f)
  | some newDataBlock =>
    let newDataBlock := writeInt32 newDataBlock 0 1
    let newDataBlock := writeInt32 newDataBlock 4 INVALID_BLOCK_INDEX
    let newDataBlock := writeBytes newDataBlock sizeofHashDataBlockHeader sizeofRecord record.toBytes
    let f := BF_WriteBlock BLOCK_SIZE f newDataBlockIndex newDataBlock
    if previousDataBlockIndex ≠ INVALID_BLOCK_INDEX then
      match BF_ReadBlock BLOCK_SIZE f previousDataBlockIndex with
      | none => (-1, f)
      | some previousDataBlock =>
        let previousDataBlock := writeInt32 previousDataBlock 4 newDataBlockIndex
        (newDataBlockIndex, BF_WriteBlock BLOCK_SIZE f previousDataBlockIndex previousDataBlock)
    else
      match BF_ReadBlock BLOCK_SIZE f bucketBlockIndex with
      | none => (-1, f)
      | some bucketBlock =>
        let bucketBlock := writeInt32 bucketBlock bucketOffset newDataBlockIndex
        (newDataBlockIndex, BF_WriteBlock BLOCK_SIZE f bucketBlockIndex bucketBlock)

/-- The function `HT_InsertEntry`, on the file that `handle` designates: the
return code and the file afterwards; `none` when a chain loop does not end. -/
def HT_InsertEntry (BLOCK_SIZE : Nat) (f : File) (record : Record) : Option (Int × File) :=
  match BF_ReadBlock BLOCK_SIZE f HEADER_BLOCK_INDEX with
  | none => some (-1, f)
  | some headerBlock =>
    let bucketIndex := HashFunction record.ID (toInt32 (readUInt32 headerBlock 4 : Nat))
    match walkBucketBlocks BLOCK_SIZE f (bucketBlockNumber BLOCK_SIZE bucketIndex).toNat
        INVALID_BLOCK_INDEX (readInt32 headerBlock 8) with
    | none => some (-1, f)
    | some (bucketBlockIndex, _) =>
      match BF_ReadBlock BLOCK_SIZE f bucketBlockIndex with
      | none => some (-1, f)
      | some bucketBlock =>
        let dataBlockIndex := readInt32 bucketBlock (bucketOffset BLOCK_SIZE bucketIndex)
        match HT_InsertEntry.checkLoop BLOCK_SIZE f record (f.blockCount + 1) dataBlockIndex with
        | none => none
        | some (.ret r) => some (r, f)
        | some (.next _) =>
          match HT_InsertEntry.insertLoop BLOCK_SIZE f record (f.blockCount + 1)
              INVALID_BLOCK_INDEX dataBlockIndex with
          | none => none
          | some (.ret r) => some r
          | some (.next previousDataBlockIndex) =>
            some (HT_InsertEntry.newBlock BLOCK_SIZE f record previousDataBlockIndex bucketBlockIndex
              (bucketOffset BLOCK_SIZE bucketIndex))

/-- The body of `if (currentRecord->ID == key)` in `HT_DeleteEntry` (lines 696-715),
for the record at `recordIndex` of `currentDataBlock`: the later records move
down by one record (the copy runs from low to high addresses), the count drops
by one and the bytes after the last record are zeroed up to `BLOCK_SIZE`. -/
def HT_DeleteEntry.removeRecord (BLOCK_SIZE : Nat) (currentDataBlock : Block)
    (recordIndex : Nat) : Block :=
  let ElementCount := readUInt32 currentDataBlock 0
  let ptr := sizeofHashDataBlockHeader + sizeofRecord * recordIndex
  let byteCountOfRecordDataAfterCurrentRecord : Nat :=
    toUInt32 ((toUInt32 ((ElementCount : Int) - (recordIndex + 1)) * sizeofRecord % 2 ^ 64 : Nat) : Int)
  let currentDataBlock := writeBytes currentDataBlock ptr byteCountOfRecordDataAfterCurrentRecord
    (readBytes currentDataBlock (ptr + sizeofRecord) byteCountOfRecordDataAfterCurrentRecord)
  let currentDataBlock := writeInt32 currentDataBlock 0 ((ElementCount : Int) - 1)
  let ptr := ptr + byteCountOfRecordDataAfterCurrentRecord
  let emptyByteCount : Nat :=
    toUInt32 ((BLOCK_SIZE : Int)
      - ((sizeofHashDataBlockHeader + readUInt32 currentDataBlock 0 * sizeofRecord : Nat) : Int))
  memset currentDataBlock ptr 0 emptyByteCount

/-- The `while` loop of `HT_DeleteEntry` (lines 669-736): `ret` with the return
code and the file when the function returns inside the loop, `next ()` when the
chain ends without a match. -/
def HT_DeleteEntry.loop (BLOCK_SIZE : Nat) (f : File) (key : Int) :
    Nat → Int → Option (CFlow (Int × File) Unit)
  | 0, _ => none
  | fuel + 1, currentDataBlockIndex =>
    if currentDataBlockIndex = INVALID_BLOCK_INDEX then some (.next ())
    else
      match BF_ReadBlock BLOCK_SIZE f currentDataBlockIndex with
      | none => some (.ret (-1, f))
      | some currentDataBlock =>
        match findRecord currentDataBlock key (readUInt32 currentDataBlock 0) 0 with
        | some recordIndex =>
          some (.ret (0, BF_WriteBlock BLOCK_SIZE f currentDataBlockIndex
            (HT_DeleteEntry.removeRecord BLOCK_SIZE currentDataBlock recordIndex)))
        | none => HT_DeleteEntry.loop BLOCK_SIZE f key fuel (readInt32 currentDataBlock 4)

/-- The function `HT_DeleteEntry` with `*keyValue = key`.  When the header block
cannot be read the C function executes `return nullptr`, that is, returns 0. -/
def HT_DeleteEntry (BLOCK_SIZE : Nat) (f : File) (key : Int) : Option (Int × File) :=
  match BF_ReadBlock BLOCK_SIZE f HEADER_BLOCK_INDEX with
  | none => some (0, f)
  | some headerBlock =>
    let bucketIndex := HashFunction key (toInt32 (readUInt32 headerBlock 4 : Nat))
    match walkBucketBlocks BLOCK_SIZE f (bucketBlockNumber BLOCK_SIZE bucketIndex).toNat
        INVALID_BLOCK_INDEX (readInt32 headerBlock 8) with
    | none => some (-1, f)
    | some (bucketBlockIndex, _) =>
      match BF_ReadBlock BLOCK_SIZE f bucketBlockIndex with
      | none => some (-1, f)
      | some bucketBlock =>
        let dataBlockIndex := readInt32 bucketBlock (bucketOffset BLOCK_SIZE bucketIndex)
        match HT_DeleteEntry.loop BLOCK_SIZE f key (f.blockCount + 1) dataBlockIndex with
        | none => none
        | some (.ret r) => some r
        | some (.next _) => some (-1, f)

/-- The `while` loop of the keyed branch of `HT_GetAllEntries` (lines 839-879).
The state is `blocksTraversed`; `ret (r, out)` is a return of `r` after printing
the records `out`. -/
def HT_GetAllEntries.keyLoop (BLOCK_SIZE : Nat) (f : File) (key : Int) :
    Nat → Int → Nat → Option (CFlow (Int × List Record) Unit)
  | 0, _, _ => none
  | fuel + 1, currentDataBlockIndex, blocksTraversed =>
    if currentDataBlockIndex = INVALID_BLOCK_INDEX then some (.next ())
    else
      match BF_ReadBlock BLOCK_SIZE f currentDataBlockIndex with
      | none => some (.ret (-1, []))
      | some currentDataBlock =>
        let blocksTraversed := (blocksTraversed + 1) % 2 ^ 32
        match findRecord currentDataBlock key (readUInt32 currentDataBlock 0) 0 with
        | some recordIndex =>
          some (.ret (toInt32 (blocksTraversed : Nat),
            [readRecord currentDataBlock (sizeofHashDataBlockHeader + sizeofRecord * recordIndex)]))
        | none =>
          HT_GetAllEntries.keyLoop BLOCK_SIZE f key fuel (readInt32 currentDataBlock 4) blocksTraversed

/-- The innermost loop of the full scan (lines 954-962), which prints the records
of a data block at `recordIndex, recordIndex + 1, ...`, `k` of them.  `out` is
the list of the records printed so far, the latest first. -/
def printRecords (b : Block) : Nat → Nat → List Record → List Record
  | 0, _, out => out
  | k + 1, recordIndex, out =>
    printRecords b k (recordIndex + 1)
      (readRecord b (sizeofHashDataBlockHeader + sizeofRecord * recordIndex) :: out)

/-- The loop over the data blocks of one bucket in the full scan (lines 932-966).
The state is `(blocksTraversed, out)`, `out` being the records printed so far,
the latest first; a return carries them in the order of printing. -/
def HT_GetAllEntries.dataLoop (BLOCK_SIZE : Nat) (f : File) :
    Nat → Int → Nat × List Record → Option (CFlow (Int × List Record) (Nat × List Record))
  | 0, _, _ => none
  | fuel + 1, currentDataBlockIndex, (blocksTraversed, out) =>
    if currentDataBlockIndex = INVALID_BLOCK_INDEX then some (.next (blocksTraversed, out))
    else
      match BF_ReadBlock BLOCK_SIZE f currentDataBlockIndex with
      | none => some (.ret (-1, out.reverse))
      | some currentDataBlock =>
        HT_GetAllEntries.dataLoop BLOCK_SIZE f fuel (readInt32 currentDataBlock 4)
          ((blocksTraversed + 1) % 2 ^ 32,
            printRecords currentDataBlock (readUInt32 currentDataBlock 0) 0 out)

/-- The loop `for (bucketIndex = 0; bucketIndex < bucketsInCurrentBlock; bucketIndex++)`
of the full scan (lines 926-967), with `k` iterations left; `bucketValues` is
the copy of the bucket block taken before the loop. -/
def HT_GetAllEntries.bucketLoop (BLOCK_SIZE : Nat) (f : File) (bucketValues : Block) :
    Nat → Nat → Nat × List Record → Option (CFlow (Int × List Record) (Nat × List Record))
  | 0, _, st => some (.next st)
  | k + 1, bucketIndex, st =>
    match HT_GetAllEntries.dataLoop BLOCK_SIZE f (f.blockCount + 1)
        (readInt32 bucketValues (sizeofHashBucketBlockHeader + 4 * bucketIndex)) st with
    | none => none
    | some (.ret r) => some (.ret r)
    | some (.next st) => HT_GetAllEntries.bucketLoop BLOCK_SIZE f bucketValues k (bucketIndex + 1) st

/-- The loop over the bucket blocks in the full scan (lines 892-970). -/
def HT_GetAllEntries.bucketBlockLoop (BLOCK_SIZE : Nat) (f : File) (bucketCount : Nat) :
    Nat → Int → Nat × List Record → Option (CFlow (Int × List Record) (Nat × List Record))
  | 0, _, _ => none
  | fuel + 1, currentBucketBlockIndex, (blocksTraversed, out) =>
    if currentBucketBlockIndex = INVALID_BLOCK_INDEX then some (.next (blocksTraversed, out))
    else
      match BF_ReadBlock BLOCK_SIZE f currentBucketBlockIndex with
      | none => some (.ret (-1, out.reverse))
      | some currentBucketBlock =>
        let blocksTraversed := (blocksTraversed + 1) % 2 ^ 32
        let NextBlockIndex := readInt32 currentBucketBlock 0
        let bucketsInCurrentBlock : Int :=
          if NextBlockIndex = INVALID_BLOCK_INDEX then
            toInt32 (bucketCount % MAX_BUCKET_COUNT_PER_BLOCK BLOCK_SIZE : Nat)
          else toInt32 (MAX_BUCKET_COUNT_PER_BLOCK BLOCK_SIZE : Nat)
        match HT_GetAllEntries.bucketLoop BLOCK_SIZE f currentBucketBlock (toUInt32 bucketsInCurrentBlock) 0
            (blocksTraversed, out) with
        | none => none
        | some (.ret r) => some (.ret r)
        | some (.next st) =>
          HT_GetAllEntries.bucketBlockLoop BLOCK_SIZE f bucketCount fuel NextBlockIndex st

/-- The function `HT_GetAllEntries`; `keyValue = none` is the null pointer.  The
result is the return code and the records printed, in order. -/
def HT_GetAllEntries (BLOCK_SIZE : Nat) (f : File) (keyValue : Option Int) :
    Option (Int × List Record) :=
  let key : Int := match keyValue with
    | some v => v
    | none => -1
  match BF_ReadBlock BLOCK_SIZE f HEADER_BLOCK_INDEX with
  | none => some (-1, [])
  | some headerBlock =>
    let blocksTraversed : Nat := 1
    if key ≠ -1 then
      let bucketIndex := HashFunction key (toInt32 (readUInt32 headerBlock 4 : Nat))
      match walkBucketBlocks BLOCK_SIZE f (bucketBlockNumber BLOCK_SIZE bucketIndex).toNat
          INVALID_BLOCK_INDEX (readInt32 headerBlock 8) with
      | none => some (-1, [])
      | some (bucketBlockIndex, _) =>
        let blocksTraversed :=
          (blocksTraversed + (bucketBlockNumber BLOCK_SIZE bucketIndex).toNat) % 2 ^ 32
        match BF_ReadBlock BLOCK_SIZE f bucketBlockIndex with
        | none => some (-1, [])
        | some bucketBlock =>
          let dataBlockIndex := readInt32 bucketBlock (bucketOffset BLOCK_SIZE bucketIndex)
          match HT_GetAllEntries.keyLoop BLOCK_SIZE f key (f.blockCount + 1) dataBlockIndex blocksTraversed with
          | none => none
          | some (.ret r) => some r
          | some (.next _) => some (-1, [])
    else
      match HT_GetAllEntries.bucketBlockLoop BLOCK_SIZE f (readUInt32 headerBlock 4)
          (f.blockCount + 1) (readInt32 headerBlock 8) (blocksTraversed, []) with
      | none => none
      | some (.ret r) => some r
      | some (.next (blocksTraversed, out)) => some (toInt32 (blocksTraversed : Nat), out.reverse)

/-- The function `HT_CreateIndex` on a store: the block level file `fileName` is
created and opened, `HT_CreateIndex` of above runs on it, and it is closed.
The result is the return code and the store. -/
def HT_CreateIndex.inStore (BLOCK_SIZE : Nat) (store : BFState) (fileName : FileName)
    (bucketCount : Int) : Int × BFState :=
  let (created, store) := store.createFile fileName
  if created < 0 then (-1, store)
  else
    let (fileHandle, store) := BF_OpenFile store fileName
    if fileHandle < 0 then (-1, store)
    else
      let (code, f) := HT_CreateIndex BLOCK_SIZE bucketCount
      let store := store.update fileHandle f
      if code ≠ 0 then (-1, store)
      else
        let (closed, store) := BF_CloseFile store fileHandle
        if closed < 0 then (-1, store) else (0, store)

/-- The function `HT_OpenIndex`: `none` is the null pointer, `some p` the pointer
returned. -/
def HT_OpenIndex (BLOCK_SIZE : Nat) (st : State) (fileName : FileName) :
    Option HandlePtr × State :=
  if st.HT_s_HandleStorage ≠ -1 then (none, st)
  else
    let (fileHandle, store) := BF_OpenFile st.store fileName
    let st := { st with store := store }
    if fileHandle < 0 then (none, st)
    else
      match st.store.readBlock BLOCK_SIZE fileHandle HEADER_BLOCK_INDEX with
      | none => (none, st)
      | some headerBlock =>
        if readUInt32 headerBlock 0 ≠ HashFile then (none, st)
        else (some .HT_s_HandleStorage, { st with HT_s_HandleStorage := fileHandle })

/-- The function `HT_CloseIndex`. -/
def HT_CloseIndex (st : State) (handle : HandlePtr) : Int × State :=
  if st.HT_s_HandleStorage ≠ handle.deref st then (-1, st)
  else
    let (closed, store) := BF_CloseFile st.store (handle.deref st)
    if closed < 0 then (-1, { st with store := store })
    else (0, { st with store := store, HT_s_HandleStorage := -1 })

/-- The calls `HT_InsertEntry(handle, record)`, `HT_DeleteEntry(handle, &key)` and
`HT_GetAllEntries(handle, keyValue)` on a store: the function of above runs on
the file that `handle` designates.  When the handle is not open the first
`BF_ReadBlock` of each function fails. -/
def HT_InsertEntry.inStore (BLOCK_SIZE : Nat) (store : BFState) (handle : Int) (record : Record) :
    Option (Int × BFState) :=
  match store.view handle with
  | none => some (-1, store)
  | some f => (HT_InsertEntry BLOCK_SIZE f record).map fun r => (r.1, store.update handle r.2)

@[inherit_doc HT_InsertEntry.inStore]
def HT_DeleteEntry.inStore (BLOCK_SIZE : Nat) (store : BFState) (handle : Int) (key : Int) :
    Option (Int × BFState) :=
  match store.view handle with
  | none => some (0, store)
  | some f => (HT_DeleteEntry BLOCK_SIZE f key).map fun r => (r.1, store.update handle r.2)

@[inherit_doc HT_InsertEntry.inStore]
def HT_GetAllEntries.inStore (BLOCK_SIZE : Nat) (store : BFState) (handle : Int)
    (keyValue : Option Int) : Option (Int × List Record) :=
  match store.view handle with
  | none => some (-1, [])
  | some f => HT_GetAllEntries BLOCK_SIZE f keyValue

end HT

namespace SHT

/-- The `while` loop of `HashFunction` in `SHT.c`.  The argument list holds the
bytes at `string`, `string + 1`, ...; the loop stops at the first zero byte
(the end of the list stands for the terminator as well).  `character` is an
`int8_t`, so it is sign-extended when added to the 64-bit `hash`; `hash << 5`
is `hash * 32` modulo `2^64`. -/
def HashFunction.loop : List Nat → Nat → Nat
  | [], hash => hash
  | c :: string, hash =>
    if toInt8 c = 0 then hash
    else
      HashFunction.loop string
        (toUInt64 (((((hash * 32) % 18446744073709551616 + hash) % 18446744073709551616 : Nat) : Int)
          + toInt8 c))

/-- The function `HashFunction` of `SHT.c`: `hash % hashTableSize` is computed
in `uint64_t` and returned as `uint32_t`. -/
def HashFunction (string : List Nat) (hashTableSize : Int) : Nat :=
  toUInt32 ((HashFunction.loop string 5381 % toUInt64 hashTableSize : Nat) : Int)

/-- The string hash as the specification words it: from the seed 5381,
`h := h * 33 + b` for each byte `b` before the terminator, `b` taken as the
unsigned value of the byte and `h` kept modulo `2^64`. -/
def djb2Unsigned : List Nat → Nat → Nat
  | [], h => h
  | b :: s, h => if b % 256 = 0 then h else djb2Unsigned s ((h * 33 + b % 256) % 2 ^ 64)

/-- The same recurrence with `b` the signed value of the byte, in
`-128 .. 127`, added modulo `2^64`. -/
def djb2Signed : List Nat → Nat → Nat
  | [], h => h
  | b :: s, h =>
    if b % 256 = 0 then h
    else djb2Signed s (((h * 33 : Nat) + toInt8 b : Int) % 2 ^ 64).toNat

/-- The struct `DataSegment` of `SHT.c`: `char Surname[25]; int32_t BlockID;`,
with `Surname` at offset 0 and `BlockID` at offset 28. -/
structure DataSegment where
  Surname : Nat
  BlockID : Int
deriving DecidableEq, Repr

/-- The value of `sizeof(DataSegment)`: 25 bytes, 3 of padding, 4 bytes. -/
def sizeofDataSegment : Nat := 32

/-- The macro `MAX_DATA_SEGMENT_COUNT_PER_BLOCK` of `SHT.c`,
`(BLOCK_SIZE - sizeof(HashDataBlockHeader)) / sizeof(DataSegment)`. -/
def MAX_DATA_SEGMENT_COUNT_PER_BLOCK (BLOCK_SIZE : Nat) : Nat :=
  (BLOCK_SIZE - sizeofHashDataBlockHeader) / sizeofDataSegment

/-- The object representation of a `DataSegment` that was zero-initialised and
then filled; the padding bytes are zero. -/
def DataSegment.toBytes (d : DataSegment) : Nat :=
  d.Surname % 256 ^ 25 + toUInt32 d.BlockID * 256 ^ 28

/-- The `DataSegment` that lies at byte offset `off` of a block. -/
def readDataSegment (b : Block) (off : Nat) : DataSegment where
  Surname := readBytes b off 25
  BlockID := readInt32 b (off + 28)

/-- The loop of `SHT_CreateSecondaryIndex` over the required bucket blocks
(lines 146-244), with `k` iterations left. -/
def SHT_CreateSecondaryIndex.loop (BLOCK_SIZE : Nat) (bucketCount requiredBlockCount : Int) :
    Nat → Int → Int → File → Int × File
  | 0, _, _, f => (0, f)
  | k + 1, index, previousBucketBlockIndex, f =>
    let f := BF_AllocateBlock BLOCK_SIZE f
    let blockCount := BF_GetBlockCounter f
    let newBucketBlockIndex := blockCount - 1
    match BF_ReadBlock BLOCK_SIZE f newBucketBlockIndex with
    | none => (-1, f)
    | some newBucketBlock =>
      let newBucketBlock := writeInt32 newBucketBlock 0 INVALID_BLOCK_INDEX
      let bucketCountInCurrentBucketBlock : Int :=
        if index = requiredBlockCount - 1 then
          toInt32 (toUInt64 bucketCount % MAX_BUCKET_COUNT_PER_BLOCK BLOCK_SIZE : Nat)
        else toInt32 (MAX_BUCKET_COUNT_PER_BLOCK BLOCK_SIZE : Nat)
      let newBucketBlock := memset newBucketBlock sizeofHashBucketBlockHeader INVALID_BLOCK_INDEX
        (toUInt64 bucketCountInCurrentBucketBlock * 4 % 2 ^ 64)
      let f := BF_WriteBlock BLOCK_SIZE f newBucketBlockIndex newBucketBlock
      match BF_ReadBlock BLOCK_SIZE f previousBucketBlockIndex with
      | none => (-1, f)
      | some previousBucketBlock =>
        let previousBucketBlock :=
          if previousBucketBlockIndex = HEADER_BLOCK_INDEX then
            writeInt32 previousBucketBlock 8 newBucketBlockIndex
          else writeInt32 previousBucketBlock 0 newBucketBlockIndex
        let f := BF_WriteBlock BLOCK_SIZE f previousBucketBlockIndex previousBucketBlock
        SHT_CreateSecondaryIndex.loop BLOCK_SIZE bucketCount requiredBlockCount k (index + 1)
          newBucketBlockIndex f

/-- The part of `SHT_CreateSecondaryIndex` that makes the file, its header and
its bucket blocks (lines 78-244), entered once the primary file has passed
`CheckForPrimaryHashFile`: the return code so far (0 when control reaches line
246) and the file.  The insertion of the primary file's records follows it. -/
def SHT_CreateSecondaryIndex.directory (BLOCK_SIZE : Nat) (bucketCount : Int) : Int × File :=
  let f : File := BF_CreateFile
  let f := BF_AllocateBlock BLOCK_SIZE f
  match BF_ReadBlock BLOCK_SIZE f HEADER_BLOCK_INDEX with
  | none => (-1, f)
  | some headerBlock =>
    let headerBlock := writeInt32 headerBlock 0 SecondaryHashFile
    let headerBlock := writeInt32 headerBlock 4 bucketCount
    let headerBlock := writeInt32 headerBlock 8 INVALID_BLOCK_INDEX
    let f := BF_WriteBlock BLOCK_SIZE f HEADER_BLOCK_INDEX headerBlock
    let requiredBlockCount : Int :=
      toInt32 (toUInt64 bucketCount / MAX_BUCKET_COUNT_PER_BLOCK BLOCK_SIZE : Nat)
    let requiredBlockCount : Int :=
      toInt32 (requiredBlockCount
        + (if toUInt64 bucketCount % MAX_BUCKET_COUNT_PER_BLOCK BLOCK_SIZE > 0 then 1 else 0))
    SHT_CreateSecondaryIndex.loop BLOCK_SIZE bucketCount requiredBlockCount
      requiredBlockCount.toNat 0 HEADER_BLOCK_INDEX f

/-- The inner loop `for (dataSegmentIndex = 0; dataSegmentIndex < ElementCount;
dataSegmentIndex++)` that compares `currentDataSegment->Surname` with the string
`surname` by `strcmp` (lines 544-558 and 874-926), with `k` iterations left: the
first `dataSegmentIndex` at which `strcmp` gives 0.  `Surname` is the first
member of a `DataSegment`. -/
def findDataSegment (BLOCK_SIZE : Nat) (b : Block) (surname : List Nat) : Nat → Nat → SlotScan
  | 0, _ => .absent
  | k + 1, dataSegmentIndex =>
    match strcmp BLOCK_SIZE b (sizeofHashDataBlockHeader + sizeofDataSegment * dataSegmentIndex)
        surname with
    | none => .outside
    | some true => .found dataSegmentIndex
    | some false => findDataSegment BLOCK_SIZE b surname k (dataSegmentIndex + 1)

/-- The first `while` loop of `SHT_SecondaryInsertEntry` (lines 525-562), which
looks for a segment with the surname: `ret (-1)` when the function returns
there, `next ()` when the chain ends.  `none`: the loop does not end, or a
comparison reads memory behind a block. -/
def SHT_SecondaryInsertEntry.checkLoop (BLOCK_SIZE : Nat) (f : File) (surname : List Nat) :
    Nat → Int → Option (CFlow Int Unit)
  | 0, _ => none
  | fuel + 1, currentDataBlockIndex =>
    if currentDataBlockIndex = INVALID_BLOCK_INDEX then some (.next ())
    else
      match BF_ReadBlock BLOCK_SIZE f currentDataBlockIndex with
      | none => some (.ret (-1))
      | some currentDataBlock =>
        match findDataSegment BLOCK_SIZE currentDataBlock surname (readUInt32 currentDataBlock 0)
            0 with
        | .outside => none
        | .found _ => some (.ret (-1))
        | .absent =>
          SHT_SecondaryInsertEntry.checkLoop BLOCK_SIZE f surname fuel (readInt32 currentDataBlock 4)

/-- The second `while` loop of `SHT_SecondaryInsertEntry` (lines 578-625), which
inserts into the first block with room: `ret` with the return code and the file
when the function returns there, `next previousDataBlockIndex` when the chain
ends. -/
def SHT_SecondaryInsertEntry.insertLoop (BLOCK_SIZE : Nat) (f : File) (dataSegment : DataSegment) :
    Nat → Int → Int → Option (CFlow (Int × File) Int)
  | 0, _, _ => none
  | fuel + 1, previousDataBlockIndex, currentDataBlockIndex =>
    if currentDataBlockIndex = INVALID_BLOCK_INDEX then some (.next previousDataBlockIndex)
    else
      match BF_ReadBlock BLOCK_SIZE f currentDataBlockIndex with
      | none => some (.ret (-1, f))
      | some currentDataBlock =>
        let ElementCount := readUInt32 currentDataBlock 0
        if ElementCount < MAX_DATA_SEGMENT_COUNT_PER_BLOCK BLOCK_SIZE then
          let currentDataBlock := writeBytes currentDataBlock
            (sizeofHashDataBlockHeader + ElementCount * sizeofDataSegment % 2 ^ 64) sizeofDataSegment
            dataSegment.toBytes
          let currentDataBlock := writeInt32 currentDataBlock 0 (ElementCount + 1 : Nat)
          some (.ret (0, BF_WriteBlock BLOCK_SIZE f currentDataBlockIndex currentDataBlock))
        else
          SHT_SecondaryInsertEntry.insertLoop BLOCK_SIZE f dataSegment fuel currentDataBlockIndex
            (readInt32 currentDataBlock 4)

/-- The end of `SHT_SecondaryInsertEntry` (lines 627-747): a new data block is
allocated, filled with the segment and linked after `previousDataBlockIndex`, or
entered in the bucket when there is no previous data block. -/
def SHT_SecondaryInsertEntry.newBlock (BLOCK_SIZE : Nat) (f : File) (dataSegment : DataSegment)
    (previousDataBlockIndex : Int) (bucketBlockIndex : Int) (bucketOffset : Nat) : Int × File :=
  let f := BF_AllocateBlock BLOCK_SIZE f
  let blockCount := BF_GetBlockCounter f
  let newDataBlockIndex := blockCount - 1
  match BF_ReadBlock BLOCK_SIZE f newDataBlockIndex with
  | none => (-1, f)
  | some newDataBlock =>
    let newDataBlock := writeInt32 newDataBlock 0 1
    let newDataBlock := writeInt32 newDataBlock 4 INVALID_BLOCK_INDEX
    let newDataBlock :=
      writeBytes newDataBlock sizeofHashDataBlockHeader sizeofDataSegment dataSegment.toBytes
    let f := BF_WriteBlock BLOCK_SIZE f newDataBlockIndex newDataBlock
    if previousDataBlockIndex ≠ INVALID_BLOCK_INDEX then
      match BF_ReadBlock BLOCK_SIZE f previousDataBlockIndex with
      | none => (-1, f)
      | some previousDataBlock =>
        let previousDataBlock := writeInt32 previousDataBlock 4 newDataBlockIndex
        (0, BF_WriteBlock BLOCK_SIZE f previousDataBlockIndex previousDataBlock)
    else
      match BF_ReadBlock BLOCK_SIZE f bucketBlockIndex with
      | none => (-1, f)
      | some bucketBlock =>
        let bucketBlock := writeInt32 bucketBlock bucketOffset newDataBlockIndex
        (0, BF_WriteBlock BLOCK_SIZE f bucketBlockIndex bucketBlock)

/-- The function `SHT_SecondaryInsertEntry`, on the file that `handle`
designates: the return code and the file afterwards.  The bucket block is found
by the same statements as in `HT.c` (`bucketBlockNumber`, the walk over the
bucket blocks, the offset of the bucket).  The pointer `surname` is
`record.Record.Surname`: the hash function and `strcmp` take the string that
starts there (`Record.surnameString`), while `memcpy` copies the 25 bytes of the
array into the segment.  `none`: a chain loop does not end, or memory is read
behind the two arrays of the record or behind a block. -/
def SHT_SecondaryInsertEntry (BLOCK_SIZE : Nat) (f : File) (record : SecondaryRecord) :
    Option (Int × File) :=
  match BF_ReadBlock BLOCK_SIZE f HEADER_BLOCK_INDEX with
  | none => some (-1, f)
  | some headerBlock =>
    match record.Record.surnameString with
    | none => none
    | some surname =>
      let bucketIndex : Int :=
        toInt32 (HashFunction surname (toInt32 (readUInt32 headerBlock 4 : Nat)) : Nat)
      match HT.walkBucketBlocks BLOCK_SIZE f (HT.bucketBlockNumber BLOCK_SIZE bucketIndex).toNat
          INVALID_BLOCK_INDEX (readInt32 headerBlock 8) with
      | none => some (-1, f)
      | some (bucketBlockIndex, _) =>
        match BF_ReadBlock BLOCK_SIZE f bucketBlockIndex with
        | none => some (-1, f)
        | some bucketBlock =>
          let dataBlockIndex := readInt32 bucketBlock (HT.bucketOffset BLOCK_SIZE bucketIndex)
          match SHT_SecondaryInsertEntry.checkLoop BLOCK_SIZE f surname (f.blockCount + 1)
              dataBlockIndex with
          | none => none
          | some (.ret r) => some (r, f)
          | some (.next _) =>
            let dataSegment : DataSegment :=
              { Surname := record.Record.Surname % 256 ^ 25, BlockID := record.BlockID }
            match SHT_SecondaryInsertEntry.insertLoop BLOCK_SIZE f dataSegment (f.blockCount + 1)
                INVALID_BLOCK_INDEX dataBlockIndex with
            | none => none
            | some (.ret r) => some r
            | some (.next previousDataBlockIndex) =>
              some (SHT_SecondaryInsertEntry.newBlock BLOCK_SIZE f dataSegment
                previousDataBlockIndex bucketBlockIndex (HT.bucketOffset BLOCK_SIZE bucketIndex))

/-- The loop `for (recordIndex = 0; recordIndex < ElementCount; recordIndex++)`
over the records of the primary block (lines 904-918), which compares
`currentRecord->Surname` with `key` by `strcmp`, with `k` iterations left: the
first `recordIndex` at which `strcmp` gives 0.  `Surname` lies at offset 19 of a
`Record`. -/
def findRecordBySurname (BLOCK_SIZE : Nat) (b : Block) (key : List Nat) : Nat → Nat → SlotScan
  | 0, _ => .absent
  | k + 1, recordIndex =>
    match strcmp BLOCK_SIZE b (sizeofHashDataBlockHeader + sizeofRecord * recordIndex + 19)
        key with
    | none => .outside
    | some true => .found recordIndex
    | some false => findRecordBySurname BLOCK_SIZE b key k (recordIndex + 1)

/-- The `while` loop of `SHT_SecondaryGetAllEntries` (lines 852-930) together with
the `return -1` that follows it: the return code and the records printed.
`primary` is the file that `primaryHandle` designates; the state is
`blocksTraversed`.  A record that is printed is given by its bytes in the block.
`none`: the loop does not end, or memory is read behind a block (by a
comparison, or because the slot of the segment or of the record that was found
does not end inside its block). -/
def SHT_SecondaryGetAllEntries.keyLoop (BLOCK_SIZE : Nat) (f primary : File) (key : List Nat) :
    Nat → Int → Nat → Option (Int × List Record)
  | 0, _, _ => none
  | fuel + 1, currentDataBlockIndex, blocksTraversed =>
    if currentDataBlockIndex = INVALID_BLOCK_INDEX then some (-1, [])
    else
      match BF_ReadBlock BLOCK_SIZE f currentDataBlockIndex with
      | none => some (-1, [])
      | some currentDataBlock =>
        let blocksTraversed := (blocksTraversed + 1) % 2 ^ 32
        match findDataSegment BLOCK_SIZE currentDataBlock key (readUInt32 currentDataBlock 0)
            0 with
        | .outside => none
        | .found dataSegmentIndex =>
          if BLOCK_SIZE < sizeofHashDataBlockHeader + sizeofDataSegment * dataSegmentIndex
              + sizeofDataSegment then none
          else
            let currentDataSegment := readDataSegment currentDataBlock
              (sizeofHashDataBlockHeader + sizeofDataSegment * dataSegmentIndex)
            match BF_ReadBlock BLOCK_SIZE primary currentDataSegment.BlockID with
            | none => some (-1, [])
            | some primaryHashDataBlock =>
              let blocksTraversed := (blocksTraversed + 1) % 2 ^ 32
              match findRecordBySurname BLOCK_SIZE primaryHashDataBlock key
                  (readUInt32 primaryHashDataBlock 0) 0 with
              | .outside => none
              | .found recordIndex =>
                if BLOCK_SIZE < sizeofHashDataBlockHeader + sizeofRecord * recordIndex
                    + sizeofRecord then none
                else
                  some (toInt32 (blocksTraversed : Nat),
                    [readRecord primaryHashDataBlock
                      (sizeofHashDataBlockHeader + sizeofRecord * recordIndex)])
              | .absent => some (-1, [])
        | .absent =>
          SHT_SecondaryGetAllEntries.keyLoop BLOCK_SIZE f primary key fuel
            (readInt32 currentDataBlock 4) blocksTraversed

/-- The function `SHT_SecondaryGetAllEntries` on the files that `handle` and
`primaryHandle` designate; `keyValue = none` is the null pointer, `some s` a
pointer to a string whose characters are `cString s`.  The first statements copy
the string at `keyValue` and the zero byte that ends it into the buffer
`char key[25]` (lines 753-759), before the header block is read.  The result is
the return code and the records printed.  `none`: the string has 25 characters
or more, so that the copy writes behind the buffer; or the loop over the chain
gives `none`. -/
def SHT_SecondaryGetAllEntries (BLOCK_SIZE : Nat) (f primary : File) (keyValue : Option (List Nat)) :
    Option (Int × List Record) :=
  match keyValue with
  | some keyValue =>
    if 25 ≤ (cString keyValue).length then none
    else
      let key := cString keyValue
      match BF_ReadBlock BLOCK_SIZE f HEADER_BLOCK_INDEX with
      | none => some (-1, [])
      | some headerBlock =>
        let blocksTraversed : Nat := 1
        let bucketIndex : Int :=
          toInt32 (HashFunction key (toInt32 (readUInt32 headerBlock 4 : Nat)) : Nat)
        match HT.walkBucketBlocks BLOCK_SIZE f (HT.bucketBlockNumber BLOCK_SIZE bucketIndex).toNat
            INVALID_BLOCK_INDEX (readInt32 headerBlock 8) with
        | none => some (-1, [])
        | some (bucketBlockIndex, _) =>
          let blocksTraversed :=
            (blocksTraversed + (HT.bucketBlockNumber BLOCK_SIZE bucketIndex).toNat) % 2 ^ 32
          match BF_ReadBlock BLOCK_SIZE f bucketBlockIndex with
          | none => some (-1, [])
          | some bucketBlock =>
            let dataBlockIndex := readInt32 bucketBlock (HT.bucketOffset BLOCK_SIZE bucketIndex)
            SHT_SecondaryGetAllEntries.keyLoop BLOCK_SIZE f primary key (f.blockCount + 1)
              dataBlockIndex blocksTraversed
  | none => some (-1, [])

/-- The loop over the records of a primary data block in `SHT_CreateSecondaryIndex`
(lines 332-346), with `k` iterations left: each record is copied from its slot
and inserted into the secondary file `f` with the index of its block; the return
code of `SHT_SecondaryInsertEntry` is not looked at.  `none`: a slot does not
end inside the block, so that the copy reads memory behind it, or a call of
`SHT_SecondaryInsertEntry` gives `none`. -/
def SHT_CreateSecondaryIndex.recordLoop (BLOCK_SIZE : Nat) (currentDataBlock : Block)
    (currentDataBlockIndex : Int) : Nat → Nat → File → Option File
  | 0, _, f => some f
  | k + 1, recordIndex, f =>
    if BLOCK_SIZE < sizeofHashDataBlockHeader + sizeofRecord * recordIndex + sizeofRecord then none
    else
      let secondaryRecord : SecondaryRecord :=
        { Record := readRecord currentDataBlock
            (sizeofHashDataBlockHeader + sizeofRecord * recordIndex)
          BlockID := currentDataBlockIndex }
      match SHT_SecondaryInsertEntry BLOCK_SIZE f secondaryRecord with
      | none => none
      | some (_, f) =>
        SHT_CreateSecondaryIndex.recordLoop BLOCK_SIZE currentDataBlock currentDataBlockIndex k
          (recordIndex + 1) f

/-- The loop over the data blocks of one bucket of the primary file (lines
313-350); the state is the secondary file. -/
def SHT_CreateSecondaryIndex.dataLoop (BLOCK_SIZE : Nat) (primary : File) :
    Nat → Int → File → Option (CFlow (Int × File) File)
  | 0, _, _ => none
  | fuel + 1, currentDataBlockIndex, f =>
    if currentDataBlockIndex = INVALID_BLOCK_INDEX then some (.next f)
    else
      match BF_ReadBlock BLOCK_SIZE primary currentDataBlockIndex with
      | none => some (.ret (-1, f))
      | some currentDataBlock =>
        match SHT_CreateSecondaryIndex.recordLoop BLOCK_SIZE currentDataBlock currentDataBlockIndex
            (readUInt32 currentDataBlock 0) 0 f with
        | none => none
        | some f =>
          SHT_CreateSecondaryIndex.dataLoop BLOCK_SIZE primary fuel (readInt32 currentDataBlock 4) f

/-- The loop `for (bucketIndex = 0; bucketIndex < bucketsInCurrentBlock;
bucketIndex++)` over the buckets of one bucket block of the primary file (lines
307-351), with `k` iterations left. -/
def SHT_CreateSecondaryIndex.bucketLoop (BLOCK_SIZE : Nat) (primary : File) (bucketValues : Block) :
    Nat → Nat → File → Option (CFlow (Int × File) File)
  | 0, _, f => some (.next f)
  | k + 1, bucketIndex, f =>
    match SHT_CreateSecondaryIndex.dataLoop BLOCK_SIZE primary (primary.blockCount + 1)
        (readInt32 bucketValues (sizeofHashBucketBlockHeader + 4 * bucketIndex)) f with
    | none => none
    | some (.ret r) => some (.ret r)
    | some (.next f) =>
      SHT_CreateSecondaryIndex.bucketLoop BLOCK_SIZE primary bucketValues k (bucketIndex + 1) f

/-- The loop over the bucket blocks of the primary file (lines 276-354). -/
def SHT_CreateSecondaryIndex.bucketBlockLoop (BLOCK_SIZE : Nat) (primary : File) (bucketCount : Nat) :
    Nat → Int → File → Option (CFlow (Int × File) File)
  | 0, _, _ => none
  | fuel + 1, currentBucketBlockIndex, f =>
    if currentBucketBlockIndex = INVALID_BLOCK_INDEX then some (.next f)
    else
      match BF_ReadBlock BLOCK_SIZE primary currentBucketBlockIndex with
      | none => some (.ret (-1, f))
      | some currentBucketBlock =>
        let NextBlockIndex := readInt32 currentBucketBlock 0
        let bucketsInCurrentBlock : Int :=
          if NextBlockIndex = INVALID_BLOCK_INDEX then
            toInt32 (bucketCount % MAX_BUCKET_COUNT_PER_BLOCK BLOCK_SIZE : Nat)
          else toInt32 (MAX_BUCKET_COUNT_PER_BLOCK BLOCK_SIZE : Nat)
        match SHT_CreateSecondaryIndex.bucketLoop BLOCK_SIZE primary currentBucketBlock
            (toUInt32 bucketsInCurrentBlock) 0 f with
        | none => none
        | some (.ret r) => some (.ret r)
        | some (.next f) =>
          SHT_CreateSecondaryIndex.bucketBlockLoop BLOCK_SIZE primary bucketCount fuel NextBlockIndex f

/-- The block of `SHT_CreateSecondaryIndex` that inserts the records of the
primary file into the secondary file `f` (lines 247-358), once the primary file
is open: `ret` when the function returns `-1` there, `next` with the secondary
file when control reaches line 360. -/
def SHT_CreateSecondaryIndex.bootstrap (BLOCK_SIZE : Nat) (primary : File) (f : File) :
    Option (CFlow (Int × File) File) :=
  match BF_ReadBlock BLOCK_SIZE primary HEADER_BLOCK_INDEX with
  | none => some (.ret (-1, f))
  | some primaryHashHeaderBlock =>
    SHT_CreateSecondaryIndex.bucketBlockLoop BLOCK_SIZE primary (readUInt32 primaryHashHeaderBlock 4)
      (primary.blockCount + 1) (readInt32 primaryHashHeaderBlock 8) f

/-- The function `CheckForPrimaryHashFile`: its result and the store.  The block
level file stays open when the function returns `false` after opening it. -/
def CheckForPrimaryHashFile (BLOCK_SIZE : Nat) (store : BFState) (fileName : FileName) :
    Bool × BFState :=
  let (fileHandle, store) := BF_OpenFile store fileName
  if fileHandle < 0 then (false, store)
  else
    match store.readBlock BLOCK_SIZE fileHandle HEADER_BLOCK_INDEX with
    | none => (false, store)
    | some headerBlock =>
      if readUInt32 headerBlock 0 ≠ HashFile then (false, store)
      else
        let (closed, store) := BF_CloseFile store fileHandle
        if closed < 0 then (false, store) else (true, store)

/-- The function `SHT_CreateSecondaryIndex` on a store: the return code and the
store; `none` when a loop does not end or memory is read behind a block or an
array.  The handle that the function opens on
the primary file for the insertion of its records is not closed. -/
def SHT_CreateSecondaryIndex (BLOCK_SIZE : Nat) (store : BFState) (fileName : FileName)
    (bucketCount : Int) (primaryFileName : FileName) : Option (Int × BFState) :=
  let (valid, store) := CheckForPrimaryHashFile BLOCK_SIZE store primaryFileName
  if !valid then some (-1, store)
  else
    let (created, store) := store.createFile fileName
    if created < 0 then some (-1, store)
    else
      let (fileHandle, store) := BF_OpenFile store fileName
      if fileHandle < 0 then some (-1, store)
      else
        let (code, f) := SHT_CreateSecondaryIndex.directory BLOCK_SIZE bucketCount
        let store := store.update fileHandle f
        if code ≠ 0 then some (-1, store)
        else
          let (primaryHashFileHandle, store) := BF_OpenFile store primaryFileName
          if primaryHashFileHandle < 0 then some (-1, store)
          else
            match store.view primaryHashFileHandle with
            | none => some (-1, store)
            | some primary =>
              match SHT_CreateSecondaryIndex.bootstrap BLOCK_SIZE primary f with
              | none => none
              | some (.ret r) => some (r.1, store.update fileHandle r.2)
              | some (.next f) =>
                let store := store.update fileHandle f
                let (closed, store) := BF_CloseFile store fileHandle
                if closed < 0 then some (-1, store) else some (0, store)

/-- The function `SHT_OpenSecondaryIndex`: `none` is the null pointer, `some p`
the pointer returned. -/
def SHT_OpenSecondaryIndex (BLOCK_SIZE : Nat) (st : State) (fileName : FileName) :
    Option HandlePtr × State :=
  if st.SHT_s_HandleStorage ≠ -1 then (none, st)
  else
    let (fileHandle, store) := BF_OpenFile st.store fileName
    let st := { st with store := store }
    if fileHandle < 0 then (none, st)
    else
      match st.store.readBlock BLOCK_SIZE fileHandle HEADER_BLOCK_INDEX with
      | none => (none, st)
      | some headerBlock =>
        if readUInt32 headerBlock 0 ≠ SecondaryHashFile then (none, st)
        else (some .SHT_s_HandleStorage, { st with SHT_s_HandleStorage := fileHandle })

/-- The function `SHT_CloseSecondaryIndex`. -/
def SHT_CloseSecondaryIndex (st : State) (handle : HandlePtr) : Int × State :=
  if st.SHT_s_HandleStorage ≠ handle.deref st then (-1, st)
  else
    let (closed, store) := BF_CloseFile st.store (handle.deref st)
    if closed < 0 then (-1, { st with store := store })
    else (0, { st with store := store, SHT_s_HandleStorage := -1 })

end SHT

/-! ### `Common.c` -/

/-- A value of the C type `float` (IEEE 754 binary32), as far as `HashStatistics`
computes with it: a finite number that is not negative, `mantissa * 2 ^ exponent`
(with `2 ^ 23 ≤ mantissa < 2 ^ 24`, or mantissa and exponent 0 for the number 0),
positive infinity, or a NaN. -/
inductive CFloat where
  | finite (mantissa : Nat) (exponent : Int)
  | infinity
  | nan
deriving DecidableEq, Repr

/-- The number that a `float` stands for. -/
def CFloat.toRat : CFloat → Option ℚ
  | .finite mantissa exponent => some (mantissa * 2 ^ exponent)
  | .infinity => none
  | .nan => none

/-- Doubling of the numerator of `num / den * 2 ^ e` until the quotient is at
least `2 ^ 23`. -/
def CFloat.scaleUp (den : Nat) : Nat → Nat → Int → Nat × Int
  | 0, num, e => (num, e)
  | fuel + 1, num, e =>
    if num < 2 ^ 23 * den then CFloat.scaleUp den fuel (2 * num) (e - 1) else (num, e)

/-- Doubling of the denominator of `num / den * 2 ^ e` until the quotient is
below `2 ^ 24`. -/
def CFloat.scaleDown (num : Nat) : Nat → Nat → Int → Nat × Int
  | 0, den, e => (den, e)
  | fuel + 1, den, e =>
    if 2 ^ 24 * den ≤ num then CFloat.scaleDown num fuel (2 * den) (e + 1) else (den, e)

/-- The number `num / den * 2 ^ e` (`den` positive) as a `float`: rounded to the
nearest number with a mantissa of 24 bits, ties to the even mantissa.  The
numbers that `HashStatistics` rounds lie between `2 ^ (-33)` and `2 ^ 33`, so 64
doublings are enough and the exponent stays in the range of the type. -/
def CFloat.round (num den : Nat) (e : Int) : CFloat :=
  if num = 0 then .finite 0 0
  else
    let (num, e) := CFloat.scaleUp den 64 num e
    let (den, e) := CFloat.scaleDown num 64 den e
    let mantissa := num / den
    let remainder := num % den
    let mantissa :=
      if 2 * remainder < den ∨ (2 * remainder = den ∧ mantissa % 2 = 0) then mantissa
      else mantissa + 1
    if mantissa = 2 ^ 24 then .finite (2 ^ 23) (e + 1) else .finite mantissa e

/-- The conversion `(float)x` of a `uint32_t`. -/
def CFloat.ofUInt32 (x : Nat) : CFloat := CFloat.round x 1 0

/-- The division `x / y` of two values of type `float` that are not negative. -/
def CFloat.div : CFloat → CFloat → CFloat
  | .finite m1 e1, .finite m2 e2 =>
    if m2 = 0 then (if m1 = 0 then .nan else .infinity) else CFloat.round m1 m2 (e1 - e2)
  | .finite _ _, .infinity => .finite 0 0
  | .infinity, .finite _ _ => .infinity
  | _, _ => .nan

namespace HashStatistics

/-- The variables of `HashStatistics` that its pass over the buckets updates
(lines 41-51).  The field `dataBlocksRead` is not a variable of the code: it
adds up, over the buckets visited, the final value of `blockCount`, which line
111 increments once for every data block read. -/
structure Counters where
  minElementCount : Nat
  maxElementCount : Nat
  totalElementCount : Nat
  overflowBlocksPerBucket : List Nat
  globalBucketIndex : Nat
  dataBlocksRead : Nat
deriving DecidableEq, Repr

/-- The loop over the data blocks of one bucket (lines 98-121), on the variables
`currentDataBlockIndex`, `elementCount` and `blockCount`: `ret (-1)` when a read
fails.  `none`: the loop does not end. -/
def dataLoop (BLOCK_SIZE : Nat) (f : File) : Nat → Int → Nat → Nat → Option (CFlow Int (Nat × Nat))
  | 0, _, _, _ => none
  | fuel + 1, currentDataBlockIndex, elementCount, blockCount =>
    if currentDataBlockIndex = INVALID_BLOCK_INDEX then some (.next (elementCount, blockCount))
    else
      match BF_ReadBlock BLOCK_SIZE f currentDataBlockIndex with
      | none => some (.ret (-1))
      | some currentDataBlock =>
        dataLoop BLOCK_SIZE f fuel (readInt32 currentDataBlock 4)
          ((elementCount + readUInt32 currentDataBlock 0) % 2 ^ 32) ((blockCount + 1) % 2 ^ 32)

/-- The loop over the buckets of one bucket block (lines 86-143); `k` is the
number of iterations left.  `none`: a loop does not end, or the store of line
138 falls outside the array `overflowBlocksPerBucket` (undefined behaviour). -/
def bucketLoop (BLOCK_SIZE : Nat) (f : File) (bucketValues : Block) (bucketCount : Nat) :
    Nat → Nat → Counters → Option (CFlow Int Counters)
  | 0, _, st => some (.next st)
  | k + 1, bucketIndex, st =>
    let bucketValue := readInt32 bucketValues (sizeofHashBucketBlockHeader + 4 * bucketIndex)
    match dataLoop BLOCK_SIZE f (f.blockCount + 1) bucketValue 0 0 with
    | none => none
    | some (.ret r) => some (.ret r)
    | some (.next (elementCount, blockCount)) =>
      if bucketValue ≠ INVALID_BLOCK_INDEX then
        if st.globalBucketIndex < bucketCount then
          bucketLoop BLOCK_SIZE f bucketValues bucketCount k (bucketIndex + 1)
            { minElementCount :=
                if elementCount < st.minElementCount then elementCount else st.minElementCount
              maxElementCount :=
                if elementCount > st.maxElementCount then elementCount else st.maxElementCount
              totalElementCount := (st.totalElementCount + elementCount) % 2 ^ 32
              overflowBlocksPerBucket :=
                st.overflowBlocksPerBucket.set st.globalBucketIndex
                  (toUInt32 ((blockCount : Int) - 1))
              globalBucketIndex := (st.globalBucketIndex + 1) % 2 ^ 32
              dataBlocksRead := st.dataBlocksRead + blockCount }
        else none
      else
        bucketLoop BLOCK_SIZE f bucketValues bucketCount k (bucketIndex + 1)
          { st with
            globalBucketIndex := (st.globalBucketIndex + 1) % 2 ^ 32
            dataBlocksRead := st.dataBlocksRead + blockCount }

/-- The loop over the bucket blocks (lines 54-146).  `none`: a loop does not end
(or the behaviour is undefined, see `bucketLoop`). -/
def bucketBlockLoop (BLOCK_SIZE : Nat) (f : File) (bucketCount : Nat) :
    Nat → Int → Counters → Option (CFlow Int Counters)
  | 0, _, _ => none
  | fuel + 1, currentBucketBlockIndex, st =>
    if currentBucketBlockIndex = INVALID_BLOCK_INDEX then some (.next st)
    else
      match BF_ReadBlock BLOCK_SIZE f currentBucketBlockIndex with
      | none => some (.ret (-1))
      | some currentBucketBlock =>
        let NextBlockIndex := readInt32 currentBucketBlock 0
        let bucketsInCurrentBlock : Int :=
          if NextBlockIndex = INVALID_BLOCK_INDEX then
            toInt32 (bucketCount % MAX_BUCKET_COUNT_PER_BLOCK BLOCK_SIZE : Nat)
          else toInt32 (MAX_BUCKET_COUNT_PER_BLOCK BLOCK_SIZE : Nat)
        match bucketLoop BLOCK_SIZE f currentBucketBlock bucketCount
            (toUInt32 bucketsInCurrentBlock) 0 st with
        | none => none
        | some (.ret r) => some (.ret r)
        | some (.next st) => bucketBlockLoop BLOCK_SIZE f bucketCount fuel NextBlockIndex st

/-- The pass of `HashStatistics` over the buckets of the file whose header block
is `headerBlock` (lines 38-146). -/
def pass (BLOCK_SIZE : Nat) (f : File) (headerBlock : Block) : Option (CFlow Int Counters) :=
  let bucketCount := readUInt32 headerBlock 4
  bucketBlockLoop BLOCK_SIZE f bucketCount (f.blockCount + 1) (readInt32 headerBlock 8)
    { minElementCount := 4294967295
      maxElementCount := 0
      totalElementCount := 0
      overflowBlocksPerBucket := List.replicate bucketCount 0
      globalBucketIndex := 0
      dataBlocksRead := 0 }

/-- The statistics that `HashStatistics` prints (lines 162-175). -/
structure Report where
  blockCount : Int
  maxElementCount : Nat
  minElementCount : Nat
  averageElementCount : CFloat
  overflowBlocksPerBucket : List Nat
  totalOverflowBlockCount : Nat
deriving DecidableEq, Repr

/-- The statistics printed after the pass (lines 148-175), for a file of
`blockCount` blocks whose header stores `bucketCount`. -/
def report (blockCount : Int) (bucketCount : Nat) (st : Counters) : Report where
  blockCount := blockCount
  maxElementCount := st.maxElementCount
  minElementCount := st.minElementCount
  averageElementCount :=
    CFloat.div (CFloat.ofUInt32 st.totalElementCount) (CFloat.ofUInt32 bucketCount)
  overflowBlocksPerBucket := st.overflowBlocksPerBucket.take bucketCount
  totalOverflowBlockCount :=
    (st.overflowBlocksPerBucket.take bucketCount).foldl (fun total x => (total + x) % 2 ^ 32) 0

end HashStatistics

/-- The function `HashStatistics` on the block store `store`.  The result is the
return code, the statistics if they were printed, and the store afterwards (the
file is left open on the paths that return before `BF_CloseFile`).  `none`: see
`HashStatistics.bucketBlockLoop`. -/
def HashStatistics (BLOCK_SIZE : Nat) (store : BFState) (fileName : FileName) :
    Option (Int × Option HashStatistics.Report × BFState) :=
  let (handle, store) := BF_OpenFile store fileName
  if handle = 0 then some (-1, none, store)
  else
    match store.view handle with
    | none => some (-1, none, store)
    | some f =>
      match BF_ReadBlock BLOCK_SIZE f HEADER_BLOCK_INDEX with
      | none => some (-1, none, store)
      | some headerBlock =>
        if readUInt32 headerBlock 0 ≠ HashFile ∧ readUInt32 headerBlock 0 ≠ SecondaryHashFile then
          some (-1, none, store)
        else
          let bucketCount := readUInt32 headerBlock 4
          match HashStatistics.pass BLOCK_SIZE f headerBlock with
          | none => none
          | some (.ret r) => some (r, none, store)
          | some (.next st) =>
            let blockCount := BF_GetBlockCounter f
            if blockCount < 0 then some (-1, none, store)
            else
              let printed := HashStatistics.report blockCount bucketCount st
              let (closed, store) := BF_CloseFile store handle
              if closed = -1 then some (-1, some printed, store) else some (0, some printed, store)

end prj2

/-! ## Properties of files, in the words of the specification -/

/-- The layout that creation gives a hash file of kind `fileType` with
`bucketCount` buckets: the header (block 0) and `directoryBlocks` bucket blocks
at the block indices `1 .. directoryBlocks`; the header stores the kind, the
bucket count and the index of the first bucket block (`-1` when there is none),
bucket block `i` links to `i + 1` and the last one to `-1`. -/
def DirectoryLayout (BLOCK_SIZE : Nat) (f : File) (fileType bucketCount directoryBlocks : Nat) :
    Prop :=
  f.blockCount = 1 + directoryBlocks ∧
  (∃ h, BF_ReadBlock BLOCK_SIZE f 0 = some h ∧ readUInt32 h 0 = fileType ∧
      readUInt32 h 4 = bucketCount ∧
      readInt32 h 8 = if directoryBlocks = 0 then -1 else 1) ∧
  ∀ i : Nat, 1 ≤ i → i ≤ directoryBlocks →
    ∃ b, BF_ReadBlock BLOCK_SIZE f (i : Int) = some b ∧
      readInt32 b 0 = if i = directoryBlocks then -1 else (i : Int) + 1

/-- The file-kind tag in the header of a file (`CommonFileHeader.Type`, the first
field of block 0); `none` when the header block cannot be read. -/
def fileKind (BLOCK_SIZE : Nat) (f : File) : Option Nat :=
  (BF_ReadBlock BLOCK_SIZE f prj2.HEADER_BLOCK_INDEX).map fun headerBlock => readUInt32 headerBlock 0

/-- Directory slot `i` of a hash file: position `i mod C` of directory block
number `i / C`, where `C` is the capacity `MAX_BUCKET_COUNT_PER_BLOCK` and the
directory blocks are numbered from 0 along the links that start at the header's
`NextBlockIndex`.  `none` when a block on the way cannot be read. -/
def directorySlot (BLOCK_SIZE : Nat) (f : File) (i : Nat) : Option Int :=
  match BF_ReadBlock BLOCK_SIZE f prj2.HEADER_BLOCK_INDEX with
  | none => none
  | some headerBlock =>
    match prj2.HT.walkBucketBlocks BLOCK_SIZE f (i / prj2.MAX_BUCKET_COUNT_PER_BLOCK BLOCK_SIZE + 1)
        prj2.INVALID_BLOCK_INDEX (readInt32 headerBlock 8) with
    | none => none
    | some (bucketBlockIndex, _) =>
      (BF_ReadBlock BLOCK_SIZE f bucketBlockIndex).map fun b =>
        readInt32 b (prj2.sizeofHashBucketBlockHeader
          + 4 * (i % prj2.MAX_BUCKET_COUNT_PER_BLOCK BLOCK_SIZE))

/-! ### Well-formed hash files -/

/-- The number of bucket blocks of a hash file of `n` buckets, `ceil(n / C)`. -/
def directoryBlockCount (BLOCK_SIZE : Nat) (n : Nat) : Nat :=
  (n + prj2.MAX_BUCKET_COUNT_PER_BLOCK BLOCK_SIZE - 1) / prj2.MAX_BUCKET_COUNT_PER_BLOCK BLOCK_SIZE

/-- The chain of data blocks that starts at block `start` and ends with a block
whose `NextBlockIndex` is `-1`: the blocks in order, each with its index.
`none` when a block on the way cannot be read or the end is not reached within
`fuel` blocks. -/
def chainTo (BLOCK_SIZE : Nat) (f : File) : Nat → Int → Option (List (Int × Block))
  | 0, _ => none
  | fuel + 1, start =>
    if start = -1 then some []
    else
      match BF_ReadBlock BLOCK_SIZE f start with
      | none => none
      | some b =>
        match chainTo BLOCK_SIZE f fuel (readInt32 b 4) with
        | none => none
        | some l => some ((start, b) :: l)

/-- The chain of bucket `s` of a hash file whose bucket blocks are the blocks
`1, 2, ...`: the slot of the bucket is position `s mod C` of block `1 + s / C`. -/
def chainOf (BLOCK_SIZE : Nat) (f : File) (s : Nat) : Option (List (Int × Block)) :=
  match BF_ReadBlock BLOCK_SIZE f ((1 + s / prj2.MAX_BUCKET_COUNT_PER_BLOCK BLOCK_SIZE : Nat) : Int) with
  | none => none
  | some b =>
    chainTo BLOCK_SIZE f (f.blockCount + 1)
      (readInt32 b (prj2.sizeofHashBucketBlockHeader
        + 4 * (s % prj2.MAX_BUCKET_COUNT_PER_BLOCK BLOCK_SIZE)))

/-- A well-formed hash file of `n` buckets, primary or secondary.  The header
(block 0) stores `n` and links to block 1; the bucket blocks are the blocks
`1 .. ceil(n / C)`, each linked to the next and the last to `-1`; and every
bucket `s < n` heads a chain of data blocks that ends with `-1` and lies after
the bucket blocks.  All block indices fit an `int32_t`. -/
structure WellFormed (BLOCK_SIZE : Nat) (f : File) (n : Nat) : Prop where
  n_pos : 1 ≤ n
  n_lt : n < 2147483648
  blockCount_lt : f.blockCount < 2147483648
  directory_le : directoryBlockCount BLOCK_SIZE n + 1 ≤ f.blockCount
  header : ∃ h, BF_ReadBlock BLOCK_SIZE f 0 = some h ∧ readUInt32 h 4 = n ∧ readInt32 h 8 = 1
  links : ∀ i : Nat, 1 ≤ i → i ≤ directoryBlockCount BLOCK_SIZE n →
    ∃ b, BF_ReadBlock BLOCK_SIZE f (i : Int) = some b ∧
      readInt32 b 0 = if i = directoryBlockCount BLOCK_SIZE n then -1 else (i : Int) + 1
  chains : ∀ s : Nat, s < n →
    ∃ l, chainOf BLOCK_SIZE f s = some l ∧
      ∀ p ∈ l, (directoryBlockCount BLOCK_SIZE n : Int) < p.1

/-- The conditions of `WellFormed`, as a computation. -/
def wellFormedCheck (BLOCK_SIZE : Nat) (f : File) (n : Nat) : Bool :=
  decide (1 ≤ n) && decide (n < 2147483648) && decide (f.blockCount < 2147483648)
    && decide (directoryBlockCount BLOCK_SIZE n + 1 ≤ f.blockCount)
    && (match BF_ReadBlock BLOCK_SIZE f 0 with
        | none => false
        | some h => decide (readUInt32 h 4 = n) && decide (readInt32 h 8 = 1))
    && (List.range (directoryBlockCount BLOCK_SIZE n)).all (fun k =>
        match BF_ReadBlock BLOCK_SIZE f ((k + 1 : Nat) : Int) with
        | none => false
        | some b =>
          decide (readInt32 b 0
            = if k + 1 = directoryBlockCount BLOCK_SIZE n then -1 else ((k + 1 : Nat) : Int) + 1))
    && (List.range n).all (fun s =>
        match chainOf BLOCK_SIZE f s with
        | none => false
        | some l => l.all fun p => decide ((directoryBlockCount BLOCK_SIZE n : Int) < p.1))

/-- The element in slot `i` of a data block whose elements take `size` bytes. -/
def elementAt (size : Nat) (b : Block) (i : Nat) : Nat :=
  readBytes b (prj2.sizeofHashDataBlockHeader + size * i) size

/-- The elements of a data block, those of the slots `[0, ElementCount)`. -/
def blockElements (size : Nat) (b : Block) : List Nat :=
  (List.range (readUInt32 b 0)).map (elementAt size b)

/-- The elements of the data blocks of a chain, in the order of the chain and of
the slots, each with the index of its block. -/
def elementsOf (size : Nat) (chain : List (Int × Block)) : List (Int × Nat) :=
  chain.flatMap fun p => (blockElements size p.2).map fun e => (p.1, e)

/-- The elements of all the buckets of a hash file of `n` buckets, in the order
of the buckets, each with the index of its block. -/
def storedElements (BLOCK_SIZE size : Nat) (f : File) (n : Nat) : List (Int × Nat) :=
  (List.range n).flatMap fun s =>
    match chainOf BLOCK_SIZE f s with
    | none => []
    | some l => elementsOf size l

/-- The records of all the buckets of a primary hash file of `n` buckets, in the
order of the buckets, of the chains and of the slots. -/
def storedRecords (BLOCK_SIZE : Nat) (f : File) (n : Nat) : List prj2.Record :=
  (storedElements BLOCK_SIZE prj2.sizeofRecord f n).map fun x => prj2.readRecord x.2 0

/-- The list `new` is the list `old` with copies of `x` put in, in any places. -/
inductive Inserted {α : Type} (x : α) : List α → List α → Prop where
  | nil : Inserted x [] []
  | keep (a : α) {old new : List α} : Inserted x old new → Inserted x (a :: old) (a :: new)
  | add {old new : List α} : Inserted x old new → Inserted x old (x :: new)

/-- What `HT_InsertEntry` and `SHT_SecondaryInsertEntry` differ in, apart from
the search for a duplicate and the hash: the size of an element, the capacity of
a data block, and the value returned once the element is stored in the data
block of a given index. -/
structure InsertEngine where
  elementSize : Nat
  capacity : Nat
  result : Int → Int

/-- The shape that the first `while` loops of the two insert functions share;
`find` is the search of one data block for a duplicate. -/
def InsertEngine.checkLoop (BLOCK_SIZE : Nat) (f : File) (find : Block → Option Nat) :
    Nat → Int → Option (CFlow Int Unit)
  | 0, _ => none
  | fuel + 1, currentDataBlockIndex =>
    if currentDataBlockIndex = prj2.INVALID_BLOCK_INDEX then some (.next ())
    else
      match BF_ReadBlock BLOCK_SIZE f currentDataBlockIndex with
      | none => some (.ret (-1))
      | some currentDataBlock =>
        match find currentDataBlock with
        | some _ => some (.ret (-1))
        | none => InsertEngine.checkLoop BLOCK_SIZE f find fuel (readInt32 currentDataBlock 4)

/-- The data block `b` after the statements that store an element in its first
free slot: the bytes of the element are copied to the slot `ElementCount` and
`ElementCount` is incremented. -/
def InsertEngine.store (E : InsertEngine) (b : Block) (bytes : Nat) : Block :=
  writeInt32
    (writeBytes b (prj2.sizeofHashDataBlockHeader + readUInt32 b 0 * E.elementSize % 2 ^ 64)
      E.elementSize bytes)
    0 (readUInt32 b 0 + 1 : Nat)

/-- The shape that the second `while` loops of the two insert functions share. -/
def InsertEngine.insertLoop (E : InsertEngine) (BLOCK_SIZE : Nat) (f : File) (bytes : Nat) :
    Nat → Int → Int → Option (CFlow (Int × File) Int)
  | 0, _, _ => none
  | fuel + 1, previousDataBlockIndex, currentDataBlockIndex =>
    if currentDataBlockIndex = prj2.INVALID_BLOCK_INDEX then some (.next previousDataBlockIndex)
    else
      match BF_ReadBlock BLOCK_SIZE f currentDataBlockIndex with
      | none => some (.ret (-1, f))
      | some currentDataBlock =>
        if readUInt32 currentDataBlock 0 < E.capacity then
          some (.ret (E.result currentDataBlockIndex,
            BF_WriteBlock BLOCK_SIZE f currentDataBlockIndex (E.store currentDataBlock bytes)))
        else
          InsertEngine.insertLoop E BLOCK_SIZE f bytes fuel currentDataBlockIndex
            (readInt32 currentDataBlock 4)

/-- The new data block of the end of the two insert functions: one element, no
next block. -/
def InsertEngine.freshBlock (E : InsertEngine) (bytes : Nat) : Block :=
  writeBytes (writeInt32 (writeInt32 0 0 1) 4 prj2.INVALID_BLOCK_INDEX)
    prj2.sizeofHashDataBlockHeader E.elementSize bytes

/-- The shape that the ends of the two insert functions share. -/
def InsertEngine.newBlock (E : InsertEngine) (BLOCK_SIZE : Nat) (f : File) (bytes : Nat)
    (previousDataBlockIndex : Int) (bucketBlockIndex : Int) (bucketOffset : Nat) : Int × File :=
  let f := BF_AllocateBlock BLOCK_SIZE f
  let blockCount := BF_GetBlockCounter f
  let newDataBlockIndex := blockCount - 1
  match BF_ReadBlock BLOCK_SIZE f newDataBlockIndex with
  | none => (-1, f)
  | some newDataBlock =>
    let newDataBlock := writeInt32 newDataBlock 0 1
    let newDataBlock := writeInt32 newDataBlock 4 prj2.INVALID_BLOCK_INDEX
    let newDataBlock := writeBytes newDataBlock prj2.sizeofHashDataBlockHeader E.elementSize bytes
    let f := BF_WriteBlock BLOCK_SIZE f newDataBlockIndex newDataBlock
    if previousDataBlockIndex ≠ prj2.INVALID_BLOCK_INDEX then
      match BF_ReadBlock BLOCK_SIZE f previousDataBlockIndex with
      | none => (-1, f)
      | some previousDataBlock =>
        let previousDataBlock := writeInt32 previousDataBlock 4 newDataBlockIndex
        (E.result newDataBlockIndex,
          BF_WriteBlock BLOCK_SIZE f previousDataBlockIndex previousDataBlock)
    else
      match BF_ReadBlock BLOCK_SIZE f bucketBlockIndex with
      | none => (-1, f)
      | some bucketBlock =>
        let bucketBlock := writeInt32 bucketBlock bucketOffset newDataBlockIndex
        (E.result newDataBlockIndex, BF_WriteBlock BLOCK_SIZE f bucketBlockIndex bucketBlock)

/-- The shape that the two insert functions share: `bucketIndex` gives the bucket
from the value passed as `hashTableSize`, `find` is the search of one data block
for a duplicate, `bytes` are the bytes of the element to store. -/
def InsertEngine.insert (E : InsertEngine) (BLOCK_SIZE : Nat) (f : File) (bucketIndex : Int → Int)
    (find : Block → Option Nat) (bytes : Nat) : Option (Int × File) :=
  match BF_ReadBlock BLOCK_SIZE f prj2.HEADER_BLOCK_INDEX with
  | none => some (-1, f)
  | some headerBlock =>
    let bucketIndex := bucketIndex (toInt32 (readUInt32 headerBlock 4 : Nat))
    match prj2.HT.walkBucketBlocks BLOCK_SIZE f (prj2.HT.bucketBlockNumber BLOCK_SIZE bucketIndex).toNat
        prj2.INVALID_BLOCK_INDEX (readInt32 headerBlock 8) with
    | none => some (-1, f)
    | some (bucketBlockIndex, _) =>
      match BF_ReadBlock BLOCK_SIZE f bucketBlockIndex with
      | none => some (-1, f)
      | some bucketBlock =>
        let dataBlockIndex := readInt32 bucketBlock (prj2.HT.bucketOffset BLOCK_SIZE bucketIndex)
        match InsertEngine.checkLoop BLOCK_SIZE f find (f.blockCount + 1) dataBlockIndex with
        | none => none
        | some (.ret r) => some (r, f)
        | some (.next _) =>
          match InsertEngine.insertLoop E BLOCK_SIZE f bytes (f.blockCount + 1)
              prj2.INVALID_BLOCK_INDEX dataBlockIndex with
          | none => none
          | some (.ret r) => some r
          | some (.next previousDataBlockIndex) =>
            some (InsertEngine.newBlock E BLOCK_SIZE f bytes previousDataBlockIndex bucketBlockIndex
              (prj2.HT.bucketOffset BLOCK_SIZE bucketIndex))

/-- The parameters of `HT_InsertEntry`. -/
def prj2.HT.insertEngine (BLOCK_SIZE : Nat) : InsertEngine where
  elementSize := prj2.sizeofRecord
  capacity := prj2.HT.MAX_RECORD_COUNT_PER_BLOCK BLOCK_SIZE
  result := fun dataBlockIndex => dataBlockIndex

/-- The parameters of `SHT_SecondaryInsertEntry`. -/
def prj2.SHT.insertEngine (BLOCK_SIZE : Nat) : InsertEngine where
  elementSize := prj2.SHT.sizeofDataSegment
  capacity := prj2.SHT.MAX_DATA_SEGMENT_COUNT_PER_BLOCK BLOCK_SIZE
  result := fun _ => 0

/-- What an insert engine needs of the block size: a data block holds its header
and `capacity` elements, of which there is at least one. -/
structure InsertEngine.Fits (E : InsertEngine) (BLOCK_SIZE : Nat) : Prop where
  fits : prj2.sizeofHashDataBlockHeader + E.capacity * E.elementSize ≤ BLOCK_SIZE
  capacity_pos : 1 ≤ E.capacity
  capacity_lt : E.capacity < 4294967296
  blockSize_lt : BLOCK_SIZE < 18446744073709551616

/-- What an insert that stores the element `x.2` in the data block `x.1` makes of a
well-formed file `f` of `n` buckets: the file `f'` is well-formed, has at most
one block more, the elements of every bucket are those of before with `x` put
in or not, and `x` is among the elements of bucket `s0`. -/
structure InsertEngine.Stored (BLOCK_SIZE size n : Nat) (f f' : File) (s0 : Nat) (x : Int × Nat) :
    Prop where
  wellFormed : WellFormed BLOCK_SIZE f' n
  blockCount_ge : f.blockCount ≤ f'.blockCount
  blockCount_le : f'.blockCount ≤ f.blockCount + 1
  chains : ∀ s, s < n → ∀ l, chainOf BLOCK_SIZE f s = some l →
    ∃ l', chainOf BLOCK_SIZE f' s = some l' ∧ Inserted x (elementsOf size l) (elementsOf size l')
  stored : ∃ l', chainOf BLOCK_SIZE f' s0 = some l' ∧ x ∈ elementsOf size l'

/-! ### The pass of `HashStatistics`, bucket by bucket -/

/-- The sum of the `ElementCount` fields of the data blocks of a chain. -/
def chainElementCount (l : List (Int × Block)) : Nat := (l.map fun p => readUInt32 p.2 0).sum

/-- The chain of data blocks of bucket `s`, in order; empty when the chain cannot
be walked to its end. -/
def bucketChain (BLOCK_SIZE : Nat) (f : File) (s : Nat) : List (Int × Block) :=
  (chainOf BLOCK_SIZE f s).getD []

/-- The number of buckets, among the `n` buckets of a file, whose chain has a
data block. -/
def nonEmptyBucketCount (BLOCK_SIZE : Nat) (f : File) (n : Nat) : Nat :=
  ((List.range n).filter fun s => !(bucketChain BLOCK_SIZE f s).isEmpty).length

/-- The number of data blocks on the chains of the `n` buckets of a file. -/
def chainBlockCount (BLOCK_SIZE : Nat) (f : File) (n : Nat) : Nat :=
  ((List.range n).map fun s => (bucketChain BLOCK_SIZE f s).length).sum

/-- The number of directory slots that the pass of `HashStatistics` walks in a
file of `n` buckets whose bucket blocks are those of creation:
`MAX_BUCKET_COUNT_PER_BLOCK` for each bucket block but the last and
`n % MAX_BUCKET_COUNT_PER_BLOCK` for the last (lines 73-76 of `Common.c`). -/
def walkedBucketCount (BLOCK_SIZE : Nat) (n : Nat) : Nat :=
  (directoryBlockCount BLOCK_SIZE n - 1) * prj2.MAX_BUCKET_COUNT_PER_BLOCK BLOCK_SIZE
    + n % prj2.MAX_BUCKET_COUNT_PER_BLOCK BLOCK_SIZE

/-- What the pass of `HashStatistics` needs of a hash file of `n` buckets: the
header and the linked bucket blocks of a well-formed file, and a chain that ends
for every bucket whose slot the pass walks. -/
structure StatisticsReady (BLOCK_SIZE : Nat) (f : File) (n : Nat) : Prop where
  n_pos : 1 ≤ n
  n_lt : n < 2147483648
  blockCount_lt : f.blockCount < 2147483648
  directory_le : directoryBlockCount BLOCK_SIZE n + 1 ≤ f.blockCount
  header : ∃ h, BF_ReadBlock BLOCK_SIZE f 0 = some h ∧ readUInt32 h 4 = n ∧ readInt32 h 8 = 1
  links : ∀ i : Nat, 1 ≤ i → i ≤ directoryBlockCount BLOCK_SIZE n →
    ∃ b, BF_ReadBlock BLOCK_SIZE f (i : Int) = some b ∧
      readInt32 b 0 = if i = directoryBlockCount BLOCK_SIZE n then -1 else (i : Int) + 1
  chains : ∀ s : Nat, s < walkedBucketCount BLOCK_SIZE n → ∃ l, chainOf BLOCK_SIZE f s = some l

/-- The sum of the `ElementCount` fields along the chain of bucket `s`, as the
`uint32_t` in which `HashStatistics` adds it up. -/
def bucketElementCount (BLOCK_SIZE : Nat) (f : File) (s : Nat) : Nat :=
  chainElementCount (bucketChain BLOCK_SIZE f s) % 2 ^ 32

/-- The counters of `HashStatistics` after an iteration of its loop over the
buckets (lines 86-143) that starts with the counters `st`, for a bucket whose
chain of data blocks is `l`. -/
def prj2.HashStatistics.account (st : prj2.HashStatistics.Counters) (l : List (Int × Block)) :
    prj2.HashStatistics.Counters :=
  let elementCount : Nat := chainElementCount l % 2 ^ 32
  let blockCount : Nat := l.length % 2 ^ 32
  if l ≠ [] then
    { minElementCount :=
        if elementCount < st.minElementCount then elementCount else st.minElementCount
      maxElementCount :=
        if elementCount > st.maxElementCount then elementCount else st.maxElementCount
      totalElementCount := (st.totalElementCount + elementCount) % 2 ^ 32
      overflowBlocksPerBucket :=
        st.overflowBlocksPerBucket.set st.globalBucketIndex (toUInt32 ((blockCount : Int) - 1))
      globalBucketIndex := (st.globalBucketIndex + 1) % 2 ^ 32
      dataBlocksRead := st.dataBlocksRead + blockCount }
  else
    { st with
      globalBucketIndex := (st.globalBucketIndex + 1) % 2 ^ 32
      dataBlocksRead := st.dataBlocksRead + blockCount }

/-- The counters with which the pass of `HashStatistics` starts on a file of
`bucketCount` buckets (lines 41-51). -/
def prj2.HashStatistics.start (bucketCount : Nat) : prj2.HashStatistics.Counters where
  minElementCount := 4294967295
  maxElementCount := 0
  totalElementCount := 0
  overflowBlocksPerBucket := List.replicate bucketCount 0
  globalBucketIndex := 0
  dataBlocksRead := 0

namespace prj2.HT

/-- The chain of data blocks that starts at block `start`: the blocks met by
following `NextBlockIndex` (offset 4 of a data block) until `-1` or a block that
cannot be read, each with its index and contents, at most `fuel` of them. -/
def chain (BLOCK_SIZE : Nat) (f : File) : Nat → Int → List (Int × Block)
  | 0, _ => []
  | fuel + 1, start =>
    if start = INVALID_BLOCK_INDEX then []
    else
      match BF_ReadBlock BLOCK_SIZE f start with
      | none => []
      | some b => (start, b) :: chain BLOCK_SIZE f fuel (readInt32 b 4)

/-- The head of the chain of the bucket that `key` hashes to, as the directory
gives it: the bucket count is read from the header, the bucket blocks are
walked and the bucket's slot is read.  `none` when one of these reads fails. -/
def bucketHead (BLOCK_SIZE : Nat) (f : File) (key : Int) : Option Int :=
  match BF_ReadBlock BLOCK_SIZE f HEADER_BLOCK_INDEX with
  | none => none
  | some headerBlock =>
    let bucketIndex := HashFunction key (toInt32 (readUInt32 headerBlock 4 : Nat))
    match walkBucketBlocks BLOCK_SIZE f (bucketBlockNumber BLOCK_SIZE bucketIndex).toNat
        INVALID_BLOCK_INDEX (readInt32 headerBlock 8) with
    | none => none
    | some (bucketBlockIndex, _) =>
      match BF_ReadBlock BLOCK_SIZE f bucketBlockIndex with
      | none => none
      | some bucketBlock => some (readInt32 bucketBlock (bucketOffset BLOCK_SIZE bucketIndex))

/-- The data block `b` holds a record with ID `key` in one of its slots
`[0, ElementCount)`. -/
def holdsID (b : Block) (key : Int) : Prop :=
  ∃ recordIndex, recordIndex < readUInt32 b 0 ∧
    readInt32 b (sizeofHashDataBlockHeader + sizeofRecord * recordIndex) = key

instance holdsID.decidable (b : Block) (key : Int) : Decidable (holdsID b key) := by
  unfold holdsID
  infer_instance

/-- A record with ID `key` is stored in the file: some data block on the chain
of the bucket that `key` hashes to holds it. -/
def StoredID (BLOCK_SIZE : Nat) (f : File) (key : Int) : Prop :=
  ∃ head, bucketHead BLOCK_SIZE f key = some head ∧
    ∃ p ∈ chain BLOCK_SIZE f (f.blockCount + 1) head, holdsID p.2 key

/-! ### Scenarios -/

/-- A record whose three strings are the one-character string `c` (the empty
string when `c = 0`), zero-filled to the length of their arrays. -/
def recordOf (ID : Int) (c : Nat) : Record where
  ID := ID
  Name := c % 256
  Surname := c % 256
  Address := c % 256

/-- The calls `HT_InsertEntry(handle, r)` for the records `r` of a list, in
order: the return codes and the file afterwards. -/
def insertAll (BLOCK_SIZE : Nat) : File → List Record → Option (List Int × File)
  | f, [] => some ([], f)
  | f, r :: rs =>
    match HT_InsertEntry BLOCK_SIZE f r with
    | none => none
    | some (code, f) =>
      match insertAll BLOCK_SIZE f rs with
      | none => none
      | some (codes, f) => some (code :: codes, f)

/-- The file made by `HT_CreateIndex` with `bucketCount` buckets followed by the
inserts of `records` (the empty file if an insert does not return). -/
def fileOf (BLOCK_SIZE : Nat) (bucketCount : Int) (records : List Record) : File :=
  match insertAll BLOCK_SIZE (HT_CreateIndex BLOCK_SIZE bucketCount).2 records with
  | none => BF_CreateFile
  | some (_, f) => f

/-- The IDs of the fill of `aliasFile`: 752 IDs whose buckets, out of 254, are
among the first 127; six of them hash to each of the buckets `0 .. 124` and one
to each of the buckets `125` and `126`. -/
def fillIDs : List Int :=
  [3, 4, 7, 9, 10, 11, 12, 13, 14, 15, 16, 18, 19, 22, 24, 25, 26, 27, 28, 29, 32, 36, 38, 40, 42,
   44, 45, 49, 50, 51, 52, 54, 59, 60, 61, 63, 66, 67, 70, 72, 75, 76, 80, 83, 86, 89, 91, 92, 95,
   97, 98, 99, 100, 102, 105, 106, 108, 109, 111, 112, 113, 115, 117, 119, 121, 124, 125, 127,
   128, 129, 130, 132, 133, 142, 146, 147, 148, 149, 150, 152, 153, 154, 155, 158, 159, 161, 162,
   163, 166, 167, 172, 173, 176, 180, 181, 182, 185, 186, 189, 192, 193, 195, 197, 200, 201, 205,
   206, 208, 210, 213, 216, 217, 218, 221, 222, 223, 229, 234, 236, 239, 240, 244, 247, 248, 249,
   251, 252, 254, 255, 257, 261, 262, 264, 269, 270, 272, 276, 278, 279, 281, 282, 283, 286, 287,
   288, 289, 291, 293, 294, 296, 297, 302, 304, 305, 307, 308, 309, 310, 316, 317, 318, 322, 323,
   325, 326, 327, 329, 330, 332, 338, 340, 341, 345, 346, 349, 350, 353, 354, 361, 362, 366, 367,
   370, 371, 372, 373, 376, 377, 378, 383, 384, 385, 386, 388, 390, 391, 392, 393, 394, 396, 399,
   403, 404, 406, 408, 409, 411, 413, 414, 415, 416, 417, 419, 424, 425, 426, 427, 430, 432, 434,
   435, 437, 439, 443, 445, 447, 449, 455, 458, 459, 466, 468, 469, 470, 471, 472, 473, 475, 478,
   480, 482, 486, 488, 489, 490, 491, 493, 495, 500, 501, 502, 507, 508, 512, 517, 520, 521, 522,
   523, 526, 530, 531, 532, 533, 534, 535, 536, 538, 539, 540, 541, 542, 546, 547, 548, 549, 550,
   552, 553, 554, 556, 557, 560, 561, 564, 565, 567, 568, 571, 572, 573, 576, 577, 580, 583, 585,
   586, 590, 592, 594, 598, 599, 600, 601, 604, 608, 609, 610, 612, 613, 614, 616, 617, 618, 620,
   623, 624, 625, 626, 628, 630, 632, 633, 637, 638, 640, 643, 647, 648, 649, 651, 654, 655, 656,
   658, 661, 662, 668, 669, 670, 673, 679, 681, 682, 683, 684, 686, 687, 690, 691, 692, 695, 697,
   698, 700, 702, 703, 705, 706, 707, 715, 717, 721, 723, 726, 727, 733, 736, 740, 741, 743, 750,
   751, 752, 755, 758, 761, 764, 765, 766, 768, 773, 776, 777, 778, 779, 780, 781, 782, 786, 787,
   791, 793, 794, 796, 798, 801, 803, 811, 813, 816, 817, 821, 825, 826, 827, 828, 835, 836, 837,
   838, 839, 842, 843, 847, 852, 854, 855, 856, 857, 862, 865, 866, 871, 872, 874, 878, 880, 881,
   884, 887, 892, 898, 901, 903, 906, 908, 913, 914, 918, 921, 923, 924, 927, 928, 930, 933, 942,
   943, 945, 959, 961, 962, 963, 969, 970, 971, 974, 975, 980, 984, 989, 990, 994, 995, 996, 998,
   1001, 1002, 1003, 1004, 1005, 1009, 1015, 1017, 1018, 1019, 1025, 1026, 1028, 1031, 1037, 1042,
   1043, 1044, 1046, 1049, 1053, 1057, 1059, 1068, 1070, 1071, 1073, 1076, 1080, 1083, 1084, 1088,
   1091, 1093, 1098, 1100, 1101, 1103, 1104, 1105, 1106, 1107, 1109, 1111, 1114, 1115, 1117, 1118,
   1119, 1123, 1125, 1127, 1131, 1132, 1133, 1135, 1139, 1147, 1151, 1152, 1154, 1155, 1158, 1162,
   1168, 1173, 1184, 1185, 1186, 1192, 1194, 1195, 1196, 1197, 1199, 1201, 1205, 1207, 1209, 1210,
   1211, 1216, 1217, 1220, 1221, 1228, 1232, 1236, 1238, 1240, 1241, 1243, 1246, 1248, 1249, 1250,
   1251, 1255, 1259, 1260, 1263, 1269, 1272, 1273, 1274, 1276, 1285, 1286, 1294, 1300, 1301, 1303,
   1307, 1310, 1314, 1317, 1318, 1320, 1330, 1331, 1335, 1336, 1344, 1349, 1354, 1359, 1364, 1365,
   1369, 1372, 1375, 1377, 1378, 1381, 1382, 1384, 1390, 1391, 1395, 1399, 1403, 1415, 1422, 1425,
   1430, 1436, 1440, 1444, 1447, 1449, 1450, 1459, 1460, 1463, 1468, 1469, 1473, 1474, 1479, 1482,
   1483, 1494, 1498, 1500, 1507, 1512, 1517, 1532, 1536, 1563, 1566, 1571, 1583, 1584, 1587, 1590,
   1591, 1594, 1599, 1604, 1611, 1616, 1617, 1619, 1622, 1623, 1644, 1651, 1652, 1653, 1661, 1668,
   1676, 1677, 1678, 1680, 1693, 1696, 1700, 1706, 1709, 1710, 1711, 1712, 1722, 1723, 1724, 1728,
   1736, 1738, 1739, 1740, 1743, 1768, 1769, 1777, 1781, 1786, 1789, 1791, 1796, 1809, 1812, 1816,
   1824, 1827, 1829, 1830, 1839, 1844, 1867, 1879, 1883, 1894, 1923, 1929, 1956, 1968, 1971, 1973,
   1981, 1983, 1995, 1996, 2004, 2007, 2017, 2021, 2038, 2040, 2046, 2053, 2067, 2068, 2073, 2077,
   2097, 2100, 2104, 2133, 2142, 2143, 2152, 2193, 2205, 2206, 2210, 2212, 2220, 2223, 2230, 2233,
   2244, 2248, 2284, 2287, 2311, 2352, 2353, 2402, 2506, 2564, 2761, 2929, 3275]

/-- The records of the fill: empty strings, IDs `fillIDs`. -/
def fillRecords : List Record := fillIDs.map fun ID => recordOf ID 0

/-- The file made by `HT_CreateIndex` with 254 buckets and blocks of 512 bytes
(127 buckets to a bucket block), followed by the inserts of `fillRecords`. -/
def aliasFile : File := fileOf 512 254 fillRecords

/-- The file `aliasFile` after one more insert, of the record with ID 2, whose
bucket is 129. -/
def aliasFileAfter : File :=
  match HT_InsertEntry 512 aliasFile (recordOf 2 0) with
  | none => BF_CreateFile
  | some (_, f) => f

/-- The file made by `HT_CreateIndex` with one bucket, followed by the inserts of
the records with the IDs 1, 2 and 3, which share the data block 2. -/
def threeRecords : File := fileOf 512 1 [recordOf 1 65, recordOf 2 66, recordOf 3 67]

/-- The file `threeRecords` after `HT_DeleteEntry` of the key 2. -/
def threeRecordsAfterDelete : File :=
  match HT_DeleteEntry 512 threeRecords 2 with
  | some (_, f) => f
  | none => BF_CreateFile

/-- The file made by `HT_CreateIndex` with one bucket, followed by the inserts of
the records with the IDs 1 to 7: the data block 2 is full and the data block 3
holds two records. -/
def sevenRecords : File := fileOf 512 1 ((List.range 7).map fun k => recordOf (k + 1) 65)

/-- The file made by `HT_CreateIndex` with 3 buckets, followed by the insert of
one record, with ID 1. -/
def oneRecord : File := fileOf 512 3 [recordOf 1 65]

/-- The file made by `HT_CreateIndex` with one bucket, followed by the inserts of
the records with the IDs 1 to 5: the data block 2 is full and is the only data
block. -/
def fiveRecords : File := fileOf 512 1 ((List.range 5).map fun k => recordOf (k + 1) 65)

/-- The file `aliasFile` after `HT_DeleteEntry` of the key 1, which is the ID of
no record of the fill. -/
def aliasFileAfterDelete : File :=
  match HT_DeleteEntry 512 aliasFile 1 with
  | some (_, f) => f
  | none => BF_CreateFile

/-- A record with the ID 3, which is the first ID of the fill, and the surname
`S` followed by four bytes `0xFF`; its name and its address are empty. -/
def markedRecord : Record where
  ID := 3
  Name := 0
  Surname := 83 + 256 * 4294967295
  Address := 0

/-- The file `aliasFileAfterDelete` after `HT_InsertEntry` of `markedRecord`. -/
def aliasFileAfterReinsert : File :=
  match HT_InsertEntry 512 aliasFileAfterDelete markedRecord with
  | some (_, f) => f
  | none => BF_CreateFile

/-- The file `aliasFileAfterReinsert` after `HT_InsertEntry` of a record with the
ID 1648, whose bucket is 30 and which is the ID of no record of the fill. -/
def aliasFileAfterOverwrite : File :=
  match HT_InsertEntry 512 aliasFileAfterReinsert (recordOf 1648 0) with
  | some (_, f) => f
  | none => BF_CreateFile

end prj2.HT

namespace prj2.SHT

/-- The head of the chain of the bucket that the string `key` hashes to, as the
directory of a secondary file gives it; `none` when a read on the way fails. -/
def bucketHead (BLOCK_SIZE : Nat) (f : File) (key : List Nat) : Option Int :=
  match BF_ReadBlock BLOCK_SIZE f HEADER_BLOCK_INDEX with
  | none => none
  | some headerBlock =>
    let bucketIndex : Int :=
      toInt32 (HashFunction key (toInt32 (readUInt32 headerBlock 4 : Nat)) : Nat)
    match HT.walkBucketBlocks BLOCK_SIZE f (HT.bucketBlockNumber BLOCK_SIZE bucketIndex).toNat
        INVALID_BLOCK_INDEX (readInt32 headerBlock 8) with
    | none => none
    | some (bucketBlockIndex, _) =>
      match BF_ReadBlock BLOCK_SIZE f bucketBlockIndex with
      | none => none
      | some bucketBlock => some (readInt32 bucketBlock (HT.bucketOffset BLOCK_SIZE bucketIndex))

/-- The chain of the bucket of `key` in a secondary file: the data blocks from the
bucket's head on, each with its index and contents (no block when the directory
cannot be read). -/
def keyChain (BLOCK_SIZE : Nat) (f : File) (key : List Nat) : List (Int × Block) :=
  match bucketHead BLOCK_SIZE f key with
  | none => []
  | some head => HT.chain BLOCK_SIZE f (f.blockCount + 1) head

/-- The segment in slot `i` of a secondary data block. -/
def segmentAt (b : Block) (i : Nat) : DataSegment :=
  readDataSegment b (sizeofHashDataBlockHeader + sizeofDataSegment * i)

/-- The record in slot `j` of a primary data block. -/
def recordAt (b : Block) (j : Nat) : Record :=
  readRecord b (sizeofHashDataBlockHeader + sizeofRecord * j)

/-- The 25 bytes of the character array `surname` spell the string `key`: up to
their first zero byte they are the characters of `key`.  For a string of at most
24 characters this is what `strcmp` finds (`strcmp_eq`). -/
def sameSurname (surname : Nat) (key : List Nat) : Prop :=
  cString (charArray surname 25) = cString key

instance sameSurname.decidable (surname : Nat) (key : List Nat) :
    Decidable (sameSurname surname key) := by
  unfold sameSurname
  infer_instance

/-- The secondary data block `b` holds, in one of its slots `[0, ElementCount)`,
a segment whose surname is the string `key`. -/
def holdsSurname (b : Block) (key : List Nat) : Prop :=
  ∃ i, i < readUInt32 b 0 ∧ sameSurname (segmentAt b i).Surname key

/-- The primary data block `b` holds, in one of its slots `[0, ElementCount)`, a
record whose surname is the string `key`. -/
def holdsRecordNamed (b : Block) (key : List Nat) : Prop :=
  ∃ j, j < readUInt32 b 0 ∧ sameSurname (recordAt b j).Surname key

instance holdsSurname.decidable (b : Block) (key : List Nat) : Decidable (holdsSurname b key) := by
  unfold holdsSurname
  infer_instance

instance holdsRecordNamed.decidable (b : Block) (key : List Nat) :
    Decidable (holdsRecordNamed b key) := by
  unfold holdsRecordNamed
  infer_instance

/-- The back-reference `blockID` is stale for the surname `key`: the primary block
of that index holds no record with the surname, or there is no such block. -/
def staleReference (BLOCK_SIZE : Nat) (primary : File) (blockID : Int) (key : List Nat) : Prop :=
  match BF_ReadBlock BLOCK_SIZE primary blockID with
  | none => True
  | some pb => ¬ holdsRecordNamed pb key

instance staleReference.decidable (BLOCK_SIZE : Nat) (primary : File) (blockID : Int)
    (key : List Nat) : Decidable (staleReference BLOCK_SIZE primary blockID key) := by
  unfold staleReference
  split <;> infer_instance

/-- The first of the `k` slots from `dataSegmentIndex` on whose segment has the
surname `key`, in a secondary data block. -/
def findNamedSegment (b : Block) (key : List Nat) : Nat → Nat → Option Nat
  | 0, _ => none
  | k + 1, dataSegmentIndex =>
    if cString (charArray
          (readDataSegment b (sizeofHashDataBlockHeader + sizeofDataSegment * dataSegmentIndex)).Surname
          25) = cString key then
      some dataSegmentIndex
    else findNamedSegment b key k (dataSegmentIndex + 1)

/-- The first of the `k` slots from `recordIndex` on whose record has the surname
`key`, in a primary data block. -/
def findNamedRecord (b : Block) (key : List Nat) : Nat → Nat → Option Nat
  | 0, _ => none
  | k + 1, recordIndex =>
    if cString (charArray
          (readRecord b (sizeofHashDataBlockHeader + sizeofRecord * recordIndex)).Surname 25)
        = cString key then
      some recordIndex
    else findNamedRecord b key k (recordIndex + 1)

/-- The first segment with the surname `key` on a chain of secondary data blocks,
in the order of the chain and of the slots. -/
def firstMatch (chain : List (Int × Block)) (key : List Nat) : Option DataSegment :=
  chain.findSome? fun p =>
    (findNamedSegment p.2 key (readUInt32 p.2 0) 0).map fun i => segmentAt p.2 i

/-- The element `x` of a chain of a secondary file is a segment whose surname is the
string `key`. -/
def segmentNamed (key : List Nat) (x : Int × Nat) : Bool :=
  decide (sameSurname (readDataSegment x.2 0).Surname key)

/-- The secondary file after `SHT_SecondaryInsertEntry` has been called, in
order, on the elements `xs` of a primary file, each one a record (its bytes)
with the index of its block, as the loops of `SHT_CreateSecondaryIndex` call it;
the return codes are not looked at.  `none` when a call does not return. -/
def insertAll (BLOCK_SIZE : Nat) : File → List (Int × Nat) → Option File
  | f, [] => some f
  | f, x :: xs =>
    match SHT_SecondaryInsertEntry BLOCK_SIZE f { Record := readRecord x.2 0, BlockID := x.1 } with
    | none => none
    | some (_, f) => insertAll BLOCK_SIZE f xs

/-! ### Scenarios -/

/-- The secondary file that `SHT_CreateSecondaryIndex` makes with `bucketCount`
buckets over the primary file `primary` (the empty file if the function returns
`-1` or does not return). -/
def secondaryOf (BLOCK_SIZE : Nat) (bucketCount : Int) (primary : File) : File :=
  match SHT_CreateSecondaryIndex.bootstrap BLOCK_SIZE primary
      (SHT_CreateSecondaryIndex.directory BLOCK_SIZE bucketCount).2 with
  | some (.next f) => f
  | _ => BF_CreateFile

/-- A primary file of 3 buckets with four records, whose surnames are `A`, `B`,
`A` and `C`. -/
def demoPrimary : File :=
  HT.fileOf 512 3 [HT.recordOf 1 65, HT.recordOf 2 66, HT.recordOf 3 65, HT.recordOf 4 67]

/-- The secondary file of 5 buckets made over `demoPrimary`. -/
def demoSecondary : File := secondaryOf 512 5 demoPrimary

/-- The file after `SHT_SecondaryInsertEntry(handle, record)` on the file `f` (`f`
itself if the call does not return). -/
def afterInsert (BLOCK_SIZE : Nat) (f : File) (record : SecondaryRecord) : File :=
  match SHT_SecondaryInsertEntry BLOCK_SIZE f record with
  | some (_, f) => f
  | none => f

/-- The secondary file of 5 buckets with the one entry `A -> 5`. -/
def oneEntry : File :=
  afterInsert 512 (SHT_CreateSecondaryIndex.directory 512 5).2
    { Record := HT.recordOf 9 65, BlockID := 5 }

/-- The file `oneEntry` after the insert of the entry `B -> 5`. -/
def twoEntries : File := afterInsert 512 oneEntry { Record := HT.recordOf 9 66, BlockID := 5 }

/-- The file `demoPrimary` after the insert of the record with ID 5 and surname
`D`, which goes to block 3. -/
def demoPrimaryAfterInsert : File :=
  match HT.HT_InsertEntry 512 demoPrimary (HT.recordOf 5 68) with
  | some (_, f) => f
  | none => demoPrimary

/-- The file `demoSecondary` after the insert of the entry `D -> 3`. -/
def demoSecondaryAfterInsert : File :=
  afterInsert 512 demoSecondary { Record := HT.recordOf 5 68, BlockID := 3 }

/-- The file `demoPrimary` after `HT_DeleteEntry` of the key 2. -/
def demoPrimaryAfterDelete : File :=
  match HT.HT_DeleteEntry 512 demoPrimary 2 with
  | some (_, f) => f
  | none => BF_CreateFile

/-- A record whose array `Surname` holds 25 characters `A` and no zero byte; its
name is empty and its address is the one-character string `c`. -/
def longRecord (ID : Int) (c : Nat) : Record where
  ID := ID
  Name := 0
  Surname := 65 * ((256 ^ 25 - 1) / 255)
  Address := c % 256

/-- The file `demoPrimary` after the insert of `longRecord 7 88`. -/
def longPrimary : File :=
  match HT.HT_InsertEntry 512 demoPrimary (longRecord 7 88) with
  | some (_, f) => f
  | none => demoPrimary

/-- The file `demoSecondary` after the insert of the entry of `longRecord 7 88`,
with the block index 3 that `HT_InsertEntry` has returned for it. -/
def longSecondary : File :=
  afterInsert 512 demoSecondary { Record := longRecord 7 88, BlockID := 3 }

/-- A primary file of 3 buckets with two records whose arrays `Surname` hold the
same 25 characters and whose addresses are `X` and `Y`. -/
def twinPrimary : File := HT.fileOf 512 3 [longRecord 1 88, longRecord 2 89]

/-- The secondary file of 5 buckets made over `twinPrimary`. -/
def twinSecondary : File := secondaryOf 512 5 twinPrimary

/-- The secondary file of 5 buckets with the one entry `A -> 1`, whose block
index is that of the bucket block of a primary file. -/
def strayEntry : File :=
  afterInsert 512 (SHT_CreateSecondaryIndex.directory 512 5).2
    { Record := HT.recordOf 9 65, BlockID := 1 }

/-- The secondary file of 5 buckets with the one entry of `markedRecord`, with the
block index 0 that `HT_InsertEntry` has returned for it. -/
def markedEntry : File :=
  afterInsert 512 (SHT_CreateSecondaryIndex.directory 512 5).2
    { Record := HT.markedRecord, BlockID := 0 }

end prj2.SHT

namespace prj2

/-! ### Sequences of calls that open and close files -/

/-- A call of one of the four functions that open or close a hash file. -/
inductive Call where
  | HT_OpenIndex (fileName : FileName)
  | HT_CloseIndex (handle : HandlePtr)
  | SHT_OpenSecondaryIndex (fileName : FileName)
  | SHT_CloseSecondaryIndex (handle : HandlePtr)
deriving DecidableEq, Repr

/-- The numbers of primary and of secondary files that are open: for each
engine, the successful opens minus the successful closes so far. -/
structure OpenCount where
  primary : Int
  secondary : Int
deriving DecidableEq, Repr

/-- One call, from a state and the counts of open files: an open counts when it
returns a pointer, a close when it returns 0. -/
def Call.run (BLOCK_SIZE : Nat) (st : State) (n : OpenCount) : Call → State × OpenCount
  | .HT_OpenIndex fileName =>
    let r := HT.HT_OpenIndex BLOCK_SIZE st fileName
    (r.2, if r.1.isSome then { n with primary := n.primary + 1 } else n)
  | .HT_CloseIndex handle =>
    let r := HT.HT_CloseIndex st handle
    (r.2, if r.1 = 0 then { n with primary := n.primary - 1 } else n)
  | .SHT_OpenSecondaryIndex fileName =>
    let r := SHT.SHT_OpenSecondaryIndex BLOCK_SIZE st fileName
    (r.2, if r.1.isSome then { n with secondary := n.secondary + 1 } else n)
  | .SHT_CloseSecondaryIndex handle =>
    let r := SHT.SHT_CloseSecondaryIndex st handle
    (r.2, if r.1 = 0 then { n with secondary := n.secondary - 1 } else n)

/-- A sequence of calls, in order. -/
def runCalls (BLOCK_SIZE : Nat) : State → OpenCount → List Call → State × OpenCount
  | st, n, [] => (st, n)
  | st, n, c :: cs =>
    let r := c.run BLOCK_SIZE st n
    runCalls BLOCK_SIZE r.1 r.2 cs

/-- The state of a program that has made `files` and has no file open. -/
def initialState (files : List (FileName × File)) : State where
  store := { files := files, openFiles := [] }
  HT_s_HandleStorage := -1
  SHT_s_HandleStorage := -1

/-- Two files of the store in the examples: under the name `P` (byte 80) the
file that `HT_CreateIndex` makes with 5 buckets, under the name `S` (byte 83)
the file that `SHT_CreateSecondaryIndex` makes with 5 buckets before it inserts
records. -/
def twoFiles : List (FileName × File) :=
  [([80], (HT.HT_CreateIndex 512 5).2), ([83], (SHT.SHT_CreateSecondaryIndex.directory 512 5).2)]

/-- A run of the program: `HT_CreateIndex` of the file `P` with `bucketCount`
buckets, `HT_OpenIndex`, `HT_DeleteEntry` of `key`, `HT_CloseIndex`,
`HT_CloseIndex` again with the same pointer, and `HT_OpenIndex` of `P`.  The
result holds what the six calls return, in order. -/
def closeReopenRun (BLOCK_SIZE : Nat) (bucketCount : Int) (key : Int) :
    Option (Int × Option HandlePtr × Int × Int × Int × Option HandlePtr) :=
  let (created, store) :=
    HT.HT_CreateIndex.inStore BLOCK_SIZE { files := [], openFiles := [] } [80] bucketCount
  let st : State := { store := store, HT_s_HandleStorage := -1, SHT_s_HandleStorage := -1 }
  let (handle, st) := HT.HT_OpenIndex BLOCK_SIZE st [80]
  match HT.HT_DeleteEntry.inStore BLOCK_SIZE st.store st.HT_s_HandleStorage key with
  | none => none
  | some (deleted, store) =>
    let st := { st with store := store }
    let (closed, st) := HT.HT_CloseIndex st .HT_s_HandleStorage
    let (closedAgain, st) := HT.HT_CloseIndex st .HT_s_HandleStorage
    let (reopened, _) := HT.HT_OpenIndex BLOCK_SIZE st [80]
    some (created, handle, deleted, closed, closedAgain, reopened)

/-- The state of a program that has the file `aliasFileAfter` under the name `P`
and open on handle 0 through `HT_OpenIndex`: the state after `HT_CreateIndex`
with 254 buckets, `HT_OpenIndex` and the 753 inserts that make that file. -/
def aliasState : State where
  store := { files := [([80], HT.aliasFileAfter)], openFiles := [some [80]] }
  HT_s_HandleStorage := 0
  SHT_s_HandleStorage := -1

/-- A block store with two files and no file open: under the name `P` (byte 80)
the primary file `demoPrimary` of 3 buckets and four records, under the name
`S` (byte 83) the secondary file `demoSecondary` made over it. -/
def statisticsStore : BFState where
  files := [([80], SHT.demoPrimary), ([83], SHT.demoSecondary)]
  openFiles := []

/-- The block store `statisticsStore` with the file `S` open, on handle 0. -/
def statisticsStoreBusy : BFState := (BF_OpenFile statisticsStore [83]).2

end prj2

namespace prj1

/-! ### Project 1: `Common.h` and `HT.c` -/

/-- The enumerator `HashFile` of `FileType` in project 1 (`None = 0`,
`HeapFile = 1`). -/
def HashFile : Nat := 2

/-- The struct `Record` of project 1, which is declared as in project 2. -/
abbrev Record := prj2.Record

namespace HT

/-- The macro `INVALID_BLOCK_INDEX` of `HT.c`. -/
def INVALID_BLOCK_INDEX : Int := -1

/-- The macro `HEADER_BLOCK_INDEX` of `HT.c`. -/
def HEADER_BLOCK_INDEX : Int := 0

/-- The value of `sizeof(BucketBlockHeader)`: `int32_t NextBlockIndex` at offset
0. -/
def sizeofBucketBlockHeader : Nat := 4

/-- The value of `sizeof(DataBlockHeader)`: `uint8_t RecordCount` at offset 0,
three bytes of padding, `int32_t NextBlockIndex` at offset 4. -/
def sizeofDataBlockHeader : Nat := 8

/-- The macro `MAX_BUCKET_COUNT_PER_BLOCK` of `HT.c`,
`(BLOCK_SIZE - sizeof(BucketBlockHeader)) / sizeof(int32_t)`. -/
def MAX_BUCKET_COUNT_PER_BLOCK (BLOCK_SIZE : Nat) : Nat :=
  (BLOCK_SIZE - sizeofBucketBlockHeader) / 4

/-- The macro `MAX_RECORD_COUNT_PER_BLOCK` of `HT.c`,
`(BLOCK_SIZE - sizeof(DataBlockHeader)) / sizeof(Record)`. -/
def MAX_RECORD_COUNT_PER_BLOCK (BLOCK_SIZE : Nat) : Nat :=
  (BLOCK_SIZE - sizeofDataBlockHeader) / prj2.sizeofRecord

/-- The field `RecordCount` of a data block, a `uint8_t` at offset 0. -/
def RecordCount (b : Block) : Nat := readBytes b 0 1

/-- The function `HashFunction` of `HT.c`, `(key * (key + 3)) % hashTableSize`: the
sum and the product wrap to 32 bits, `%` is the C remainder, which truncates
toward zero.  (For `hashTableSize = 0` the C program divides by zero.) -/
def HashFunction (key : Int) (hashTableSize : Int) : Int :=
  Int.tmod (toInt32 (key * toInt32 (key + 3))) hashTableSize

/-- The loop of `HT_CreateIndex` over the required bucket blocks (lines 135-233),
with `k` iterations left.  The result is the return code and the file. -/
def HT_CreateIndex.loop (BLOCK_SIZE : Nat) (bucketCount requiredBlockCount : Int) :
    Nat → Int → Int → File → Int × File
  | 0, _, _, f => (0, f)
  | k + 1, index, previousBucketBlockIndex, f =>
    let f := BF_AllocateBlock BLOCK_SIZE f
    let blockCount := BF_GetBlockCounter f
    let newBucketBlockIndex := blockCount - 1
    match BF_ReadBlock BLOCK_SIZE f newBucketBlockIndex with
    | none => (-1, f)
    | some newBucketBlock =>
      let newBucketBlock := writeInt32 newBucketBlock 0 INVALID_BLOCK_INDEX
      let bucketCountInCurrentBucketBlock : Int :=
        if index = requiredBlockCount - 1 then
          toInt32 (toUInt64 bucketCount % MAX_BUCKET_COUNT_PER_BLOCK BLOCK_SIZE : Nat)
        else toInt32 (MAX_BUCKET_COUNT_PER_BLOCK BLOCK_SIZE : Nat)
      let newBucketBlock := memset newBucketBlock sizeofBucketBlockHeader INVALID_BLOCK_INDEX
        (toUInt64 bucketCountInCurrentBucketBlock * 4 % 2 ^ 64)
      let f := BF_WriteBlock BLOCK_SIZE f newBucketBlockIndex newBucketBlock
      match BF_ReadBlock BLOCK_SIZE f previousBucketBlockIndex with
      | none => (-1, f)
      | some previousBucketBlock =>
        let previousBucketBlock :=
          if previousBucketBlockIndex = HEADER_BLOCK_INDEX then
            writeInt32 previousBucketBlock 8 newBucketBlockIndex
          else writeInt32 previousBucketBlock 0 newBucketBlockIndex
        let f := BF_WriteBlock BLOCK_SIZE f previousBucketBlockIndex previousBucketBlock
        HT_CreateIndex.loop BLOCK_SIZE bucketCount requiredBlockCount k (index + 1)
          newBucketBlockIndex f

/-- The function `HT_CreateIndex`: the return code and the file it leaves.  The
block store creates an empty file; `FileHeader` has `Type` at offset 0,
`BucketCount` at 4 and `NextBlockIndex` at 8. -/
def HT_CreateIndex (BLOCK_SIZE : Nat) (bucketCount : Int) : Int × File :=
  let f : File := BF_CreateFile
  let f := BF_AllocateBlock BLOCK_SIZE f
  match BF_ReadBlock BLOCK_SIZE f HEADER_BLOCK_INDEX with
  | none => (-1, f)
  | some headerBlock =>
    let headerBlock := writeInt32 headerBlock 0 HashFile
    let headerBlock := writeInt32 headerBlock 4 bucketCount
    let headerBlock := writeInt32 headerBlock 8 INVALID_BLOCK_INDEX
    let f := BF_WriteBlock BLOCK_SIZE f HEADER_BLOCK_INDEX headerBlock
    let requiredBlockCount : Int :=
      toInt32 (toUInt64 bucketCount / MAX_BUCKET_COUNT_PER_BLOCK BLOCK_SIZE : Nat)
    let requiredBlockCount : Int :=
      toInt32 (requiredBlockCount
        + (if toUInt64 bucketCount % MAX_BUCKET_COUNT_PER_BLOCK BLOCK_SIZE > 0 then 1 else 0))
    HT_CreateIndex.loop BLOCK_SIZE bucketCount requiredBlockCount requiredBlockCount.toNat 0
      HEADER_BLOCK_INDEX f

/-- The value `bucketBlockNumber` that insert and keyed scan compute from
`bucketIndex` (lines 337-338, 811-812); the division and remainder are taken in
`size_t`. -/
def bucketBlockNumber (BLOCK_SIZE : Nat) (bucketIndex : Int) : Int :=
  let n : Int :=
    toInt32 (toUInt64 (toInt32 (bucketIndex + 1)) / MAX_BUCKET_COUNT_PER_BLOCK BLOCK_SIZE : Nat)
  toInt32 (n + (if toUInt64 (toInt32 (bucketIndex + 1)) % MAX_BUCKET_COUNT_PER_BLOCK BLOCK_SIZE > 0
    then 1 else 0))

/-- The loop `for (index = 0; index < bucketBlockNumber; index++)` over the bucket
blocks (lines 347-365, 821-842), with `k` iterations left: `none` when a read
fails, else the final `(previousBucketBlockIndex, currentBucketBlockIndex)`. -/
def walkBucketBlocks (BLOCK_SIZE : Nat) (f : File) : Nat → Int → Int → Option (Int × Int)
  | 0, previousBucketBlockIndex, currentBucketBlockIndex =>
    some (previousBucketBlockIndex, currentBucketBlockIndex)
  | k + 1, _, currentBucketBlockIndex =>
    match BF_ReadBlock BLOCK_SIZE f currentBucketBlockIndex with
    | none => none
    | some currentBucketBlock =>
      walkBucketBlocks BLOCK_SIZE f k currentBucketBlockIndex (readInt32 currentBucketBlock 0)

/-- The byte offset, inside its bucket block, of the bucket `bucketIndex` (lines
371 and 384-388): the header, then `bucketIndexInBucketBlock` slots. -/
def bucketOffset (BLOCK_SIZE : Nat) (bucketIndex : Int) : Nat :=
  let bucketIndexInBucketBlock : Int :=
    toInt32 (toUInt64 bucketIndex % MAX_BUCKET_COUNT_PER_BLOCK BLOCK_SIZE : Nat)
  sizeofBucketBlockHeader + (toUInt64 bucketIndexInBucketBlock * 4 % 2 ^ 64)

/-- The inner loop `for (recordIndex = 0; recordIndex < RecordCount; recordIndex++)`
that compares `currentRecord->ID` with `key`, with `k` iterations left: the first
`recordIndex` whose record has that ID. -/
def findRecord (b : Block) (key : Int) : Nat → Nat → Option Nat
  | 0, _ => none
  | k + 1, recordIndex =>
    if readInt32 b (sizeofDataBlockHeader + prj2.sizeofRecord * recordIndex) = key then
      some recordIndex
    else findRecord b key k (recordIndex + 1)

/-- The first `while` loop of `HT_InsertEntry` (lines 399-436), which looks for a
record with the ID of `record`: `ret (-1)` when the function returns there,
`next ()` when the chain ends.  `none`: the loop does not end. -/
def HT_InsertEntry.checkLoop (BLOCK_SIZE : Nat) (f : File) (record : Record) :
    Nat → Int → Option (CFlow Int Unit)
  | 0, _ => none
  | fuel + 1, currentDataBlockIndex =>
    if currentDataBlockIndex = INVALID_BLOCK_INDEX then some (.next ())
    else
      match BF_ReadBlock BLOCK_SIZE f currentDataBlockIndex with
      | none => some (.ret (-1))
      | some currentDataBlock =>
        match findRecord currentDataBlock record.ID (RecordCount currentDataBlock) 0 with
        | some _ => some (.ret (-1))
        | none =>
          HT_InsertEntry.checkLoop BLOCK_SIZE f record fuel (readInt32 currentDataBlock 4)

/-- The second `while` loop of `HT_InsertEntry` (lines 447-494), which inserts into
the first block with room: `ret` with the return code and the file when the
function returns there, `next previousDataBlockIndex` when the chain ends.
`RecordCount++` is taken in `uint8_t`. -/
def HT_InsertEntry.insertLoop (BLOCK_SIZE : Nat) (f : File) (record : Record) :
    Nat → Int → Int → Option (CFlow (Int × File) Int)
  | 0, _, _ => none
  | fuel + 1, previousDataBlockIndex, currentDataBlockIndex =>
    if currentDataBlockIndex = INVALID_BLOCK_INDEX then some (.next previousDataBlockIndex)
    else
      match BF_ReadBlock BLOCK_SIZE f currentDataBlockIndex with
      | none => some (.ret (-1, f))
      | some currentDataBlock =>
        if RecordCount currentDataBlock < MAX_RECORD_COUNT_PER_BLOCK BLOCK_SIZE then
          let currentDataBlock' := writeBytes currentDataBlock
            (sizeofDataBlockHeader + RecordCount currentDataBlock * prj2.sizeofRecord % 2 ^ 64)
            prj2.sizeofRecord record.toBytes
          let currentDataBlock' := writeBytes currentDataBlock' 0 1
            ((RecordCount currentDataBlock + 1) % 256)
          some (.ret (currentDataBlockIndex,
            BF_WriteBlock BLOCK_SIZE f currentDataBlockIndex currentDataBlock'))
        else
          HT_InsertEntry.insertLoop BLOCK_SIZE f record fuel currentDataBlockIndex
            (readInt32 currentDataBlock 4)

/-- The end of `HT_InsertEntry` (lines 496-617): a new data block is allocated,
filled with the record and linked after `previousDataBlockIndex`, or entered in
the bucket when there is no previous data block.  The new `DataBlockHeader` is
copied as 8 bytes: the count 1, three zero bytes of padding, and the link. -/
def HT_InsertEntry.newBlock (BLOCK_SIZE : Nat) (f : File) (record : Record)
    (previousDataBlockIndex : Int) (bucketBlockIndex : Int) (bucketOffset : Nat) : Int × File :=
  let f := BF_AllocateBlock BLOCK_SIZE f
  let blockCount := BF_GetBlockCounter f
  let newDataBlockIndex := blockCount - 1
  match BF_ReadBlock BLOCK_SIZE f newDataBlockIndex with
  | none => (-1, f)
  | some newDataBlock =>
    let newDataBlock := writeBytes newDataBlock 0 sizeofDataBlockHeader
      (1 + toUInt32 INVALID_BLOCK_INDEX * 256 ^ 4)
    let newDataBlock :=
      writeBytes newDataBlock sizeofDataBlockHeader prj2.sizeofRecord record.toBytes
    let f := BF_WriteBlock BLOCK_SIZE f newDataBlockIndex newDataBlock
    if previousDataBlockIndex ≠ INVALID_BLOCK_INDEX then
      match BF_ReadBlock BLOCK_SIZE f previousDataBlockIndex with
      | none => (-1, f)
      | some previousDataBlock =>
        let previousDataBlock := writeInt32 previousDataBlock 4 newDataBlockIndex
        (newDataBlockIndex, BF_WriteBlock BLOCK_SIZE f previousDataBlockIndex previousDataBlock)
    else
      match BF_ReadBlock BLOCK_SIZE f bucketBlockIndex with
      | none => (-1, f)
      | some bucketBlock =>
        let bucketBlock := writeInt32 bucketBlock bucketOffset newDataBlockIndex
        (newDataBlockIndex, BF_WriteBlock BLOCK_SIZE f bucketBlockIndex bucketBlock)

/-- The function `HT_InsertEntry`, on the file that `handle` designates: the
return code and the file afterwards; `none` when a chain loop does not end.
When the header block cannot be read the function executes `return nullptr`,
which is 0. -/
def HT_InsertEntry (BLOCK_SIZE : Nat) (f : File) (record : Record) : Option (Int × File) :=
  match BF_ReadBlock BLOCK_SIZE f HEADER_BLOCK_INDEX with
  | none => some (0, f)
  | some headerBlock =>
    let bucketIndex := HashFunction record.ID (toInt32 (readUInt32 headerBlock 4 : Nat))
    match walkBucketBlocks BLOCK_SIZE f (bucketBlockNumber BLOCK_SIZE bucketIndex).toNat
        INVALID_BLOCK_INDEX (readInt32 headerBlock 8) with
    | none => some (-1, f)
    | some (bucketBlockIndex, _) =>
      match BF_ReadBlock BLOCK_SIZE f bucketBlockIndex with
      | none => some (-1, f)
      | some bucketBlock =>
        let dataBlockIndex := readInt32 bucketBlock (bucketOffset BLOCK_SIZE bucketIndex)
        match HT_InsertEntry.checkLoop BLOCK_SIZE f record (f.blockCount + 1) dataBlockIndex with
        | none => none
        | some (.ret r) => some (r, f)
        | some (.next _) =>
          match HT_InsertEntry.insertLoop BLOCK_SIZE f record (f.blockCount + 1)
              INVALID_BLOCK_INDEX dataBlockIndex with
          | none => none
          | some (.ret r) => some r
          | some (.next previousDataBlockIndex) =>
            some (HT_InsertEntry.newBlock BLOCK_SIZE f record previousDataBlockIndex
              bucketBlockIndex (bucketOffset BLOCK_SIZE bucketIndex))

/-- The `while` loop of the keyed branch of `HT_GetAllEntries` (lines 874-914).
The state is `blocksTraversed`; `ret (r, out)` is a return of `r` after printing
the records `out`. -/
def HT_GetAllEntries.keyLoop (BLOCK_SIZE : Nat) (f : File) (key : Int) :
    Nat → Int → Nat → Option (CFlow (Int × List Record) Unit)
  | 0, _, _ => none
  | fuel + 1, currentDataBlockIndex, blocksTraversed =>
    if currentDataBlockIndex = INVALID_BLOCK_INDEX then some (.next ())
    else
      match BF_ReadBlock BLOCK_SIZE f currentDataBlockIndex with
      | none => some (.ret (-1, []))
      | some currentDataBlock =>
        let blocksTraversed := (blocksTraversed + 1) % 2 ^ 32
        match findRecord currentDataBlock key (RecordCount currentDataBlock) 0 with
        | some recordIndex =>
          some (.ret (toInt32 (blocksTraversed : Nat),
            [prj2.readRecord currentDataBlock
              (sizeofDataBlockHeader + prj2.sizeofRecord * recordIndex)]))
        | none =>
          HT_GetAllEntries.keyLoop BLOCK_SIZE f key fuel (readInt32 currentDataBlock 4)
            blocksTraversed

/-- The innermost loop of the full scan (lines 979-987), which prints the records
of a data block at `recordIndex, recordIndex + 1, ...`, `k` of them.  `out` is
the list of the records printed so far, the latest first. -/
def printRecords (b : Block) : Nat → Nat → List Record → List Record
  | 0, _, out => out
  | k + 1, recordIndex, out =>
    printRecords b k (recordIndex + 1)
      (prj2.readRecord b (sizeofDataBlockHeader + prj2.sizeofRecord * recordIndex) :: out)

/-- The loop over the data blocks of one bucket in the full scan (lines 960-991).
The state is `out`, the records printed so far, the latest first; a return
carries them in the order of printing. -/
def HT_GetAllEntries.dataLoop (BLOCK_SIZE : Nat) (f : File) :
    Nat → Int → List Record → Option (CFlow (Int × List Record) (List Record))
  | 0, _, _ => none
  | fuel + 1, currentDataBlockIndex, out =>
    if currentDataBlockIndex = INVALID_BLOCK_INDEX then some (.next out)
    else
      match BF_ReadBlock BLOCK_SIZE f currentDataBlockIndex with
      | none => some (.ret (-1, out.reverse))
      | some currentDataBlock =>
        HT_GetAllEntries.dataLoop BLOCK_SIZE f fuel (readInt32 currentDataBlock 4)
          (printRecords currentDataBlock (RecordCount currentDataBlock) 0 out)

/-- The loop `for (bucketIndex = 0; bucketIndex < bucketsInCurrentBlock; bucketIndex++)`
of the full scan (lines 951-995), with `k` iterations left.  The bucket values
are read through the pointer to the bucket block, which is taken to stay valid
while the data blocks are read. -/
def HT_GetAllEntries.bucketLoop (BLOCK_SIZE : Nat) (f : File) (currentBucketBlock : Block) :
    Nat → Nat → List Record → Option (CFlow (Int × List Record) (List Record))
  | 0, _, out => some (.next out)
  | k + 1, bucketIndex, out =>
    match HT_GetAllEntries.dataLoop BLOCK_SIZE f (f.blockCount + 1)
        (readInt32 currentBucketBlock (sizeofBucketBlockHeader + 4 * bucketIndex)) out with
    | none => none
    | some (.ret r) => some (.ret r)
    | some (.next out) =>
      HT_GetAllEntries.bucketLoop BLOCK_SIZE f currentBucketBlock k (bucketIndex + 1) out

/-- The loop over the bucket blocks in the full scan (lines 926-999).  No counter
of blocks is kept in this branch. -/
def HT_GetAllEntries.bucketBlockLoop (BLOCK_SIZE : Nat) (f : File) (bucketCount : Nat) :
    Nat → Int → List Record → Option (CFlow (Int × List Record) (List Record))
  | 0, _, _ => none
  | fuel + 1, currentBucketBlockIndex, out =>
    if currentBucketBlockIndex = INVALID_BLOCK_INDEX then some (.next out)
    else
      match BF_ReadBlock BLOCK_SIZE f currentBucketBlockIndex with
      | none => some (.ret (-1, out.reverse))
      | some currentBucketBlock =>
        let NextBlockIndex := readInt32 currentBucketBlock 0
        let bucketsInCurrentBlock : Int :=
          if NextBlockIndex = INVALID_BLOCK_INDEX then
            toInt32 (bucketCount % MAX_BUCKET_COUNT_PER_BLOCK BLOCK_SIZE : Nat)
          else toInt32 (MAX_BUCKET_COUNT_PER_BLOCK BLOCK_SIZE : Nat)
        match HT_GetAllEntries.bucketLoop BLOCK_SIZE f currentBucketBlock
            (toUInt32 bucketsInCurrentBlock) 0 out with
        | none => none
        | some (.ret r) => some (.ret r)
        | some (.next out) =>
          HT_GetAllEntries.bucketBlockLoop BLOCK_SIZE f bucketCount fuel NextBlockIndex out

/-- The function `HT_GetAllEntries`; `keyValue = none` is the null pointer.  The
result is the return code and the records printed, in order.  When the header
block cannot be read the function executes `return nullptr`, which is 0; the
full scan ends with `return 0`. -/
def HT_GetAllEntries (BLOCK_SIZE : Nat) (f : File) (keyValue : Option Int) :
    Option (Int × List Record) :=
  let key : Int := match keyValue with
    | some v => v
    | none => -1
  match BF_ReadBlock BLOCK_SIZE f HEADER_BLOCK_INDEX with
  | none => some (0, [])
  | some headerBlock =>
    if key ≠ -1 then
      let bucketIndex := HashFunction key (toInt32 (readUInt32 headerBlock 4 : Nat))
      let blocksTraversed : Nat := 1
      match walkBucketBlocks BLOCK_SIZE f (bucketBlockNumber BLOCK_SIZE bucketIndex).toNat
          INVALID_BLOCK_INDEX (readInt32 headerBlock 8) with
      | none => some (-1, [])
      | some (bucketBlockIndex, _) =>
        let blocksTraversed :=
          (blocksTraversed + (bucketBlockNumber BLOCK_SIZE bucketIndex).toNat) % 2 ^ 32
        match BF_ReadBlock BLOCK_SIZE f bucketBlockIndex with
        | none => some (-1, [])
        | some bucketBlock =>
          let dataBlockIndex := readInt32 bucketBlock (bucketOffset BLOCK_SIZE bucketIndex)
          match HT_GetAllEntries.keyLoop BLOCK_SIZE f key (f.blockCount + 1) dataBlockIndex
              blocksTraversed with
          | none => none
          | some (.ret r) => some r
          | some (.next _) => some (-1, [])
    else
      match HT_GetAllEntries.bucketBlockLoop BLOCK_SIZE f (readUInt32 headerBlock 4)
          (f.blockCount + 1) (readInt32 headerBlock 8) [] with
      | none => none
      | some (.ret r) => some r
      | some (.next out) => some (0, out.reverse)

/-! ### The run of the demonstration program -/

/-- The bytes of a C string, as the number that a character array holds. -/
def stringValue : List Nat → Nat
  | [] => 0
  | c :: s => c % 256 + 256 * stringValue s

/-- The characters that `%d` prints for a number below 100. -/
def decimal (k : Nat) : List Nat :=
  if k < 10 then [48 + k] else [48 + k / 10 % 10, 48 + k % 10]

/-- The record that `main` of `Demo.c` makes for `recordIndex + 1 = k`: the ID
`k` and the strings `Name k`, `Surname k` and `Address k`. -/
def demoRecord (k : Nat) : Record where
  ID := k
  Name := stringValue ([78, 97, 109, 101, 32] ++ decimal k)
  Surname := stringValue ([83, 117, 114, 110, 97, 109, 101, 32] ++ decimal k)
  Address := stringValue ([65, 100, 100, 114, 101, 115, 115, 32] ++ decimal k)

/-- The calls `HT_InsertEntry(handle, r)` for the records `r` of a list, in
order: the return codes and the file afterwards. -/
def insertAll (BLOCK_SIZE : Nat) : File → List Record → Option (List Int × File)
  | f, [] => some ([], f)
  | f, r :: rs =>
    match HT_InsertEntry BLOCK_SIZE f r with
    | none => none
    | some (code, f) =>
      match insertAll BLOCK_SIZE f rs with
      | none => none
      | some (codes, f) => some (code :: codes, f)

/-- The records of the demonstration program, with the IDs 1 to 17 in order. -/
def demoRecords : List Record := (List.range 17).map fun recordIndex => demoRecord (recordIndex + 1)

/-- The run of the demonstration program on blocks of 512 bytes: `HT_CreateIndex`
with 12 buckets and the 17 calls of `HT_InsertEntry`.  The result holds the
return code of the creation, those of the inserts, and the file. -/
def demoRun : Option (Int × List Int × File) :=
  match insertAll 512 (HT_CreateIndex 512 12).2 demoRecords with
  | none => none
  | some (codes, f) => some ((HT_CreateIndex 512 12).1, codes, f)

/-- The file that the run of the demonstration program leaves. -/
def demoFile : File :=
  match demoRun with
  | none => BF_CreateFile
  | some (_, _, f) => f

end HT

end prj1

/-! ## Files in good order: chains apart, elements in their buckets, no key twice -/

/-- The chains of different buckets of a hash file of `n` buckets have no data
block in common. -/
def ChainsApart (BLOCK_SIZE : Nat) (f : File) (n : Nat) : Prop :=
  ∀ s t, s < n → t < n → s ≠ t →
    ∀ p ∈ bucketChain BLOCK_SIZE f s, ∀ q ∈ bucketChain BLOCK_SIZE f t, p.1 ≠ q.1

/-- Two chains with the same block indices, block by block, and in each block the
same elements (the links of the blocks may differ). -/
def SameContents (size : Nat) (l l' : List (Int × Block)) : Prop :=
  List.Forall₂ (fun p p' => p'.1 = p.1 ∧ blockElements size p'.2 = blockElements size p.2) l l'

/-- What an insert that stores the bytes `bytes` in the data block `idx` makes of
a well-formed file `f` of `n` buckets with disjoint chains, `s0` being the bucket
of the element: the file `f'` is well formed with disjoint chains, the chains of
the other buckets are as before, and the chain of `s0` either has the element
behind the elements of its first block with room, or is made of the blocks of
before, all full and with the elements of before, followed by the new block
`idx`, the block count of before, which holds the element. -/
structure InsertEngine.Placed (E : InsertEngine) (BLOCK_SIZE n : Nat) (f f' : File) (s0 : Nat)
    (idx : Int) (bytes : Nat) : Prop where
  wellFormed : WellFormed BLOCK_SIZE f' n
  apart : ChainsApart BLOCK_SIZE f' n
  blockCount_ge : f.blockCount ≤ f'.blockCount
  blockCount_le : f'.blockCount ≤ f.blockCount + 1
  others : ∀ t, t < n → t ≠ s0 → bucketChain BLOCK_SIZE f' t = bucketChain BLOCK_SIZE f t
  chain :
    (∃ l1 c b b' l2, bucketChain BLOCK_SIZE f s0 = l1 ++ (c, b) :: l2 ∧
      bucketChain BLOCK_SIZE f' s0 = l1 ++ (c, b') :: l2 ∧ idx = c ∧
      (∀ p ∈ l1, ¬ readUInt32 p.2 0 < E.capacity) ∧ readUInt32 b 0 < E.capacity ∧
      blockElements E.elementSize b'
        = blockElements E.elementSize b ++ [bytes % 256 ^ E.elementSize] ∧
      f'.blockCount = f.blockCount) ∨
    (∃ l' nb, (∀ p ∈ bucketChain BLOCK_SIZE f s0, ¬ readUInt32 p.2 0 < E.capacity) ∧
      idx = (f.blockCount : Int) ∧ f'.blockCount = f.blockCount + 1 ∧
      bucketChain BLOCK_SIZE f' s0 = l' ++ [(idx, nb)] ∧
      SameContents E.elementSize (bucketChain BLOCK_SIZE f s0) l' ∧
      blockElements E.elementSize nb = [bytes % 256 ^ E.elementSize])

/-- A hash file of `n` buckets in good order, for elements of `size` bytes of which
a data block holds `capacity`: the file is well formed, the chains of its buckets
are disjoint, no data block holds more than `capacity` elements, every element
lies on the chain of the bucket `bucketOf` of the element, and no two elements
of a chain have the same key `keyOf`. -/
structure Tidy {κ : Type} (BLOCK_SIZE size capacity : Nat) (bucketOf : Nat → Nat)
    (keyOf : Nat → κ) (f : File) (n : Nat) : Prop where
  wellFormed : WellFormed BLOCK_SIZE f n
  apart : ChainsApart BLOCK_SIZE f n
  capacity : ∀ s, s < n → ∀ p ∈ bucketChain BLOCK_SIZE f s, readUInt32 p.2 0 ≤ capacity
  placement : ∀ s, s < n → ∀ x ∈ elementsOf size (bucketChain BLOCK_SIZE f s), bucketOf x.2 = s
  unique : ∀ s, s < n →
    ((elementsOf size (bucketChain BLOCK_SIZE f s)).map fun x => keyOf x.2).Nodup


/-- The key of an element of a primary file: the `ID` of the record. -/
def prj2.HT.keyOf (e : Nat) : Int := (prj2.readRecord e 0).ID

/-- The bucket of an element of a primary file of `n` buckets: the hash of the
`ID` of the record. -/
def prj2.HT.bucketOf (n : Nat) (e : Nat) : Nat :=
  (prj2.HT.HashFunction (prj2.readRecord e 0).ID (n : Int)).toNat

/-- A primary hash file of `n` buckets in good order. -/
def PrimaryTidy (BLOCK_SIZE : Nat) (f : File) (n : Nat) : Prop :=
  Tidy BLOCK_SIZE prj2.sizeofRecord (prj2.HT.MAX_RECORD_COUNT_PER_BLOCK BLOCK_SIZE)
    (prj2.HT.bucketOf n) prj2.HT.keyOf f n

/-- What a delete that removes a record with the ID `key` makes of a primary file
`f` of `n` buckets, `s0` being the bucket of the key: the file `f'` is `f` with
one data block of the chain of `s0` rewritten, the first one that holds the
key, from which the first record with the key is gone and whose other records
keep their order; the chains of the other buckets are as before. -/
structure prj2.HT.Removed (BLOCK_SIZE n : Nat) (f f' : File) (s0 : Nat) (key : Int) : Prop where
  blockCount_eq : f'.blockCount = f.blockCount
  others : ∀ t, t < n → t ≠ s0 → bucketChain BLOCK_SIZE f' t = bucketChain BLOCK_SIZE f t
  chain : ∃ l1 c b b' l2 i, bucketChain BLOCK_SIZE f s0 = l1 ++ (c, b) :: l2 ∧
    bucketChain BLOCK_SIZE f' s0 = l1 ++ (c, b') :: l2 ∧
    (∀ x ∈ elementsOf prj2.sizeofRecord l1, prj2.HT.keyOf x.2 ≠ key) ∧
    i < readUInt32 b 0 ∧ prj2.HT.keyOf (elementAt prj2.sizeofRecord b i) = key ∧
    (∀ j, j < i → prj2.HT.keyOf (elementAt prj2.sizeofRecord b j) ≠ key) ∧
    blockElements prj2.sizeofRecord b' = (blockElements prj2.sizeofRecord b).eraseIdx i ∧
    f' = BF_WriteBlock BLOCK_SIZE f c b'


/-- The indices of the blocks of the file `f` that are not the same in `f'`. -/
def changedBlocks (BLOCK_SIZE : Nat) (f f' : File) : List Int :=
  ((List.range f.blockCount).filter fun j : Nat =>
      decide (BF_ReadBlock BLOCK_SIZE f (j : Int) ≠ BF_ReadBlock BLOCK_SIZE f' (j : Int))).map
    fun j : Nat => (j : Int)

/-- The states of a primary file that are reached from `HT_CreateIndex` with `n`
buckets by calls of `HT_InsertEntry` and `HT_DeleteEntry` that return, in any
order; `deleted` lists the blocks that a call of `HT_DeleteEntry` has changed.
The records inserted have fields that are values of their C types, and an insert
is called only when the file has room for one more block index in an
`int32_t`. -/
inductive prj2.HT.Reachable (BLOCK_SIZE n : Nat) : File → List Int → Prop
  | create : prj2.HT.Reachable BLOCK_SIZE n (prj2.HT.HT_CreateIndex BLOCK_SIZE (n : Int)).2 []
  | insert (f : File) (deleted : List Int) (record : prj2.Record) (code : Int) (f' : File) :
      prj2.HT.Reachable BLOCK_SIZE n f deleted → record.InRange →
      f.blockCount + 1 < 2147483648 →
      prj2.HT.HT_InsertEntry BLOCK_SIZE f record = some (code, f') →
      prj2.HT.Reachable BLOCK_SIZE n f' deleted
  | delete (f : File) (deleted : List Int) (key : Int) (code : Int) (f' : File) :
      prj2.HT.Reachable BLOCK_SIZE n f deleted →
      prj2.HT.HT_DeleteEntry BLOCK_SIZE f key = some (code, f') →
      prj2.HT.Reachable BLOCK_SIZE n f' (changedBlocks BLOCK_SIZE f f' ++ deleted)


/-- The key of a stored element of a secondary file: the surname of the segment,
read as a C string. -/
def prj2.SHT.keyOf (e : Nat) : List Nat :=
  prj2.cString (prj2.charArray (prj2.SHT.readDataSegment e 0).Surname 25)

/-- The bucket of a stored element of a secondary file of `n` buckets: the hash
of the surname of the segment. -/
def prj2.SHT.bucketOf (n : Nat) (e : Nat) : Nat :=
  prj2.SHT.HashFunction (prj2.charArray (prj2.SHT.readDataSegment e 0).Surname 25) (n : Int)

/-- A secondary file of `n` buckets in good order. -/
def SecondaryTidy (BLOCK_SIZE : Nat) (f : File) (n : Nat) : Prop :=
  Tidy BLOCK_SIZE prj2.SHT.sizeofDataSegment (prj2.SHT.MAX_DATA_SEGMENT_COUNT_PER_BLOCK BLOCK_SIZE)
    (prj2.SHT.bucketOf n) prj2.SHT.keyOf f n

/-- The states of a secondary file that are reached from the directory that
`SHT_CreateSecondaryIndex` makes for `n` buckets by calls of
`SHT_SecondaryInsertEntry` that return, each called when the file has room for
one more block index in an `int32_t`. -/
inductive prj2.SHT.Reachable (BLOCK_SIZE n : Nat) : File → Prop
  | create :
      prj2.SHT.Reachable BLOCK_SIZE n
        (prj2.SHT.SHT_CreateSecondaryIndex.directory BLOCK_SIZE (n : Int)).2
  | insert (f : File) (record : prj2.SecondaryRecord) (code : Int) (f' : File) :
      prj2.SHT.Reachable BLOCK_SIZE n f → f.blockCount + 1 < 2147483648 →
      prj2.SHT.SHT_SecondaryInsertEntry BLOCK_SIZE f record = some (code, f') →
      prj2.SHT.Reachable BLOCK_SIZE n f'

/-- The element `e` lies in slot `i` of the data block with the index `c`, a
block of the chain of a bucket of the hash file `f` of `n` buckets. -/
def StoredAt (BLOCK_SIZE size : Nat) (f : File) (n : Nat) (c : Int) (i : Nat) (e : Nat) : Prop :=
  ∃ s, s < n ∧ ∃ p ∈ bucketChain BLOCK_SIZE f s,
    p.1 = c ∧ i < readUInt32 p.2 0 ∧ elementAt size p.2 i = e

/-- The blocks of a file behind its first `D` bucket blocks have element counts
within `capacity`, and hold an element unless their index is in `deleted`. -/
def CountsInRange (BLOCK_SIZE capacity D : Nat) (f : File) (deleted : List Int) : Prop :=
  D + 1 ≤ f.blockCount ∧
  ∀ j : Int, (D : Int) < j → j < (f.blockCount : Int) →
    ∃ b, BF_ReadBlock BLOCK_SIZE f j = some b ∧ readUInt32 b 0 ≤ capacity ∧
      (j ∉ deleted → 1 ≤ readUInt32 b 0)

/-- The conditions of `CountsInRange` with no block deleted from, as a
computation. -/
def countsInRangeCheck (BLOCK_SIZE capacity D : Nat) (f : File) : Bool :=
  decide (D + 1 ≤ f.blockCount) &&
    (List.range (f.blockCount - (D + 1))).all fun k =>
      match BF_ReadBlock BLOCK_SIZE f ((D + 1 + k : Nat) : Int) with
      | none => false
      | some b => decide (1 ≤ readUInt32 b 0) && decide (readUInt32 b 0 ≤ capacity)


/-! ## Hash functions: results -/

theorem xor_shiftRight_nonneg (x : Int) (k : Nat) :
    0 ≤ Int.xor x (Int.shiftRight x k) := by
  cases x with
  | ofNat n => exact Int.ofNat_nonneg _
  | negSucc n => exact Int.ofNat_nonneg _

/-- C4. For every key and every table size `n` with `1 ≤ n ≤ 2^31 - 1`, the
integer hash of `HT.c` (32-bit wrap-around, arithmetic right shifts, truncating
remainder) lies in `[0, n)`. -/
theorem prj2.HT.intHash_range (key n : Int) (h1 : 1 ≤ n) (_h2 : n ≤ 2 ^ 31 - 1) :
    0 ≤ prj2.HT.HashFunction key n ∧ prj2.HT.HashFunction key n < n := by
  unfold prj2.HT.HashFunction
  exact ⟨Int.tmod_nonneg _ (xor_shiftRight_nonneg _ _),
    Int.tmod_lt_of_pos _ (by omega)⟩

theorem prj2.HT.intHash_range_witness :
    0 ≤ prj2.HT.HashFunction (-123456789) 12 ∧ prj2.HT.HashFunction (-123456789) 12 < 12 :=
  prj2.HT.intHash_range (-123456789) 12 (by decide) (by decide)

theorem toInt8_eq_zero_iff (c : Nat) : toInt8 c = 0 ↔ c % 256 = 0 := by
  unfold toInt8
  omega

theorem toUInt64_of_lt (n : Int) (h0 : 0 ≤ n) (h1 : n < 2 ^ 64) : toUInt64 n = n.toNat := by
  unfold toUInt64
  rw [Int.emod_eq_of_lt h0 (by omega)]

theorem prj2.SHT.stringHash_loop_eq_djb2Signed (s : List Nat) (h : Nat) :
    prj2.SHT.HashFunction.loop s h = prj2.SHT.djb2Signed s h := by
  induction s generalizing h with
  | nil => rfl
  | cons c s ih =>
    unfold prj2.SHT.HashFunction.loop prj2.SHT.djb2Signed
    rw [ih]
    by_cases hc : c % 256 = 0
    · simp [hc, (toInt8_eq_zero_iff c).2 hc]
    · have hc2 : ¬ toInt8 c = 0 := fun h => hc ((toInt8_eq_zero_iff c).1 h)
      simp only [hc, hc2, if_false]
      congr 1
      unfold toUInt64
      congr 1
      push_cast
      omega

theorem prj2.SHT.stringHash_eq_loop_mod (s : List Nat) (n : Int) (h1 : 1 ≤ n) (h2 : n ≤ 2 ^ 31 - 1) :
    prj2.SHT.HashFunction s n = prj2.SHT.HashFunction.loop s 5381 % n.toNat := by
  unfold prj2.SHT.HashFunction
  rw [toUInt64_of_lt n (by omega) (by omega)]
  unfold toUInt32
  have hlt : prj2.SHT.HashFunction.loop s 5381 % n.toNat < n.toNat := Nat.mod_lt _ (by omega)
  omega

/-- C5. For every byte string (empty, or with bytes of 0x80 and above, included)
and every table size `n` with `1 ≤ n ≤ 2^31 - 1`, the string hash of `SHT.c`
lies in `[0, n)`. -/
theorem prj2.SHT.stringHash_range (s : List Nat) (n : Int) (h1 : 1 ≤ n)
    (h2 : n ≤ 2 ^ 31 - 1) :
    0 ≤ (prj2.SHT.HashFunction s n : Int) ∧ (prj2.SHT.HashFunction s n : Int) < n := by
  rw [prj2.SHT.stringHash_eq_loop_mod s n h1 h2]
  have hlt : prj2.SHT.HashFunction.loop s 5381 % n.toNat < n.toNat := Nat.mod_lt _ (by omega)
  omega

theorem prj2.SHT.stringHash_range_witness :
    0 ≤ (prj2.SHT.HashFunction [200, 65, 255] 25 : Int)
      ∧ (prj2.SHT.HashFunction [200, 65, 255] 25 : Int) < 25 :=
  prj2.SHT.stringHash_range [200, 65, 255] 25 (by decide) (by decide)

/-- C6, as stated, fails: on the one-byte string `0x80` with 1000 buckets the
code returns 445, while the recurrence with the unsigned byte value gives 701. -/
theorem prj2.SHT.stringHash_ne_djb2Unsigned :
    prj2.SHT.HashFunction [128] 1000 = 445 ∧ prj2.SHT.djb2Unsigned [128] 5381 % 1000 = 701 := by
  decide!

/-- C6, amended. For every byte string and every table size `n` with
`1 ≤ n ≤ 2^31 - 1`, the string hash of `SHT.c` is `h mod n`, where `h` comes
from the seed 5381 by `h := h * 33 + b` modulo `2^64` for each byte before the
terminator, `b` being the signed value of the byte, in `-128 .. 127`. -/
theorem prj2.SHT.stringHash_eq_djb2Signed (s : List Nat) (n : Int) (h1 : 1 ≤ n)
    (h2 : n ≤ 2 ^ 31 - 1) :
    prj2.SHT.HashFunction s n = prj2.SHT.djb2Signed s 5381 % n.toNat := by
  rw [prj2.SHT.stringHash_eq_loop_mod s n h1 h2, prj2.SHT.stringHash_loop_eq_djb2Signed]

theorem prj2.SHT.stringHash_eq_djb2Signed_witness :
    prj2.SHT.HashFunction [83, 200, 109] 25 = prj2.SHT.djb2Signed [83, 200, 109] 5381 % (25 : Int).toNat :=
  prj2.SHT.stringHash_eq_djb2Signed [83, 200, 109] 25 (by decide) (by decide)

/-! ## Bytes: reads after writes -/

theorem two_pow_eight_mul (k : Nat) : 2 ^ (8 * k) = 256 ^ k := by
  rw [pow_mul]; norm_num

theorem readBytes_eq (b off len : Nat) : readBytes b off len = b / 256 ^ off % 256 ^ len := by
  rw [readBytes, Nat.and_pow_two_sub_one_eq_mod, Nat.shiftRight_eq_div_pow, two_pow_eight_mul,
    two_pow_eight_mul]

theorem writeBytes_eq (b off len v : Nat) :
    writeBytes b off len v
      = b % 256 ^ off + v % 256 ^ len * 256 ^ off + b / 256 ^ (off + len) * 256 ^ (off + len) := by
  rw [writeBytes, Nat.and_pow_two_sub_one_eq_mod, Nat.and_pow_two_sub_one_eq_mod,
    Nat.shiftLeft_eq, Nat.shiftLeft_eq, Nat.shiftRight_eq_div_pow, two_pow_eight_mul,
    two_pow_eight_mul, two_pow_eight_mul]

theorem readBytes_writeBytes_same (b off len v : Nat) :
    readBytes (writeBytes b off len v) off len = v % 256 ^ len := by
  rw [readBytes_eq, writeBytes_eq]
  have hP : 0 < 256 ^ off := Nat.pow_pos (by norm_num)
  rw [pow_add]
  have e : b % 256 ^ off + v % 256 ^ len * 256 ^ off
        + b / (256 ^ off * 256 ^ len) * (256 ^ off * 256 ^ len)
      = b % 256 ^ off
        + 256 ^ off * (v % 256 ^ len + 256 ^ len * (b / (256 ^ off * 256 ^ len))) := by ring
  rw [e, Nat.add_mul_div_left _ _ hP, Nat.div_eq_of_lt (Nat.mod_lt _ hP), Nat.zero_add,
    Nat.add_mul_mod_self_left, Nat.mod_mod]

theorem readBytes_writeBytes_below (b off len v off' len' : Nat) (h : off' + len' ≤ off) :
    readBytes (writeBytes b off len v) off' len' = readBytes b off' len' := by
  rw [readBytes_eq, readBytes_eq, writeBytes_eq]
  obtain ⟨d, rfl⟩ := Nat.exists_eq_add_of_le h
  have hP : 0 < 256 ^ off' := Nat.pow_pos (by norm_num)
  have e1 : ∀ x : Nat, x * 256 ^ (off' + len' + d)
      = 256 ^ off' * (256 ^ len' * (x * 256 ^ d)) := by
    intro x; rw [pow_add, pow_add]; ring
  have e2 : ∀ x : Nat, x * 256 ^ (off' + len' + d + len)
      = 256 ^ off' * (256 ^ len' * (x * 256 ^ (d + len))) := by
    intro x; rw [pow_add, pow_add, pow_add, pow_add]; ring
  have key : ∀ x y : Nat, (x + 256 ^ off' * (256 ^ len' * y)) / 256 ^ off' % 256 ^ len'
      = x / 256 ^ off' % 256 ^ len' := by
    intro x y
    rw [Nat.add_mul_div_left _ _ hP, Nat.add_mul_mod_self_left]
  rw [e1, e2, Nat.add_assoc, ← Nat.mul_add, ← Nat.mul_add, key]
  conv_rhs => rw [← Nat.mod_add_div b (256 ^ (off' + len' + d))]
  rw [Nat.mul_comm (256 ^ (off' + len' + d)), e1, key]

theorem readBytes_writeBytes_above (b off len v off' len' : Nat) (h : off + len ≤ off') :
    readBytes (writeBytes b off len v) off' len' = readBytes b off' len' := by
  rw [readBytes_eq, readBytes_eq, writeBytes_eq]
  obtain ⟨d, rfl⟩ := Nat.exists_eq_add_of_le h
  congr 1
  have hPQ : 0 < 256 ^ (off + len) := Nat.pow_pos (by norm_num)
  rw [pow_add (256) (off + len) d, ← Nat.div_div_eq_div_mul, ← Nat.div_div_eq_div_mul]
  congr 1
  have hlt : b % 256 ^ off + v % 256 ^ len * 256 ^ off < 256 ^ (off + len) := by
    have h1 : b % 256 ^ off < 256 ^ off := Nat.mod_lt _ (Nat.pow_pos (by norm_num))
    have h2 : v % 256 ^ len + 1 ≤ 256 ^ len := Nat.mod_lt _ (Nat.pow_pos (by norm_num))
    have h3 := Nat.mul_le_mul_right (256 ^ off) h2
    rw [pow_add]
    linarith
  rw [Nat.add_mul_div_right _ _ hPQ, Nat.div_eq_of_lt hlt, Nat.zero_add]

theorem readBytes_mod (b n off len : Nat) (h : off + len ≤ n) :
    readBytes (b % 256 ^ n) off len = readBytes b off len := by
  rw [readBytes_eq, readBytes_eq]
  obtain ⟨d, rfl⟩ := Nat.exists_eq_add_of_le h
  have hP : 0 < 256 ^ off := Nat.pow_pos (by norm_num)
  have e : 256 ^ (off + len + d) = 256 ^ off * (256 ^ len * 256 ^ d) := by
    rw [pow_add, pow_add]; ring
  rw [e, Nat.mod_mul_right_div_self, Nat.mod_mul_right_mod]

theorem readBytes_lt (b off len : Nat) : readBytes b off len < 256 ^ len := by
  rw [readBytes_eq]
  exact Nat.mod_lt _ (Nat.pow_pos (by norm_num))

theorem readBytes_zero (off len : Nat) : readBytes 0 off len = 0 := by
  simp [readBytes]

/-! ## 32-bit fields -/

theorem toInt32_toUInt32 (v : Int) : toInt32 (toUInt32 v) = toInt32 v := by
  unfold toInt32 toUInt32
  omega

theorem toInt32_of_range (v : Int) (h0 : -2147483648 ≤ v) (h1 : v < 2147483648) :
    toInt32 v = v := by
  unfold toInt32 toUInt32
  omega

theorem toUInt32_lt (v : Int) : toUInt32 v < 256 ^ 4 := by
  unfold toUInt32
  omega

theorem readInt32_writeInt32_same (b : Block) (off : Nat) (v : Int) :
    readInt32 (writeInt32 b off v) off = toInt32 v := by
  unfold readInt32 writeInt32
  rw [readBytes_writeBytes_same, Nat.mod_eq_of_lt (toUInt32_lt v), toInt32_toUInt32]

theorem readUInt32_writeInt32_same (b : Block) (off : Nat) (v : Int) :
    readUInt32 (writeInt32 b off v) off = toUInt32 v := by
  unfold readUInt32 writeInt32
  rw [readBytes_writeBytes_same, Nat.mod_eq_of_lt (toUInt32_lt v)]

theorem readInt32_writeInt32_ne (b : Block) (off off' : Nat) (v : Int)
    (h : off' + 4 ≤ off ∨ off + 4 ≤ off') :
    readInt32 (writeInt32 b off v) off' = readInt32 b off' := by
  unfold readInt32 writeInt32
  rcases h with h | h
  · rw [readBytes_writeBytes_below _ _ _ _ _ _ h]
  · rw [readBytes_writeBytes_above _ _ _ _ _ _ h]

theorem readUInt32_writeInt32_ne (b : Block) (off off' : Nat) (v : Int)
    (h : off' + 4 ≤ off ∨ off + 4 ≤ off') :
    readUInt32 (writeInt32 b off v) off' = readUInt32 b off' := by
  unfold readUInt32 writeInt32
  rcases h with h | h
  · rw [readBytes_writeBytes_below _ _ _ _ _ _ h]
  · rw [readBytes_writeBytes_above _ _ _ _ _ _ h]

theorem readInt32_memset_above (b : Block) (off off' count : Nat) (c : Int)
    (h : off' + 4 ≤ off) :
    readInt32 (memset b off c count) off' = readInt32 b off' := by
  unfold readInt32 memset
  rw [readBytes_writeBytes_below _ _ _ _ _ _ h]

theorem readInt32_mod (b : Block) (n off : Nat) (h : off + 4 ≤ n) :
    readInt32 (b % 256 ^ n) off = readInt32 b off := by
  unfold readInt32
  rw [readBytes_mod _ _ _ _ h]

theorem readUInt32_mod (b : Block) (n off : Nat) (h : off + 4 ≤ n) :
    readUInt32 (b % 256 ^ n) off = readUInt32 b off := by
  unfold readUInt32
  rw [readBytes_mod _ _ _ _ h]

/-! ## The block store: reads after writes -/

theorem BF_ReadBlock_eq_some (BLOCK_SIZE : Nat) (f : File) (i : Nat) (h : i < f.blockCount) :
    BF_ReadBlock BLOCK_SIZE f (i : Int) = some (readBytes f.bytes (i * BLOCK_SIZE) BLOCK_SIZE) := by
  unfold BF_ReadBlock
  rw [if_pos ⟨by omega, by omega⟩]
  simp

theorem BF_ReadBlock_WriteBlock_same (BLOCK_SIZE : Nat) (f : File) (i : Nat) (b : Block)
    (h : i < f.blockCount) :
    BF_ReadBlock BLOCK_SIZE (BF_WriteBlock BLOCK_SIZE f (i : Int) b) (i : Int)
      = some (b % 256 ^ BLOCK_SIZE) := by
  unfold BF_WriteBlock
  rw [if_pos ⟨by omega, by omega⟩]
  rw [BF_ReadBlock_eq_some _ _ _ (by simpa using h)]
  simp [readBytes_writeBytes_same]

theorem BF_ReadBlock_WriteBlock_ne (BLOCK_SIZE : Nat) (f : File) (i j : Nat) (b : Block)
    (hij : i ≠ j) :
    BF_ReadBlock BLOCK_SIZE (BF_WriteBlock BLOCK_SIZE f (i : Int) b) (j : Int)
      = BF_ReadBlock BLOCK_SIZE f (j : Int) := by
  unfold BF_WriteBlock
  by_cases hi : 0 ≤ (i : Int) ∧ (i : Int) < f.blockCount
  · rw [if_pos hi]
    unfold BF_ReadBlock
    by_cases hj : 0 ≤ (j : Int) ∧ (j : Int) < f.blockCount
    · rw [if_pos hj, if_pos hj]
      congr 1
      simp only [Int.toNat_ofNat]
      rcases Nat.lt_or_gt_of_ne hij with h | h
      · apply readBytes_writeBytes_above
        calc i * BLOCK_SIZE + BLOCK_SIZE = (i + 1) * BLOCK_SIZE := by ring
          _ ≤ j * BLOCK_SIZE := Nat.mul_le_mul_right _ h
      · apply readBytes_writeBytes_below
        calc j * BLOCK_SIZE + BLOCK_SIZE = (j + 1) * BLOCK_SIZE := by ring
          _ ≤ i * BLOCK_SIZE := Nat.mul_le_mul_right _ h
    · rw [if_neg hj, if_neg hj]
  · rw [if_neg hi]

theorem BF_WriteBlock_blockCount (BLOCK_SIZE : Nat) (f : File) (i : Int) (b : Block) :
    (BF_WriteBlock BLOCK_SIZE f i b).blockCount = f.blockCount := by
  unfold BF_WriteBlock
  split <;> rfl

theorem BF_AllocateBlock_blockCount (BLOCK_SIZE : Nat) (f : File) :
    (BF_AllocateBlock BLOCK_SIZE f).blockCount = f.blockCount + 1 := rfl

theorem BF_ReadBlock_AllocateBlock_new (BLOCK_SIZE : Nat) (f : File) :
    BF_ReadBlock BLOCK_SIZE (BF_AllocateBlock BLOCK_SIZE f) (f.blockCount : Int) = some 0 := by
  rw [BF_ReadBlock_eq_some _ _ _ (by simp [BF_AllocateBlock])]
  simp [BF_AllocateBlock, readBytes_writeBytes_same]

theorem BF_ReadBlock_AllocateBlock_old (BLOCK_SIZE : Nat) (f : File) (j : Nat)
    (h : j < f.blockCount) :
    BF_ReadBlock BLOCK_SIZE (BF_AllocateBlock BLOCK_SIZE f) (j : Int)
      = BF_ReadBlock BLOCK_SIZE f (j : Int) := by
  rw [BF_ReadBlock_eq_some _ _ _ (by simp [BF_AllocateBlock]; omega), BF_ReadBlock_eq_some _ _ _ h]
  congr 1
  simp only [BF_AllocateBlock]
  apply readBytes_writeBytes_below
  calc j * BLOCK_SIZE + BLOCK_SIZE = (j + 1) * BLOCK_SIZE := by ring
    _ ≤ f.blockCount * BLOCK_SIZE := Nat.mul_le_mul_right _ h

/-! ## Creation of the directory -/

theorem ceil_div_eq (n C : Nat) (hC : 0 < C) :
    (n + C - 1) / C = n / C + (if n % C > 0 then 1 else 0) := by
  have hn := Nat.div_add_mod n C
  by_cases hr : n % C > 0
  · rw [if_pos hr]
    have e : n + C - 1 = (n % C - 1) + C * (n / C + 1) := by
      rw [Nat.mul_add, Nat.mul_one]; omega
    rw [e, Nat.add_mul_div_left _ _ hC, Nat.div_eq_of_lt (by have := Nat.mod_lt n hC; omega)]
    omega
  · rw [if_neg hr]
    have e : n + C - 1 = (C - 1) + C * (n / C) := by omega
    rw [e, Nat.add_mul_div_left _ _ hC, Nat.div_eq_of_lt (by omega)]
    omega

theorem prj2.SHT.secondary_loop_eq_primary_loop (BLOCK_SIZE : Nat) (bucketCount required : Int)
    (k : Nat) (index previous : Int) (f : File) :
    prj2.SHT.SHT_CreateSecondaryIndex.loop BLOCK_SIZE bucketCount required k index previous f
      = prj2.HT.HT_CreateIndex.loop BLOCK_SIZE bucketCount required k index previous f := by
  induction k generalizing index previous f with
  | zero => rfl
  | succ k ih =>
    unfold prj2.SHT.SHT_CreateSecondaryIndex.loop prj2.HT.HT_CreateIndex.loop
    simp only [ih]

theorem prj2.HT.create_loop_layout (BLOCK_SIZE : Nat) (bucketCount required : Int)
    (fileType n : Nat) (hBS : 12 ≤ BLOCK_SIZE) (k : Nat) :
    ∀ (j : Nat) (f : File), j + k < 2147483648 →
      DirectoryLayout BLOCK_SIZE f fileType n j →
      (prj2.HT.HT_CreateIndex.loop BLOCK_SIZE bucketCount required k (j : Int) (j : Int) f).1 = 0 ∧
      DirectoryLayout BLOCK_SIZE
        (prj2.HT.HT_CreateIndex.loop BLOCK_SIZE bucketCount required k (j : Int) (j : Int) f).2
        fileType n (j + k) := by
  induction k with
  | zero =>
    intro j f _ hinv
    exact ⟨rfl, hinv⟩
  | succ k ih =>
    intro j f hjk hinv
    obtain ⟨hcount, ⟨h, hh, hT, hn, hnext⟩, hblocks⟩ := hinv
    unfold prj2.HT.HT_CreateIndex.loop
    have hnew : BF_GetBlockCounter (BF_AllocateBlock BLOCK_SIZE f) - 1 = ((1 + j : Nat) : Int) := by
      simp only [BF_GetBlockCounter, BF_AllocateBlock_blockCount, hcount]
      push_cast
      ring
    simp only [hnew]
    have hrd : BF_ReadBlock BLOCK_SIZE (BF_AllocateBlock BLOCK_SIZE f) ((1 + j : Nat) : Int)
        = some 0 := by
      rw [← hcount]; exact BF_ReadBlock_AllocateBlock_new _ _
    rw [hrd]
    simp only []
    generalize hnb : memset (writeInt32 0 0 prj2.INVALID_BLOCK_INDEX)
      prj2.sizeofHashBucketBlockHeader prj2.INVALID_BLOCK_INDEX _ = nb
    have hnb0 : readInt32 nb 0 = -1 := by
      rw [← hnb, readInt32_memset_above _ _ _ _ _ (by decide), readInt32_writeInt32_same]
      exact toInt32_of_range _ (by decide) (by decide)
    -- the previous block, as it is read back
    have hprev : ∃ pb, BF_ReadBlock BLOCK_SIZE f (j : Int) = some pb := by
      rcases Nat.eq_zero_or_pos j with h0 | h0
      · subst h0; exact ⟨h, hh⟩
      · obtain ⟨b, hb, _⟩ := hblocks j h0 (Nat.le_refl _); exact ⟨b, hb⟩
    obtain ⟨pb, hpb⟩ := hprev
    have hlt1 : 1 + j < (BF_AllocateBlock BLOCK_SIZE f).blockCount := by
      rw [BF_AllocateBlock_blockCount]; omega
    have hrdprev : BF_ReadBlock BLOCK_SIZE
        (BF_WriteBlock BLOCK_SIZE (BF_AllocateBlock BLOCK_SIZE f) ((1 + j : Nat) : Int) nb) (j : Int)
        = some pb := by
      rw [BF_ReadBlock_WriteBlock_ne _ _ _ _ _ (by omega),
        BF_ReadBlock_AllocateBlock_old _ _ _ (by omega), hpb]
    rw [hrdprev]
    simp only []
    generalize hpb' : (if (j : Int) = prj2.HEADER_BLOCK_INDEX then writeInt32 pb 8 ((1 + j : Nat) : Int)
      else writeInt32 pb 0 ((1 + j : Nat) : Int)) = pb'
    have e1 : (j : Int) + 1 = ((j + 1 : Nat) : Int) := by push_cast; ring
    have e2 : ((1 + j : Nat) : Int) = ((j + 1 : Nat) : Int) := by push_cast; ring
    rw [e1, e2]
    have e3 : j + (k + 1) = j + 1 + k := by omega
    rw [e3]
    apply ih (j + 1) _ (by omega)
    rw [e2] at hrdprev hpb'
    -- reads of the file after the two writes
    have hcnt2 : (BF_WriteBlock BLOCK_SIZE (BF_AllocateBlock BLOCK_SIZE f) ((j + 1 : Nat) : Int) nb).blockCount
        = j + 2 := by
      rw [BF_WriteBlock_blockCount, BF_AllocateBlock_blockCount]; omega
    have hrj : BF_ReadBlock BLOCK_SIZE
        (BF_WriteBlock BLOCK_SIZE
          (BF_WriteBlock BLOCK_SIZE (BF_AllocateBlock BLOCK_SIZE f) ((j + 1 : Nat) : Int) nb)
          (j : Int) pb') (j : Int) = some (pb' % 256 ^ BLOCK_SIZE) :=
      BF_ReadBlock_WriteBlock_same _ _ _ _ (by omega)
    have hrne : ∀ i : Nat, i ≠ j → BF_ReadBlock BLOCK_SIZE
        (BF_WriteBlock BLOCK_SIZE
          (BF_WriteBlock BLOCK_SIZE (BF_AllocateBlock BLOCK_SIZE f) ((j + 1 : Nat) : Int) nb)
          (j : Int) pb') (i : Int)
        = BF_ReadBlock BLOCK_SIZE
          (BF_WriteBlock BLOCK_SIZE (BF_AllocateBlock BLOCK_SIZE f) ((j + 1 : Nat) : Int) nb)
          (i : Int) := fun i hi => BF_ReadBlock_WriteBlock_ne _ _ _ _ _ (Ne.symm hi)
    have hrnew : BF_ReadBlock BLOCK_SIZE
        (BF_WriteBlock BLOCK_SIZE (BF_AllocateBlock BLOCK_SIZE f) ((j + 1 : Nat) : Int) nb)
        ((j + 1 : Nat) : Int) = some (nb % 256 ^ BLOCK_SIZE) :=
      BF_ReadBlock_WriteBlock_same _ _ _ _ (by rw [BF_AllocateBlock_blockCount]; omega)
    have hrold : ∀ i : Nat, i < j + 1 → BF_ReadBlock BLOCK_SIZE
        (BF_WriteBlock BLOCK_SIZE (BF_AllocateBlock BLOCK_SIZE f) ((j + 1 : Nat) : Int) nb)
        (i : Int) = BF_ReadBlock BLOCK_SIZE f (i : Int) := fun i hi => by
      rw [BF_ReadBlock_WriteBlock_ne _ _ _ _ _ (by omega),
        BF_ReadBlock_AllocateBlock_old _ _ _ (by omega)]
    refine ⟨?_, ?_, ?_⟩
    · rw [BF_WriteBlock_blockCount, hcnt2]; omega
    · rcases Nat.eq_zero_or_pos j with h0 | h0
      · subst h0
        have hpbh : pb = h := by
          have := hpb.symm.trans hh
          exact Option.some.inj this
        subst hpbh
        refine ⟨_, hrj, ?_, ?_, ?_⟩
        · rw [readUInt32_mod _ _ _ (by omega), ← hpb']
          simp only [prj2.HEADER_BLOCK_INDEX, Nat.cast_zero, if_true]
          rw [readUInt32_writeInt32_ne _ _ _ _ (Or.inl (by decide)), hT]
        · rw [readUInt32_mod _ _ _ (by omega), ← hpb']
          simp only [prj2.HEADER_BLOCK_INDEX, Nat.cast_zero, if_true]
          rw [readUInt32_writeInt32_ne _ _ _ _ (Or.inl (by decide)), hn]
        · rw [readInt32_mod _ _ _ (by omega), ← hpb']
          simp only [prj2.HEADER_BLOCK_INDEX, Nat.cast_zero, if_true]
          rw [readInt32_writeInt32_same]
          exact toInt32_of_range _ (by decide) (by decide)
      · have h0' : (0 : Nat) ≠ j := by omega
        have := hrne 0 h0'
        simp only [Nat.cast_zero] at this
        refine ⟨h, ?_, hT, hn, ?_⟩
        · rw [this]
          have := hrold 0 (by omega)
          simp only [Nat.cast_zero] at this
          rw [this, hh]
        · rw [hnext, if_neg (by omega), if_neg (by omega)]
    · intro i hi1 hi2
      rcases Nat.lt_or_ge i j with hlt | hge
      · -- an earlier bucket block: untouched
        obtain ⟨b, hb, hbn⟩ := hblocks i hi1 (by omega)
        refine ⟨b, ?_, ?_⟩
        · rw [hrne i (by omega), hrold i (by omega), hb]
        · rw [hbn, if_neg (by omega), if_neg (by omega)]
      · rcases Nat.eq_or_lt_of_le hge with heq | hgt
        · -- the previous bucket block: now links to the new one
          subst heq
          refine ⟨_, hrj, ?_⟩
          rw [readInt32_mod _ _ _ (by omega), ← hpb']
          have hne : ¬ ((j : Int) = prj2.HEADER_BLOCK_INDEX) := by
            simp only [prj2.HEADER_BLOCK_INDEX]; omega
          rw [if_neg hne, readInt32_writeInt32_same, if_neg (by omega),
            toInt32_of_range _ (by omega) (by omega)]
          push_cast; ring
        · -- the new bucket block
          have hij : i = j + 1 := by omega
          subst hij
          refine ⟨_, (hrne (j + 1) (by omega)).trans hrnew, ?_⟩
          rw [readInt32_mod _ _ _ (by omega), hnb0, if_pos rfl]

theorem header_layout (BLOCK_SIZE : Nat) (fileType : Nat) (n : Int) (hBS : 12 ≤ BLOCK_SIZE)
    (hT : fileType < 4294967296) (h0 : 0 ≤ n) (h1 : n ≤ 2 ^ 31 - 1) :
    DirectoryLayout BLOCK_SIZE
      (BF_WriteBlock BLOCK_SIZE (BF_AllocateBlock BLOCK_SIZE BF_CreateFile) prj2.HEADER_BLOCK_INDEX
        (writeInt32 (writeInt32 (writeInt32 0 0 fileType) 4 n) 8 prj2.INVALID_BLOCK_INDEX))
      fileType n.toNat 0 := by
  have hrd := BF_ReadBlock_WriteBlock_same BLOCK_SIZE (BF_AllocateBlock BLOCK_SIZE BF_CreateFile) 0
    (writeInt32 (writeInt32 (writeInt32 0 0 fileType) 4 n) 8 prj2.INVALID_BLOCK_INDEX)
    (Nat.succ_pos _)
  simp only [Nat.cast_zero] at hrd
  refine ⟨?_, ⟨_, hrd, ?_, ?_, ?_⟩, ?_⟩
  · rw [BF_WriteBlock_blockCount]; rfl
  · rw [readUInt32_mod _ _ _ (by omega), readUInt32_writeInt32_ne _ _ _ _ (Or.inl (by decide)),
      readUInt32_writeInt32_ne _ _ _ _ (Or.inl (by decide)), readUInt32_writeInt32_same]
    unfold toUInt32; omega
  · rw [readUInt32_mod _ _ _ (by omega), readUInt32_writeInt32_ne _ _ _ _ (Or.inl (by decide)),
      readUInt32_writeInt32_same]
    unfold toUInt32; omega
  · rw [readInt32_mod _ _ _ (by omega), readInt32_writeInt32_same]
    exact toInt32_of_range _ (by decide) (by decide)
  · intro i hi1 hi2
    omega

theorem requiredBlockCount_eq (BLOCK_SIZE : Nat) (n : Int) (hBS : 12 ≤ BLOCK_SIZE)
    (h0 : 0 ≤ n) (h1 : n ≤ 2 ^ 31 - 1) :
    toInt32 (toInt32 (toUInt64 n / prj2.MAX_BUCKET_COUNT_PER_BLOCK BLOCK_SIZE : Nat)
        + (if toUInt64 n % prj2.MAX_BUCKET_COUNT_PER_BLOCK BLOCK_SIZE > 0 then 1 else 0))
      = ((n.toNat + prj2.MAX_BUCKET_COUNT_PER_BLOCK BLOCK_SIZE - 1)
          / prj2.MAX_BUCKET_COUNT_PER_BLOCK BLOCK_SIZE : Nat)
    ∧ (n.toNat + prj2.MAX_BUCKET_COUNT_PER_BLOCK BLOCK_SIZE - 1)
          / prj2.MAX_BUCKET_COUNT_PER_BLOCK BLOCK_SIZE < 2147483648 := by
  have hC : 2 ≤ prj2.MAX_BUCKET_COUNT_PER_BLOCK BLOCK_SIZE := by
    unfold prj2.MAX_BUCKET_COUNT_PER_BLOCK; omega
  generalize prj2.MAX_BUCKET_COUNT_PER_BLOCK BLOCK_SIZE = C at hC ⊢
  rw [toUInt64_of_lt n h0 (by omega), ceil_div_eq _ _ (by omega)]
  have hq : n.toNat / C ≤ n.toNat / 2 := Nat.div_le_div_left hC (by decide)
  have hq2 : n.toNat / 2 < 1073741824 := by omega
  generalize n.toNat / C = q at hq ⊢
  generalize n.toNat % C = r
  have hin : toInt32 ((q : Nat) : Int) = ((q : Nat) : Int) :=
    toInt32_of_range _ (by omega) (by omega)
  constructor
  · rw [hin]
    split
    · rw [toInt32_of_range _ (by omega) (by omega)]; push_cast; ring
    · rw [toInt32_of_range _ (by omega) (by omega)]; push_cast; ring
  · split <;> omega

/-- C10. For every bucket count `n` with `0 ≤ n ≤ 2^31 - 1` (and a block size
that holds the header), `HT_CreateIndex` and the directory part of
`SHT_CreateSecondaryIndex` succeed and leave a file of `1 + ceil(n / C)` blocks,
`C = MAX_BUCKET_COUNT_PER_BLOCK`: the header stores the file kind, `BucketCount = n`
and `NextBlockIndex = 1` (`-1` when `n = 0`), the bucket blocks are the blocks
`1 .. ceil(n / C)`, block `i` links to block `i + 1` and the last one to `-1`. -/
theorem prj2.create_directory_layout (BLOCK_SIZE : Nat) (n : Int) (hBS : 12 ≤ BLOCK_SIZE)
    (h0 : 0 ≤ n) (h1 : n ≤ 2 ^ 31 - 1) :
    ((prj2.HT.HT_CreateIndex BLOCK_SIZE n).1 = 0 ∧
      DirectoryLayout BLOCK_SIZE (prj2.HT.HT_CreateIndex BLOCK_SIZE n).2 prj2.HashFile n.toNat
        ((n.toNat + prj2.MAX_BUCKET_COUNT_PER_BLOCK BLOCK_SIZE - 1)
          / prj2.MAX_BUCKET_COUNT_PER_BLOCK BLOCK_SIZE)) ∧
    ((prj2.SHT.SHT_CreateSecondaryIndex.directory BLOCK_SIZE n).1 = 0 ∧
      DirectoryLayout BLOCK_SIZE (prj2.SHT.SHT_CreateSecondaryIndex.directory BLOCK_SIZE n).2
        prj2.SecondaryHashFile n.toNat
        ((n.toNat + prj2.MAX_BUCKET_COUNT_PER_BLOCK BLOCK_SIZE - 1)
          / prj2.MAX_BUCKET_COUNT_PER_BLOCK BLOCK_SIZE)) := by
  obtain ⟨hreq, hD⟩ := requiredBlockCount_eq BLOCK_SIZE n hBS h0 h1
  have hrd0 : BF_ReadBlock BLOCK_SIZE (BF_AllocateBlock BLOCK_SIZE BF_CreateFile)
      prj2.HEADER_BLOCK_INDEX = some 0 := BF_ReadBlock_AllocateBlock_new BLOCK_SIZE BF_CreateFile
  generalize (n.toNat + prj2.MAX_BUCKET_COUNT_PER_BLOCK BLOCK_SIZE - 1)
          / prj2.MAX_BUCKET_COUNT_PER_BLOCK BLOCK_SIZE = D at hreq hD ⊢
  constructor
  · have := prj2.HT.create_loop_layout BLOCK_SIZE n (D : Int) prj2.HashFile n.toNat hBS
      D 0 _ (by omega) (header_layout BLOCK_SIZE prj2.HashFile n hBS (by decide) h0 h1)
    rw [Nat.zero_add, Nat.cast_zero] at this
    have e : prj2.HT.HT_CreateIndex BLOCK_SIZE n
        = prj2.HT.HT_CreateIndex.loop BLOCK_SIZE n (D : Int) D 0 0
          (BF_WriteBlock BLOCK_SIZE (BF_AllocateBlock BLOCK_SIZE BF_CreateFile)
            prj2.HEADER_BLOCK_INDEX
            (writeInt32 (writeInt32 (writeInt32 0 0 prj2.HashFile) 4 n) 8
              prj2.INVALID_BLOCK_INDEX)) := by
      rw [prj2.HT.HT_CreateIndex]
      dsimp only
      rw [hrd0]
      dsimp only
      rw [hreq, Int.toNat_ofNat]
      rfl
    rw [e]
    exact this
  · have := prj2.HT.create_loop_layout BLOCK_SIZE n (D : Int) prj2.SecondaryHashFile
      n.toNat hBS D 0 _ (by omega)
      (header_layout BLOCK_SIZE prj2.SecondaryHashFile n hBS (by decide) h0 h1)
    rw [Nat.zero_add, Nat.cast_zero] at this
    have e : prj2.SHT.SHT_CreateSecondaryIndex.directory BLOCK_SIZE n
        = prj2.HT.HT_CreateIndex.loop BLOCK_SIZE n (D : Int) D 0 0
          (BF_WriteBlock BLOCK_SIZE (BF_AllocateBlock BLOCK_SIZE BF_CreateFile)
            prj2.HEADER_BLOCK_INDEX
            (writeInt32 (writeInt32 (writeInt32 0 0 prj2.SecondaryHashFile) 4 n) 8
              prj2.INVALID_BLOCK_INDEX)) := by
      rw [prj2.SHT.SHT_CreateSecondaryIndex.directory]
      dsimp only
      rw [hrd0]
      dsimp only
      rw [hreq, Int.toNat_ofNat, prj2.SHT.secondary_loop_eq_primary_loop]
      rfl
    rw [e]
    exact this

theorem prj2.create_directory_layout_witness :
    ((prj2.HT.HT_CreateIndex 512 300).1 = 0 ∧
      DirectoryLayout 512 (prj2.HT.HT_CreateIndex 512 300).2 prj2.HashFile (300 : Int).toNat
        (((300 : Int).toNat + prj2.MAX_BUCKET_COUNT_PER_BLOCK 512 - 1)
          / prj2.MAX_BUCKET_COUNT_PER_BLOCK 512)) ∧
    ((prj2.SHT.SHT_CreateSecondaryIndex.directory 512 300).1 = 0 ∧
      DirectoryLayout 512 (prj2.SHT.SHT_CreateSecondaryIndex.directory 512 300).2
        prj2.SecondaryHashFile (300 : Int).toNat
        (((300 : Int).toNat + prj2.MAX_BUCKET_COUNT_PER_BLOCK 512 - 1)
          / prj2.MAX_BUCKET_COUNT_PER_BLOCK 512)) :=
  prj2.create_directory_layout 512 300 (by decide) (by decide) (by decide)

/-! ## Duplicate keys -/

theorem prj2.HT.findRecord_none (b : Block) (key : Int) (k : Nat) :
    ∀ j, prj2.HT.findRecord b key k j = none →
      ∀ r, j ≤ r → r < j + k →
        readInt32 b (prj2.sizeofHashDataBlockHeader + prj2.sizeofRecord * r) ≠ key := by
  induction k with
  | zero => intro j _ r h1 h2; omega
  | succ k ih =>
    intro j h r h1 h2
    rw [prj2.HT.findRecord] at h
    split at h
    · exact absurd h (by simp)
    · rename_i hne
      rcases Nat.eq_or_lt_of_le h1 with heq | hlt
      · subst heq; exact hne
      · exact ih (j + 1) h r hlt (by omega)

theorem prj2.HT.findRecord_of_holdsID (b : Block) (key : Int) (h : prj2.HT.holdsID b key) :
    ∃ r, prj2.HT.findRecord b key (readUInt32 b 0) 0 = some r := by
  obtain ⟨r, hr, hk⟩ := h
  cases hf : prj2.HT.findRecord b key (readUInt32 b 0) 0 with
  | some r' => exact ⟨r', rfl⟩
  | none => exact absurd hk (prj2.HT.findRecord_none b key _ 0 hf r (Nat.zero_le _) (by omega))

theorem prj2.HT.checkLoop_of_mem_chain (BLOCK_SIZE : Nat) (f : File) (record : prj2.Record)
    (fuel : Nat) :
    ∀ start, (∃ p ∈ prj2.HT.chain BLOCK_SIZE f fuel start, prj2.HT.holdsID p.2 record.ID) →
      prj2.HT.HT_InsertEntry.checkLoop BLOCK_SIZE f record fuel start = some (.ret (-1)) := by
  induction fuel with
  | zero =>
    intro start h
    obtain ⟨p, hp, _⟩ := h
    simp [prj2.HT.chain] at hp
  | succ fuel ih =>
    intro start h
    obtain ⟨p, hp, hk⟩ := h
    rw [prj2.HT.chain] at hp
    rw [prj2.HT.HT_InsertEntry.checkLoop]
    by_cases hs : start = prj2.INVALID_BLOCK_INDEX
    · simp [hs] at hp
    · rw [if_neg hs] at hp
      rw [if_neg hs]
      cases hrd : BF_ReadBlock BLOCK_SIZE f start with
      | none => simp [hrd] at hp
      | some b =>
        rw [hrd] at hp
        simp only [List.mem_cons] at hp
        simp only []
        cases hf : prj2.HT.findRecord b record.ID (readUInt32 b 0) 0 with
        | some r => simp only []
        | none =>
          simp only []
          rcases hp with heq | hmem
          · subst heq
            obtain ⟨r, hr⟩ := prj2.HT.findRecord_of_holdsID b record.ID hk
            rw [hf] at hr
            exact absurd hr (by simp)
          · exact ih _ ⟨p, hmem, hk⟩

/-- When a record with the ID of `record` is stored on the chain of the bucket
that the ID hashes to, `HT_InsertEntry` returns `-1` and the file it leaves is
the file it got: no block is allocated and no block changes. -/
theorem prj2.HT.insert_duplicate_rejected (BLOCK_SIZE : Nat) (f : File) (record : prj2.Record)
    (h : prj2.HT.StoredID BLOCK_SIZE f record.ID) :
    prj2.HT.HT_InsertEntry BLOCK_SIZE f record = some (-1, f) := by
  obtain ⟨head, hhead, hmem⟩ := h
  rw [prj2.HT.bucketHead] at hhead
  rw [prj2.HT.HT_InsertEntry]
  split
  · simp only []
  · rename_i headerBlock h0
    rw [h0] at hhead
    simp only [] at hhead ⊢
    split
    · simp only []
    · rename_i bucketBlockIndex cur hw
      rw [hw] at hhead
      simp only [] at hhead
      split
      · simp only []
      · rename_i bucketBlock hb
        rw [hb] at hhead
        simp only [Option.some.injEq] at hhead
        rw [hhead, prj2.HT.checkLoop_of_mem_chain BLOCK_SIZE f record _ head hmem]

theorem prj2.HT.insert_duplicate_rejected_witness :
    prj2.HT.StoredID 512 (prj2.HT.fileOf 512 12 [prj2.HT.recordOf 5 65]) (prj2.HT.recordOf 5 66).ID ∧
    prj2.HT.HT_InsertEntry 512 (prj2.HT.fileOf 512 12 [prj2.HT.recordOf 5 65]) (prj2.HT.recordOf 5 66)
      = some (-1, prj2.HT.fileOf 512 12 [prj2.HT.recordOf 5 65]) :=
  have h : prj2.HT.StoredID 512 (prj2.HT.fileOf 512 12 [prj2.HT.recordOf 5 65])
      (prj2.HT.recordOf 5 66).ID := ⟨2, by decide!, by decide!⟩
  ⟨h, prj2.HT.insert_duplicate_rejected 512 _ _ h⟩

/-! ## Runs of the code on concrete files -/

/-- C1, on two inputs (blocks of 512 bytes).  With 2 buckets the records with IDs
`-1` and `0` are inserted (both calls return block 2), and the lookup of the
key `-1` prints both records instead of one.  With 127 buckets, the capacity of
one bucket block, the insert of the record with ID 5 returns `-1`, changes
nothing, and the lookup of 5 returns `-1`. -/
theorem prj2.HT.round_trip_runs :
    (prj2.HT.insertAll 512 (prj2.HT.HT_CreateIndex 512 2).2
        [prj2.HT.recordOf (-1) 65, prj2.HT.recordOf 0 66]).map (fun p => p.1) = some [2, 2] ∧
    prj2.HT.HT_GetAllEntries 512
        (prj2.HT.fileOf 512 2 [prj2.HT.recordOf (-1) 65, prj2.HT.recordOf 0 66]) (some (-1))
      = some (3, [prj2.HT.recordOf (-1) 65, prj2.HT.recordOf 0 66]) ∧
    prj2.HT.HT_InsertEntry 512 (prj2.HT.HT_CreateIndex 512 127).2 (prj2.HT.recordOf 5 65)
      = some (-1, (prj2.HT.HT_CreateIndex 512 127).2) ∧
    prj2.HT.HT_GetAllEntries 512 (prj2.HT.HT_CreateIndex 512 127).2 (some 5) = some (-1, []) := by
  decide!

/-- C3, on one input.  In the file of 2 buckets that holds the records with IDs
`-1` and `0`, `HT_DeleteEntry` of the key `-1` returns 0, and the lookup of `-1`
that follows returns 3, not `-1`, and prints the record with ID 0. -/
theorem prj2.HT.delete_then_lookup_run :
    (prj2.HT.HT_DeleteEntry 512
        (prj2.HT.fileOf 512 2 [prj2.HT.recordOf (-1) 65, prj2.HT.recordOf 0 66]) (-1)).map
        (fun p => p.1) = some 0 ∧
    ((prj2.HT.HT_DeleteEntry 512
        (prj2.HT.fileOf 512 2 [prj2.HT.recordOf (-1) 65, prj2.HT.recordOf 0 66]) (-1)).bind
        fun p => prj2.HT.HT_GetAllEntries 512 p.2 (some (-1)))
      = some (3, [prj2.HT.recordOf 0 66]) := by
  decide!

/-- C9, on two inputs.  In the file of 12 buckets that holds the records with IDs
1, 2 and 3 (buckets 2, 3 and 7), the scan with the key `-1`, which hashes to
bucket 8 and which no record has, returns 5 and prints the three records.  In
the file of 127 buckets that `HT_CreateIndex` has just made, the scan with the
key 1 returns 3 and prints a record with ID 1 that was never inserted. -/
theorem prj2.HT.keyed_scan_runs :
    prj2.HT.HashFunction (-1) 12 = 8 ∧
    prj2.HT.HT_GetAllEntries 512
        (prj2.HT.fileOf 512 12
          [prj2.HT.recordOf 1 65, prj2.HT.recordOf 2 66, prj2.HT.recordOf 3 67]) (some (-1))
      = some (5, [prj2.HT.recordOf 1 65, prj2.HT.recordOf 2 66, prj2.HT.recordOf 3 67]) ∧
    prj2.HT.HT_GetAllEntries 512 (prj2.HT.HT_CreateIndex 512 127).2 (some 1)
      = some (3, [prj2.HT.recordOf 1 0]) := by
  decide!

set_option maxRecDepth 1000000 in
/-- The run that fills a file of 254 buckets until block 254 exists and then
inserts the record with ID 2: the 752 inserts of the fill all succeed and leave
255 blocks; the insert of the record with ID 2 returns 0; afterwards the first
field of block 0 is 3, the lookup of 2 finds the record, and the full scan
returns 255 and prints 752 records, none with ID 2. -/
theorem prj2.HT.aliasFile_run :
    (prj2.HT.insertAll 512 (prj2.HT.HT_CreateIndex 512 254).2 prj2.HT.fillRecords).map
        (fun p => (p.1.length, decide (∀ code ∈ p.1, code ≠ -1))) = some (752, true) ∧
    prj2.HT.aliasFile.blockCount = 255 ∧
    (prj2.HT.HT_InsertEntry 512 prj2.HT.aliasFile (prj2.HT.recordOf 2 0)).map (fun p => p.1)
      = some 0 ∧
    (BF_ReadBlock 512 prj2.HT.aliasFileAfter 0).map (fun b => readUInt32 b 0)
      = some prj2.SecondaryHashFile ∧
    prj2.HT.HT_GetAllEntries 512 prj2.HT.aliasFileAfter (some 2)
      = some (4, [prj2.HT.recordOf 2 0]) ∧
    (prj2.HT.HT_GetAllEntries 512 prj2.HT.aliasFileAfter none).map
        (fun s => (s.1, s.2.length, decide (∀ r ∈ s.2, r.ID ≠ 2))) = some (255, 752, true) := by
  decide!

/-- C7, on one input.  In the file of 254 buckets filled until it has 255 blocks,
`HT_InsertEntry` of the record with ID 2 returns 0, the index of the header
block, and the file-kind field of that block becomes 3 (`SecondaryHashFile`). -/
theorem prj2.HT.insert_returns_header_block :
    prj2.HT.aliasFile.blockCount = 255 ∧
    (prj2.HT.HT_InsertEntry 512 prj2.HT.aliasFile (prj2.HT.recordOf 2 0)).map (fun p => p.1)
      = some 0 ∧
    (BF_ReadBlock 512 prj2.HT.aliasFileAfter 0).map (fun b => readUInt32 b 0)
      = some prj2.SecondaryHashFile :=
  ⟨prj2.HT.aliasFile_run.2.1, prj2.HT.aliasFile_run.2.2.1, prj2.HT.aliasFile_run.2.2.2.1⟩

/-- C8, on one input.  The file of 254 buckets is built by 752 inserts that all
succeed and one more, of the record with ID 2, that returns 0.  The lookup of 2
then finds the record, while the full scan returns 255 and prints 752 records,
none of them with ID 2. -/
theorem prj2.HT.full_scan_misses_record :
    (prj2.HT.insertAll 512 (prj2.HT.HT_CreateIndex 512 254).2 prj2.HT.fillRecords).map
        (fun p => (p.1.length, decide (∀ code ∈ p.1, code ≠ -1))) = some (752, true) ∧
    prj2.HT.HT_GetAllEntries 512 prj2.HT.aliasFileAfter (some 2)
      = some (4, [prj2.HT.recordOf 2 0]) ∧
    (prj2.HT.HT_GetAllEntries 512 prj2.HT.aliasFileAfter none).map
        (fun s => (s.1, s.2.length, decide (∀ r ∈ s.2, r.ID ≠ 2))) = some (255, 752, true) :=
  ⟨prj2.HT.aliasFile_run.1, prj2.HT.aliasFile_run.2.2.2.2.1, prj2.HT.aliasFile_run.2.2.2.2.2⟩

/-- C11, on two inputs (blocks of 512 bytes, 127 slots per bucket block).
`HT_CreateIndex` with 127 buckets returns 0 and leaves every one of the 127
directory slots 0, not `-1`; the directory made by `SHT_CreateSecondaryIndex`
with 254 buckets has `-1` in the slots `0 .. 126` and 0 in the slots
`127 .. 253`. -/
theorem prj2.create_slots_run :
    (prj2.HT.HT_CreateIndex 512 127).1 = 0 ∧
    (∀ i < 127, directorySlot 512 (prj2.HT.HT_CreateIndex 512 127).2 i = some 0) ∧
    (prj2.SHT.SHT_CreateSecondaryIndex.directory 512 254).1 = 0 ∧
    (∀ i < 127, directorySlot 512 (prj2.SHT.SHT_CreateSecondaryIndex.directory 512 254).2 i
      = some (-1)) ∧
    (∀ i < 127, directorySlot 512 (prj2.SHT.SHT_CreateSecondaryIndex.directory 512 254).2 (127 + i)
      = some 0) := by
  decide!

/-- C20, on one input.  In the file that `HT_CreateIndex` makes with 127 buckets,
where nothing was inserted, `HT_DeleteEntry` of the key 1 returns 0 and changes
the header block: its file-kind field becomes 1 and its `NextBlockIndex` 0. -/
theorem prj2.HT.delete_absent_run :
    (prj2.HT.HT_CreateIndex 512 127).1 = 0 ∧
    (BF_ReadBlock 512 (prj2.HT.HT_CreateIndex 512 127).2 0).map
        (fun b => (readUInt32 b 0, readUInt32 b 4, readInt32 b 8)) = some (2, 127, 1) ∧
    (prj2.HT.HT_DeleteEntry 512 (prj2.HT.HT_CreateIndex 512 127).2 1).map
        (fun p => (p.1, (BF_ReadBlock 512 p.2 0).map
          (fun b => (readUInt32 b 0, readUInt32 b 4, readInt32 b 8))))
      = some (0, some (1, 127, 0)) := by
  decide!

/-- C16, on two files of 512-byte blocks.  (a) `SHT_CreateSecondaryIndex` with
127 buckets over a primary file without records succeeds and stores no entry
(the file has its header and one bucket block).  On that file
`SHT_SecondaryInsertEntry` of an entry with the empty surname returns `-1` and
leaves the file as it is, although every block-store call succeeds: the
surname's bucket is 47, whose slot holds 0, so the chain of the bucket starts at
the header block.  (b) On the file made with 5 buckets the entry `A -> 5` is
stored (return code 0), the entry `A -> 6` is then refused with `-1` and no
change, and the entry `B -> 5` is stored next to the first. -/
theorem prj2.SHT.insert_unstored_run :
    ((prj2.SHT.SHT_CreateSecondaryIndex.directory 512 127).1 = 0 ∧
      prj2.SHT.SHT_CreateSecondaryIndex.bootstrap 512 (prj2.HT.HT_CreateIndex 512 3).2
          (prj2.SHT.SHT_CreateSecondaryIndex.directory 512 127).2
        = some (.next (prj2.SHT.SHT_CreateSecondaryIndex.directory 512 127).2) ∧
      (prj2.SHT.SHT_CreateSecondaryIndex.directory 512 127).2.blockCount = 2 ∧
      prj2.SHT.HashFunction [] 127 = 47 ∧
      directorySlot 512 (prj2.SHT.SHT_CreateSecondaryIndex.directory 512 127).2 47 = some 0 ∧
      prj2.SHT.SHT_SecondaryInsertEntry 512 (prj2.SHT.SHT_CreateSecondaryIndex.directory 512 127).2
          { Record := prj2.HT.recordOf 9 0, BlockID := 5 }
        = some (-1, (prj2.SHT.SHT_CreateSecondaryIndex.directory 512 127).2)) ∧
    ((prj2.SHT.SHT_CreateSecondaryIndex.directory 512 5).1 = 0 ∧
      prj2.SHT.SHT_SecondaryInsertEntry 512 (prj2.SHT.SHT_CreateSecondaryIndex.directory 512 5).2
          { Record := prj2.HT.recordOf 9 65, BlockID := 5 } = some (0, prj2.SHT.oneEntry) ∧
      prj2.SHT.SHT_SecondaryInsertEntry 512 prj2.SHT.oneEntry
          { Record := prj2.HT.recordOf 9 65, BlockID := 6 } = some (-1, prj2.SHT.oneEntry) ∧
      prj2.SHT.SHT_SecondaryInsertEntry 512 prj2.SHT.oneEntry
          { Record := prj2.HT.recordOf 9 66, BlockID := 5 } = some (0, prj2.SHT.twoEntries) ∧
      prj2.SHT.firstMatch (prj2.SHT.keyChain 512 prj2.SHT.twoEntries [65]) [65]
        = some { Surname := 65, BlockID := 5 } ∧
      prj2.SHT.firstMatch (prj2.SHT.keyChain 512 prj2.SHT.twoEntries [66]) [66]
        = some { Surname := 66, BlockID := 5 }) := by
  decide!

/-! ## Opening, closing and creating files in the store -/

theorem BF_OpenFile_files (store : BFState) (fileName : FileName) :
    (BF_OpenFile store fileName).2.files = store.files := by
  unfold BF_OpenFile
  split <;> rfl

theorem BF_CloseFile_files (store : BFState) (handle : Int) :
    (BF_CloseFile store handle).2.files = store.files := by
  unfold BF_CloseFile
  split
  · split <;> rfl
  · rfl

theorem prj2.SHT.CheckForPrimaryHashFile_files (BLOCK_SIZE : Nat) (store : BFState)
    (fileName : FileName) :
    (prj2.SHT.CheckForPrimaryHashFile BLOCK_SIZE store fileName).2.files = store.files := by
  unfold prj2.SHT.CheckForPrimaryHashFile
  dsimp only
  split
  · exact BF_OpenFile_files _ _
  · split
    · exact BF_OpenFile_files _ _
    · split
      · exact BF_OpenFile_files _ _
      · split
        · rw [BF_CloseFile_files]; exact BF_OpenFile_files _ _
        · rw [BF_CloseFile_files]; exact BF_OpenFile_files _ _

/-- C15.  When the block store cannot open `primaryFileName`, or the header block
of that file cannot be read, or its file-kind field is not `HashFile`,
`SHT_CreateSecondaryIndex` returns `-1` and the files of the store are the same
as before: no file was created. -/
theorem prj2.SHT.create_requires_primary (BLOCK_SIZE : Nat) (store : BFState) (fileName : FileName)
    (bucketCount : Int) (primaryFileName : FileName)
    (h : (BF_OpenFile store primaryFileName).1 < 0 ∨
      (BF_OpenFile store primaryFileName).2.readBlock BLOCK_SIZE
          (BF_OpenFile store primaryFileName).1 prj2.HEADER_BLOCK_INDEX = none ∨
      ∃ headerBlock,
        (BF_OpenFile store primaryFileName).2.readBlock BLOCK_SIZE
          (BF_OpenFile store primaryFileName).1 prj2.HEADER_BLOCK_INDEX = some headerBlock ∧
        readUInt32 headerBlock 0 ≠ prj2.HashFile) :
    ∃ store', prj2.SHT.SHT_CreateSecondaryIndex BLOCK_SIZE store fileName bucketCount
        primaryFileName = some (-1, store') ∧ store'.files = store.files := by
  have hcheck : (prj2.SHT.CheckForPrimaryHashFile BLOCK_SIZE store primaryFileName).1 = false := by
    unfold prj2.SHT.CheckForPrimaryHashFile
    dsimp only
    rcases h with h | h | ⟨hb, h, ht⟩
    · rw [if_pos h]
    · split
      · rfl
      · rw [h]
    · split
      · rfl
      · rw [h]
        dsimp only
        rw [if_pos ht]
  refine ⟨(prj2.SHT.CheckForPrimaryHashFile BLOCK_SIZE store primaryFileName).2, ?_,
    prj2.SHT.CheckForPrimaryHashFile_files _ _ _⟩
  unfold prj2.SHT.SHT_CreateSecondaryIndex
  dsimp only
  rw [hcheck]
  rfl

theorem prj2.SHT.create_requires_primary_witness :
    ∃ store', prj2.SHT.SHT_CreateSecondaryIndex 512
        { files := [([83], (prj2.SHT.SHT_CreateSecondaryIndex.directory 512 5).2)], openFiles := [] }
        [84] 5 [83] = some (-1, store') ∧
      store'.files = [([83], (prj2.SHT.SHT_CreateSecondaryIndex.directory 512 5).2)] :=
  prj2.SHT.create_requires_primary 512
    { files := [([83], (prj2.SHT.SHT_CreateSecondaryIndex.directory 512 5).2)], openFiles := [] }
    [84] 5 [83] (Or.inr (Or.inr ⟨(prj2.SHT.SHT_CreateSecondaryIndex.directory 512 5).2.bytes % 256 ^ 512,
      by decide!, by decide!⟩))

theorem BF_CloseFile_negative (store : BFState) (handle : Int) (h : handle < 0) :
    BF_CloseFile store handle = (-1, store) := by
  unfold BF_CloseFile
  rw [if_neg (by omega)]

theorem prj2.HT.HT_OpenIndex_cases (BLOCK_SIZE : Nat) (st : prj2.State) (fileName : FileName) :
    ((prj2.HT.HT_OpenIndex BLOCK_SIZE st fileName).1 = none ∧
        (prj2.HT.HT_OpenIndex BLOCK_SIZE st fileName).2.HT_s_HandleStorage = st.HT_s_HandleStorage ∧
        (prj2.HT.HT_OpenIndex BLOCK_SIZE st fileName).2.SHT_s_HandleStorage
          = st.SHT_s_HandleStorage) ∨
      ((prj2.HT.HT_OpenIndex BLOCK_SIZE st fileName).1 = some .HT_s_HandleStorage ∧
        st.HT_s_HandleStorage = -1 ∧
        0 ≤ (prj2.HT.HT_OpenIndex BLOCK_SIZE st fileName).2.HT_s_HandleStorage ∧
        (prj2.HT.HT_OpenIndex BLOCK_SIZE st fileName).2.SHT_s_HandleStorage
          = st.SHT_s_HandleStorage) := by
  unfold prj2.HT.HT_OpenIndex
  dsimp only
  split
  · exact Or.inl ⟨rfl, rfl, rfl⟩
  · rename_i h1
    split
    · exact Or.inl ⟨rfl, rfl, rfl⟩
    · rename_i h2
      split
      · exact Or.inl ⟨rfl, rfl, rfl⟩
      · split
        · exact Or.inl ⟨rfl, rfl, rfl⟩
        · exact Or.inr ⟨rfl, not_not.mp h1, not_lt.mp h2, rfl⟩

theorem prj2.HT.HT_CloseIndex_cases (st : prj2.State) (handle : prj2.HandlePtr) :
    ((prj2.HT.HT_CloseIndex st handle).1 = -1 ∧
        (prj2.HT.HT_CloseIndex st handle).2.HT_s_HandleStorage = st.HT_s_HandleStorage ∧
        (prj2.HT.HT_CloseIndex st handle).2.SHT_s_HandleStorage = st.SHT_s_HandleStorage) ∨
      ((prj2.HT.HT_CloseIndex st handle).1 = 0 ∧ st.HT_s_HandleStorage ≠ -1 ∧
        (prj2.HT.HT_CloseIndex st handle).2.HT_s_HandleStorage = -1 ∧
        (prj2.HT.HT_CloseIndex st handle).2.SHT_s_HandleStorage = st.SHT_s_HandleStorage) := by
  unfold prj2.HT.HT_CloseIndex
  dsimp only
  split
  · exact Or.inl ⟨rfl, rfl, rfl⟩
  · rename_i h1
    split
    · exact Or.inl ⟨rfl, rfl, rfl⟩
    · rename_i h2
      refine Or.inr ⟨rfl, ?_, rfl, rfl⟩
      intro h
      apply h2
      have : handle.deref st = -1 := by
        rw [← h]; exact (not_not.mp h1).symm
      rw [this, BF_CloseFile_negative _ _ (by decide)]
      show (-1 : Int) < 0
      omega

theorem prj2.SHT.SHT_OpenSecondaryIndex_cases (BLOCK_SIZE : Nat) (st : prj2.State)
    (fileName : FileName) :
    ((prj2.SHT.SHT_OpenSecondaryIndex BLOCK_SIZE st fileName).1 = none ∧
        (prj2.SHT.SHT_OpenSecondaryIndex BLOCK_SIZE st fileName).2.SHT_s_HandleStorage
          = st.SHT_s_HandleStorage ∧
        (prj2.SHT.SHT_OpenSecondaryIndex BLOCK_SIZE st fileName).2.HT_s_HandleStorage
          = st.HT_s_HandleStorage) ∨
      ((prj2.SHT.SHT_OpenSecondaryIndex BLOCK_SIZE st fileName).1 = some .SHT_s_HandleStorage ∧
        st.SHT_s_HandleStorage = -1 ∧
        0 ≤ (prj2.SHT.SHT_OpenSecondaryIndex BLOCK_SIZE st fileName).2.SHT_s_HandleStorage ∧
        (prj2.SHT.SHT_OpenSecondaryIndex BLOCK_SIZE st fileName).2.HT_s_HandleStorage
          = st.HT_s_HandleStorage) := by
  unfold prj2.SHT.SHT_OpenSecondaryIndex
  dsimp only
  split
  · exact Or.inl ⟨rfl, rfl, rfl⟩
  · rename_i h1
    split
    · exact Or.inl ⟨rfl, rfl, rfl⟩
    · rename_i h2
      split
      · exact Or.inl ⟨rfl, rfl, rfl⟩
      · split
        · exact Or.inl ⟨rfl, rfl, rfl⟩
        · exact Or.inr ⟨rfl, not_not.mp h1, not_lt.mp h2, rfl⟩

theorem prj2.SHT.SHT_CloseSecondaryIndex_cases (st : prj2.State) (handle : prj2.HandlePtr) :
    ((prj2.SHT.SHT_CloseSecondaryIndex st handle).1 = -1 ∧
        (prj2.SHT.SHT_CloseSecondaryIndex st handle).2.SHT_s_HandleStorage
          = st.SHT_s_HandleStorage ∧
        (prj2.SHT.SHT_CloseSecondaryIndex st handle).2.HT_s_HandleStorage
          = st.HT_s_HandleStorage) ∨
      ((prj2.SHT.SHT_CloseSecondaryIndex st handle).1 = 0 ∧ st.SHT_s_HandleStorage ≠ -1 ∧
        (prj2.SHT.SHT_CloseSecondaryIndex st handle).2.SHT_s_HandleStorage = -1 ∧
        (prj2.SHT.SHT_CloseSecondaryIndex st handle).2.HT_s_HandleStorage
          = st.HT_s_HandleStorage) := by
  unfold prj2.SHT.SHT_CloseSecondaryIndex
  dsimp only
  split
  · exact Or.inl ⟨rfl, rfl, rfl⟩
  · rename_i h1
    split
    · exact Or.inl ⟨rfl, rfl, rfl⟩
    · rename_i h2
      refine Or.inr ⟨rfl, ?_, rfl, rfl⟩
      intro h
      apply h2
      have : handle.deref st = -1 := by
        rw [← h]; exact (not_not.mp h1).symm
      rw [this, BF_CloseFile_negative _ _ (by decide)]
      show (-1 : Int) < 0
      omega

/-- What the counts of open files are in terms of the two handle variables. -/
theorem prj2.Call.run_counts (BLOCK_SIZE : Nat) (st : prj2.State) (n : prj2.OpenCount)
    (c : prj2.Call)
    (hp : n.primary = if st.HT_s_HandleStorage = -1 then 0 else 1)
    (hs : n.secondary = if st.SHT_s_HandleStorage = -1 then 0 else 1) :
    (c.run BLOCK_SIZE st n).2.primary
        = (if (c.run BLOCK_SIZE st n).1.HT_s_HandleStorage = -1 then 0 else 1) ∧
      (c.run BLOCK_SIZE st n).2.secondary
        = (if (c.run BLOCK_SIZE st n).1.SHT_s_HandleStorage = -1 then 0 else 1) := by
  cases c with
  | HT_OpenIndex fileName =>
    rw [prj2.Call.run]
    dsimp only
    rcases prj2.HT.HT_OpenIndex_cases BLOCK_SIZE st fileName with ⟨h1, h2, h3⟩ | ⟨h1, h2, h3, h4⟩
    · rw [h1, h2, h3]; exact ⟨hp, hs⟩
    · rw [h1, h4]
      have h5 : (prj2.HT.HT_OpenIndex BLOCK_SIZE st fileName).2.HT_s_HandleStorage ≠ -1 := by omega
      rw [if_neg h5]
      rw [if_pos h2] at hp
      simp [hp, hs]
  | HT_CloseIndex handle =>
    rw [prj2.Call.run]
    dsimp only
    rcases prj2.HT.HT_CloseIndex_cases st handle with ⟨h1, h2, h3⟩ | ⟨h1, h2, h3, h4⟩
    · rw [h1, h2, h3]; exact ⟨hp, hs⟩
    · rw [h1, h3, h4]
      rw [if_neg h2] at hp
      simp [hp, hs]
  | SHT_OpenSecondaryIndex fileName =>
    rw [prj2.Call.run]
    dsimp only
    rcases prj2.SHT.SHT_OpenSecondaryIndex_cases BLOCK_SIZE st fileName with
      ⟨h1, h2, h3⟩ | ⟨h1, h2, h3, h4⟩
    · rw [h1, h2, h3]; exact ⟨hp, hs⟩
    · rw [h1, h4]
      have h5 : (prj2.SHT.SHT_OpenSecondaryIndex BLOCK_SIZE st fileName).2.SHT_s_HandleStorage
          ≠ -1 := by omega
      rw [if_neg h5]
      rw [if_pos h2] at hs
      simp [hp, hs]
  | SHT_CloseSecondaryIndex handle =>
    rw [prj2.Call.run]
    dsimp only
    rcases prj2.SHT.SHT_CloseSecondaryIndex_cases st handle with ⟨h1, h2, h3⟩ | ⟨h1, h2, h3, h4⟩
    · rw [h1, h2, h3]; exact ⟨hp, hs⟩
    · rw [h1, h3, h4]
      rw [if_neg h2] at hs
      simp [hp, hs]

theorem prj2.runCalls_counts (BLOCK_SIZE : Nat) (calls : List prj2.Call) :
    ∀ (st : prj2.State) (n : prj2.OpenCount),
      n.primary = (if st.HT_s_HandleStorage = -1 then 0 else 1) →
      n.secondary = (if st.SHT_s_HandleStorage = -1 then 0 else 1) →
      (prj2.runCalls BLOCK_SIZE st n calls).2.primary
          = (if (prj2.runCalls BLOCK_SIZE st n calls).1.HT_s_HandleStorage = -1 then 0 else 1) ∧
        (prj2.runCalls BLOCK_SIZE st n calls).2.secondary
          = (if (prj2.runCalls BLOCK_SIZE st n calls).1.SHT_s_HandleStorage = -1 then 0 else 1) := by
  induction calls with
  | nil => intro st n hp hs; exact ⟨hp, hs⟩
  | cons c cs ih =>
    intro st n hp hs
    rw [prj2.runCalls]
    exact ih _ _ (prj2.Call.run_counts BLOCK_SIZE st n c hp hs).1
      (prj2.Call.run_counts BLOCK_SIZE st n c hp hs).2

/-- C17.  From a state in which neither engine has a file open, after any
sequence of calls of `HT_OpenIndex`, `HT_CloseIndex`, `SHT_OpenSecondaryIndex`
and `SHT_CloseSecondaryIndex` (with any file names and any handle pointers) the
number of open primary files, the successful opens minus the successful
closes, is 0 or 1, and so is the number of open secondary files.  While a
primary file is open `HT_OpenIndex` returns the null pointer and changes
nothing; while a secondary file is open so does `SHT_OpenSecondaryIndex`. -/
theorem prj2.single_open_handle (BLOCK_SIZE : Nat) (st : prj2.State) (calls : List prj2.Call)
    (hHT : st.HT_s_HandleStorage = -1) (hSHT : st.SHT_s_HandleStorage = -1) :
    ((prj2.runCalls BLOCK_SIZE st ⟨0, 0⟩ calls).2.primary = 0 ∨
        (prj2.runCalls BLOCK_SIZE st ⟨0, 0⟩ calls).2.primary = 1) ∧
      ((prj2.runCalls BLOCK_SIZE st ⟨0, 0⟩ calls).2.secondary = 0 ∨
        (prj2.runCalls BLOCK_SIZE st ⟨0, 0⟩ calls).2.secondary = 1) ∧
      ((prj2.runCalls BLOCK_SIZE st ⟨0, 0⟩ calls).2.primary = 1 →
        ∀ fileName, prj2.HT.HT_OpenIndex BLOCK_SIZE (prj2.runCalls BLOCK_SIZE st ⟨0, 0⟩ calls).1
            fileName = (none, (prj2.runCalls BLOCK_SIZE st ⟨0, 0⟩ calls).1)) ∧
      ((prj2.runCalls BLOCK_SIZE st ⟨0, 0⟩ calls).2.secondary = 1 →
        ∀ fileName,
          prj2.SHT.SHT_OpenSecondaryIndex BLOCK_SIZE (prj2.runCalls BLOCK_SIZE st ⟨0, 0⟩ calls).1
            fileName = (none, (prj2.runCalls BLOCK_SIZE st ⟨0, 0⟩ calls).1)) := by
  obtain ⟨hp, hs⟩ := prj2.runCalls_counts BLOCK_SIZE calls st ⟨0, 0⟩
    (by rw [if_pos hHT]) (by rw [if_pos hSHT])
  refine ⟨?_, ?_, ?_, ?_⟩
  · rw [hp]; split <;> simp
  · rw [hs]; split <;> simp
  · intro h1 fileName
    have h2 : (prj2.runCalls BLOCK_SIZE st ⟨0, 0⟩ calls).1.HT_s_HandleStorage ≠ -1 := by
      intro h
      rw [hp, if_pos h] at h1
      exact absurd h1 (by decide)
    rw [prj2.HT.HT_OpenIndex, if_pos h2]
  · intro h1 fileName
    have h2 : (prj2.runCalls BLOCK_SIZE st ⟨0, 0⟩ calls).1.SHT_s_HandleStorage ≠ -1 := by
      intro h
      rw [hs, if_pos h] at h1
      exact absurd h1 (by decide)
    rw [prj2.SHT.SHT_OpenSecondaryIndex, if_pos h2]

theorem BFState.firstFree_le (openFiles : List (Option FileName)) :
    BFState.firstFree openFiles ≤ openFiles.length := by
  induction openFiles with
  | nil => exact Nat.le_refl _
  | cons x l ih =>
    cases x with
    | none => exact Nat.zero_le _
    | some n => exact Nat.succ_le_succ ih

theorem BFState.get?_firstFree (openFiles : List (Option FileName)) (x : Option FileName) :
    (if BFState.firstFree openFiles < openFiles.length then
        openFiles.set (BFState.firstFree openFiles) x
      else openFiles ++ [x]).get? (BFState.firstFree openFiles) = some x := by
  by_cases h : BFState.firstFree openFiles < openFiles.length
  · rw [if_pos h]
    simp [h]
  · rw [if_neg h]
    have h1 : BFState.firstFree openFiles = openFiles.length :=
      le_antisymm (BFState.firstFree_le _) (not_lt.mp h)
    rw [h1]
    simp

/-- A file that exists is opened, on a handle that is not negative and designates
it. -/
theorem BF_OpenFile_view (store : BFState) (fileName : FileName) (f : File)
    (h : BFState.find store.files fileName = some f) :
    0 ≤ (BF_OpenFile store fileName).1 ∧
      (BF_OpenFile store fileName).2.view (BF_OpenFile store fileName).1 = some f := by
  have e : BF_OpenFile store fileName
      = ((BFState.firstFree store.openFiles : Int),
        { store with
          openFiles :=
            if BFState.firstFree store.openFiles < store.openFiles.length then
              store.openFiles.set (BFState.firstFree store.openFiles) (some fileName)
            else store.openFiles ++ [some fileName] }) := by
    unfold BF_OpenFile
    rw [h]
    rfl
  rw [e]
  refine ⟨Int.ofNat_nonneg _, ?_⟩
  unfold BFState.view
  rw [if_pos (Int.ofNat_nonneg _)]
  dsimp only
  rw [Int.toNat_ofNat, BFState.get?_firstFree]
  exact h

theorem prj2.HT.HT_OpenIndex_of_other_kind (BLOCK_SIZE : Nat) (st : prj2.State)
    (fileName : FileName) (f : File) (h : BFState.find st.store.files fileName = some f)
    (hk : fileKind BLOCK_SIZE f ≠ some prj2.HashFile) :
    (prj2.HT.HT_OpenIndex BLOCK_SIZE st fileName).1 = none ∧
      (prj2.HT.HT_OpenIndex BLOCK_SIZE st fileName).2.HT_s_HandleStorage = st.HT_s_HandleStorage ∧
      (prj2.HT.HT_OpenIndex BLOCK_SIZE st fileName).2.SHT_s_HandleStorage
        = st.SHT_s_HandleStorage ∧
      (prj2.HT.HT_OpenIndex BLOCK_SIZE st fileName).2.store.files = st.store.files := by
  obtain ⟨h0, hv⟩ := BF_OpenFile_view st.store fileName f h
  unfold prj2.HT.HT_OpenIndex
  dsimp only
  split
  · exact ⟨rfl, rfl, rfl, rfl⟩
  · rw [if_neg (not_lt.mpr h0)]
    unfold BFState.readBlock
    rw [hv]
    dsimp only
    cases hr : BF_ReadBlock BLOCK_SIZE f prj2.HEADER_BLOCK_INDEX with
    | none => exact ⟨rfl, rfl, rfl, BF_OpenFile_files _ _⟩
    | some headerBlock =>
      dsimp only
      rw [if_pos (by
        intro ht
        apply hk
        rw [fileKind, hr, ← ht]
        rfl)]
      exact ⟨rfl, rfl, rfl, BF_OpenFile_files _ _⟩

theorem prj2.HT.HT_OpenIndex_of_primary (BLOCK_SIZE : Nat) (st : prj2.State)
    (fileName : FileName) (f : File) (hHT : st.HT_s_HandleStorage = -1)
    (h : BFState.find st.store.files fileName = some f)
    (hk : fileKind BLOCK_SIZE f = some prj2.HashFile) :
    (prj2.HT.HT_OpenIndex BLOCK_SIZE st fileName).1 = some .HT_s_HandleStorage ∧
      (prj2.HT.HT_OpenIndex BLOCK_SIZE st fileName).2.store.view
        (prj2.HT.HT_OpenIndex BLOCK_SIZE st fileName).2.HT_s_HandleStorage = some f := by
  obtain ⟨h0, hv⟩ := BF_OpenFile_view st.store fileName f h
  obtain ⟨headerBlock, hr, ht⟩ : ∃ headerBlock,
      BF_ReadBlock BLOCK_SIZE f prj2.HEADER_BLOCK_INDEX = some headerBlock ∧
        readUInt32 headerBlock 0 = prj2.HashFile := by
    unfold fileKind at hk
    cases hr : BF_ReadBlock BLOCK_SIZE f prj2.HEADER_BLOCK_INDEX with
    | none => rw [hr] at hk; exact absurd hk (by simp)
    | some b => rw [hr] at hk; exact ⟨b, rfl, by simpa using hk⟩
  unfold prj2.HT.HT_OpenIndex
  dsimp only
  rw [if_neg (not_not.mpr hHT), if_neg (not_lt.mpr h0)]
  unfold BFState.readBlock
  rw [hv]
  dsimp only
  rw [hr]
  dsimp only
  rw [if_neg (not_not.mpr ht)]
  exact ⟨rfl, hv⟩

theorem prj2.SHT.SHT_OpenSecondaryIndex_of_other_kind (BLOCK_SIZE : Nat) (st : prj2.State)
    (fileName : FileName) (f : File) (h : BFState.find st.store.files fileName = some f)
    (hk : fileKind BLOCK_SIZE f ≠ some prj2.SecondaryHashFile) :
    (prj2.SHT.SHT_OpenSecondaryIndex BLOCK_SIZE st fileName).1 = none ∧
      (prj2.SHT.SHT_OpenSecondaryIndex BLOCK_SIZE st fileName).2.HT_s_HandleStorage
        = st.HT_s_HandleStorage ∧
      (prj2.SHT.SHT_OpenSecondaryIndex BLOCK_SIZE st fileName).2.SHT_s_HandleStorage
        = st.SHT_s_HandleStorage ∧
      (prj2.SHT.SHT_OpenSecondaryIndex BLOCK_SIZE st fileName).2.store.files = st.store.files := by
  obtain ⟨h0, hv⟩ := BF_OpenFile_view st.store fileName f h
  unfold prj2.SHT.SHT_OpenSecondaryIndex
  dsimp only
  split
  · exact ⟨rfl, rfl, rfl, rfl⟩
  · rw [if_neg (not_lt.mpr h0)]
    unfold BFState.readBlock
    rw [hv]
    dsimp only
    cases hr : BF_ReadBlock BLOCK_SIZE f prj2.HEADER_BLOCK_INDEX with
    | none => exact ⟨rfl, rfl, rfl, BF_OpenFile_files _ _⟩
    | some headerBlock =>
      dsimp only
      rw [if_pos (by
        intro ht
        apply hk
        rw [fileKind, hr, ← ht]
        rfl)]
      exact ⟨rfl, rfl, rfl, BF_OpenFile_files _ _⟩

theorem prj2.SHT.SHT_OpenSecondaryIndex_of_secondary (BLOCK_SIZE : Nat) (st : prj2.State)
    (fileName : FileName) (f : File) (hSHT : st.SHT_s_HandleStorage = -1)
    (h : BFState.find st.store.files fileName = some f)
    (hk : fileKind BLOCK_SIZE f = some prj2.SecondaryHashFile) :
    (prj2.SHT.SHT_OpenSecondaryIndex BLOCK_SIZE st fileName).1 = some .SHT_s_HandleStorage ∧
      (prj2.SHT.SHT_OpenSecondaryIndex BLOCK_SIZE st fileName).2.store.view
        (prj2.SHT.SHT_OpenSecondaryIndex BLOCK_SIZE st fileName).2.SHT_s_HandleStorage = some f := by
  obtain ⟨h0, hv⟩ := BF_OpenFile_view st.store fileName f h
  obtain ⟨headerBlock, hr, ht⟩ : ∃ headerBlock,
      BF_ReadBlock BLOCK_SIZE f prj2.HEADER_BLOCK_INDEX = some headerBlock ∧
        readUInt32 headerBlock 0 = prj2.SecondaryHashFile := by
    unfold fileKind at hk
    cases hr : BF_ReadBlock BLOCK_SIZE f prj2.HEADER_BLOCK_INDEX with
    | none => rw [hr] at hk; exact absurd hk (by simp)
    | some b => rw [hr] at hk; exact ⟨b, rfl, by simpa using hk⟩
  unfold prj2.SHT.SHT_OpenSecondaryIndex
  dsimp only
  rw [if_neg (not_not.mpr hSHT), if_neg (not_lt.mpr h0)]
  unfold BFState.readBlock
  rw [hv]
  dsimp only
  rw [hr]
  dsimp only
  rw [if_neg (not_not.mpr ht)]
  exact ⟨rfl, hv⟩

theorem prj2.single_open_handle_witness :
    (prj2.runCalls 512 (prj2.initialState prj2.twoFiles) ⟨0, 0⟩
        [.HT_OpenIndex [80], .SHT_OpenSecondaryIndex [83]]).2 = ⟨1, 1⟩ ∧
      ∀ fileName,
        prj2.HT.HT_OpenIndex 512
            (prj2.runCalls 512 (prj2.initialState prj2.twoFiles) ⟨0, 0⟩
              [.HT_OpenIndex [80], .SHT_OpenSecondaryIndex [83]]).1 fileName
          = (none, (prj2.runCalls 512 (prj2.initialState prj2.twoFiles) ⟨0, 0⟩
              [.HT_OpenIndex [80], .SHT_OpenSecondaryIndex [83]]).1) :=
  ⟨by decide!,
    (prj2.single_open_handle 512 (prj2.initialState prj2.twoFiles)
      [.HT_OpenIndex [80], .SHT_OpenSecondaryIndex [83]] rfl rfl).2.2.1 (by decide!)⟩

/-- C18.  In a state where neither engine has a file open: `HT_OpenIndex` of a
file `other` whose header is not tagged `HashFile` returns the null pointer and
leaves the handle variable `-1`, and `HT_OpenIndex` of a file tagged `HashFile`
then returns a pointer, the handle designating that file.  The same holds of
`SHT_OpenSecondaryIndex` and the tag `SecondaryHashFile`. -/
theorem prj2.open_other_kind (BLOCK_SIZE : Nat) (st : prj2.State)
    (otherName primaryName secondaryName : FileName) (other other' primary secondary : File)
    (otherName' : FileName)
    (hHT : st.HT_s_HandleStorage = -1) (hSHT : st.SHT_s_HandleStorage = -1)
    (ho : BFState.find st.store.files otherName = some other)
    (hok : fileKind BLOCK_SIZE other ≠ some prj2.HashFile)
    (hp : BFState.find st.store.files primaryName = some primary)
    (hpk : fileKind BLOCK_SIZE primary = some prj2.HashFile)
    (ho' : BFState.find st.store.files otherName' = some other')
    (hok' : fileKind BLOCK_SIZE other' ≠ some prj2.SecondaryHashFile)
    (hs : BFState.find st.store.files secondaryName = some secondary)
    (hsk : fileKind BLOCK_SIZE secondary = some prj2.SecondaryHashFile) :
    ((prj2.HT.HT_OpenIndex BLOCK_SIZE st otherName).1 = none ∧
        (prj2.HT.HT_OpenIndex BLOCK_SIZE st otherName).2.HT_s_HandleStorage = -1 ∧
        (prj2.HT.HT_OpenIndex BLOCK_SIZE (prj2.HT.HT_OpenIndex BLOCK_SIZE st otherName).2
          primaryName).1 = some .HT_s_HandleStorage ∧
        (prj2.HT.HT_OpenIndex BLOCK_SIZE (prj2.HT.HT_OpenIndex BLOCK_SIZE st otherName).2
          primaryName).2.store.view
            (prj2.HT.HT_OpenIndex BLOCK_SIZE (prj2.HT.HT_OpenIndex BLOCK_SIZE st otherName).2
              primaryName).2.HT_s_HandleStorage = some primary) ∧
      ((prj2.SHT.SHT_OpenSecondaryIndex BLOCK_SIZE st otherName').1 = none ∧
        (prj2.SHT.SHT_OpenSecondaryIndex BLOCK_SIZE st otherName').2.SHT_s_HandleStorage = -1 ∧
        (prj2.SHT.SHT_OpenSecondaryIndex BLOCK_SIZE
          (prj2.SHT.SHT_OpenSecondaryIndex BLOCK_SIZE st otherName').2
          secondaryName).1 = some .SHT_s_HandleStorage ∧
        (prj2.SHT.SHT_OpenSecondaryIndex BLOCK_SIZE
          (prj2.SHT.SHT_OpenSecondaryIndex BLOCK_SIZE st otherName').2
          secondaryName).2.store.view
            (prj2.SHT.SHT_OpenSecondaryIndex BLOCK_SIZE
              (prj2.SHT.SHT_OpenSecondaryIndex BLOCK_SIZE st otherName').2
              secondaryName).2.SHT_s_HandleStorage = some secondary) := by
  obtain ⟨a1, a2, _, a4⟩ := prj2.HT.HT_OpenIndex_of_other_kind BLOCK_SIZE st otherName other ho hok
  obtain ⟨b1, _, b3, b4⟩ :=
    prj2.SHT.SHT_OpenSecondaryIndex_of_other_kind BLOCK_SIZE st otherName' other' ho' hok'
  refine ⟨⟨a1, a2.trans hHT, ?_⟩, ⟨b1, b3.trans hSHT, ?_⟩⟩
  · exact prj2.HT.HT_OpenIndex_of_primary BLOCK_SIZE _ primaryName primary (a2.trans hHT)
      (by rw [a4]; exact hp) hpk
  · exact prj2.SHT.SHT_OpenSecondaryIndex_of_secondary BLOCK_SIZE _ secondaryName secondary
      (b3.trans hSHT) (by rw [b4]; exact hs) hsk

theorem prj2.open_other_kind_witness :
    (prj2.HT.HT_OpenIndex 512 (prj2.initialState prj2.twoFiles) [83]).1 = none ∧
      (prj2.HT.HT_OpenIndex 512
        (prj2.HT.HT_OpenIndex 512 (prj2.initialState prj2.twoFiles) [83]).2 [80]).1
        = some .HT_s_HandleStorage ∧
      (prj2.SHT.SHT_OpenSecondaryIndex 512 (prj2.initialState prj2.twoFiles) [80]).1 = none ∧
      (prj2.SHT.SHT_OpenSecondaryIndex 512
        (prj2.SHT.SHT_OpenSecondaryIndex 512 (prj2.initialState prj2.twoFiles) [80]).2 [83]).1
        = some .SHT_s_HandleStorage :=
  have h := prj2.open_other_kind 512 (prj2.initialState prj2.twoFiles) [83] [80] [83]
    (prj2.SHT.SHT_CreateSecondaryIndex.directory 512 5).2 (prj2.HT.HT_CreateIndex 512 5).2
    (prj2.HT.HT_CreateIndex 512 5).2 (prj2.SHT.SHT_CreateSecondaryIndex.directory 512 5).2 [80]
    rfl rfl (by decide!) (by decide!) (by decide!) (by decide!) (by decide!) (by decide!)
    (by decide!) (by decide!)
  ⟨h.1.1, h.1.2.2.1, h.2.1, h.2.2.2.1⟩

/-- C19, on two inputs (blocks of 512 bytes).  First run: `HT_CreateIndex` with
127 buckets and `HT_OpenIndex` succeed, `HT_DeleteEntry` of the key 1 returns 0,
`HT_CloseIndex` returns 0 and, called again with the same pointer, `-1`; the
`HT_OpenIndex` of the same file that follows returns the null pointer.  Second
run, from the state in which the file made with 254 buckets and 753 inserts is
open: `HT_CloseIndex` returns 0, then `-1`, and `HT_OpenIndex` of the same file
returns the null pointer. -/
theorem prj2.close_reopen_runs :
    prj2.closeReopenRun 512 127 1 = some (0, some .HT_s_HandleStorage, 0, 0, -1, none) ∧
    (prj2.HT.HT_CloseIndex prj2.aliasState .HT_s_HandleStorage).1 = 0 ∧
    (prj2.HT.HT_CloseIndex (prj2.HT.HT_CloseIndex prj2.aliasState .HT_s_HandleStorage).2
      .HT_s_HandleStorage).1 = -1 ∧
    (prj2.HT.HT_OpenIndex 512
      (prj2.HT.HT_CloseIndex (prj2.HT.HT_CloseIndex prj2.aliasState .HT_s_HandleStorage).2
        .HT_s_HandleStorage).2 [80]).1 = none := by
  refine ⟨by decide!, rfl, rfl, ?_⟩
  have e : (prj2.HT.HT_CloseIndex
        (prj2.HT.HT_CloseIndex prj2.aliasState .HT_s_HandleStorage).2 .HT_s_HandleStorage).2
      = { store := { files := [([80], prj2.HT.aliasFileAfter)], openFiles := [none] }
          HT_s_HandleStorage := -1
          SHT_s_HandleStorage := -1 } := rfl
  rw [e]
  refine (prj2.HT.HT_OpenIndex_of_other_kind 512
    { store := { files := [([80], prj2.HT.aliasFileAfter)], openFiles := [none] }
      HT_s_HandleStorage := -1
      SHT_s_HandleStorage := -1 } [80] prj2.HT.aliasFileAfter
    (by rw [BFState.find, if_pos rfl]) ?_).1
  have h : fileKind 512 prj2.HT.aliasFileAfter = some prj2.SecondaryHashFile :=
    prj2.HT.aliasFile_run.2.2.2.1
  rw [h]
  decide

/-! ## Strings inside a block -/

theorem prj2.charArray_readBytes_succ (b off m : Nat) :
    prj2.charArray (readBytes b off (m + 1)) (m + 1)
      = readBytes b off 1 :: prj2.charArray (readBytes b (off + 1) m) m := by
  rw [prj2.charArray]
  congr 1
  · rw [readBytes_eq, readBytes_eq, pow_one, pow_succ, Nat.mul_comm,
      Nat.mod_mul_right_mod]
  · congr 1
    rw [readBytes_eq, readBytes_eq, pow_succ 256 m, Nat.mul_comm (256 ^ m) 256,
      Nat.mod_mul_right_div_self, Nat.div_div_eq_div_mul, ← pow_succ]

theorem prj2.cString_char (s : List Nat) : ∀ c ∈ prj2.cString s, c % 256 ≠ 0 := by
  intro c hc
  have := List.mem_takeWhile_imp hc
  simpa using this

theorem prj2.cString_of_all (s : List Nat) (h : ∀ c ∈ s, c % 256 ≠ 0) : prj2.cString s = s := by
  unfold prj2.cString
  rw [List.takeWhile_eq_self_iff]
  intro c hc
  simpa using h c hc

/-- The comparison of a string of less than `m` characters with the string at
byte `off` of a block that has `m` bytes from there on: `strcmp` gives 0 when
the `m` bytes spell the string. -/
theorem prj2.strcmp_spec (BLOCK_SIZE : Nat) (b : Block) (s : List Nat) :
    ∀ off m, (∀ c ∈ s, c % 256 ≠ 0) → s.length < m → off + m ≤ BLOCK_SIZE →
      prj2.strcmp BLOCK_SIZE b off s
        = some (decide (prj2.cString (prj2.charArray (readBytes b off m) m) = s)) := by
  induction s with
  | nil =>
    intro off m _ hm hoff
    obtain ⟨m, rfl⟩ : ∃ k, m = k + 1 := ⟨m - 1, by simp at hm; omega⟩
    rw [prj2.strcmp, if_pos (by omega), prj2.charArray_readBytes_succ]
    congr 1
    have hlt : readBytes b off 1 < 256 := by
      have := readBytes_lt b off 1
      simpa using this
    by_cases h0 : readBytes b off 1 = 0
    · simp [prj2.cString, h0]
    · have : readBytes b off 1 % 256 ≠ 0 := by rw [Nat.mod_eq_of_lt hlt]; exact h0
      simp [prj2.cString, h0, this]
  | cons c s ih =>
    intro off m hc hm hoff
    obtain ⟨m, rfl⟩ : ∃ k, m = k + 1 := ⟨m - 1, by simp at hm; omega⟩
    rw [List.length_cons] at hm
    rw [prj2.strcmp, if_pos (by omega), prj2.charArray_readBytes_succ]
    have hlt : readBytes b off 1 < 256 := by
      have := readBytes_lt b off 1
      simpa using this
    have hc0 : c % 256 ≠ 0 := hc c (List.mem_cons_self _ _)
    by_cases hbc : readBytes b off 1 = c
    · rw [if_pos hbc, ih (off + 1) m (fun x hx => hc x (List.mem_cons_of_mem _ hx)) (by omega)
        (by omega)]
      congr 1
      have e : prj2.cString (readBytes b off 1 :: prj2.charArray (readBytes b (off + 1) m) m)
          = c :: prj2.cString (prj2.charArray (readBytes b (off + 1) m) m) := by
        rw [hbc]
        unfold prj2.cString
        rw [List.takeWhile_cons_of_pos (by simpa using hc0)]
      rw [e]
      simp
    · rw [if_neg hbc]
      congr 1
      symm
      rw [decide_eq_false_iff_not]
      intro he
      unfold prj2.cString at he
      by_cases h0 : readBytes b off 1 % 256 ≠ 0
      · rw [List.takeWhile_cons_of_pos (by simpa using h0)] at he
        exact hbc (List.cons.inj he).1
      · rw [List.takeWhile_cons_of_neg (by simpa using h0)] at he
        exact List.noConfusion he

/-- The loop over the segments of a block whose slots lie inside the block, for a
string of at most 24 characters: it finds the first slot whose segment has the
surname, and no comparison reads behind the block. -/
theorem prj2.SHT.findDataSegment_eq (BLOCK_SIZE : Nat) (b : Block) (key : List Nat)
    (hchars : ∀ c ∈ key, c % 256 ≠ 0) (hlen : key.length < 25) (k : Nat) :
    ∀ j, prj2.sizeofHashDataBlockHeader + prj2.SHT.sizeofDataSegment * (j + k) ≤ BLOCK_SIZE →
      prj2.SHT.findDataSegment BLOCK_SIZE b key k j
        = SlotScan.ofOption (prj2.SHT.findNamedSegment b key k j) := by
  induction k with
  | zero => intro j _; rfl
  | succ k ih =>
    intro j hj
    have hoff : prj2.sizeofHashDataBlockHeader + prj2.SHT.sizeofDataSegment * j + 25
        ≤ BLOCK_SIZE := by
      unfold prj2.sizeofHashDataBlockHeader prj2.SHT.sizeofDataSegment at hj ⊢
      omega
    rw [prj2.SHT.findDataSegment, prj2.SHT.findNamedSegment,
      prj2.strcmp_spec BLOCK_SIZE b key _ 25 hchars hlen hoff, prj2.cString_of_all key hchars]
    unfold prj2.SHT.readDataSegment
    dsimp only
    by_cases h : prj2.cString (prj2.charArray
        (readBytes b (prj2.sizeofHashDataBlockHeader + prj2.SHT.sizeofDataSegment * j) 25) 25) = key
    · rw [if_pos h, decide_eq_true h]
      rfl
    · rw [if_neg h, decide_eq_false h]
      exact ih (j + 1) (by rw [Nat.add_right_comm]; exact hj)

/-- The loop over the records of a block whose slots lie inside the block, for a
string of at most 24 characters: it finds the first slot whose record has the
surname, and no comparison reads behind the block. -/
theorem prj2.SHT.findRecordBySurname_eq (BLOCK_SIZE : Nat) (b : Block) (key : List Nat)
    (hchars : ∀ c ∈ key, c % 256 ≠ 0) (hlen : key.length < 25) (k : Nat) :
    ∀ j, prj2.sizeofHashDataBlockHeader + prj2.sizeofRecord * (j + k) ≤ BLOCK_SIZE →
      prj2.SHT.findRecordBySurname BLOCK_SIZE b key k j
        = SlotScan.ofOption (prj2.SHT.findNamedRecord b key k j) := by
  induction k with
  | zero => intro j _; rfl
  | succ k ih =>
    intro j hj
    have hoff : prj2.sizeofHashDataBlockHeader + prj2.sizeofRecord * j + 19 + 25
        ≤ BLOCK_SIZE := by
      unfold prj2.sizeofHashDataBlockHeader prj2.sizeofRecord at hj ⊢
      omega
    rw [prj2.SHT.findRecordBySurname, prj2.SHT.findNamedRecord,
      prj2.strcmp_spec BLOCK_SIZE b key _ 25 hchars hlen hoff, prj2.cString_of_all key hchars]
    unfold prj2.readRecord
    dsimp only
    by_cases h : prj2.cString (prj2.charArray
        (readBytes b (prj2.sizeofHashDataBlockHeader + prj2.sizeofRecord * j + 19) 25) 25) = key
    · rw [if_pos h, decide_eq_true h]
      rfl
    · rw [if_neg h, decide_eq_false h]
      exact ih (j + 1) (by rw [Nat.add_right_comm]; exact hj)

/-- The capacity of a secondary data block, in bytes. -/
theorem prj2.SHT.segment_slots_fit (BLOCK_SIZE : Nat) (hBS : 8 ≤ BLOCK_SIZE) (count : Nat)
    (h : count ≤ prj2.SHT.MAX_DATA_SEGMENT_COUNT_PER_BLOCK BLOCK_SIZE) :
    prj2.sizeofHashDataBlockHeader + prj2.SHT.sizeofDataSegment * (0 + count) ≤ BLOCK_SIZE := by
  unfold prj2.SHT.MAX_DATA_SEGMENT_COUNT_PER_BLOCK prj2.sizeofHashDataBlockHeader
    prj2.SHT.sizeofDataSegment at *
  have := Nat.div_mul_le_self (BLOCK_SIZE - 8) 32
  have := Nat.mul_le_mul_right 32 h
  omega

/-- The capacity of a primary data block, in bytes. -/
theorem prj2.HT.record_slots_fit (BLOCK_SIZE : Nat) (hBS : 8 ≤ BLOCK_SIZE) (count : Nat)
    (h : count ≤ prj2.HT.MAX_RECORD_COUNT_PER_BLOCK BLOCK_SIZE) :
    prj2.sizeofHashDataBlockHeader + prj2.sizeofRecord * (0 + count) ≤ BLOCK_SIZE := by
  unfold prj2.HT.MAX_RECORD_COUNT_PER_BLOCK prj2.sizeofHashDataBlockHeader
    prj2.sizeofRecord at *
  have := Nat.div_mul_le_self (BLOCK_SIZE - 8) 96
  have := Nat.mul_le_mul_right 96 h
  omega

/-! ## The lookup of the secondary engine -/

theorem prj2.cString_cString (s : List Nat) : prj2.cString (prj2.cString s) = prj2.cString s :=
  List.takeWhile_idem

theorem prj2.SHT.findNamedSegment_none (b : Block) (key : List Nat) (k : Nat) :
    ∀ j, prj2.SHT.findNamedSegment b key k j = none →
      ∀ i, j ≤ i → i < j + k → ¬ prj2.SHT.sameSurname (prj2.SHT.segmentAt b i).Surname key := by
  induction k with
  | zero => intro j _ i h1 h2; omega
  | succ k ih =>
    intro j h i h1 h2
    rw [prj2.SHT.findNamedSegment] at h
    split at h
    · exact absurd h (by simp)
    · rename_i hne
      rcases Nat.eq_or_lt_of_le h1 with heq | hlt
      · subst heq; exact hne
      · exact ih (j + 1) h i hlt (by omega)

theorem prj2.SHT.findNamedSegment_some (b : Block) (key : List Nat) (k : Nat) :
    ∀ j i, prj2.SHT.findNamedSegment b key k j = some i →
      j ≤ i ∧ i < j + k ∧ prj2.SHT.sameSurname (prj2.SHT.segmentAt b i).Surname key ∧
        ∀ i', j ≤ i' → i' < i → ¬ prj2.SHT.sameSurname (prj2.SHT.segmentAt b i').Surname key := by
  induction k with
  | zero => intro j i h; rw [prj2.SHT.findNamedSegment] at h; exact absurd h (by simp)
  | succ k ih =>
    intro j i h
    rw [prj2.SHT.findNamedSegment] at h
    split at h
    · rename_i heq
      cases h
      exact ⟨Nat.le_refl _, by omega, heq, fun i' h1 h2 => by omega⟩
    · rename_i hne
      obtain ⟨h1, h2, h3, h4⟩ := ih (j + 1) i h
      refine ⟨by omega, by omega, h3, ?_⟩
      intro i' h5 h6
      rcases Nat.eq_or_lt_of_le h5 with heq | hlt
      · subst heq; exact hne
      · exact h4 i' hlt h6

theorem prj2.SHT.findNamedRecord_none (b : Block) (key : List Nat) (k : Nat) :
    ∀ j, prj2.SHT.findNamedRecord b key k j = none →
      ∀ i, j ≤ i → i < j + k → ¬ prj2.SHT.sameSurname (prj2.SHT.recordAt b i).Surname key := by
  induction k with
  | zero => intro j _ i h1 h2; omega
  | succ k ih =>
    intro j h i h1 h2
    rw [prj2.SHT.findNamedRecord] at h
    split at h
    · exact absurd h (by simp)
    · rename_i hne
      rcases Nat.eq_or_lt_of_le h1 with heq | hlt
      · subst heq; exact hne
      · exact ih (j + 1) h i hlt (by omega)

theorem prj2.SHT.findNamedRecord_some (b : Block) (key : List Nat) (k : Nat) :
    ∀ j i, prj2.SHT.findNamedRecord b key k j = some i →
      j ≤ i ∧ i < j + k ∧ prj2.SHT.sameSurname (prj2.SHT.recordAt b i).Surname key ∧
        ∀ i', j ≤ i' → i' < i → ¬ prj2.SHT.sameSurname (prj2.SHT.recordAt b i').Surname key := by
  induction k with
  | zero => intro j i h; rw [prj2.SHT.findNamedRecord] at h; exact absurd h (by simp)
  | succ k ih =>
    intro j i h
    rw [prj2.SHT.findNamedRecord] at h
    split at h
    · rename_i heq
      cases h
      exact ⟨Nat.le_refl _, by omega, heq, fun i' h1 h2 => by omega⟩
    · rename_i hne
      obtain ⟨h1, h2, h3, h4⟩ := ih (j + 1) i h
      refine ⟨by omega, by omega, h3, ?_⟩
      intro i' h5 h6
      rcases Nat.eq_or_lt_of_le h5 with heq | hlt
      · subst heq; exact hne
      · exact h4 i' hlt h6

theorem prj2.SHT.findNamedSegment_eq_none_iff (b : Block) (key : List Nat) :
    prj2.SHT.findNamedSegment b key (readUInt32 b 0) 0 = none ↔ ¬ prj2.SHT.holdsSurname b key := by
  constructor
  · intro h ⟨i, hi, hs⟩
    exact prj2.SHT.findNamedSegment_none b key _ 0 h i (Nat.zero_le _) (by omega) hs
  · intro h
    cases hf : prj2.SHT.findNamedSegment b key (readUInt32 b 0) 0 with
    | none => rfl
    | some i =>
      obtain ⟨_, h2, h3, _⟩ := prj2.SHT.findNamedSegment_some b key _ 0 i hf
      exact absurd ⟨i, by omega, h3⟩ h

theorem prj2.SHT.findNamedRecord_eq_none_iff (b : Block) (key : List Nat) :
    prj2.SHT.findNamedRecord b key (readUInt32 b 0) 0 = none
      ↔ ¬ prj2.SHT.holdsRecordNamed b key := by
  constructor
  · intro h ⟨i, hi, hs⟩
    exact prj2.SHT.findNamedRecord_none b key _ 0 h i (Nat.zero_le _) (by omega) hs
  · intro h
    cases hf : prj2.SHT.findNamedRecord b key (readUInt32 b 0) 0 with
    | none => rfl
    | some i =>
      obtain ⟨_, h2, h3, _⟩ := prj2.SHT.findNamedRecord_some b key _ 0 i hf
      exact absurd ⟨i, by omega, h3⟩ h

theorem prj2.SHT.sameSurname_cString (surname : Nat) (key : List Nat) :
    prj2.SHT.sameSurname surname (prj2.cString key) ↔ prj2.SHT.sameSurname surname key := by
  unfold prj2.SHT.sameSurname
  rw [prj2.cString_cString]

theorem prj2.SHT.holdsSurname_cString (b : Block) (key : List Nat) :
    prj2.SHT.holdsSurname b (prj2.cString key) ↔ prj2.SHT.holdsSurname b key := by
  unfold prj2.SHT.holdsSurname
  simp only [prj2.SHT.sameSurname_cString]

theorem prj2.SHT.holdsRecordNamed_cString (b : Block) (key : List Nat) :
    prj2.SHT.holdsRecordNamed b (prj2.cString key) ↔ prj2.SHT.holdsRecordNamed b key := by
  unfold prj2.SHT.holdsRecordNamed
  simp only [prj2.SHT.sameSurname_cString]

theorem prj2.SHT.staleReference_cString (BLOCK_SIZE : Nat) (primary : File) (blockID : Int)
    (key : List Nat) :
    prj2.SHT.staleReference BLOCK_SIZE primary blockID (prj2.cString key)
      ↔ prj2.SHT.staleReference BLOCK_SIZE primary blockID key := by
  unfold prj2.SHT.staleReference
  split
  · exact Iff.rfl
  · exact (prj2.SHT.holdsRecordNamed_cString _ key).not

/-- The lookup loop on a chain that ends and holds no segment with the surname,
when the segments of the blocks lie inside them and the key has at most 24
characters. -/
theorem prj2.SHT.keyLoop_of_no_match (BLOCK_SIZE : Nat) (hBS : 8 ≤ BLOCK_SIZE)
    (f primary : File) (key : List Nat)
    (hchars : ∀ c ∈ key, c % 256 ≠ 0) (hlen : key.length < 25) (fuel : Nat) :
    ∀ start blocksTraversed,
      (∀ p ∈ prj2.HT.chain BLOCK_SIZE f fuel start, ¬ prj2.SHT.holdsSurname p.2 key) →
      (∀ p ∈ prj2.HT.chain BLOCK_SIZE f fuel start,
        readUInt32 p.2 0 ≤ prj2.SHT.MAX_DATA_SEGMENT_COUNT_PER_BLOCK BLOCK_SIZE) →
      (prj2.HT.chain BLOCK_SIZE f fuel start).length < fuel →
      prj2.SHT.SHT_SecondaryGetAllEntries.keyLoop BLOCK_SIZE f primary key fuel start
        blocksTraversed = some (-1, []) := by
  induction fuel with
  | zero => intro start bt _ _ h; exact absurd h (Nat.not_lt_zero _)
  | succ fuel ih =>
    intro start bt hno hcap hlen'
    rw [prj2.HT.chain] at hno hcap hlen'
    rw [prj2.SHT.SHT_SecondaryGetAllEntries.keyLoop]
    by_cases hs : start = prj2.INVALID_BLOCK_INDEX
    · rw [if_pos hs]
    · rw [if_neg hs] at hno hcap hlen'
      rw [if_neg hs]
      cases hrd : BF_ReadBlock BLOCK_SIZE f start with
      | none => rfl
      | some b =>
        rw [hrd] at hno hcap hlen'
        simp only [List.mem_cons, List.length_cons] at hno hcap hlen'
        simp only []
        have hb : prj2.SHT.findNamedSegment b key (readUInt32 b 0) 0 = none :=
          (prj2.SHT.findNamedSegment_eq_none_iff b key).mpr (hno (start, b) (Or.inl rfl))
        rw [prj2.SHT.findDataSegment_eq BLOCK_SIZE b key hchars hlen _ 0
          (prj2.SHT.segment_slots_fit BLOCK_SIZE hBS _ (hcap (start, b) (Or.inl rfl))), hb]
        simp only [SlotScan.ofOption]
        exact ih _ _ (fun p hp => hno p (Or.inr hp)) (fun p hp => hcap p (Or.inr hp)) (by omega)

/-- A slot below the capacity of a secondary data block ends inside the block. -/
theorem prj2.SHT.segment_slot_inside (BLOCK_SIZE : Nat) (hBS : 8 ≤ BLOCK_SIZE) (count i : Nat)
    (h : count ≤ prj2.SHT.MAX_DATA_SEGMENT_COUNT_PER_BLOCK BLOCK_SIZE) (hi : i < count) :
    ¬ BLOCK_SIZE < prj2.sizeofHashDataBlockHeader + prj2.SHT.sizeofDataSegment * i
      + prj2.SHT.sizeofDataSegment := by
  have := prj2.SHT.segment_slots_fit BLOCK_SIZE hBS count h
  unfold prj2.sizeofHashDataBlockHeader prj2.SHT.sizeofDataSegment at *
  omega

/-- A slot below the capacity of a primary data block ends inside the block. -/
theorem prj2.HT.record_slot_inside (BLOCK_SIZE : Nat) (hBS : 8 ≤ BLOCK_SIZE) (count i : Nat)
    (h : count ≤ prj2.HT.MAX_RECORD_COUNT_PER_BLOCK BLOCK_SIZE) (hi : i < count) :
    ¬ BLOCK_SIZE < prj2.sizeofHashDataBlockHeader + prj2.sizeofRecord * i
      + prj2.sizeofRecord := by
  have := prj2.HT.record_slots_fit BLOCK_SIZE hBS count h
  unfold prj2.sizeofHashDataBlockHeader prj2.sizeofRecord at *
  omega

/-- The lookup loop when the first segment with the surname refers to a primary
block that holds no record with the surname, or that cannot be read; the
segments and the records of the blocks that are walked lie inside them and the
key has at most 24 characters. -/
theorem prj2.SHT.keyLoop_of_stale (BLOCK_SIZE : Nat) (hBS : 8 ≤ BLOCK_SIZE)
    (f primary : File) (key : List Nat)
    (hchars : ∀ c ∈ key, c % 256 ≠ 0) (hlen : key.length < 25)
    (segment : prj2.SHT.DataSegment)
    (hstale : prj2.SHT.staleReference BLOCK_SIZE primary segment.BlockID key)
    (hpcap : ∀ pb, BF_ReadBlock BLOCK_SIZE primary segment.BlockID = some pb →
      readUInt32 pb 0 ≤ prj2.HT.MAX_RECORD_COUNT_PER_BLOCK BLOCK_SIZE)
    (fuel : Nat) :
    ∀ start blocksTraversed,
      prj2.SHT.firstMatch (prj2.HT.chain BLOCK_SIZE f fuel start) key = some segment →
      (∀ p ∈ prj2.HT.chain BLOCK_SIZE f fuel start,
        readUInt32 p.2 0 ≤ prj2.SHT.MAX_DATA_SEGMENT_COUNT_PER_BLOCK BLOCK_SIZE) →
      prj2.SHT.SHT_SecondaryGetAllEntries.keyLoop BLOCK_SIZE f primary key fuel start
        blocksTraversed = some (-1, []) := by
  induction fuel with
  | zero =>
    intro start bt h
    rw [prj2.HT.chain, prj2.SHT.firstMatch] at h
    exact absurd h (by simp)
  | succ fuel ih =>
    intro start bt h hcap
    rw [prj2.HT.chain] at h hcap
    rw [prj2.SHT.SHT_SecondaryGetAllEntries.keyLoop]
    by_cases hs : start = prj2.INVALID_BLOCK_INDEX
    · rw [if_pos hs]
    · rw [if_neg hs] at h hcap
      rw [if_neg hs]
      cases hrd : BF_ReadBlock BLOCK_SIZE f start with
      | none => rfl
      | some b =>
        rw [hrd] at h hcap
        simp only [List.mem_cons] at hcap
        simp only [] at h ⊢
        rw [prj2.SHT.firstMatch, List.findSome?_cons] at h
        have hcb : readUInt32 b 0 ≤ prj2.SHT.MAX_DATA_SEGMENT_COUNT_PER_BLOCK BLOCK_SIZE :=
          hcap (start, b) (Or.inl rfl)
        rw [prj2.SHT.findDataSegment_eq BLOCK_SIZE b key hchars hlen _ 0
          (prj2.SHT.segment_slots_fit BLOCK_SIZE hBS _ hcb)]
        cases hf : prj2.SHT.findNamedSegment b key (readUInt32 b 0) 0 with
        | none =>
          rw [hf] at h
          simp only [Option.map_none'] at h
          simp only [SlotScan.ofOption]
          exact ih _ _ h (fun p hp => hcap p (Or.inr hp))
        | some i =>
          rw [hf] at h
          simp only [Option.map_some', Option.some.injEq] at h
          simp only [SlotScan.ofOption]
          obtain ⟨_, hilt, _, _⟩ := prj2.SHT.findNamedSegment_some b key _ 0 i hf
          rw [if_neg (prj2.SHT.segment_slot_inside BLOCK_SIZE hBS _ i hcb (by omega))]
          have hseg : prj2.SHT.readDataSegment b
              (prj2.sizeofHashDataBlockHeader + prj2.SHT.sizeofDataSegment * i) = segment := h
          rw [hseg]
          unfold prj2.SHT.staleReference at hstale
          cases hp : BF_ReadBlock BLOCK_SIZE primary segment.BlockID with
          | none => rfl
          | some pb =>
            rw [hp] at hstale
            simp only []
            rw [prj2.SHT.findRecordBySurname_eq BLOCK_SIZE pb key hchars hlen _ 0
              (prj2.HT.record_slots_fit BLOCK_SIZE hBS _ (hpcap pb hp)),
              (prj2.SHT.findNamedRecord_eq_none_iff pb key).mpr hstale]
            rfl

/-- The loop over the records of a block, for a string of at most 24 characters:
the slot that it finds lies among those it walks, and when the slot ends inside
the block, its record has the surname. -/
theorem prj2.SHT.findRecordBySurname_found (BLOCK_SIZE : Nat) (b : Block) (key : List Nat)
    (hchars : ∀ c ∈ key, c % 256 ≠ 0) (hlen : key.length < 25) (k : Nat) :
    ∀ j i, prj2.SHT.findRecordBySurname BLOCK_SIZE b key k j = SlotScan.found i →
      j ≤ i ∧ i < j + k ∧
        (prj2.sizeofHashDataBlockHeader + prj2.sizeofRecord * i + prj2.sizeofRecord ≤ BLOCK_SIZE →
          prj2.SHT.sameSurname (prj2.SHT.recordAt b i).Surname key) := by
  induction k with
  | zero =>
    intro j i h
    rw [prj2.SHT.findRecordBySurname] at h
    exact SlotScan.noConfusion h
  | succ k ih =>
    intro j i h
    rw [prj2.SHT.findRecordBySurname] at h
    split at h
    · exact SlotScan.noConfusion h
    · rename_i heq
      cases h
      refine ⟨Nat.le_refl _, by omega, ?_⟩
      intro hin
      have hoff : prj2.sizeofHashDataBlockHeader + prj2.sizeofRecord * j + 19 + 25
          ≤ BLOCK_SIZE := by
        unfold prj2.sizeofHashDataBlockHeader prj2.sizeofRecord at hin ⊢
        omega
      rw [prj2.strcmp_spec BLOCK_SIZE b key _ 25 hchars hlen hoff] at heq
      have := of_decide_eq_true (Option.some.inj heq)
      unfold prj2.SHT.sameSurname prj2.SHT.recordAt prj2.readRecord
      dsimp only
      rw [this, prj2.cString_of_all key hchars]
    · obtain ⟨h1, h2, h3⟩ := ih (j + 1) i h
      exact ⟨by omega, by omega, h3⟩

/-- The lookup loop returns a count that is not negative only with one record
printed, whose surname is the key, a string of at most 24 characters. -/
theorem prj2.SHT.keyLoop_nonneg (BLOCK_SIZE : Nat) (f primary : File) (key : List Nat)
    (hchars : ∀ c ∈ key, c % 256 ≠ 0) (hlen : key.length < 25)
    (fuel : Nat) :
    ∀ start blocksTraversed code out,
      prj2.SHT.SHT_SecondaryGetAllEntries.keyLoop BLOCK_SIZE f primary key fuel start
        blocksTraversed = some (code, out) →
      0 ≤ code → ∃ r, out = [r] ∧ prj2.SHT.sameSurname r.Surname key := by
  induction fuel with
  | zero =>
    intro start bt code out h
    rw [prj2.SHT.SHT_SecondaryGetAllEntries.keyLoop] at h
    exact absurd h (by simp)
  | succ fuel ih =>
    intro start bt code out h hc
    rw [prj2.SHT.SHT_SecondaryGetAllEntries.keyLoop] at h
    have hneg : ∀ {code : Int} {out : List prj2.Record},
        some ((-1 : Int), ([] : List prj2.Record)) = some (code, out) → 0 ≤ code → False := by
      intro code out h hc
      simp only [Option.some.injEq, Prod.mk.injEq] at h
      omega
    split at h
    · exact (hneg h hc).elim
    · split at h
      · exact (hneg h hc).elim
      · rename_i b hrd
        simp only [] at h
        split at h
        · exact absurd h (by simp)
        · rename_i i hf
          split at h
          · exact absurd h (by simp)
          · split at h
            · exact (hneg h hc).elim
            · rename_i pb hp
              split at h
              · exact absurd h (by simp)
              · rename_i j hj
                split at h
                · exact absurd h (by simp)
                · rename_i hin
                  simp only [Option.some.injEq, Prod.mk.injEq] at h
                  refine ⟨_, h.2.symm, ?_⟩
                  obtain ⟨_, _, h3⟩ := prj2.SHT.findRecordBySurname_found BLOCK_SIZE pb key
                    hchars hlen _ 0 j hj
                  exact h3 (Nat.le_of_not_lt hin)
              · exact (hneg h hc).elim
        · exact ih _ _ _ _ h hc

theorem prj2.SHT.findNamedSegment_cString (b : Block) (key : List Nat) (k : Nat) :
    ∀ j, prj2.SHT.findNamedSegment b (prj2.cString key) k j = prj2.SHT.findNamedSegment b key k j := by
  induction k with
  | zero => intro j; rfl
  | succ k ih =>
    intro j
    rw [prj2.SHT.findNamedSegment, prj2.SHT.findNamedSegment, prj2.cString_cString, ih]

theorem prj2.SHT.firstMatch_cString (chain : List (Int × Block)) (key : List Nat) :
    prj2.SHT.firstMatch chain (prj2.cString key) = prj2.SHT.firstMatch chain key := by
  unfold prj2.SHT.firstMatch
  simp only [prj2.SHT.findNamedSegment_cString]

/-- The function `SHT_SecondaryGetAllEntries` with a key of at most 24 characters,
in terms of the head of the key's bucket. -/
theorem prj2.SHT.SHT_SecondaryGetAllEntries_cases (BLOCK_SIZE : Nat) (f primary : File)
    (keyValue : List Nat) (hlen : (prj2.cString keyValue).length < 25) :
    (prj2.SHT.bucketHead BLOCK_SIZE f (prj2.cString keyValue) = none ∧
        prj2.SHT.SHT_SecondaryGetAllEntries BLOCK_SIZE f primary (some keyValue) = some (-1, [])) ∨
      ∃ head blocksTraversed,
        prj2.SHT.bucketHead BLOCK_SIZE f (prj2.cString keyValue) = some head ∧
          prj2.SHT.SHT_SecondaryGetAllEntries BLOCK_SIZE f primary (some keyValue)
            = prj2.SHT.SHT_SecondaryGetAllEntries.keyLoop BLOCK_SIZE f primary
                (prj2.cString keyValue) (f.blockCount + 1) head blocksTraversed := by
  unfold prj2.SHT.bucketHead prj2.SHT.SHT_SecondaryGetAllEntries
  dsimp only
  rw [if_neg (Nat.not_le_of_lt hlen)]
  cases BF_ReadBlock BLOCK_SIZE f prj2.HEADER_BLOCK_INDEX with
  | none => exact Or.inl ⟨rfl, rfl⟩
  | some headerBlock =>
    dsimp only
    cases prj2.HT.walkBucketBlocks BLOCK_SIZE f
        (prj2.HT.bucketBlockNumber BLOCK_SIZE
          (toInt32 (prj2.SHT.HashFunction (prj2.cString keyValue)
            (toInt32 (readUInt32 headerBlock 4 : Nat)) : Nat))).toNat
        prj2.INVALID_BLOCK_INDEX (readInt32 headerBlock 8) with
    | none => exact Or.inl ⟨rfl, rfl⟩
    | some w =>
      obtain ⟨bucketBlockIndex, cur⟩ := w
      dsimp only
      cases BF_ReadBlock BLOCK_SIZE f bucketBlockIndex with
      | none => exact Or.inl ⟨rfl, rfl⟩
      | some bucketBlock => exact Or.inr ⟨_, _, rfl, rfl⟩

/-- C14, as the code has it.  For `SHT_SecondaryGetAllEntries` with the key
`keyValue`, on any secondary and primary file with blocks of at least 8 bytes.
(a) When the key has at most 24 characters, the chain of the key's bucket ends,
its blocks have element counts within the capacity of a secondary data block and
no segment on it has the surname `keyValue`, the function returns `-1`.  (b) When
the key has at most 24 characters, the blocks of the chain have element counts
within that capacity and the first segment on the chain with the surname refers
to a primary block that cannot be read, or that has an element count within the
capacity of a primary data block and holds no record with that surname, the
function returns `-1`.  (c) When the function returns a count that is not
negative, it has printed one record, whose surname is `keyValue`. -/
theorem prj2.SHT.lookup_failure_cases (BLOCK_SIZE : Nat) (hBS : 8 ≤ BLOCK_SIZE)
    (f primary : File) (keyValue : List Nat) :
    ((prj2.cString keyValue).length < 25 →
        (∀ p ∈ prj2.SHT.keyChain BLOCK_SIZE f (prj2.cString keyValue),
          readUInt32 p.2 0 ≤ prj2.SHT.MAX_DATA_SEGMENT_COUNT_PER_BLOCK BLOCK_SIZE) →
        (∀ p ∈ prj2.SHT.keyChain BLOCK_SIZE f (prj2.cString keyValue),
          ¬ prj2.SHT.holdsSurname p.2 keyValue) →
        (prj2.SHT.keyChain BLOCK_SIZE f (prj2.cString keyValue)).length ≤ f.blockCount →
        prj2.SHT.SHT_SecondaryGetAllEntries BLOCK_SIZE f primary (some keyValue)
          = some (-1, [])) ∧
      ((prj2.cString keyValue).length < 25 →
        (∀ p ∈ prj2.SHT.keyChain BLOCK_SIZE f (prj2.cString keyValue),
          readUInt32 p.2 0 ≤ prj2.SHT.MAX_DATA_SEGMENT_COUNT_PER_BLOCK BLOCK_SIZE) →
        ∀ segment,
          prj2.SHT.firstMatch (prj2.SHT.keyChain BLOCK_SIZE f (prj2.cString keyValue)) keyValue
            = some segment →
          prj2.SHT.staleReference BLOCK_SIZE primary segment.BlockID keyValue →
          (∀ pb ∈ BF_ReadBlock BLOCK_SIZE primary segment.BlockID,
            readUInt32 pb 0 ≤ prj2.HT.MAX_RECORD_COUNT_PER_BLOCK BLOCK_SIZE) →
          prj2.SHT.SHT_SecondaryGetAllEntries BLOCK_SIZE f primary (some keyValue)
            = some (-1, [])) ∧
      (∀ code out,
        prj2.SHT.SHT_SecondaryGetAllEntries BLOCK_SIZE f primary (some keyValue)
          = some (code, out) →
        0 ≤ code → ∃ r, out = [r] ∧ prj2.SHT.sameSurname r.Surname keyValue) := by
  by_cases hlen : (prj2.cString keyValue).length < 25
  · have hchars := prj2.cString_char keyValue
    rcases prj2.SHT.SHT_SecondaryGetAllEntries_cases BLOCK_SIZE f primary keyValue hlen with
      ⟨hh, hr⟩ | ⟨head, bt, hh, hr⟩
    · refine ⟨fun _ _ _ _ => hr, fun _ _ _ _ _ _ => hr, ?_⟩
      intro code out h hc
      rw [hr] at h
      simp only [Option.some.injEq, Prod.mk.injEq] at h
      omega
    · unfold prj2.SHT.keyChain
      rw [hh, hr]
      dsimp only
      refine ⟨?_, ?_, ?_⟩
      · intro _ hcap hno hlen'
        exact prj2.SHT.keyLoop_of_no_match BLOCK_SIZE hBS f primary _ hchars hlen _ _ _
          (fun p hp => (prj2.SHT.holdsSurname_cString p.2 keyValue).not.mpr (hno p hp))
          hcap (Nat.lt_succ_of_le hlen')
      · intro _ hcap segment hm hstale hpcap
        rw [← prj2.SHT.firstMatch_cString] at hm
        exact prj2.SHT.keyLoop_of_stale BLOCK_SIZE hBS f primary _ hchars hlen segment
          ((prj2.SHT.staleReference_cString BLOCK_SIZE primary _ keyValue).mpr hstale)
          (fun pb hpb => hpcap pb hpb) _ _ _ hm hcap
      · intro code out h hc
        obtain ⟨r, h1, h2⟩ :=
          prj2.SHT.keyLoop_nonneg BLOCK_SIZE f primary _ hchars hlen _ _ _ code out h hc
        exact ⟨r, h1, (prj2.SHT.sameSurname_cString _ _).mp h2⟩
  · refine ⟨fun h => absurd h hlen, fun h => absurd h hlen, ?_⟩
    intro code out h
    unfold prj2.SHT.SHT_SecondaryGetAllEntries at h
    dsimp only at h
    rw [if_pos (Nat.le_of_not_lt hlen)] at h
    exact Option.noConfusion h

theorem prj2.SHT.lookup_failure_cases_witness :
    prj2.SHT.SHT_SecondaryGetAllEntries 512 prj2.SHT.demoSecondary prj2.SHT.demoPrimary (some [90])
        = some (-1, []) ∧
      prj2.SHT.SHT_SecondaryGetAllEntries 512 prj2.SHT.demoSecondary
          prj2.SHT.demoPrimaryAfterDelete (some [66]) = some (-1, []) ∧
      ∃ r, [prj2.HT.recordOf 4 67] = [r] ∧ prj2.SHT.sameSurname r.Surname [67] :=
  ⟨(prj2.SHT.lookup_failure_cases 512 (by decide) prj2.SHT.demoSecondary prj2.SHT.demoPrimary
      [90]).1 (by decide) (by decide!) (by decide!) (by decide!),
    (prj2.SHT.lookup_failure_cases 512 (by decide) prj2.SHT.demoSecondary
      prj2.SHT.demoPrimaryAfterDelete [66]).2.1 (by decide) (by decide!)
      { Surname := 66, BlockID := 3 } (by decide!) (by decide!) (by decide!),
    (prj2.SHT.lookup_failure_cases 512 (by decide) prj2.SHT.demoSecondary prj2.SHT.demoPrimary
      [67]).2.2 4 [prj2.HT.recordOf 4 67] (by decide!) (by decide)⟩

/-! ## Blocks of a file, by index -/

theorem BF_ReadBlock_some (BLOCK_SIZE : Nat) (f : File) (i : Int) (b : Block)
    (h : BF_ReadBlock BLOCK_SIZE f i = some b) :
    0 ≤ i ∧ i < f.blockCount ∧ b < 256 ^ BLOCK_SIZE := by
  unfold BF_ReadBlock at h
  split at h
  · rename_i hi
    simp only [Option.some.injEq] at h
    exact ⟨hi.1, hi.2, h ▸ readBytes_lt _ _ _⟩
  · exact absurd h (by simp)

theorem BF_ReadBlock_of_lt (BLOCK_SIZE : Nat) (f : File) (i : Int) (h0 : 0 ≤ i)
    (h1 : i < f.blockCount) : ∃ b, BF_ReadBlock BLOCK_SIZE f i = some b := by
  unfold BF_ReadBlock
  rw [if_pos ⟨h0, h1⟩]
  exact ⟨_, rfl⟩

theorem BF_ReadBlock_WriteBlock_self (BLOCK_SIZE : Nat) (f : File) (i : Int) (b : Block)
    (h0 : 0 ≤ i) (h1 : i < f.blockCount) :
    BF_ReadBlock BLOCK_SIZE (BF_WriteBlock BLOCK_SIZE f i b) i = some (b % 256 ^ BLOCK_SIZE) := by
  obtain ⟨k, rfl⟩ := Int.eq_ofNat_of_zero_le h0
  exact BF_ReadBlock_WriteBlock_same BLOCK_SIZE f k b (by omega)

theorem BF_ReadBlock_WriteBlock_other (BLOCK_SIZE : Nat) (f : File) (i j : Int) (b : Block)
    (hij : i ≠ j) :
    BF_ReadBlock BLOCK_SIZE (BF_WriteBlock BLOCK_SIZE f i b) j = BF_ReadBlock BLOCK_SIZE f j := by
  by_cases hi : 0 ≤ i
  · by_cases hj : 0 ≤ j
    · obtain ⟨k, rfl⟩ := Int.eq_ofNat_of_zero_le hi
      obtain ⟨l, rfl⟩ := Int.eq_ofNat_of_zero_le hj
      exact BF_ReadBlock_WriteBlock_ne BLOCK_SIZE f k l b (by omega)
    · unfold BF_ReadBlock
      rw [if_neg (fun h => hj h.1), if_neg (fun h => hj h.1)]
  · unfold BF_WriteBlock
    rw [if_neg (fun h => hi h.1)]

theorem BF_ReadBlock_AllocateBlock_of_lt (BLOCK_SIZE : Nat) (f : File) (j : Int)
    (h : j < f.blockCount) :
    BF_ReadBlock BLOCK_SIZE (BF_AllocateBlock BLOCK_SIZE f) j = BF_ReadBlock BLOCK_SIZE f j := by
  by_cases hj : 0 ≤ j
  · obtain ⟨l, rfl⟩ := Int.eq_ofNat_of_zero_le hj
    exact BF_ReadBlock_AllocateBlock_old BLOCK_SIZE f l (by omega)
  · unfold BF_ReadBlock
    rw [if_neg (fun h => hj h.1), if_neg (fun h => hj h.1)]

theorem readBytes_readBytes (b off len off' len' : Nat) (h : off' + len' ≤ len) :
    readBytes (readBytes b off len) off' len' = readBytes b (off + off') len' := by
  rw [readBytes_eq b off len, readBytes_mod _ _ _ _ h, readBytes_eq, readBytes_eq, pow_add,
    Nat.div_div_eq_div_mul]

/-! ## The two insert functions have one shape -/

theorem prj2.HT.HT_checkLoop_eq (BLOCK_SIZE : Nat) (f : File) (record : prj2.Record) (fuel : Nat) :
    ∀ start, prj2.HT.HT_InsertEntry.checkLoop BLOCK_SIZE f record fuel start
      = InsertEngine.checkLoop BLOCK_SIZE f
          (fun b => prj2.HT.findRecord b record.ID (readUInt32 b 0) 0) fuel start := by
  induction fuel with
  | zero => intro start; rfl
  | succ fuel ih =>
    intro start
    rw [prj2.HT.HT_InsertEntry.checkLoop, InsertEngine.checkLoop]
    simp only [ih]

theorem prj2.HT.HT_insertLoop_eq (BLOCK_SIZE : Nat) (f : File) (record : prj2.Record) (fuel : Nat) :
    ∀ previous start, prj2.HT.HT_InsertEntry.insertLoop BLOCK_SIZE f record fuel previous start
      = (prj2.HT.insertEngine BLOCK_SIZE).insertLoop BLOCK_SIZE f record.toBytes fuel previous
          start := by
  induction fuel with
  | zero => intro previous start; rfl
  | succ fuel ih =>
    intro previous start
    rw [prj2.HT.HT_InsertEntry.insertLoop, InsertEngine.insertLoop]
    simp only [ih]
    rfl

theorem prj2.HT.HT_InsertEntry_eq (BLOCK_SIZE : Nat) (f : File) (record : prj2.Record) :
    prj2.HT.HT_InsertEntry BLOCK_SIZE f record
      = (prj2.HT.insertEngine BLOCK_SIZE).insert BLOCK_SIZE f
          (fun hashTableSize => prj2.HT.HashFunction record.ID hashTableSize)
          (fun b => prj2.HT.findRecord b record.ID (readUInt32 b 0) 0) record.toBytes := by
  rw [prj2.HT.HT_InsertEntry, InsertEngine.insert]
  simp only [prj2.HT.HT_checkLoop_eq, prj2.HT.HT_insertLoop_eq]
  rfl

theorem prj2.SHT.SHT_insertLoop_eq (BLOCK_SIZE : Nat) (f : File) (dataSegment : prj2.SHT.DataSegment)
    (fuel : Nat) :
    ∀ previous start,
      prj2.SHT.SHT_SecondaryInsertEntry.insertLoop BLOCK_SIZE f dataSegment fuel previous start
        = (prj2.SHT.insertEngine BLOCK_SIZE).insertLoop BLOCK_SIZE f dataSegment.toBytes fuel
            previous start := by
  induction fuel with
  | zero => intro previous start; rfl
  | succ fuel ih =>
    intro previous start
    rw [prj2.SHT.SHT_SecondaryInsertEntry.insertLoop, InsertEngine.insertLoop]
    simp only [ih]
    rfl

/-! ## Well-formed files: the directory -/

theorem prj2.HT.bucketBlockNumber_natCast (BLOCK_SIZE s : Nat) (hBS : 8 ≤ BLOCK_SIZE)
    (hs : s + 1 < 2147483648) :
    (prj2.HT.bucketBlockNumber BLOCK_SIZE (s : Int)).toNat
      = s / prj2.MAX_BUCKET_COUNT_PER_BLOCK BLOCK_SIZE + 1 := by
  have hC : 1 ≤ prj2.MAX_BUCKET_COUNT_PER_BLOCK BLOCK_SIZE := by
    unfold prj2.MAX_BUCKET_COUNT_PER_BLOCK; omega
  unfold prj2.HT.bucketBlockNumber
  generalize prj2.MAX_BUCKET_COUNT_PER_BLOCK BLOCK_SIZE = C at hC ⊢
  have e1 : toInt32 ((s : Int) + 1) = ((s + 1 : Nat) : Int) := by
    rw [toInt32_of_range _ (by omega) (by omega)]; push_cast; rfl
  have e2 : toUInt64 ((s + 1 : Nat) : Int) = s + 1 := by
    rw [toUInt64_of_lt _ (by omega) (by omega), Int.toNat_ofNat]
  have hq : (s + 1) / C ≤ s + 1 := Nat.div_le_self _ _
  have key : (s + 1) / C + (if (s + 1) % C > 0 then 1 else 0) = s / C + 1 := by
    rw [← ceil_div_eq (s + 1) C (by omega)]
    have e : s + 1 + C - 1 = s + C := by omega
    rw [e, Nat.add_div_right _ (by omega)]
  have hq2 : s / C ≤ s := Nat.div_le_self _ _
  dsimp only
  rw [e1, e2]
  generalize (s + 1) / C = q at hq key ⊢
  generalize s / C = q' at key hq2 ⊢
  rw [toInt32_of_range (q : Int) (by omega) (by omega)]
  have e3 : (q : Int) + (if (s + 1) % C > 0 then 1 else 0) = ((q' + 1 : Nat) : Int) := by
    rw [← key]; push_cast; split <;> rfl
  have hq' : q' ≤ q := by split at key <;> omega
  rw [e3, toInt32_of_range ((q' + 1 : Nat) : Int) (by omega) (by omega), Int.toNat_ofNat]

theorem prj2.HT.bucketOffset_natCast (BLOCK_SIZE s : Nat) (hBS : 8 ≤ BLOCK_SIZE)
    (hs : s < 2147483648) :
    prj2.HT.bucketOffset BLOCK_SIZE (s : Int)
      = prj2.sizeofHashBucketBlockHeader + 4 * (s % prj2.MAX_BUCKET_COUNT_PER_BLOCK BLOCK_SIZE) := by
  have hC : 1 ≤ prj2.MAX_BUCKET_COUNT_PER_BLOCK BLOCK_SIZE := by
    unfold prj2.MAX_BUCKET_COUNT_PER_BLOCK; omega
  unfold prj2.HT.bucketOffset
  generalize prj2.MAX_BUCKET_COUNT_PER_BLOCK BLOCK_SIZE = C at hC ⊢
  have hr : s % C ≤ s := Nat.mod_le _ _
  dsimp only
  rw [toUInt64_of_lt (s : Int) (by omega) (by omega), Int.toNat_ofNat]
  generalize s % C = r at hr ⊢
  rw [toInt32_of_range (r : Int) (by omega) (by omega),
    toUInt64_of_lt (r : Int) (by omega) (by omega), Int.toNat_ofNat]
  omega

theorem directoryBlockCount_pos (BLOCK_SIZE n : Nat) (hBS : 8 ≤ BLOCK_SIZE) (hn : 1 ≤ n) :
    1 ≤ directoryBlockCount BLOCK_SIZE n := by
  have hC : 1 ≤ prj2.MAX_BUCKET_COUNT_PER_BLOCK BLOCK_SIZE := by
    unfold prj2.MAX_BUCKET_COUNT_PER_BLOCK; omega
  unfold directoryBlockCount
  generalize prj2.MAX_BUCKET_COUNT_PER_BLOCK BLOCK_SIZE = C at hC ⊢
  exact (Nat.le_div_iff_mul_le (by omega)).mpr (by omega)

theorem div_lt_directoryBlockCount (BLOCK_SIZE n s : Nat) (hBS : 8 ≤ BLOCK_SIZE) (hs : s < n) :
    s / prj2.MAX_BUCKET_COUNT_PER_BLOCK BLOCK_SIZE < directoryBlockCount BLOCK_SIZE n := by
  have hC : 1 ≤ prj2.MAX_BUCKET_COUNT_PER_BLOCK BLOCK_SIZE := by
    unfold prj2.MAX_BUCKET_COUNT_PER_BLOCK; omega
  unfold directoryBlockCount
  generalize prj2.MAX_BUCKET_COUNT_PER_BLOCK BLOCK_SIZE = C at hC ⊢
  have e : n + C - 1 = (n - 1) + C := by omega
  rw [e, Nat.add_div_right _ (by omega)]
  have : s / C ≤ (n - 1) / C := Nat.div_le_div_right (by omega)
  omega

/-- The walk over the bucket blocks of a well-formed file, from block `j` on. -/
theorem wellFormed_walk (BLOCK_SIZE : Nat) (f : File) (n : Nat) (hwf : WellFormed BLOCK_SIZE f n)
    (k : Nat) :
    ∀ (j : Nat) (previous : Int), 1 ≤ j → j + k ≤ directoryBlockCount BLOCK_SIZE n →
      (prj2.HT.walkBucketBlocks BLOCK_SIZE f (k + 1) previous (j : Int)).map Prod.fst
        = some ((j + k : Nat) : Int) := by
  induction k with
  | zero =>
    intro j previous hj hjk
    obtain ⟨b, hb, _⟩ := hwf.links j hj hjk
    rw [prj2.HT.walkBucketBlocks, hb]
    rfl
  | succ k ih =>
    intro j previous hj hjk
    obtain ⟨b, hb, hnext⟩ := hwf.links j hj (by omega)
    rw [prj2.HT.walkBucketBlocks, hb]
    dsimp only
    rw [hnext, if_neg (by omega)]
    have := ih (j + 1) (j : Int) (by omega) (by omega)
    rw [show ((j : Int) + 1) = ((j + 1 : Nat) : Int) by push_cast; rfl, this]
    congr 2
    omega

/-- The steps of an insert, a delete or a keyed lookup that lead to the chain of a
bucket, on a well-formed file: the header gives the bucket count, the walk ends
at the bucket block of the bucket, and the slot of the bucket heads a chain that
ends. -/
theorem wellFormed_bucket (BLOCK_SIZE : Nat) (f : File) (n : Nat) (hBS : 8 ≤ BLOCK_SIZE)
    (hwf : WellFormed BLOCK_SIZE f n) (s : Nat) (hs : s < n) :
    ∃ h current bucketBlock l,
      BF_ReadBlock BLOCK_SIZE f prj2.HEADER_BLOCK_INDEX = some h ∧
      toInt32 (readUInt32 h 4 : Nat) = n ∧
      prj2.HT.walkBucketBlocks BLOCK_SIZE f (prj2.HT.bucketBlockNumber BLOCK_SIZE (s : Int)).toNat
          prj2.INVALID_BLOCK_INDEX (readInt32 h 8)
        = some (((1 + s / prj2.MAX_BUCKET_COUNT_PER_BLOCK BLOCK_SIZE : Nat) : Int), current) ∧
      BF_ReadBlock BLOCK_SIZE f ((1 + s / prj2.MAX_BUCKET_COUNT_PER_BLOCK BLOCK_SIZE : Nat) : Int)
        = some bucketBlock ∧
      chainTo BLOCK_SIZE f (f.blockCount + 1)
          (readInt32 bucketBlock (prj2.HT.bucketOffset BLOCK_SIZE (s : Int))) = some l ∧
      chainOf BLOCK_SIZE f s = some l ∧
      ∀ p ∈ l, (directoryBlockCount BLOCK_SIZE n : Int) < p.1 := by
  obtain ⟨h, hh, hn, hnext⟩ := hwf.header
  obtain ⟨l, hl, hD⟩ := hwf.chains s hs
  have hlt := hwf.n_lt
  have hdiv := div_lt_directoryBlockCount BLOCK_SIZE n s hBS hs
  have hwalk := wellFormed_walk BLOCK_SIZE f n hwf (s / prj2.MAX_BUCKET_COUNT_PER_BLOCK BLOCK_SIZE)
    1 prj2.INVALID_BLOCK_INDEX (Nat.le_refl _) (by omega)
  rw [← prj2.HT.bucketBlockNumber_natCast BLOCK_SIZE s hBS (by omega)] at hwalk
  cases hw : prj2.HT.walkBucketBlocks BLOCK_SIZE f
      (prj2.HT.bucketBlockNumber BLOCK_SIZE (s : Int)).toNat prj2.INVALID_BLOCK_INDEX
      ((1 : Nat) : Int) with
  | none => rw [hw] at hwalk; exact absurd hwalk (by simp)
  | some r =>
    rw [hw] at hwalk
    simp only [Option.map_some', Option.some.injEq] at hwalk
    unfold chainOf at hl
    cases hbb : BF_ReadBlock BLOCK_SIZE f
        ((1 + s / prj2.MAX_BUCKET_COUNT_PER_BLOCK BLOCK_SIZE : Nat) : Int) with
    | none => rw [hbb] at hl; exact absurd hl (by simp)
    | some bucketBlock =>
      rw [hbb] at hl
      dsimp only at hl
      refine ⟨h, r.2, bucketBlock, l, hh, ?_, ?_, rfl, ?_, ?_, hD⟩
      · rw [hn]; exact toInt32_of_range _ (by omega) (by omega)
      · rw [hnext]
        have : r = (((1 + s / prj2.MAX_BUCKET_COUNT_PER_BLOCK BLOCK_SIZE : Nat) : Int), r.2) := by
          rw [← hwalk]
        rw [← this]
        exact hw
      · rw [prj2.HT.bucketOffset_natCast BLOCK_SIZE s hBS (by omega)]
        exact hl
      · unfold chainOf
        rw [hbb]
        exact hl

/-! ## Chains that end -/

theorem chainTo_nil (BLOCK_SIZE : Nat) (f : File) (fuel : Nat) :
    chainTo BLOCK_SIZE f (fuel + 1) (-1) = some [] := by
  rw [chainTo, if_pos rfl]

theorem chainTo_cons (BLOCK_SIZE : Nat) (f : File) (fuel : Nat) (start : Int) (b : Block)
    (l : List (Int × Block)) (hs : start ≠ -1) (hb : BF_ReadBlock BLOCK_SIZE f start = some b)
    (hl : chainTo BLOCK_SIZE f fuel (readInt32 b 4) = some l) :
    chainTo BLOCK_SIZE f (fuel + 1) start = some ((start, b) :: l) := by
  rw [chainTo, if_neg hs, hb]
  dsimp only
  rw [hl]

/-- The shapes of a chain that ends: it is empty and starts at `-1`, or its first
block can be read and the rest is the chain from that block's `NextBlockIndex`. -/
theorem chainTo_cases (BLOCK_SIZE : Nat) (f : File) (fuel : Nat) (start : Int)
    (l : List (Int × Block)) (h : chainTo BLOCK_SIZE f fuel start = some l) :
    ∃ fuel', fuel = fuel' + 1 ∧
      ((start = -1 ∧ l = []) ∨
        (start ≠ -1 ∧ ∃ b l', BF_ReadBlock BLOCK_SIZE f start = some b ∧
          chainTo BLOCK_SIZE f fuel' (readInt32 b 4) = some l' ∧ l = (start, b) :: l')) := by
  cases fuel with
  | zero => rw [chainTo] at h; exact absurd h (by simp)
  | succ fuel =>
    refine ⟨fuel, rfl, ?_⟩
    rw [chainTo] at h
    split at h
    · rename_i hs
      exact Or.inl ⟨hs, by cases h; rfl⟩
    · rename_i hs
      split at h
      · exact absurd h (by simp)
      · rename_i b hb
        split at h
        · exact absurd h (by simp)
        · rename_i l' hr
          exact Or.inr ⟨hs, b, l', hb, hr, by cases h; rfl⟩

theorem chainTo_succ (BLOCK_SIZE : Nat) (f : File) (fuel : Nat) :
    ∀ start l, chainTo BLOCK_SIZE f fuel start = some l →
      chainTo BLOCK_SIZE f (fuel + 1) start = some l := by
  induction fuel with
  | zero => intro start l h; rw [chainTo] at h; exact absurd h (by simp)
  | succ fuel ih =>
    intro start l h
    obtain ⟨fuel', hf, hc⟩ := chainTo_cases _ _ _ _ _ h
    cases hf
    rcases hc with ⟨hs, rfl⟩ | ⟨hs, b, l', hb, hr, rfl⟩
    · rw [hs]; exact chainTo_nil _ _ _
    · exact chainTo_cons _ _ _ _ _ _ hs hb (ih _ _ hr)

theorem chainTo_mono (BLOCK_SIZE : Nat) (f : File) (fuel fuel' : Nat) (hle : fuel ≤ fuel')
    (start : Int) (l : List (Int × Block)) (h : chainTo BLOCK_SIZE f fuel start = some l) :
    chainTo BLOCK_SIZE f fuel' start = some l := by
  induction hle with
  | refl => exact h
  | step _ ih => exact chainTo_succ _ _ _ _ _ ih

theorem chainTo_length (BLOCK_SIZE : Nat) (f : File) (fuel : Nat) :
    ∀ start l, chainTo BLOCK_SIZE f fuel start = some l → l.length < fuel := by
  induction fuel with
  | zero => intro start l h; rw [chainTo] at h; exact absurd h (by simp)
  | succ fuel ih =>
    intro start l h
    obtain ⟨fuel', hf, hc⟩ := chainTo_cases _ _ _ _ _ h
    cases hf
    rcases hc with ⟨_, rfl⟩ | ⟨_, b, l', _, hr, rfl⟩
    · exact Nat.succ_pos _
    · have := ih _ _ hr
      simp only [List.length_cons]
      omega

theorem chainTo_mem (BLOCK_SIZE : Nat) (f : File) (fuel : Nat) :
    ∀ start l, chainTo BLOCK_SIZE f fuel start = some l →
      ∀ p ∈ l, BF_ReadBlock BLOCK_SIZE f p.1 = some p.2 := by
  induction fuel with
  | zero => intro start l h; rw [chainTo] at h; exact absurd h (by simp)
  | succ fuel ih =>
    intro start l h p hp
    obtain ⟨fuel', hf, hc⟩ := chainTo_cases _ _ _ _ _ h
    cases hf
    rcases hc with ⟨_, rfl⟩ | ⟨_, b, l', hb, hr, rfl⟩
    · exact absurd hp (List.not_mem_nil _)
    · rcases List.mem_cons.mp hp with rfl | hp'
      · exact hb
      · exact ih _ _ hr p hp'

theorem chainTo_chain (BLOCK_SIZE : Nat) (f : File) (fuel : Nat) :
    ∀ start l, chainTo BLOCK_SIZE f fuel start = some l →
      prj2.HT.chain BLOCK_SIZE f fuel start = l := by
  induction fuel with
  | zero => intro start l h; rw [chainTo] at h; exact absurd h (by simp)
  | succ fuel ih =>
    intro start l h
    obtain ⟨fuel', hf, hc⟩ := chainTo_cases _ _ _ _ _ h
    cases hf
    rw [prj2.HT.chain]
    rcases hc with ⟨hs, rfl⟩ | ⟨hs, b, l', hb, hr, rfl⟩
    · rw [if_pos (show start = prj2.INVALID_BLOCK_INDEX from hs)]
    · rw [if_neg (show ¬ start = prj2.INVALID_BLOCK_INDEX from hs), hb]
      dsimp only
      rw [ih _ _ hr]

/-- A chain that ends is the same in a file where its blocks read the same. -/
theorem chainTo_congr (BLOCK_SIZE : Nat) (f f' : File) (fuel : Nat) :
    ∀ start l, chainTo BLOCK_SIZE f fuel start = some l →
      (∀ p ∈ l, BF_ReadBlock BLOCK_SIZE f' p.1 = some p.2) →
      chainTo BLOCK_SIZE f' fuel start = some l := by
  induction fuel with
  | zero => intro start l h; rw [chainTo] at h; exact absurd h (by simp)
  | succ fuel ih =>
    intro start l h hsame
    obtain ⟨fuel', hf, hc⟩ := chainTo_cases _ _ _ _ _ h
    cases hf
    rcases hc with ⟨hs, rfl⟩ | ⟨hs, b, l', hb, hr, rfl⟩
    · rw [hs]; exact chainTo_nil _ _ _
    · exact chainTo_cons _ _ _ _ _ _ hs (hsame (start, b) (List.mem_cons_self _ _))
        (ih _ _ hr (fun p hp => hsame p (List.mem_cons_of_mem _ hp)))

/-! ## Lists with an element put in -/

theorem Inserted.refl {α : Type} (x : α) (l : List α) : Inserted x l l := by
  induction l with
  | nil => exact Inserted.nil
  | cons a l ih => exact Inserted.keep a ih

theorem Inserted.append {α : Type} {x : α} {a a' b b' : List α} (ha : Inserted x a a')
    (hb : Inserted x b b') : Inserted x (a ++ b) (a' ++ b') := by
  induction ha with
  | nil => exact hb
  | keep c _ ih => exact Inserted.keep c ih
  | add _ ih => exact Inserted.add ih

theorem Inserted.snoc {α : Type} (x : α) (l : List α) : Inserted x l (l ++ [x]) := by
  have := Inserted.append (Inserted.refl x l) (Inserted.add (Inserted.nil : Inserted x [] []))
  rwa [List.append_nil] at this

theorem Inserted.map {α β : Type} {x : α} {a b : List α} (g : α → β) (h : Inserted x a b) :
    Inserted (g x) (a.map g) (b.map g) := by
  induction h with
  | nil => exact Inserted.nil
  | keep c _ ih => exact Inserted.keep (g c) ih
  | add _ ih => exact Inserted.add ih

theorem Inserted.mem_of_mem {α : Type} {x y : α} {a b : List α} (h : Inserted x a b)
    (hy : y ∈ a) : y ∈ b := by
  induction h with
  | nil => exact hy
  | keep c _ ih =>
    rcases List.mem_cons.mp hy with rfl | hy'
    · exact List.mem_cons_self _ _
    · exact List.mem_cons_of_mem _ (ih hy')
  | add _ ih => exact List.mem_cons_of_mem _ (ih hy)

theorem Inserted.mem_or_eq {α : Type} {x y : α} {a b : List α} (h : Inserted x a b)
    (hy : y ∈ b) : y ∈ a ∨ y = x := by
  induction h with
  | nil => exact Or.inl hy
  | keep c _ ih =>
    rcases List.mem_cons.mp hy with rfl | hy'
    · exact Or.inl (List.mem_cons_self _ _)
    · rcases ih hy' with h1 | h1
      · exact Or.inl (List.mem_cons_of_mem _ h1)
      · exact Or.inr h1
  | add _ ih =>
    rcases List.mem_cons.mp hy with rfl | hy'
    · exact Or.inr rfl
    · exact ih hy'

/-- The first element with a property is the same after elements without the
property are put in. -/
theorem Inserted.find?_eq {α : Type} {x : α} {a b : List α} (p : α → Bool)
    (h : Inserted x a b) (hx : p x = false) : b.find? p = a.find? p := by
  induction h with
  | nil => rfl
  | keep c _ ih =>
    rw [List.find?_cons, List.find?_cons, ih]
  | add _ ih =>
    rw [List.find?_cons, hx]
    exact ih

/-- When no element has a property and an element with the property is put in,
the first element with the property is that element. -/
theorem Inserted.find?_new {α : Type} {x : α} {a b : List α} (p : α → Bool)
    (h : Inserted x a b) (hx : p x = true) (ha : a.find? p = none) (hb : x ∈ b) :
    b.find? p = some x := by
  induction h with
  | nil => exact absurd hb (List.not_mem_nil _)
  | keep c _ ih =>
    rw [List.find?_cons] at ha ⊢
    cases hc : p c with
    | true => rw [hc] at ha; exact absurd ha (by simp)
    | false =>
      rw [hc] at ha
      dsimp only at ha ⊢
      rcases List.mem_cons.mp hb with rfl | hb'
      · rw [hc] at hx; exact absurd hx (by simp)
      · exact ih ha hb'
  | add _ _ =>
    rw [List.find?_cons, hx]

/-! ## The loops of an insert on a chain that ends -/

theorem InsertEngine.checkLoop_of_none (BLOCK_SIZE : Nat) (f : File) (find : Block → Option Nat)
    (fuel : Nat) :
    ∀ start l, chainTo BLOCK_SIZE f fuel start = some l → (∀ p ∈ l, find p.2 = none) →
      InsertEngine.checkLoop BLOCK_SIZE f find fuel start = some (.next ()) := by
  induction fuel with
  | zero => intro start l h; rw [chainTo] at h; exact absurd h (by simp)
  | succ fuel ih =>
    intro start l h hnone
    obtain ⟨fuel', hf, hc⟩ := chainTo_cases _ _ _ _ _ h
    cases hf
    rw [InsertEngine.checkLoop]
    rcases hc with ⟨hs, rfl⟩ | ⟨hs, b, l', hb, hr, rfl⟩
    · rw [if_pos (show start = prj2.INVALID_BLOCK_INDEX from hs)]
    · rw [if_neg (show ¬ start = prj2.INVALID_BLOCK_INDEX from hs), hb]
      dsimp only
      rw [hnone (start, b) (List.mem_cons_self _ _)]
      dsimp only
      exact ih _ _ hr (fun p hp => hnone p (List.mem_cons_of_mem _ hp))

theorem InsertEngine.checkLoop_of_some (BLOCK_SIZE : Nat) (f : File) (find : Block → Option Nat)
    (fuel : Nat) :
    ∀ start l, chainTo BLOCK_SIZE f fuel start = some l → (∃ p ∈ l, find p.2 ≠ none) →
      InsertEngine.checkLoop BLOCK_SIZE f find fuel start = some (.ret (-1)) := by
  induction fuel with
  | zero => intro start l h; rw [chainTo] at h; exact absurd h (by simp)
  | succ fuel ih =>
    intro start l h hsome
    obtain ⟨fuel', hf, hc⟩ := chainTo_cases _ _ _ _ _ h
    cases hf
    rw [InsertEngine.checkLoop]
    rcases hc with ⟨hs, rfl⟩ | ⟨hs, b, l', hb, hr, rfl⟩
    · obtain ⟨p, hp, _⟩ := hsome
      exact absurd hp (List.not_mem_nil _)
    · rw [if_neg (show ¬ start = prj2.INVALID_BLOCK_INDEX from hs), hb]
      dsimp only
      cases hfb : find b with
      | some i => rfl
      | none =>
        dsimp only
        apply ih _ _ hr
        obtain ⟨p, hp, hne⟩ := hsome
        rcases List.mem_cons.mp hp with rfl | hp'
        · exact absurd hfb hne
        · exact ⟨p, hp', hne⟩

/-- The second loop of an insert on a chain that ends: the element goes to the
first block with room; when every block is full the loop ends with the index of
the last block of the chain (`previous` for the empty chain). -/
theorem InsertEngine.insertLoop_of_chain (E : InsertEngine) (BLOCK_SIZE : Nat) (f : File)
    (bytes : Nat) (fuel : Nat) :
    ∀ previous start l, chainTo BLOCK_SIZE f fuel start = some l →
      (∃ l1 c b l2, l = l1 ++ (c, b) :: l2 ∧ (∀ p ∈ l1, ¬ readUInt32 p.2 0 < E.capacity) ∧
          readUInt32 b 0 < E.capacity ∧
          E.insertLoop BLOCK_SIZE f bytes fuel previous start
            = some (.ret (E.result c, BF_WriteBlock BLOCK_SIZE f c (E.store b bytes)))) ∨
      ((∀ p ∈ l, ¬ readUInt32 p.2 0 < E.capacity) ∧
        E.insertLoop BLOCK_SIZE f bytes fuel previous start
          = some (.next ((l.getLast?.map Prod.fst).getD previous))) := by
  induction fuel with
  | zero => intro previous start l h; rw [chainTo] at h; exact absurd h (by simp)
  | succ fuel ih =>
    intro previous start l h
    obtain ⟨fuel', hf, hc⟩ := chainTo_cases _ _ _ _ _ h
    cases hf
    rw [InsertEngine.insertLoop]
    rcases hc with ⟨hs, rfl⟩ | ⟨hs, b, l', hb, hr, rfl⟩
    · right
      rw [if_pos (show start = prj2.INVALID_BLOCK_INDEX from hs)]
      exact ⟨fun p hp => absurd hp (List.not_mem_nil _), rfl⟩
    · rw [if_neg (show ¬ start = prj2.INVALID_BLOCK_INDEX from hs), hb]
      dsimp only
      by_cases hroom : readUInt32 b 0 < E.capacity
      · left
        rw [if_pos hroom]
        exact ⟨[], start, b, l', rfl, fun p hp => absurd hp (List.not_mem_nil _), hroom, rfl⟩
      · rw [if_neg hroom]
        rcases ih start _ _ hr with ⟨l1, c, b', l2, hl, hfull, hroom', hres⟩ | ⟨hfull, hres⟩
        · left
          refine ⟨(start, b) :: l1, c, b', l2, by rw [hl]; rfl, ?_, hroom', hres⟩
          intro p hp
          rcases List.mem_cons.mp hp with rfl | hp'
          · exact hroom
          · exact hfull p hp'
        · right
          refine ⟨?_, ?_⟩
          · intro p hp
            rcases List.mem_cons.mp hp with rfl | hp'
            · exact hroom
            · exact hfull p hp'
          · rw [hres]
            cases l' with
            | nil => rfl
            | cons q l'' => rfl

/-! ## Data blocks: the elements after a store -/

theorem writeBytes_lt (b off len v n : Nat) (hb : b < 256 ^ n) (h : off + len ≤ n) :
    writeBytes b off len v < 256 ^ n := by
  rw [writeBytes_eq]
  obtain ⟨d, rfl⟩ := Nat.exists_eq_add_of_le h
  have hP : 0 < 256 ^ (off + len) := Nat.pow_pos (by norm_num)
  have h1 : b % 256 ^ off < 256 ^ off := Nat.mod_lt _ (Nat.pow_pos (by norm_num))
  have h2 : v % 256 ^ len + 1 ≤ 256 ^ len := Nat.mod_lt _ (Nat.pow_pos (by norm_num))
  have h3 : (v % 256 ^ len + 1) * 256 ^ off ≤ 256 ^ len * 256 ^ off := Nat.mul_le_mul_right _ h2
  have h4 : b / 256 ^ (off + len) < 256 ^ d := by
    rw [Nat.div_lt_iff_lt_mul hP, ← pow_add, Nat.add_comm d]
    exact hb
  have h5 : (b / 256 ^ (off + len) + 1) * 256 ^ (off + len) ≤ 256 ^ d * 256 ^ (off + len) :=
    Nat.mul_le_mul_right _ h4
  have e1 : 256 ^ (off + len + d) = 256 ^ d * 256 ^ (off + len) := by rw [pow_add]; ring
  have e2 : 256 ^ (off + len) = 256 ^ len * 256 ^ off := by rw [pow_add]; ring
  rw [e1]
  rw [e2] at h5 ⊢
  nlinarith

theorem writeInt32_lt (b : Block) (off : Nat) (v : Int) (n : Nat) (hb : b < 256 ^ n)
    (h : off + 4 ≤ n) : writeInt32 b off v < 256 ^ n :=
  writeBytes_lt b off 4 _ n hb h

theorem BF_ReadBlock_WriteBlock_of_lt (BLOCK_SIZE : Nat) (f : File) (i : Int) (b : Block)
    (h0 : 0 ≤ i) (h1 : i < f.blockCount) (hb : b < 256 ^ BLOCK_SIZE) :
    BF_ReadBlock BLOCK_SIZE (BF_WriteBlock BLOCK_SIZE f i b) i = some b := by
  rw [BF_ReadBlock_WriteBlock_self BLOCK_SIZE f i b h0 h1, Nat.mod_eq_of_lt hb]

theorem toUInt32_natCast (k : Nat) (h : k < 4294967296) : toUInt32 (k : Int) = k := by
  unfold toUInt32
  rw [Int.emod_eq_of_lt (by omega) (by omega), Int.toNat_ofNat]

theorem blockElements_eq_of (size : Nat) (b b' : Block) (hc : readUInt32 b' 0 = readUInt32 b 0)
    (he : ∀ i, i < readUInt32 b 0 → elementAt size b' i = elementAt size b i) :
    blockElements size b' = blockElements size b := by
  unfold blockElements
  rw [hc]
  apply List.map_congr_left
  intro i hi
  exact he i (List.mem_range.mp hi)

theorem blockElements_eq_append (size : Nat) (b b' : Block) (e : Nat)
    (hc : readUInt32 b' 0 = readUInt32 b 0 + 1)
    (he : ∀ i, i < readUInt32 b 0 → elementAt size b' i = elementAt size b i)
    (hn : elementAt size b' (readUInt32 b 0) = e) :
    blockElements size b' = blockElements size b ++ [e] := by
  unfold blockElements
  rw [hc, List.range_succ, List.map_append, List.map_singleton, hn]
  congr 1
  apply List.map_congr_left
  intro i hi
  exact he i (List.mem_range.mp hi)

theorem InsertEngine.store_lt (E : InsertEngine) (BLOCK_SIZE : Nat) (hE : E.Fits BLOCK_SIZE)
    (b : Block) (bytes : Nat) (hb : b < 256 ^ BLOCK_SIZE) (hroom : readUInt32 b 0 < E.capacity) :
    E.store b bytes < 256 ^ BLOCK_SIZE := by
  have h1 := hE.fits
  have h2 := hE.blockSize_lt
  unfold prj2.sizeofHashDataBlockHeader at h1
  have h3 : (readUInt32 b 0 + 1) * E.elementSize ≤ E.capacity * E.elementSize :=
    Nat.mul_le_mul_right _ hroom
  have h4 : readUInt32 b 0 * E.elementSize % 2 ^ 64 = readUInt32 b 0 * E.elementSize :=
    Nat.mod_eq_of_lt (by nlinarith)
  unfold InsertEngine.store
  apply writeInt32_lt _ _ _ _ _ (by omega)
  apply writeBytes_lt _ _ _ _ _ hb
  rw [h4]
  unfold prj2.sizeofHashDataBlockHeader
  nlinarith

/-- The data block after a store: the link is as before and the element is behind
the elements that were there. -/
theorem InsertEngine.store_spec (E : InsertEngine) (BLOCK_SIZE : Nat) (hE : E.Fits BLOCK_SIZE)
    (b : Block) (bytes : Nat) (hroom : readUInt32 b 0 < E.capacity) :
    readInt32 (E.store b bytes) 4 = readInt32 b 4 ∧
    blockElements E.elementSize (E.store b bytes)
      = blockElements E.elementSize b ++ [bytes % 256 ^ E.elementSize] := by
  have h1 := hE.fits
  have h2 := hE.blockSize_lt
  have h5 := hE.capacity_lt
  unfold prj2.sizeofHashDataBlockHeader at h1
  have h3 : (readUInt32 b 0 + 1) * E.elementSize ≤ E.capacity * E.elementSize :=
    Nat.mul_le_mul_right _ hroom
  have h4 : readUInt32 b 0 * E.elementSize % 2 ^ 64 = readUInt32 b 0 * E.elementSize :=
    Nat.mod_eq_of_lt (by nlinarith)
  unfold InsertEngine.store
  rw [h4]
  unfold prj2.sizeofHashDataBlockHeader
  constructor
  · rw [readInt32_writeInt32_ne _ _ _ _ (Or.inr (by omega))]
    unfold readInt32
    rw [readBytes_writeBytes_below _ _ _ _ _ _ (by omega)]
  · apply blockElements_eq_append
    · rw [readUInt32_writeInt32_same]
      exact toUInt32_natCast _ (by omega)
    · intro i hi
      unfold elementAt writeInt32 prj2.sizeofHashDataBlockHeader
      rw [readBytes_writeBytes_above _ _ _ _ _ _ (by omega),
        readBytes_writeBytes_below _ _ _ _ _ _ (by nlinarith)]
    · unfold elementAt writeInt32 prj2.sizeofHashDataBlockHeader
      rw [readBytes_writeBytes_above _ _ _ _ _ _ (by omega), Nat.mul_comm E.elementSize,
        readBytes_writeBytes_same]

theorem InsertEngine.freshBlock_lt (E : InsertEngine) (BLOCK_SIZE : Nat) (hE : E.Fits BLOCK_SIZE)
    (bytes : Nat) : E.freshBlock bytes < 256 ^ BLOCK_SIZE := by
  have h1 := hE.fits
  have h2 := hE.capacity_pos
  unfold prj2.sizeofHashDataBlockHeader at h1
  have h3 : 1 * E.elementSize ≤ E.capacity * E.elementSize := Nat.mul_le_mul_right _ h2
  unfold InsertEngine.freshBlock prj2.sizeofHashDataBlockHeader
  apply writeBytes_lt _ _ _ _ _ _ (by omega)
  apply writeInt32_lt _ _ _ _ _ (by omega)
  apply writeInt32_lt _ _ _ _ _ (by omega)
  exact Nat.pow_pos (by norm_num)

/-- The new data block of an insert: no next block, one element. -/
theorem InsertEngine.freshBlock_spec (E : InsertEngine) (bytes : Nat) :
    readInt32 (E.freshBlock bytes) 4 = -1 ∧
    blockElements E.elementSize (E.freshBlock bytes) = [bytes % 256 ^ E.elementSize] := by
  unfold InsertEngine.freshBlock prj2.sizeofHashDataBlockHeader prj2.INVALID_BLOCK_INDEX
  constructor
  · unfold readInt32
    rw [readBytes_writeBytes_below _ _ _ _ _ _ (by omega)]
    exact readInt32_writeInt32_same _ _ _
  · have hc : readUInt32 (writeBytes (writeInt32 (writeInt32 0 0 1) 4 (-1)) 8 E.elementSize bytes) 0
        = 1 := by
      unfold readUInt32
      rw [readBytes_writeBytes_below _ _ _ _ _ _ (by omega)]
      have := readUInt32_writeInt32_ne (writeInt32 0 0 1) 4 0 (-1) (Or.inl (by omega))
      unfold readUInt32 at this
      rw [this]
      exact readUInt32_writeInt32_same _ _ _
    unfold blockElements
    rw [hc]
    show [elementAt E.elementSize _ 0] = _
    unfold elementAt prj2.sizeofHashDataBlockHeader
    rw [Nat.mul_zero, Nat.add_zero, readBytes_writeBytes_same]

/-- A data block after its link is set: the elements are as before. -/
theorem blockElements_writeInt32_link (size : Nat) (b : Block) (v : Int) :
    blockElements size (writeInt32 b 4 v) = blockElements size b := by
  apply blockElements_eq_of
  · exact readUInt32_writeInt32_ne _ _ _ _ (Or.inl (by omega))
  · intro i _
    unfold elementAt writeInt32 prj2.sizeofHashDataBlockHeader
    rw [readBytes_writeBytes_above _ _ _ _ _ _ (by omega)]

theorem elementsOf_cons (size : Nat) (p : Int × Block) (l : List (Int × Block)) :
    elementsOf size (p :: l)
      = (blockElements size p.2).map (fun e => (p.1, e)) ++ elementsOf size l := by
  unfold elementsOf
  rw [List.flatMap_cons]

theorem elementsOf_nil (size : Nat) : elementsOf size [] = [] := rfl

theorem elementsOf_append (size : Nat) (l l' : List (Int × Block)) :
    elementsOf size (l ++ l') = elementsOf size l ++ elementsOf size l' := by
  unfold elementsOf
  rw [List.flatMap_append]

/-! ## Chains after the writes of an insert -/

/-- The chains of a file after one data block is rewritten with the same link. -/
theorem chainTo_store (BLOCK_SIZE : Nat) (f : File) (c : Int) (b bA : Block)
    (hrd : BF_ReadBlock BLOCK_SIZE f c = some b) (hlt : bA < 256 ^ BLOCK_SIZE)
    (hnext : readInt32 bA 4 = readInt32 b 4) (fuel : Nat) :
    ∀ start l, chainTo BLOCK_SIZE f fuel start = some l →
      chainTo BLOCK_SIZE (BF_WriteBlock BLOCK_SIZE f c bA) fuel start
        = some (l.map fun p => if p.1 = c then (c, bA) else p) := by
  obtain ⟨h0, h1, _⟩ := BF_ReadBlock_some BLOCK_SIZE f c b hrd
  induction fuel with
  | zero => intro start l h; rw [chainTo] at h; exact absurd h (by simp)
  | succ fuel ih =>
    intro start l h
    obtain ⟨fuel', hf, hc⟩ := chainTo_cases _ _ _ _ _ h
    cases hf
    rcases hc with ⟨hs, rfl⟩ | ⟨hs, b0, l', hb, hr, rfl⟩
    · rw [hs]; exact chainTo_nil _ _ _
    · by_cases hsc : start = c
      · subst hsc
        rw [hrd] at hb
        cases hb
        rw [List.map_cons]
        dsimp only
        rw [if_pos rfl]
        exact chainTo_cons _ _ _ _ _ _ hs
          (BF_ReadBlock_WriteBlock_of_lt BLOCK_SIZE f start bA h0 h1 hlt)
          (by rw [hnext]; exact ih _ _ hr)
      · rw [List.map_cons]
        dsimp only
        rw [if_neg hsc]
        exact chainTo_cons _ _ _ _ _ _ hs
          (by rw [BF_ReadBlock_WriteBlock_other _ _ _ _ _ (Ne.symm hsc)]; exact hb) (ih _ _ hr)

/-- The elements of a chain after a data block of the chain has taken one more
element. -/
theorem elementsOf_store (size : Nat) (c : Int) (b bA : Block) (e : Nat)
    (he : blockElements size bA = blockElements size b ++ [e]) :
    ∀ l : List (Int × Block), (∀ p ∈ l, p.1 = c → p.2 = b) →
      Inserted (c, e) (elementsOf size l)
          (elementsOf size (l.map fun p => if p.1 = c then (c, bA) else p)) ∧
        ((∃ p ∈ l, p.1 = c) →
          (c, e) ∈ elementsOf size (l.map fun p => if p.1 = c then (c, bA) else p)) := by
  intro l
  induction l with
  | nil =>
    intro _
    exact ⟨Inserted.nil, fun ⟨p, hp, _⟩ => absurd hp (List.not_mem_nil _)⟩
  | cons p l ih =>
    intro hmem
    obtain ⟨ih1, ih2⟩ := ih (fun q hq => hmem q (List.mem_cons_of_mem _ hq))
    rw [List.map_cons, elementsOf_cons, elementsOf_cons]
    by_cases hp : p.1 = c
    · rw [if_pos hp]
      dsimp only
      have hb : p.2 = b := hmem p (List.mem_cons_self _ _) hp
      rw [he, List.map_append, List.map_singleton, hb, hp]
      refine ⟨Inserted.append (Inserted.snoc _ _) ih1, fun _ => ?_⟩
      exact List.mem_append_left _ (List.mem_append_right _ (List.mem_singleton_self _))
    · rw [if_neg hp]
      refine ⟨Inserted.append (Inserted.refl _ _) ih1, fun ⟨q, hq, hqc⟩ => ?_⟩
      rcases List.mem_cons.mp hq with rfl | hq'
      · exact absurd hqc hp
      · exact List.mem_append_right _ (ih2 ⟨q, hq', hqc⟩)

/-- The last block of a chain that ends has no next block. -/
theorem chainTo_getLast (BLOCK_SIZE : Nat) (f : File) (fuel : Nat) :
    ∀ start l, chainTo BLOCK_SIZE f fuel start = some l →
      ∀ q, l.getLast? = some q → readInt32 q.2 4 = -1 := by
  induction fuel with
  | zero => intro start l h; rw [chainTo] at h; exact absurd h (by simp)
  | succ fuel ih =>
    intro start l h q hq
    obtain ⟨fuel', hf, hc⟩ := chainTo_cases _ _ _ _ _ h
    cases hf
    rcases hc with ⟨_, rfl⟩ | ⟨_, b, l', _, hr, rfl⟩
    · exact absurd hq (by simp)
    · cases l' with
      | nil =>
        obtain ⟨_, _, hc'⟩ := chainTo_cases _ _ _ _ _ hr
        rcases hc' with ⟨hn, _⟩ | ⟨_, _, _, _, _, hl⟩
        · simp only [List.getLast?_singleton, Option.some.injEq] at hq
          rw [← hq]
          exact hn
        · exact absurd hl (by simp)
      | cons q' l'' =>
        rw [List.getLast?_cons_cons] at hq
        exact ih _ _ hr q hq

/-- The chains of a file after a new data block is linked behind the data block
`p`, which had no next block. -/
theorem chainTo_link (BLOCK_SIZE size : Nat) (f f' : File) (p m : Int) (pb pb' nb : Block)
    (e : Nat) (hp : BF_ReadBlock BLOCK_SIZE f p = some pb) (hpnext : readInt32 pb 4 = -1)
    (hsame : ∀ j b, j ≠ p → BF_ReadBlock BLOCK_SIZE f j = some b →
      BF_ReadBlock BLOCK_SIZE f' j = some b)
    (hp' : BF_ReadBlock BLOCK_SIZE f' p = some pb') (hpnext' : readInt32 pb' 4 = m)
    (hm : m ≠ -1) (hnb : BF_ReadBlock BLOCK_SIZE f' m = some nb) (hnbnext : readInt32 nb 4 = -1)
    (hpe : blockElements size pb' = blockElements size pb) (hnbe : blockElements size nb = [e])
    (fuel : Nat) :
    ∀ start l, chainTo BLOCK_SIZE f fuel start = some l →
      ∃ l', chainTo BLOCK_SIZE f' (fuel + 1) start = some l' ∧
        (∀ q ∈ l', q.1 = m ∨ ∃ q0 ∈ l, q0.1 = q.1) ∧
        Inserted (m, e) (elementsOf size l) (elementsOf size l') ∧
        ((∃ q ∈ l, q.1 = p) → (m, e) ∈ elementsOf size l') := by
  induction fuel with
  | zero => intro start l h; rw [chainTo] at h; exact absurd h (by simp)
  | succ fuel ih =>
    intro start l h
    obtain ⟨fuel', hf, hc⟩ := chainTo_cases _ _ _ _ _ h
    cases hf
    rcases hc with ⟨hs, rfl⟩ | ⟨hs, b0, l1, hb, hr, rfl⟩
    · refine ⟨[], ?_, ?_, Inserted.nil, ?_⟩
      · rw [hs]; exact chainTo_nil _ _ _
      · intro q hq; exact absurd hq (List.not_mem_nil _)
      · intro ⟨q, hq, _⟩; exact absurd hq (List.not_mem_nil _)
    · by_cases hsp : start = p
      · subst hsp
        rw [hp] at hb
        cases hb
        rw [hpnext] at hr
        obtain ⟨fuel'', hf', hc'⟩ := chainTo_cases _ _ _ _ _ hr
        cases hf'
        have hl1 : l1 = [] := by
          rcases hc' with ⟨_, hl⟩ | ⟨hne, _⟩
          · exact hl
          · exact absurd rfl hne
        subst hl1
        refine ⟨[(start, pb'), (m, nb)], ?_, ?_, ?_, ?_⟩
        · apply chainTo_cons _ _ _ _ _ _ hs hp'
          rw [hpnext']
          apply chainTo_cons _ _ _ _ _ _ hm hnb
          rw [hnbnext]
          exact chainTo_nil _ _ _
        · intro q hq
          rcases List.mem_cons.mp hq with rfl | hq'
          · exact Or.inr ⟨_, List.mem_cons_self _ _, rfl⟩
          · rcases List.mem_cons.mp hq' with rfl | hq''
            · exact Or.inl rfl
            · exact absurd hq'' (List.not_mem_nil _)
        · rw [elementsOf_cons, elementsOf_cons, elementsOf_cons, elementsOf_nil]
          dsimp only
          rw [hpe, hnbe, List.map_singleton, List.append_nil, List.append_nil]
          exact Inserted.snoc _ _
        · intro _
          rw [elementsOf_cons, elementsOf_cons, elementsOf_nil]
          dsimp only
          rw [hnbe, List.map_singleton]
          exact List.mem_append_right _ (List.mem_append_left _ (List.mem_singleton_self _))
      · obtain ⟨l1', h1, h2, h3, h4⟩ := ih _ _ hr
        refine ⟨(start, b0) :: l1', ?_, ?_, ?_, ?_⟩
        · exact chainTo_cons _ _ _ _ _ _ hs (hsame _ _ hsp hb) h1
        · intro q hq
          rcases List.mem_cons.mp hq with rfl | hq'
          · exact Or.inr ⟨_, List.mem_cons_self _ _, rfl⟩
          · rcases h2 q hq' with hqm | ⟨q0, hq0, hq0q⟩
            · exact Or.inl hqm
            · exact Or.inr ⟨q0, List.mem_cons_of_mem _ hq0, hq0q⟩
        · rw [elementsOf_cons, elementsOf_cons]
          exact Inserted.append (Inserted.refl _ _) h3
        · intro ⟨q, hq, hqp⟩
          rw [elementsOf_cons]
          rcases List.mem_cons.mp hq with rfl | hq'
          · exact absurd hqp hsp
          · exact List.mem_append_right _ (h4 ⟨q, hq', hqp⟩)

/-! ## What an insert makes of a well-formed file -/

theorem chainOf_cases (BLOCK_SIZE : Nat) (f : File) (s : Nat) (l : List (Int × Block))
    (h : chainOf BLOCK_SIZE f s = some l) :
    ∃ bucketBlock,
      BF_ReadBlock BLOCK_SIZE f ((1 + s / prj2.MAX_BUCKET_COUNT_PER_BLOCK BLOCK_SIZE : Nat) : Int)
        = some bucketBlock ∧
      chainTo BLOCK_SIZE f (f.blockCount + 1)
        (readInt32 bucketBlock (prj2.sizeofHashBucketBlockHeader
          + 4 * (s % prj2.MAX_BUCKET_COUNT_PER_BLOCK BLOCK_SIZE))) = some l := by
  unfold chainOf at h
  split at h
  · exact absurd h (by simp)
  · rename_i b hb
    exact ⟨b, hb, h⟩

theorem chainOf_of (BLOCK_SIZE : Nat) (f : File) (s : Nat) (l : List (Int × Block))
    (bucketBlock : Block)
    (hb : BF_ReadBlock BLOCK_SIZE f
      ((1 + s / prj2.MAX_BUCKET_COUNT_PER_BLOCK BLOCK_SIZE : Nat) : Int) = some bucketBlock)
    (hl : chainTo BLOCK_SIZE f (f.blockCount + 1)
      (readInt32 bucketBlock (prj2.sizeofHashBucketBlockHeader
        + 4 * (s % prj2.MAX_BUCKET_COUNT_PER_BLOCK BLOCK_SIZE))) = some l) :
    chainOf BLOCK_SIZE f s = some l := by
  unfold chainOf
  rw [hb]
  exact hl

theorem InsertEngine.Stored.of_writes (BLOCK_SIZE size n : Nat) (f f' : File) (s0 : Nat)
    (x : Int × Nat) (hwf : WellFormed BLOCK_SIZE f n) (hge : f.blockCount ≤ f'.blockCount)
    (hle : f'.blockCount ≤ f.blockCount + 1) (hlt : f'.blockCount < 2147483648)
    (hheader : ∀ h, BF_ReadBlock BLOCK_SIZE f 0 = some h → BF_ReadBlock BLOCK_SIZE f' 0 = some h)
    (hlinks : ∀ i : Nat, 1 ≤ i → i ≤ directoryBlockCount BLOCK_SIZE n →
      ∀ b, BF_ReadBlock BLOCK_SIZE f (i : Int) = some b →
        ∃ b', BF_ReadBlock BLOCK_SIZE f' (i : Int) = some b' ∧ readInt32 b' 0 = readInt32 b 0)
    (hchains : ∀ s, s < n → ∀ l, chainOf BLOCK_SIZE f s = some l →
      (∀ p ∈ l, (directoryBlockCount BLOCK_SIZE n : Int) < p.1) →
      ∃ l', chainOf BLOCK_SIZE f' s = some l' ∧
        (∀ p ∈ l', (directoryBlockCount BLOCK_SIZE n : Int) < p.1) ∧
        Inserted x (elementsOf size l) (elementsOf size l'))
    (hstored : ∃ l', chainOf BLOCK_SIZE f' s0 = some l' ∧ x ∈ elementsOf size l') :
    InsertEngine.Stored BLOCK_SIZE size n f f' s0 x where
  wellFormed :=
    { n_pos := hwf.n_pos
      n_lt := hwf.n_lt
      blockCount_lt := hlt
      directory_le := Nat.le_trans hwf.directory_le hge
      header := by
        obtain ⟨h, hh, h1, h2⟩ := hwf.header
        exact ⟨h, hheader h hh, h1, h2⟩
      links := by
        intro i hi1 hi2
        obtain ⟨b, hb, hnext⟩ := hwf.links i hi1 hi2
        obtain ⟨b', hb', hnext'⟩ := hlinks i hi1 hi2 b hb
        exact ⟨b', hb', by rw [hnext', hnext]⟩
      chains := by
        intro s hs
        obtain ⟨l, hl, hD⟩ := hwf.chains s hs
        obtain ⟨l', hl', hD', _⟩ := hchains s hs l hl hD
        exact ⟨l', hl', hD'⟩ }
  blockCount_ge := hge
  blockCount_le := hle
  chains := by
    intro s hs l hl
    obtain ⟨l0, hl0, hD⟩ := hwf.chains s hs
    rw [hl] at hl0
    cases hl0
    obtain ⟨l', hl', _, hins⟩ := hchains s hs l hl hD
    exact ⟨l', hl', hins⟩
  stored := hstored

/-- The insert functions from the point where the bucket block is read. -/
theorem InsertEngine.insert_eq (E : InsertEngine) (BLOCK_SIZE : Nat) (f : File)
    (bucketIndex : Int → Int) (find : Block → Option Nat) (bytes : Nat) (h : Block) (s : Int)
    (q current : Int) (bucketBlock : Block)
    (hh : BF_ReadBlock BLOCK_SIZE f prj2.HEADER_BLOCK_INDEX = some h)
    (hs : bucketIndex (toInt32 (readUInt32 h 4 : Nat)) = s)
    (hwalk : prj2.HT.walkBucketBlocks BLOCK_SIZE f (prj2.HT.bucketBlockNumber BLOCK_SIZE s).toNat
      prj2.INVALID_BLOCK_INDEX (readInt32 h 8) = some (q, current))
    (hbb : BF_ReadBlock BLOCK_SIZE f q = some bucketBlock) :
    E.insert BLOCK_SIZE f bucketIndex find bytes
      = match InsertEngine.checkLoop BLOCK_SIZE f find (f.blockCount + 1)
          (readInt32 bucketBlock (prj2.HT.bucketOffset BLOCK_SIZE s)) with
        | none => none
        | some (.ret r) => some (r, f)
        | some (.next _) =>
          match E.insertLoop BLOCK_SIZE f bytes (f.blockCount + 1) prj2.INVALID_BLOCK_INDEX
              (readInt32 bucketBlock (prj2.HT.bucketOffset BLOCK_SIZE s)) with
          | none => none
          | some (.ret r) => some r
          | some (.next previous) =>
            some (E.newBlock BLOCK_SIZE f bytes previous q (prj2.HT.bucketOffset BLOCK_SIZE s)) := by
  rw [InsertEngine.insert, hh]
  dsimp only
  rw [hs, hwalk]
  dsimp only
  rw [hbb]

/-- The file after the two writes of the end of an insert: the new block `m` and
one block `j0` of before. -/
theorem reads_after_newBlock (BLOCK_SIZE : Nat) (f : File) (j0 : Int) (nb b0 : Block)
    (hj0 : 0 ≤ j0) (hj1 : j0 < f.blockCount) (hnb : nb < 256 ^ BLOCK_SIZE)
    (hb0 : b0 < 256 ^ BLOCK_SIZE) :
    (BF_WriteBlock BLOCK_SIZE
        (BF_WriteBlock BLOCK_SIZE (BF_AllocateBlock BLOCK_SIZE f) (f.blockCount : Int) nb) j0 b0).blockCount
      = f.blockCount + 1 ∧
    BF_ReadBlock BLOCK_SIZE
        (BF_WriteBlock BLOCK_SIZE
          (BF_WriteBlock BLOCK_SIZE (BF_AllocateBlock BLOCK_SIZE f) (f.blockCount : Int) nb) j0 b0) j0
      = some b0 ∧
    BF_ReadBlock BLOCK_SIZE
        (BF_WriteBlock BLOCK_SIZE
          (BF_WriteBlock BLOCK_SIZE (BF_AllocateBlock BLOCK_SIZE f) (f.blockCount : Int) nb) j0 b0)
        (f.blockCount : Int)
      = some nb ∧
    ∀ j b, j ≠ j0 → BF_ReadBlock BLOCK_SIZE f j = some b →
      BF_ReadBlock BLOCK_SIZE
          (BF_WriteBlock BLOCK_SIZE
            (BF_WriteBlock BLOCK_SIZE (BF_AllocateBlock BLOCK_SIZE f) (f.blockCount : Int) nb) j0 b0) j
        = some b := by
  have hc1 : (BF_WriteBlock BLOCK_SIZE (BF_AllocateBlock BLOCK_SIZE f) (f.blockCount : Int)
      nb).blockCount = f.blockCount + 1 := by
    rw [BF_WriteBlock_blockCount, BF_AllocateBlock_blockCount]
  refine ⟨by rw [BF_WriteBlock_blockCount, hc1], ?_, ?_, ?_⟩
  · exact BF_ReadBlock_WriteBlock_of_lt _ _ _ _ hj0 (by rw [hc1]; push_cast; omega) hb0
  · rw [BF_ReadBlock_WriteBlock_other _ _ _ _ _ (by omega)]
    exact BF_ReadBlock_WriteBlock_of_lt _ _ _ _ (by omega)
      (by rw [BF_AllocateBlock_blockCount]; push_cast; omega) hnb
  · intro j b hj hb
    obtain ⟨_, hjlt, _⟩ := BF_ReadBlock_some _ _ _ _ hb
    rw [BF_ReadBlock_WriteBlock_other _ _ _ _ _ (Ne.symm hj),
      BF_ReadBlock_WriteBlock_other _ _ _ _ _ (by omega),
      BF_ReadBlock_AllocateBlock_of_lt _ _ _ hjlt]
    exact hb

theorem InsertEngine.newBlock_link (E : InsertEngine) (BLOCK_SIZE : Nat) (f : File) (bytes : Nat)
    (p q : Int) (off : Nat) (pb : Block) (hp : BF_ReadBlock BLOCK_SIZE f p = some pb) :
    E.newBlock BLOCK_SIZE f bytes p q off
      = (E.result (f.blockCount : Int),
          BF_WriteBlock BLOCK_SIZE
            (BF_WriteBlock BLOCK_SIZE (BF_AllocateBlock BLOCK_SIZE f) (f.blockCount : Int)
              (E.freshBlock bytes))
            p (writeInt32 pb 4 (f.blockCount : Int))) := by
  obtain ⟨hp0, hp1, _⟩ := BF_ReadBlock_some _ _ _ _ hp
  have e : BF_GetBlockCounter (BF_AllocateBlock BLOCK_SIZE f) - 1 = (f.blockCount : Int) := by
    unfold BF_GetBlockCounter
    rw [BF_AllocateBlock_blockCount]
    push_cast
    ring
  have hne : p ≠ prj2.INVALID_BLOCK_INDEX := by
    unfold prj2.INVALID_BLOCK_INDEX; omega
  have hrd : BF_ReadBlock BLOCK_SIZE
      (BF_WriteBlock BLOCK_SIZE (BF_AllocateBlock BLOCK_SIZE f) (f.blockCount : Int)
        (E.freshBlock bytes)) p = some pb := by
    rw [BF_ReadBlock_WriteBlock_other _ _ _ _ _ (by omega),
      BF_ReadBlock_AllocateBlock_of_lt _ _ _ hp1]
    exact hp
  unfold InsertEngine.newBlock
  dsimp only
  rw [e, BF_ReadBlock_AllocateBlock_new]
  dsimp only
  rw [if_pos hne]
  change (match BF_ReadBlock BLOCK_SIZE
      (BF_WriteBlock BLOCK_SIZE (BF_AllocateBlock BLOCK_SIZE f) (f.blockCount : Int)
        (E.freshBlock bytes)) p with
    | none => _
    | some previousDataBlock => _) = _
  rw [hrd]
  rfl

theorem InsertEngine.newBlock_slot (E : InsertEngine) (BLOCK_SIZE : Nat) (f : File) (bytes : Nat)
    (q : Int) (off : Nat) (bb : Block) (hq : BF_ReadBlock BLOCK_SIZE f q = some bb) :
    E.newBlock BLOCK_SIZE f bytes prj2.INVALID_BLOCK_INDEX q off
      = (E.result (f.blockCount : Int),
          BF_WriteBlock BLOCK_SIZE
            (BF_WriteBlock BLOCK_SIZE (BF_AllocateBlock BLOCK_SIZE f) (f.blockCount : Int)
              (E.freshBlock bytes))
            q (writeInt32 bb off (f.blockCount : Int))) := by
  obtain ⟨hq0, hq1, _⟩ := BF_ReadBlock_some _ _ _ _ hq
  have e : BF_GetBlockCounter (BF_AllocateBlock BLOCK_SIZE f) - 1 = (f.blockCount : Int) := by
    unfold BF_GetBlockCounter
    rw [BF_AllocateBlock_blockCount]
    push_cast
    ring
  have hrd : BF_ReadBlock BLOCK_SIZE
      (BF_WriteBlock BLOCK_SIZE (BF_AllocateBlock BLOCK_SIZE f) (f.blockCount : Int)
        (E.freshBlock bytes)) q = some bb := by
    rw [BF_ReadBlock_WriteBlock_other _ _ _ _ _ (by omega),
      BF_ReadBlock_AllocateBlock_of_lt _ _ _ hq1]
    exact hq
  unfold InsertEngine.newBlock
  dsimp only
  rw [e, BF_ReadBlock_AllocateBlock_new]
  dsimp only
  rw [if_neg (fun h => h rfl)]
  change (match BF_ReadBlock BLOCK_SIZE
      (BF_WriteBlock BLOCK_SIZE (BF_AllocateBlock BLOCK_SIZE f) (f.blockCount : Int)
        (E.freshBlock bytes)) q with
    | none => _
    | some bucketBlock => _) = _
  rw [hrd]
  rfl

theorem bucketBlock_le_directory (BLOCK_SIZE n s : Nat) (hBS : 8 ≤ BLOCK_SIZE) (hs : s < n) :
    ((1 + s / prj2.MAX_BUCKET_COUNT_PER_BLOCK BLOCK_SIZE : Nat) : Int)
      ≤ (directoryBlockCount BLOCK_SIZE n : Int) := by
  have := div_lt_directoryBlockCount BLOCK_SIZE n s hBS hs
  omega

/-- An insert that stores the element in a data block with room: what it makes of
a well-formed file. -/
theorem InsertEngine.stored_of_room (E : InsertEngine) (BLOCK_SIZE : Nat) (hE : E.Fits BLOCK_SIZE)
    (f : File) (n : Nat) (hwf : WellFormed BLOCK_SIZE f n) (bytes : Nat) (s0 : Nat) (hs0 : s0 < n)
    (l : List (Int × Block)) (hl : chainOf BLOCK_SIZE f s0 = some l) (c : Int) (b : Block)
    (hcb : (c, b) ∈ l) (hroom : readUInt32 b 0 < E.capacity) :
    InsertEngine.Stored BLOCK_SIZE E.elementSize n f
      (BF_WriteBlock BLOCK_SIZE f c (E.store b bytes)) s0 (c, bytes % 256 ^ E.elementSize) := by
  have hBS : 8 ≤ BLOCK_SIZE := by
    have := hE.fits; unfold prj2.sizeofHashDataBlockHeader at this; omega
  obtain ⟨l0, hl0, hD⟩ := hwf.chains s0 hs0
  rw [hl] at hl0
  cases hl0
  obtain ⟨bb0, _, hchain0⟩ := chainOf_cases _ _ _ _ hl
  have hrd : BF_ReadBlock BLOCK_SIZE f c = some b := chainTo_mem _ _ _ _ _ hchain0 (c, b) hcb
  obtain ⟨hc0, hc1, hblt⟩ := BF_ReadBlock_some _ _ _ _ hrd
  have hDc : (directoryBlockCount BLOCK_SIZE n : Int) < c := hD (c, b) hcb
  have hAlt := E.store_lt BLOCK_SIZE hE b bytes hblt hroom
  obtain ⟨hAnext, hAel⟩ := E.store_spec BLOCK_SIZE hE b bytes hroom
  have hch : ∀ s, s < n → ∀ ls, chainOf BLOCK_SIZE f s = some ls →
      chainOf BLOCK_SIZE (BF_WriteBlock BLOCK_SIZE f c (E.store b bytes)) s
          = some (ls.map fun p => if p.1 = c then (c, E.store b bytes) else p) ∧
        (∀ p ∈ ls, p.1 = c → p.2 = b) := by
    intro s hs ls hls
    obtain ⟨bbs, hbbs, hchain⟩ := chainOf_cases _ _ _ _ hls
    have hle := bucketBlock_le_directory BLOCK_SIZE n s hBS hs
    refine ⟨chainOf_of _ _ _ _ bbs ?_ ?_, ?_⟩
    · rw [BF_ReadBlock_WriteBlock_other _ _ _ _ _ (by omega)]
      exact hbbs
    · rw [BF_WriteBlock_blockCount]
      exact chainTo_store _ _ _ _ _ hrd hAlt hAnext _ _ _ hchain
    · intro p hp hpc
      have := chainTo_mem _ _ _ _ _ hchain p hp
      rw [hpc, hrd] at this
      exact (Option.some.inj this).symm
  apply InsertEngine.Stored.of_writes _ _ _ _ _ _ _ hwf
  · rw [BF_WriteBlock_blockCount]
  · rw [BF_WriteBlock_blockCount]; omega
  · rw [BF_WriteBlock_blockCount]; exact hwf.blockCount_lt
  · intro h hh
    rw [BF_ReadBlock_WriteBlock_other _ _ _ _ _ (by omega)]
    exact hh
  · intro i _ hi2 b' hb'
    exact ⟨b', by rw [BF_ReadBlock_WriteBlock_other _ _ _ _ _ (by omega)]; exact hb', rfl⟩
  · intro s hs ls hls hDls
    obtain ⟨h1, h2⟩ := hch s hs ls hls
    refine ⟨_, h1, ?_, (elementsOf_store _ c b _ _ hAel ls h2).1⟩
    intro p hp
    obtain ⟨q, hq, hqp⟩ := List.mem_map.mp hp
    by_cases hqc : q.1 = c
    · rw [if_pos hqc] at hqp
      rw [← hqp]
      exact hDc
    · rw [if_neg hqc] at hqp
      rw [← hqp]
      exact hDls q hq
  · obtain ⟨h1, h2⟩ := hch s0 hs0 l hl
    exact ⟨_, h1, (elementsOf_store _ c b _ _ hAel l h2).2 ⟨(c, b), hcb, rfl⟩⟩

/-- An insert that links a new data block behind the last block of the chain:
what it makes of a well-formed file. -/
theorem InsertEngine.stored_of_link (E : InsertEngine) (BLOCK_SIZE : Nat) (hE : E.Fits BLOCK_SIZE)
    (f : File) (n : Nat) (hwf : WellFormed BLOCK_SIZE f n) (hbc : f.blockCount + 1 < 2147483648)
    (bytes : Nat) (s0 : Nat) (hs0 : s0 < n) (l : List (Int × Block))
    (hl : chainOf BLOCK_SIZE f s0 = some l) (p : Int) (pb : Block)
    (hlast : l.getLast? = some (p, pb)) :
    InsertEngine.Stored BLOCK_SIZE E.elementSize n f
      (BF_WriteBlock BLOCK_SIZE
        (BF_WriteBlock BLOCK_SIZE (BF_AllocateBlock BLOCK_SIZE f) (f.blockCount : Int)
          (E.freshBlock bytes))
        p (writeInt32 pb 4 (f.blockCount : Int)))
      s0 ((f.blockCount : Int), bytes % 256 ^ E.elementSize) := by
  have hBS : 8 ≤ BLOCK_SIZE := by
    have := hE.fits; unfold prj2.sizeofHashDataBlockHeader at this; omega
  obtain ⟨l0, hl0, hD⟩ := hwf.chains s0 hs0
  rw [hl] at hl0
  cases hl0
  obtain ⟨bb0, _, hchain0⟩ := chainOf_cases _ _ _ _ hl
  have hpl : (p, pb) ∈ l := List.mem_of_mem_getLast? hlast
  have hrd : BF_ReadBlock BLOCK_SIZE f p = some pb := chainTo_mem _ _ _ _ _ hchain0 (p, pb) hpl
  obtain ⟨hp0, hp1, hpblt⟩ := BF_ReadBlock_some _ _ _ _ hrd
  have hDp : (directoryBlockCount BLOCK_SIZE n : Int) < p := hD (p, pb) hpl
  have hpnext : readInt32 pb 4 = -1 := chainTo_getLast _ _ _ _ _ hchain0 (p, pb) hlast
  have hdir := hwf.directory_le
  obtain ⟨hcount, hrp, hrm, hsame⟩ := reads_after_newBlock BLOCK_SIZE f p (E.freshBlock bytes)
    (writeInt32 pb 4 (f.blockCount : Int)) hp0 hp1 (E.freshBlock_lt BLOCK_SIZE hE bytes)
    (writeInt32_lt _ _ _ _ hpblt (by omega))
  obtain ⟨hfnext, hfel⟩ := E.freshBlock_spec bytes
  have hpnext' : readInt32 (writeInt32 pb 4 (f.blockCount : Int)) 4 = (f.blockCount : Int) := by
    rw [readInt32_writeInt32_same]
    exact toInt32_of_range _ (by omega) (by omega)
  have hch := chainTo_link BLOCK_SIZE E.elementSize f _ p (f.blockCount : Int) pb _ _
    (bytes % 256 ^ E.elementSize) hrd hpnext hsame hrp hpnext' (by omega) hrm hfnext
    (blockElements_writeInt32_link _ _ _) hfel
  have hchains : ∀ s, s < n → ∀ ls, chainOf BLOCK_SIZE f s = some ls →
      (∀ q ∈ ls, (directoryBlockCount BLOCK_SIZE n : Int) < q.1) →
      ∃ l', chainOf BLOCK_SIZE
            (BF_WriteBlock BLOCK_SIZE
              (BF_WriteBlock BLOCK_SIZE (BF_AllocateBlock BLOCK_SIZE f) (f.blockCount : Int)
                (E.freshBlock bytes))
              p (writeInt32 pb 4 (f.blockCount : Int))) s = some l' ∧
        (∀ q ∈ l', (directoryBlockCount BLOCK_SIZE n : Int) < q.1) ∧
        Inserted ((f.blockCount : Int), bytes % 256 ^ E.elementSize)
          (elementsOf E.elementSize ls) (elementsOf E.elementSize l') ∧
        ((∃ q ∈ ls, q.1 = p) →
          ((f.blockCount : Int), bytes % 256 ^ E.elementSize) ∈ elementsOf E.elementSize l') := by
    intro s hs ls hls hDls
    obtain ⟨bbs, hbbs, hchain⟩ := chainOf_cases _ _ _ _ hls
    have hle := bucketBlock_le_directory BLOCK_SIZE n s hBS hs
    obtain ⟨l', h1, h2, h3, h4⟩ := hch _ _ _ hchain
    refine ⟨l', chainOf_of _ _ _ _ bbs (hsame _ _ (by omega) hbbs) (by rw [hcount]; exact h1),
      ?_, h3, h4⟩
    intro q hq
    rcases h2 q hq with hqm | ⟨q0, hq0, hq0q⟩
    · rw [hqm]; omega
    · rw [← hq0q]; exact hDls q0 hq0
  apply InsertEngine.Stored.of_writes _ _ _ _ _ _ _ hwf
  · rw [hcount]; omega
  · rw [hcount]
  · rw [hcount]; exact hbc
  · intro h hh
    exact hsame _ _ (by omega) hh
  · intro i _ hi2 b' hb'
    exact ⟨b', hsame _ _ (by omega) hb', rfl⟩
  · intro s hs ls hls hDls
    obtain ⟨l', h1, h2, h3, _⟩ := hchains s hs ls hls hDls
    exact ⟨l', h1, h2, h3⟩
  · obtain ⟨l', h1, _, _, h4⟩ := hchains s0 hs0 l hl hD
    exact ⟨l', h1, h4 ⟨(p, pb), hpl, rfl⟩⟩

/-- An insert that enters a new data block in the slot of an empty bucket: what
it makes of a well-formed file. -/
theorem InsertEngine.stored_of_slot (E : InsertEngine) (BLOCK_SIZE : Nat) (hE : E.Fits BLOCK_SIZE)
    (f : File) (n : Nat) (hwf : WellFormed BLOCK_SIZE f n) (hbc : f.blockCount + 1 < 2147483648)
    (bytes : Nat) (s0 : Nat) (hs0 : s0 < n) (hl : chainOf BLOCK_SIZE f s0 = some [])
    (bb : Block)
    (hbb : BF_ReadBlock BLOCK_SIZE f
      ((1 + s0 / prj2.MAX_BUCKET_COUNT_PER_BLOCK BLOCK_SIZE : Nat) : Int) = some bb) :
    InsertEngine.Stored BLOCK_SIZE E.elementSize n f
      (BF_WriteBlock BLOCK_SIZE
        (BF_WriteBlock BLOCK_SIZE (BF_AllocateBlock BLOCK_SIZE f) (f.blockCount : Int)
          (E.freshBlock bytes))
        ((1 + s0 / prj2.MAX_BUCKET_COUNT_PER_BLOCK BLOCK_SIZE : Nat) : Int)
        (writeInt32 bb (prj2.sizeofHashBucketBlockHeader
          + 4 * (s0 % prj2.MAX_BUCKET_COUNT_PER_BLOCK BLOCK_SIZE)) (f.blockCount : Int)))
      s0 ((f.blockCount : Int), bytes % 256 ^ E.elementSize) := by
  have hBS : 8 ≤ BLOCK_SIZE := by
    have := hE.fits; unfold prj2.sizeofHashDataBlockHeader at this; omega
  have hC : 1 ≤ prj2.MAX_BUCKET_COUNT_PER_BLOCK BLOCK_SIZE := by
    unfold prj2.MAX_BUCKET_COUNT_PER_BLOCK; omega
  have hC4 : 4 * prj2.MAX_BUCKET_COUNT_PER_BLOCK BLOCK_SIZE + 4 ≤ BLOCK_SIZE := by
    unfold prj2.MAX_BUCKET_COUNT_PER_BLOCK; omega
  have hdir := hwf.directory_le
  have hle0 := bucketBlock_le_directory BLOCK_SIZE n s0 hBS hs0
  obtain ⟨hq0, hq1, hbblt⟩ := BF_ReadBlock_some _ _ _ _ hbb
  have hmod0 : s0 % prj2.MAX_BUCKET_COUNT_PER_BLOCK BLOCK_SIZE
      < prj2.MAX_BUCKET_COUNT_PER_BLOCK BLOCK_SIZE := Nat.mod_lt _ hC
  have hqpos : ((1 : Nat) : Int)
      ≤ ((1 + s0 / prj2.MAX_BUCKET_COUNT_PER_BLOCK BLOCK_SIZE : Nat) : Int) :=
    Int.ofNat_le.mpr (Nat.le_add_right 1 _)
  obtain ⟨hcount, hrq, hrm, hsame⟩ := reads_after_newBlock BLOCK_SIZE f
    ((1 + s0 / prj2.MAX_BUCKET_COUNT_PER_BLOCK BLOCK_SIZE : Nat) : Int) (E.freshBlock bytes)
    (writeInt32 bb (prj2.sizeofHashBucketBlockHeader
      + 4 * (s0 % prj2.MAX_BUCKET_COUNT_PER_BLOCK BLOCK_SIZE)) (f.blockCount : Int)) hq0 hq1
    (E.freshBlock_lt BLOCK_SIZE hE bytes)
    (writeInt32_lt _ _ _ _ hbblt (by unfold prj2.sizeofHashBucketBlockHeader; omega))
  obtain ⟨hfnext, hfel⟩ := E.freshBlock_spec bytes
  generalize hf' : BF_WriteBlock BLOCK_SIZE
        (BF_WriteBlock BLOCK_SIZE (BF_AllocateBlock BLOCK_SIZE f) (f.blockCount : Int)
          (E.freshBlock bytes))
        ((1 + s0 / prj2.MAX_BUCKET_COUNT_PER_BLOCK BLOCK_SIZE : Nat) : Int)
        (writeInt32 bb (prj2.sizeofHashBucketBlockHeader
          + 4 * (s0 % prj2.MAX_BUCKET_COUNT_PER_BLOCK BLOCK_SIZE)) (f.blockCount : Int)) = f'
    at hcount hrq hrm hsame ⊢
  -- the chain of the bucket in the new file
  have hnew : chainOf BLOCK_SIZE f' s0 = some [((f.blockCount : Int), E.freshBlock bytes)] := by
    apply chainOf_of _ _ _ _ _ hrq
    rw [readInt32_writeInt32_same, toInt32_of_range _ (by omega) (by omega), hcount]
    apply chainTo_cons _ _ _ _ _ _ (by omega) hrm
    rw [hfnext]
    exact chainTo_nil _ _ _
  -- the chains of before are chains of the new file
  have hold : ∀ start ls, chainTo BLOCK_SIZE f (f.blockCount + 1) start = some ls →
      (∀ q ∈ ls, (directoryBlockCount BLOCK_SIZE n : Int) < q.1) →
      chainTo BLOCK_SIZE f' (f'.blockCount + 1) start = some ls := by
    intro start ls hls hDls
    rw [hcount]
    apply chainTo_succ
    apply chainTo_congr _ _ _ _ _ _ hls
    intro q hq
    have := hDls q hq
    exact hsame _ _ (by omega) (chainTo_mem _ _ _ _ _ hls q hq)
  apply InsertEngine.Stored.of_writes _ _ _ _ _ _ _ hwf
  · rw [hcount]; omega
  · rw [hcount]
  · rw [hcount]; exact hbc
  · intro h hh
    exact hsame _ _ (by omega) hh
  · intro i hi1 hi2 b' hb'
    by_cases hiq : (i : Int) = ((1 + s0 / prj2.MAX_BUCKET_COUNT_PER_BLOCK BLOCK_SIZE : Nat) : Int)
    · rw [hiq] at hb' ⊢
      rw [hbb] at hb'
      cases hb'
      exact ⟨_, hrq, readInt32_writeInt32_ne _ _ _ _
        (Or.inl (by unfold prj2.sizeofHashBucketBlockHeader; omega))⟩
    · exact ⟨b', hsame _ _ hiq hb', rfl⟩
  · intro s hs ls hls hDls
    by_cases hss : s = s0
    · subst hss
      rw [hl] at hls
      cases hls
      refine ⟨_, hnew, ?_, ?_⟩
      · intro q hq
        rw [List.mem_singleton.mp hq]
        show (directoryBlockCount BLOCK_SIZE n : Int) < (f.blockCount : Int)
        omega
      · rw [elementsOf_cons, elementsOf_nil]
        dsimp only
        rw [hfel]
        exact Inserted.add Inserted.nil
    · obtain ⟨bbs, hbbs, hchain⟩ := chainOf_cases _ _ _ _ hls
      refine ⟨ls, ?_, hDls, Inserted.refl _ _⟩
      by_cases hq : s / prj2.MAX_BUCKET_COUNT_PER_BLOCK BLOCK_SIZE
          = s0 / prj2.MAX_BUCKET_COUNT_PER_BLOCK BLOCK_SIZE
      · have hmod : s % prj2.MAX_BUCKET_COUNT_PER_BLOCK BLOCK_SIZE
            ≠ s0 % prj2.MAX_BUCKET_COUNT_PER_BLOCK BLOCK_SIZE := by
          intro hm
          apply hss
          rw [← Nat.div_add_mod s (prj2.MAX_BUCKET_COUNT_PER_BLOCK BLOCK_SIZE),
            ← Nat.div_add_mod s0 (prj2.MAX_BUCKET_COUNT_PER_BLOCK BLOCK_SIZE), hq, hm]
        rw [hq, hbb] at hbbs
        cases hbbs
        apply chainOf_of _ _ _ _ _ (by rw [hq]; exact hrq)
        rw [readInt32_writeInt32_ne _ _ _ _ (by unfold prj2.sizeofHashBucketBlockHeader; omega)]
        exact hold _ _ hchain hDls
      · apply chainOf_of _ _ _ _ bbs (hsame _ _ (by omega) hbbs)
        exact hold _ _ hchain hDls
  · refine ⟨_, hnew, ?_⟩
    rw [elementsOf_cons, elementsOf_nil]
    dsimp only
    rw [hfel]
    exact List.mem_append_left _ (List.mem_singleton_self _)

/-- The insert functions on a well-formed file of `n` buckets with room for one
more block; `s0` is the bucket of the element and `l` the chain of that bucket.
When the search finds a duplicate in a block of the chain, the function returns
`-1` and the file is as before; otherwise it returns `E.result idx` for a data
block `idx`, and what it makes of the file is described by `Stored`. -/
theorem InsertEngine.insert_cases (E : InsertEngine) (BLOCK_SIZE : Nat)
    (hE : E.Fits BLOCK_SIZE) (f : File) (n : Nat) (hwf : WellFormed BLOCK_SIZE f n)
    (hbc : f.blockCount + 1 < 2147483648) (bucketIndex : Int → Int) (find : Block → Option Nat)
    (bytes : Nat) (s0 : Nat) (hs0 : bucketIndex (n : Int) = (s0 : Int)) (hlt : s0 < n)
    (l : List (Int × Block)) (hl : chainOf BLOCK_SIZE f s0 = some l) :
    ((∃ p ∈ l, find p.2 ≠ none) → E.insert BLOCK_SIZE f bucketIndex find bytes = some (-1, f)) ∧
    ((∀ p ∈ l, find p.2 = none) →
      ∃ f' idx, E.insert BLOCK_SIZE f bucketIndex find bytes = some (E.result idx, f') ∧
        InsertEngine.Stored BLOCK_SIZE E.elementSize n f f' s0
          (idx, bytes % 256 ^ E.elementSize)) := by
  have hBS : 8 ≤ BLOCK_SIZE := by
    have := hE.fits; unfold prj2.sizeofHashDataBlockHeader at this; omega
  obtain ⟨h, current, bb, l0, hh, hn, hwalk, hbb, hchain, hchainOf, hD⟩ :=
    wellFormed_bucket BLOCK_SIZE f n hBS hwf s0 hlt
  rw [hl] at hchainOf
  cases hchainOf
  have heq := E.insert_eq BLOCK_SIZE f bucketIndex find bytes h (s0 : Int) _ current bb hh
    (by rw [hn]; exact hs0) hwalk hbb
  constructor
  · intro hdup
    rw [heq, InsertEngine.checkLoop_of_some _ _ _ _ _ _ hchain hdup]
  · intro hnone
    rw [heq, InsertEngine.checkLoop_of_none _ _ _ _ _ _ hchain hnone]
    dsimp only
    rcases E.insertLoop_of_chain BLOCK_SIZE f bytes _ prj2.INVALID_BLOCK_INDEX _ _ hchain with
      ⟨l1, c, b, l2, hl12, _, hroom, hres⟩ | ⟨_, hres⟩
    · rw [hres]
      refine ⟨_, c, rfl, ?_⟩
      exact E.stored_of_room BLOCK_SIZE hE f n hwf bytes s0 hlt l hl c b
        (by rw [hl12]; exact List.mem_append_right _ (List.mem_cons_self _ _)) hroom
    · rw [hres]
      dsimp only
      cases hlast : l.getLast? with
      | none =>
        have hnil : l = [] := List.getLast?_eq_none_iff.mp hlast
        subst hnil
        rw [Option.map_none', Option.getD_none, E.newBlock_slot BLOCK_SIZE f bytes _ _ bb hbb,
          prj2.HT.bucketOffset_natCast BLOCK_SIZE s0 hBS (by have := hwf.n_lt; omega)]
        exact ⟨_, _, rfl, E.stored_of_slot BLOCK_SIZE hE f n hwf hbc bytes s0 hlt hl bb hbb⟩
      | some q =>
        obtain ⟨p, pb⟩ := q
        have hpl : (p, pb) ∈ l := List.mem_of_mem_getLast? hlast
        have hrd : BF_ReadBlock BLOCK_SIZE f p = some pb :=
          chainTo_mem _ _ _ _ _ hchain (p, pb) hpl
        rw [Option.map_some', Option.getD_some, E.newBlock_link BLOCK_SIZE f bytes p _ _ pb hrd]
        exact ⟨_, _, rfl, E.stored_of_link BLOCK_SIZE hE f n hwf hbc bytes s0 hlt l hl p pb hlast⟩

/-! ## The secondary insert on a well-formed file -/

theorem prj2.SHT.SHT_insertEngine_fits (BLOCK_SIZE : Nat) (h1 : 40 ≤ BLOCK_SIZE)
    (h2 : BLOCK_SIZE < 4294967296) : (prj2.SHT.insertEngine BLOCK_SIZE).Fits BLOCK_SIZE where
  fits := by
    unfold prj2.SHT.insertEngine prj2.SHT.MAX_DATA_SEGMENT_COUNT_PER_BLOCK
      prj2.SHT.sizeofDataSegment prj2.sizeofHashDataBlockHeader
    dsimp only
    omega
  capacity_pos := by
    unfold prj2.SHT.insertEngine prj2.SHT.MAX_DATA_SEGMENT_COUNT_PER_BLOCK
      prj2.SHT.sizeofDataSegment prj2.sizeofHashDataBlockHeader
    dsimp only
    omega
  capacity_lt := by
    unfold prj2.SHT.insertEngine prj2.SHT.MAX_DATA_SEGMENT_COUNT_PER_BLOCK
      prj2.SHT.sizeofDataSegment prj2.sizeofHashDataBlockHeader
    dsimp only
    omega
  blockSize_lt := by omega

theorem prj2.SHT.stringHash_loop_cString (s : List Nat) :
    ∀ h, prj2.SHT.HashFunction.loop (prj2.cString s) h = prj2.SHT.HashFunction.loop s h := by
  induction s with
  | nil => intro h; rfl
  | cons c s ih =>
    intro h
    unfold prj2.cString at ih ⊢
    rw [List.takeWhile_cons]
    by_cases hc : c % 256 = 0
    · have h0 : toInt8 c = 0 := (toInt8_eq_zero_iff c).mpr hc
      simp only [hc, ne_eq, not_true_eq_false, decide_False, Bool.false_eq_true, ↓reduceIte]
      rw [prj2.SHT.HashFunction.loop, prj2.SHT.HashFunction.loop, if_pos h0]
    · have h0 : ¬ toInt8 c = 0 := fun h0 => hc ((toInt8_eq_zero_iff c).mp h0)
      simp only [hc, ne_eq, not_false_eq_true, decide_True, ↓reduceIte]
      rw [prj2.SHT.HashFunction.loop, prj2.SHT.HashFunction.loop, if_neg h0, if_neg h0, ih]

theorem prj2.SHT.stringHash_cString (s : List Nat) (n : Int) :
    prj2.SHT.HashFunction (prj2.cString s) n = prj2.SHT.HashFunction s n := by
  unfold prj2.SHT.HashFunction
  rw [prj2.SHT.stringHash_loop_cString]

/-- The bucket of a string in a table of `n` buckets, as the insert and the
lookup compute it. -/
theorem prj2.SHT.stringHash_bucket (s : List Nat) (n : Nat) (h1 : 1 ≤ n) (h2 : n < 2147483648) :
    prj2.SHT.HashFunction s (n : Int) < n ∧
    toInt32 ((prj2.SHT.HashFunction s (n : Int) : Nat) : Int)
      = ((prj2.SHT.HashFunction s (n : Int) : Nat) : Int) := by
  have e := prj2.SHT.stringHash_eq_loop_mod s (n : Int) (by omega) (by omega)
  rw [Int.toNat_ofNat] at e
  have hlt : prj2.SHT.HashFunction.loop s 5381 % n < n := Nat.mod_lt _ (by omega)
  rw [e]
  exact ⟨hlt, toInt32_of_range _ (by omega) (by omega)⟩

theorem prj2.SHT.keyChain_cString (BLOCK_SIZE : Nat) (f : File) (key : List Nat) :
    prj2.SHT.keyChain BLOCK_SIZE f (prj2.cString key) = prj2.SHT.keyChain BLOCK_SIZE f key := by
  unfold prj2.SHT.keyChain prj2.SHT.bucketHead
  simp only [prj2.SHT.stringHash_cString]

theorem prj2.cString_cons_pos (a : Nat) (s : List Nat) (h : a % 256 ≠ 0) :
    prj2.cString (a :: s) = a :: prj2.cString s := by
  unfold prj2.cString
  rw [List.takeWhile_cons_of_pos (by simpa using h)]

theorem prj2.cString_cons_neg (a : Nat) (s : List Nat) (h : a % 256 = 0) :
    prj2.cString (a :: s) = [] := by
  unfold prj2.cString
  rw [List.takeWhile_cons_of_neg (by simpa using h)]

theorem prj2.charArray_length (len : Nat) : ∀ v, (prj2.charArray v len).length = len := by
  induction len with
  | zero => intro v; rfl
  | succ len ih => intro v; rw [prj2.charArray, List.length_cons, ih]

/-- A string that ends inside an array is not changed by the bytes that follow
the array. -/
theorem prj2.cString_append_of_short (s t : List Nat)
    (h : (prj2.cString s).length < s.length) :
    prj2.cString (s ++ t) = prj2.cString s ∧
      (s ++ t).all (fun c => decide (c % 256 ≠ 0)) = false := by
  induction s with
  | nil => exact absurd h (Nat.lt_irrefl _)
  | cons a s ih =>
    by_cases ha : a % 256 ≠ 0
    · rw [prj2.cString_cons_pos a s ha, List.length_cons, List.length_cons] at h
      obtain ⟨h1, h2⟩ := ih (by omega)
      rw [List.cons_append, prj2.cString_cons_pos a _ ha, prj2.cString_cons_pos a s ha, h1,
        List.all_cons, h2, Bool.and_false]
      exact ⟨rfl, rfl⟩
    · have ha' : a % 256 = 0 := by omega
      rw [List.cons_append, prj2.cString_cons_neg a _ ha', prj2.cString_cons_neg a s ha',
        List.all_cons]
      refine ⟨rfl, ?_⟩
      rw [show decide (a % 256 ≠ 0) = false from decide_eq_false ha, Bool.false_and]

/-- The string at `Surname` of a record whose array `Surname` holds a zero byte
ends inside the array. -/
theorem prj2.Record.surnameString_of_short (r : prj2.Record)
    (h : (prj2.cString (prj2.charArray r.Surname 25)).length < 25) :
    r.surnameString = some (prj2.cString (prj2.charArray r.Surname 25)) := by
  obtain ⟨h1, h2⟩ := prj2.cString_append_of_short (prj2.charArray r.Surname 25)
    (prj2.charArray r.Address 50) (by rw [prj2.charArray_length]; exact h)
  unfold prj2.Record.surnameString
  rw [h2, h1, if_neg Bool.false_ne_true]

/-- The first loop of `SHT_SecondaryInsertEntry` on a chain whose blocks have
element counts within the capacity, for a surname of at most 24 characters: no
comparison reads behind a block, and the loop is that of the insert engine with
the search for a segment with the surname. -/
theorem prj2.SHT.SHT_checkLoop_eq (BLOCK_SIZE : Nat) (hBS : 8 ≤ BLOCK_SIZE) (f : File)
    (surname : List Nat) (hchars : ∀ c ∈ surname, c % 256 ≠ 0) (hlen : surname.length < 25)
    (fuel : Nat) :
    ∀ start,
      (∀ p ∈ prj2.HT.chain BLOCK_SIZE f fuel start,
        readUInt32 p.2 0 ≤ prj2.SHT.MAX_DATA_SEGMENT_COUNT_PER_BLOCK BLOCK_SIZE) →
      prj2.SHT.SHT_SecondaryInsertEntry.checkLoop BLOCK_SIZE f surname fuel start
        = InsertEngine.checkLoop BLOCK_SIZE f
            (fun b => prj2.SHT.findNamedSegment b surname (readUInt32 b 0) 0) fuel start := by
  induction fuel with
  | zero => intro start _; rfl
  | succ fuel ih =>
    intro start hcap
    rw [prj2.HT.chain] at hcap
    rw [prj2.SHT.SHT_SecondaryInsertEntry.checkLoop, InsertEngine.checkLoop]
    by_cases hs : start = prj2.INVALID_BLOCK_INDEX
    · rw [if_pos hs, if_pos hs]
    · rw [if_neg hs] at hcap
      rw [if_neg hs, if_neg hs]
      cases hrd : BF_ReadBlock BLOCK_SIZE f start with
      | none => rfl
      | some b =>
        rw [hrd] at hcap
        simp only [List.mem_cons] at hcap
        dsimp only
        rw [prj2.SHT.findDataSegment_eq BLOCK_SIZE b surname hchars hlen _ 0
          (prj2.SHT.segment_slots_fit BLOCK_SIZE hBS _ (hcap (start, b) (Or.inl rfl)))]
        cases prj2.SHT.findNamedSegment b surname (readUInt32 b 0) 0 with
        | none =>
          simp only [SlotScan.ofOption]
          exact ih _ (fun p hp => hcap p (Or.inr hp))
        | some i => rfl

/-- The first loop of `SHT_SecondaryInsertEntry`, when it gives a result, is the
loop of the insert engine with the search that `findDataSegment` makes. -/
theorem prj2.SHT.SHT_checkLoop_some (BLOCK_SIZE : Nat) (f : File) (surname : List Nat)
    (fuel : Nat) :
    ∀ start x, prj2.SHT.SHT_SecondaryInsertEntry.checkLoop BLOCK_SIZE f surname fuel start = some x →
      InsertEngine.checkLoop BLOCK_SIZE f
          (fun b => (prj2.SHT.findDataSegment BLOCK_SIZE b surname (readUInt32 b 0) 0).toOption)
          fuel start = some x := by
  induction fuel with
  | zero =>
    intro start x h
    rw [prj2.SHT.SHT_SecondaryInsertEntry.checkLoop] at h
    exact absurd h (by simp)
  | succ fuel ih =>
    intro start x h
    rw [prj2.SHT.SHT_SecondaryInsertEntry.checkLoop] at h
    rw [InsertEngine.checkLoop]
    by_cases hs : start = prj2.INVALID_BLOCK_INDEX
    · rw [if_pos hs] at h ⊢
      exact h
    · rw [if_neg hs] at h ⊢
      cases hrd : BF_ReadBlock BLOCK_SIZE f start with
      | none =>
        rw [hrd] at h
        exact h
      | some b =>
        rw [hrd] at h
        dsimp only at h ⊢
        cases hf : prj2.SHT.findDataSegment BLOCK_SIZE b surname (readUInt32 b 0) 0 with
        | outside =>
          rw [hf] at h
          exact absurd h (by simp)
        | found i =>
          rw [hf] at h
          exact h
        | absent =>
          rw [hf] at h
          exact ih _ _ h

/-- The function `SHT_SecondaryInsertEntry` for a record whose surname has at most
24 characters, on a file in which the blocks of the chain of the surname's
bucket have element counts within the capacity: the insert engine with the hash
of the surname and the search for a segment with the surname. -/
theorem prj2.SHT.SHT_SecondaryInsertEntry_eq (BLOCK_SIZE : Nat) (hBS : 8 ≤ BLOCK_SIZE) (f : File)
    (record : prj2.SecondaryRecord)
    (hshort : (prj2.cString (prj2.charArray record.Record.Surname 25)).length < 25)
    (hcap : ∀ p ∈ prj2.SHT.keyChain BLOCK_SIZE f (prj2.charArray record.Record.Surname 25),
      readUInt32 p.2 0 ≤ prj2.SHT.MAX_DATA_SEGMENT_COUNT_PER_BLOCK BLOCK_SIZE) :
    prj2.SHT.SHT_SecondaryInsertEntry BLOCK_SIZE f record
      = (prj2.SHT.insertEngine BLOCK_SIZE).insert BLOCK_SIZE f
          (fun hashTableSize =>
            toInt32 (prj2.SHT.HashFunction (prj2.charArray record.Record.Surname 25) hashTableSize
              : Nat))
          (fun b =>
            prj2.SHT.findNamedSegment b (prj2.charArray record.Record.Surname 25) (readUInt32 b 0) 0)
          (prj2.SHT.DataSegment.toBytes
            { Surname := record.Record.Surname % 256 ^ 25, BlockID := record.BlockID }) := by
  rw [prj2.SHT.SHT_SecondaryInsertEntry, InsertEngine.insert,
    prj2.Record.surnameString_of_short _ hshort]
  cases hh : BF_ReadBlock BLOCK_SIZE f prj2.HEADER_BLOCK_INDEX with
  | none => rfl
  | some headerBlock =>
    dsimp only
    rw [prj2.SHT.stringHash_cString]
    cases hw : prj2.HT.walkBucketBlocks BLOCK_SIZE f
        (prj2.HT.bucketBlockNumber BLOCK_SIZE
          (toInt32 (prj2.SHT.HashFunction (prj2.charArray record.Record.Surname 25)
            (toInt32 (readUInt32 headerBlock 4 : Nat)) : Nat))).toNat
        prj2.INVALID_BLOCK_INDEX (readInt32 headerBlock 8) with
    | none => rfl
    | some w =>
      obtain ⟨bucketBlockIndex, current⟩ := w
      dsimp only
      cases hbb : BF_ReadBlock BLOCK_SIZE f bucketBlockIndex with
      | none => rfl
      | some bucketBlock =>
        dsimp only
        have hk : prj2.SHT.keyChain BLOCK_SIZE f (prj2.charArray record.Record.Surname 25)
            = prj2.HT.chain BLOCK_SIZE f (f.blockCount + 1)
                (readInt32 bucketBlock (prj2.HT.bucketOffset BLOCK_SIZE
                  (toInt32 (prj2.SHT.HashFunction (prj2.charArray record.Record.Surname 25)
                    (toInt32 (readUInt32 headerBlock 4 : Nat)) : Nat)))) := by
          unfold prj2.SHT.keyChain prj2.SHT.bucketHead
          rw [hh]
          dsimp only
          rw [hw]
          dsimp only
          rw [hbb]
        rw [hk] at hcap
        rw [prj2.SHT.SHT_checkLoop_eq BLOCK_SIZE hBS f _ (prj2.cString_char _) hshort _ _ hcap]
        simp only [prj2.SHT.findNamedSegment_cString, prj2.SHT.SHT_insertLoop_eq]
        rfl

/-- The function `SHT_SecondaryInsertEntry`, when it gives a result, is an insert
of the insert engine. -/
theorem prj2.SHT.SHT_SecondaryInsertEntry_engine (BLOCK_SIZE : Nat) (f : File)
    (record : prj2.SecondaryRecord) (r : Int × File)
    (h : prj2.SHT.SHT_SecondaryInsertEntry BLOCK_SIZE f record = some r) :
    ∃ (bucketIndex : Int → Int) (find : Block → Option Nat),
      (prj2.SHT.insertEngine BLOCK_SIZE).insert BLOCK_SIZE f bucketIndex find
          (prj2.SHT.DataSegment.toBytes
            { Surname := record.Record.Surname % 256 ^ 25, BlockID := record.BlockID })
        = some r := by
  rw [prj2.SHT.SHT_SecondaryInsertEntry] at h
  cases hh : BF_ReadBlock BLOCK_SIZE f prj2.HEADER_BLOCK_INDEX with
  | none =>
    rw [hh] at h
    refine ⟨fun _ => 0, fun _ => none, ?_⟩
    rw [InsertEngine.insert, hh]
    exact h
  | some headerBlock =>
    rw [hh] at h
    dsimp only at h
    cases hsn : record.Record.surnameString with
    | none =>
      rw [hsn] at h
      exact absurd h (by simp)
    | some surname =>
      rw [hsn] at h
      dsimp only at h
      refine ⟨fun hashTableSize => toInt32 (prj2.SHT.HashFunction surname hashTableSize : Nat),
        fun b => (prj2.SHT.findDataSegment BLOCK_SIZE b surname (readUInt32 b 0) 0).toOption, ?_⟩
      rw [InsertEngine.insert, hh]
      dsimp only
      split at h
      · exact h
      · split at h
        · exact h
        · split at h
          · exact absurd h (by simp)
          · rename_i x hcheck
            rw [prj2.SHT.SHT_checkLoop_some BLOCK_SIZE f surname _ _ _ hcheck]
            exact h
          · rename_i x hcheck
            rw [prj2.SHT.SHT_checkLoop_some BLOCK_SIZE f surname _ _ _ hcheck]
            simp only [prj2.SHT.SHT_insertLoop_eq] at h
            exact h

theorem prj2.charArray_mod (len : Nat) :
    ∀ v, prj2.charArray (v % 256 ^ len) len = prj2.charArray v len := by
  induction len with
  | zero => intro v; rfl
  | succ len ih =>
    intro v
    rw [prj2.charArray, prj2.charArray]
    have e1 : v % 256 ^ (len + 1) % 256 = v % 256 := by
      rw [pow_succ]
      exact Nat.mod_mul_left_mod _ _ _
    have e2 : v % 256 ^ (len + 1) / 256 = v / 256 % 256 ^ len := by
      rw [pow_succ, Nat.mul_comm, Nat.mod_mul_right_div_self]
    rw [e1, e2, ih]

theorem prj2.SHT.segmentAt_eq (b : Block) (i : Nat) :
    prj2.SHT.segmentAt b i
      = prj2.SHT.readDataSegment (elementAt prj2.SHT.sizeofDataSegment b i) 0 := by
  unfold prj2.SHT.segmentAt prj2.SHT.readDataSegment elementAt readInt32
    prj2.SHT.sizeofDataSegment
  rw [readBytes_readBytes _ _ _ _ _ (by omega), readBytes_readBytes _ _ _ _ _ (by omega)]
  rfl

/-- The segment that is read back from the bytes of a segment. -/
theorem prj2.SHT.readDataSegment_toBytes (d : prj2.SHT.DataSegment) :
    prj2.SHT.readDataSegment (d.toBytes % 256 ^ prj2.SHT.sizeofDataSegment) 0
      = { Surname := d.Surname % 256 ^ 25, BlockID := toInt32 d.BlockID } := by
  have hU := toUInt32_lt d.BlockID
  have hS : d.Surname % 256 ^ 25 < 256 ^ 25 := Nat.mod_lt _ (Nat.pow_pos (by norm_num))
  unfold prj2.SHT.readDataSegment prj2.SHT.DataSegment.toBytes prj2.SHT.sizeofDataSegment readInt32
  rw [readBytes_mod _ _ _ _ (by omega), readBytes_mod _ _ _ _ (by omega), readBytes_eq,
    readBytes_eq]
  generalize d.Surname % 256 ^ 25 = S at hS
  generalize hUe : toUInt32 d.BlockID = U at hU
  congr 1
  · rw [pow_zero, Nat.div_one,
      show S + U * 256 ^ 28 = S + 256 ^ 25 * (U * 256 ^ 3) by ring,
      Nat.add_mul_mod_self_left, Nat.mod_eq_of_lt hS]
  · rw [Nat.zero_add, Nat.add_mul_div_right _ _ (Nat.pow_pos (by norm_num)),
      Nat.div_eq_of_lt (lt_of_lt_of_le hS (Nat.pow_le_pow_right (by norm_num) (by norm_num))),
      Nat.zero_add, Nat.mod_eq_of_lt hU, ← hUe]
    exact toInt32_toUInt32 _


theorem prj2.SHT.findNamedSegment_eq_find (b : Block) (key : List Nat) (idx : Int) (k : Nat) :
    ∀ j, (prj2.SHT.findNamedSegment b key k j).map (prj2.SHT.segmentAt b)
      = (((List.range' j k).map fun i => (idx, elementAt prj2.SHT.sizeofDataSegment b i)).find?
          (prj2.SHT.segmentNamed key)).map fun x => prj2.SHT.readDataSegment x.2 0 := by
  induction k with
  | zero => intro j; rfl
  | succ k ih =>
    intro j
    rw [prj2.SHT.findNamedSegment, List.range'_succ, List.map_cons, List.find?_cons]
    have hiff : prj2.SHT.sameSurname (prj2.SHT.segmentAt b j).Surname key
        ↔ prj2.cString (prj2.charArray (prj2.SHT.readDataSegment b
            (prj2.sizeofHashDataBlockHeader + prj2.SHT.sizeofDataSegment * j)).Surname 25)
          = prj2.cString key := Iff.rfl
    by_cases hm : prj2.SHT.sameSurname (prj2.SHT.segmentAt b j).Surname key
    · have hn : prj2.SHT.segmentNamed key (idx, elementAt prj2.SHT.sizeofDataSegment b j)
          = true := by
        unfold prj2.SHT.segmentNamed
        rw [← prj2.SHT.segmentAt_eq]
        exact decide_eq_true hm
      rw [if_pos (hiff.mp hm), hn]
      dsimp only
      rw [Option.map_some', Option.map_some', prj2.SHT.segmentAt_eq]
    · have hn : prj2.SHT.segmentNamed key (idx, elementAt prj2.SHT.sizeofDataSegment b j)
          = false := by
        unfold prj2.SHT.segmentNamed
        rw [← prj2.SHT.segmentAt_eq]
        exact decide_eq_false hm
      rw [if_neg (fun h => hm (hiff.mpr h)), hn]
      exact ih (j + 1)

/-- The first segment with a surname on a chain, in terms of the elements of the
chain. -/
theorem prj2.SHT.firstMatch_eq_find (chain : List (Int × Block)) (key : List Nat) :
    prj2.SHT.firstMatch chain key
      = ((elementsOf prj2.SHT.sizeofDataSegment chain).find? (prj2.SHT.segmentNamed key)).map
          fun x => prj2.SHT.readDataSegment x.2 0 := by
  induction chain with
  | nil => rfl
  | cons p l ih =>
    have hb := prj2.SHT.findNamedSegment_eq_find p.2 key p.1 (readUInt32 p.2 0) 0
    rw [← List.range_eq_range'] at hb
    have he : (blockElements prj2.SHT.sizeofDataSegment p.2).map (fun e => (p.1, e))
        = (List.range (readUInt32 p.2 0)).map
            fun i => (p.1, elementAt prj2.SHT.sizeofDataSegment p.2 i) := by
      unfold blockElements
      rw [List.map_map]
      rfl
    unfold prj2.SHT.firstMatch at ih ⊢
    rw [List.findSome?_cons, elementsOf_cons, List.find?_append, he, hb]
    cases hr : ((List.range (readUInt32 p.2 0)).map
        fun i => (p.1, elementAt prj2.SHT.sizeofDataSegment p.2 i)).find?
          (prj2.SHT.segmentNamed key) with
    | none =>
      rw [Option.map_none', Option.none_or]
      exact ih
    | some x => rfl

theorem prj2.SHT.firstMatch_eq_none_iff (chain : List (Int × Block)) (key : List Nat) :
    prj2.SHT.firstMatch chain key = none
      ↔ ∀ p ∈ chain, prj2.SHT.findNamedSegment p.2 key (readUInt32 p.2 0) 0 = none := by
  unfold prj2.SHT.firstMatch
  rw [List.findSome?_eq_none_iff]
  constructor
  · intro h p hp
    exact Option.map_eq_none'.mp (h p hp)
  · intro h p hp
    exact Option.map_eq_none'.mpr (h p hp)

/-- The chain that the lookup of a key walks in a well-formed secondary file is
the chain of the bucket of the key. -/
theorem prj2.SHT.keyChain_of_wellFormed (BLOCK_SIZE : Nat) (f : File) (n : Nat)
    (hBS : 8 ≤ BLOCK_SIZE) (hwf : WellFormed BLOCK_SIZE f n) (key : List Nat) :
    prj2.SHT.HashFunction key (n : Int) < n ∧
    ∃ head, prj2.SHT.bucketHead BLOCK_SIZE f key = some head ∧
      chainTo BLOCK_SIZE f (f.blockCount + 1) head
        = some (prj2.SHT.keyChain BLOCK_SIZE f key) ∧
      chainOf BLOCK_SIZE f (prj2.SHT.HashFunction key (n : Int))
        = some (prj2.SHT.keyChain BLOCK_SIZE f key) := by
  obtain ⟨hlt, hcast⟩ := prj2.SHT.stringHash_bucket key n hwf.n_pos hwf.n_lt
  obtain ⟨h, current, bb, l, hh, hn, hwalk, hbb, hchain, hchainOf, _⟩ :=
    wellFormed_bucket BLOCK_SIZE f n hBS hwf _ hlt
  have hhead : prj2.SHT.bucketHead BLOCK_SIZE f key
      = some (readInt32 bb (prj2.HT.bucketOffset BLOCK_SIZE
          ((prj2.SHT.HashFunction key (n : Int) : Nat) : Int))) := by
    unfold prj2.SHT.bucketHead
    rw [hh]
    dsimp only
    rw [hn, hcast, hwalk]
    dsimp only
    rw [hbb]
  have hkey : prj2.SHT.keyChain BLOCK_SIZE f key = l := by
    unfold prj2.SHT.keyChain
    rw [hhead]
    exact chainTo_chain _ _ _ _ _ hchain
  rw [hkey]
  exact ⟨hlt, _, hhead, hchain, hchainOf⟩

/-- The function `SHT_SecondaryInsertEntry` on a well-formed secondary file of `n`
buckets with room for one more block, for a record whose surname has at most 24
characters, when the blocks of the chain of the surname's bucket have element
counts within the capacity.  When a segment with the surname of the
record is on the chain of the surname's bucket, the function returns `-1` and
the file is as before.  Otherwise it returns `0`, the file stays well-formed and
grows by one block at most, and afterwards the lookup of a key finds the new
segment when the key is the surname, and what it found before when it is not. -/
theorem prj2.SHT.insert_of_wellFormed (BLOCK_SIZE : Nat) (h1 : 40 ≤ BLOCK_SIZE)
    (h2 : BLOCK_SIZE < 4294967296) (f : File) (n : Nat) (hwf : WellFormed BLOCK_SIZE f n)
    (hbc : f.blockCount + 1 < 2147483648) (record : prj2.SecondaryRecord)
    (hshort : (prj2.cString (prj2.charArray record.Record.Surname 25)).length < 25)
    (hcap : ∀ p ∈ prj2.SHT.keyChain BLOCK_SIZE f (prj2.charArray record.Record.Surname 25),
      readUInt32 p.2 0 ≤ prj2.SHT.MAX_DATA_SEGMENT_COUNT_PER_BLOCK BLOCK_SIZE) :
    (prj2.SHT.firstMatch
          (prj2.SHT.keyChain BLOCK_SIZE f (prj2.charArray record.Record.Surname 25))
          (prj2.charArray record.Record.Surname 25) ≠ none →
        prj2.SHT.SHT_SecondaryInsertEntry BLOCK_SIZE f record = some (-1, f)) ∧
    (prj2.SHT.firstMatch
          (prj2.SHT.keyChain BLOCK_SIZE f (prj2.charArray record.Record.Surname 25))
          (prj2.charArray record.Record.Surname 25) = none →
        ∃ f', prj2.SHT.SHT_SecondaryInsertEntry BLOCK_SIZE f record = some (0, f') ∧
          WellFormed BLOCK_SIZE f' n ∧ f.blockCount ≤ f'.blockCount ∧
          f'.blockCount ≤ f.blockCount + 1 ∧
          ∀ key', prj2.SHT.firstMatch (prj2.SHT.keyChain BLOCK_SIZE f' key') key'
            = if prj2.cString key' = prj2.cString (prj2.charArray record.Record.Surname 25) then
                some { Surname := record.Record.Surname % 256 ^ 25,
                       BlockID := toInt32 record.BlockID }
              else prj2.SHT.firstMatch (prj2.SHT.keyChain BLOCK_SIZE f key') key') := by
  have hBS : 8 ≤ BLOCK_SIZE := by omega
  have hE := prj2.SHT.SHT_insertEngine_fits BLOCK_SIZE h1 h2
  generalize hkey : prj2.charArray record.Record.Surname 25 = key
  obtain ⟨hlt, head, _, _, hchainOf⟩ := prj2.SHT.keyChain_of_wellFormed BLOCK_SIZE f n hBS hwf key
  obtain ⟨_, hcast⟩ := prj2.SHT.stringHash_bucket key n hwf.n_pos hwf.n_lt
  have heng := (prj2.SHT.insertEngine BLOCK_SIZE).insert_cases BLOCK_SIZE hE f n hwf hbc
    (fun hashTableSize => toInt32 (prj2.SHT.HashFunction key hashTableSize : Nat))
    (fun b => prj2.SHT.findNamedSegment b key (readUInt32 b 0) 0)
    (prj2.SHT.DataSegment.toBytes
      { Surname := record.Record.Surname % 256 ^ 25, BlockID := record.BlockID })
    (prj2.SHT.HashFunction key (n : Int)) hcast hlt _ hchainOf
  rw [prj2.SHT.SHT_SecondaryInsertEntry_eq BLOCK_SIZE hBS f record hshort hcap, hkey]
  obtain ⟨hdup, hnew⟩ := heng
  constructor
  · intro hne
    apply hdup
    by_contra hall
    apply hne
    rw [prj2.SHT.firstMatch_eq_none_iff]
    intro p hp
    by_contra hp'
    exact hall ⟨p, hp, hp'⟩
  · intro hnone
    obtain ⟨f', idx, hins, hst0⟩ := hnew ((prj2.SHT.firstMatch_eq_none_iff _ _).mp hnone)
    have hst : InsertEngine.Stored BLOCK_SIZE prj2.SHT.sizeofDataSegment n f f'
        (prj2.SHT.HashFunction key (n : Int))
        (idx, (prj2.SHT.DataSegment.toBytes
          { Surname := record.Record.Surname % 256 ^ 25, BlockID := record.BlockID })
          % 256 ^ prj2.SHT.sizeofDataSegment) := hst0
    refine ⟨f', hins, hst.wellFormed, hst.blockCount_ge, hst.blockCount_le, ?_⟩
    intro key'
    obtain ⟨hlt', _, _, _, hchainOf'⟩ :=
      prj2.SHT.keyChain_of_wellFormed BLOCK_SIZE f n hBS hwf key'
    obtain ⟨_, _, _, _, hchainOf''⟩ :=
      prj2.SHT.keyChain_of_wellFormed BLOCK_SIZE f' n hBS hst.wellFormed key'
    obtain ⟨l', hl', hins'⟩ := hst.chains _ hlt' _ hchainOf'
    rw [hchainOf''] at hl'
    cases hl'
    have hdec : prj2.SHT.readDataSegment
        ((prj2.SHT.DataSegment.toBytes
          { Surname := record.Record.Surname % 256 ^ 25, BlockID := record.BlockID })
          % 256 ^ prj2.SHT.sizeofDataSegment) 0
        = { Surname := record.Record.Surname % 256 ^ 25, BlockID := toInt32 record.BlockID } := by
      have := prj2.SHT.readDataSegment_toBytes
        { Surname := record.Record.Surname % 256 ^ 25, BlockID := record.BlockID }
      rw [Nat.mod_mod] at this
      exact this
    have hnamed : ∀ k, prj2.SHT.segmentNamed k
        (idx, (prj2.SHT.DataSegment.toBytes
          { Surname := record.Record.Surname % 256 ^ 25, BlockID := record.BlockID })
          % 256 ^ prj2.SHT.sizeofDataSegment)
        = decide (prj2.cString key = prj2.cString k) := by
      intro k
      unfold prj2.SHT.segmentNamed
      dsimp only
      rw [hdec]
      unfold prj2.SHT.sameSurname
      dsimp only
      have e : prj2.cString (prj2.charArray (record.Record.Surname % 256 ^ 25) 25)
          = prj2.cString key := by rw [prj2.charArray_mod, hkey]
      simp only [e]
    rw [prj2.SHT.firstMatch_eq_find, prj2.SHT.firstMatch_eq_find]
    by_cases hk : prj2.cString key' = prj2.cString key
    · rw [if_pos hk]
      have hbucket : prj2.SHT.HashFunction key' (n : Int) = prj2.SHT.HashFunction key (n : Int) := by
        rw [← prj2.SHT.stringHash_cString key', ← prj2.SHT.stringHash_cString key, hk]
      rw [hbucket, hchainOf] at hchainOf'
      have hold : (elementsOf prj2.SHT.sizeofDataSegment (prj2.SHT.keyChain BLOCK_SIZE f key')).find?
          (prj2.SHT.segmentNamed key') = none := by
        have h0 := hnone
        rw [Option.some.inj hchainOf', ← prj2.SHT.firstMatch_cString _ key, ← hk,
          prj2.SHT.firstMatch_cString, prj2.SHT.firstMatch_eq_find] at h0
        exact Option.map_eq_none'.mp h0
      obtain ⟨l0, hl0, hmem⟩ := hst.stored
      rw [← hbucket, hchainOf''] at hl0
      cases hl0
      rw [Inserted.find?_new _ hins' (by rw [hnamed]; exact decide_eq_true hk.symm) hold hmem,
        Option.map_some']
      exact congrArg some hdec
    · rw [if_neg hk]
      rw [Inserted.find?_eq _ hins'
        (by rw [hnamed]; exact decide_eq_false (fun h => hk h.symm))]

/-! ## The lookup of a key whose segment is stored -/

theorem prj2.SHT.findNamedRecord_cString (b : Block) (key : List Nat) (k : Nat) :
    ∀ j, prj2.SHT.findNamedRecord b (prj2.cString key) k j
      = prj2.SHT.findNamedRecord b key k j := by
  induction k with
  | zero => intro j; rfl
  | succ k ih =>
    intro j
    rw [prj2.SHT.findNamedRecord, prj2.SHT.findNamedRecord, prj2.cString_cString, ih]

/-- The lookup loop on a chain that ends, when the first segment with the surname
refers to a primary block that holds a record with the surname: the loop returns
the number of blocks read so far, and the first such record of that block.  The
key has at most 24 characters and the blocks have element counts within the
capacities. -/
theorem prj2.SHT.keyLoop_of_match (BLOCK_SIZE : Nat) (hBS : 8 ≤ BLOCK_SIZE)
    (f primary : File) (key : List Nat)
    (hchars : ∀ c ∈ key, c % 256 ≠ 0) (hlen : key.length < 25)
    (segment : prj2.SHT.DataSegment) (pb : Block) (j : Nat)
    (hpb : BF_ReadBlock BLOCK_SIZE primary segment.BlockID = some pb)
    (hpcap : readUInt32 pb 0 ≤ prj2.HT.MAX_RECORD_COUNT_PER_BLOCK BLOCK_SIZE)
    (hj : prj2.SHT.findNamedRecord pb key (readUInt32 pb 0) 0 = some j) (fuel : Nat) :
    ∀ start blocksTraversed l, chainTo BLOCK_SIZE f fuel start = some l →
      prj2.SHT.firstMatch l key = some segment →
      (∀ p ∈ l, readUInt32 p.2 0 ≤ prj2.SHT.MAX_DATA_SEGMENT_COUNT_PER_BLOCK BLOCK_SIZE) →
      blocksTraversed + fuel + 1 < 2147483648 →
      ∃ count : Int,
        prj2.SHT.SHT_SecondaryGetAllEntries.keyLoop BLOCK_SIZE f primary key fuel start
            blocksTraversed = some (count, [prj2.SHT.recordAt pb j]) ∧
          0 < count := by
  induction fuel with
  | zero => intro start bt l h; rw [chainTo] at h; exact absurd h (by simp)
  | succ fuel ih =>
    intro start bt l h hfm hcap hbt
    obtain ⟨fuel', hf, hc⟩ := chainTo_cases _ _ _ _ _ h
    cases hf
    rcases hc with ⟨_, rfl⟩ | ⟨hs, b, l', hb, hr, rfl⟩
    · exact absurd hfm (by unfold prj2.SHT.firstMatch; simp)
    · rw [prj2.SHT.SHT_SecondaryGetAllEntries.keyLoop,
        if_neg (show ¬ start = prj2.INVALID_BLOCK_INDEX from hs), hb]
      dsimp only
      unfold prj2.SHT.firstMatch at hfm
      rw [List.findSome?_cons] at hfm
      have hmod : (bt + 1) % 2 ^ 32 = bt + 1 := Nat.mod_eq_of_lt (by omega)
      have hcb : readUInt32 b 0 ≤ prj2.SHT.MAX_DATA_SEGMENT_COUNT_PER_BLOCK BLOCK_SIZE :=
        hcap (start, b) (List.mem_cons_self _ _)
      rw [prj2.SHT.findDataSegment_eq BLOCK_SIZE b key hchars hlen _ 0
        (prj2.SHT.segment_slots_fit BLOCK_SIZE hBS _ hcb)]
      cases hfd : prj2.SHT.findNamedSegment b key (readUInt32 b 0) 0 with
      | some i =>
        rw [hfd] at hfm
        simp only [Option.map_some', Option.some.injEq] at hfm
        have hseg : prj2.SHT.readDataSegment b
            (prj2.sizeofHashDataBlockHeader + prj2.SHT.sizeofDataSegment * i) = segment := hfm
        obtain ⟨_, hilt, _, _⟩ := prj2.SHT.findNamedSegment_some b key _ 0 i hfd
        obtain ⟨_, hjlt, _, _⟩ := prj2.SHT.findNamedRecord_some pb key _ 0 j hj
        simp only [SlotScan.ofOption]
        rw [if_neg (prj2.SHT.segment_slot_inside BLOCK_SIZE hBS _ i hcb (by omega)), hseg, hpb]
        dsimp only
        rw [prj2.SHT.findRecordBySurname_eq BLOCK_SIZE pb key hchars hlen _ 0
          (prj2.HT.record_slots_fit BLOCK_SIZE hBS _ hpcap), hj]
        simp only [SlotScan.ofOption]
        rw [if_neg (prj2.HT.record_slot_inside BLOCK_SIZE hBS _ j hpcap (by omega)), hmod,
          Nat.mod_eq_of_lt (show bt + 1 + 1 < 2 ^ 32 by omega)]
        refine ⟨_, rfl, ?_⟩
        rw [toInt32_of_range _ (by omega) (by omega)]
        omega
      | none =>
        rw [hfd] at hfm
        simp only [SlotScan.ofOption]
        rw [hmod]
        exact ih _ _ _ hr hfm (fun p hp => hcap p (List.mem_cons_of_mem _ hp)) (by omega)

/-- The function `SHT_SecondaryGetAllEntries` on a well-formed secondary file of
less than `2^30 - 1` blocks, for a key of at most 24 characters whose first
segment on the chain of its bucket refers to a primary block that holds a record
with that surname: the function returns a positive count and prints the first
such record of that block.  The blocks of the chain and the primary block have
element counts within the capacities. -/
theorem prj2.SHT.lookup_of_match (BLOCK_SIZE : Nat) (f primary : File) (n : Nat)
    (hBS : 8 ≤ BLOCK_SIZE) (hwf : WellFormed BLOCK_SIZE f n) (hsmall : f.blockCount < 1073741823)
    (keyValue : List Nat) (hlen : (prj2.cString keyValue).length < 25)
    (hcap : ∀ p ∈ prj2.SHT.keyChain BLOCK_SIZE f keyValue,
      readUInt32 p.2 0 ≤ prj2.SHT.MAX_DATA_SEGMENT_COUNT_PER_BLOCK BLOCK_SIZE)
    (segment : prj2.SHT.DataSegment) (pb : Block) (j : Nat)
    (hfm : prj2.SHT.firstMatch (prj2.SHT.keyChain BLOCK_SIZE f keyValue) keyValue = some segment)
    (hpb : BF_ReadBlock BLOCK_SIZE primary segment.BlockID = some pb)
    (hpcap : readUInt32 pb 0 ≤ prj2.HT.MAX_RECORD_COUNT_PER_BLOCK BLOCK_SIZE)
    (hj : prj2.SHT.findNamedRecord pb keyValue (readUInt32 pb 0) 0 = some j) :
    ∃ count : Int,
      prj2.SHT.SHT_SecondaryGetAllEntries BLOCK_SIZE f primary (some keyValue)
        = some (count, [prj2.SHT.recordAt pb j]) ∧ 0 < count := by
  obtain ⟨hlt, hcast⟩ := prj2.SHT.stringHash_bucket (prj2.cString keyValue) n hwf.n_pos hwf.n_lt
  obtain ⟨h, current, bb, l, hh, hn, hwalk, hbb, hchain, hchainOf, _⟩ :=
    wellFormed_bucket BLOCK_SIZE f n hBS hwf _ hlt
  obtain ⟨_, _, _, _, hchainOf'⟩ :=
    prj2.SHT.keyChain_of_wellFormed BLOCK_SIZE f n hBS hwf (prj2.cString keyValue)
  rw [hchainOf, prj2.SHT.keyChain_cString] at hchainOf'
  have hl : l = prj2.SHT.keyChain BLOCK_SIZE f keyValue := Option.some.inj hchainOf'
  have hdiv := div_lt_directoryBlockCount BLOCK_SIZE n _ hBS hlt
  have hdir := hwf.directory_le
  have hnum := prj2.HT.bucketBlockNumber_natCast BLOCK_SIZE
    (prj2.SHT.HashFunction (prj2.cString keyValue) (n : Int)) hBS (by have := hwf.n_lt; omega)
  rw [prj2.SHT.SHT_SecondaryGetAllEntries]
  dsimp only
  rw [if_neg (Nat.not_le_of_lt hlen), hh]
  dsimp only
  rw [hn, hcast, hwalk]
  dsimp only
  rw [hbb]
  dsimp only
  rw [hnum]
  apply prj2.SHT.keyLoop_of_match BLOCK_SIZE hBS f primary (prj2.cString keyValue)
    (prj2.cString_char keyValue) hlen segment pb j hpb hpcap
    (by rw [prj2.SHT.findNamedRecord_cString]; exact hj) _ _ _ l hchain
    (by rw [prj2.SHT.firstMatch_cString, hl]; exact hfm) (by rw [hl]; exact hcap)
  have : (1 + (prj2.SHT.HashFunction (prj2.cString keyValue) (n : Int)
      / prj2.MAX_BUCKET_COUNT_PER_BLOCK BLOCK_SIZE + 1)) % 2 ^ 32
      ≤ 1 + (prj2.SHT.HashFunction (prj2.cString keyValue) (n : Int)
      / prj2.MAX_BUCKET_COUNT_PER_BLOCK BLOCK_SIZE + 1) := Nat.mod_le _ _
  omega

/-! ## What an insert stores, on any file -/

theorem InsertEngine.checkLoop_ret (BLOCK_SIZE : Nat) (f : File) (find : Block → Option Nat)
    (fuel : Nat) :
    ∀ start r, InsertEngine.checkLoop BLOCK_SIZE f find fuel start = some (.ret r) → r = -1 := by
  induction fuel with
  | zero => intro start r h; rw [InsertEngine.checkLoop] at h; exact absurd h (by simp)
  | succ fuel ih =>
    intro start r h
    rw [InsertEngine.checkLoop] at h
    split at h
    · exact absurd h (by simp)
    · split at h
      · simp only [Option.some.injEq, CFlow.ret.injEq] at h
        exact h.symm
      · split at h
        · simp only [Option.some.injEq, CFlow.ret.injEq] at h
          exact h.symm
        · exact ih _ _ h

/-- The outcomes of the second loop of an insert, on any file. -/
theorem InsertEngine.insertLoop_cases (E : InsertEngine) (BLOCK_SIZE : Nat) (f : File)
    (bytes : Nat) (fuel : Nat) :
    ∀ previous start res, E.insertLoop BLOCK_SIZE f bytes fuel previous start = some res →
      res = .ret (-1, f) ∨
      (∃ c b, BF_ReadBlock BLOCK_SIZE f c = some b ∧ readUInt32 b 0 < E.capacity ∧
        res = .ret (E.result c, BF_WriteBlock BLOCK_SIZE f c (E.store b bytes))) ∨
      (∃ p, res = .next p ∧ (p = previous ∨ ∃ pb, BF_ReadBlock BLOCK_SIZE f p = some pb)) := by
  induction fuel with
  | zero =>
    intro previous start res h
    rw [InsertEngine.insertLoop] at h
    exact absurd h (by simp)
  | succ fuel ih =>
    intro previous start res h
    rw [InsertEngine.insertLoop] at h
    split at h
    · cases h
      exact Or.inr (Or.inr ⟨previous, rfl, Or.inl rfl⟩)
    · split at h
      · cases h
        exact Or.inl rfl
      · rename_i b hb
        split at h
        · rename_i hroom
          cases h
          exact Or.inr (Or.inl ⟨start, b, hb, hroom, rfl⟩)
        · rcases ih _ _ _ h with h1 | h1 | ⟨p, hp, hp'⟩
          · exact Or.inl h1
          · exact Or.inr (Or.inl h1)
          · refine Or.inr (Or.inr ⟨p, hp, Or.inr ?_⟩)
            rcases hp' with rfl | hp''
            · exact ⟨b, hb⟩
            · exact hp''

/-- The file after the two writes of the end of an insert: the new block can be
read back, whatever is written to the other block. -/
theorem read_new_after_newBlock (BLOCK_SIZE : Nat) (f : File) (j0 : Int) (nb b0 : Block)
    (hj1 : j0 < f.blockCount) (hnb : nb < 256 ^ BLOCK_SIZE) :
    (BF_WriteBlock BLOCK_SIZE
        (BF_WriteBlock BLOCK_SIZE (BF_AllocateBlock BLOCK_SIZE f) (f.blockCount : Int) nb) j0 b0).blockCount
      = f.blockCount + 1 ∧
    BF_ReadBlock BLOCK_SIZE
        (BF_WriteBlock BLOCK_SIZE
          (BF_WriteBlock BLOCK_SIZE (BF_AllocateBlock BLOCK_SIZE f) (f.blockCount : Int) nb) j0 b0)
        (f.blockCount : Int)
      = some nb := by
  have hc1 : (BF_WriteBlock BLOCK_SIZE (BF_AllocateBlock BLOCK_SIZE f) (f.blockCount : Int)
      nb).blockCount = f.blockCount + 1 := by
    rw [BF_WriteBlock_blockCount, BF_AllocateBlock_blockCount]
  refine ⟨by rw [BF_WriteBlock_blockCount, hc1], ?_⟩
  rw [BF_ReadBlock_WriteBlock_other _ _ _ _ _ (by omega)]
  exact BF_ReadBlock_WriteBlock_of_lt _ _ _ _ (by omega)
    (by rw [BF_AllocateBlock_blockCount]; push_cast; omega) hnb

theorem blockElements_length (size : Nat) (b : Block) :
    (blockElements size b).length = readUInt32 b 0 := by
  unfold blockElements
  rw [List.length_map, List.length_range]

/-- An insert that does not return `-1` has stored the element in the data block
whose index gives the return code, which then holds at most `capacity`
elements; the file has one block more at most. -/
theorem InsertEngine.insert_stores (E : InsertEngine) (BLOCK_SIZE : Nat) (hE : E.Fits BLOCK_SIZE)
    (f : File) (bucketIndex : Int → Int) (find : Block → Option Nat) (bytes : Nat) (code : Int)
    (f' : File) (h : E.insert BLOCK_SIZE f bucketIndex find bytes = some (code, f')) :
    code = -1 ∨
    ∃ idx b', code = E.result idx ∧ BF_ReadBlock BLOCK_SIZE f' idx = some b' ∧
      bytes % 256 ^ E.elementSize ∈ blockElements E.elementSize b' ∧
      f'.blockCount ≤ f.blockCount + 1 ∧ readUInt32 b' 0 ≤ E.capacity := by
  have hfresh : readUInt32 (E.freshBlock bytes) 0 ≤ E.capacity := by
    have h0 := congrArg List.length (E.freshBlock_spec bytes).2
    rw [blockElements_length, List.length_singleton] at h0
    have := hE.capacity_pos
    omega
  rw [InsertEngine.insert] at h
  split at h
  · simp only [Option.some.injEq, Prod.mk.injEq] at h
    exact Or.inl h.1.symm
  · dsimp only at h
    split at h
    · simp only [Option.some.injEq, Prod.mk.injEq] at h
      exact Or.inl h.1.symm
    · rename_i q current hwalk
      split at h
      · simp only [Option.some.injEq, Prod.mk.injEq] at h
        exact Or.inl h.1.symm
      · rename_i bb hbb
        split at h
        · exact absurd h (by simp)
        · rename_i r hcheck
          simp only [Option.some.injEq, Prod.mk.injEq] at h
          exact Or.inl (by rw [← h.1]; exact InsertEngine.checkLoop_ret _ _ _ _ _ _ hcheck)
        · split at h
          · exact absurd h (by simp)
          · rename_i r hloop
            rcases E.insertLoop_cases BLOCK_SIZE f bytes _ _ _ _ hloop with
              h1 | ⟨c, b, hb, hroom, h1⟩ | ⟨p, h1, _⟩
            · simp only [CFlow.ret.injEq] at h1
              rw [h1] at h
              simp only [Option.some.injEq, Prod.mk.injEq] at h
              exact Or.inl h.1.symm
            · simp only [CFlow.ret.injEq] at h1
              rw [h1] at h
              simp only [Option.some.injEq, Prod.mk.injEq] at h
              obtain ⟨hc0, hc1, hblt⟩ := BF_ReadBlock_some _ _ _ _ hb
              right
              refine ⟨c, E.store b bytes, h.1.symm, ?_, ?_, ?_, ?_⟩
              · rw [← h.2]
                exact BF_ReadBlock_WriteBlock_of_lt _ _ _ _ hc0 hc1
                  (E.store_lt BLOCK_SIZE hE b bytes hblt hroom)
              · rw [(E.store_spec BLOCK_SIZE hE b bytes hroom).2]
                exact List.mem_append_right _ (List.mem_singleton_self _)
              · rw [← h.2, BF_WriteBlock_blockCount]
                omega
              · have h0 := congrArg List.length (E.store_spec BLOCK_SIZE hE b bytes hroom).2
                rw [blockElements_length, List.length_append, blockElements_length,
                  List.length_singleton] at h0
                omega
            · exact absurd h1 (by simp)
          · rename_i previous hloop
            simp only [Option.some.injEq] at h
            obtain ⟨hq0, hq1, hbblt⟩ := BF_ReadBlock_some _ _ _ _ hbb
            rcases E.insertLoop_cases BLOCK_SIZE f bytes _ _ _ _ hloop with
              h1 | ⟨c, b, hb, hroom, h1⟩ | ⟨p, h1, hp⟩
            · exact absurd h1 (by simp)
            · exact absurd h1 (by simp)
            · simp only [CFlow.next.injEq] at h1
              subst h1
              right
              rcases hp with hp | ⟨pb, hpb⟩
              · rw [hp, E.newBlock_slot BLOCK_SIZE f bytes _ _ bb hbb] at h
                simp only [Prod.mk.injEq] at h
                obtain ⟨hcount, hrm⟩ := read_new_after_newBlock BLOCK_SIZE f q
                  (E.freshBlock bytes)
                  (writeInt32 bb (prj2.HT.bucketOffset BLOCK_SIZE
                    (bucketIndex (toInt32 (readUInt32 _ 4 : Nat)))) (f.blockCount : Int))
                  hq1 (E.freshBlock_lt BLOCK_SIZE hE bytes)
                rw [h.2] at hcount hrm
                refine ⟨_, _, h.1.symm, hrm, ?_, by omega, hfresh⟩
                rw [(E.freshBlock_spec bytes).2]
                exact List.mem_singleton_self _
              · obtain ⟨_, hp1, _⟩ := BF_ReadBlock_some _ _ _ _ hpb
                rw [E.newBlock_link BLOCK_SIZE f bytes _ _ _ pb hpb] at h
                simp only [Prod.mk.injEq] at h
                obtain ⟨hcount, hrm⟩ := read_new_after_newBlock BLOCK_SIZE f previous
                  (E.freshBlock bytes) (writeInt32 pb 4 (f.blockCount : Int))
                  hp1 (E.freshBlock_lt BLOCK_SIZE hE bytes)
                rw [h.2] at hcount hrm
                refine ⟨_, _, h.1.symm, hrm, ?_, by omega, hfresh⟩
                rw [(E.freshBlock_spec bytes).2]
                exact List.mem_singleton_self _

/-! ## Element counts of the blocks behind the bucket blocks, on any file -/

/-- A write of a block whose element count is in range keeps the counts in
range. -/
theorem CountsInRange.write (BLOCK_SIZE capacity D : Nat) (f : File) (deleted : List Int)
    (c : Int) (b' : Block) (hBS : 4 ≤ BLOCK_SIZE)
    (h : CountsInRange BLOCK_SIZE capacity D f deleted)
    (hc : (D : Int) < c → c < (f.blockCount : Int) →
      readUInt32 b' 0 ≤ capacity ∧ (c ∉ deleted → 1 ≤ readUInt32 b' 0)) :
    CountsInRange BLOCK_SIZE capacity D (BF_WriteBlock BLOCK_SIZE f c b') deleted := by
  obtain ⟨hD, hall⟩ := h
  refine ⟨by rw [BF_WriteBlock_blockCount]; exact hD, ?_⟩
  intro j hj1 hj2
  rw [BF_WriteBlock_blockCount] at hj2
  by_cases hjc : c = j
  · subst hjc
    refine ⟨b' % 256 ^ BLOCK_SIZE, BF_ReadBlock_WriteBlock_self _ _ _ _ (by omega) hj2, ?_⟩
    rw [readUInt32_mod _ _ _ (by omega)]
    exact hc hj1 hj2
  · rw [BF_ReadBlock_WriteBlock_other _ _ _ _ _ hjc]
    exact hall j hj1 hj2

/-- More blocks in `deleted` keep the counts in range. -/
theorem CountsInRange.mono (BLOCK_SIZE capacity D : Nat) (f : File) (deleted deleted' : List Int)
    (h : CountsInRange BLOCK_SIZE capacity D f deleted) (hsub : ∀ j, j ∈ deleted → j ∈ deleted') :
    CountsInRange BLOCK_SIZE capacity D f deleted' := by
  obtain ⟨hD, hall⟩ := h
  refine ⟨hD, fun j hj1 hj2 => ?_⟩
  obtain ⟨b, hb, h1, h2⟩ := hall j hj1 hj2
  exact ⟨b, hb, h1, fun hnd => h2 (fun hmem => hnd (hsub j hmem))⟩

/-- A new block with one element, appended to the file, keeps the counts in
range. -/
theorem CountsInRange.allocate (BLOCK_SIZE capacity D : Nat) (f : File) (deleted : List Int)
    (nb : Block) (hBS : 4 ≤ BLOCK_SIZE) (hcap : 1 ≤ capacity) (hnb : readUInt32 nb 0 = 1)
    (h : CountsInRange BLOCK_SIZE capacity D f deleted) :
    CountsInRange BLOCK_SIZE capacity D
      (BF_WriteBlock BLOCK_SIZE (BF_AllocateBlock BLOCK_SIZE f) (f.blockCount : Int) nb) deleted := by
  obtain ⟨hD, hall⟩ := h
  refine ⟨by rw [BF_WriteBlock_blockCount, BF_AllocateBlock_blockCount]; omega, ?_⟩
  intro j hj1 hj2
  rw [BF_WriteBlock_blockCount, BF_AllocateBlock_blockCount] at hj2
  by_cases hjc : (f.blockCount : Int) = j
  · subst hjc
    refine ⟨nb % 256 ^ BLOCK_SIZE, BF_ReadBlock_WriteBlock_self _ _ _ _ (by omega)
      (by rw [BF_AllocateBlock_blockCount]; push_cast; omega), ?_⟩
    rw [readUInt32_mod _ _ _ (by omega), hnb]
    exact ⟨hcap, fun _ => Nat.le_refl _⟩
  · rw [BF_ReadBlock_WriteBlock_other _ _ _ _ _ hjc,
      BF_ReadBlock_AllocateBlock_of_lt _ _ _ (by push_cast at hj2; omega)]
    exact hall j hj1 (by push_cast at hj2; omega)

/-- The count of a data block after an element is stored in it. -/
theorem InsertEngine.store_count (E : InsertEngine) (BLOCK_SIZE : Nat) (hE : E.Fits BLOCK_SIZE)
    (b : Block) (bytes : Nat) (hroom : readUInt32 b 0 < E.capacity) :
    readUInt32 (E.store b bytes) 0 = readUInt32 b 0 + 1 := by
  have h := congrArg List.length (E.store_spec BLOCK_SIZE hE b bytes hroom).2
  simp only [blockElements, List.length_map, List.length_range, List.length_append,
    List.length_singleton] at h
  exact h

/-- The end of an insert, on any file: the counts stay in range. -/
theorem InsertEngine.newBlock_counts (E : InsertEngine) (BLOCK_SIZE : Nat) (hE : E.Fits BLOCK_SIZE)
    (D : Nat) (f : File) (deleted : List Int) (bytes : Nat) (previous bucketBlockIndex : Int)
    (bucketOffset : Nat) (hoff : 4 ≤ bucketOffset)
    (h : CountsInRange BLOCK_SIZE E.capacity D f deleted) :
    CountsInRange BLOCK_SIZE E.capacity D
      (E.newBlock BLOCK_SIZE f bytes previous bucketBlockIndex bucketOffset).2 deleted := by
  have hBS : 8 ≤ BLOCK_SIZE := by
    have := hE.fits; unfold prj2.sizeofHashDataBlockHeader at this; omega
  have hnew : BF_ReadBlock BLOCK_SIZE (BF_AllocateBlock BLOCK_SIZE f)
      (BF_GetBlockCounter (BF_AllocateBlock BLOCK_SIZE f) - 1) = some 0 := by
    have e : BF_GetBlockCounter (BF_AllocateBlock BLOCK_SIZE f) - 1 = (f.blockCount : Int) := by
      unfold BF_GetBlockCounter
      rw [BF_AllocateBlock_blockCount]
      push_cast
      omega
    rw [e]
    exact BF_ReadBlock_AllocateBlock_new BLOCK_SIZE f
  have hidx : BF_GetBlockCounter (BF_AllocateBlock BLOCK_SIZE f) - 1 = (f.blockCount : Int) := by
    unfold BF_GetBlockCounter
    rw [BF_AllocateBlock_blockCount]
    push_cast
    omega
  have h1 := CountsInRange.allocate BLOCK_SIZE E.capacity D f deleted (E.freshBlock bytes)
    (by omega) hE.capacity_pos
    (by
      have h0 := congrArg List.length (E.freshBlock_spec bytes).2
      rw [blockElements_length, List.length_singleton] at h0
      exact h0) h
  have hkeep : ∀ (q : Int) (qb : Block) (off : Nat) (v : Int), 4 ≤ off →
      BF_ReadBlock BLOCK_SIZE
        (BF_WriteBlock BLOCK_SIZE (BF_AllocateBlock BLOCK_SIZE f) (f.blockCount : Int)
          (E.freshBlock bytes)) q = some qb →
      CountsInRange BLOCK_SIZE E.capacity D
        (BF_WriteBlock BLOCK_SIZE
          (BF_WriteBlock BLOCK_SIZE (BF_AllocateBlock BLOCK_SIZE f) (f.blockCount : Int)
            (E.freshBlock bytes)) q (writeInt32 qb off v)) deleted := by
    intro q qb off v hoff' hq
    apply CountsInRange.write _ _ _ _ _ _ _ (by omega) h1
    intro hq1 hq2
    obtain ⟨b, hb, hb1, hb2⟩ := h1.2 q hq1 hq2
    rw [hq] at hb
    cases hb
    rw [readUInt32_writeInt32_ne qb off 0 v (Or.inl (by omega))]
    exact ⟨hb1, hb2⟩
  unfold InsertEngine.newBlock
  dsimp only
  rw [hnew]
  dsimp only
  rw [hidx]
  have hfresh : writeBytes (writeInt32 (writeInt32 0 0 1) 4 prj2.INVALID_BLOCK_INDEX)
      prj2.sizeofHashDataBlockHeader E.elementSize bytes = E.freshBlock bytes := rfl
  rw [hfresh]
  split
  · split
    · exact h1
    · rename_i pb hpb
      exact hkeep _ _ 4 _ (Nat.le_refl _) hpb
  · split
    · exact h1
    · rename_i bb hbb
      exact hkeep _ _ _ _ hoff hbb

/-- An insert that returns, on any file: the counts stay in range. -/
theorem InsertEngine.insert_counts (E : InsertEngine) (BLOCK_SIZE : Nat) (hE : E.Fits BLOCK_SIZE)
    (D : Nat) (f : File) (deleted : List Int) (bucketIndex : Int → Int)
    (find : Block → Option Nat) (bytes : Nat) (code : Int) (f' : File)
    (h : E.insert BLOCK_SIZE f bucketIndex find bytes = some (code, f'))
    (hc : CountsInRange BLOCK_SIZE E.capacity D f deleted) :
    CountsInRange BLOCK_SIZE E.capacity D f' deleted := by
  have hBS : 8 ≤ BLOCK_SIZE := by
    have := hE.fits; unfold prj2.sizeofHashDataBlockHeader at this; omega
  rw [InsertEngine.insert] at h
  split at h
  · cases h; exact hc
  · dsimp only at h
    split at h
    · cases h; exact hc
    · split at h
      · cases h; exact hc
      · split at h
        · exact absurd h (by simp)
        · cases h; exact hc
        · split at h
          · exact absurd h (by simp)
          · rename_i r hloop
            rcases E.insertLoop_cases BLOCK_SIZE f bytes _ _ _ _ hloop with
              h1 | ⟨c, b, hb, hroom, h1⟩ | ⟨p, h1, _⟩
            · cases h1
              cases h
              exact hc
            · cases h1
              cases h
              apply CountsInRange.write _ _ _ _ _ _ _ (by omega) hc
              intro hc1 hc2
              rw [E.store_count BLOCK_SIZE hE b bytes hroom]
              exact ⟨hroom, fun _ => Nat.le_add_left _ _⟩
            · exact absurd h1 (by simp)
          · have h2 : Prod.snd _ = f' := congrArg Prod.snd (Option.some.inj h)
            rw [← h2]
            apply E.newBlock_counts BLOCK_SIZE hE D f deleted bytes _ _ _ _ hc
            unfold prj2.HT.bucketOffset prj2.sizeofHashBucketBlockHeader
            exact Nat.le_add_right _ _


/-- The files that `HT_CreateIndex` and the directory part of
`SHT_CreateSecondaryIndex` make have the header block and the bucket blocks, and
no other block. -/
theorem create_blockCount (BLOCK_SIZE : Nat) (n : Nat) (hBS : 12 ≤ BLOCK_SIZE)
    (hn : n < 2147483648) :
    (prj2.HT.HT_CreateIndex BLOCK_SIZE (n : Int)).2.blockCount
      = 1 + directoryBlockCount BLOCK_SIZE n ∧
    (prj2.SHT.SHT_CreateSecondaryIndex.directory BLOCK_SIZE (n : Int)).2.blockCount
      = 1 + directoryBlockCount BLOCK_SIZE n := by
  obtain ⟨hreq, hD⟩ := requiredBlockCount_eq BLOCK_SIZE (n : Int) hBS (by omega) (by omega)
  rw [Int.toNat_ofNat] at hreq hD
  have hrd0 : BF_ReadBlock BLOCK_SIZE (BF_AllocateBlock BLOCK_SIZE BF_CreateFile)
      prj2.HEADER_BLOCK_INDEX = some 0 := BF_ReadBlock_AllocateBlock_new BLOCK_SIZE BF_CreateFile
  have hDdef : directoryBlockCount BLOCK_SIZE n
      = (n + prj2.MAX_BUCKET_COUNT_PER_BLOCK BLOCK_SIZE - 1)
          / prj2.MAX_BUCKET_COUNT_PER_BLOCK BLOCK_SIZE := rfl
  rw [← hDdef] at hreq hD
  generalize directoryBlockCount BLOCK_SIZE n = D at hreq hD ⊢
  constructor
  · have := prj2.HT.create_loop_layout BLOCK_SIZE (n : Int) (D : Int) prj2.HashFile n hBS
      D 0 _ (by omega)
      (by
        have := header_layout BLOCK_SIZE prj2.HashFile (n : Int) hBS (by decide) (by omega)
          (by omega)
        rw [Int.toNat_ofNat] at this
        exact this)
    rw [Nat.zero_add, Nat.cast_zero] at this
    have e : prj2.HT.HT_CreateIndex BLOCK_SIZE (n : Int)
        = prj2.HT.HT_CreateIndex.loop BLOCK_SIZE (n : Int) (D : Int) D 0 0
          (BF_WriteBlock BLOCK_SIZE (BF_AllocateBlock BLOCK_SIZE BF_CreateFile)
            prj2.HEADER_BLOCK_INDEX
            (writeInt32 (writeInt32 (writeInt32 0 0 prj2.HashFile) 4 (n : Int)) 8
              prj2.INVALID_BLOCK_INDEX)) := by
      rw [prj2.HT.HT_CreateIndex]
      dsimp only
      rw [hrd0]
      dsimp only
      rw [hreq, Int.toNat_ofNat]
      rfl
    rw [e]
    exact this.2.1
  · have := prj2.HT.create_loop_layout BLOCK_SIZE (n : Int) (D : Int) prj2.SecondaryHashFile
      n hBS D 0 _ (by omega)
      (by
        have := header_layout BLOCK_SIZE prj2.SecondaryHashFile (n : Int) hBS (by decide)
          (by omega) (by omega)
        rw [Int.toNat_ofNat] at this
        exact this)
    rw [Nat.zero_add, Nat.cast_zero] at this
    have e : prj2.SHT.SHT_CreateSecondaryIndex.directory BLOCK_SIZE (n : Int)
        = prj2.HT.HT_CreateIndex.loop BLOCK_SIZE (n : Int) (D : Int) D 0 0
          (BF_WriteBlock BLOCK_SIZE (BF_AllocateBlock BLOCK_SIZE BF_CreateFile)
            prj2.HEADER_BLOCK_INDEX
            (writeInt32 (writeInt32 (writeInt32 0 0 prj2.SecondaryHashFile) 4 (n : Int)) 8
              prj2.INVALID_BLOCK_INDEX)) := by
      rw [prj2.SHT.SHT_CreateSecondaryIndex.directory]
      dsimp only
      rw [hrd0]
      dsimp only
      rw [hreq, Int.toNat_ofNat, prj2.SHT.secondary_loop_eq_primary_loop]
      rfl
    rw [e]
    exact this.2.1

/-- A file without a block behind its bucket blocks has its counts in range. -/
theorem CountsInRange.of_directory (BLOCK_SIZE capacity D : Nat) (f : File)
    (h : f.blockCount = 1 + D) : CountsInRange BLOCK_SIZE capacity D f [] := by
  refine ⟨by omega, fun j hj1 hj2 => ?_⟩
  rw [h] at hj2
  push_cast at hj2
  omega

theorem countsInRange_of_check (BLOCK_SIZE capacity D : Nat) (f : File)
    (h : countsInRangeCheck BLOCK_SIZE capacity D f = true) :
    CountsInRange BLOCK_SIZE capacity D f [] := by
  unfold countsInRangeCheck at h
  simp only [Bool.and_eq_true, decide_eq_true_eq, List.all_eq_true, List.mem_range] at h
  obtain ⟨hD, hall⟩ := h
  refine ⟨hD, ?_⟩
  intro j hj1 hj2
  have hk := hall (j.toNat - (D + 1)) (by omega)
  have e : ((D + 1 + (j.toNat - (D + 1)) : Nat) : Int) = j := by omega
  rw [e] at hk
  split at hk
  · exact absurd hk (by simp)
  · rename_i b hb
    simp only [Bool.and_eq_true, decide_eq_true_eq] at hk
    exact ⟨b, hb, hk.2, fun _ => hk.1⟩

/-- In a well-formed secondary file whose blocks behind the bucket blocks have
element counts within the capacity, so have the blocks of the chain of the
bucket of a key. -/
theorem prj2.SHT.keyChain_counts (BLOCK_SIZE : Nat) (hBS : 8 ≤ BLOCK_SIZE) (f : File) (n : Nat)
    (hwf : WellFormed BLOCK_SIZE f n) (capacity : Nat) (deleted : List Int)
    (hc : CountsInRange BLOCK_SIZE capacity (directoryBlockCount BLOCK_SIZE n) f deleted)
    (key : List Nat) :
    ∀ p ∈ prj2.SHT.keyChain BLOCK_SIZE f key, readUInt32 p.2 0 ≤ capacity := by
  obtain ⟨hlt, head, _, hchain, hchainOf⟩ :=
    prj2.SHT.keyChain_of_wellFormed BLOCK_SIZE f n hBS hwf key
  obtain ⟨l, hl, hD⟩ := hwf.chains _ hlt
  rw [hchainOf] at hl
  cases hl
  intro p hp
  have hrd := chainTo_mem BLOCK_SIZE f _ _ _ hchain p hp
  obtain ⟨_, hlt', _⟩ := BF_ReadBlock_some _ _ _ _ hrd
  obtain ⟨b, hb, hle, _⟩ := hc.2 p.1 (hD p hp) hlt'
  rw [hrd] at hb
  cases hb
  exact hle

/-- In a well-formed file whose blocks behind the bucket blocks have element
counts within the capacity, so have the blocks of the chains of the buckets. -/
theorem chainOf_counts (BLOCK_SIZE : Nat) (f : File) (n : Nat)
    (hwf : WellFormed BLOCK_SIZE f n) (capacity : Nat) (deleted : List Int)
    (hc : CountsInRange BLOCK_SIZE capacity (directoryBlockCount BLOCK_SIZE n) f deleted) :
    ∀ s, s < n → ∀ l, chainOf BLOCK_SIZE f s = some l → ∀ p ∈ l, readUInt32 p.2 0 ≤ capacity := by
  intro s hs l hl p hp
  obtain ⟨l', hl', hD⟩ := hwf.chains s hs
  rw [hl] at hl'
  cases hl'
  obtain ⟨bb, _, hch⟩ := chainOf_cases _ _ _ _ hl
  have hrd := chainTo_mem _ _ _ _ _ hch p hp
  obtain ⟨_, hlt', _⟩ := BF_ReadBlock_some _ _ _ _ hrd
  obtain ⟨b, hb, hle, _⟩ := hc.2 p.1 (hD p hp) hlt'
  rw [hrd] at hb
  cases hb
  exact hle

/-- A `SHT_SecondaryInsertEntry` that returns, on any file: the element counts of
the blocks behind the bucket blocks stay in range. -/
theorem prj2.SHT.secondary_insert_counts (BLOCK_SIZE : Nat) (h1 : 40 ≤ BLOCK_SIZE)
    (h2 : BLOCK_SIZE < 4294967296) (D : Nat) (f : File) (deleted : List Int)
    (record : prj2.SecondaryRecord) (code : Int) (f' : File)
    (h : prj2.SHT.SHT_SecondaryInsertEntry BLOCK_SIZE f record = some (code, f'))
    (hc : CountsInRange BLOCK_SIZE (prj2.SHT.MAX_DATA_SEGMENT_COUNT_PER_BLOCK BLOCK_SIZE) D f
      deleted) :
    CountsInRange BLOCK_SIZE (prj2.SHT.MAX_DATA_SEGMENT_COUNT_PER_BLOCK BLOCK_SIZE) D f'
      deleted := by
  obtain ⟨bucketIndex, find, he⟩ :=
    prj2.SHT.SHT_SecondaryInsertEntry_engine BLOCK_SIZE f record _ h
  exact (prj2.SHT.insertEngine BLOCK_SIZE).insert_counts BLOCK_SIZE
    (prj2.SHT.SHT_insertEngine_fits BLOCK_SIZE h1 h2) D f deleted bucketIndex find _ code f' he hc

/-! ## The primary insert: where the record goes -/

theorem prj2.HT.HT_insertEngine_fits (BLOCK_SIZE : Nat) (h1 : 104 ≤ BLOCK_SIZE)
    (h2 : BLOCK_SIZE < 4294967296) : (prj2.HT.insertEngine BLOCK_SIZE).Fits BLOCK_SIZE where
  fits := by
    unfold prj2.HT.insertEngine prj2.HT.MAX_RECORD_COUNT_PER_BLOCK prj2.sizeofRecord
      prj2.sizeofHashDataBlockHeader
    dsimp only
    omega
  capacity_pos := by
    unfold prj2.HT.insertEngine prj2.HT.MAX_RECORD_COUNT_PER_BLOCK prj2.sizeofRecord
      prj2.sizeofHashDataBlockHeader
    dsimp only
    omega
  capacity_lt := by
    unfold prj2.HT.insertEngine prj2.HT.MAX_RECORD_COUNT_PER_BLOCK prj2.sizeofRecord
      prj2.sizeofHashDataBlockHeader
    dsimp only
    omega
  blockSize_lt := by omega

theorem mem_blockElements (size : Nat) (b : Block) (e : Nat) :
    e ∈ blockElements size b ↔ ∃ j, j < readUInt32 b 0 ∧ elementAt size b j = e := by
  unfold blockElements
  rw [List.mem_map]
  constructor
  · intro ⟨j, hj, he⟩
    exact ⟨j, List.mem_range.mp hj, he⟩
  · intro ⟨j, hj, he⟩
    exact ⟨j, List.mem_range.mpr hj, he⟩

theorem prj2.SHT.recordAt_eq (b : Block) (j : Nat) :
    prj2.SHT.recordAt b j = prj2.readRecord (elementAt prj2.sizeofRecord b j) 0 := by
  unfold prj2.SHT.recordAt prj2.readRecord elementAt readInt32 prj2.sizeofRecord
  rw [readBytes_readBytes _ _ _ _ _ (by omega), readBytes_readBytes _ _ _ _ _ (by omega),
    readBytes_readBytes _ _ _ _ _ (by omega), readBytes_readBytes _ _ _ _ _ (by omega)]
  rfl

/-- The record that is read back from the bytes of a record. -/
theorem prj2.readRecord_toBytes (r : prj2.Record) (hr : r.InRange) :
    prj2.readRecord (r.toBytes % 256 ^ prj2.sizeofRecord) 0 = r := by
  obtain ⟨hI0, hI1, hN, hS, hA⟩ := hr
  have hU := toUInt32_lt r.ID
  have hID : toInt32 ((toUInt32 r.ID : Nat) : Int) = r.ID := by
    rw [toInt32_toUInt32]
    exact toInt32_of_range _ hI0 hI1
  unfold prj2.readRecord prj2.Record.toBytes prj2.sizeofRecord readInt32
  rw [readBytes_mod _ _ _ _ (by omega), readBytes_mod _ _ _ _ (by omega),
    readBytes_mod _ _ _ _ (by omega), readBytes_mod _ _ _ _ (by omega), readBytes_eq,
    readBytes_eq, readBytes_eq, readBytes_eq, Nat.mod_eq_of_lt hN, Nat.mod_eq_of_lt hS,
    Nat.mod_eq_of_lt hA]
  generalize hUe : toUInt32 r.ID = U at hU hID
  obtain ⟨ID, N, S, A⟩ := r
  dsimp only at hN hS hA hID ⊢
  have e0 : (U + N * 256 ^ 4 + S * 256 ^ 19 + A * 256 ^ 44) / 256 ^ 0 % 256 ^ 4 = U := by
    rw [pow_zero, Nat.div_one,
      show U + N * 256 ^ 4 + S * 256 ^ 19 + A * 256 ^ 44
        = U + 256 ^ 4 * (N + S * 256 ^ 15 + A * 256 ^ 40) by ring,
      Nat.add_mul_mod_self_left, Nat.mod_eq_of_lt hU]
  have e1 : (U + N * 256 ^ 4 + S * 256 ^ 19 + A * 256 ^ 44) / 256 ^ (0 + 4) % 256 ^ 15 = N := by
    rw [Nat.zero_add,
      show U + N * 256 ^ 4 + S * 256 ^ 19 + A * 256 ^ 44
        = U + 256 ^ 4 * (N + 256 ^ 15 * (S + A * 256 ^ 25)) by ring,
      Nat.add_mul_div_left _ _ (Nat.pow_pos (by norm_num)), Nat.div_eq_of_lt hU, Nat.zero_add,
      Nat.add_mul_mod_self_left, Nat.mod_eq_of_lt hN]
  have hlow : U + N * 256 ^ 4 < 256 ^ 19 := by
    have : N * 256 ^ 4 + 256 ^ 4 ≤ 256 ^ 15 * 256 ^ 4 := by nlinarith
    have e : (256 : Nat) ^ 19 = 256 ^ 15 * 256 ^ 4 := by norm_num
    omega
  have e2 : (U + N * 256 ^ 4 + S * 256 ^ 19 + A * 256 ^ 44) / 256 ^ (0 + 19) % 256 ^ 25 = S := by
    rw [Nat.zero_add,
      show U + N * 256 ^ 4 + S * 256 ^ 19 + A * 256 ^ 44
        = (U + N * 256 ^ 4) + 256 ^ 19 * (S + 256 ^ 25 * A) by ring,
      Nat.add_mul_div_left _ _ (Nat.pow_pos (by norm_num)), Nat.div_eq_of_lt hlow, Nat.zero_add,
      Nat.add_mul_mod_self_left, Nat.mod_eq_of_lt hS]
  have hlow2 : U + N * 256 ^ 4 + S * 256 ^ 19 < 256 ^ 44 := by
    have : S * 256 ^ 19 + 256 ^ 19 ≤ 256 ^ 25 * 256 ^ 19 := by nlinarith
    have e : (256 : Nat) ^ 44 = 256 ^ 25 * 256 ^ 19 := by norm_num
    omega
  have e3 : (U + N * 256 ^ 4 + S * 256 ^ 19 + A * 256 ^ 44) / 256 ^ (0 + 44) % 256 ^ 50 = A := by
    rw [Nat.zero_add,
      show U + N * 256 ^ 4 + S * 256 ^ 19 + A * 256 ^ 44
        = (U + N * 256 ^ 4 + S * 256 ^ 19) + 256 ^ 44 * A by ring,
      Nat.add_mul_div_left _ _ (Nat.pow_pos (by norm_num)), Nat.div_eq_of_lt hlow2, Nat.zero_add,
      Nat.mod_eq_of_lt hA]
  rw [e0, e1, e2, e3, hID]

/-- When `HT_InsertEntry` returns a block index, the block of that index holds the
record in one of its slots and has an element count within the capacity, and
the file has one block more at most. -/
theorem prj2.HT.insert_stores_record (BLOCK_SIZE : Nat) (h1 : 104 ≤ BLOCK_SIZE)
    (h2 : BLOCK_SIZE < 4294967296) (f : File) (record : prj2.Record) (b : Int) (f' : File)
    (hr : record.InRange) (h : prj2.HT.HT_InsertEntry BLOCK_SIZE f record = some (b, f'))
    (hb : b ≠ -1) :
    ∃ pb j, BF_ReadBlock BLOCK_SIZE f' b = some pb ∧ j < readUInt32 pb 0 ∧
      prj2.SHT.recordAt pb j = record ∧ f'.blockCount ≤ f.blockCount + 1 ∧
      readUInt32 pb 0 ≤ prj2.HT.MAX_RECORD_COUNT_PER_BLOCK BLOCK_SIZE := by
  rw [prj2.HT.HT_InsertEntry_eq] at h
  rcases (prj2.HT.insertEngine BLOCK_SIZE).insert_stores BLOCK_SIZE
      (prj2.HT.HT_insertEngine_fits BLOCK_SIZE h1 h2) f _ _ _ b f' h with
    hneg | ⟨idx, pb, hidx, hpb, hmem, hcount, hcap⟩
  · exact absurd hneg hb
  · have hidx' : b = idx := hidx
    obtain ⟨j, hj, he⟩ := (mem_blockElements _ _ _).mp hmem
    refine ⟨pb, j, by rw [hidx']; exact hpb, hj, ?_, hcount, hcap⟩
    rw [prj2.SHT.recordAt_eq]
    have he' : elementAt prj2.sizeofRecord pb j = record.toBytes % 256 ^ prj2.sizeofRecord := he
    rw [he']
    exact prj2.readRecord_toBytes record hr

/-! ## Insert, then look up -/

theorem wellFormed_of_check (BLOCK_SIZE : Nat) (f : File) (n : Nat)
    (h : wellFormedCheck BLOCK_SIZE f n = true) : WellFormed BLOCK_SIZE f n := by
  unfold wellFormedCheck at h
  simp only [Bool.and_eq_true, decide_eq_true_eq, List.all_eq_true, List.mem_range] at h
  obtain ⟨⟨⟨⟨⟨⟨h1, h2⟩, h3⟩, h4⟩, h5⟩, h6⟩, h7⟩ := h
  refine ⟨h1, h2, h3, h4, ?_, ?_, ?_⟩
  · split at h5
    · exact absurd h5 (by simp)
    · rename_i hb heq
      simp only [Bool.and_eq_true, decide_eq_true_eq] at h5
      exact ⟨hb, heq, h5.1, h5.2⟩
  · intro i hi1 hi2
    have := h6 (i - 1) (by omega)
    rw [show i - 1 + 1 = i by omega] at this
    split at this
    · exact absurd this (by simp)
    · rename_i b heq
      simp only [decide_eq_true_eq] at this
      exact ⟨b, heq, this⟩
  · intro s hs
    have := h7 s hs
    split at this
    · exact absurd this (by simp)
    · rename_i l heq
      simp only [List.all_eq_true, decide_eq_true_eq] at this
      exact ⟨l, heq, this⟩

/-- C13, as the code has it.  Let `secondary` be a well-formed secondary file of
less than `2^30 - 2` blocks whose blocks behind the bucket blocks have element
counts within the capacity of a data block, and `record` a record whose fields
are values of their C types and whose surname has at most 24 characters, so
that the string ends inside the array `Surname`.  When
`HT_InsertEntry(primary, record)` returns a block index `b ≠ -1` and then
`SHT_SecondaryInsertEntry(secondary, {record, b})` returns `0` (which it does
only if no segment with the surname was stored),
`SHT_SecondaryGetAllEntries(secondary, primary, record.Surname)` returns a
positive count and prints one record: the record of the first slot `j` of
primary block `b` whose surname is that of `record`.  The block holds `record`
in a slot `j0 ≥ j`, so the printed record is `record` itself when no other
record of the block has that surname. -/
theorem prj2.SHT.insert_then_lookup (BLOCK_SIZE : Nat) (h1 : 104 ≤ BLOCK_SIZE)
    (h2 : BLOCK_SIZE < 4294967296) (primary primary' secondary secondary' : File) (n : Nat)
    (record : prj2.Record) (b : Int) (hwf : WellFormed BLOCK_SIZE secondary n)
    (deleted : List Int)
    (hcounts : CountsInRange BLOCK_SIZE (prj2.SHT.MAX_DATA_SEGMENT_COUNT_PER_BLOCK BLOCK_SIZE)
      (directoryBlockCount BLOCK_SIZE n) secondary deleted)
    (hsmall : secondary.blockCount + 1 < 1073741823)
    (hprimary : primary.blockCount + 1 < 2147483648) (hr : record.InRange)
    (hshort : (prj2.cString (prj2.charArray record.Surname 25)).length < 25)
    (hp : prj2.HT.HT_InsertEntry BLOCK_SIZE primary record = some (b, primary'))
    (hb : b ≠ -1)
    (hs : prj2.SHT.SHT_SecondaryInsertEntry BLOCK_SIZE secondary
      { Record := record, BlockID := b } = some (0, secondary')) :
    ∃ (count : Int) (pb : Block) (j j0 : Nat),
      prj2.SHT.SHT_SecondaryGetAllEntries BLOCK_SIZE secondary' primary'
          (some (prj2.charArray record.Surname 25))
        = some (count, [prj2.SHT.recordAt pb j]) ∧
      0 < count ∧
      BF_ReadBlock BLOCK_SIZE primary' b = some pb ∧
      j ≤ j0 ∧ j0 < readUInt32 pb 0 ∧ prj2.SHT.recordAt pb j0 = record ∧
      prj2.SHT.sameSurname (prj2.SHT.recordAt pb j).Surname (prj2.charArray record.Surname 25) ∧
      (∀ i, i < j →
        ¬ prj2.SHT.sameSurname (prj2.SHT.recordAt pb i).Surname
          (prj2.charArray record.Surname 25)) ∧
      ((∀ i, i < readUInt32 pb 0 →
          prj2.SHT.sameSurname (prj2.SHT.recordAt pb i).Surname
            (prj2.charArray record.Surname 25) →
          prj2.SHT.recordAt pb i = record) →
        prj2.SHT.recordAt pb j = record) := by
  have hBS : 8 ≤ BLOCK_SIZE := by omega
  obtain ⟨pb, j0, hpb, hj0, hrec, hcount, hpcap⟩ :=
    prj2.HT.insert_stores_record BLOCK_SIZE h1 h2 primary record b primary' hr hp hb
  obtain ⟨hb0, hb1, _⟩ := BF_ReadBlock_some _ _ _ _ hpb
  have hcounts' := prj2.SHT.secondary_insert_counts BLOCK_SIZE (by omega) h2 _ secondary deleted
    { Record := record, BlockID := b } 0 secondary' hs hcounts
  obtain ⟨hdup, hnew⟩ := prj2.SHT.insert_of_wellFormed BLOCK_SIZE (by omega) h2 secondary n hwf
    (by omega) { Record := record, BlockID := b } hshort
    (prj2.SHT.keyChain_counts BLOCK_SIZE hBS secondary n hwf _ deleted hcounts _)
  dsimp only at hdup hnew
  have hnone : prj2.SHT.firstMatch
      (prj2.SHT.keyChain BLOCK_SIZE secondary (prj2.charArray record.Surname 25))
      (prj2.charArray record.Surname 25) = none := by
    by_contra hne
    have := hdup hne
    rw [hs] at this
    simp only [Option.some.injEq, Prod.mk.injEq] at this
    exact absurd this.1 (by decide)
  obtain ⟨f', hins, hwf', _, hle, hfm⟩ := hnew hnone
  rw [hs] at hins
  simp only [Option.some.injEq, Prod.mk.injEq, true_and] at hins
  subst hins
  have hfm' := hfm (prj2.charArray record.Surname 25)
  rw [if_pos rfl, toInt32_of_range b (by omega) (by omega)] at hfm'
  have hholds : prj2.SHT.holdsRecordNamed pb (prj2.charArray record.Surname 25) :=
    ⟨j0, hj0, by rw [hrec]; rfl⟩
  cases hfind : prj2.SHT.findNamedRecord pb (prj2.charArray record.Surname 25)
      (readUInt32 pb 0) 0 with
  | none =>
    exact absurd hholds ((prj2.SHT.findNamedRecord_eq_none_iff _ _).mp hfind)
  | some j =>
    obtain ⟨_, hjlt, hjs, hjmin⟩ := prj2.SHT.findNamedRecord_some _ _ _ _ _ hfind
    obtain ⟨count, hlook, hpos⟩ := prj2.SHT.lookup_of_match BLOCK_SIZE secondary' primary' n hBS
      hwf' (by omega) (prj2.charArray record.Surname 25) hshort
      (prj2.SHT.keyChain_counts BLOCK_SIZE hBS secondary' n hwf' _ deleted hcounts' _)
      _ pb j hfm' hpb hpcap hfind
    refine ⟨count, pb, j, j0, hlook, hpos, hpb, ?_, hj0, hrec, hjs,
      fun i hi => hjmin i (Nat.zero_le _) hi, fun hall => hall j (by omega) hjs⟩
    by_contra hlt
    exact hjmin j0 (Nat.zero_le _) (by omega) (by rw [hrec]; rfl)

theorem prj2.SHT.insert_then_lookup_witness :
    ∃ (count : Int) (pb : Block) (j j0 : Nat),
      prj2.SHT.SHT_SecondaryGetAllEntries 512 prj2.SHT.demoSecondaryAfterInsert
          prj2.SHT.demoPrimaryAfterInsert
          (some (prj2.charArray (prj2.HT.recordOf 5 68).Surname 25))
        = some (count, [prj2.SHT.recordAt pb j]) ∧
      0 < count ∧
      BF_ReadBlock 512 prj2.SHT.demoPrimaryAfterInsert 3 = some pb ∧
      j ≤ j0 ∧ j0 < readUInt32 pb 0 ∧ prj2.SHT.recordAt pb j0 = prj2.HT.recordOf 5 68 ∧
      prj2.SHT.sameSurname (prj2.SHT.recordAt pb j).Surname
        (prj2.charArray (prj2.HT.recordOf 5 68).Surname 25) ∧
      (∀ i, i < j →
        ¬ prj2.SHT.sameSurname (prj2.SHT.recordAt pb i).Surname
          (prj2.charArray (prj2.HT.recordOf 5 68).Surname 25)) ∧
      ((∀ i, i < readUInt32 pb 0 →
          prj2.SHT.sameSurname (prj2.SHT.recordAt pb i).Surname
            (prj2.charArray (prj2.HT.recordOf 5 68).Surname 25) →
          prj2.SHT.recordAt pb i = prj2.HT.recordOf 5 68) →
        prj2.SHT.recordAt pb j = prj2.HT.recordOf 5 68) :=
  prj2.SHT.insert_then_lookup 512 (by decide) (by decide) prj2.SHT.demoPrimary
    prj2.SHT.demoPrimaryAfterInsert prj2.SHT.demoSecondary prj2.SHT.demoSecondaryAfterInsert 5
    (prj2.HT.recordOf 5 68) 3 (wellFormed_of_check 512 prj2.SHT.demoSecondary 5 (by decide!))
    [] (countsInRange_of_check 512 _ _ prj2.SHT.demoSecondary (by decide!))
    (by decide!) (by decide!) (by decide) (by decide) (by decide!) (by decide) (by decide!)

/-! ## Creation makes a well-formed file -/

theorem readBytes_writeBytes_inside (b off len v o l : Nat) (h : o + l ≤ len) :
    readBytes (writeBytes b off len v) (off + o) l = readBytes v o l := by
  rw [← readBytes_readBytes _ off len o l h, readBytes_writeBytes_same, readBytes_mod _ _ _ _ h]

theorem pow_sub_one_div (a b : Nat) : (256 ^ (a + b) - 1) / 256 ^ a = 256 ^ b - 1 := by
  have ha : 0 < 256 ^ a := Nat.pow_pos (by norm_num)
  have hb : 0 < 256 ^ b := Nat.pow_pos (by norm_num)
  have e : 256 ^ (a + b) - 1 = (256 ^ a - 1) + 256 ^ a * (256 ^ b - 1) := by
    rw [pow_add, Nat.mul_sub, Nat.mul_one]
    have : 256 ^ a ≤ 256 ^ a * 256 ^ b := Nat.le_mul_of_pos_right _ hb
    omega
  rw [e, Nat.add_mul_div_left _ _ ha, Nat.div_eq_of_lt (by omega), Nat.zero_add]

theorem pow_sub_one_mod (a b : Nat) : (256 ^ (a + b) - 1) % 256 ^ a = 256 ^ a - 1 := by
  have ha : 0 < 256 ^ a := Nat.pow_pos (by norm_num)
  have hb : 0 < 256 ^ b := Nat.pow_pos (by norm_num)
  have e : 256 ^ (a + b) - 1 = (256 ^ a - 1) + 256 ^ a * (256 ^ b - 1) := by
    rw [pow_add, Nat.mul_sub, Nat.mul_one]
    have : 256 ^ a ≤ 256 ^ a * 256 ^ b := Nat.le_mul_of_pos_right _ hb
    omega
  rw [e, Nat.add_mul_mod_self_left, Nat.mod_eq_of_lt (by omega)]

/-- A 32-bit field inside a region that `memset` has filled with the byte `0xFF`
reads `-1`. -/
theorem readInt32_memset_inside (b : Block) (off count t : Nat) (h : 4 * t + 4 ≤ count) :
    readInt32 (memset b off (-1) count) (off + 4 * t) = -1 := by
  obtain ⟨d, rfl⟩ := Nat.exists_eq_add_of_le h
  have hv : ((-1 : Int) % 256).toNat * ((256 ^ (4 * t + 4 + d) - 1) / 255)
      = 256 ^ (4 * t + 4 + d) - 1 := by
    have hdvd : 255 ∣ 256 ^ (4 * t + 4 + d) - 1 := by
      have := nat_sub_dvd_pow_sub_pow 256 1 (4 * t + 4 + d)
      rwa [Nat.one_pow] at this
    have e : ((-1 : Int) % 256).toNat = 255 := by decide
    rw [e, Nat.mul_div_cancel' hdvd]
  unfold memset readInt32
  rw [hv, readBytes_writeBytes_inside _ _ _ _ _ _ (by omega), readBytes_eq,
    show 4 * t + 4 + d = 4 * t + (4 + d) by omega, pow_sub_one_div, pow_sub_one_mod]
  decide

/-- One iteration of the loop of `HT_CreateIndex` on a file that has its header
and `j` bucket blocks. -/
theorem prj2.HT.create_loop_step (BLOCK_SIZE : Nat) (bucketCount required : Int)
    (fileType n : Nat) (j : Nat) (f : File)
    (hinv : DirectoryLayout BLOCK_SIZE f fileType n j) :
    ∃ pb, BF_ReadBlock BLOCK_SIZE f (j : Int) = some pb ∧
      ∀ k, prj2.HT.HT_CreateIndex.loop BLOCK_SIZE bucketCount required (k + 1) (j : Int)
            (j : Int) f
        = prj2.HT.HT_CreateIndex.loop BLOCK_SIZE bucketCount required k ((j + 1 : Nat) : Int)
            ((j + 1 : Nat) : Int)
            (BF_WriteBlock BLOCK_SIZE
              (BF_WriteBlock BLOCK_SIZE (BF_AllocateBlock BLOCK_SIZE f) ((j + 1 : Nat) : Int)
                (memset (writeInt32 0 0 prj2.INVALID_BLOCK_INDEX)
                  prj2.sizeofHashBucketBlockHeader prj2.INVALID_BLOCK_INDEX
                  (toUInt64 (if (j : Int) = required - 1 then
                      toInt32 (toUInt64 bucketCount % prj2.MAX_BUCKET_COUNT_PER_BLOCK BLOCK_SIZE
                        : Nat)
                    else toInt32 (prj2.MAX_BUCKET_COUNT_PER_BLOCK BLOCK_SIZE : Nat)) * 4
                    % 2 ^ 64)))
              (j : Int)
              (if (j : Int) = prj2.HEADER_BLOCK_INDEX then
                writeInt32 pb 8 ((j + 1 : Nat) : Int)
              else writeInt32 pb 0 ((j + 1 : Nat) : Int))) := by
  obtain ⟨hcount, ⟨h, hh, _, _, _⟩, hblocks⟩ := hinv
  have hprev : ∃ pb, BF_ReadBlock BLOCK_SIZE f (j : Int) = some pb := by
    rcases Nat.eq_zero_or_pos j with h0 | h0
    · subst h0; exact ⟨h, hh⟩
    · obtain ⟨b, hb, _⟩ := hblocks j h0 (Nat.le_refl _); exact ⟨b, hb⟩
  obtain ⟨pb, hpb⟩ := hprev
  refine ⟨pb, hpb, ?_⟩
  intro k
  have hnew : BF_GetBlockCounter (BF_AllocateBlock BLOCK_SIZE f) - 1 = ((j + 1 : Nat) : Int) := by
    simp only [BF_GetBlockCounter, BF_AllocateBlock_blockCount, hcount]
    push_cast
    ring
  have hrd : BF_ReadBlock BLOCK_SIZE (BF_AllocateBlock BLOCK_SIZE f) ((j + 1 : Nat) : Int)
      = some 0 := by
    have := BF_ReadBlock_AllocateBlock_new BLOCK_SIZE f
    rw [hcount, show 1 + j = j + 1 by omega] at this
    exact this
  have e1 : (j : Int) + 1 = ((j + 1 : Nat) : Int) := by push_cast; ring
  rw [prj2.HT.HT_CreateIndex.loop]
  simp only [hnew]
  rw [hrd]
  simp only []
  have hrdprev : ∀ nb, BF_ReadBlock BLOCK_SIZE
      (BF_WriteBlock BLOCK_SIZE (BF_AllocateBlock BLOCK_SIZE f) ((j + 1 : Nat) : Int) nb) (j : Int)
      = some pb := by
    intro nb
    rw [BF_ReadBlock_WriteBlock_ne _ _ _ _ _ (by omega),
      BF_ReadBlock_AllocateBlock_old _ _ _ (by omega), hpb]
  rw [hrdprev]
  simp only []
  rw [e1]

theorem toUInt64_natCast (k : Nat) (h : k < 18446744073709551616) : toUInt64 (k : Int) = k := by
  unfold toUInt64
  rw [Int.emod_eq_of_lt (by omega) (by omega), Int.toNat_ofNat]

/-- The slots of the bucket blocks that the loop of `HT_CreateIndex` writes hold
`-1`: all `C` slots of a block that is not the last one, the first `n mod C` of
the last one. -/
theorem prj2.HT.create_loop_slots (BLOCK_SIZE : Nat) (fileType n D : Nat) (hBS : 12 ≤ BLOCK_SIZE)
    (hBS2 : BLOCK_SIZE < 4294967296) (hn : n < 2147483648) (k : Nat) :
    ∀ (j : Nat) (f : File), j + k < 2147483648 →
      DirectoryLayout BLOCK_SIZE f fileType n j →
      (∀ i : Nat, 1 ≤ i → i ≤ j → ∃ b, BF_ReadBlock BLOCK_SIZE f (i : Int) = some b ∧
        ∀ t, t < (if i = D then n % prj2.MAX_BUCKET_COUNT_PER_BLOCK BLOCK_SIZE
            else prj2.MAX_BUCKET_COUNT_PER_BLOCK BLOCK_SIZE) →
          readInt32 b (4 + 4 * t) = -1) →
      ∀ i : Nat, 1 ≤ i → i ≤ j + k →
        ∃ b, BF_ReadBlock BLOCK_SIZE
            (prj2.HT.HT_CreateIndex.loop BLOCK_SIZE (n : Int) (D : Int) k (j : Int) (j : Int) f).2
            (i : Int) = some b ∧
          ∀ t, t < (if i = D then n % prj2.MAX_BUCKET_COUNT_PER_BLOCK BLOCK_SIZE
              else prj2.MAX_BUCKET_COUNT_PER_BLOCK BLOCK_SIZE) →
            readInt32 b (4 + 4 * t) = -1 := by
  have hC : 4 + 4 * prj2.MAX_BUCKET_COUNT_PER_BLOCK BLOCK_SIZE ≤ BLOCK_SIZE := by
    unfold prj2.MAX_BUCKET_COUNT_PER_BLOCK; omega
  have hC1 : 0 < prj2.MAX_BUCKET_COUNT_PER_BLOCK BLOCK_SIZE := by
    unfold prj2.MAX_BUCKET_COUNT_PER_BLOCK; omega
  induction k with
  | zero =>
    intro j f _ _ hslots i hi1 hi2
    exact hslots i hi1 hi2
  | succ k ih =>
    intro j f hjk hinv hslots i hi1 hi2
    obtain ⟨pb, hpb, hstep⟩ := prj2.HT.create_loop_step BLOCK_SIZE (n : Int) (D : Int)
      fileType n j f hinv
    have hl := (prj2.HT.create_loop_layout BLOCK_SIZE (n : Int) (D : Int) fileType n hBS 1 j f
      (by omega) hinv).2
    rw [hstep 0] at hl
    simp only [prj2.HT.HT_CreateIndex.loop] at hl
    rw [hstep k]
    have hcount : f.blockCount = 1 + j := hinv.1
    refine ih (j + 1) _ (by omega) hl ?_ i hi1 (by omega)
    intro i hi1 hi2
    rcases Nat.lt_or_ge i (j + 1) with hlt | hge
    · obtain ⟨b, hb, hs⟩ := hslots i hi1 (by omega)
      rcases Nat.lt_or_ge i j with hlt2 | hge2
      · refine ⟨b, ?_, hs⟩
        rw [BF_ReadBlock_WriteBlock_ne _ _ _ _ _ (by omega),
          BF_ReadBlock_WriteBlock_ne _ _ _ _ _ (by omega),
          BF_ReadBlock_AllocateBlock_old _ _ _ (by omega)]
        exact hb
      · have hij : i = j := by omega
        subst hij
        have hbp : b = pb := Option.some.inj (hb.symm.trans hpb)
        subst hbp
        refine ⟨_, BF_ReadBlock_WriteBlock_same _ _ _ _
          (by rw [BF_WriteBlock_blockCount, BF_AllocateBlock_blockCount]; omega), ?_⟩
        intro t ht
        have htC : t < prj2.MAX_BUCKET_COUNT_PER_BLOCK BLOCK_SIZE := by
          split at ht
          · exact lt_trans ht (Nat.mod_lt _ hC1)
          · exact ht
        rw [readInt32_mod _ BLOCK_SIZE (4 + 4 * t) (by omega),
          if_neg (show ¬ ((i : Nat) : Int) = prj2.HEADER_BLOCK_INDEX by
            unfold prj2.HEADER_BLOCK_INDEX; omega),
          readInt32_writeInt32_ne b 0 (4 + 4 * t) _ (Or.inr (by omega))]
        exact hs t ht
    · have hij : i = j + 1 := by omega
      subst hij
      refine ⟨_, (BF_ReadBlock_WriteBlock_ne _ _ _ _ _ (by omega)).trans
        (BF_ReadBlock_WriteBlock_same _ _ _ _
          (by rw [BF_AllocateBlock_blockCount]; omega)), ?_⟩
      intro t ht
      have htC : t < prj2.MAX_BUCKET_COUNT_PER_BLOCK BLOCK_SIZE := by
        split at ht
        · exact lt_trans ht (Nat.mod_lt _ hC1)
        · exact ht
      have hmod : n % prj2.MAX_BUCKET_COUNT_PER_BLOCK BLOCK_SIZE
          < prj2.MAX_BUCKET_COUNT_PER_BLOCK BLOCK_SIZE := Nat.mod_lt _ hC1
      have hcnt : toUInt64 (if ((j : Nat) : Int) = (D : Int) - 1 then
            toInt32 (toUInt64 (n : Int) % prj2.MAX_BUCKET_COUNT_PER_BLOCK BLOCK_SIZE : Nat)
          else toInt32 (prj2.MAX_BUCKET_COUNT_PER_BLOCK BLOCK_SIZE : Nat)) * 4 % 2 ^ 64
          = 4 * (if j + 1 = D then n % prj2.MAX_BUCKET_COUNT_PER_BLOCK BLOCK_SIZE
              else prj2.MAX_BUCKET_COUNT_PER_BLOCK BLOCK_SIZE) := by
        rw [toUInt64_natCast n (by omega)]
        by_cases hD : j + 1 = D
        · rw [if_pos (by omega), if_pos hD,
            toInt32_of_range (n % prj2.MAX_BUCKET_COUNT_PER_BLOCK BLOCK_SIZE : Nat)
              (by omega) (by omega),
            toUInt64_natCast _ (by omega)]
          omega
        · rw [if_neg (by omega), if_neg hD,
            toInt32_of_range (prj2.MAX_BUCKET_COUNT_PER_BLOCK BLOCK_SIZE : Nat)
              (by omega) (by omega),
            toUInt64_natCast _ (by omega)]
          omega
      rw [readInt32_mod _ BLOCK_SIZE (4 + 4 * t) (by omega), hcnt]
      exact readInt32_memset_inside _ 4 _ t (by omega)

/-- The directory that creation leaves is well formed, with every bucket empty,
when the bucket count is not a multiple of the capacity of a bucket block. -/
theorem directory_wellFormed (BLOCK_SIZE : Nat) (f : File) (fileType n : Nat)
    (hBS : 12 ≤ BLOCK_SIZE) (hn1 : 1 ≤ n) (hn : n < 2147483648)
    (hmod : n % prj2.MAX_BUCKET_COUNT_PER_BLOCK BLOCK_SIZE ≠ 0)
    (hl : DirectoryLayout BLOCK_SIZE f fileType n (directoryBlockCount BLOCK_SIZE n))
    (hslots : ∀ i : Nat, 1 ≤ i → i ≤ directoryBlockCount BLOCK_SIZE n →
      ∃ b, BF_ReadBlock BLOCK_SIZE f (i : Int) = some b ∧
        ∀ t, t < (if i = directoryBlockCount BLOCK_SIZE n then
              n % prj2.MAX_BUCKET_COUNT_PER_BLOCK BLOCK_SIZE
            else prj2.MAX_BUCKET_COUNT_PER_BLOCK BLOCK_SIZE) →
          readInt32 b (4 + 4 * t) = -1) :
    WellFormed BLOCK_SIZE f n ∧ f.blockCount = 1 + directoryBlockCount BLOCK_SIZE n ∧
      ∀ s, s < n → chainOf BLOCK_SIZE f s = some [] := by
  have hC1 : 2 ≤ prj2.MAX_BUCKET_COUNT_PER_BLOCK BLOCK_SIZE := by
    unfold prj2.MAX_BUCKET_COUNT_PER_BLOCK; omega
  have hDpos := directoryBlockCount_pos BLOCK_SIZE n (by omega) hn1
  have hDle : directoryBlockCount BLOCK_SIZE n < (n + 1) / 2 + 1 := by
    unfold directoryBlockCount
    generalize prj2.MAX_BUCKET_COUNT_PER_BLOCK BLOCK_SIZE = C at hC1
    apply (Nat.div_lt_iff_lt_mul (by omega)).mpr
    have h2 : (n + 1) / 2 * 2 ≤ (n + 1) / 2 * C := Nat.mul_le_mul_left _ hC1
    rw [Nat.add_mul, Nat.one_mul]
    omega
  have hchains : ∀ s, s < n → chainOf BLOCK_SIZE f s = some [] := by
    intro s hs
    have hq := div_lt_directoryBlockCount BLOCK_SIZE n s (by omega) hs
    obtain ⟨b, hb, hsl⟩ := hslots (1 + s / prj2.MAX_BUCKET_COUNT_PER_BLOCK BLOCK_SIZE)
      (Nat.le_add_right 1 _) (by omega)
    have hslot : readInt32 b (4 + 4 * (s % prj2.MAX_BUCKET_COUNT_PER_BLOCK BLOCK_SIZE)) = -1 := by
      apply hsl
      split
      · rename_i hlast
        -- the last bucket block: `s` is in its first `n mod C` slots
        unfold directoryBlockCount at hlast
        rw [ceil_div_eq _ _ (by omega), if_pos (Nat.pos_of_ne_zero hmod)] at hlast
        have hsq : s / prj2.MAX_BUCKET_COUNT_PER_BLOCK BLOCK_SIZE
            = n / prj2.MAX_BUCKET_COUNT_PER_BLOCK BLOCK_SIZE := by omega
        have e1 := Nat.div_add_mod s (prj2.MAX_BUCKET_COUNT_PER_BLOCK BLOCK_SIZE)
        have e2 := Nat.div_add_mod n (prj2.MAX_BUCKET_COUNT_PER_BLOCK BLOCK_SIZE)
        rw [hsq] at e1
        generalize prj2.MAX_BUCKET_COUNT_PER_BLOCK BLOCK_SIZE *
          (n / prj2.MAX_BUCKET_COUNT_PER_BLOCK BLOCK_SIZE) = m at e1 e2
        omega
      · exact Nat.mod_lt _ (by omega)
    unfold chainOf
    rw [show ((1 + s / prj2.MAX_BUCKET_COUNT_PER_BLOCK BLOCK_SIZE : Nat) : Int)
        = ((1 + s / prj2.MAX_BUCKET_COUNT_PER_BLOCK BLOCK_SIZE : Nat) : Int) from rfl, hb]
    dsimp only
    rw [show prj2.sizeofHashBucketBlockHeader = 4 from rfl, hslot]
    exact chainTo_nil BLOCK_SIZE f _
  obtain ⟨hcount, ⟨h, hh, _, hh4, hh8⟩, hblocks⟩ := hl
  refine ⟨?_, hcount, hchains⟩
  exact {
    n_pos := hn1
    n_lt := hn
    blockCount_lt := by omega
    directory_le := by omega
    header := ⟨h, hh, hh4, by rw [hh8, if_neg (by omega)]⟩
    links := hblocks
    chains := fun s hs => ⟨[], hchains s hs, fun p hp => absurd hp (List.not_mem_nil _)⟩ }

/-- The files that `HT_CreateIndex` and the directory part of
`SHT_CreateSecondaryIndex` leave are well formed and all their buckets are empty,
for a bucket count that is not a multiple of the capacity of a bucket block. -/
theorem create_wellFormed (BLOCK_SIZE : Nat) (n : Nat) (hBS : 12 ≤ BLOCK_SIZE)
    (hBS2 : BLOCK_SIZE < 4294967296) (hn1 : 1 ≤ n) (hn : n < 2147483648)
    (hmod : n % prj2.MAX_BUCKET_COUNT_PER_BLOCK BLOCK_SIZE ≠ 0) :
    ((prj2.HT.HT_CreateIndex BLOCK_SIZE (n : Int)).1 = 0 ∧
      WellFormed BLOCK_SIZE (prj2.HT.HT_CreateIndex BLOCK_SIZE (n : Int)).2 n ∧
      (prj2.HT.HT_CreateIndex BLOCK_SIZE (n : Int)).2.blockCount
        = 1 + directoryBlockCount BLOCK_SIZE n ∧
      ∀ s, s < n → chainOf BLOCK_SIZE (prj2.HT.HT_CreateIndex BLOCK_SIZE (n : Int)).2 s = some []) ∧
    ((prj2.SHT.SHT_CreateSecondaryIndex.directory BLOCK_SIZE (n : Int)).1 = 0 ∧
      WellFormed BLOCK_SIZE (prj2.SHT.SHT_CreateSecondaryIndex.directory BLOCK_SIZE (n : Int)).2 n ∧
      (prj2.SHT.SHT_CreateSecondaryIndex.directory BLOCK_SIZE (n : Int)).2.blockCount
        = 1 + directoryBlockCount BLOCK_SIZE n ∧
      ∀ s, s < n →
        chainOf BLOCK_SIZE (prj2.SHT.SHT_CreateSecondaryIndex.directory BLOCK_SIZE (n : Int)).2 s
          = some []) := by
  obtain ⟨hreq, hD⟩ := requiredBlockCount_eq BLOCK_SIZE (n : Int) hBS (by omega) (by omega)
  rw [Int.toNat_ofNat] at hreq hD
  have hrd0 : BF_ReadBlock BLOCK_SIZE (BF_AllocateBlock BLOCK_SIZE BF_CreateFile)
      prj2.HEADER_BLOCK_INDEX = some 0 := BF_ReadBlock_AllocateBlock_new BLOCK_SIZE BF_CreateFile
  have hDdef : directoryBlockCount BLOCK_SIZE n
      = (n + prj2.MAX_BUCKET_COUNT_PER_BLOCK BLOCK_SIZE - 1)
          / prj2.MAX_BUCKET_COUNT_PER_BLOCK BLOCK_SIZE := rfl
  rw [← hDdef] at hreq hD
  have key : ∀ fileType : Nat, fileType < 4294967296 →
      (prj2.HT.HT_CreateIndex.loop BLOCK_SIZE (n : Int) (directoryBlockCount BLOCK_SIZE n : Int)
          (directoryBlockCount BLOCK_SIZE n) 0 0
          (BF_WriteBlock BLOCK_SIZE (BF_AllocateBlock BLOCK_SIZE BF_CreateFile)
            prj2.HEADER_BLOCK_INDEX
            (writeInt32 (writeInt32 (writeInt32 0 0 fileType) 4 (n : Int)) 8
              prj2.INVALID_BLOCK_INDEX))).1 = 0 ∧
      WellFormed BLOCK_SIZE
        (prj2.HT.HT_CreateIndex.loop BLOCK_SIZE (n : Int) (directoryBlockCount BLOCK_SIZE n : Int)
          (directoryBlockCount BLOCK_SIZE n) 0 0
          (BF_WriteBlock BLOCK_SIZE (BF_AllocateBlock BLOCK_SIZE BF_CreateFile)
            prj2.HEADER_BLOCK_INDEX
            (writeInt32 (writeInt32 (writeInt32 0 0 fileType) 4 (n : Int)) 8
              prj2.INVALID_BLOCK_INDEX))).2 n ∧
      (prj2.HT.HT_CreateIndex.loop BLOCK_SIZE (n : Int) (directoryBlockCount BLOCK_SIZE n : Int)
          (directoryBlockCount BLOCK_SIZE n) 0 0
          (BF_WriteBlock BLOCK_SIZE (BF_AllocateBlock BLOCK_SIZE BF_CreateFile)
            prj2.HEADER_BLOCK_INDEX
            (writeInt32 (writeInt32 (writeInt32 0 0 fileType) 4 (n : Int)) 8
              prj2.INVALID_BLOCK_INDEX))).2.blockCount = 1 + directoryBlockCount BLOCK_SIZE n ∧
      ∀ s, s < n → chainOf BLOCK_SIZE
        (prj2.HT.HT_CreateIndex.loop BLOCK_SIZE (n : Int) (directoryBlockCount BLOCK_SIZE n : Int)
          (directoryBlockCount BLOCK_SIZE n) 0 0
          (BF_WriteBlock BLOCK_SIZE (BF_AllocateBlock BLOCK_SIZE BF_CreateFile)
            prj2.HEADER_BLOCK_INDEX
            (writeInt32 (writeInt32 (writeInt32 0 0 fileType) 4 (n : Int)) 8
              prj2.INVALID_BLOCK_INDEX))).2 s = some [] := by
    intro fileType hT
    have hh := header_layout BLOCK_SIZE fileType (n : Int) hBS hT (by omega) (by omega)
    rw [Int.toNat_ofNat] at hh
    have hlay := prj2.HT.create_loop_layout BLOCK_SIZE (n : Int)
      (directoryBlockCount BLOCK_SIZE n : Int) fileType n hBS
      (directoryBlockCount BLOCK_SIZE n) 0 _ (by omega) hh
    have hsl := prj2.HT.create_loop_slots BLOCK_SIZE fileType n (directoryBlockCount BLOCK_SIZE n)
      hBS hBS2 hn (directoryBlockCount BLOCK_SIZE n) 0 _ (by omega) hh
      (fun i hi1 hi2 => absurd hi2 (by omega))
    rw [Nat.zero_add, Nat.cast_zero] at hlay
    rw [Nat.zero_add, Nat.cast_zero] at hsl
    exact ⟨hlay.1, directory_wellFormed BLOCK_SIZE _ fileType n hBS hn1 hn hmod hlay.2 hsl⟩
  constructor
  · have e : prj2.HT.HT_CreateIndex BLOCK_SIZE (n : Int)
        = prj2.HT.HT_CreateIndex.loop BLOCK_SIZE (n : Int) (directoryBlockCount BLOCK_SIZE n : Int)
          (directoryBlockCount BLOCK_SIZE n) 0 0
          (BF_WriteBlock BLOCK_SIZE (BF_AllocateBlock BLOCK_SIZE BF_CreateFile)
            prj2.HEADER_BLOCK_INDEX
            (writeInt32 (writeInt32 (writeInt32 0 0 prj2.HashFile) 4 (n : Int)) 8
              prj2.INVALID_BLOCK_INDEX)) := by
      rw [prj2.HT.HT_CreateIndex]
      dsimp only
      rw [hrd0]
      dsimp only
      rw [hreq, Int.toNat_ofNat]
      rfl
    rw [e]
    exact key prj2.HashFile (by decide)
  · have e : prj2.SHT.SHT_CreateSecondaryIndex.directory BLOCK_SIZE (n : Int)
        = prj2.HT.HT_CreateIndex.loop BLOCK_SIZE (n : Int) (directoryBlockCount BLOCK_SIZE n : Int)
          (directoryBlockCount BLOCK_SIZE n) 0 0
          (BF_WriteBlock BLOCK_SIZE (BF_AllocateBlock BLOCK_SIZE BF_CreateFile)
            prj2.HEADER_BLOCK_INDEX
            (writeInt32 (writeInt32 (writeInt32 0 0 prj2.SecondaryHashFile) 4 (n : Int)) 8
              prj2.INVALID_BLOCK_INDEX)) := by
      rw [prj2.SHT.SHT_CreateSecondaryIndex.directory]
      dsimp only
      rw [hrd0]
      dsimp only
      rw [hreq, Int.toNat_ofNat, prj2.SHT.secondary_loop_eq_primary_loop]
      rfl
    rw [e]
    exact key prj2.SecondaryHashFile (by decide)

/-! ## The loops of `SHT_CreateSecondaryIndex` over the primary file -/

theorem prj2.SHT.insertAll_append (BLOCK_SIZE : Nat) (xs ys : List (Int × Nat)) :
    ∀ f, prj2.SHT.insertAll BLOCK_SIZE f (xs ++ ys)
      = (prj2.SHT.insertAll BLOCK_SIZE f xs).bind fun f' => prj2.SHT.insertAll BLOCK_SIZE f' ys := by
  induction xs with
  | nil => intro f; rfl
  | cons x xs ih =>
    intro f
    rw [List.cons_append, prj2.SHT.insertAll, prj2.SHT.insertAll]
    split
    · rfl
    · exact ih _

/-- The loop over the records of a primary data block inserts the elements of the
slots it walks, when these slots lie inside the block. -/
theorem prj2.SHT.recordLoop_eq (BLOCK_SIZE : Nat) (b : Block) (idx : Int) (k : Nat) :
    ∀ j f, prj2.sizeofHashDataBlockHeader + prj2.sizeofRecord * (j + k) ≤ BLOCK_SIZE →
      prj2.SHT.SHT_CreateSecondaryIndex.recordLoop BLOCK_SIZE b idx k j f
        = prj2.SHT.insertAll BLOCK_SIZE f
            ((List.range' j k).map fun i => (idx, elementAt prj2.sizeofRecord b i)) := by
  induction k with
  | zero => intro j f _; rfl
  | succ k ih =>
    intro j f hj
    have e := prj2.SHT.recordAt_eq b j
    unfold prj2.SHT.recordAt at e
    have hin : ¬ BLOCK_SIZE < prj2.sizeofHashDataBlockHeader + prj2.sizeofRecord * j
        + prj2.sizeofRecord := by
      unfold prj2.sizeofHashDataBlockHeader prj2.sizeofRecord at hj ⊢
      omega
    rw [List.range'_succ, List.map_cons, prj2.SHT.SHT_CreateSecondaryIndex.recordLoop,
      prj2.SHT.insertAll, if_neg hin]
    dsimp only
    rw [e]
    split
    · rfl
    · exact ih _ _ (by rw [Nat.add_right_comm]; exact hj)

/-- The loop over the data blocks of a bucket of the primary file, on a chain
that ends, inserts the elements of the chain. -/
theorem prj2.SHT.dataLoop_eq (BLOCK_SIZE : Nat) (hBS : 8 ≤ BLOCK_SIZE) (primary : File)
    (fuel : Nat) :
    ∀ start l f, chainTo BLOCK_SIZE primary fuel start = some l →
      (∀ p ∈ l, readUInt32 p.2 0 ≤ prj2.HT.MAX_RECORD_COUNT_PER_BLOCK BLOCK_SIZE) →
      prj2.SHT.SHT_CreateSecondaryIndex.dataLoop BLOCK_SIZE primary fuel start f
        = (prj2.SHT.insertAll BLOCK_SIZE f (elementsOf prj2.sizeofRecord l)).map CFlow.next := by
  induction fuel with
  | zero => intro start l f h; rw [chainTo] at h; exact absurd h (by simp)
  | succ fuel ih =>
    intro start l f h hcap
    obtain ⟨fuel', hf, hc⟩ := chainTo_cases _ _ _ _ _ h
    cases hf
    rw [prj2.SHT.SHT_CreateSecondaryIndex.dataLoop]
    rcases hc with ⟨hs, rfl⟩ | ⟨hs, b, l', hb, hr, rfl⟩
    · rw [if_pos (show start = prj2.INVALID_BLOCK_INDEX from hs)]
      rfl
    · rw [if_neg (show ¬ start = prj2.INVALID_BLOCK_INDEX from hs), hb]
      dsimp only
      rw [prj2.SHT.recordLoop_eq BLOCK_SIZE b start _ 0 f
          (prj2.HT.record_slots_fit BLOCK_SIZE hBS _ (hcap (start, b) (List.mem_cons_self _ _))),
        elementsOf_cons, prj2.SHT.insertAll_append]
      have he : (List.range' 0 (readUInt32 b 0)).map
            (fun i => (start, elementAt prj2.sizeofRecord b i))
          = (blockElements prj2.sizeofRecord b).map fun e => (start, e) := by
        unfold blockElements
        rw [List.map_map, List.range_eq_range']
        rfl
      rw [he]
      cases prj2.SHT.insertAll BLOCK_SIZE f
          ((blockElements prj2.sizeofRecord b).map fun e => (start, e)) with
      | none => rfl
      | some f1 => exact ih _ _ _ hr (fun p hp => hcap p (List.mem_cons_of_mem _ hp))

/-- The loop over the buckets of a bucket block of the primary file inserts the
elements of the buckets it walks, when their chains end. -/
theorem prj2.SHT.bucketLoop_eq (BLOCK_SIZE : Nat) (hBS : 8 ≤ BLOCK_SIZE) (primary : File)
    (bucketValues : Block) (g : Nat → List (Int × Nat)) (base : Nat) (k : Nat) :
    ∀ t f,
      (∀ t', t ≤ t' → t' < t + k →
        ∃ l, chainTo BLOCK_SIZE primary (primary.blockCount + 1)
            (readInt32 bucketValues (prj2.sizeofHashBucketBlockHeader + 4 * t')) = some l ∧
          (∀ p ∈ l, readUInt32 p.2 0 ≤ prj2.HT.MAX_RECORD_COUNT_PER_BLOCK BLOCK_SIZE) ∧
          elementsOf prj2.sizeofRecord l = g (base + t')) →
      prj2.SHT.SHT_CreateSecondaryIndex.bucketLoop BLOCK_SIZE primary bucketValues k t f
        = (prj2.SHT.insertAll BLOCK_SIZE f ((List.range' (base + t) k).flatMap g)).map
            CFlow.next := by
  induction k with
  | zero => intro t f _; rfl
  | succ k ih =>
    intro t f h
    obtain ⟨l, hl, hlcap, hg⟩ := h t (Nat.le_refl _) (by omega)
    rw [prj2.SHT.SHT_CreateSecondaryIndex.bucketLoop,
      prj2.SHT.dataLoop_eq _ hBS _ _ _ _ _ hl hlcap,
      List.range'_succ, List.flatMap_cons, prj2.SHT.insertAll_append, hg]
    cases prj2.SHT.insertAll BLOCK_SIZE f (g (base + t)) with
    | none => rfl
    | some f1 =>
      exact ih (t + 1) f1 fun t' h1 h2 => h t' (by omega) (by omega)

/-- The loop over the bucket blocks of a well-formed primary file whose data
blocks have element counts within the capacity, from bucket block `i` on,
inserts the elements of the buckets of these blocks. -/
theorem prj2.SHT.bucketBlockLoop_eq (BLOCK_SIZE : Nat) (primary : File) (n : Nat)
    (hBS : 8 ≤ BLOCK_SIZE) (hwf : WellFormed BLOCK_SIZE primary n)
    (hmod : n % prj2.MAX_BUCKET_COUNT_PER_BLOCK BLOCK_SIZE ≠ 0)
    (hcap : ∀ s, s < n → ∀ l, chainOf BLOCK_SIZE primary s = some l →
      ∀ p ∈ l, readUInt32 p.2 0 ≤ prj2.HT.MAX_RECORD_COUNT_PER_BLOCK BLOCK_SIZE) (m : Nat) :
    ∀ i fuel f, 1 ≤ i → i + m = directoryBlockCount BLOCK_SIZE n → m + 2 ≤ fuel →
      prj2.SHT.SHT_CreateSecondaryIndex.bucketBlockLoop BLOCK_SIZE primary n fuel (i : Int) f
        = (prj2.SHT.insertAll BLOCK_SIZE f
            ((List.range' ((i - 1) * prj2.MAX_BUCKET_COUNT_PER_BLOCK BLOCK_SIZE)
                (n - (i - 1) * prj2.MAX_BUCKET_COUNT_PER_BLOCK BLOCK_SIZE)).flatMap fun s =>
              match chainOf BLOCK_SIZE primary s with
              | none => []
              | some l => elementsOf prj2.sizeofRecord l)).map CFlow.next := by
  have hC1 : 1 ≤ prj2.MAX_BUCKET_COUNT_PER_BLOCK BLOCK_SIZE := by
    unfold prj2.MAX_BUCKET_COUNT_PER_BLOCK; omega
  have hD : directoryBlockCount BLOCK_SIZE n
      = n / prj2.MAX_BUCKET_COUNT_PER_BLOCK BLOCK_SIZE + 1 := by
    unfold directoryBlockCount
    rw [ceil_div_eq _ _ (by omega), if_pos (Nat.pos_of_ne_zero hmod)]
  have hCn : prj2.MAX_BUCKET_COUNT_PER_BLOCK BLOCK_SIZE ≤ 2147483647 ∨
      n / prj2.MAX_BUCKET_COUNT_PER_BLOCK BLOCK_SIZE = 0 := by
    rcases Nat.lt_or_ge n (prj2.MAX_BUCKET_COUNT_PER_BLOCK BLOCK_SIZE) with h | h
    · exact Or.inr (Nat.div_eq_of_lt h)
    · have := hwf.n_lt; exact Or.inl (by omega)
  have hdm := Nat.div_add_mod n (prj2.MAX_BUCKET_COUNT_PER_BLOCK BLOCK_SIZE)
  have hmlt := Nat.mod_lt n hC1
  -- the chains of the buckets of bucket block `i`
  have hslots : ∀ (i : Nat) (b : Block) (cnt : Nat), 1 ≤ i →
      BF_ReadBlock BLOCK_SIZE primary (i : Int) = some b →
      cnt ≤ prj2.MAX_BUCKET_COUNT_PER_BLOCK BLOCK_SIZE →
      (i - 1) * prj2.MAX_BUCKET_COUNT_PER_BLOCK BLOCK_SIZE + cnt ≤ n →
      ∀ t', 0 ≤ t' → t' < 0 + cnt →
        ∃ l, chainTo BLOCK_SIZE primary (primary.blockCount + 1)
            (readInt32 b (prj2.sizeofHashBucketBlockHeader + 4 * t')) = some l ∧
          (∀ p ∈ l, readUInt32 p.2 0 ≤ prj2.HT.MAX_RECORD_COUNT_PER_BLOCK BLOCK_SIZE) ∧
          elementsOf prj2.sizeofRecord l
            = (fun s => match chainOf BLOCK_SIZE primary s with
                | none => []
                | some l => elementsOf prj2.sizeofRecord l)
              ((i - 1) * prj2.MAX_BUCKET_COUNT_PER_BLOCK BLOCK_SIZE + t') := by
    intro i b cnt hi hb hcnt hle t' _ ht'
    have hs : (i - 1) * prj2.MAX_BUCKET_COUNT_PER_BLOCK BLOCK_SIZE + t' < n := by omega
    obtain ⟨l, hl, _⟩ := hwf.chains _ hs
    obtain ⟨bb, hbb, hch⟩ := chainOf_cases _ _ _ _ hl
    have hq : ((i - 1) * prj2.MAX_BUCKET_COUNT_PER_BLOCK BLOCK_SIZE + t')
        / prj2.MAX_BUCKET_COUNT_PER_BLOCK BLOCK_SIZE = i - 1 := by
      rw [Nat.add_comm, Nat.add_mul_div_right _ _ (by omega), Nat.div_eq_of_lt (by omega),
        Nat.zero_add]
    have hr : ((i - 1) * prj2.MAX_BUCKET_COUNT_PER_BLOCK BLOCK_SIZE + t')
        % prj2.MAX_BUCKET_COUNT_PER_BLOCK BLOCK_SIZE = t' := by
      rw [Nat.add_comm, Nat.add_mul_mod_self_right, Nat.mod_eq_of_lt (by omega)]
    rw [hq, show 1 + (i - 1) = i by omega, hb] at hbb
    cases hbb
    rw [hr] at hch
    refine ⟨l, hch, hcap _ hs l hl, ?_⟩
    dsimp only
    rw [hl]
  induction m with
  | zero =>
    intro i fuel f hi him hfuel
    obtain ⟨fuel, rfl⟩ := Nat.exists_eq_add_of_le hfuel
    obtain ⟨b, hb, hnext⟩ := hwf.links i hi (by omega)
    rw [if_pos (by omega)] at hnext
    have hi1 : i - 1 = n / prj2.MAX_BUCKET_COUNT_PER_BLOCK BLOCK_SIZE := by omega
    have hbase : (i - 1) * prj2.MAX_BUCKET_COUNT_PER_BLOCK BLOCK_SIZE
        + n % prj2.MAX_BUCKET_COUNT_PER_BLOCK BLOCK_SIZE = n := by
      rw [hi1, Nat.mul_comm]; exact hdm
    have hcnt : n - (i - 1) * prj2.MAX_BUCKET_COUNT_PER_BLOCK BLOCK_SIZE
        = n % prj2.MAX_BUCKET_COUNT_PER_BLOCK BLOCK_SIZE := by omega
    have hmn : n % prj2.MAX_BUCKET_COUNT_PER_BLOCK BLOCK_SIZE < 2147483648 := by
      have := Nat.mod_le n (prj2.MAX_BUCKET_COUNT_PER_BLOCK BLOCK_SIZE)
      have := hwf.n_lt
      omega
    rw [show 0 + 2 + fuel = (fuel + 1) + 1 by omega,
      prj2.SHT.SHT_CreateSecondaryIndex.bucketBlockLoop,
      if_neg (show ¬ ((i : Nat) : Int) = prj2.INVALID_BLOCK_INDEX by
        unfold prj2.INVALID_BLOCK_INDEX; omega), hb]
    dsimp only
    rw [hnext, if_pos (show (-1 : Int) = prj2.INVALID_BLOCK_INDEX from rfl),
      toInt32_of_range (n % prj2.MAX_BUCKET_COUNT_PER_BLOCK BLOCK_SIZE : Nat) (by omega) (by omega),
      toUInt32_natCast _ (by omega),
      prj2.SHT.bucketLoop_eq BLOCK_SIZE hBS primary b
        (fun s => match chainOf BLOCK_SIZE primary s with
          | none => []
          | some l => elementsOf prj2.sizeofRecord l)
        ((i - 1) * prj2.MAX_BUCKET_COUNT_PER_BLOCK BLOCK_SIZE)
        (n % prj2.MAX_BUCKET_COUNT_PER_BLOCK BLOCK_SIZE) 0 f
        (hslots i b (n % prj2.MAX_BUCKET_COUNT_PER_BLOCK BLOCK_SIZE) hi hb (by omega) (by omega)),
      hcnt, Nat.add_zero]
    cases prj2.SHT.insertAll BLOCK_SIZE f _ with
    | none => rfl
    | some f1 =>
      dsimp only [Option.map]
      rw [prj2.SHT.SHT_CreateSecondaryIndex.bucketBlockLoop,
        if_pos (show (-1 : Int) = prj2.INVALID_BLOCK_INDEX from rfl)]
  | succ m ih =>
    intro i fuel f hi him hfuel
    obtain ⟨fuel, rfl⟩ := Nat.exists_eq_add_of_le hfuel
    obtain ⟨b, hb, hnext⟩ := hwf.links i hi (by omega)
    rw [if_neg (by omega)] at hnext
    have hiC : i * prj2.MAX_BUCKET_COUNT_PER_BLOCK BLOCK_SIZE ≤ n := by
      have h1 : i ≤ n / prj2.MAX_BUCKET_COUNT_PER_BLOCK BLOCK_SIZE := by omega
      have h2 := Nat.mul_le_mul_right (prj2.MAX_BUCKET_COUNT_PER_BLOCK BLOCK_SIZE) h1
      have h3 := Nat.div_mul_le_self n (prj2.MAX_BUCKET_COUNT_PER_BLOCK BLOCK_SIZE)
      omega
    have hbase : (i - 1) * prj2.MAX_BUCKET_COUNT_PER_BLOCK BLOCK_SIZE
        + prj2.MAX_BUCKET_COUNT_PER_BLOCK BLOCK_SIZE
        = i * prj2.MAX_BUCKET_COUNT_PER_BLOCK BLOCK_SIZE := by
      obtain ⟨i', rfl⟩ := Nat.exists_eq_add_of_le hi
      rw [Nat.add_sub_cancel_left, Nat.add_mul, Nat.one_mul, Nat.add_comm]
    have hCle : prj2.MAX_BUCKET_COUNT_PER_BLOCK BLOCK_SIZE < 2147483648 := by
      have h1 : 1 * prj2.MAX_BUCKET_COUNT_PER_BLOCK BLOCK_SIZE
          ≤ i * prj2.MAX_BUCKET_COUNT_PER_BLOCK BLOCK_SIZE := Nat.mul_le_mul_right _ hi
      have := hwf.n_lt
      omega
    have hib := hwf.blockCount_lt
    have hdl := hwf.directory_le
    rw [show m + 1 + 2 + fuel = (m + 2 + fuel) + 1 by omega,
      prj2.SHT.SHT_CreateSecondaryIndex.bucketBlockLoop,
      if_neg (show ¬ ((i : Nat) : Int) = prj2.INVALID_BLOCK_INDEX by
        unfold prj2.INVALID_BLOCK_INDEX; omega), hb]
    dsimp only
    rw [hnext, if_neg (show ¬ ((i : Nat) : Int) + 1 = prj2.INVALID_BLOCK_INDEX by
        unfold prj2.INVALID_BLOCK_INDEX; omega),
      toInt32_of_range (prj2.MAX_BUCKET_COUNT_PER_BLOCK BLOCK_SIZE : Nat) (by omega) (by omega),
      toUInt32_natCast _ (by omega),
      prj2.SHT.bucketLoop_eq BLOCK_SIZE hBS primary b
        (fun s => match chainOf BLOCK_SIZE primary s with
          | none => []
          | some l => elementsOf prj2.sizeofRecord l)
        ((i - 1) * prj2.MAX_BUCKET_COUNT_PER_BLOCK BLOCK_SIZE)
        (prj2.MAX_BUCKET_COUNT_PER_BLOCK BLOCK_SIZE) 0 f
        (hslots i b (prj2.MAX_BUCKET_COUNT_PER_BLOCK BLOCK_SIZE) hi hb (Nat.le_refl _)
          (by omega)),
      Nat.add_zero]
    have hsplit : List.range' ((i - 1) * prj2.MAX_BUCKET_COUNT_PER_BLOCK BLOCK_SIZE)
          (n - (i - 1) * prj2.MAX_BUCKET_COUNT_PER_BLOCK BLOCK_SIZE)
        = List.range' ((i - 1) * prj2.MAX_BUCKET_COUNT_PER_BLOCK BLOCK_SIZE)
            (prj2.MAX_BUCKET_COUNT_PER_BLOCK BLOCK_SIZE)
          ++ List.range' (i * prj2.MAX_BUCKET_COUNT_PER_BLOCK BLOCK_SIZE)
            (n - i * prj2.MAX_BUCKET_COUNT_PER_BLOCK BLOCK_SIZE) := by
      rw [← hbase, List.range'_append_1]
      congr 1
      omega
    rw [hsplit, List.flatMap_append, prj2.SHT.insertAll_append]
    cases prj2.SHT.insertAll BLOCK_SIZE f _ with
    | none => rfl
    | some f1 =>
      dsimp only [Option.map, Option.bind]
      have := ih (i + 1) (m + 2 + fuel) f1 (by omega) (by omega) (by omega)
      rw [Nat.add_sub_cancel] at this
      rw [show ((i : Nat) : Int) + 1 = ((i + 1 : Nat) : Int) by push_cast; ring]
      exact this

/-- The loops of `SHT_CreateSecondaryIndex` over a well-formed primary file whose
data blocks have element counts within the capacity insert the stored elements
of the primary file, in order. -/
theorem prj2.SHT.bootstrap_eq (BLOCK_SIZE : Nat) (primary : File) (n : Nat)
    (hBS : 8 ≤ BLOCK_SIZE) (hwf : WellFormed BLOCK_SIZE primary n)
    (hmod : n % prj2.MAX_BUCKET_COUNT_PER_BLOCK BLOCK_SIZE ≠ 0)
    (hcap : ∀ s, s < n → ∀ l, chainOf BLOCK_SIZE primary s = some l →
      ∀ p ∈ l, readUInt32 p.2 0 ≤ prj2.HT.MAX_RECORD_COUNT_PER_BLOCK BLOCK_SIZE) (f : File) :
    prj2.SHT.SHT_CreateSecondaryIndex.bootstrap BLOCK_SIZE primary f
      = (prj2.SHT.insertAll BLOCK_SIZE f
          (storedElements BLOCK_SIZE prj2.sizeofRecord primary n)).map CFlow.next := by
  obtain ⟨h, hh, hn, hnext⟩ := hwf.header
  have hD := directoryBlockCount_pos BLOCK_SIZE n hBS hwf.n_pos
  have hdl := hwf.directory_le
  have := prj2.SHT.bucketBlockLoop_eq BLOCK_SIZE primary n hBS hwf hmod hcap
    (directoryBlockCount BLOCK_SIZE n - 1) 1 (primary.blockCount + 1) f (Nat.le_refl _)
    (by omega) (by omega)
  rw [Nat.sub_self, Nat.zero_mul, Nat.sub_zero, ← List.range_eq_range'] at this
  unfold prj2.SHT.SHT_CreateSecondaryIndex.bootstrap
  rw [show prj2.HEADER_BLOCK_INDEX = 0 from rfl, hh]
  dsimp only
  rw [hn, hnext]
  exact this

/-! ## The secondary file after the inserts of the records of the primary file -/

/-- The inserts of a list of elements, with surnames of at most 24 characters,
into a well-formed secondary file whose data blocks have element counts within
the capacity all return; afterwards every one of the elements has its surname in
the file, and every surname in the file has a segment that refers to the block
of an element (of the list `all`) with that surname. -/
theorem prj2.SHT.insertAll_spec (BLOCK_SIZE : Nat) (h1 : 40 ≤ BLOCK_SIZE)
    (h2 : BLOCK_SIZE < 4294967296) (n : Nat) (all : List (Int × Nat))
    (hall : ∀ x ∈ all, 0 ≤ x.1 ∧ x.1 < 2147483648) (deleted : List Int) :
    ∀ (xs : List (Int × Nat)) (f : File), WellFormed BLOCK_SIZE f n →
      CountsInRange BLOCK_SIZE (prj2.SHT.MAX_DATA_SEGMENT_COUNT_PER_BLOCK BLOCK_SIZE)
        (directoryBlockCount BLOCK_SIZE n) f deleted →
      (∀ x ∈ xs, (prj2.cString (prj2.charArray (prj2.readRecord x.2 0).Surname 25)).length < 25) →
      f.blockCount + xs.length + 1 < 2147483648 → (∀ x ∈ xs, x ∈ all) →
      (∀ key seg, prj2.SHT.firstMatch (prj2.SHT.keyChain BLOCK_SIZE f key) key = some seg →
        ∃ x ∈ all, x.1 = seg.BlockID ∧
          prj2.SHT.sameSurname (prj2.readRecord x.2 0).Surname key) →
      ∃ f', prj2.SHT.insertAll BLOCK_SIZE f xs = some f' ∧ WellFormed BLOCK_SIZE f' n ∧
        CountsInRange BLOCK_SIZE (prj2.SHT.MAX_DATA_SEGMENT_COUNT_PER_BLOCK BLOCK_SIZE)
          (directoryBlockCount BLOCK_SIZE n) f' deleted ∧
        f'.blockCount ≤ f.blockCount + xs.length ∧
        (∀ key seg, prj2.SHT.firstMatch (prj2.SHT.keyChain BLOCK_SIZE f' key) key = some seg →
          ∃ x ∈ all, x.1 = seg.BlockID ∧
            prj2.SHT.sameSurname (prj2.readRecord x.2 0).Surname key) ∧
        (∀ key, prj2.SHT.firstMatch (prj2.SHT.keyChain BLOCK_SIZE f key) key ≠ none →
          prj2.SHT.firstMatch (prj2.SHT.keyChain BLOCK_SIZE f' key) key ≠ none) ∧
        ∀ x ∈ xs,
          prj2.SHT.firstMatch
              (prj2.SHT.keyChain BLOCK_SIZE f' (prj2.charArray (prj2.readRecord x.2 0).Surname 25))
              (prj2.charArray (prj2.readRecord x.2 0).Surname 25) ≠ none := by
  intro xs
  induction xs with
  | nil =>
    intro f hwf hcounts _ _ _ hgood
    exact ⟨f, rfl, hwf, hcounts, Nat.le_refl _, hgood, fun _ h => h,
      fun x hx => absurd hx (List.not_mem_nil _)⟩
  | cons x xs ih =>
    intro f hwf hcounts hshort hsize hxs hgood
    rw [List.length_cons] at hsize
    obtain ⟨hdup, hnew⟩ := prj2.SHT.insert_of_wellFormed BLOCK_SIZE h1 h2 f n hwf (by omega)
      { Record := prj2.readRecord x.2 0, BlockID := x.1 } (hshort x (List.mem_cons_self _ _))
      (prj2.SHT.keyChain_counts BLOCK_SIZE (by omega) f n hwf _ deleted hcounts _)
    dsimp only at hdup hnew
    have hshort' : ∀ y ∈ xs,
        (prj2.cString (prj2.charArray (prj2.readRecord y.2 0).Surname 25)).length < 25 :=
      fun y hy => hshort y (List.mem_cons_of_mem _ hy)
    by_cases hfm : prj2.SHT.firstMatch
        (prj2.SHT.keyChain BLOCK_SIZE f (prj2.charArray (prj2.readRecord x.2 0).Surname 25))
        (prj2.charArray (prj2.readRecord x.2 0).Surname 25) = none
    · -- the surname is new: the segment is stored
      obtain ⟨f1, hins, hwf1, _, hle, hframe⟩ := hnew hfm
      obtain ⟨hx0, hx1⟩ := hall x (hxs x (List.mem_cons_self _ _))
      have hgood1 : ∀ key seg,
          prj2.SHT.firstMatch (prj2.SHT.keyChain BLOCK_SIZE f1 key) key = some seg →
          ∃ y ∈ all, y.1 = seg.BlockID ∧
            prj2.SHT.sameSurname (prj2.readRecord y.2 0).Surname key := by
        intro key seg hseg
        rw [hframe key] at hseg
        split at hseg
        · rename_i hk
          cases hseg
          refine ⟨x, hxs x (List.mem_cons_self _ _), ?_, hk.symm⟩
          exact (toInt32_of_range x.1 (by omega) (by omega)).symm
        · exact hgood key seg hseg
      have hmono1 : ∀ key,
          prj2.SHT.firstMatch (prj2.SHT.keyChain BLOCK_SIZE f key) key ≠ none →
          prj2.SHT.firstMatch (prj2.SHT.keyChain BLOCK_SIZE f1 key) key ≠ none := by
        intro key hk
        rw [hframe key]
        split
        · exact fun h => Option.noConfusion h
        · exact hk
      have hx : prj2.SHT.firstMatch
          (prj2.SHT.keyChain BLOCK_SIZE f1 (prj2.charArray (prj2.readRecord x.2 0).Surname 25))
          (prj2.charArray (prj2.readRecord x.2 0).Surname 25) ≠ none := by
        rw [hframe, if_pos rfl]
        exact fun h => Option.noConfusion h
      have hcounts1 := prj2.SHT.secondary_insert_counts BLOCK_SIZE h1 h2 _ f deleted
        { Record := prj2.readRecord x.2 0, BlockID := x.1 } 0 f1 hins hcounts
      obtain ⟨f', hf', hwf', hcounts', hcount, hgood', hmono, hfound⟩ :=
        ih f1 hwf1 hcounts1 hshort' (by omega) (fun y hy => hxs y (List.mem_cons_of_mem _ hy))
          hgood1
      refine ⟨f', ?_, hwf', hcounts', by rw [List.length_cons]; omega, hgood',
        fun key hk => hmono key (hmono1 key hk), ?_⟩
      · rw [prj2.SHT.insertAll, hins]
        exact hf'
      · intro y hy
        rcases List.mem_cons.mp hy with rfl | hy'
        · exact hmono _ hx
        · exact hfound y hy'
    · -- the surname is in the file: the insert returns `-1` and the file stays
      have hins := hdup hfm
      obtain ⟨f', hf', hwf', hcounts', hcount, hgood', hmono, hfound⟩ :=
        ih f hwf hcounts hshort' (by omega) (fun y hy => hxs y (List.mem_cons_of_mem _ hy)) hgood
      refine ⟨f', ?_, hwf', hcounts', by rw [List.length_cons]; omega, hgood', hmono, ?_⟩
      · rw [prj2.SHT.insertAll, hins]
        exact hf'
      · intro y hy
        rcases List.mem_cons.mp hy with rfl | hy'
        · exact hmono _ hfm
        · exact hfound y hy'

/-! ## The stored elements of a hash file -/

theorem mem_elementsOf (size : Nat) (l : List (Int × Block)) (x : Int × Nat) :
    x ∈ elementsOf size l ↔ ∃ p ∈ l, x.1 = p.1 ∧ x.2 ∈ blockElements size p.2 := by
  unfold elementsOf
  rw [List.mem_flatMap]
  constructor
  · rintro ⟨p, hp, hx⟩
    obtain ⟨e, he, rfl⟩ := List.mem_map.mp hx
    exact ⟨p, hp, rfl, he⟩
  · rintro ⟨p, hp, h1, h2⟩
    refine ⟨p, hp, List.mem_map.mpr ⟨x.2, h2, ?_⟩⟩
    rw [← h1]

theorem mem_storedElements (BLOCK_SIZE size : Nat) (f : File) (n : Nat) (x : Int × Nat) :
    x ∈ storedElements BLOCK_SIZE size f n
      ↔ ∃ s, s < n ∧ ∃ l, chainOf BLOCK_SIZE f s = some l ∧ x ∈ elementsOf size l := by
  unfold storedElements
  rw [List.mem_flatMap]
  constructor
  · rintro ⟨s, hs, hx⟩
    split at hx
    · exact absurd hx (List.not_mem_nil _)
    · rename_i l hl
      exact ⟨s, List.mem_range.mp hs, l, hl, hx⟩
  · rintro ⟨s, hs, l, hl, hx⟩
    refine ⟨s, List.mem_range.mpr hs, ?_⟩
    rw [hl]
    exact hx

/-- A stored element lies in a block of the file, at the index it is paired with,
and all the elements of that block are stored elements. -/
theorem storedElements_block (BLOCK_SIZE size : Nat) (f : File) (n : Nat) (x : Int × Nat)
    (hx : x ∈ storedElements BLOCK_SIZE size f n) :
    ∃ pb, BF_ReadBlock BLOCK_SIZE f x.1 = some pb ∧ x.2 ∈ blockElements size pb ∧
      ∀ j, j < readUInt32 pb 0 →
        (x.1, elementAt size pb j) ∈ storedElements BLOCK_SIZE size f n := by
  obtain ⟨s, hs, l, hl, hxl⟩ := (mem_storedElements _ _ _ _ _).mp hx
  obtain ⟨p, hp, h1, h2⟩ := (mem_elementsOf _ _ _).mp hxl
  obtain ⟨bb, _, hch⟩ := chainOf_cases _ _ _ _ hl
  have hrd := chainTo_mem _ _ _ _ _ hch p hp
  refine ⟨p.2, by rw [h1]; exact hrd, h2, ?_⟩
  intro j hj
  refine (mem_storedElements _ _ _ _ _).mpr ⟨s, hs, l, hl, ?_⟩
  exact (mem_elementsOf _ _ _).mpr ⟨p, hp, h1, (mem_blockElements _ _ _).mpr ⟨j, hj, rfl⟩⟩

/-- A `HT_InsertEntry` that returns, on any file: the element counts of the blocks
behind the bucket blocks stay in range. -/
theorem prj2.HT.primary_insert_counts (BLOCK_SIZE : Nat) (h1 : 104 ≤ BLOCK_SIZE)
    (h2 : BLOCK_SIZE < 4294967296) (D : Nat) (f : File) (deleted : List Int)
    (record : prj2.Record) (code : Int) (f' : File)
    (h : prj2.HT.HT_InsertEntry BLOCK_SIZE f record = some (code, f'))
    (hc : CountsInRange BLOCK_SIZE (prj2.HT.MAX_RECORD_COUNT_PER_BLOCK BLOCK_SIZE) D f deleted) :
    CountsInRange BLOCK_SIZE (prj2.HT.MAX_RECORD_COUNT_PER_BLOCK BLOCK_SIZE) D f' deleted := by
  rw [prj2.HT.HT_InsertEntry_eq] at h
  exact (prj2.HT.insertEngine BLOCK_SIZE).insert_counts BLOCK_SIZE
    (prj2.HT.HT_insertEngine_fits BLOCK_SIZE h1 h2) D f deleted _ _ _ code f' h hc

/-- The inserts of a list of records, when they return: the element counts of the
blocks behind the bucket blocks stay in range. -/
theorem prj2.HT.insertAll_counts (BLOCK_SIZE : Nat) (h1 : 104 ≤ BLOCK_SIZE)
    (h2 : BLOCK_SIZE < 4294967296) (D : Nat) (deleted : List Int) :
    ∀ (records : List prj2.Record) (f : File) (codes : List Int) (f' : File),
      prj2.HT.insertAll BLOCK_SIZE f records = some (codes, f') →
      CountsInRange BLOCK_SIZE (prj2.HT.MAX_RECORD_COUNT_PER_BLOCK BLOCK_SIZE) D f deleted →
      CountsInRange BLOCK_SIZE (prj2.HT.MAX_RECORD_COUNT_PER_BLOCK BLOCK_SIZE) D f' deleted := by
  intro records
  induction records with
  | nil =>
    intro f codes f' h hc
    rw [prj2.HT.insertAll] at h
    cases h
    exact hc
  | cons r rs ih =>
    intro f codes f' h hc
    rw [prj2.HT.insertAll] at h
    split at h
    · exact absurd h (by simp)
    · rename_i code f1 hins
      split at h
      · exact absurd h (by simp)
      · rename_i codes' f2 hrest
        cases h
        exact ih f1 codes' _ hrest
          (prj2.HT.primary_insert_counts BLOCK_SIZE h1 h2 D f deleted r code f1 hins hc)

/-- The block of a stored element has an element count within the capacity, when
the blocks of the chains have. -/
theorem storedElements_count (BLOCK_SIZE size : Nat) (f : File) (n : Nat) (capacity : Nat)
    (hcap : ∀ s, s < n → ∀ l, chainOf BLOCK_SIZE f s = some l →
      ∀ p ∈ l, readUInt32 p.2 0 ≤ capacity)
    (x : Int × Nat) (hx : x ∈ storedElements BLOCK_SIZE size f n) (pb : Block)
    (hpb : BF_ReadBlock BLOCK_SIZE f x.1 = some pb) : readUInt32 pb 0 ≤ capacity := by
  obtain ⟨s, hs, l, hl, hxl⟩ := (mem_storedElements _ _ _ _ _).mp hx
  obtain ⟨p, hp, h1, _⟩ := (mem_elementsOf _ _ _).mp hxl
  obtain ⟨bb, _, hch⟩ := chainOf_cases _ _ _ _ hl
  have hrd := chainTo_mem _ _ _ _ _ hch p hp
  rw [h1, hrd] at hpb
  cases hpb
  exact hcap s hs l hl p hp

/-- An insert into a well-formed primary file with room for one more block
returns; the file stays well formed and grows by one block at most, the elements
stored before are still stored, and when the code is not `-1` the record is
stored in the block of that index. -/
theorem prj2.HT.insert_wellFormed (BLOCK_SIZE : Nat) (h1 : 104 ≤ BLOCK_SIZE)
    (h2 : BLOCK_SIZE < 4294967296) (f : File) (n : Nat) (hwf : WellFormed BLOCK_SIZE f n)
    (hbc : f.blockCount + 1 < 2147483648) (record : prj2.Record) :
    ∃ b f', prj2.HT.HT_InsertEntry BLOCK_SIZE f record = some (b, f') ∧
      WellFormed BLOCK_SIZE f' n ∧ f'.blockCount ≤ f.blockCount + 1 ∧
      (∀ x ∈ storedElements BLOCK_SIZE prj2.sizeofRecord f n,
        x ∈ storedElements BLOCK_SIZE prj2.sizeofRecord f' n) ∧
      (b ≠ -1 → (b, record.toBytes % 256 ^ prj2.sizeofRecord)
        ∈ storedElements BLOCK_SIZE prj2.sizeofRecord f' n) := by
  have hn1 := hwf.n_pos
  have hn2 := hwf.n_lt
  have hr0 : 0 ≤ prj2.HT.HashFunction record.ID (n : Int) := by
    unfold prj2.HT.HashFunction
    exact Int.tmod_nonneg _ (xor_shiftRight_nonneg _ _)
  have hr1 : prj2.HT.HashFunction record.ID (n : Int) < (n : Int) := by
    unfold prj2.HT.HashFunction
    exact Int.tmod_lt_of_pos _ (by omega)
  obtain ⟨s0, hs0⟩ := Int.eq_ofNat_of_zero_le hr0
  have hlt : s0 < n := by omega
  obtain ⟨l, hl, _⟩ := hwf.chains s0 hlt
  rw [prj2.HT.HT_InsertEntry_eq]
  obtain ⟨hdup, hnew⟩ := (prj2.HT.insertEngine BLOCK_SIZE).insert_cases BLOCK_SIZE
    (prj2.HT.HT_insertEngine_fits BLOCK_SIZE h1 h2) f n hwf hbc
    (fun hashTableSize => prj2.HT.HashFunction record.ID hashTableSize)
    (fun b => prj2.HT.findRecord b record.ID (readUInt32 b 0) 0) record.toBytes s0 hs0 hlt l hl
  by_cases hd : ∃ p ∈ l, prj2.HT.findRecord p.2 record.ID (readUInt32 p.2 0) 0 ≠ none
  · exact ⟨-1, f, hdup hd, hwf, Nat.le_add_right _ _, fun x hx => hx, fun h => absurd rfl h⟩
  · have hnone : ∀ p ∈ l, prj2.HT.findRecord p.2 record.ID (readUInt32 p.2 0) 0 = none := by
      intro p hp
      by_contra hne
      exact hd ⟨p, hp, hne⟩
    obtain ⟨f', idx, hins, hst⟩ := hnew hnone
    have hst' : InsertEngine.Stored BLOCK_SIZE prj2.sizeofRecord n f f' s0
        (idx, record.toBytes % 256 ^ prj2.sizeofRecord) := hst
    refine ⟨idx, f', hins, hst'.wellFormed, hst'.blockCount_le, ?_, ?_⟩
    · intro x hx
      obtain ⟨s, hs, l1, hl1, hx1⟩ := (mem_storedElements _ _ _ _ _).mp hx
      obtain ⟨l', hl', hins'⟩ := hst'.chains s hs l1 hl1
      exact (mem_storedElements _ _ _ _ _).mpr ⟨s, hs, l', hl', hins'.mem_of_mem hx1⟩
    · intro _
      obtain ⟨l', hl', hmem⟩ := hst'.stored
      exact (mem_storedElements _ _ _ _ _).mpr ⟨s0, hlt, l', hl', hmem⟩

/-- The inserts of a list of records into a well-formed primary file with room
for them all return; the file stays well formed, and every record whose insert
did not return `-1` is stored afterwards. -/
theorem prj2.HT.insertAll_wellFormed (BLOCK_SIZE : Nat) (h1 : 104 ≤ BLOCK_SIZE)
    (h2 : BLOCK_SIZE < 4294967296) (n : Nat) :
    ∀ (records : List prj2.Record) (f : File), WellFormed BLOCK_SIZE f n →
      f.blockCount + records.length < 2147483648 →
      ∃ codes f', prj2.HT.insertAll BLOCK_SIZE f records = some (codes, f') ∧
        WellFormed BLOCK_SIZE f' n ∧ f'.blockCount ≤ f.blockCount + records.length ∧
        (∀ x ∈ storedElements BLOCK_SIZE prj2.sizeofRecord f n,
          x ∈ storedElements BLOCK_SIZE prj2.sizeofRecord f' n) ∧
        codes.length = records.length ∧
        ∀ p ∈ List.zip records codes, p.2 ≠ -1 → p.1.InRange →
          p.1 ∈ storedRecords BLOCK_SIZE f' n := by
  intro records
  induction records with
  | nil =>
    intro f hwf _
    exact ⟨[], f, rfl, hwf, Nat.le_refl _, fun _ hx => hx, rfl,
      fun p hp => absurd hp (List.not_mem_nil _)⟩
  | cons r rs ih =>
    intro f hwf hsize
    rw [List.length_cons] at hsize
    obtain ⟨b, f1, hins, hwf1, hle1, hold1, hnew1⟩ :=
      prj2.HT.insert_wellFormed BLOCK_SIZE h1 h2 f n hwf (by omega) r
    obtain ⟨codes, f', hall, hwf', hle', hold', hlen, hst⟩ := ih f1 hwf1 (by omega)
    refine ⟨b :: codes, f', ?_, hwf', by rw [List.length_cons]; omega,
      fun x hx => hold' x (hold1 x hx), by rw [List.length_cons, List.length_cons, hlen], ?_⟩
    · rw [prj2.HT.insertAll, hins]
      dsimp only
      rw [hall]
    · intro p hp hcode hrange
      rw [List.zip_cons_cons] at hp
      rcases List.mem_cons.mp hp with rfl | hp'
      · exact List.mem_map.mpr ⟨_, hold' _ (hnew1 hcode), prj2.readRecord_toBytes _ hrange⟩
      · exact hst p hp' hcode hrange

/-- A primary file that is built by `HT_CreateIndex`, with a bucket count that is
not a multiple of the capacity of a bucket block, and by inserts is well formed,
and the records whose inserts did not return `-1` are stored in it. -/
theorem prj2.HT.fileOf_wellFormed (BLOCK_SIZE : Nat) (h1 : 104 ≤ BLOCK_SIZE)
    (h2 : BLOCK_SIZE < 4294967296) (n : Nat) (hn1 : 1 ≤ n) (hn : n < 2147483648)
    (hmod : n % prj2.MAX_BUCKET_COUNT_PER_BLOCK BLOCK_SIZE ≠ 0) (records : List prj2.Record)
    (hsize : 1 + directoryBlockCount BLOCK_SIZE n + records.length < 2147483648) :
    ∃ codes, prj2.HT.insertAll BLOCK_SIZE (prj2.HT.HT_CreateIndex BLOCK_SIZE (n : Int)).2 records
        = some (codes, prj2.HT.fileOf BLOCK_SIZE (n : Int) records) ∧
      WellFormed BLOCK_SIZE (prj2.HT.fileOf BLOCK_SIZE (n : Int) records) n ∧
      codes.length = records.length ∧
      ∀ p ∈ List.zip records codes, p.2 ≠ -1 → p.1.InRange →
        p.1 ∈ storedRecords BLOCK_SIZE (prj2.HT.fileOf BLOCK_SIZE (n : Int) records) n := by
  obtain ⟨⟨_, hwf, hbc, _⟩, _⟩ := create_wellFormed BLOCK_SIZE n (by omega) h2 hn1 hn hmod
  obtain ⟨codes, f', hall, hwf', _, _, hlen, hst⟩ :=
    prj2.HT.insertAll_wellFormed BLOCK_SIZE h1 h2 n records _ hwf (by rw [hbc]; exact hsize)
  have e : prj2.HT.fileOf BLOCK_SIZE (n : Int) records = f' := by
    unfold prj2.HT.fileOf
    rw [hall]
  rw [e]
  exact ⟨codes, hall, hwf', hlen, hst⟩

/-- In a well-formed secondary file whose buckets are all empty no surname has a
segment. -/
theorem prj2.SHT.firstMatch_of_empty (BLOCK_SIZE : Nat) (f : File) (n : Nat)
    (hBS : 8 ≤ BLOCK_SIZE) (hwf : WellFormed BLOCK_SIZE f n)
    (hempty : ∀ s, s < n → chainOf BLOCK_SIZE f s = some []) (key : List Nat) :
    prj2.SHT.firstMatch (prj2.SHT.keyChain BLOCK_SIZE f key) key = none := by
  obtain ⟨hlt, _, _, _, hch⟩ := prj2.SHT.keyChain_of_wellFormed BLOCK_SIZE f n hBS hwf key
  rw [hempty _ hlt] at hch
  rw [← Option.some.inj hch]
  rfl

/-! ## The secondary index made over a primary file, and its lookups -/

/-- C12, counterexample.  (a) The primary file `demoPrimary` (3 buckets) is built
by `HT_CreateIndex` and the inserts of four records; the records with the IDs 1
and 3 share the surname `A`.  `SHT_CreateSecondaryIndex` with 5 buckets succeeds
over it, and the lookup of the surname of the record with the ID 1 succeeds and
emits the one record with the ID 3.  (b) The primary file `twinPrimary` (3
buckets) is built by `HT_CreateIndex` and the inserts of two records, of which
`longRecord 1 88` has an array `Surname` of 25 characters `A` without a zero
byte, so that the string at `Surname` has the 26 characters `A...AX`.
`SHT_CreateSecondaryIndex` with 5 buckets succeeds over it, and
`SHT_SecondaryGetAllEntries` with that string as key has no result, since it
copies the key behind the 25 bytes of its buffer `key`; neither has the call
with the 25 characters of the array. -/
theorem prj2.SHT.bootstrap_shared_surname :
    (prj2.HT.recordOf 1 65 ∈ storedRecords 512 prj2.SHT.demoPrimary 3 ∧
      prj2.SHT.SHT_CreateSecondaryIndex.bootstrap 512 prj2.SHT.demoPrimary
          (prj2.SHT.SHT_CreateSecondaryIndex.directory 512 5).2
        = some (CFlow.next prj2.SHT.demoSecondary) ∧
      prj2.SHT.SHT_SecondaryGetAllEntries 512 prj2.SHT.demoSecondary prj2.SHT.demoPrimary
          (some (prj2.charArray (prj2.HT.recordOf 1 65).Surname 25))
        = some (4, [prj2.HT.recordOf 3 65]) ∧
      prj2.HT.recordOf 3 65 ≠ prj2.HT.recordOf 1 65) ∧
    (prj2.SHT.longRecord 1 88 ∈ storedRecords 512 prj2.SHT.twinPrimary 3 ∧
      (prj2.SHT.longRecord 1 88).surnameString = some (List.replicate 25 65 ++ [88]) ∧
      prj2.SHT.SHT_CreateSecondaryIndex.bootstrap 512 prj2.SHT.twinPrimary
          (prj2.SHT.SHT_CreateSecondaryIndex.directory 512 5).2
        = some (CFlow.next prj2.SHT.twinSecondary) ∧
      prj2.SHT.SHT_SecondaryGetAllEntries 512 prj2.SHT.twinSecondary prj2.SHT.twinPrimary
          (some (List.replicate 25 65 ++ [88])) = none ∧
      prj2.SHT.SHT_SecondaryGetAllEntries 512 prj2.SHT.twinSecondary prj2.SHT.twinPrimary
          (some (prj2.charArray (prj2.SHT.longRecord 1 88).Surname 25)) = none) := by
  decide!

/-- Let `primary` be a well-formed primary file of `n1` buckets and `n2` a bucket
count, neither a multiple of the capacity of a bucket block, with block counts
that fit; the data blocks of `primary` have element counts within the capacity
and its stored records have surnames of at most 24 characters.  Then
`SHT_CreateSecondaryIndex` over `primary` with `n2` buckets makes
its directory (code 0) and its loops over the primary file reach their end,
leaving a file `secondary`; and for every record `r` stored in `primary`,
`SHT_SecondaryGetAllEntries` with the key `r.Surname` returns a positive block
count and emits one record: a record stored in `primary` whose surname is that
of `r`, which is `r` itself when no other stored record has that surname. -/
theorem prj2.SHT.bootstrap_lookup_of_wellFormed (BLOCK_SIZE : Nat) (h1 : 104 ≤ BLOCK_SIZE)
    (h2 : BLOCK_SIZE < 4294967296) (primary : File) (n1 n2 : Nat)
    (hwf : WellFormed BLOCK_SIZE primary n1)
    (hn1 : n1 % prj2.MAX_BUCKET_COUNT_PER_BLOCK BLOCK_SIZE ≠ 0)
    (hn2 : 1 ≤ n2) (hn2lt : n2 < 2147483648)
    (hn2m : n2 % prj2.MAX_BUCKET_COUNT_PER_BLOCK BLOCK_SIZE ≠ 0)
    (hsize : directoryBlockCount BLOCK_SIZE n2 + (storedRecords BLOCK_SIZE primary n1).length + 2
      < 1073741823)
    (deleted : List Int)
    (hcounts : CountsInRange BLOCK_SIZE (prj2.HT.MAX_RECORD_COUNT_PER_BLOCK BLOCK_SIZE)
      (directoryBlockCount BLOCK_SIZE n1) primary deleted)
    (hshort : ∀ r ∈ storedRecords BLOCK_SIZE primary n1,
      (prj2.cString (prj2.charArray r.Surname 25)).length < 25) :
    (prj2.SHT.SHT_CreateSecondaryIndex.directory BLOCK_SIZE (n2 : Int)).1 = 0 ∧
    ∃ secondary,
      prj2.SHT.SHT_CreateSecondaryIndex.bootstrap BLOCK_SIZE primary
          (prj2.SHT.SHT_CreateSecondaryIndex.directory BLOCK_SIZE (n2 : Int)).2
        = some (CFlow.next secondary) ∧
      ∀ r ∈ storedRecords BLOCK_SIZE primary n1,
        ∃ (count : Int) (r' : prj2.Record),
          prj2.SHT.SHT_SecondaryGetAllEntries BLOCK_SIZE secondary primary
              (some (prj2.charArray r.Surname 25)) = some (count, [r']) ∧
            0 < count ∧ r' ∈ storedRecords BLOCK_SIZE primary n1 ∧
            prj2.SHT.sameSurname r'.Surname (prj2.charArray r.Surname 25) ∧
            ((∀ z ∈ storedRecords BLOCK_SIZE primary n1,
                prj2.SHT.sameSurname z.Surname (prj2.charArray r.Surname 25) → z = r) →
              r' = r) := by
  obtain ⟨_, hcode, hwfd, hbcd, hempty⟩ :=
    create_wellFormed BLOCK_SIZE n2 (by omega) h2 hn2 hn2lt hn2m
  have hlen : (storedRecords BLOCK_SIZE primary n1).length
      = (storedElements BLOCK_SIZE prj2.sizeofRecord primary n1).length := by
    unfold storedRecords
    rw [List.length_map]
  rw [hlen] at hsize
  have hall : ∀ x ∈ storedElements BLOCK_SIZE prj2.sizeofRecord primary n1,
      0 ≤ x.1 ∧ x.1 < 2147483648 := by
    intro x hx
    obtain ⟨pb, hpb, _, _⟩ := storedElements_block _ _ _ _ _ hx
    obtain ⟨h0, hlt, _⟩ := BF_ReadBlock_some _ _ _ _ hpb
    have := hwf.blockCount_lt
    exact ⟨h0, by omega⟩
  have hpcap := chainOf_counts BLOCK_SIZE primary n1 hwf _ deleted hcounts
  have hshortx : ∀ x ∈ storedElements BLOCK_SIZE prj2.sizeofRecord primary n1,
      (prj2.cString (prj2.charArray (prj2.readRecord x.2 0).Surname 25)).length < 25 :=
    fun x hx => hshort _ (List.mem_map.mpr ⟨x, hx, rfl⟩)
  obtain ⟨secondary, hsec, hwfs, hscounts, hcount, hgood, _, hfound⟩ :=
    prj2.SHT.insertAll_spec BLOCK_SIZE (by omega) h2 n2
      (storedElements BLOCK_SIZE prj2.sizeofRecord primary n1) hall []
      (storedElements BLOCK_SIZE prj2.sizeofRecord primary n1)
      (prj2.SHT.SHT_CreateSecondaryIndex.directory BLOCK_SIZE (n2 : Int)).2 hwfd
      (CountsInRange.of_directory BLOCK_SIZE _ _ _
        (create_blockCount BLOCK_SIZE n2 (by omega) hn2lt).2)
      hshortx (by rw [hbcd]; omega) (fun x hx => hx)
      (fun key seg hseg => by
        rw [prj2.SHT.firstMatch_of_empty BLOCK_SIZE _ n2 (by omega) hwfd hempty key] at hseg
        exact Option.noConfusion hseg)
  refine ⟨hcode, secondary, ?_, ?_⟩
  · rw [prj2.SHT.bootstrap_eq BLOCK_SIZE primary n1 (by omega) hwf hn1 hpcap, hsec]
    rfl
  · intro r hr
    obtain ⟨x, hx, rfl⟩ := List.mem_map.mp hr
    obtain ⟨seg, hseg⟩ := Option.ne_none_iff_exists'.mp (hfound x hx)
    obtain ⟨y, hy, hyb, hys⟩ := hgood _ seg hseg
    obtain ⟨pb, hpb, hyel, hclosed⟩ := storedElements_block _ _ _ _ _ hy
    obtain ⟨j, hj, hje⟩ := (mem_blockElements _ _ _).mp hyel
    have hholds : prj2.SHT.holdsRecordNamed pb
        (prj2.charArray (prj2.readRecord x.2 0).Surname 25) := by
      refine ⟨j, hj, ?_⟩
      rw [prj2.SHT.recordAt_eq, hje]
      exact hys
    cases hf : prj2.SHT.findNamedRecord pb
        (prj2.charArray (prj2.readRecord x.2 0).Surname 25) (readUInt32 pb 0) 0 with
    | none => exact absurd hholds ((prj2.SHT.findNamedRecord_eq_none_iff _ _).mp hf)
    | some j' =>
      obtain ⟨_, hj', hsame, _⟩ := prj2.SHT.findNamedRecord_some _ _ _ _ _ hf
      obtain ⟨count, hlook, hpos⟩ := prj2.SHT.lookup_of_match BLOCK_SIZE secondary primary n2
        (by omega) hwfs (by rw [hbcd] at hcount; omega) _ (hshortx x hx)
        (prj2.SHT.keyChain_counts BLOCK_SIZE (by omega) secondary n2 hwfs _ [] hscounts _)
        seg pb j' hseg (by rw [← hyb]; exact hpb)
        (storedElements_count BLOCK_SIZE prj2.sizeofRecord primary n1 _ hpcap y hy pb hpb) hf
      have hmem : prj2.SHT.recordAt pb j' ∈ storedRecords BLOCK_SIZE primary n1 :=
        List.mem_map.mpr ⟨_, hclosed j' (by omega), (prj2.SHT.recordAt_eq pb j').symm⟩
      exact ⟨count, prj2.SHT.recordAt pb j', hlook, hpos, hmem, hsame,
        fun huniq => huniq _ hmem hsame⟩

/-- C12, as the code has it.  Let the primary file be built by `HT_CreateIndex`
with `n1` buckets and the inserts of `records`, and let `n2` be the bucket count
of the secondary file, neither count a multiple of the capacity of a bucket
block, with block counts that fit; the records stored in the primary file have
surnames of at most 24 characters, so that each string ends inside its array
`Surname`.  Then all the calls return, every record
whose insert did not return `-1` is stored in the primary file,
`SHT_CreateSecondaryIndex` makes its directory (code 0) and its loops over the
primary file reach their end, leaving a file `secondary`; and for every record
`r` stored in the primary file, `SHT_SecondaryGetAllEntries` with the key
`r.Surname` returns a positive block count and emits one record: a record stored
in the primary file whose surname is that of `r`, which is `r` itself when no
other stored record has that surname. -/
theorem prj2.SHT.bootstrap_lookup (BLOCK_SIZE : Nat) (h1 : 104 ≤ BLOCK_SIZE)
    (h2 : BLOCK_SIZE < 4294967296) (n1 n2 : Nat) (records : List prj2.Record)
    (hn1 : 1 ≤ n1) (hn1lt : n1 < 2147483648)
    (hn1m : n1 % prj2.MAX_BUCKET_COUNT_PER_BLOCK BLOCK_SIZE ≠ 0)
    (hn2 : 1 ≤ n2) (hn2lt : n2 < 2147483648)
    (hn2m : n2 % prj2.MAX_BUCKET_COUNT_PER_BLOCK BLOCK_SIZE ≠ 0)
    (hsize1 : 1 + directoryBlockCount BLOCK_SIZE n1 + records.length < 2147483648)
    (hsize2 : directoryBlockCount BLOCK_SIZE n2
        + (storedRecords BLOCK_SIZE (prj2.HT.fileOf BLOCK_SIZE (n1 : Int) records) n1).length + 2
      < 1073741823)
    (hshort : ∀ r ∈ storedRecords BLOCK_SIZE (prj2.HT.fileOf BLOCK_SIZE (n1 : Int) records) n1,
      (prj2.cString (prj2.charArray r.Surname 25)).length < 25) :
    (∃ codes,
      prj2.HT.insertAll BLOCK_SIZE (prj2.HT.HT_CreateIndex BLOCK_SIZE (n1 : Int)).2 records
        = some (codes, prj2.HT.fileOf BLOCK_SIZE (n1 : Int) records) ∧
      codes.length = records.length ∧
      ∀ p ∈ List.zip records codes, p.2 ≠ -1 → p.1.InRange →
        p.1 ∈ storedRecords BLOCK_SIZE (prj2.HT.fileOf BLOCK_SIZE (n1 : Int) records) n1) ∧
    (prj2.SHT.SHT_CreateSecondaryIndex.directory BLOCK_SIZE (n2 : Int)).1 = 0 ∧
    ∃ secondary,
      prj2.SHT.SHT_CreateSecondaryIndex.bootstrap BLOCK_SIZE
          (prj2.HT.fileOf BLOCK_SIZE (n1 : Int) records)
          (prj2.SHT.SHT_CreateSecondaryIndex.directory BLOCK_SIZE (n2 : Int)).2
        = some (CFlow.next secondary) ∧
      ∀ r ∈ storedRecords BLOCK_SIZE (prj2.HT.fileOf BLOCK_SIZE (n1 : Int) records) n1,
        ∃ (count : Int) (r' : prj2.Record),
          prj2.SHT.SHT_SecondaryGetAllEntries BLOCK_SIZE secondary
              (prj2.HT.fileOf BLOCK_SIZE (n1 : Int) records)
              (some (prj2.charArray r.Surname 25)) = some (count, [r']) ∧
            0 < count ∧
            r' ∈ storedRecords BLOCK_SIZE (prj2.HT.fileOf BLOCK_SIZE (n1 : Int) records) n1 ∧
            prj2.SHT.sameSurname r'.Surname (prj2.charArray r.Surname 25) ∧
            ((∀ z ∈ storedRecords BLOCK_SIZE (prj2.HT.fileOf BLOCK_SIZE (n1 : Int) records) n1,
                prj2.SHT.sameSurname z.Surname (prj2.charArray r.Surname 25) → z = r) →
              r' = r) := by
  obtain ⟨codes, hall, hwf, hlen, hst⟩ :=
    prj2.HT.fileOf_wellFormed BLOCK_SIZE h1 h2 n1 hn1 hn1lt hn1m records hsize1
  have hcounts := prj2.HT.insertAll_counts BLOCK_SIZE h1 h2 _ [] records _ codes _ hall
    (CountsInRange.of_directory BLOCK_SIZE _ _ _
      (create_blockCount BLOCK_SIZE n1 (by omega) hn1lt).1)
  obtain ⟨hcode, secondary, hboot, hlook⟩ :=
    prj2.SHT.bootstrap_lookup_of_wellFormed BLOCK_SIZE h1 h2 _ n1 n2 hwf hn1m hn2 hn2lt hn2m
      hsize2 [] hcounts hshort
  exact ⟨⟨codes, hall, hlen, hst⟩, hcode, secondary, hboot, hlook⟩

theorem prj2.SHT.bootstrap_lookup_witness :
    (∃ codes,
      prj2.HT.insertAll 512 (prj2.HT.HT_CreateIndex 512 ((3 : Nat) : Int)).2
          [prj2.HT.recordOf 1 65, prj2.HT.recordOf 2 66, prj2.HT.recordOf 4 67]
        = some (codes, prj2.HT.fileOf 512 ((3 : Nat) : Int)
            [prj2.HT.recordOf 1 65, prj2.HT.recordOf 2 66, prj2.HT.recordOf 4 67]) ∧
      codes.length
        = [prj2.HT.recordOf 1 65, prj2.HT.recordOf 2 66, prj2.HT.recordOf 4 67].length ∧
      ∀ p ∈ List.zip [prj2.HT.recordOf 1 65, prj2.HT.recordOf 2 66, prj2.HT.recordOf 4 67] codes,
        p.2 ≠ -1 → p.1.InRange →
        p.1 ∈ storedRecords 512 (prj2.HT.fileOf 512 ((3 : Nat) : Int)
          [prj2.HT.recordOf 1 65, prj2.HT.recordOf 2 66, prj2.HT.recordOf 4 67]) 3) ∧
    (prj2.SHT.SHT_CreateSecondaryIndex.directory 512 ((5 : Nat) : Int)).1 = 0 ∧
    ∃ secondary,
      prj2.SHT.SHT_CreateSecondaryIndex.bootstrap 512
          (prj2.HT.fileOf 512 ((3 : Nat) : Int)
            [prj2.HT.recordOf 1 65, prj2.HT.recordOf 2 66, prj2.HT.recordOf 4 67])
          (prj2.SHT.SHT_CreateSecondaryIndex.directory 512 ((5 : Nat) : Int)).2
        = some (CFlow.next secondary) ∧
      ∀ r ∈ storedRecords 512 (prj2.HT.fileOf 512 ((3 : Nat) : Int)
          [prj2.HT.recordOf 1 65, prj2.HT.recordOf 2 66, prj2.HT.recordOf 4 67]) 3,
        ∃ (count : Int) (r' : prj2.Record),
          prj2.SHT.SHT_SecondaryGetAllEntries 512 secondary
              (prj2.HT.fileOf 512 ((3 : Nat) : Int)
                [prj2.HT.recordOf 1 65, prj2.HT.recordOf 2 66, prj2.HT.recordOf 4 67])
              (some (prj2.charArray r.Surname 25)) = some (count, [r']) ∧
            0 < count ∧
            r' ∈ storedRecords 512 (prj2.HT.fileOf 512 ((3 : Nat) : Int)
              [prj2.HT.recordOf 1 65, prj2.HT.recordOf 2 66, prj2.HT.recordOf 4 67]) 3 ∧
            prj2.SHT.sameSurname r'.Surname (prj2.charArray r.Surname 25) ∧
            ((∀ z ∈ storedRecords 512 (prj2.HT.fileOf 512 ((3 : Nat) : Int)
                  [prj2.HT.recordOf 1 65, prj2.HT.recordOf 2 66, prj2.HT.recordOf 4 67]) 3,
                prj2.SHT.sameSurname z.Surname (prj2.charArray r.Surname 25) → z = r) →
              r' = r) :=
  prj2.SHT.bootstrap_lookup 512 (by decide) (by decide) 3 5
    [prj2.HT.recordOf 1 65, prj2.HT.recordOf 2 66, prj2.HT.recordOf 4 67]
    (by decide) (by decide) (by decide) (by decide) (by decide) (by decide) (by decide)
    (by decide!) (by decide!)

/-! ## `HT_DeleteEntry`: how it returns -/

theorem prj2.HT.findRecord_some (b : Block) (key : Int) (k : Nat) :
    ∀ j i, prj2.HT.findRecord b key k j = some i →
      j ≤ i ∧ i < j + k ∧
        readInt32 b (prj2.sizeofHashDataBlockHeader + prj2.sizeofRecord * i) = key ∧
        ∀ r, j ≤ r → r < i →
          readInt32 b (prj2.sizeofHashDataBlockHeader + prj2.sizeofRecord * r) ≠ key := by
  induction k with
  | zero => intro j i h; rw [prj2.HT.findRecord] at h; exact absurd h (by simp)
  | succ k ih =>
    intro j i h
    rw [prj2.HT.findRecord] at h
    split at h
    · rename_i heq
      cases h
      exact ⟨Nat.le_refl _, by omega, heq, fun r h1 h2 => by omega⟩
    · rename_i hne
      obtain ⟨h1, h2, h3, h4⟩ := ih (j + 1) i h
      refine ⟨by omega, by omega, h3, ?_⟩
      intro r hr1 hr2
      rcases Nat.eq_or_lt_of_le hr1 with heq | hlt
      · subst heq; exact hne
      · exact h4 r hlt hr2

/-- The `while` loop of `HT_DeleteEntry`, when it ends: the chain ended without a
match, or a read failed and the function returns `-1` with the file as it was,
or the key was found in slot `i` of a block `b` of index `idx` and the function
returns `0` after it has persisted that one block, with the record removed. -/
theorem prj2.HT.deleteLoop_cases (BLOCK_SIZE : Nat) (f : File) (key : Int) (fuel : Nat) :
    ∀ start res, prj2.HT.HT_DeleteEntry.loop BLOCK_SIZE f key fuel start = some res →
      res = CFlow.next () ∨ res = CFlow.ret (-1, f) ∨
        ∃ idx b i, BF_ReadBlock BLOCK_SIZE f idx = some b ∧
          prj2.HT.findRecord b key (readUInt32 b 0) 0 = some i ∧
          res = CFlow.ret (0, BF_WriteBlock BLOCK_SIZE f idx
            (prj2.HT.HT_DeleteEntry.removeRecord BLOCK_SIZE b i)) := by
  induction fuel with
  | zero => intro start res h; rw [prj2.HT.HT_DeleteEntry.loop] at h; exact absurd h (by simp)
  | succ fuel ih =>
    intro start res h
    rw [prj2.HT.HT_DeleteEntry.loop] at h
    split at h
    · cases h; exact Or.inl rfl
    · split at h
      · cases h; exact Or.inr (Or.inl rfl)
      · rename_i b hb
        split at h
        · rename_i i hi
          cases h
          exact Or.inr (Or.inr ⟨start, b, i, hb, hi, rfl⟩)
        · exact ih _ _ h

/-- The function `HT_DeleteEntry` on a file whose header block can be read, when
it returns: it returns `-1` and the file is as it was, or it returns `0` after it
has found the key in slot `i` of a block `b` of index `idx` and has persisted
that one block with the record removed. -/
theorem prj2.HT.HT_DeleteEntry_cases (BLOCK_SIZE : Nat) (f : File) (key : Int) (h : Block)
    (hh : BF_ReadBlock BLOCK_SIZE f prj2.HEADER_BLOCK_INDEX = some h) (r : Int × File)
    (hr : prj2.HT.HT_DeleteEntry BLOCK_SIZE f key = some r) :
    r = (-1, f) ∨
      ∃ idx b i, BF_ReadBlock BLOCK_SIZE f idx = some b ∧
        prj2.HT.findRecord b key (readUInt32 b 0) 0 = some i ∧
        r = (0, BF_WriteBlock BLOCK_SIZE f idx
          (prj2.HT.HT_DeleteEntry.removeRecord BLOCK_SIZE b i)) := by
  rw [prj2.HT.HT_DeleteEntry, hh] at hr
  dsimp only at hr
  split at hr
  · cases hr; exact Or.inl rfl
  · split at hr
    · cases hr; exact Or.inl rfl
    · split at hr
      · exact absurd hr (by simp)
      · rename_i res hres
        cases hr
        rcases prj2.HT.deleteLoop_cases _ _ _ _ _ _ hres with h1 | h1 | ⟨idx, b, i, hb, hi, h1⟩
        · exact absurd h1 (by simp)
        · cases h1; exact Or.inl rfl
        · cases h1; exact Or.inr ⟨idx, b, i, hb, hi, rfl⟩
      · cases hr; exact Or.inl rfl

/-- When the header block cannot be read `HT_DeleteEntry` returns `0` and leaves
the file as it is. -/
theorem prj2.HT.delete_of_no_header (BLOCK_SIZE : Nat) (f : File) (key : Int)
    (hh : BF_ReadBlock BLOCK_SIZE f prj2.HEADER_BLOCK_INDEX = none) :
    prj2.HT.HT_DeleteEntry BLOCK_SIZE f key = some (0, f) := by
  rw [prj2.HT.HT_DeleteEntry, hh]

/-- C21.  On a block-level file that has no block yet, so that the first
`BF_ReadBlock` of `HT_DeleteEntry`, that of the header block, fails, the function
returns the success code `0` (`return nullptr`), for every key; `HT_InsertEntry`
returns `-1` there.  The same holds for a handle that is not open. -/
theorem prj2.HT.delete_unreadable_header (BLOCK_SIZE : Nat) (key : Int) (record : prj2.Record) :
    BF_ReadBlock BLOCK_SIZE BF_CreateFile prj2.HEADER_BLOCK_INDEX = none ∧
    prj2.HT.HT_DeleteEntry BLOCK_SIZE BF_CreateFile key = some (0, BF_CreateFile) ∧
    prj2.HT.HT_InsertEntry BLOCK_SIZE BF_CreateFile record = some (-1, BF_CreateFile) ∧
    prj2.HT.HT_DeleteEntry.inStore BLOCK_SIZE { files := [], openFiles := [] } 0 key
      = some (0, { files := [], openFiles := [] }) := by
  refine ⟨rfl, rfl, rfl, rfl⟩

/-! ## `HT_DeleteEntry`: the block after the removal of a record -/

/-- The block that `HT_DeleteEntry` persists, with the lengths worked out: for a
block of `n` elements that fit the block, no length wraps around. -/
theorem prj2.HT.removeRecord_eq (BLOCK_SIZE : Nat) (b : Block) (i : Nat)
    (hBS : BLOCK_SIZE < 4294967296) (hi : i < readUInt32 b 0)
    (hn : readUInt32 b 0 ≤ prj2.HT.MAX_RECORD_COUNT_PER_BLOCK BLOCK_SIZE) :
    8 + 96 * readUInt32 b 0 ≤ BLOCK_SIZE ∧
    prj2.HT.HT_DeleteEntry.removeRecord BLOCK_SIZE b i
      = memset
          (writeInt32
            (writeBytes b (8 + 96 * i) (96 * (readUInt32 b 0 - i - 1))
              (readBytes b (8 + 96 * i + 96) (96 * (readUInt32 b 0 - i - 1))))
            0 ((readUInt32 b 0 - 1 : Nat) : Int))
          (8 + 96 * (readUInt32 b 0 - 1)) 0 (BLOCK_SIZE - (8 + 96 * (readUInt32 b 0 - 1))) := by
  have hfit : 8 + 96 * readUInt32 b 0 ≤ BLOCK_SIZE := by
    unfold prj2.HT.MAX_RECORD_COUNT_PER_BLOCK prj2.sizeofHashDataBlockHeader prj2.sizeofRecord at hn
    omega
  refine ⟨hfit, ?_⟩
  generalize hnn : readUInt32 b 0 = n at hi hn hfit
  have e1 : toUInt32 ((n : Int) - ((i : Int) + 1)) = n - i - 1 := by
    rw [show (n : Int) - ((i : Int) + 1) = ((n - i - 1 : Nat) : Int) by omega]
    exact toUInt32_natCast _ (by omega)
  have e2 : toUInt32 (((n - i - 1) * 96 % 2 ^ 64 : Nat) : Int) = 96 * (n - i - 1) := by
    rw [Nat.mod_eq_of_lt (by omega), toUInt32_natCast _ (by omega)]
    omega
  have e3 : (n : Int) - 1 = ((n - 1 : Nat) : Int) := by omega
  have e4 : ∀ x : Block, readUInt32 (writeInt32 x 0 ((n - 1 : Nat) : Int)) 0 = n - 1 := by
    intro x
    rw [readUInt32_writeInt32_same]
    exact toUInt32_natCast _ (by omega)
  have e5 : toUInt32 ((BLOCK_SIZE : Int) - ((8 + (n - 1) * 96 : Nat) : Int))
      = BLOCK_SIZE - (8 + 96 * (n - 1)) := by
    rw [show (BLOCK_SIZE : Int) - ((8 + (n - 1) * 96 : Nat) : Int)
        = ((BLOCK_SIZE - (8 + 96 * (n - 1)) : Nat) : Int) by omega]
    exact toUInt32_natCast _ (by omega)
  rw [prj2.HT.HT_DeleteEntry.removeRecord]
  rw [hnn]
  unfold prj2.sizeofHashDataBlockHeader prj2.sizeofRecord
  rw [e1, e2, e3, e4, e5, show 8 + 96 * i + 96 * (n - i - 1) = 8 + 96 * (n - 1) by omega]

/-- What `HT_DeleteEntry` makes of a data block of `n` elements, `n` at most the
capacity, when it removes the record of slot `i`: the block keeps its size, its
count is `n - 1`, its link is as before, the slots below `i` are as before, the
slots from `i` on hold what the next slot held, and all the bytes from the end
of slot `n - 2` to the end of the block are zero. -/
theorem prj2.HT.removeRecord_spec (BLOCK_SIZE : Nat) (b : Block) (i : Nat)
    (hBS : BLOCK_SIZE < 4294967296) (hb : b < 256 ^ BLOCK_SIZE) (hi : i < readUInt32 b 0)
    (hn : readUInt32 b 0 ≤ prj2.HT.MAX_RECORD_COUNT_PER_BLOCK BLOCK_SIZE) :
    prj2.HT.HT_DeleteEntry.removeRecord BLOCK_SIZE b i < 256 ^ BLOCK_SIZE ∧
    readUInt32 (prj2.HT.HT_DeleteEntry.removeRecord BLOCK_SIZE b i) 0 = readUInt32 b 0 - 1 ∧
    readInt32 (prj2.HT.HT_DeleteEntry.removeRecord BLOCK_SIZE b i) 4 = readInt32 b 4 ∧
    (∀ j, j < i →
      elementAt prj2.sizeofRecord (prj2.HT.HT_DeleteEntry.removeRecord BLOCK_SIZE b i) j
        = elementAt prj2.sizeofRecord b j) ∧
    (∀ j, i ≤ j → j + 1 < readUInt32 b 0 →
      elementAt prj2.sizeofRecord (prj2.HT.HT_DeleteEntry.removeRecord BLOCK_SIZE b i) j
        = elementAt prj2.sizeofRecord b (j + 1)) ∧
    readBytes (prj2.HT.HT_DeleteEntry.removeRecord BLOCK_SIZE b i)
        (prj2.sizeofHashDataBlockHeader + prj2.sizeofRecord * (readUInt32 b 0 - 1))
        (BLOCK_SIZE - (prj2.sizeofHashDataBlockHeader + prj2.sizeofRecord * (readUInt32 b 0 - 1)))
      = 0 := by
  obtain ⟨hfit, e⟩ := prj2.HT.removeRecord_eq BLOCK_SIZE b i hBS hi hn
  rw [e]
  unfold elementAt prj2.sizeofHashDataBlockHeader prj2.sizeofRecord
  generalize hnn : readUInt32 b 0 = n at hi hn hfit
  have hb1 : writeBytes b (8 + 96 * i) (96 * (n - i - 1))
      (readBytes b (8 + 96 * i + 96) (96 * (n - i - 1))) < 256 ^ BLOCK_SIZE :=
    writeBytes_lt _ _ _ _ _ hb (by omega)
  refine ⟨?_, ?_, ?_, ?_, ?_, ?_⟩
  · unfold memset
    exact writeBytes_lt _ _ _ _ _ (writeInt32_lt _ _ _ _ hb1 (by omega)) (by omega)
  · unfold memset readUInt32
    rw [readBytes_writeBytes_below _ _ _ _ 0 4 (by omega)]
    have := readUInt32_writeInt32_same
      (writeBytes b (8 + 96 * i) (96 * (n - i - 1))
        (readBytes b (8 + 96 * i + 96) (96 * (n - i - 1)))) 0 ((n - 1 : Nat) : Int)
    unfold readUInt32 at this
    rw [this]
    exact toUInt32_natCast _ (by omega)
  · rw [readInt32_memset_above _ _ 4 _ _ (by omega),
      readInt32_writeInt32_ne _ 0 4 _ (Or.inr (by omega))]
    unfold readInt32
    rw [readBytes_writeBytes_below _ _ _ _ 4 4 (by omega)]
  · intro j hj
    unfold memset writeInt32
    rw [readBytes_writeBytes_below _ _ _ _ (8 + 96 * j) 96 (by omega),
      readBytes_writeBytes_above _ 0 4 _ (8 + 96 * j) 96 (by omega),
      readBytes_writeBytes_below _ _ _ _ (8 + 96 * j) 96 (by omega)]
  · intro j hj1 hj2
    unfold memset writeInt32
    rw [readBytes_writeBytes_below _ _ _ _ (8 + 96 * j) 96 (by omega),
      readBytes_writeBytes_above _ 0 4 _ (8 + 96 * j) 96 (by omega),
      show 8 + 96 * j = 8 + 96 * i + 96 * (j - i) by omega,
      readBytes_writeBytes_inside _ _ _ _ (96 * (j - i)) 96 (by omega),
      readBytes_readBytes _ _ _ _ _ (by omega)]
    congr 1
    omega
  · unfold memset
    rw [readBytes_writeBytes_same]
    simp

/-! ## `HT_DeleteEntry`: the block it compacts -/

/-- C28.  When `HT_DeleteEntry`, on a file whose header block can be read,
returns `0`, it has found the key in slot `i` of a block `b` of index `idx`,
the first slot of that block with the key, and the file afterwards is the file
of before with that one block persisted.  If `b` holds `n` elements, `n` at most
the capacity, the block read back afterwards has `ElementCount = n - 1` and the
`NextBlockIndex` of before, its slots below `i` are as before, its slots `j`
with `i ≤ j < n - 1` hold what slot `j + 1` held (the other `n - 1` elements in
their order), and the bytes from the end of slot `n - 2` to the end of the block
are zero: that range starts inside the block (no length wraps around) and ends
at its last byte (the block persisted is the block read back, of `BLOCK_SIZE`
bytes). -/
theorem prj2.HT.delete_compacts_block (BLOCK_SIZE : Nat) (f : File) (key : Int) (f' : File)
    (hBS : BLOCK_SIZE < 4294967296)
    (hh : (BF_ReadBlock BLOCK_SIZE f prj2.HEADER_BLOCK_INDEX).isSome = true)
    (hdel : prj2.HT.HT_DeleteEntry BLOCK_SIZE f key = some (0, f')) :
    ∃ idx b i, BF_ReadBlock BLOCK_SIZE f idx = some b ∧
      prj2.HT.findRecord b key (readUInt32 b 0) 0 = some i ∧ i < readUInt32 b 0 ∧
      readInt32 b (prj2.sizeofHashDataBlockHeader + prj2.sizeofRecord * i) = key ∧
      f' = BF_WriteBlock BLOCK_SIZE f idx (prj2.HT.HT_DeleteEntry.removeRecord BLOCK_SIZE b i) ∧
      (readUInt32 b 0 ≤ prj2.HT.MAX_RECORD_COUNT_PER_BLOCK BLOCK_SIZE →
        ∃ b', BF_ReadBlock BLOCK_SIZE f' idx = some b' ∧
          b' = prj2.HT.HT_DeleteEntry.removeRecord BLOCK_SIZE b i ∧
          readUInt32 b' 0 = readUInt32 b 0 - 1 ∧
          readInt32 b' 4 = readInt32 b 4 ∧
          (∀ j, j < i → elementAt prj2.sizeofRecord b' j = elementAt prj2.sizeofRecord b j) ∧
          (∀ j, i ≤ j → j + 1 < readUInt32 b 0 →
            elementAt prj2.sizeofRecord b' j = elementAt prj2.sizeofRecord b (j + 1)) ∧
          prj2.sizeofHashDataBlockHeader + prj2.sizeofRecord * (readUInt32 b 0 - 1) ≤ BLOCK_SIZE ∧
          readBytes b' (prj2.sizeofHashDataBlockHeader + prj2.sizeofRecord * (readUInt32 b 0 - 1))
              (BLOCK_SIZE
                - (prj2.sizeofHashDataBlockHeader + prj2.sizeofRecord * (readUInt32 b 0 - 1)))
            = 0) := by
  obtain ⟨h, hh'⟩ := Option.isSome_iff_exists.mp hh
  rcases prj2.HT.HT_DeleteEntry_cases BLOCK_SIZE f key h hh' _ hdel with h1 | ⟨idx, b, i, hb, hi, h1⟩
  · simp only [Prod.mk.injEq] at h1
    omega
  · simp only [Prod.mk.injEq, true_and] at h1
    obtain ⟨_, hlt, hkey, _⟩ := prj2.HT.findRecord_some b key _ 0 i hi
    refine ⟨idx, b, i, hb, hi, by omega, hkey, h1, ?_⟩
    intro hn
    obtain ⟨h0, h2, hbl⟩ := BF_ReadBlock_some _ _ _ _ hb
    obtain ⟨s1, s2, s3, s4, s5, s6⟩ :=
      prj2.HT.removeRecord_spec BLOCK_SIZE b i hBS hbl (by omega) hn
    obtain ⟨hfit, _⟩ := prj2.HT.removeRecord_eq BLOCK_SIZE b i hBS (by omega) hn
    refine ⟨_, ?_, rfl, s2, s3, s4, s5, ?_, s6⟩
    · rw [h1]
      exact BF_ReadBlock_WriteBlock_of_lt _ _ _ _ h0 h2 s1
    · unfold prj2.sizeofHashDataBlockHeader prj2.sizeofRecord
      omega

theorem prj2.HT.delete_compacts_block_witness :
    (512 < 4294967296 ∧
      (BF_ReadBlock 512 prj2.HT.threeRecords prj2.HEADER_BLOCK_INDEX).isSome = true ∧
      prj2.HT.HT_DeleteEntry 512 prj2.HT.threeRecords 2
        = some (0, prj2.HT.threeRecordsAfterDelete)) ∧
    ∃ idx b i, BF_ReadBlock 512 prj2.HT.threeRecords idx = some b ∧
      prj2.HT.findRecord b 2 (readUInt32 b 0) 0 = some i ∧ i < readUInt32 b 0 ∧
      readInt32 b (prj2.sizeofHashDataBlockHeader + prj2.sizeofRecord * i) = 2 ∧
      prj2.HT.threeRecordsAfterDelete
        = BF_WriteBlock 512 prj2.HT.threeRecords idx
            (prj2.HT.HT_DeleteEntry.removeRecord 512 b i) ∧
      (readUInt32 b 0 ≤ prj2.HT.MAX_RECORD_COUNT_PER_BLOCK 512 →
        ∃ b', BF_ReadBlock 512 prj2.HT.threeRecordsAfterDelete idx = some b' ∧
          b' = prj2.HT.HT_DeleteEntry.removeRecord 512 b i ∧
          readUInt32 b' 0 = readUInt32 b 0 - 1 ∧
          readInt32 b' 4 = readInt32 b 4 ∧
          (∀ j, j < i → elementAt prj2.sizeofRecord b' j = elementAt prj2.sizeofRecord b j) ∧
          (∀ j, i ≤ j → j + 1 < readUInt32 b 0 →
            elementAt prj2.sizeofRecord b' j = elementAt prj2.sizeofRecord b (j + 1)) ∧
          prj2.sizeofHashDataBlockHeader + prj2.sizeofRecord * (readUInt32 b 0 - 1) ≤ 512 ∧
          readBytes b' (prj2.sizeofHashDataBlockHeader + prj2.sizeofRecord * (readUInt32 b 0 - 1))
              (512 - (prj2.sizeofHashDataBlockHeader + prj2.sizeofRecord * (readUInt32 b 0 - 1)))
            = 0) :=
  ⟨⟨by decide, by decide!, by decide!⟩,
    prj2.HT.delete_compacts_block 512 prj2.HT.threeRecords 2 prj2.HT.threeRecordsAfterDelete
      (by decide) (by decide!) (by decide!)⟩

/-! ## `HT_DeleteEntry`: the blocks it leaves alone -/

/-- What a successful `HT_DeleteEntry` leaves alone, on any file whose header block
can be read: the file afterwards is the file of before with one block, one that
could be read, persisted; the block count and every other block are as
before. -/
theorem prj2.HT.delete_frame (BLOCK_SIZE : Nat) (f : File) (key : Int) (h : Block)
    (hh : BF_ReadBlock BLOCK_SIZE f prj2.HEADER_BLOCK_INDEX = some h) (f' : File)
    (hdel : prj2.HT.HT_DeleteEntry BLOCK_SIZE f key = some (0, f')) :
    ∃ idx b, BF_ReadBlock BLOCK_SIZE f idx = some b ∧ f'.blockCount = f.blockCount ∧
      ∀ j, j ≠ idx → BF_ReadBlock BLOCK_SIZE f' j = BF_ReadBlock BLOCK_SIZE f j := by
  rcases prj2.HT.HT_DeleteEntry_cases BLOCK_SIZE f key h hh _ hdel with h1 | ⟨idx, b, i, hb, _, h1⟩
  · simp only [Prod.mk.injEq] at h1
    omega
  · simp only [Prod.mk.injEq, true_and] at h1
    subst h1
    exact ⟨idx, b, hb, BF_WriteBlock_blockCount _ _ _ _,
      fun j hj => BF_ReadBlock_WriteBlock_other _ _ _ _ _ (Ne.symm hj)⟩

/-- C29, on one input.  In the file that `HT_CreateIndex` makes with 127 buckets
(file kind 2), `HT_DeleteEntry` of the key 1 returns 0; afterwards the file has
its 2 blocks, the bucket block (block 1) is as before, and the header block is
not: the file kind reads 1. -/
theorem prj2.HT.delete_frame_run :
    (prj2.HT.HT_CreateIndex 512 127).1 = 0 ∧
    fileKind 512 (prj2.HT.HT_CreateIndex 512 127).2 = some 2 ∧
    (prj2.HT.HT_DeleteEntry 512 (prj2.HT.HT_CreateIndex 512 127).2 1).map
        (fun p => (p.1, p.2.blockCount, fileKind 512 p.2,
          decide (BF_ReadBlock 512 p.2 0 = BF_ReadBlock 512 (prj2.HT.HT_CreateIndex 512 127).2 0),
          decide (BF_ReadBlock 512 p.2 1 = BF_ReadBlock 512 (prj2.HT.HT_CreateIndex 512 127).2 1)))
      = some (0, 2, some 1, false, true) := by
  decide!

/-! ## `HT_InsertEntry`: the first block with room -/

/-- The second loop of an insert on a chain whose first block with room is `b`, of
index `c`: the element is stored there. -/
theorem InsertEngine.insertLoop_first_fit (E : InsertEngine) (BLOCK_SIZE : Nat) (f : File)
    (bytes : Nat) (c : Int) (b : Block) (l2 : List (Int × Block))
    (hroom : readUInt32 b 0 < E.capacity) :
    ∀ (l1 : List (Int × Block)) (fuel : Nat) (previous start : Int),
      chainTo BLOCK_SIZE f fuel start = some (l1 ++ (c, b) :: l2) →
      (∀ p ∈ l1, ¬ readUInt32 p.2 0 < E.capacity) →
      E.insertLoop BLOCK_SIZE f bytes fuel previous start
        = some (.ret (E.result c, BF_WriteBlock BLOCK_SIZE f c (E.store b bytes))) := by
  intro l1
  induction l1 with
  | nil =>
    intro fuel previous start h _
    obtain ⟨fuel', hf, hc⟩ := chainTo_cases _ _ _ _ _ h
    cases hf
    rw [InsertEngine.insertLoop]
    rcases hc with ⟨_, hnil⟩ | ⟨hs, b0, l', hb, _, hl⟩
    · exact absurd hnil (by simp)
    · simp only [List.nil_append, List.cons.injEq, Prod.mk.injEq] at hl
      obtain ⟨⟨rfl, rfl⟩, _⟩ := hl
      rw [if_neg (show ¬ c = prj2.INVALID_BLOCK_INDEX from hs), hb]
      dsimp only
      rw [if_pos hroom]
  | cons x l1 ih =>
    intro fuel previous start h hfull
    obtain ⟨fuel', hf, hc⟩ := chainTo_cases _ _ _ _ _ h
    cases hf
    rw [InsertEngine.insertLoop]
    rcases hc with ⟨_, hnil⟩ | ⟨hs, b0, l', hb, hr, hl⟩
    · exact absurd hnil (by simp)
    · simp only [List.cons_append, List.cons.injEq] at hl
      obtain ⟨rfl, rfl⟩ := hl
      rw [if_neg (show ¬ start = prj2.INVALID_BLOCK_INDEX from hs), hb]
      dsimp only
      rw [if_neg (hfull (start, b0) (List.mem_cons_self _ _))]
      exact ih _ _ _ hr (fun p hp => hfull p (List.mem_cons_of_mem _ hp))

theorem prj2.Record.toBytes_lt (r : prj2.Record) : r.toBytes < 256 ^ prj2.sizeofRecord := by
  have h1 : toUInt32 r.ID < 256 ^ 4 := by
    unfold toUInt32
    omega
  have h2 : r.Name % 256 ^ 15 < 256 ^ 15 := Nat.mod_lt _ (by norm_num)
  have h3 : r.Surname % 256 ^ 25 < 256 ^ 25 := Nat.mod_lt _ (by norm_num)
  have h4 : r.Address % 256 ^ 50 < 256 ^ 50 := Nat.mod_lt _ (by norm_num)
  unfold prj2.Record.toBytes prj2.sizeofRecord
  norm_num at h1 h2 h3 h4 ⊢
  omega

/-- C30.  Let the chain of the bucket of `record.ID` (the chain that starts at the
bucket's slot and ends at an invalid index) consist of the blocks `l1`, all of
them full, then the block `b` of index `c` with `ElementCount` below the
capacity, then the blocks `l2`, and let no block of the chain hold a record with
the ID of `record`.  Then `HT_InsertEntry` returns `c`, and the file afterwards
is the file of before with the one block `c` persisted: that block has the link
of before and one element more, the bytes of `record` behind the elements that
were there (in slot `ElementCount`); the file has as many blocks as before and
every other block is as it was. -/
theorem prj2.HT.insert_first_fit (BLOCK_SIZE : Nat) (f : File) (record : prj2.Record)
    (head : Int) (l1 l2 : List (Int × Block)) (c : Int) (b : Block)
    (h1 : 104 ≤ BLOCK_SIZE) (h2 : BLOCK_SIZE < 4294967296)
    (hhead : prj2.HT.bucketHead BLOCK_SIZE f record.ID = some head)
    (hchain : chainTo BLOCK_SIZE f (f.blockCount + 1) head = some (l1 ++ (c, b) :: l2))
    (hnodup : ∀ p ∈ l1 ++ (c, b) :: l2,
      prj2.HT.findRecord p.2 record.ID (readUInt32 p.2 0) 0 = none)
    (hfull : ∀ p ∈ l1, ¬ readUInt32 p.2 0 < prj2.HT.MAX_RECORD_COUNT_PER_BLOCK BLOCK_SIZE)
    (hroom : readUInt32 b 0 < prj2.HT.MAX_RECORD_COUNT_PER_BLOCK BLOCK_SIZE) :
    ∃ b', prj2.HT.HT_InsertEntry BLOCK_SIZE f record
        = some (c, BF_WriteBlock BLOCK_SIZE f c b') ∧
      BF_ReadBlock BLOCK_SIZE (BF_WriteBlock BLOCK_SIZE f c b') c = some b' ∧
      readUInt32 b' 0 = readUInt32 b 0 + 1 ∧
      readInt32 b' 4 = readInt32 b 4 ∧
      blockElements prj2.sizeofRecord b' = blockElements prj2.sizeofRecord b ++ [record.toBytes] ∧
      elementAt prj2.sizeofRecord b' (readUInt32 b 0) = record.toBytes ∧
      (BF_WriteBlock BLOCK_SIZE f c b').blockCount = f.blockCount ∧
      ∀ j, j ≠ c →
        BF_ReadBlock BLOCK_SIZE (BF_WriteBlock BLOCK_SIZE f c b') j = BF_ReadBlock BLOCK_SIZE f j := by
  have hE := prj2.HT.HT_insertEngine_fits BLOCK_SIZE h1 h2
  have hcb : BF_ReadBlock BLOCK_SIZE f c = some b :=
    chainTo_mem _ _ _ _ _ hchain (c, b) (List.mem_append_right _ (List.mem_cons_self _ _))
  obtain ⟨h0, hlt, hbl⟩ := BF_ReadBlock_some _ _ _ _ hcb
  have hroom' : readUInt32 b 0 < (prj2.HT.insertEngine BLOCK_SIZE).capacity := hroom
  obtain ⟨s3, s4⟩ :=
    InsertEngine.store_spec (prj2.HT.insertEngine BLOCK_SIZE) BLOCK_SIZE hE b record.toBytes hroom'
  have s1 := InsertEngine.store_lt (prj2.HT.insertEngine BLOCK_SIZE) BLOCK_SIZE hE b
    record.toBytes hbl hroom'
  have esz : (prj2.HT.insertEngine BLOCK_SIZE).elementSize = prj2.sizeofRecord := rfl
  rw [esz, Nat.mod_eq_of_lt (prj2.Record.toBytes_lt record)] at s4
  have hlen := congrArg List.length s4
  simp only [blockElements, List.length_map, List.length_range, List.length_append,
    List.length_singleton] at hlen
  have hat : elementAt prj2.sizeofRecord
      ((prj2.HT.insertEngine BLOCK_SIZE).store b record.toBytes) (readUInt32 b 0)
      = record.toBytes := by
    have h5 := s4
    rw [blockElements, hlen, List.range_succ, List.map_append, List.map_singleton] at h5
    have h6 := List.append_inj_right' h5 rfl
    simpa using h6
  refine ⟨(prj2.HT.insertEngine BLOCK_SIZE).store b record.toBytes, ?_,
    BF_ReadBlock_WriteBlock_of_lt _ _ _ _ h0 hlt s1, hlen, s3, s4, hat,
    BF_WriteBlock_blockCount _ _ _ _,
    fun j hj => BF_ReadBlock_WriteBlock_other _ _ _ _ _ (Ne.symm hj)⟩
  rw [prj2.HT.bucketHead] at hhead
  split at hhead
  · exact absurd hhead (by simp)
  · rename_i h hh
    dsimp only at hhead
    split at hhead
    · exact absurd hhead (by simp)
    · rename_i q current hwalk
      split at hhead
      · exact absurd hhead (by simp)
      · rename_i bb hbb
        simp only [Option.some.injEq] at hhead
        rw [prj2.HT.HT_InsertEntry_eq,
          InsertEngine.insert_eq (prj2.HT.insertEngine BLOCK_SIZE) BLOCK_SIZE f _ _ _ h _ q current
            bb hh rfl hwalk hbb,
          hhead, InsertEngine.checkLoop_of_none _ _ _ _ _ _ hchain hnodup]
        dsimp only
        rw [InsertEngine.insertLoop_first_fit _ _ _ _ c b l2 hroom' l1 _ _ _ hchain hfull]
        rfl

theorem prj2.HT.insert_first_fit_witness :
    (104 ≤ 512 ∧ 512 < 4294967296 ∧
      prj2.HT.bucketHead 512 prj2.HT.sevenRecords (prj2.HT.recordOf 8 65).ID = some 2 ∧
      chainTo 512 prj2.HT.sevenRecords (prj2.HT.sevenRecords.blockCount + 1) 2
        = some ([(2, (BF_ReadBlock 512 prj2.HT.sevenRecords 2).getD 0)]
            ++ (3, (BF_ReadBlock 512 prj2.HT.sevenRecords 3).getD 0) :: []) ∧
      (∀ p ∈ [(2, (BF_ReadBlock 512 prj2.HT.sevenRecords 2).getD 0)]
            ++ ((3 : Int), (BF_ReadBlock 512 prj2.HT.sevenRecords 3).getD 0) :: [],
        prj2.HT.findRecord p.2 (prj2.HT.recordOf 8 65).ID (readUInt32 p.2 0) 0 = none) ∧
      (∀ p ∈ [((2 : Int), (BF_ReadBlock 512 prj2.HT.sevenRecords 2).getD 0)],
        ¬ readUInt32 p.2 0 < prj2.HT.MAX_RECORD_COUNT_PER_BLOCK 512) ∧
      readUInt32 ((BF_ReadBlock 512 prj2.HT.sevenRecords 3).getD 0) 0
        < prj2.HT.MAX_RECORD_COUNT_PER_BLOCK 512) ∧
    ∃ b', prj2.HT.HT_InsertEntry 512 prj2.HT.sevenRecords (prj2.HT.recordOf 8 65)
        = some (3, BF_WriteBlock 512 prj2.HT.sevenRecords 3 b') ∧
      BF_ReadBlock 512 (BF_WriteBlock 512 prj2.HT.sevenRecords 3 b') 3 = some b' ∧
      readUInt32 b' 0 = readUInt32 ((BF_ReadBlock 512 prj2.HT.sevenRecords 3).getD 0) 0 + 1 ∧
      readInt32 b' 4 = readInt32 ((BF_ReadBlock 512 prj2.HT.sevenRecords 3).getD 0) 4 ∧
      blockElements prj2.sizeofRecord b'
        = blockElements prj2.sizeofRecord ((BF_ReadBlock 512 prj2.HT.sevenRecords 3).getD 0)
          ++ [(prj2.HT.recordOf 8 65).toBytes] ∧
      elementAt prj2.sizeofRecord b'
          (readUInt32 ((BF_ReadBlock 512 prj2.HT.sevenRecords 3).getD 0) 0)
        = (prj2.HT.recordOf 8 65).toBytes ∧
      (BF_WriteBlock 512 prj2.HT.sevenRecords 3 b').blockCount = prj2.HT.sevenRecords.blockCount ∧
      ∀ j, j ≠ 3 →
        BF_ReadBlock 512 (BF_WriteBlock 512 prj2.HT.sevenRecords 3 b') j
          = BF_ReadBlock 512 prj2.HT.sevenRecords j :=
  ⟨⟨by decide, by decide, by decide!, by decide!, by decide!, by decide!, by decide!⟩,
    prj2.HT.insert_first_fit 512 prj2.HT.sevenRecords (prj2.HT.recordOf 8 65) 2
      [(2, (BF_ReadBlock 512 prj2.HT.sevenRecords 2).getD 0)] []
      3 ((BF_ReadBlock 512 prj2.HT.sevenRecords 3).getD 0)
      (by decide) (by decide) (by decide!) (by decide!) (by decide!) (by decide!) (by decide!)⟩

/-! ## The pass of `HashStatistics` as a fold over the buckets -/

/-- The loop over the data blocks of a bucket adds the blocks and the elements of
the chain to its two counters. -/
theorem prj2.HashStatistics.dataLoop_counts (BLOCK_SIZE : Nat) (f : File) (fuel : Nat) :
    ∀ start l e k, chainTo BLOCK_SIZE f fuel start = some l → e < 2 ^ 32 → k < 2 ^ 32 →
      prj2.HashStatistics.dataLoop BLOCK_SIZE f fuel start e k
        = some (.next ((e + chainElementCount l) % 2 ^ 32, (k + l.length) % 2 ^ 32)) := by
  induction fuel with
  | zero => intro start l e k h; rw [chainTo] at h; exact absurd h (by simp)
  | succ fuel ih =>
    intro start l e k h he hk
    obtain ⟨fuel', hf, hc⟩ := chainTo_cases _ _ _ _ _ h
    cases hf
    rw [prj2.HashStatistics.dataLoop]
    rcases hc with ⟨hs, rfl⟩ | ⟨hs, b, l', hb, hr, rfl⟩
    · rw [if_pos (show start = prj2.INVALID_BLOCK_INDEX from hs)]
      simp only [chainElementCount, List.map_nil, List.sum_nil, Nat.add_zero, List.length_nil,
        Nat.mod_eq_of_lt he, Nat.mod_eq_of_lt hk]
    · rw [if_neg (show ¬ start = prj2.INVALID_BLOCK_INDEX from hs), hb]
      dsimp only
      rw [ih _ _ _ _ hr (Nat.mod_lt _ (by norm_num)) (Nat.mod_lt _ (by norm_num)),
        Nat.mod_add_mod, Nat.mod_add_mod]
      simp only [chainElementCount, List.map_cons, List.sum_cons, List.length_cons]
      rw [Nat.add_assoc, Nat.add_assoc, Nat.add_comm 1 l'.length]

theorem prj2.HashStatistics.account_globalBucketIndex (st : prj2.HashStatistics.Counters)
    (l : List (Int × Block)) :
    (prj2.HashStatistics.account st l).globalBucketIndex = (st.globalBucketIndex + 1) % 2 ^ 32 := by
  unfold prj2.HashStatistics.account
  dsimp only
  split <;> rfl

theorem prj2.HashStatistics.foldl_account_globalBucketIndex (ls : List (List (Int × Block))) :
    ∀ st : prj2.HashStatistics.Counters, st.globalBucketIndex + ls.length < 2 ^ 32 →
      (ls.foldl prj2.HashStatistics.account st).globalBucketIndex
        = st.globalBucketIndex + ls.length := by
  induction ls with
  | nil => intro st _; rfl
  | cons l ls ih =>
    intro st h
    rw [List.length_cons] at h
    rw [List.foldl_cons, ih _ (by
      rw [prj2.HashStatistics.account_globalBucketIndex, Nat.mod_eq_of_lt (by omega)]
      omega), prj2.HashStatistics.account_globalBucketIndex, Nat.mod_eq_of_lt (by omega),
      List.length_cons]
    omega

/-- The loop over the buckets of a bucket block accounts for the chains of the
buckets it walks, one after the other. -/
theorem prj2.HashStatistics.bucketLoop_accounts (BLOCK_SIZE : Nat) (f : File) (bucketValues : Block)
    (bucketCount : Nat) (hbc : bucketCount < 2 ^ 32) (g : Nat → List (Int × Block))
    (base : Nat) (k : Nat) :
    ∀ t (st : prj2.HashStatistics.Counters),
      (∀ t', t ≤ t' → t' < t + k →
        chainTo BLOCK_SIZE f (f.blockCount + 1)
            (readInt32 bucketValues (prj2.sizeofHashBucketBlockHeader + 4 * t'))
          = some (g (base + t'))) →
      st.globalBucketIndex + k ≤ bucketCount →
      prj2.HashStatistics.bucketLoop BLOCK_SIZE f bucketValues bucketCount k t st
        = some (.next (((List.range' (base + t) k).map g).foldl prj2.HashStatistics.account st)) := by
  induction k with
  | zero => intro t st _ _; rfl
  | succ k ih =>
    intro t st h hg
    have hl := h t (Nat.le_refl _) (by omega)
    have hstep : prj2.HashStatistics.bucketLoop BLOCK_SIZE f bucketValues bucketCount (k + 1) t st
        = prj2.HashStatistics.bucketLoop BLOCK_SIZE f bucketValues bucketCount k (t + 1)
            (prj2.HashStatistics.account st (g (base + t))) := by
      rw [prj2.HashStatistics.bucketLoop]
      rw [prj2.HashStatistics.dataLoop_counts _ _ _ _ _ 0 0 hl (by norm_num) (by norm_num)]
      dsimp only
      obtain ⟨fuel', _, hc⟩ := chainTo_cases _ _ _ _ _ hl
      rcases hc with ⟨hs, hnil⟩ | ⟨hs, b, l', _, _, hcons⟩
      · rw [if_neg (by rw [hs]; exact fun hn => hn rfl), hnil]
        unfold prj2.HashStatistics.account
        rw [if_neg (show ¬ ([] : List (Int × Block)) ≠ [] from fun hn => hn rfl)]
        simp only [List.length_nil, Nat.add_zero, Nat.zero_mod]
      · rw [if_pos (show readInt32 bucketValues (prj2.sizeofHashBucketBlockHeader + 4 * t)
            ≠ prj2.INVALID_BLOCK_INDEX from hs), if_pos (by omega), hcons]
        unfold prj2.HashStatistics.account
        rw [if_pos (show (readInt32 bucketValues (prj2.sizeofHashBucketBlockHeader + 4 * t), b) :: l'
            ≠ [] from List.cons_ne_nil _ _)]
        simp only [Nat.zero_add]
    rw [hstep, ih (t + 1) _ (fun t' h1 h2 => h t' (by omega) (by omega)) (by
      rw [prj2.HashStatistics.account_globalBucketIndex, Nat.mod_eq_of_lt (by omega)]
      omega), List.range'_succ, List.map_cons, List.foldl_cons]
    rfl

/-- The loop over the bucket blocks of a well-formed file whose bucket count is
not a multiple of the number of buckets to a block, from bucket block `i` on:
it accounts for the chains of the buckets of these blocks, in order. -/
theorem prj2.HashStatistics.bucketBlockLoop_accounts (BLOCK_SIZE : Nat) (f : File) (n : Nat)
    (hBS : 8 ≤ BLOCK_SIZE) (hwf : WellFormed BLOCK_SIZE f n)
    (hmod : n % prj2.MAX_BUCKET_COUNT_PER_BLOCK BLOCK_SIZE ≠ 0) (m : Nat) :
    ∀ i fuel (st : prj2.HashStatistics.Counters), 1 ≤ i →
      i + m = directoryBlockCount BLOCK_SIZE n → m + 2 ≤ fuel →
      st.globalBucketIndex = (i - 1) * prj2.MAX_BUCKET_COUNT_PER_BLOCK BLOCK_SIZE →
      prj2.HashStatistics.bucketBlockLoop BLOCK_SIZE f n fuel (i : Int) st
        = some (.next
            (((List.range' ((i - 1) * prj2.MAX_BUCKET_COUNT_PER_BLOCK BLOCK_SIZE)
                (n - (i - 1) * prj2.MAX_BUCKET_COUNT_PER_BLOCK BLOCK_SIZE)).map
              (bucketChain BLOCK_SIZE f)).foldl prj2.HashStatistics.account st)) := by
  have hC1 : 1 ≤ prj2.MAX_BUCKET_COUNT_PER_BLOCK BLOCK_SIZE := by
    unfold prj2.MAX_BUCKET_COUNT_PER_BLOCK; omega
  have hD : directoryBlockCount BLOCK_SIZE n
      = n / prj2.MAX_BUCKET_COUNT_PER_BLOCK BLOCK_SIZE + 1 := by
    unfold directoryBlockCount
    rw [ceil_div_eq _ _ (by omega), if_pos (Nat.pos_of_ne_zero hmod)]
  have hn32 : n < 2 ^ 32 := by have := hwf.n_lt; omega
  have hdm := Nat.div_add_mod n (prj2.MAX_BUCKET_COUNT_PER_BLOCK BLOCK_SIZE)
  have hmlt := Nat.mod_lt n hC1
  -- the chains of the buckets of bucket block `i`
  have hslots : ∀ (i : Nat) (b : Block) (cnt : Nat), 1 ≤ i →
      BF_ReadBlock BLOCK_SIZE f (i : Int) = some b →
      cnt ≤ prj2.MAX_BUCKET_COUNT_PER_BLOCK BLOCK_SIZE →
      (i - 1) * prj2.MAX_BUCKET_COUNT_PER_BLOCK BLOCK_SIZE + cnt ≤ n →
      ∀ t', 0 ≤ t' → t' < 0 + cnt →
        chainTo BLOCK_SIZE f (f.blockCount + 1)
            (readInt32 b (prj2.sizeofHashBucketBlockHeader + 4 * t'))
          = some (bucketChain BLOCK_SIZE f
              ((i - 1) * prj2.MAX_BUCKET_COUNT_PER_BLOCK BLOCK_SIZE + t')) := by
    intro i b cnt hi hb hcnt hle t' _ ht'
    have hs : (i - 1) * prj2.MAX_BUCKET_COUNT_PER_BLOCK BLOCK_SIZE + t' < n := by omega
    obtain ⟨l, hl, _⟩ := hwf.chains _ hs
    obtain ⟨bb, hbb, hch⟩ := chainOf_cases _ _ _ _ hl
    have hq : ((i - 1) * prj2.MAX_BUCKET_COUNT_PER_BLOCK BLOCK_SIZE + t')
        / prj2.MAX_BUCKET_COUNT_PER_BLOCK BLOCK_SIZE = i - 1 := by
      rw [Nat.add_comm, Nat.add_mul_div_right _ _ (by omega), Nat.div_eq_of_lt (by omega),
        Nat.zero_add]
    have hr : ((i - 1) * prj2.MAX_BUCKET_COUNT_PER_BLOCK BLOCK_SIZE + t')
        % prj2.MAX_BUCKET_COUNT_PER_BLOCK BLOCK_SIZE = t' := by
      rw [Nat.add_comm, Nat.add_mul_mod_self_right, Nat.mod_eq_of_lt (by omega)]
    rw [hq, show 1 + (i - 1) = i by omega, hb] at hbb
    cases hbb
    rw [hr] at hch
    rw [hch, bucketChain, hl]
    rfl
  induction m with
  | zero =>
    intro i fuel st hi him hfuel hst
    obtain ⟨fuel, rfl⟩ := Nat.exists_eq_add_of_le hfuel
    obtain ⟨b, hb, hnext⟩ := hwf.links i hi (by omega)
    rw [if_pos (by omega)] at hnext
    have hi1 : i - 1 = n / prj2.MAX_BUCKET_COUNT_PER_BLOCK BLOCK_SIZE := by omega
    have hbase : (i - 1) * prj2.MAX_BUCKET_COUNT_PER_BLOCK BLOCK_SIZE
        + n % prj2.MAX_BUCKET_COUNT_PER_BLOCK BLOCK_SIZE = n := by
      rw [hi1, Nat.mul_comm]; exact hdm
    have hcnt : n - (i - 1) * prj2.MAX_BUCKET_COUNT_PER_BLOCK BLOCK_SIZE
        = n % prj2.MAX_BUCKET_COUNT_PER_BLOCK BLOCK_SIZE := by omega
    have hmn : n % prj2.MAX_BUCKET_COUNT_PER_BLOCK BLOCK_SIZE < 2147483648 := by
      have := Nat.mod_le n (prj2.MAX_BUCKET_COUNT_PER_BLOCK BLOCK_SIZE)
      have := hwf.n_lt
      omega
    rw [show 0 + 2 + fuel = (fuel + 1) + 1 by omega,
      prj2.HashStatistics.bucketBlockLoop,
      if_neg (show ¬ ((i : Nat) : Int) = prj2.INVALID_BLOCK_INDEX by
        unfold prj2.INVALID_BLOCK_INDEX; omega), hb]
    dsimp only
    rw [hnext, if_pos (show (-1 : Int) = prj2.INVALID_BLOCK_INDEX from rfl),
      toInt32_of_range (n % prj2.MAX_BUCKET_COUNT_PER_BLOCK BLOCK_SIZE : Nat) (by omega) (by omega),
      toUInt32_natCast _ (by omega),
      prj2.HashStatistics.bucketLoop_accounts BLOCK_SIZE f b n hn32 (bucketChain BLOCK_SIZE f)
        ((i - 1) * prj2.MAX_BUCKET_COUNT_PER_BLOCK BLOCK_SIZE)
        (n % prj2.MAX_BUCKET_COUNT_PER_BLOCK BLOCK_SIZE) 0 st
        (hslots i b (n % prj2.MAX_BUCKET_COUNT_PER_BLOCK BLOCK_SIZE) hi hb (by omega) (by omega))
        (by omega),
      hcnt, Nat.add_zero]
    dsimp only
    rw [prj2.HashStatistics.bucketBlockLoop,
      if_pos (show (-1 : Int) = prj2.INVALID_BLOCK_INDEX from rfl)]
  | succ m ih =>
    intro i fuel st hi him hfuel hst
    obtain ⟨fuel, rfl⟩ := Nat.exists_eq_add_of_le hfuel
    obtain ⟨b, hb, hnext⟩ := hwf.links i hi (by omega)
    rw [if_neg (by omega)] at hnext
    have hiC : i * prj2.MAX_BUCKET_COUNT_PER_BLOCK BLOCK_SIZE ≤ n := by
      have h1 : i ≤ n / prj2.MAX_BUCKET_COUNT_PER_BLOCK BLOCK_SIZE := by omega
      have h2 := Nat.mul_le_mul_right (prj2.MAX_BUCKET_COUNT_PER_BLOCK BLOCK_SIZE) h1
      have h3 := Nat.div_mul_le_self n (prj2.MAX_BUCKET_COUNT_PER_BLOCK BLOCK_SIZE)
      omega
    have hbase : (i - 1) * prj2.MAX_BUCKET_COUNT_PER_BLOCK BLOCK_SIZE
        + prj2.MAX_BUCKET_COUNT_PER_BLOCK BLOCK_SIZE
        = i * prj2.MAX_BUCKET_COUNT_PER_BLOCK BLOCK_SIZE := by
      obtain ⟨i', rfl⟩ := Nat.exists_eq_add_of_le hi
      rw [Nat.add_sub_cancel_left, Nat.add_mul, Nat.one_mul, Nat.add_comm]
    have hCle : prj2.MAX_BUCKET_COUNT_PER_BLOCK BLOCK_SIZE < 2147483648 := by
      have h1 : 1 * prj2.MAX_BUCKET_COUNT_PER_BLOCK BLOCK_SIZE
          ≤ i * prj2.MAX_BUCKET_COUNT_PER_BLOCK BLOCK_SIZE := Nat.mul_le_mul_right _ hi
      have := hwf.n_lt
      omega
    have hib := hwf.blockCount_lt
    have hdl := hwf.directory_le
    rw [show m + 1 + 2 + fuel = (m + 2 + fuel) + 1 by omega,
      prj2.HashStatistics.bucketBlockLoop,
      if_neg (show ¬ ((i : Nat) : Int) = prj2.INVALID_BLOCK_INDEX by
        unfold prj2.INVALID_BLOCK_INDEX; omega), hb]
    dsimp only
    rw [hnext, if_neg (show ¬ ((i : Nat) : Int) + 1 = prj2.INVALID_BLOCK_INDEX by
        unfold prj2.INVALID_BLOCK_INDEX; omega),
      toInt32_of_range (prj2.MAX_BUCKET_COUNT_PER_BLOCK BLOCK_SIZE : Nat) (by omega) (by omega),
      toUInt32_natCast _ (by omega),
      prj2.HashStatistics.bucketLoop_accounts BLOCK_SIZE f b n hn32 (bucketChain BLOCK_SIZE f)
        ((i - 1) * prj2.MAX_BUCKET_COUNT_PER_BLOCK BLOCK_SIZE)
        (prj2.MAX_BUCKET_COUNT_PER_BLOCK BLOCK_SIZE) 0 st
        (hslots i b (prj2.MAX_BUCKET_COUNT_PER_BLOCK BLOCK_SIZE) hi hb (Nat.le_refl _)
          (by omega))
        (by omega),
      Nat.add_zero]
    have hsplit : List.range' ((i - 1) * prj2.MAX_BUCKET_COUNT_PER_BLOCK BLOCK_SIZE)
          (n - (i - 1) * prj2.MAX_BUCKET_COUNT_PER_BLOCK BLOCK_SIZE)
        = List.range' ((i - 1) * prj2.MAX_BUCKET_COUNT_PER_BLOCK BLOCK_SIZE)
            (prj2.MAX_BUCKET_COUNT_PER_BLOCK BLOCK_SIZE)
          ++ List.range' (i * prj2.MAX_BUCKET_COUNT_PER_BLOCK BLOCK_SIZE)
            (n - i * prj2.MAX_BUCKET_COUNT_PER_BLOCK BLOCK_SIZE) := by
      rw [← hbase, List.range'_append_1]
      congr 1
      omega
    rw [hsplit, List.map_append, List.foldl_append]
    dsimp only
    have := ih (i + 1) (m + 2 + fuel)
      (((List.range' ((i - 1) * prj2.MAX_BUCKET_COUNT_PER_BLOCK BLOCK_SIZE)
          (prj2.MAX_BUCKET_COUNT_PER_BLOCK BLOCK_SIZE)).map
        (bucketChain BLOCK_SIZE f)).foldl prj2.HashStatistics.account st)
      (by omega) (by omega) (by omega) (by
        rw [prj2.HashStatistics.foldl_account_globalBucketIndex _ _ (by
          rw [List.length_map, List.length_range']; omega), List.length_map, List.length_range',
          Nat.add_sub_cancel]
        omega)
    rw [Nat.add_sub_cancel] at this
    rw [show ((i : Nat) : Int) + 1 = ((i + 1 : Nat) : Int) by push_cast; ring]
    exact this

/-- The pass of `HashStatistics` over a well-formed file whose bucket count is not
a multiple of the number of buckets to a block: it ends, and its counters are
those that account for the chains of the buckets `0, 1, ..., n - 1` in order. -/
theorem prj2.HashStatistics.pass_eq (BLOCK_SIZE : Nat) (f : File) (n : Nat)
    (hBS : 8 ≤ BLOCK_SIZE) (hwf : WellFormed BLOCK_SIZE f n)
    (hmod : n % prj2.MAX_BUCKET_COUNT_PER_BLOCK BLOCK_SIZE ≠ 0) (h : Block)
    (hh : BF_ReadBlock BLOCK_SIZE f prj2.HEADER_BLOCK_INDEX = some h) :
    prj2.HashStatistics.pass BLOCK_SIZE f h
      = some (.next (((List.range n).map (bucketChain BLOCK_SIZE f)).foldl
          prj2.HashStatistics.account (prj2.HashStatistics.start n))) := by
  obtain ⟨h', hh', hn, hnext⟩ := hwf.header
  rw [show prj2.HEADER_BLOCK_INDEX = 0 from rfl, hh'] at hh
  cases hh
  have hD := directoryBlockCount_pos BLOCK_SIZE n hBS hwf.n_pos
  have hdl := hwf.directory_le
  have := prj2.HashStatistics.bucketBlockLoop_accounts BLOCK_SIZE f n hBS hwf hmod
    (directoryBlockCount BLOCK_SIZE n - 1) 1 (f.blockCount + 1) (prj2.HashStatistics.start n)
    (Nat.le_refl _) (by omega) (by omega) (by rw [Nat.sub_self, Nat.zero_mul]; rfl)
  rw [Nat.sub_self, Nat.zero_mul, Nat.sub_zero, ← List.range_eq_range'] at this
  unfold prj2.HashStatistics.pass
  dsimp only
  rw [hn, hnext]
  exact this

/-! ## What the counters of `HashStatistics` hold after the pass -/

theorem List.set_length_append {α : Type} (done : List α) (x y : α) (rest : List α) :
    (done ++ x :: rest).set done.length y = done ++ y :: rest := by
  induction done with
  | nil => rfl
  | cons a done ih => simp only [List.cons_append, List.length_cons, List.set_cons_succ, ih]

/-- The counters after the chains `ls` have been accounted for, from counters
whose first `done.length` overflow entries are set. -/
theorem prj2.HashStatistics.foldl_account_spec (ls : List (List (Int × Block))) :
    ∀ (done : List Nat) (r : Nat) (st : prj2.HashStatistics.Counters),
      st.overflowBlocksPerBucket = done ++ List.replicate (ls.length + r) 0 →
      st.globalBucketIndex = done.length →
      done.length + ls.length < 2 ^ 32 →
      (∀ l ∈ ls, l.length < 2 ^ 32) →
      st.totalElementCount < 2 ^ 32 →
      (ls.foldl prj2.HashStatistics.account st).overflowBlocksPerBucket
          = done ++ ls.map (fun l => l.length - 1) ++ List.replicate r 0 ∧
        (ls.foldl prj2.HashStatistics.account st).dataBlocksRead
          = st.dataBlocksRead + (ls.map List.length).sum ∧
        (ls.foldl prj2.HashStatistics.account st).totalElementCount
          = (st.totalElementCount + (ls.map chainElementCount).sum) % 2 ^ 32 := by
  induction ls with
  | nil =>
    intro done r st ho _ _ _ ht
    simp only [List.foldl_nil, List.map_nil, List.append_nil, List.sum_nil, Nat.add_zero,
      Nat.mod_eq_of_lt ht, List.length_nil, Nat.zero_add] at ho ⊢
    exact ⟨ho, trivial, trivial⟩
  | cons l ls ih =>
    intro done r st ho hg hlen hls ht
    rw [List.length_cons] at hlen
    have hl : l.length < 2 ^ 32 := hls l (List.mem_cons_self _ _)
    have ho' : st.overflowBlocksPerBucket
        = done ++ 0 :: List.replicate (ls.length + r) 0 := by
      rw [ho, List.length_cons, show ls.length + 1 + r = (ls.length + r) + 1 by omega,
        List.replicate_succ]
    have h1 : (prj2.HashStatistics.account st l).overflowBlocksPerBucket
        = (done ++ [l.length - 1]) ++ List.replicate (ls.length + r) 0 := by
      unfold prj2.HashStatistics.account
      dsimp only
      split
      · rename_i hne
        dsimp only
        have hpos : 1 ≤ l.length := by
          cases l with
          | nil => exact absurd rfl hne
          | cons a l => simp
        rw [ho', hg, List.set_length_append, Nat.mod_eq_of_lt hl,
          show ((l.length : Nat) : Int) - 1 = ((l.length - 1 : Nat) : Int) by omega,
          toUInt32_natCast _ (by omega), List.append_assoc]
        rfl
      · rename_i hne
        have : l = [] := by
          by_contra hc
          exact hne hc
        subst this
        dsimp only
        rw [ho', List.append_assoc]
        rfl
    have h2 : (prj2.HashStatistics.account st l).dataBlocksRead = st.dataBlocksRead + l.length := by
      unfold prj2.HashStatistics.account
      dsimp only
      split <;> simp only [Nat.mod_eq_of_lt hl]
    have h3 : (prj2.HashStatistics.account st l).totalElementCount
        = (st.totalElementCount + chainElementCount l) % 2 ^ 32 := by
      unfold prj2.HashStatistics.account
      dsimp only
      split
      · dsimp only
        rw [Nat.add_mod_mod]
      · rename_i hne
        have : l = [] := by
          by_contra hc
          exact hne hc
        subst this
        simp only [chainElementCount, List.map_nil, List.sum_nil, Nat.add_zero,
          Nat.mod_eq_of_lt ht]
    obtain ⟨i1, i2, i3⟩ := ih (done ++ [l.length - 1]) r (prj2.HashStatistics.account st l) h1
      (by
        rw [prj2.HashStatistics.account_globalBucketIndex, Nat.mod_eq_of_lt (by omega), hg,
          List.length_append, List.length_singleton])
      (by rw [List.length_append, List.length_singleton]; omega)
      (fun l' hl' => hls l' (List.mem_cons_of_mem _ hl'))
      (by rw [h3]; exact Nat.mod_lt _ (by norm_num))
    rw [List.foldl_cons]
    refine ⟨?_, ?_, ?_⟩
    · rw [i1, List.map_cons, List.append_assoc, List.append_assoc, List.append_assoc]
      rfl
    · rw [i2, h2, List.map_cons, List.sum_cons, Nat.add_assoc]
    · rw [i3, h3, Nat.mod_add_mod, List.map_cons, List.sum_cons, Nat.add_assoc]

/-- Chain lengths minus one, plus one for every chain that has a block, make the
chain lengths. -/
theorem sum_length_pred_add_nonEmpty {α : Type} (g : Nat → List α) (ss : List Nat) :
    (ss.map fun s => (g s).length - 1).sum + (ss.filter fun s => !(g s).isEmpty).length
      = (ss.map fun s => (g s).length).sum := by
  induction ss with
  | nil => rfl
  | cons s ss ih =>
    simp only [List.map_cons, List.sum_cons, List.filter_cons]
    cases hg : g s with
    | nil =>
      simp only [List.length_nil, List.isEmpty_nil, Bool.not_true, Bool.false_eq_true,
        if_false, Nat.zero_add]
      rw [show 0 - 1 = 0 from rfl, Nat.zero_add]
      exact ih
    | cons a l =>
      simp only [List.length_cons, List.isEmpty_cons, Bool.not_false, if_true,
        Nat.add_sub_cancel]
      omega

theorem bucketChain_length_lt (BLOCK_SIZE : Nat) (f : File) (s : Nat) :
    (bucketChain BLOCK_SIZE f s).length < f.blockCount + 1 := by
  unfold bucketChain
  cases hc : chainOf BLOCK_SIZE f s with
  | none => simp
  | some l =>
    obtain ⟨bb, _, hch⟩ := chainOf_cases _ _ _ _ hc
    exact chainTo_length _ _ _ _ _ hch

theorem length_elementsOf (size : Nat) (l : List (Int × Block)) :
    (elementsOf size l).length = chainElementCount l := by
  induction l with
  | nil => rfl
  | cons p l ih =>
    rw [elementsOf_cons, List.length_append, ih, List.length_map]
    simp only [blockElements, List.length_map, List.length_range, chainElementCount,
      List.map_cons, List.sum_cons]

theorem length_storedElements (BLOCK_SIZE size : Nat) (f : File) (n : Nat) :
    (storedElements BLOCK_SIZE size f n).length
      = ((List.range n).map fun s => chainElementCount (bucketChain BLOCK_SIZE f s)).sum := by
  unfold storedElements
  generalize List.range n = ss
  induction ss with
  | nil => rfl
  | cons s ss ih =>
    rw [List.flatMap_cons, List.length_append, ih, List.map_cons, List.sum_cons]
    congr 1
    unfold bucketChain
    cases chainOf BLOCK_SIZE f s with
    | none => rfl
    | some l => exact length_elementsOf size l

/-- The pass of `HashStatistics` over a well-formed file of `n` buckets, `n` not a
multiple of the number of buckets to a block: it ends; the overflow entry of
every bucket is the length of its chain minus one (0 for an empty chain), the
data blocks read are the blocks of all the chains, the total is the number of
stored elements (modulo `2 ^ 32`), and the overflow entries plus the number of
buckets whose chain is not empty make the number of data blocks read. -/
theorem prj2.HashStatistics.pass_of_wellFormed (BLOCK_SIZE : Nat) (f : File) (n : Nat)
    (hBS : 8 ≤ BLOCK_SIZE) (hwf : WellFormed BLOCK_SIZE f n)
    (hmod : n % prj2.MAX_BUCKET_COUNT_PER_BLOCK BLOCK_SIZE ≠ 0) (h : Block)
    (hh : BF_ReadBlock BLOCK_SIZE f prj2.HEADER_BLOCK_INDEX = some h) (size : Nat) :
    ∃ c, prj2.HashStatistics.pass BLOCK_SIZE f h = some (.next c) ∧
      c.overflowBlocksPerBucket
        = (List.range n).map (fun s => (bucketChain BLOCK_SIZE f s).length - 1) ∧
      c.dataBlocksRead = chainBlockCount BLOCK_SIZE f n ∧
      c.totalElementCount = (storedElements BLOCK_SIZE size f n).length % 2 ^ 32 ∧
      c.overflowBlocksPerBucket.sum + nonEmptyBucketCount BLOCK_SIZE f n = c.dataBlocksRead := by
  have hn := hwf.n_lt
  have hb := hwf.blockCount_lt
  obtain ⟨i1, i2, i3⟩ := prj2.HashStatistics.foldl_account_spec
    ((List.range n).map (bucketChain BLOCK_SIZE f)) [] 0 (prj2.HashStatistics.start n)
    (by simp [prj2.HashStatistics.start]) rfl
    (by rw [List.length_map, List.length_range, List.length_nil]; omega)
    (by
      intro l hl
      obtain ⟨s, _, rfl⟩ := List.mem_map.mp hl
      have := bucketChain_length_lt BLOCK_SIZE f s
      omega)
    (by norm_num [prj2.HashStatistics.start])
  rw [List.map_map, List.nil_append, List.replicate_zero, List.append_nil] at i1
  rw [List.map_map] at i2 i3
  refine ⟨_, prj2.HashStatistics.pass_eq BLOCK_SIZE f n hBS hwf hmod h hh, i1, ?_, ?_, ?_⟩
  · rw [i2]
    simp only [prj2.HashStatistics.start, Nat.zero_add]
    rfl
  · rw [i3, length_storedElements]
    simp only [prj2.HashStatistics.start, Nat.zero_add]
    rfl
  · rw [i1, i2]
    simp only [prj2.HashStatistics.start, Nat.zero_add]
    exact sum_length_pred_add_nonEmpty (bucketChain BLOCK_SIZE f) (List.range n)

/-! ## `HashStatistics`: the codes of its loops -/

theorem prj2.HashStatistics.dataLoop_ret (BLOCK_SIZE : Nat) (f : File) (fuel : Nat) :
    ∀ start e k code, prj2.HashStatistics.dataLoop BLOCK_SIZE f fuel start e k
      = some (.ret code) → code = -1 := by
  induction fuel with
  | zero => intro start e k code h; rw [prj2.HashStatistics.dataLoop] at h; exact absurd h (by simp)
  | succ fuel ih =>
    intro start e k code h
    rw [prj2.HashStatistics.dataLoop] at h
    split at h
    · exact absurd h (by simp)
    · split at h
      · simp only [Option.some.injEq, CFlow.ret.injEq] at h
        exact h.symm
      · exact ih _ _ _ _ h

theorem prj2.HashStatistics.bucketLoop_ret (BLOCK_SIZE : Nat) (f : File) (bucketValues : Block)
    (bucketCount : Nat) (k : Nat) :
    ∀ t st code, prj2.HashStatistics.bucketLoop BLOCK_SIZE f bucketValues bucketCount k t st
      = some (.ret code) → code = -1 := by
  induction k with
  | zero => intro t st code h; rw [prj2.HashStatistics.bucketLoop] at h; exact absurd h (by simp)
  | succ k ih =>
    intro t st code h
    rw [prj2.HashStatistics.bucketLoop] at h
    split at h
    · exact absurd h (by simp)
    · rename_i r hd
      simp only [Option.some.injEq, CFlow.ret.injEq] at h
      subst h
      exact prj2.HashStatistics.dataLoop_ret _ _ _ _ _ _ _ hd
    · split at h
      · split at h
        · exact ih _ _ _ h
        · exact absurd h (by simp)
      · exact ih _ _ _ h

theorem prj2.HashStatistics.bucketBlockLoop_ret (BLOCK_SIZE : Nat) (f : File) (bucketCount : Nat)
    (fuel : Nat) :
    ∀ start st code, prj2.HashStatistics.bucketBlockLoop BLOCK_SIZE f bucketCount fuel start st
      = some (.ret code) → code = -1 := by
  induction fuel with
  | zero =>
    intro start st code h
    rw [prj2.HashStatistics.bucketBlockLoop] at h
    exact absurd h (by simp)
  | succ fuel ih =>
    intro start st code h
    rw [prj2.HashStatistics.bucketBlockLoop] at h
    split at h
    · exact absurd h (by simp)
    · split at h
      · simp only [Option.some.injEq, CFlow.ret.injEq] at h
        exact h.symm
      · dsimp only at h
        split at h
        · exact absurd h (by simp)
        · rename_i r hb
          simp only [Option.some.injEq, CFlow.ret.injEq] at h
          subst h
          exact prj2.HashStatistics.bucketLoop_ret _ _ _ _ _ _ _ _ hb
        · exact ih _ _ _ h

theorem prj2.HashStatistics.pass_ret (BLOCK_SIZE : Nat) (f : File) (headerBlock : Block)
    (code : Int) (h : prj2.HashStatistics.pass BLOCK_SIZE f headerBlock = some (.ret code)) :
    code = -1 :=
  prj2.HashStatistics.bucketBlockLoop_ret _ _ _ _ _ _ _ h

/-! ## `HashStatistics`: what it returns and what it leaves -/

/-- The ways in which `HashStatistics` returns: with `-1` and nothing printed, the
file left open, or after the pass with the statistics printed, the file closed
or not. -/
theorem prj2.HashStatistics_cases (BLOCK_SIZE : Nat) (store : BFState) (fileName : FileName)
    (r : Int × Option prj2.HashStatistics.Report × BFState)
    (h : prj2.HashStatistics BLOCK_SIZE store fileName = some r) :
    (r.1 = -1 ∧ r.2.1 = none ∧ r.2.2 = (BF_OpenFile store fileName).2) ∨
      (∃ printed, r.2.1 = some printed ∧ (r.1 = 0 ∨ r.1 = -1) ∧
        r.2.2 = (BF_CloseFile (BF_OpenFile store fileName).2 (BF_OpenFile store fileName).1).2) := by
  rw [prj2.HashStatistics] at h
  rcases hopen : BF_OpenFile store fileName with ⟨handle, store1⟩
  rw [hopen] at h
  dsimp only at h ⊢
  split at h
  · cases h; exact Or.inl ⟨rfl, rfl, rfl⟩
  · split at h
    · cases h; exact Or.inl ⟨rfl, rfl, rfl⟩
    · split at h
      · cases h; exact Or.inl ⟨rfl, rfl, rfl⟩
      · split at h
        · cases h; exact Or.inl ⟨rfl, rfl, rfl⟩
        · split at h
          · exact absurd h (by simp)
          · rename_i code hpass
            cases h
            have := prj2.HashStatistics.pass_ret _ _ _ _ hpass
            exact Or.inl ⟨this, rfl, rfl⟩
          · split at h
            · cases h; exact Or.inl ⟨rfl, rfl, rfl⟩
            · rcases hclose : BF_CloseFile store1 handle with ⟨closed, store2⟩
              rw [hclose] at h
              dsimp only at h
              split at h
              · cases h; exact Or.inr ⟨_, rfl, Or.inr rfl, rfl⟩
              · cases h; exact Or.inr ⟨_, rfl, Or.inl rfl, rfl⟩

/-- C24.  Whenever `HashStatistics` returns, with `0` or with `-1`, the files of
the block store are those of before the call: no block of any file has changed
and no file has got a block (the function calls neither `BF_WriteBlock` nor
`BF_AllocateBlock`; only the table of open files can differ). -/
theorem prj2.HashStatistics.read_only (BLOCK_SIZE : Nat) (store : BFState) (fileName : FileName)
    (r : Int × Option prj2.HashStatistics.Report × BFState)
    (h : prj2.HashStatistics BLOCK_SIZE store fileName = some r) :
    (r.1 = 0 ∨ r.1 = -1) ∧ r.2.2.files = store.files := by
  rcases prj2.HashStatistics_cases BLOCK_SIZE store fileName r h with
    ⟨h1, _, h3⟩ | ⟨_, _, h2, h3⟩
  · exact ⟨Or.inr h1, by rw [h3, BF_OpenFile_files]⟩
  · exact ⟨h2, by rw [h3, BF_CloseFile_files, BF_OpenFile_files]⟩

theorem prj2.HashStatistics.read_only_witness :
    prj2.HashStatistics 512 prj2.statisticsStoreBusy [80]
        = some ((prj2.HashStatistics 512 prj2.statisticsStoreBusy [80]).getD
            (-1, none, prj2.statisticsStoreBusy)) ∧
      (((prj2.HashStatistics 512 prj2.statisticsStoreBusy [80]).getD
            (-1, none, prj2.statisticsStoreBusy)).1 = 0 ∨
        ((prj2.HashStatistics 512 prj2.statisticsStoreBusy [80]).getD
            (-1, none, prj2.statisticsStoreBusy)).1 = -1) ∧
      ((prj2.HashStatistics 512 prj2.statisticsStoreBusy [80]).getD
          (-1, none, prj2.statisticsStoreBusy)).2.2.files = prj2.statisticsStoreBusy.files :=
  ⟨by decide!,
    prj2.HashStatistics.read_only 512 prj2.statisticsStoreBusy [80] _ (by decide!)⟩

/-- When the block store opens the file on handle 0, `HashStatistics` returns `-1`
without reading a block, and leaves the file open. -/
theorem prj2.HashStatistics_of_handle_zero (BLOCK_SIZE : Nat) (store : BFState)
    (fileName : FileName) (h : (BF_OpenFile store fileName).1 = 0) :
    prj2.HashStatistics BLOCK_SIZE store fileName
      = some (-1, none, (BF_OpenFile store fileName).2) := by
  rw [prj2.HashStatistics]
  rcases hopen : BF_OpenFile store fileName with ⟨handle, store1⟩
  rw [hopen] at h
  dsimp only at h ⊢
  rw [if_pos h]

/-- C25, on two stores.  The store `statisticsStore` holds the primary file
`demoPrimary` (well-formed, 3 buckets, file kind `HashFile`) and has no file
open: the block store opens the file on handle 0, every block can be read, and
`HashStatistics` returns `-1`, prints no statistics and leaves the file open.
In the store `statisticsStoreBusy`, where handle 0 is taken, the same call gets
handle 1 and returns `0`, with the file closed again. -/
theorem prj2.HashStatistics.handle_zero_run :
    wellFormedCheck 512 prj2.SHT.demoPrimary 3 = true ∧
    fileKind 512 prj2.SHT.demoPrimary = some prj2.HashFile ∧
    (BF_OpenFile prj2.statisticsStore [80]).1 = 0 ∧
    (BF_OpenFile prj2.statisticsStore [80]).2.view 0 = some prj2.SHT.demoPrimary ∧
    (prj2.HashStatistics 512 prj2.statisticsStore [80]).map
        (fun r => (r.1, r.2.1.isSome, r.2.2.openFiles))
      = some (-1, false, [some [80]]) ∧
    (BF_OpenFile prj2.statisticsStoreBusy [80]).1 = 1 ∧
    (prj2.HashStatistics 512 prj2.statisticsStoreBusy [80]).map
        (fun r => (r.1, r.2.1.isSome, r.2.2.openFiles))
      = some (0, true, [some [83], none]) := by
  decide!

/-- C22, on one file.  The file `aliasFileAfter` is made by `HT_CreateIndex` with
254 buckets and 753 inserts.  The pass of `HashStatistics` ends after 127
buckets: it has read 252 data blocks and its overflow entries add up to 125,
that of bucket 129 being 0.  Yet all the 254 buckets have a chain that is not
empty; the chain of bucket 129, the bucket of the key 2, has two blocks, and
the record with ID 2 is found there by `HT_GetAllEntries`. -/
theorem prj2.HashStatistics.pass_skips_run :
    ((BF_ReadBlock 512 prj2.HT.aliasFileAfter prj2.HEADER_BLOCK_INDEX).bind fun h =>
        (prj2.HashStatistics.pass 512 prj2.HT.aliasFileAfter h).bind fun r =>
          match r with
          | .ret _ => none
          | .next c => some (readUInt32 h 4, c.globalBucketIndex, c.dataBlocksRead))
      = some (254, 127, 252) ∧
    ((BF_ReadBlock 512 prj2.HT.aliasFileAfter prj2.HEADER_BLOCK_INDEX).bind fun h =>
        (prj2.HashStatistics.pass 512 prj2.HT.aliasFileAfter h).bind fun r =>
          match r with
          | .ret _ => none
          | .next c => some (c.overflowBlocksPerBucket.sum, c.overflowBlocksPerBucket.length,
              c.overflowBlocksPerBucket.get? 129))
      = some (125, 254, some 0) ∧
    nonEmptyBucketCount 512 prj2.HT.aliasFileAfter 254 = 254 ∧
    prj2.HT.HashFunction 2 254 = 129 ∧
    (bucketChain 512 prj2.HT.aliasFileAfter 129).length = 2 ∧
    (prj2.HT.HT_GetAllEntries 512 prj2.HT.aliasFileAfter (some 2)).map
        (fun p => p.2.map fun r => r.ID) = some [2] := by
  decide!

/-! ## The type `float`: rounding -/

theorem prj2.CFloat.scaleUp_spec (den : Nat) (fuel : Nat) :
    ∀ (num : Nat) (e : Int), 2 ^ 23 * den ≤ num * 2 ^ fuel →
      2 ^ 23 * den ≤ (prj2.CFloat.scaleUp den fuel num e).1 ∧
      ((prj2.CFloat.scaleUp den fuel num e).1 < 2 ^ 24 * den ∨
        prj2.CFloat.scaleUp den fuel num e = (num, e)) ∧
      (((prj2.CFloat.scaleUp den fuel num e).1 : ℚ) * 2 ^ (prj2.CFloat.scaleUp den fuel num e).2
        = num * 2 ^ e) := by
  induction fuel with
  | zero =>
    intro num e h
    rw [pow_zero, Nat.mul_one] at h
    exact ⟨h, Or.inr rfl, rfl⟩
  | succ fuel ih =>
    intro num e h
    rw [prj2.CFloat.scaleUp]
    split
    · rename_i hlt
      obtain ⟨i1, i2, i3⟩ := ih (2 * num) (e - 1) (by
        calc 2 ^ 23 * den ≤ num * 2 ^ (fuel + 1) := h
          _ = 2 * num * 2 ^ fuel := by rw [pow_succ]; ring)
      refine ⟨i1, Or.inl ?_, ?_⟩
      · rcases i2 with i2 | i2
        · exact i2
        · rw [i2]
          dsimp only
          omega
      · rw [i3, zpow_sub_one₀ (by norm_num : (2 : ℚ) ≠ 0)]
        push_cast
        ring
    · rename_i hge
      exact ⟨by omega, Or.inr rfl, rfl⟩

theorem prj2.CFloat.scaleDown_spec (num : Nat) (fuel : Nat) :
    ∀ (den : Nat) (e : Int), 0 < den → num < 2 ^ 24 * den * 2 ^ fuel →
      0 < (prj2.CFloat.scaleDown num fuel den e).1 ∧
      num < 2 ^ 24 * (prj2.CFloat.scaleDown num fuel den e).1 ∧
      (2 ^ 23 * den ≤ num → 2 ^ 23 * (prj2.CFloat.scaleDown num fuel den e).1 ≤ num) ∧
      (num < 2 ^ 24 * den → prj2.CFloat.scaleDown num fuel den e = (den, e)) ∧
      ((2 : ℚ) ^ (prj2.CFloat.scaleDown num fuel den e).2
          / ((prj2.CFloat.scaleDown num fuel den e).1 : ℚ)
        = 2 ^ e / den) := by
  induction fuel with
  | zero =>
    intro den e hden h
    rw [pow_zero, Nat.mul_one] at h
    exact ⟨hden, h, fun h' => h', fun _ => rfl, rfl⟩
  | succ fuel ih =>
    intro den e hden h
    rw [prj2.CFloat.scaleDown]
    split
    · rename_i hge
      obtain ⟨i1, i2, i3, _, i5⟩ := ih (2 * den) (e + 1) (by omega) (by
        rw [pow_succ] at h
        calc num < 2 ^ 24 * den * (2 ^ fuel * 2) := h
          _ = 2 ^ 24 * (2 * den) * 2 ^ fuel := by ring)
      refine ⟨i1, i2, fun _ => i3 (by omega), fun hlt => absurd hge (by omega), ?_⟩
      rw [i5, zpow_add_one₀ (by norm_num : (2 : ℚ) ≠ 0)]
      have hd : (den : ℚ) ≠ 0 := by
        have : (0 : ℚ) < den := by exact_mod_cast hden
        exact ne_of_gt this
      push_cast
      field_simp
      ring
    · rename_i hlt
      exact ⟨hden, by omega, fun h' => h', fun _ => rfl, rfl⟩

/-- Rounding of a quotient to a nearest integer: the error is at most one half. -/
theorem prj2.CFloat.nearest_le (num den : Nat) (hden : 0 < den) :
    |(((if 2 * (num % den) < den ∨ (2 * (num % den) = den ∧ num / den % 2 = 0) then num / den
        else num / den + 1 : Nat) : ℚ)) - num / den| ≤ 1 / 2 := by
  have hdm := Nat.div_add_mod num den
  have hd : (0 : ℚ) < den := by exact_mod_cast hden
  have hq : (num : ℚ) / den = (num / den : Nat) + (num % den : Nat) / (den : ℚ) := by
    have : (num : ℚ) = den * (num / den : Nat) + (num % den : Nat) := by exact_mod_cast hdm.symm
    rw [this, add_div, mul_div_cancel_left₀ _ (ne_of_gt hd)]
  rw [hq, abs_le]
  split
  · rename_i hc
    have h2 : 2 * (num % den) ≤ den := by
      rcases hc with hc | hc
      · omega
      · omega
    have h2q : 2 * ((num % den : Nat) : ℚ) ≤ den := by exact_mod_cast h2
    have h3 : ((num % den : Nat) : ℚ) / den ≤ 1 / 2 := by
      rw [div_le_iff₀ hd]
      linarith
    have h4 : (0 : ℚ) ≤ ((num % den : Nat) : ℚ) / den := by positivity
    constructor <;> linarith
  · rename_i hc
    have h2 : den ≤ 2 * (num % den) := by
      by_contra hlt
      exact hc (Or.inl (by omega))
    have hr : num % den < den := Nat.mod_lt _ hden
    have h2q : (den : ℚ) ≤ 2 * ((num % den : Nat) : ℚ) := by exact_mod_cast h2
    have hrq : ((num % den : Nat) : ℚ) < den := by exact_mod_cast hr
    have h3 : (1 : ℚ) / 2 ≤ ((num % den : Nat) : ℚ) / den := by
      rw [le_div_iff₀ hd]
      linarith
    have h4 : ((num % den : Nat) : ℚ) / den ≤ 1 := by
      rw [div_le_iff₀ hd]
      linarith
    push_cast
    constructor <;> linarith

/-- The rounding of `num / den * 2 ^ e` to a `float`, for a quotient that 64
doublings bring between `2 ^ 23` and `2 ^ 24`: the result is a number
`m * 2 ^ e'` with a mantissa `m` of 24 bits, at most half a unit of the last
place away. -/
theorem prj2.CFloat.round_spec (num den : Nat) (e : Int) (hnum : 0 < num) (hden : 0 < den)
    (h1 : 2 ^ 23 * den ≤ num * 2 ^ 64) (h2 : num < 2 ^ 24 * den * 2 ^ 64) :
    ∃ (m : Nat) (e' : Int), prj2.CFloat.round num den e = .finite m e' ∧
      2 ^ 23 ≤ m ∧ m < 2 ^ 24 ∧
      |(m : ℚ) * 2 ^ e' - (num : ℚ) / den * 2 ^ e| ≤ 2 ^ e' / 2 := by
  obtain ⟨u1, u2, u3⟩ := prj2.CFloat.scaleUp_spec den 64 num e h1
  rcases hup : prj2.CFloat.scaleUp den 64 num e with ⟨num1, e1⟩
  rw [hup] at u1 u2 u3
  dsimp only at u1 u2 u3
  have hnum1 : num1 < 2 ^ 24 * den * 2 ^ 64 := by
    rcases u2 with u2 | u2
    · calc num1 < 2 ^ 24 * den := u2
        _ ≤ 2 ^ 24 * den * 2 ^ 64 := Nat.le_mul_of_pos_right _ (by norm_num)
    · simp only [Prod.mk.injEq] at u2
      rw [u2.1]
      exact h2
  obtain ⟨d1, d2, d3, _, d5⟩ := prj2.CFloat.scaleDown_spec num1 64 den e1 hden hnum1
  rcases hdown : prj2.CFloat.scaleDown num1 64 den e1 with ⟨den1, e2⟩
  rw [hdown] at d1 d2 d3 d5
  dsimp only at d1 d2 d3 d5
  have d3 := d3 u1
  have hm0a : 2 ^ 23 ≤ num1 / den1 := (Nat.le_div_iff_mul_le d1).mpr d3
  have hm0b : num1 / den1 < 2 ^ 24 := (Nat.div_lt_iff_lt_mul d1).mpr d2
  have hnear := prj2.CFloat.nearest_le num1 den1 d1
  have hdq : (0 : ℚ) < den1 := by exact_mod_cast d1
  have hdenq : (0 : ℚ) < den := by exact_mod_cast hden
  have hp : (0 : ℚ) < 2 ^ e2 := zpow_pos (by norm_num) _
  -- the number to round, in terms of the scaled quotient
  have hq : (num : ℚ) / den * 2 ^ e = (num1 : ℚ) / den1 * 2 ^ e2 := by
    have e1' : (num : ℚ) * 2 ^ e = num1 * 2 ^ e1 := u3.symm
    have e2' : (2 : ℚ) ^ e1 / den = 2 ^ e2 / den1 := d5.symm
    calc (num : ℚ) / den * 2 ^ e = (num * 2 ^ e) / den := by ring
      _ = num1 * (2 ^ e1 / den) := by rw [e1']; ring
      _ = num1 / den1 * 2 ^ e2 := by rw [e2']; ring
  generalize hm : (if 2 * (num1 % den1) < den1 ∨ (2 * (num1 % den1) = den1 ∧ num1 / den1 % 2 = 0)
      then num1 / den1 else num1 / den1 + 1 : Nat) = m at hnear
  have hma : 2 ^ 23 ≤ m := by
    rw [← hm]
    split <;> omega
  have hmb : m ≤ 2 ^ 24 := by
    rw [← hm]
    split <;> omega
  have herr : |(m : ℚ) * 2 ^ e2 - (num : ℚ) / den * 2 ^ e| ≤ 2 ^ e2 / 2 := by
    rw [hq, ← sub_mul, abs_mul, abs_of_pos hp]
    calc |(m : ℚ) - num1 / den1| * 2 ^ e2 ≤ 1 / 2 * 2 ^ e2 :=
          mul_le_mul_of_nonneg_right hnear (le_of_lt hp)
      _ = 2 ^ e2 / 2 := by ring
  have hround : prj2.CFloat.round num den e
      = if m = 2 ^ 24 then .finite (2 ^ 23) (e2 + 1) else .finite m e2 := by
    rw [prj2.CFloat.round, if_neg (by omega), hup]
    dsimp only
    rw [hdown]
    dsimp only
    rw [hm]
  by_cases hm24 : m = 2 ^ 24
  · refine ⟨2 ^ 23, e2 + 1, by rw [hround, if_pos hm24], Nat.le_refl _, by norm_num, ?_⟩
    have hv : ((2 ^ 23 : Nat) : ℚ) * 2 ^ (e2 + 1) = (m : ℚ) * 2 ^ e2 := by
      rw [hm24, zpow_add_one₀ (by norm_num : (2 : ℚ) ≠ 0)]
      push_cast
      ring
    rw [hv, zpow_add_one₀ (by norm_num : (2 : ℚ) ≠ 0)]
    linarith
  · exact ⟨m, e2, by rw [hround, if_neg hm24], hma, by omega, herr⟩

/-- The conversion to `float` of a number below `2 ^ 24` is exact. -/
theorem prj2.CFloat.ofUInt32_exact (x : Nat) (h0 : 0 < x) (h1 : x < 2 ^ 24) :
    ∃ (m : Nat) (e : Int), prj2.CFloat.ofUInt32 x = .finite m e ∧ 2 ^ 23 ≤ m ∧ m < 2 ^ 24 ∧
      (m : ℚ) * 2 ^ e = x := by
  obtain ⟨u1, u2, u3⟩ := prj2.CFloat.scaleUp_spec 1 64 x 0 (by
    calc 2 ^ 23 * 1 ≤ 1 * 2 ^ 64 := by norm_num
      _ ≤ x * 2 ^ 64 := Nat.mul_le_mul_right _ h0)
  rcases hup : prj2.CFloat.scaleUp 1 64 x 0 with ⟨num1, e1⟩
  rw [hup] at u1 u2 u3
  dsimp only at u1 u2 u3
  have hlt : num1 < 2 ^ 24 * 1 := by
    rcases u2 with u2 | u2
    · exact u2
    · simp only [Prod.mk.injEq] at u2
      rw [u2.1]
      omega
  obtain ⟨_, _, _, d4, _⟩ := prj2.CFloat.scaleDown_spec num1 64 1 e1 (by norm_num) (by
    calc num1 < 2 ^ 24 * 1 := hlt
      _ ≤ 2 ^ 24 * 1 * 2 ^ 64 := by norm_num)
  have hdown := d4 hlt
  refine ⟨num1, e1, ?_, by omega, by omega, ?_⟩
  · rw [prj2.CFloat.ofUInt32, prj2.CFloat.round, if_neg (by omega), hup]
    dsimp only
    rw [hdown]
    dsimp only
    rw [Nat.mod_one, Nat.div_one, if_pos (Or.inl (by norm_num)), if_neg (by omega)]
  · rw [u3]
    simp

/-- The quotient of two numbers below `2 ^ 24`, converted to `float` and divided
as `float`s: a number `m * 2 ^ e` with a mantissa of 24 bits, at most half a
unit of the last place away from the quotient. -/
theorem prj2.CFloat.div_ofUInt32 (x y : Nat) (hx0 : 0 < x) (hx : x < 2 ^ 24) (hy0 : 0 < y)
    (hy : y < 2 ^ 24) :
    ∃ (m : Nat) (e : Int),
      prj2.CFloat.div (prj2.CFloat.ofUInt32 x) (prj2.CFloat.ofUInt32 y) = .finite m e ∧
      2 ^ 23 ≤ m ∧ m < 2 ^ 24 ∧ |(m : ℚ) * 2 ^ e - (x : ℚ) / y| ≤ 2 ^ e / 2 := by
  obtain ⟨m1, e1, hx1, hx2, hx3, hx4⟩ := prj2.CFloat.ofUInt32_exact x hx0 hx
  obtain ⟨m2, e2, hy1, hy2, hy3, hy4⟩ := prj2.CFloat.ofUInt32_exact y hy0 hy
  obtain ⟨m, e, hr, hm1, hm2, herr⟩ := prj2.CFloat.round_spec m1 m2 (e1 - e2) (by omega)
    (by omega) (by omega) (by
      calc m1 < 2 ^ 24 * 1 * 1 := by omega
        _ ≤ 2 ^ 24 * m2 * 2 ^ 64 :=
          Nat.mul_le_mul (Nat.mul_le_mul_left _ (by omega)) (by norm_num))
  refine ⟨m, e, ?_, hm1, hm2, ?_⟩
  · rw [hx1, hy1, prj2.CFloat.div, if_neg (by omega), hr]
  · have hq : (x : ℚ) / y = (m1 : ℚ) / m2 * 2 ^ (e1 - e2) := by
      rw [← hx4, ← hy4, zpow_sub₀ (by norm_num : (2 : ℚ) ≠ 0)]
      have hm2q : (m2 : ℚ) ≠ 0 := by
        have : (0 : ℚ) < m2 := by exact_mod_cast (by omega : 0 < m2)
        exact ne_of_gt this
      have hp : (2 : ℚ) ^ e2 ≠ 0 := zpow_ne_zero _ (by norm_num)
      field_simp
    rw [hq]
    exact herr

/-! ## `HashStatistics`: the average -/

/-- C23, as stated, on one file.  In the file `oneRecord` (3 buckets, one record,
so one bucket that is not empty) the average that `HashStatistics` computes is
the `float` `11184811 * 2 ^ (-25)`, the `float` next to `1 / 3`; it is not the
number of stored elements divided by the number of buckets that are not empty,
which is `1`. -/
theorem prj2.HashStatistics.average_run :
    ((BF_ReadBlock 512 prj2.HT.oneRecord prj2.HEADER_BLOCK_INDEX).bind fun h =>
        (prj2.HashStatistics.pass 512 prj2.HT.oneRecord h).bind fun r =>
          match r with
          | .ret _ => none
          | .next c =>
            some (prj2.HashStatistics.report (BF_GetBlockCounter prj2.HT.oneRecord)
              (readUInt32 h 4) c).averageElementCount)
      = some (.finite 11184811 (-25)) ∧
    (storedElements 512 prj2.sizeofRecord prj2.HT.oneRecord 3).length = 1 ∧
    nonEmptyBucketCount 512 prj2.HT.oneRecord 3 = 1 ∧
    (prj2.CFloat.finite 11184811 (-25)).toRat
      ≠ some (((storedElements 512 prj2.sizeofRecord prj2.HT.oneRecord 3).length : ℚ)
          / (nonEmptyBucketCount 512 prj2.HT.oneRecord 3 : ℚ)) := by
  have h1 : (storedElements 512 prj2.sizeofRecord prj2.HT.oneRecord 3).length = 1 := by decide!
  have h2 : nonEmptyBucketCount 512 prj2.HT.oneRecord 3 = 1 := by decide!
  refine ⟨by decide!, h1, h2, ?_⟩
  rw [h1, h2, prj2.CFloat.toRat]
  norm_num

/-- C23, amended.  On a well-formed file of `n` buckets (`n` not a multiple of the
number of buckets to a block) the pass of `HashStatistics` ends, and the average
it then computes is the quotient, in the type `float`, of the number of stored
elements (modulo `2 ^ 32`) and of `n`, the number of all the buckets, both
converted to `float`.  When there are stored elements, and fewer than `2 ^ 24`
of them and of buckets, that is a `float` `m * 2 ^ e` with a mantissa of 24
bits, at most half a unit of the last place away from the number of stored
elements divided by `n`. -/
theorem prj2.HashStatistics.average_spec (BLOCK_SIZE : Nat) (f : File) (n : Nat)
    (hBS : 8 ≤ BLOCK_SIZE) (hwf : WellFormed BLOCK_SIZE f n)
    (hmod : n % prj2.MAX_BUCKET_COUNT_PER_BLOCK BLOCK_SIZE ≠ 0) (h : Block)
    (hh : BF_ReadBlock BLOCK_SIZE f prj2.HEADER_BLOCK_INDEX = some h) (size : Nat) :
    ∃ c, prj2.HashStatistics.pass BLOCK_SIZE f h = some (.next c) ∧
      (prj2.HashStatistics.report (BF_GetBlockCounter f) (readUInt32 h 4) c).averageElementCount
        = prj2.CFloat.div
            (prj2.CFloat.ofUInt32 ((storedElements BLOCK_SIZE size f n).length % 2 ^ 32))
            (prj2.CFloat.ofUInt32 n) ∧
      (0 < (storedElements BLOCK_SIZE size f n).length →
        (storedElements BLOCK_SIZE size f n).length < 2 ^ 24 → n < 2 ^ 24 →
        ∃ (m : Nat) (e : Int),
          (prj2.HashStatistics.report (BF_GetBlockCounter f) (readUInt32 h 4)
            c).averageElementCount = .finite m e ∧
          2 ^ 23 ≤ m ∧ m < 2 ^ 24 ∧
          |(m : ℚ) * 2 ^ e - ((storedElements BLOCK_SIZE size f n).length : ℚ) / n|
            ≤ 2 ^ e / 2) := by
  obtain ⟨c, hc, _, _, htotal, _⟩ :=
    prj2.HashStatistics.pass_of_wellFormed BLOCK_SIZE f n hBS hwf hmod h hh size
  obtain ⟨h', hh', hn, _⟩ := hwf.header
  rw [show prj2.HEADER_BLOCK_INDEX = 0 from rfl, hh'] at hh
  cases hh
  have havg : (prj2.HashStatistics.report (BF_GetBlockCounter f) (readUInt32 h 4)
        c).averageElementCount
      = prj2.CFloat.div
          (prj2.CFloat.ofUInt32 ((storedElements BLOCK_SIZE size f n).length % 2 ^ 32))
          (prj2.CFloat.ofUInt32 n) := by
    rw [prj2.HashStatistics.report, htotal, hn]
  refine ⟨c, hc, havg, ?_⟩
  intro h0 h1 h2
  rw [havg, Nat.mod_eq_of_lt (by omega)]
  exact prj2.CFloat.div_ofUInt32 _ n h0 h1 hwf.n_pos h2

theorem prj2.HashStatistics.average_spec_witness :
    (8 ≤ 512 ∧ WellFormed 512 prj2.SHT.demoPrimary 3 ∧
      3 % prj2.MAX_BUCKET_COUNT_PER_BLOCK 512 ≠ 0 ∧
      BF_ReadBlock 512 prj2.SHT.demoPrimary prj2.HEADER_BLOCK_INDEX
        = some ((BF_ReadBlock 512 prj2.SHT.demoPrimary 0).getD 0)) ∧
    ∃ c, prj2.HashStatistics.pass 512 prj2.SHT.demoPrimary
          ((BF_ReadBlock 512 prj2.SHT.demoPrimary 0).getD 0) = some (.next c) ∧
      (prj2.HashStatistics.report (BF_GetBlockCounter prj2.SHT.demoPrimary)
          (readUInt32 ((BF_ReadBlock 512 prj2.SHT.demoPrimary 0).getD 0) 4) c).averageElementCount
        = prj2.CFloat.div
            (prj2.CFloat.ofUInt32
              ((storedElements 512 prj2.sizeofRecord prj2.SHT.demoPrimary 3).length % 2 ^ 32))
            (prj2.CFloat.ofUInt32 3) ∧
      (0 < (storedElements 512 prj2.sizeofRecord prj2.SHT.demoPrimary 3).length →
        (storedElements 512 prj2.sizeofRecord prj2.SHT.demoPrimary 3).length < 2 ^ 24 →
        3 < 2 ^ 24 →
        ∃ (m : Nat) (e : Int),
          (prj2.HashStatistics.report (BF_GetBlockCounter prj2.SHT.demoPrimary)
            (readUInt32 ((BF_ReadBlock 512 prj2.SHT.demoPrimary 0).getD 0) 4)
            c).averageElementCount = .finite m e ∧
          2 ^ 23 ≤ m ∧ m < 2 ^ 24 ∧
          |(m : ℚ) * 2 ^ e
              - ((storedElements 512 prj2.sizeofRecord prj2.SHT.demoPrimary 3).length : ℚ)
                / (3 : Nat)|
            ≤ 2 ^ e / 2) :=
  ⟨⟨by decide, wellFormed_of_check 512 prj2.SHT.demoPrimary 3 (by decide!), by decide,
      by decide!⟩,
    prj2.HashStatistics.average_spec 512 prj2.SHT.demoPrimary 3 (by decide)
      (wellFormed_of_check 512 prj2.SHT.demoPrimary 3 (by decide!)) (by decide)
      ((BF_ReadBlock 512 prj2.SHT.demoPrimary 0).getD 0) (by decide!) prj2.sizeofRecord⟩

/-! ## Project 1: the scans of `HT_GetAllEntries` -/

theorem prj1.HT.scan_dataLoop_ret (BLOCK_SIZE : Nat) (f : File) (fuel : Nat) :
    ∀ start out r, prj1.HT.HT_GetAllEntries.dataLoop BLOCK_SIZE f fuel start out = some (.ret r) →
      r.1 = -1 := by
  induction fuel with
  | zero =>
    intro start out r h
    rw [prj1.HT.HT_GetAllEntries.dataLoop] at h
    exact absurd h (by simp)
  | succ fuel ih =>
    intro start out r h
    rw [prj1.HT.HT_GetAllEntries.dataLoop] at h
    split at h
    · exact absurd h (by simp)
    · split at h
      · simp only [Option.some.injEq, CFlow.ret.injEq] at h
        rw [← h]
      · exact ih _ _ _ h

theorem prj1.HT.scan_bucketLoop_ret (BLOCK_SIZE : Nat) (f : File) (b : Block) (k : Nat) :
    ∀ t out r, prj1.HT.HT_GetAllEntries.bucketLoop BLOCK_SIZE f b k t out = some (.ret r) →
      r.1 = -1 := by
  induction k with
  | zero =>
    intro t out r h
    rw [prj1.HT.HT_GetAllEntries.bucketLoop] at h
    exact absurd h (by simp)
  | succ k ih =>
    intro t out r h
    rw [prj1.HT.HT_GetAllEntries.bucketLoop] at h
    split at h
    · exact absurd h (by simp)
    · rename_i r' hd
      simp only [Option.some.injEq, CFlow.ret.injEq] at h
      subst h
      exact prj1.HT.scan_dataLoop_ret _ _ _ _ _ _ hd
    · exact ih _ _ _ h

theorem prj1.HT.scan_bucketBlockLoop_ret (BLOCK_SIZE : Nat) (f : File) (bucketCount : Nat)
    (fuel : Nat) :
    ∀ start out r,
      prj1.HT.HT_GetAllEntries.bucketBlockLoop BLOCK_SIZE f bucketCount fuel start out
        = some (.ret r) → r.1 = -1 := by
  induction fuel with
  | zero =>
    intro start out r h
    rw [prj1.HT.HT_GetAllEntries.bucketBlockLoop] at h
    exact absurd h (by simp)
  | succ fuel ih =>
    intro start out r h
    rw [prj1.HT.HT_GetAllEntries.bucketBlockLoop] at h
    split at h
    · exact absurd h (by simp)
    · split at h
      · simp only [Option.some.injEq, CFlow.ret.injEq] at h
        rw [← h]
      · dsimp only at h
        split at h
        · exact absurd h (by simp)
        · rename_i r' hb
          simp only [Option.some.injEq, CFlow.ret.injEq] at h
          subst h
          exact prj1.HT.scan_bucketLoop_ret _ _ _ _ _ _ _ hb
        · exact ih _ _ _ h

/-- The full scan of project 1 returns `0` or `-1`, whatever the file. -/
theorem prj1.HT.full_scan_code (BLOCK_SIZE : Nat) (f : File) (r : Int × List prj1.Record)
    (h : prj1.HT.HT_GetAllEntries BLOCK_SIZE f none = some r) : r.1 = 0 ∨ r.1 = -1 := by
  unfold prj1.HT.HT_GetAllEntries at h
  dsimp only at h
  split at h
  · cases h; exact Or.inl rfl
  · rw [if_neg (by decide)] at h
    split at h
    · exact absurd h (by simp)
    · rename_i r' hl
      cases h
      exact Or.inr (prj1.HT.scan_bucketBlockLoop_ret _ _ _ _ _ _ _ hl)
    · cases h; exact Or.inl rfl

/-- C26.  The run of the demonstration program of project 1 on blocks of 512
bytes: `HT_CreateIndex` with 12 buckets returns 0 and the 17 calls of
`HT_InsertEntry`, for the IDs 1 to 17 in order, return the block indices listed,
none of them `-1`.  On the file they leave, the full scan prints 17 records,
which are records of the program, each of the IDs 1 to 17 once, and the scan
for the key 5 prints the one record with ID 5 and returns 3, the number of
blocks it has read. -/
theorem prj1.HT.demo_run :
    prj1.HT.demoRun.map (fun r => (r.1, r.2.1))
      = some (0, [2, 3, 4, 2, 2, 4, 3, 2, 5, 3, 3, 5, 2, 3, 4, 6, 6]) ∧
    (prj1.HT.demoRun.map fun r => r.2.1.all fun code => decide (code ≠ -1)) = some true ∧
    (prj1.HT.HT_GetAllEntries 512 prj1.HT.demoFile none).map (fun r => r.2.map fun x => x.ID)
      = some [9, 12, 1, 4, 5, 8, 13, 16, 17, 3, 6, 15, 2, 7, 10, 11, 14] ∧
    (prj1.HT.HT_GetAllEntries 512 prj1.HT.demoFile none).map
        (fun r => (r.2.length,
          (List.range' 1 17).all fun k =>
            decide ((r.2.map fun x => x.ID).count ((k : Nat) : Int) = 1),
          r.2.all fun x => decide (x ∈ prj1.HT.demoRecords)))
      = some (17, true, true) ∧
    prj1.HT.HT_GetAllEntries 512 prj1.HT.demoFile (some 5) = some (3, [prj1.HT.demoRecord 5]) := by
  decide!

/-- C27, on two files.  On the file that `HT_CreateIndex` of project 1 makes with
12 buckets, which has 2 blocks, the full scan returns 0; on the file of the
demonstration program, which has 7 blocks, the full scan prints the 17 records
and returns 0, while the scan of the same file for the key 5 returns 3. -/
theorem prj1.HT.full_scan_run :
    (prj1.HT.HT_CreateIndex 512 12).1 = 0 ∧
    (prj1.HT.HT_CreateIndex 512 12).2.blockCount = 2 ∧
    prj1.HT.HT_GetAllEntries 512 (prj1.HT.HT_CreateIndex 512 12).2 none = some (0, []) ∧
    prj1.HT.demoFile.blockCount = 7 ∧
    (prj1.HT.HT_GetAllEntries 512 prj1.HT.demoFile none).map (fun r => (r.1, r.2.length))
      = some (0, 17) ∧
    (prj1.HT.HT_GetAllEntries 512 prj1.HT.demoFile (some 5)).map (fun r => r.1) = some 3 := by
  decide!

/-! ## `HT_DeleteEntry` on well-formed files -/

/-- The loop of `HT_DeleteEntry` along a chain that ends: no block of the chain
holds the key and the loop falls through, or the first block of the chain that
holds the key is persisted with the record removed, and the function returns
`0`. -/
theorem prj2.HT.deleteLoop_of_chain (BLOCK_SIZE : Nat) (f : File) (key : Int) (fuel : Nat) :
    ∀ start l, chainTo BLOCK_SIZE f fuel start = some l →
      ((∀ p ∈ l, prj2.HT.findRecord p.2 key (readUInt32 p.2 0) 0 = none) ∧
        prj2.HT.HT_DeleteEntry.loop BLOCK_SIZE f key fuel start = some (.next ())) ∨
      (∃ l1 c b l2 i, l = l1 ++ (c, b) :: l2 ∧
        (∀ p ∈ l1, prj2.HT.findRecord p.2 key (readUInt32 p.2 0) 0 = none) ∧
        prj2.HT.findRecord b key (readUInt32 b 0) 0 = some i ∧
        prj2.HT.HT_DeleteEntry.loop BLOCK_SIZE f key fuel start
          = some (.ret (0, BF_WriteBlock BLOCK_SIZE f c
              (prj2.HT.HT_DeleteEntry.removeRecord BLOCK_SIZE b i)))) := by
  induction fuel with
  | zero => intro start l h; rw [chainTo] at h; exact absurd h (by simp)
  | succ fuel ih =>
    intro start l h
    obtain ⟨fuel', hf, hc⟩ := chainTo_cases _ _ _ _ _ h
    cases hf
    rw [prj2.HT.HT_DeleteEntry.loop]
    rcases hc with ⟨hs, rfl⟩ | ⟨hs, b, l', hb, hr, rfl⟩
    · left
      rw [if_pos (show start = prj2.INVALID_BLOCK_INDEX from hs)]
      exact ⟨fun p hp => absurd hp (List.not_mem_nil _), rfl⟩
    · rw [if_neg (show ¬ start = prj2.INVALID_BLOCK_INDEX from hs), hb]
      dsimp only
      cases hfind : prj2.HT.findRecord b key (readUInt32 b 0) 0 with
      | some i =>
        right
        exact ⟨[], start, b, l', i, rfl, fun p hp => absurd hp (List.not_mem_nil _), hfind, rfl⟩
      | none =>
        dsimp only
        rcases ih _ _ hr with ⟨hnone, hres⟩ | ⟨l1, c, b', l2, i, hl, hnone, hfind', hres⟩
        · left
          refine ⟨?_, hres⟩
          intro p hp
          rcases List.mem_cons.mp hp with rfl | hp'
          · exact hfind
          · exact hnone p hp'
        · right
          refine ⟨(start, b) :: l1, c, b', l2, i, by rw [hl]; rfl, ?_, hfind', hres⟩
          intro p hp
          rcases List.mem_cons.mp hp with rfl | hp'
          · exact hfind
          · exact hnone p hp'

/-- The function `HT_DeleteEntry` on a well-formed file of `n` buckets, where `l`
is the chain of the bucket of the key: when no block of the chain holds the key
the function returns `-1` and the file is as it was; otherwise it returns `0`
after it has persisted the first block of the chain that holds the key, a data
block behind the bucket blocks, with the first record of that ID removed. -/
theorem prj2.HT.delete_of_wellFormed (BLOCK_SIZE : Nat) (hBS : 8 ≤ BLOCK_SIZE) (f : File) (n : Nat)
    (hwf : WellFormed BLOCK_SIZE f n) (key : Int) :
    ∃ l, chainOf BLOCK_SIZE f (prj2.HT.HashFunction key (n : Int)).toNat = some l ∧
      (((∀ p ∈ l, prj2.HT.findRecord p.2 key (readUInt32 p.2 0) 0 = none) ∧
          prj2.HT.HT_DeleteEntry BLOCK_SIZE f key = some (-1, f)) ∨
        (∃ l1 c b l2 i, l = l1 ++ (c, b) :: l2 ∧
          (∀ p ∈ l1, prj2.HT.findRecord p.2 key (readUInt32 p.2 0) 0 = none) ∧
          prj2.HT.findRecord b key (readUInt32 b 0) 0 = some i ∧
          (directoryBlockCount BLOCK_SIZE n : Int) < c ∧
          BF_ReadBlock BLOCK_SIZE f c = some b ∧
          prj2.HT.HT_DeleteEntry BLOCK_SIZE f key
            = some (0, BF_WriteBlock BLOCK_SIZE f c
                (prj2.HT.HT_DeleteEntry.removeRecord BLOCK_SIZE b i)))) := by
  have hn1 := hwf.n_pos
  have hn2 := hwf.n_lt
  have hr0 : 0 ≤ prj2.HT.HashFunction key (n : Int) := by
    unfold prj2.HT.HashFunction
    exact Int.tmod_nonneg _ (xor_shiftRight_nonneg _ _)
  have hr1 : prj2.HT.HashFunction key (n : Int) < (n : Int) := by
    unfold prj2.HT.HashFunction
    exact Int.tmod_lt_of_pos _ (by omega)
  obtain ⟨s0, hs0⟩ := Int.eq_ofNat_of_zero_le hr0
  have hlt : s0 < n := by omega
  obtain ⟨h, current, bb, l, hh, hn, hwalk, hbb, hchain, hchainOf, hD⟩ :=
    wellFormed_bucket BLOCK_SIZE f n hBS hwf s0 hlt
  have hdel : prj2.HT.HT_DeleteEntry BLOCK_SIZE f key
      = match prj2.HT.HT_DeleteEntry.loop BLOCK_SIZE f key (f.blockCount + 1)
          (readInt32 bb (prj2.HT.bucketOffset BLOCK_SIZE (s0 : Int))) with
        | none => none
        | some (.ret r) => some r
        | some (.next _) => some (-1, f) := by
    rw [prj2.HT.HT_DeleteEntry, hh]
    dsimp only
    rw [hn, hs0, hwalk]
    dsimp only
    rw [hbb]
  rw [hs0, Int.toNat_ofNat]
  refine ⟨l, hchainOf, ?_⟩
  rcases prj2.HT.deleteLoop_of_chain BLOCK_SIZE f key _ _ _ hchain with
    ⟨hnone, hres⟩ | ⟨l1, c, b, l2, i, hl, hnone, hfind, hres⟩
  · left
    refine ⟨hnone, ?_⟩
    rw [hdel, hres]
  · right
    have hmem : (c, b) ∈ l := by
      rw [hl]
      exact List.mem_append_right _ (List.mem_cons_self _ _)
    refine ⟨l1, c, b, l2, i, hl, hnone, hfind, hD _ hmem,
      chainTo_mem _ _ _ _ _ hchain _ hmem, ?_⟩
    rw [hdel, hres]

/-! ## The arithmetic of the directory -/

/-- C40. Directory addressing: for a block size of at least 8 bytes (slot capacity
`C = MAX_BUCKET_COUNT_PER_BLOCK >= 1`; every `C >= 1` is the capacity of the
block size `4 * C + 4`) and a bucket index `b < bucketCount < 2^31`, the number
of directory links that insert, delete and keyed scan walk,
`(b + 1) / C + (1 if (b + 1) mod C > 0 else 0)` computed as the code computes
`bucketBlockNumber`, equals `b / C + 1` and is at most `ceil(bucketCount / C)`,
the number of bucket blocks; the byte offset of the slot is that of position
`b mod C`, and it lies inside the block; and two bucket indices below
`bucketCount` with the same number of links and the same offset are equal. -/
theorem prj2.HT.directory_addressing (BLOCK_SIZE bucketCount b : Nat) (hBS : 8 ≤ BLOCK_SIZE)
    (hn : bucketCount < 2147483648) (hb : b < bucketCount) :
    (b + 1) / prj2.MAX_BUCKET_COUNT_PER_BLOCK BLOCK_SIZE
        + (if (b + 1) % prj2.MAX_BUCKET_COUNT_PER_BLOCK BLOCK_SIZE > 0 then 1 else 0)
      = b / prj2.MAX_BUCKET_COUNT_PER_BLOCK BLOCK_SIZE + 1 ∧
    prj2.HT.bucketBlockNumber BLOCK_SIZE (b : Int)
      = ((b / prj2.MAX_BUCKET_COUNT_PER_BLOCK BLOCK_SIZE + 1 : Nat) : Int) ∧
    b / prj2.MAX_BUCKET_COUNT_PER_BLOCK BLOCK_SIZE + 1 ≤ directoryBlockCount BLOCK_SIZE bucketCount ∧
    directoryBlockCount BLOCK_SIZE bucketCount
      = bucketCount / prj2.MAX_BUCKET_COUNT_PER_BLOCK BLOCK_SIZE
        + (if bucketCount % prj2.MAX_BUCKET_COUNT_PER_BLOCK BLOCK_SIZE > 0 then 1 else 0) ∧
    prj2.HT.bucketOffset BLOCK_SIZE (b : Int)
      = prj2.sizeofHashBucketBlockHeader + 4 * (b % prj2.MAX_BUCKET_COUNT_PER_BLOCK BLOCK_SIZE) ∧
    prj2.HT.bucketOffset BLOCK_SIZE (b : Int) + 4 ≤ BLOCK_SIZE ∧
    ∀ b' : Nat, b' < bucketCount →
      prj2.HT.bucketBlockNumber BLOCK_SIZE (b' : Int) = prj2.HT.bucketBlockNumber BLOCK_SIZE (b : Int) →
      prj2.HT.bucketOffset BLOCK_SIZE (b' : Int) = prj2.HT.bucketOffset BLOCK_SIZE (b : Int) →
      b' = b := by
  have hC : 1 ≤ prj2.MAX_BUCKET_COUNT_PER_BLOCK BLOCK_SIZE := by
    unfold prj2.MAX_BUCKET_COUNT_PER_BLOCK; omega
  have hC4 : 4 * prj2.MAX_BUCKET_COUNT_PER_BLOCK BLOCK_SIZE + 4 ≤ BLOCK_SIZE := by
    unfold prj2.MAX_BUCKET_COUNT_PER_BLOCK; omega
  have key : ∀ s : Nat, s < bucketCount →
      (s + 1) / prj2.MAX_BUCKET_COUNT_PER_BLOCK BLOCK_SIZE
          + (if (s + 1) % prj2.MAX_BUCKET_COUNT_PER_BLOCK BLOCK_SIZE > 0 then 1 else 0)
        = s / prj2.MAX_BUCKET_COUNT_PER_BLOCK BLOCK_SIZE + 1 := by
    intro s _
    rw [← ceil_div_eq (s + 1) _ (by omega)]
    have e : s + 1 + prj2.MAX_BUCKET_COUNT_PER_BLOCK BLOCK_SIZE - 1
        = s + prj2.MAX_BUCKET_COUNT_PER_BLOCK BLOCK_SIZE := by omega
    rw [e, Nat.add_div_right _ (by omega)]
  have number : ∀ s : Nat, s < bucketCount →
      prj2.HT.bucketBlockNumber BLOCK_SIZE (s : Int)
        = ((s / prj2.MAX_BUCKET_COUNT_PER_BLOCK BLOCK_SIZE + 1 : Nat) : Int) := by
    intro s hs
    have h1 := prj2.HT.bucketBlockNumber_natCast BLOCK_SIZE s hBS (by omega)
    have h2 : 0 ≤ prj2.HT.bucketBlockNumber BLOCK_SIZE (s : Int) := by
      by_contra hneg
      rw [Int.toNat_eq_zero.mpr (by omega)] at h1
      exact Nat.succ_ne_zero _ h1.symm
    rw [← h1, Int.toNat_of_nonneg h2]
  have offset : ∀ s : Nat, s < bucketCount →
      prj2.HT.bucketOffset BLOCK_SIZE (s : Int)
        = prj2.sizeofHashBucketBlockHeader
          + 4 * (s % prj2.MAX_BUCKET_COUNT_PER_BLOCK BLOCK_SIZE) :=
    fun s hs => prj2.HT.bucketOffset_natCast BLOCK_SIZE s hBS (by omega)
  refine ⟨key b hb, number b hb, ?_, ?_, offset b hb, ?_, ?_⟩
  · have := div_lt_directoryBlockCount BLOCK_SIZE bucketCount b hBS hb
    omega
  · unfold directoryBlockCount
    exact ceil_div_eq _ _ (by omega)
  · rw [offset b hb]
    have := Nat.mod_lt b (show 0 < prj2.MAX_BUCKET_COUNT_PER_BLOCK BLOCK_SIZE by omega)
    unfold prj2.sizeofHashBucketBlockHeader
    omega
  · intro b' hb' hnum hoff
    rw [number b' hb', number b hb] at hnum
    rw [offset b' hb', offset b hb] at hoff
    have e1 := Nat.div_add_mod b' (prj2.MAX_BUCKET_COUNT_PER_BLOCK BLOCK_SIZE)
    have e2 := Nat.div_add_mod b (prj2.MAX_BUCKET_COUNT_PER_BLOCK BLOCK_SIZE)
    have e3 : b' / prj2.MAX_BUCKET_COUNT_PER_BLOCK BLOCK_SIZE
        = b / prj2.MAX_BUCKET_COUNT_PER_BLOCK BLOCK_SIZE := by omega
    have e4 : b' % prj2.MAX_BUCKET_COUNT_PER_BLOCK BLOCK_SIZE
        = b % prj2.MAX_BUCKET_COUNT_PER_BLOCK BLOCK_SIZE := by omega
    rw [← e1, ← e2, e3, e4]

theorem prj2.HT.directory_addressing_witness :
    prj2.HT.bucketBlockNumber 512 (253 : Nat) = ((253 / prj2.MAX_BUCKET_COUNT_PER_BLOCK 512 + 1 : Nat) : Int) ∧
    253 / prj2.MAX_BUCKET_COUNT_PER_BLOCK 512 + 1 ≤ directoryBlockCount 512 254 :=
  ⟨(prj2.HT.directory_addressing 512 254 253 (by decide) (by decide) (by decide)).2.1,
    (prj2.HT.directory_addressing 512 254 253 (by decide) (by decide) (by decide)).2.2.1⟩

/-! ## Chains that end: no block twice -/

/-- The part of a chain that ends from one of its blocks on is the chain that
starts at that block. -/
theorem chainTo_suffix (BLOCK_SIZE : Nat) (f : File) (a : List (Int × Block)) :
    ∀ (fuel : Nat) (start : Int) (c : Int) (b : Block) (r : List (Int × Block)),
      chainTo BLOCK_SIZE f fuel start = some (a ++ (c, b) :: r) →
      chainTo BLOCK_SIZE f fuel c = some ((c, b) :: r) := by
  induction a with
  | nil =>
    intro fuel start c b r h
    obtain ⟨fuel', hf, hc⟩ := chainTo_cases _ _ _ _ _ h
    rcases hc with ⟨_, hl⟩ | ⟨_, b0, l', _, _, hl⟩
    · exact absurd hl (by simp)
    · rw [List.nil_append] at hl
      have : c = start := by cases hl; rfl
      subst this
      exact h
  | cons x a ih =>
    intro fuel start c b r h
    obtain ⟨fuel', hf, hc⟩ := chainTo_cases _ _ _ _ _ h
    rcases hc with ⟨_, hl⟩ | ⟨_, b0, l', _, hr, hl⟩
    · exact absurd hl (by simp)
    · rw [List.cons_append] at hl
      have hl' : a ++ (c, b) :: r = l' := (List.cons.inj hl).2
      rw [← hl'] at hr
      rw [hf]
      exact chainTo_succ _ _ _ _ _ (ih _ _ _ _ _ hr)

/-- A chain that ends is the same whatever the bound on its length. -/
theorem chainTo_unique (BLOCK_SIZE : Nat) (f : File) (fuel fuel' : Nat) (start : Int)
    (l l' : List (Int × Block)) (h : chainTo BLOCK_SIZE f fuel start = some l)
    (h' : chainTo BLOCK_SIZE f fuel' start = some l') : l = l' := by
  have e1 := chainTo_mono _ _ _ _ (Nat.le_max_left fuel fuel') _ _ h
  have e2 := chainTo_mono _ _ _ _ (Nat.le_max_right fuel fuel') _ _ h'
  rw [e1] at e2
  exact Option.some.inj e2

/-- A chain that ends visits no block twice. -/
theorem chainTo_nodup (BLOCK_SIZE : Nat) (f : File) (fuel : Nat) :
    ∀ start l, chainTo BLOCK_SIZE f fuel start = some l → (l.map Prod.fst).Nodup := by
  induction fuel with
  | zero => intro start l h; rw [chainTo] at h; exact absurd h (by simp)
  | succ fuel ih =>
    intro start l h
    obtain ⟨fuel', hf, hc⟩ := chainTo_cases _ _ _ _ _ h
    cases hf
    rcases hc with ⟨_, rfl⟩ | ⟨_, b, l', _, hr, rfl⟩
    · exact List.nodup_nil
    · rw [List.map_cons, List.nodup_cons]
      refine ⟨?_, ih _ _ hr⟩
      intro hmem
      obtain ⟨q, hq, hq1⟩ := List.mem_map.mp hmem
      obtain ⟨a, r, hl'⟩ := List.append_of_mem hq
      have hq' : q = (start, q.2) := Prod.ext hq1 rfl
      rw [hq'] at hl'
      rw [hl'] at hr
      have hs := chainTo_suffix _ _ _ _ _ _ _ _ hr
      have := chainTo_unique _ _ _ _ _ _ _ h hs
      have hlen := congrArg List.length this
      rw [hl'] at hlen
      simp only [List.length_cons, List.length_append] at hlen
      omega

/-- The chain that ends with the data block `p` after a new data block `m` is
linked behind `p`. -/
theorem chainTo_snoc_link (BLOCK_SIZE : Nat) (f f' : File) (p m : Int) (pb pb' nb : Block)
    (hsame : ∀ j b, j ≠ p → BF_ReadBlock BLOCK_SIZE f j = some b →
      BF_ReadBlock BLOCK_SIZE f' j = some b)
    (hp' : BF_ReadBlock BLOCK_SIZE f' p = some pb') (hpnext' : readInt32 pb' 4 = m)
    (hm : m ≠ -1) (hnb : BF_ReadBlock BLOCK_SIZE f' m = some nb) (hnbnext : readInt32 nb 4 = -1)
    (l0 : List (Int × Block)) :
    ∀ (fuel : Nat) (start : Int), chainTo BLOCK_SIZE f fuel start = some (l0 ++ [(p, pb)]) →
      chainTo BLOCK_SIZE f' (fuel + 1) start = some (l0 ++ [(p, pb'), (m, nb)]) := by
  induction l0 with
  | nil =>
    intro fuel start h
    obtain ⟨fuel', hf, hc⟩ := chainTo_cases _ _ _ _ _ h
    cases hf
    rcases hc with ⟨_, hl⟩ | ⟨hs, b0, l', _, hr, hl⟩
    · exact absurd hl (by simp)
    · rw [List.nil_append] at hl ⊢
      have hsp : p = start := by cases hl; rfl
      subst hsp
      obtain ⟨fuel'', hf', _⟩ := chainTo_cases _ _ _ _ _ hr
      subst hf'
      apply chainTo_cons _ _ _ _ _ _ hs hp'
      rw [hpnext']
      apply chainTo_cons _ _ _ _ _ _ hm hnb
      rw [hnbnext]
      exact chainTo_nil _ _ _
  | cons x l0 ih =>
    intro fuel start h
    have hnd := chainTo_nodup _ _ _ _ _ h
    obtain ⟨fuel', hf, hc⟩ := chainTo_cases _ _ _ _ _ h
    cases hf
    rcases hc with ⟨_, hl⟩ | ⟨hs, b0, l', hb0, hr, hl⟩
    · exact absurd hl (by simp)
    · rw [List.cons_append] at hl ⊢
      obtain ⟨hx, hl'⟩ := List.cons.inj hl
      subst hx
      rw [← hl'] at hr
      have hne : start ≠ p := by
        intro hsp
        rw [List.cons_append, List.map_cons, List.nodup_cons] at hnd
        apply hnd.1
        rw [List.map_append]
        apply List.mem_append_right
        rw [hsp]
        exact List.mem_singleton_self _
      exact chainTo_cons _ _ _ _ _ _ hs (hsame _ _ hne hb0) (ih _ _ hr)

/-- The second loop of an insert on a chain that ends and whose blocks are all
full: it ends with the index of the last block of the chain. -/
theorem InsertEngine.insertLoop_all_full (E : InsertEngine) (BLOCK_SIZE : Nat) (f : File)
    (bytes : Nat) (fuel : Nat) (previous start : Int) (l : List (Int × Block))
    (h : chainTo BLOCK_SIZE f fuel start = some l)
    (hfull : ∀ p ∈ l, ¬ readUInt32 p.2 0 < E.capacity) :
    E.insertLoop BLOCK_SIZE f bytes fuel previous start
      = some (.next ((l.getLast?.map Prod.fst).getD previous)) := by
  rcases E.insertLoop_of_chain BLOCK_SIZE f bytes fuel previous start l h with
    ⟨l1, c, b, l2, hl, _, hroom, _⟩ | ⟨_, hres⟩
  · exact absurd hroom
      (hfull (c, b) (by rw [hl]; exact List.mem_append_right _ (List.mem_cons_self _ _)))
  · exact hres

/-! ## `HT_InsertEntry`: the chain grows at its tail -/

theorem prj2.HT.bucketOffset_le (BLOCK_SIZE : Nat) (bucketIndex : Int) (h1 : 8 ≤ BLOCK_SIZE)
    (h2 : BLOCK_SIZE < 4294967296) :
    prj2.HT.bucketOffset BLOCK_SIZE bucketIndex + 4 ≤ BLOCK_SIZE := by
  have hC : 1 ≤ prj2.MAX_BUCKET_COUNT_PER_BLOCK BLOCK_SIZE := by
    unfold prj2.MAX_BUCKET_COUNT_PER_BLOCK; omega
  have hC4 : 4 * prj2.MAX_BUCKET_COUNT_PER_BLOCK BLOCK_SIZE + 4 ≤ BLOCK_SIZE := by
    unfold prj2.MAX_BUCKET_COUNT_PER_BLOCK; omega
  unfold prj2.HT.bucketOffset prj2.sizeofHashBucketBlockHeader
  generalize prj2.MAX_BUCKET_COUNT_PER_BLOCK BLOCK_SIZE = C at hC hC4 ⊢
  have hr : toUInt64 bucketIndex % C < C := Nat.mod_lt _ (by omega)
  dsimp only
  generalize toUInt64 bucketIndex % C = r at hr ⊢
  rw [toInt32_of_range (r : Int) (by omega) (by omega),
    toUInt64_of_lt (r : Int) (by omega) (by omega), Int.toNat_ofNat]
  omega

/-- The new data block of an insert holds one element, in slot 0. -/
theorem InsertEngine.freshBlock_count (E : InsertEngine) (bytes : Nat) :
    readUInt32 (E.freshBlock bytes) 0 = 1 ∧
    elementAt E.elementSize (E.freshBlock bytes) 0 = bytes % 256 ^ E.elementSize := by
  have h := (E.freshBlock_spec bytes).2
  have hlen := congrArg List.length h
  simp only [blockElements, List.length_map, List.length_range, List.length_singleton] at hlen
  refine ⟨hlen, ?_⟩
  rw [blockElements, hlen, show List.range 1 = [0] from rfl, List.map_singleton] at h
  exact (List.cons.inj h).1

/-- C31.  Let the chain of the bucket of `record.ID` (the chain `l` that starts at
the bucket's slot and ends at an invalid index) have only full blocks, or none,
and no record with the ID of `record`, and let the file have room for one more
block index in an `int32_t`.  Then `HT_InsertEntry` allocates one block, whose
index is the block count of before, and returns that index; the new block has
`ElementCount = 1`, `NextBlockIndex = -1` and the bytes of `record` in slot 0.
When the chain is empty, the only block of before that is written is the bucket
block, in the 4 bytes of the bucket's slot, which take the new index, and the
chain of the slot is the new block.  When the chain ends with the block `p`,
the only block of before that is written is `p`, whose `NextBlockIndex` takes
the new index (its count and elements are as before), and the chain of the
bucket is the chain of before with the new block behind `p`. -/
theorem prj2.HT.insert_grows_chain (BLOCK_SIZE : Nat) (f : File) (record : prj2.Record)
    (head : Int) (l : List (Int × Block))
    (h1 : 104 ≤ BLOCK_SIZE) (h2 : BLOCK_SIZE < 4294967296) (hbc : f.blockCount + 1 < 2147483648)
    (hhead : prj2.HT.bucketHead BLOCK_SIZE f record.ID = some head)
    (hchain : chainTo BLOCK_SIZE f (f.blockCount + 1) head = some l)
    (hnodup : ∀ p ∈ l, prj2.HT.findRecord p.2 record.ID (readUInt32 p.2 0) 0 = none)
    (hfull : ∀ p ∈ l, ¬ readUInt32 p.2 0 < prj2.HT.MAX_RECORD_COUNT_PER_BLOCK BLOCK_SIZE) :
    ∃ f' nb,
      prj2.HT.HT_InsertEntry BLOCK_SIZE f record = some ((f.blockCount : Int), f') ∧
      f'.blockCount = f.blockCount + 1 ∧
      BF_ReadBlock BLOCK_SIZE f' (f.blockCount : Int) = some nb ∧
      readUInt32 nb 0 = 1 ∧ readInt32 nb 4 = -1 ∧
      elementAt prj2.sizeofRecord nb 0 = record.toBytes ∧
      (l = [] →
        ∃ h q current bb,
          BF_ReadBlock BLOCK_SIZE f prj2.HEADER_BLOCK_INDEX = some h ∧
          prj2.HT.walkBucketBlocks BLOCK_SIZE f
              (prj2.HT.bucketBlockNumber BLOCK_SIZE
                (prj2.HT.HashFunction record.ID (toInt32 (readUInt32 h 4 : Nat)))).toNat
              prj2.INVALID_BLOCK_INDEX (readInt32 h 8) = some (q, current) ∧
          BF_ReadBlock BLOCK_SIZE f q = some bb ∧
          BF_ReadBlock BLOCK_SIZE f' q
            = some (writeInt32 bb (prj2.HT.bucketOffset BLOCK_SIZE
                (prj2.HT.HashFunction record.ID (toInt32 (readUInt32 h 4 : Nat))))
                (f.blockCount : Int)) ∧
          readInt32 (writeInt32 bb (prj2.HT.bucketOffset BLOCK_SIZE
                (prj2.HT.HashFunction record.ID (toInt32 (readUInt32 h 4 : Nat))))
                (f.blockCount : Int))
              (prj2.HT.bucketOffset BLOCK_SIZE
                (prj2.HT.HashFunction record.ID (toInt32 (readUInt32 h 4 : Nat))))
            = (f.blockCount : Int) ∧
          (∀ j b, j ≠ q → BF_ReadBlock BLOCK_SIZE f j = some b →
            BF_ReadBlock BLOCK_SIZE f' j = some b) ∧
          chainTo BLOCK_SIZE f' (f'.blockCount + 1) (f.blockCount : Int)
            = some [((f.blockCount : Int), nb)]) ∧
      (∀ l0 p pb, l = l0 ++ [(p, pb)] →
        BF_ReadBlock BLOCK_SIZE f' p = some (writeInt32 pb 4 (f.blockCount : Int)) ∧
        readInt32 (writeInt32 pb 4 (f.blockCount : Int)) 4 = (f.blockCount : Int) ∧
        readUInt32 (writeInt32 pb 4 (f.blockCount : Int)) 0 = readUInt32 pb 0 ∧
        blockElements prj2.sizeofRecord (writeInt32 pb 4 (f.blockCount : Int))
          = blockElements prj2.sizeofRecord pb ∧
        (∀ j b, j ≠ p → BF_ReadBlock BLOCK_SIZE f j = some b →
          BF_ReadBlock BLOCK_SIZE f' j = some b) ∧
        chainTo BLOCK_SIZE f' (f'.blockCount + 1) head
          = some (l0 ++ [(p, writeInt32 pb 4 (f.blockCount : Int)), ((f.blockCount : Int), nb)])) := by
  have hE := prj2.HT.HT_insertEngine_fits BLOCK_SIZE h1 h2
  have hfull' : ∀ p ∈ l, ¬ readUInt32 p.2 0 < (prj2.HT.insertEngine BLOCK_SIZE).capacity := hfull
  obtain ⟨hfnext, _⟩ := (prj2.HT.insertEngine BLOCK_SIZE).freshBlock_spec record.toBytes
  obtain ⟨hfcount, hfat⟩ := (prj2.HT.insertEngine BLOCK_SIZE).freshBlock_count record.toBytes
  have esz : (prj2.HT.insertEngine BLOCK_SIZE).elementSize = prj2.sizeofRecord := rfl
  rw [esz, Nat.mod_eq_of_lt (prj2.Record.toBytes_lt record)] at hfat
  have hflt := (prj2.HT.insertEngine BLOCK_SIZE).freshBlock_lt BLOCK_SIZE hE record.toBytes
  have hround : ∀ (b : Block) (off : Nat),
      readInt32 (writeInt32 b off (f.blockCount : Int)) off = (f.blockCount : Int) := by
    intro b off
    rw [readInt32_writeInt32_same]
    exact toInt32_of_range _ (by omega) (by omega)
  rw [prj2.HT.bucketHead] at hhead
  split at hhead
  · exact absurd hhead (by simp)
  · rename_i h hh
    dsimp only at hhead
    split at hhead
    · exact absurd hhead (by simp)
    · rename_i q current hwalk
      split at hhead
      · exact absurd hhead (by simp)
      · rename_i bb hbb
        simp only [Option.some.injEq] at hhead
        have hins : prj2.HT.HT_InsertEntry BLOCK_SIZE f record
            = some ((prj2.HT.insertEngine BLOCK_SIZE).newBlock BLOCK_SIZE f record.toBytes
                ((l.getLast?.map Prod.fst).getD prj2.INVALID_BLOCK_INDEX) q
                (prj2.HT.bucketOffset BLOCK_SIZE
                  (prj2.HT.HashFunction record.ID (toInt32 (readUInt32 h 4 : Nat))))) := by
          rw [prj2.HT.HT_InsertEntry_eq,
            InsertEngine.insert_eq (prj2.HT.insertEngine BLOCK_SIZE) BLOCK_SIZE f _ _ _ h _ q
              current bb hh rfl hwalk hbb,
            hhead, InsertEngine.checkLoop_of_none _ _ _ _ _ _ hchain hnodup]
          dsimp only
          rw [InsertEngine.insertLoop_all_full _ _ _ _ _ _ _ _ hchain hfull']
        obtain ⟨hq0, hq1, hbblt⟩ := BF_ReadBlock_some _ _ _ _ hbb
        cases hlast : l.getLast? with
        | none =>
          have hnil : l = [] := List.getLast?_eq_none_iff.mp hlast
          subst hnil
          rw [hlast, Option.map_none', Option.getD_none,
            InsertEngine.newBlock_slot _ BLOCK_SIZE f record.toBytes _ _ bb hbb] at hins
          obtain ⟨hcount, hrq, hrm, hsame⟩ := reads_after_newBlock BLOCK_SIZE f q
            ((prj2.HT.insertEngine BLOCK_SIZE).freshBlock record.toBytes)
            (writeInt32 bb (prj2.HT.bucketOffset BLOCK_SIZE
              (prj2.HT.HashFunction record.ID (toInt32 (readUInt32 h 4 : Nat))))
              (f.blockCount : Int)) hq0 hq1 hflt
            (writeInt32_lt _ _ _ _ hbblt (prj2.HT.bucketOffset_le _ _ (by omega) h2))
          refine ⟨_, _, hins, hcount, hrm, hfcount, hfnext, hfat, ?_, ?_⟩
          · intro _
            refine ⟨h, q, current, bb, hh, hwalk, hbb, hrq, hround _ _, hsame, ?_⟩
            rw [hcount]
            apply chainTo_cons _ _ _ _ _ _ (by omega) hrm
            rw [hfnext]
            exact chainTo_nil _ _ _
          · intro l0 p pb hl
            exact absurd hl (by simp)
        | some x =>
          obtain ⟨p, pb⟩ := x
          have hpl : (p, pb) ∈ l := List.mem_of_mem_getLast? hlast
          have hrd : BF_ReadBlock BLOCK_SIZE f p = some pb :=
            chainTo_mem _ _ _ _ _ hchain (p, pb) hpl
          obtain ⟨hp0, hp1, hpblt⟩ := BF_ReadBlock_some _ _ _ _ hrd
          rw [hlast, Option.map_some', Option.getD_some,
            InsertEngine.newBlock_link _ BLOCK_SIZE f record.toBytes p _ _ pb hrd] at hins
          obtain ⟨hcount, hrp, hrm, hsame⟩ := reads_after_newBlock BLOCK_SIZE f p
            ((prj2.HT.insertEngine BLOCK_SIZE).freshBlock record.toBytes)
            (writeInt32 pb 4 (f.blockCount : Int)) hp0 hp1 hflt
            (writeInt32_lt _ _ _ _ hpblt (by omega))
          refine ⟨_, _, hins, hcount, hrm, hfcount, hfnext, hfat, ?_, ?_⟩
          · intro hnil
            rw [hnil] at hlast
            exact absurd hlast (by simp)
          · intro l0 p' pb' hl
            have hlast' : l.getLast? = some (p', pb') := by
              rw [hl, List.getLast?_append]
              rfl
            rw [hlast] at hlast'
            have hpp : (p, pb) = (p', pb') := Option.some.inj hlast'
            cases hpp
            refine ⟨hrp, hround _ _, readUInt32_writeInt32_ne _ _ _ _ (Or.inl (by omega)),
              blockElements_writeInt32_link _ _ _, hsame, ?_⟩
            rw [hcount]
            rw [hl] at hchain
            exact chainTo_snoc_link BLOCK_SIZE f _ p (f.blockCount : Int) pb _ _ hsame hrp
              (hround _ _) (by omega) hrm hfnext l0 _ _ hchain

theorem prj2.HT.insert_grows_chain_witness :
    (104 ≤ 512 ∧ 512 < 4294967296 ∧ prj2.HT.fiveRecords.blockCount + 1 < 2147483648 ∧
      prj2.HT.bucketHead 512 prj2.HT.fiveRecords (prj2.HT.recordOf 6 65).ID = some 2 ∧
      chainTo 512 prj2.HT.fiveRecords (prj2.HT.fiveRecords.blockCount + 1) 2
        = some [(2, (BF_ReadBlock 512 prj2.HT.fiveRecords 2).getD 0)] ∧
      (∀ p ∈ [((2 : Int), (BF_ReadBlock 512 prj2.HT.fiveRecords 2).getD 0)],
        prj2.HT.findRecord p.2 (prj2.HT.recordOf 6 65).ID (readUInt32 p.2 0) 0 = none) ∧
      (∀ p ∈ [((2 : Int), (BF_ReadBlock 512 prj2.HT.fiveRecords 2).getD 0)],
        ¬ readUInt32 p.2 0 < prj2.HT.MAX_RECORD_COUNT_PER_BLOCK 512)) ∧
    ∃ f' nb,
      prj2.HT.HT_InsertEntry 512 prj2.HT.fiveRecords (prj2.HT.recordOf 6 65)
        = some ((prj2.HT.fiveRecords.blockCount : Int), f') ∧
      f'.blockCount = prj2.HT.fiveRecords.blockCount + 1 ∧
      BF_ReadBlock 512 f' (prj2.HT.fiveRecords.blockCount : Int) = some nb ∧
      readUInt32 nb 0 = 1 ∧ readInt32 nb 4 = -1 ∧
      elementAt prj2.sizeofRecord nb 0 = (prj2.HT.recordOf 6 65).toBytes ∧
      chainTo 512 f' (f'.blockCount + 1) 2
        = some ([] ++ [(2, writeInt32 ((BF_ReadBlock 512 prj2.HT.fiveRecords 2).getD 0) 4
              (prj2.HT.fiveRecords.blockCount : Int)),
            ((prj2.HT.fiveRecords.blockCount : Int), nb)]) :=
  ⟨⟨by decide, by decide, by decide!, by decide!, by decide!, by decide!, by decide!⟩,
    (prj2.HT.insert_grows_chain 512 prj2.HT.fiveRecords (prj2.HT.recordOf 6 65) 2
      [(2, (BF_ReadBlock 512 prj2.HT.fiveRecords 2).getD 0)]
      (by decide) (by decide) (by decide!) (by decide!) (by decide!) (by decide!)
      (by decide!)).elim fun f' hx => hx.elim fun nb hy =>
        ⟨f', nb, hy.1, hy.2.1, hy.2.2.1, hy.2.2.2.1, hy.2.2.2.2.1, hy.2.2.2.2.2.1,
          (hy.2.2.2.2.2.2.2 [] 2 ((BF_ReadBlock 512 prj2.HT.fiveRecords 2).getD 0) rfl).2.2.2.2.2⟩⟩

/-! ## The keyed scan of `HT_GetAllEntries`: the blocks it counts -/

/-- The bucket of a key in a file of `n` buckets, `1 ≤ n < 2^31`, is a number
below `n`. -/
theorem prj2.HT.hash_bucket (key : Int) (n : Nat) (h1 : 1 ≤ n) :
    prj2.HT.HashFunction key (n : Int) = ((prj2.HT.HashFunction key (n : Int)).toNat : Int) ∧
    (prj2.HT.HashFunction key (n : Int)).toNat < n := by
  have hr0 : 0 ≤ prj2.HT.HashFunction key (n : Int) := by
    unfold prj2.HT.HashFunction
    exact Int.tmod_nonneg _ (xor_shiftRight_nonneg _ _)
  have hr1 : prj2.HT.HashFunction key (n : Int) < (n : Int) := by
    unfold prj2.HT.HashFunction
    exact Int.tmod_lt_of_pos _ (by omega)
  omega

/-- The loop of the keyed scan on a chain that ends: without a match it ends at
the end of the chain; otherwise it returns at the first block that holds the
key, with the count it started with plus the number of data blocks read. -/
theorem prj2.HT.keyLoop_of_chain (BLOCK_SIZE : Nat) (f : File) (key : Int) (fuel : Nat) :
    ∀ start l t, chainTo BLOCK_SIZE f fuel start = some l →
      ((∀ p ∈ l, prj2.HT.findRecord p.2 key (readUInt32 p.2 0) 0 = none) ∧
        prj2.HT.HT_GetAllEntries.keyLoop BLOCK_SIZE f key fuel start t = some (.next ())) ∨
      (∃ l1 c b l2 i, l = l1 ++ (c, b) :: l2 ∧
        (∀ p ∈ l1, prj2.HT.findRecord p.2 key (readUInt32 p.2 0) 0 = none) ∧
        prj2.HT.findRecord b key (readUInt32 b 0) 0 = some i ∧
        prj2.HT.HT_GetAllEntries.keyLoop BLOCK_SIZE f key fuel start t
          = some (.ret (toInt32 (((t + (l1.length + 1)) % 2 ^ 32 : Nat) : Int),
              [prj2.readRecord b (prj2.sizeofHashDataBlockHeader + prj2.sizeofRecord * i)]))) := by
  induction fuel with
  | zero => intro start l t h; rw [chainTo] at h; exact absurd h (by simp)
  | succ fuel ih =>
    intro start l t h
    obtain ⟨fuel', hf, hc⟩ := chainTo_cases _ _ _ _ _ h
    cases hf
    rw [prj2.HT.HT_GetAllEntries.keyLoop]
    rcases hc with ⟨hs, rfl⟩ | ⟨hs, b, l', hb, hr, rfl⟩
    · left
      rw [if_pos (show start = prj2.INVALID_BLOCK_INDEX from hs)]
      exact ⟨fun p hp => absurd hp (List.not_mem_nil _), rfl⟩
    · rw [if_neg (show ¬ start = prj2.INVALID_BLOCK_INDEX from hs), hb]
      dsimp only
      cases hfind : prj2.HT.findRecord b key (readUInt32 b 0) 0 with
      | some i =>
        right
        exact ⟨[], start, b, l', i, rfl, fun p hp => absurd hp (List.not_mem_nil _), hfind, rfl⟩
      | none =>
        dsimp only
        rcases ih _ _ ((t + 1) % 2 ^ 32) hr with
          ⟨hnone, hres⟩ | ⟨l1, c, b', l2, i, hl, hnone, hfind', hres⟩
        · left
          refine ⟨?_, hres⟩
          intro p hp
          rcases List.mem_cons.mp hp with rfl | hp'
          · exact hfind
          · exact hnone p hp'
        · right
          refine ⟨(start, b) :: l1, c, b', l2, i, by rw [hl]; rfl, ?_, hfind', ?_⟩
          · intro p hp
            rcases List.mem_cons.mp hp with rfl | hp'
            · exact hfind
            · exact hnone p hp'
          · rw [hres, Nat.mod_add_mod, List.length_cons]
            have e : t + 1 + (l1.length + 1) = t + (l1.length + 1 + 1) := by omega
            rw [e]

/-- The keyed scan on a well-formed file of `n` buckets and fewer than `2^30`
blocks, for a key other than `-1`; `l` is the chain of the bucket `b` of the key.
When no block of the chain holds the key the scan returns `-1`; otherwise it
prints the first record with that ID of the first block that holds one and
returns `1 + (b / C + 1) + j`, where `j` is the position of that block on the
chain, counted from 1. -/
theorem prj2.HT.keyed_scan_of_wellFormed (BLOCK_SIZE : Nat) (hBS : 8 ≤ BLOCK_SIZE) (f : File)
    (n : Nat) (hwf : WellFormed BLOCK_SIZE f n) (hbc : f.blockCount < 1073741824) (key : Int)
    (hkey : key ≠ -1) :
    ∃ l, chainOf BLOCK_SIZE f (prj2.HT.HashFunction key (n : Int)).toNat = some l ∧
      (((∀ p ∈ l, prj2.HT.findRecord p.2 key (readUInt32 p.2 0) 0 = none) ∧
          prj2.HT.HT_GetAllEntries BLOCK_SIZE f (some key) = some (-1, [])) ∨
        (∃ l1 c b l2 i, l = l1 ++ (c, b) :: l2 ∧
          (∀ p ∈ l1, prj2.HT.findRecord p.2 key (readUInt32 p.2 0) 0 = none) ∧
          prj2.HT.findRecord b key (readUInt32 b 0) 0 = some i ∧
          prj2.HT.HT_GetAllEntries BLOCK_SIZE f (some key)
            = some (((1 + ((prj2.HT.HashFunction key (n : Int)).toNat
                    / prj2.MAX_BUCKET_COUNT_PER_BLOCK BLOCK_SIZE + 1)
                  + (l1.length + 1) : Nat) : Int),
                [prj2.readRecord b
                  (prj2.sizeofHashDataBlockHeader + prj2.sizeofRecord * i)]))) := by
  have hn1 := hwf.n_pos
  have hn2 := hwf.n_lt
  obtain ⟨hs0, hlt⟩ := prj2.HT.hash_bucket key n hn1
  generalize (prj2.HT.HashFunction key (n : Int)).toNat = s0 at hs0 hlt ⊢
  obtain ⟨h, current, bb, l, hh, hn, hwalk, hbb, hchain, hchainOf, hD⟩ :=
    wellFormed_bucket BLOCK_SIZE f n hBS hwf s0 hlt
  have hnum := prj2.HT.bucketBlockNumber_natCast BLOCK_SIZE s0 hBS (by omega)
  have hdiv := div_lt_directoryBlockCount BLOCK_SIZE n s0 hBS hlt
  have hdir := hwf.directory_le
  have hlen := chainTo_length _ _ _ _ _ hchain
  refine ⟨l, hchainOf, ?_⟩
  rcases prj2.HT.keyLoop_of_chain BLOCK_SIZE f key _ _ _
      (1 + (s0 / prj2.MAX_BUCKET_COUNT_PER_BLOCK BLOCK_SIZE + 1)) hchain with
    ⟨hnone, hres⟩ | ⟨l1, c, b, l2, i, hl, hnone, hfind, hres⟩
  · left
    refine ⟨hnone, ?_⟩
    unfold prj2.HT.HT_GetAllEntries
    dsimp only
    rw [hh]
    dsimp only
    rw [if_pos hkey, hn, hs0, hwalk]
    dsimp only
    rw [hnum, Nat.mod_eq_of_lt (by omega), hbb]
    dsimp only
    rw [hres]
  · right
    refine ⟨l1, c, b, l2, i, hl, hnone, hfind, ?_⟩
    have hl1 : l1.length + 1 ≤ l.length := by
      rw [hl, List.length_append, List.length_cons]
      omega
    unfold prj2.HT.HT_GetAllEntries
    dsimp only
    rw [hh]
    dsimp only
    rw [if_pos hkey, hn, hs0, hwalk]
    dsimp only
    rw [hnum, Nat.mod_eq_of_lt (by omega), hbb]
    dsimp only
    rw [hres]
    dsimp only
    rw [Nat.mod_eq_of_lt (by omega), toInt32_of_range _ (by omega) (by omega)]

/-- C32, on one input.  The file of 2 buckets that holds the records with the IDs
`-1` (bucket 0, data block 2) and `2` (bucket 1, data block 3) is well formed,
and the key `-1` is held by the first block of the chain of its bucket 0, so
that `1 + (b / C + 1) + j = 3` for that key.  The scan with `keyValue` pointing
at `-1` returns 4 and prints both records; the scan for the key `2`, held by
the first block of the chain of bucket 1, returns 3 and prints its record. -/
theorem prj2.HT.keyed_scan_count_run :
    wellFormedCheck 512
        (prj2.HT.fileOf 512 2 [prj2.HT.recordOf (-1) 65, prj2.HT.recordOf 2 66]) 2 = true ∧
    prj2.HT.HashFunction (-1) 2 = 0 ∧
    (chainOf 512 (prj2.HT.fileOf 512 2 [prj2.HT.recordOf (-1) 65, prj2.HT.recordOf 2 66]) 0).map
        (fun l => l.map fun p => (p.1, prj2.HT.findRecord p.2 (-1) (readUInt32 p.2 0) 0))
      = some [(2, some 0)] ∧
    1 + (0 / prj2.MAX_BUCKET_COUNT_PER_BLOCK 512 + 1) + 1 = 3 ∧
    prj2.HT.HT_GetAllEntries 512
        (prj2.HT.fileOf 512 2 [prj2.HT.recordOf (-1) 65, prj2.HT.recordOf 2 66]) (some (-1))
      = some (4, [prj2.HT.recordOf (-1) 65, prj2.HT.recordOf 2 66]) ∧
    prj2.HT.HT_GetAllEntries 512
        (prj2.HT.fileOf 512 2 [prj2.HT.recordOf (-1) 65, prj2.HT.recordOf 2 66]) (some 2)
      = some (3, [prj2.HT.recordOf 2 66]) := by
  decide!

/-! ## The pass of `HashStatistics`: the slots it walks -/

/-- The slots that the pass walks are all the slots, unless the bucket count is a
multiple of the number of slots to a bucket block: then the slots of the last
bucket block are left out. -/
theorem walkedBucketCount_eq (BLOCK_SIZE n : Nat) (hBS : 8 ≤ BLOCK_SIZE) :
    walkedBucketCount BLOCK_SIZE n
      = if n % prj2.MAX_BUCKET_COUNT_PER_BLOCK BLOCK_SIZE = 0
        then n - prj2.MAX_BUCKET_COUNT_PER_BLOCK BLOCK_SIZE else n := by
  have hC1 : 1 ≤ prj2.MAX_BUCKET_COUNT_PER_BLOCK BLOCK_SIZE := by
    unfold prj2.MAX_BUCKET_COUNT_PER_BLOCK; omega
  unfold walkedBucketCount directoryBlockCount
  generalize prj2.MAX_BUCKET_COUNT_PER_BLOCK BLOCK_SIZE = C at hC1 ⊢
  rw [ceil_div_eq n C (by omega)]
  have hdm := Nat.div_add_mod n C
  by_cases hr : n % C = 0
  · rw [if_neg (by omega), if_pos hr, hr, Nat.add_zero, Nat.add_zero, Nat.sub_mul, Nat.one_mul]
    rw [hr, Nat.add_zero] at hdm
    rw [Nat.mul_comm, hdm]
  · rw [if_pos (by omega), if_neg hr, Nat.add_sub_cancel, Nat.mul_comm]
    exact hdm

theorem walkedBucketCount_le (BLOCK_SIZE n : Nat) (hBS : 8 ≤ BLOCK_SIZE) :
    walkedBucketCount BLOCK_SIZE n ≤ n := by
  rw [walkedBucketCount_eq BLOCK_SIZE n hBS]
  split <;> omega

theorem StatisticsReady.of_wellFormed (BLOCK_SIZE : Nat) (f : File) (n : Nat)
    (hBS : 8 ≤ BLOCK_SIZE) (hwf : WellFormed BLOCK_SIZE f n) : StatisticsReady BLOCK_SIZE f n where
  n_pos := hwf.n_pos
  n_lt := hwf.n_lt
  blockCount_lt := hwf.blockCount_lt
  directory_le := hwf.directory_le
  header := hwf.header
  links := hwf.links
  chains := by
    intro s hs
    have := walkedBucketCount_le BLOCK_SIZE n hBS
    obtain ⟨l, hl, _⟩ := hwf.chains s (by omega)
    exact ⟨l, hl⟩

/-- The loop over the bucket blocks from bucket block `i` on: it accounts for the
chains of the buckets whose slots it walks, in order. -/
theorem prj2.HashStatistics.bucketBlockLoop_walked (BLOCK_SIZE : Nat) (f : File) (n : Nat)
    (hBS : 8 ≤ BLOCK_SIZE) (hrd : StatisticsReady BLOCK_SIZE f n) (m : Nat) :
    ∀ i fuel (st : prj2.HashStatistics.Counters), 1 ≤ i →
      i + m = directoryBlockCount BLOCK_SIZE n → m + 2 ≤ fuel →
      st.globalBucketIndex = (i - 1) * prj2.MAX_BUCKET_COUNT_PER_BLOCK BLOCK_SIZE →
      prj2.HashStatistics.bucketBlockLoop BLOCK_SIZE f n fuel (i : Int) st
        = some (.next
            (((List.range' ((i - 1) * prj2.MAX_BUCKET_COUNT_PER_BLOCK BLOCK_SIZE)
                (walkedBucketCount BLOCK_SIZE n
                  - (i - 1) * prj2.MAX_BUCKET_COUNT_PER_BLOCK BLOCK_SIZE)).map
              (bucketChain BLOCK_SIZE f)).foldl prj2.HashStatistics.account st)) := by
  have hC1 : 1 ≤ prj2.MAX_BUCKET_COUNT_PER_BLOCK BLOCK_SIZE := by
    unfold prj2.MAX_BUCKET_COUNT_PER_BLOCK; omega
  have hWn := walkedBucketCount_le BLOCK_SIZE n hBS
  have hW : walkedBucketCount BLOCK_SIZE n
      = (directoryBlockCount BLOCK_SIZE n - 1) * prj2.MAX_BUCKET_COUNT_PER_BLOCK BLOCK_SIZE
        + n % prj2.MAX_BUCKET_COUNT_PER_BLOCK BLOCK_SIZE := rfl
  have hn31 := hrd.n_lt
  have hn32 : n < 2 ^ 32 := by omega
  have hmlt := Nat.mod_lt n hC1
  -- the chains of the buckets of bucket block `i`
  have hslots : ∀ (i : Nat) (b : Block) (cnt : Nat), 1 ≤ i →
      BF_ReadBlock BLOCK_SIZE f (i : Int) = some b →
      cnt ≤ prj2.MAX_BUCKET_COUNT_PER_BLOCK BLOCK_SIZE →
      (i - 1) * prj2.MAX_BUCKET_COUNT_PER_BLOCK BLOCK_SIZE + cnt
        ≤ walkedBucketCount BLOCK_SIZE n →
      ∀ t', 0 ≤ t' → t' < 0 + cnt →
        chainTo BLOCK_SIZE f (f.blockCount + 1)
            (readInt32 b (prj2.sizeofHashBucketBlockHeader + 4 * t'))
          = some (bucketChain BLOCK_SIZE f
              ((i - 1) * prj2.MAX_BUCKET_COUNT_PER_BLOCK BLOCK_SIZE + t')) := by
    intro i b cnt hi hb hcnt hle t' _ ht'
    have hs : (i - 1) * prj2.MAX_BUCKET_COUNT_PER_BLOCK BLOCK_SIZE + t'
        < walkedBucketCount BLOCK_SIZE n := by omega
    obtain ⟨l, hl⟩ := hrd.chains _ hs
    obtain ⟨bb, hbb, hch⟩ := chainOf_cases _ _ _ _ hl
    have hq : ((i - 1) * prj2.MAX_BUCKET_COUNT_PER_BLOCK BLOCK_SIZE + t')
        / prj2.MAX_BUCKET_COUNT_PER_BLOCK BLOCK_SIZE = i - 1 := by
      rw [Nat.add_comm, Nat.add_mul_div_right _ _ (by omega), Nat.div_eq_of_lt (by omega),
        Nat.zero_add]
    have hr : ((i - 1) * prj2.MAX_BUCKET_COUNT_PER_BLOCK BLOCK_SIZE + t')
        % prj2.MAX_BUCKET_COUNT_PER_BLOCK BLOCK_SIZE = t' := by
      rw [Nat.add_comm, Nat.add_mul_mod_self_right, Nat.mod_eq_of_lt (by omega)]
    rw [hq, show 1 + (i - 1) = i by omega, hb] at hbb
    cases hbb
    rw [hr] at hch
    rw [hch, bucketChain, hl]
    rfl
  induction m with
  | zero =>
    intro i fuel st hi him hfuel hst
    obtain ⟨fuel, rfl⟩ := Nat.exists_eq_add_of_le hfuel
    obtain ⟨b, hb, hnext⟩ := hrd.links i hi (by omega)
    rw [if_pos (by omega)] at hnext
    have hi1 : directoryBlockCount BLOCK_SIZE n = i := by omega
    rw [hi1] at hW
    have hcnt : walkedBucketCount BLOCK_SIZE n
          - (i - 1) * prj2.MAX_BUCKET_COUNT_PER_BLOCK BLOCK_SIZE
        = n % prj2.MAX_BUCKET_COUNT_PER_BLOCK BLOCK_SIZE := by
      rw [hW, Nat.add_sub_cancel_left]
    have hmn : n % prj2.MAX_BUCKET_COUNT_PER_BLOCK BLOCK_SIZE < 2147483648 := by
      have := Nat.mod_le n (prj2.MAX_BUCKET_COUNT_PER_BLOCK BLOCK_SIZE)
      omega
    rw [show 0 + 2 + fuel = (fuel + 1) + 1 by omega,
      prj2.HashStatistics.bucketBlockLoop,
      if_neg (show ¬ ((i : Nat) : Int) = prj2.INVALID_BLOCK_INDEX by
        unfold prj2.INVALID_BLOCK_INDEX; omega), hb]
    dsimp only
    rw [hnext, if_pos (show (-1 : Int) = prj2.INVALID_BLOCK_INDEX from rfl),
      toInt32_of_range (n % prj2.MAX_BUCKET_COUNT_PER_BLOCK BLOCK_SIZE : Nat) (by omega) (by omega),
      toUInt32_natCast _ (by omega),
      prj2.HashStatistics.bucketLoop_accounts BLOCK_SIZE f b n hn32 (bucketChain BLOCK_SIZE f)
        ((i - 1) * prj2.MAX_BUCKET_COUNT_PER_BLOCK BLOCK_SIZE)
        (n % prj2.MAX_BUCKET_COUNT_PER_BLOCK BLOCK_SIZE) 0 st
        (hslots i b (n % prj2.MAX_BUCKET_COUNT_PER_BLOCK BLOCK_SIZE) hi hb (by omega)
          (by omega))
        (by omega),
      hcnt, Nat.add_zero]
    dsimp only
    rw [prj2.HashStatistics.bucketBlockLoop,
      if_pos (show (-1 : Int) = prj2.INVALID_BLOCK_INDEX from rfl)]
  | succ m ih =>
    intro i fuel st hi him hfuel hst
    obtain ⟨fuel, rfl⟩ := Nat.exists_eq_add_of_le hfuel
    obtain ⟨b, hb, hnext⟩ := hrd.links i hi (by omega)
    rw [if_neg (by omega)] at hnext
    have hiC : i * prj2.MAX_BUCKET_COUNT_PER_BLOCK BLOCK_SIZE
        ≤ walkedBucketCount BLOCK_SIZE n := by
      have h1 : i ≤ directoryBlockCount BLOCK_SIZE n - 1 := by omega
      have h2 := Nat.mul_le_mul_right (prj2.MAX_BUCKET_COUNT_PER_BLOCK BLOCK_SIZE) h1
      omega
    have hbase : (i - 1) * prj2.MAX_BUCKET_COUNT_PER_BLOCK BLOCK_SIZE
        + prj2.MAX_BUCKET_COUNT_PER_BLOCK BLOCK_SIZE
        = i * prj2.MAX_BUCKET_COUNT_PER_BLOCK BLOCK_SIZE := by
      obtain ⟨i', rfl⟩ := Nat.exists_eq_add_of_le hi
      rw [Nat.add_sub_cancel_left, Nat.add_mul, Nat.one_mul, Nat.add_comm]
    have hCle : prj2.MAX_BUCKET_COUNT_PER_BLOCK BLOCK_SIZE < 2147483648 := by
      have h1 : 1 * prj2.MAX_BUCKET_COUNT_PER_BLOCK BLOCK_SIZE
          ≤ i * prj2.MAX_BUCKET_COUNT_PER_BLOCK BLOCK_SIZE := Nat.mul_le_mul_right _ hi
      omega
    have hdl := hrd.directory_le
    rw [show m + 1 + 2 + fuel = (m + 2 + fuel) + 1 by omega,
      prj2.HashStatistics.bucketBlockLoop,
      if_neg (show ¬ ((i : Nat) : Int) = prj2.INVALID_BLOCK_INDEX by
        unfold prj2.INVALID_BLOCK_INDEX; omega), hb]
    dsimp only
    rw [hnext, if_neg (show ¬ ((i : Nat) : Int) + 1 = prj2.INVALID_BLOCK_INDEX by
        unfold prj2.INVALID_BLOCK_INDEX; omega),
      toInt32_of_range (prj2.MAX_BUCKET_COUNT_PER_BLOCK BLOCK_SIZE : Nat) (by omega) (by omega),
      toUInt32_natCast _ (by omega),
      prj2.HashStatistics.bucketLoop_accounts BLOCK_SIZE f b n hn32 (bucketChain BLOCK_SIZE f)
        ((i - 1) * prj2.MAX_BUCKET_COUNT_PER_BLOCK BLOCK_SIZE)
        (prj2.MAX_BUCKET_COUNT_PER_BLOCK BLOCK_SIZE) 0 st
        (hslots i b (prj2.MAX_BUCKET_COUNT_PER_BLOCK BLOCK_SIZE) hi hb (Nat.le_refl _)
          (by omega))
        (by omega),
      Nat.add_zero]
    have hsplit : List.range' ((i - 1) * prj2.MAX_BUCKET_COUNT_PER_BLOCK BLOCK_SIZE)
          (walkedBucketCount BLOCK_SIZE n
            - (i - 1) * prj2.MAX_BUCKET_COUNT_PER_BLOCK BLOCK_SIZE)
        = List.range' ((i - 1) * prj2.MAX_BUCKET_COUNT_PER_BLOCK BLOCK_SIZE)
            (prj2.MAX_BUCKET_COUNT_PER_BLOCK BLOCK_SIZE)
          ++ List.range' (i * prj2.MAX_BUCKET_COUNT_PER_BLOCK BLOCK_SIZE)
            (walkedBucketCount BLOCK_SIZE n
              - i * prj2.MAX_BUCKET_COUNT_PER_BLOCK BLOCK_SIZE) := by
      rw [← hbase, List.range'_append_1]
      congr 1
      omega
    rw [hsplit, List.map_append, List.foldl_append]
    dsimp only
    have := ih (i + 1) (m + 2 + fuel)
      (((List.range' ((i - 1) * prj2.MAX_BUCKET_COUNT_PER_BLOCK BLOCK_SIZE)
          (prj2.MAX_BUCKET_COUNT_PER_BLOCK BLOCK_SIZE)).map
        (bucketChain BLOCK_SIZE f)).foldl prj2.HashStatistics.account st)
      (by omega) (by omega) (by omega) (by
        rw [prj2.HashStatistics.foldl_account_globalBucketIndex _ _ (by
          rw [List.length_map, List.length_range']; omega), List.length_map, List.length_range',
          Nat.add_sub_cancel]
        omega)
    rw [Nat.add_sub_cancel] at this
    rw [show ((i : Nat) : Int) + 1 = ((i + 1 : Nat) : Int) by push_cast; ring]
    exact this

/-- The pass of `HashStatistics`: it ends, and its counters are those that account
for the chains of the buckets whose slots it walks, in order. -/
theorem prj2.HashStatistics.pass_walked (BLOCK_SIZE : Nat) (f : File) (n : Nat)
    (hBS : 8 ≤ BLOCK_SIZE) (hrd : StatisticsReady BLOCK_SIZE f n) (h : Block)
    (hh : BF_ReadBlock BLOCK_SIZE f prj2.HEADER_BLOCK_INDEX = some h) :
    prj2.HashStatistics.pass BLOCK_SIZE f h
      = some (.next (((List.range (walkedBucketCount BLOCK_SIZE n)).map
          (bucketChain BLOCK_SIZE f)).foldl
          prj2.HashStatistics.account (prj2.HashStatistics.start n))) := by
  obtain ⟨h', hh', hn, hnext⟩ := hrd.header
  rw [show prj2.HEADER_BLOCK_INDEX = 0 from rfl, hh'] at hh
  cases hh
  have hD := directoryBlockCount_pos BLOCK_SIZE n hBS hrd.n_pos
  have hdl := hrd.directory_le
  have := prj2.HashStatistics.bucketBlockLoop_walked BLOCK_SIZE f n hBS hrd
    (directoryBlockCount BLOCK_SIZE n - 1) 1 (f.blockCount + 1) (prj2.HashStatistics.start n)
    (Nat.le_refl _) (by omega) (by omega) (by rw [Nat.sub_self, Nat.zero_mul]; rfl)
  rw [Nat.sub_self, Nat.zero_mul, Nat.sub_zero, ← List.range_eq_range'] at this
  unfold prj2.HashStatistics.pass
  dsimp only
  rw [hn, hnext]
  exact this

/-! ## `HashStatistics`: minimum, maximum and overflow blocks -/

theorem prj2.HashStatistics.account_min_max (st : prj2.HashStatistics.Counters)
    (l : List (Int × Block)) :
    (l = [] → (prj2.HashStatistics.account st l).minElementCount = st.minElementCount ∧
      (prj2.HashStatistics.account st l).maxElementCount = st.maxElementCount) ∧
    (l ≠ [] →
      (prj2.HashStatistics.account st l).minElementCount
        = (if chainElementCount l % 2 ^ 32 < st.minElementCount
            then chainElementCount l % 2 ^ 32 else st.minElementCount) ∧
      (prj2.HashStatistics.account st l).maxElementCount
        = (if chainElementCount l % 2 ^ 32 > st.maxElementCount
            then chainElementCount l % 2 ^ 32 else st.maxElementCount)) := by
  unfold prj2.HashStatistics.account
  dsimp only
  constructor
  · intro hl
    rw [if_neg (fun hne => hne hl)]
    exact ⟨rfl, rfl⟩
  · intro hl
    rw [if_pos hl]
    exact ⟨rfl, rfl⟩

/-- The minimum and the maximum after the chains `ls` have been accounted for:
they bound the element counts of the chains that are not empty, and each is the
value of before or the element count of such a chain. -/
theorem prj2.HashStatistics.foldl_account_min_max (ls : List (List (Int × Block))) :
    ∀ st : prj2.HashStatistics.Counters,
      (ls.foldl prj2.HashStatistics.account st).minElementCount ≤ st.minElementCount ∧
      st.maxElementCount ≤ (ls.foldl prj2.HashStatistics.account st).maxElementCount ∧
      (∀ l ∈ ls, l ≠ [] →
        (ls.foldl prj2.HashStatistics.account st).minElementCount ≤ chainElementCount l % 2 ^ 32 ∧
        chainElementCount l % 2 ^ 32 ≤ (ls.foldl prj2.HashStatistics.account st).maxElementCount) ∧
      ((ls.foldl prj2.HashStatistics.account st).minElementCount = st.minElementCount ∨
        ∃ l ∈ ls, l ≠ [] ∧
          (ls.foldl prj2.HashStatistics.account st).minElementCount
            = chainElementCount l % 2 ^ 32) ∧
      ((ls.foldl prj2.HashStatistics.account st).maxElementCount = st.maxElementCount ∨
        ∃ l ∈ ls, l ≠ [] ∧
          (ls.foldl prj2.HashStatistics.account st).maxElementCount
            = chainElementCount l % 2 ^ 32) := by
  induction ls with
  | nil =>
    intro st
    exact ⟨Nat.le_refl _, Nat.le_refl _, fun l hl => absurd hl (List.not_mem_nil _),
      Or.inl rfl, Or.inl rfl⟩
  | cons l0 ls ih =>
    intro st
    obtain ⟨a1, a2, a3, a4, a5⟩ := ih (prj2.HashStatistics.account st l0)
    obtain ⟨e1, e2⟩ := prj2.HashStatistics.account_min_max st l0
    rw [List.foldl_cons]
    generalize ls.foldl prj2.HashStatistics.account (prj2.HashStatistics.account st l0) = c
      at a1 a2 a3 a4 a5 ⊢
    by_cases hl0 : l0 = []
    · obtain ⟨m1, m2⟩ := e1 hl0
      rw [m1] at a1 a4
      rw [m2] at a2 a5
      refine ⟨a1, a2, ?_, ?_, ?_⟩
      · intro l hl hne
        rcases List.mem_cons.mp hl with rfl | hl'
        · exact absurd hl0 hne
        · exact a3 l hl' hne
      · rcases a4 with h | ⟨l, hl, hne, h⟩
        · exact Or.inl h
        · exact Or.inr ⟨l, List.mem_cons_of_mem _ hl, hne, h⟩
      · rcases a5 with h | ⟨l, hl, hne, h⟩
        · exact Or.inl h
        · exact Or.inr ⟨l, List.mem_cons_of_mem _ hl, hne, h⟩
    · obtain ⟨m1, m2⟩ := e2 hl0
      rw [m1] at a1 a4
      rw [m2] at a2 a5
      refine ⟨?_, ?_, ?_, ?_, ?_⟩
      · split at a1 <;> omega
      · split at a2 <;> omega
      · intro l hl hne
        rcases List.mem_cons.mp hl with rfl | hl'
        · constructor
          · split at a1 <;> omega
          · split at a2 <;> omega
        · exact a3 l hl' hne
      · rcases a4 with h | ⟨l, hl, hne, h⟩
        · split at h
          · exact Or.inr ⟨l0, List.mem_cons_self _ _, hl0, h⟩
          · exact Or.inl h
        · exact Or.inr ⟨l, List.mem_cons_of_mem _ hl, hne, h⟩
      · rcases a5 with h | ⟨l, hl, hne, h⟩
        · split at h
          · exact Or.inr ⟨l0, List.mem_cons_self _ _, hl0, h⟩
          · exact Or.inl h
        · exact Or.inr ⟨l, List.mem_cons_of_mem _ hl, hne, h⟩

theorem foldl_add_mod (M : Nat) (xs : List Nat) :
    ∀ a : Nat, xs.foldl (fun total x => (total + x) % M) (a % M) = (a + xs.sum) % M := by
  induction xs with
  | nil => intro a; rfl
  | cons x xs ih =>
    intro a
    rw [List.foldl_cons, ih, List.sum_cons, Nat.add_assoc, Nat.mod_add_mod]

/-- C33.  On a hash file of `n` buckets with the directory of creation, in which
the chain of every bucket whose slot the pass walks ends, the pass of
`HashStatistics` ends, and the statistics printed from its counters are these.
The slots walked are the first `walkedBucketCount` ones (all `n` unless `n` is a
multiple of the slots to a bucket block); the chain of such a bucket is empty
exactly when its slot is `-1`.  The minimum and the maximum bound the element
counts (sums of `ElementCount` along the chain, as a `uint32_t`) of the walked
buckets whose slot is not `-1`, and when there is such a bucket each is the
element count of one of them.  The overflow entry at the index of a walked
bucket is the length of its chain minus one (0 for the empty chain, the
subtraction being that of the natural numbers), the entries of the other
buckets are 0, and the total is the sum of the `n` entries as a `uint32_t`. -/
theorem prj2.HashStatistics.min_max_overflow (BLOCK_SIZE : Nat) (f : File) (n : Nat)
    (hBS : 8 ≤ BLOCK_SIZE) (hrd : StatisticsReady BLOCK_SIZE f n) (h : Block)
    (hh : BF_ReadBlock BLOCK_SIZE f prj2.HEADER_BLOCK_INDEX = some h) (blockCount : Int) :
    ∃ c, prj2.HashStatistics.pass BLOCK_SIZE f h = some (.next c) ∧
      (n % prj2.MAX_BUCKET_COUNT_PER_BLOCK BLOCK_SIZE ≠ 0 → walkedBucketCount BLOCK_SIZE n = n) ∧
      (∀ s, s < walkedBucketCount BLOCK_SIZE n →
        ∃ bb, BF_ReadBlock BLOCK_SIZE f
              ((1 + s / prj2.MAX_BUCKET_COUNT_PER_BLOCK BLOCK_SIZE : Nat) : Int) = some bb ∧
          (bucketChain BLOCK_SIZE f s = [] ↔
            readInt32 bb (prj2.sizeofHashBucketBlockHeader
              + 4 * (s % prj2.MAX_BUCKET_COUNT_PER_BLOCK BLOCK_SIZE)) = -1)) ∧
      (∀ s, s < walkedBucketCount BLOCK_SIZE n → bucketChain BLOCK_SIZE f s ≠ [] →
        (prj2.HashStatistics.report blockCount n c).minElementCount
            ≤ bucketElementCount BLOCK_SIZE f s ∧
          bucketElementCount BLOCK_SIZE f s
            ≤ (prj2.HashStatistics.report blockCount n c).maxElementCount) ∧
      ((∃ s, s < walkedBucketCount BLOCK_SIZE n ∧ bucketChain BLOCK_SIZE f s ≠ []) →
        (∃ s, s < walkedBucketCount BLOCK_SIZE n ∧ bucketChain BLOCK_SIZE f s ≠ [] ∧
          (prj2.HashStatistics.report blockCount n c).minElementCount
            = bucketElementCount BLOCK_SIZE f s) ∧
        (∃ s, s < walkedBucketCount BLOCK_SIZE n ∧ bucketChain BLOCK_SIZE f s ≠ [] ∧
          (prj2.HashStatistics.report blockCount n c).maxElementCount
            = bucketElementCount BLOCK_SIZE f s)) ∧
      (prj2.HashStatistics.report blockCount n c).overflowBlocksPerBucket
        = (List.range (walkedBucketCount BLOCK_SIZE n)).map
              (fun s => (bucketChain BLOCK_SIZE f s).length - 1)
            ++ List.replicate (n - walkedBucketCount BLOCK_SIZE n) 0 ∧
      (prj2.HashStatistics.report blockCount n c).totalOverflowBlockCount
        = (prj2.HashStatistics.report blockCount n c).overflowBlocksPerBucket.sum % 2 ^ 32 := by
  have hn := hrd.n_lt
  have hb := hrd.blockCount_lt
  have hWn := walkedBucketCount_le BLOCK_SIZE n hBS
  obtain ⟨i1, _, _⟩ := prj2.HashStatistics.foldl_account_spec
    ((List.range (walkedBucketCount BLOCK_SIZE n)).map (bucketChain BLOCK_SIZE f)) []
    (n - walkedBucketCount BLOCK_SIZE n) (prj2.HashStatistics.start n)
    (by
      rw [List.length_map, List.length_range, List.nil_append,
        Nat.add_sub_cancel' hWn]
      rfl) rfl
    (by rw [List.length_map, List.length_range, List.length_nil]; omega)
    (by
      intro l hl
      obtain ⟨s, _, rfl⟩ := List.mem_map.mp hl
      have := bucketChain_length_lt BLOCK_SIZE f s
      omega)
    (by norm_num [prj2.HashStatistics.start])
  rw [List.map_map, List.nil_append] at i1
  obtain ⟨_, _, a3, a4, a5⟩ := prj2.HashStatistics.foldl_account_min_max
    ((List.range (walkedBucketCount BLOCK_SIZE n)).map (bucketChain BLOCK_SIZE f))
    (prj2.HashStatistics.start n)
  have hmem : ∀ s, s < walkedBucketCount BLOCK_SIZE n →
      bucketChain BLOCK_SIZE f s
        ∈ (List.range (walkedBucketCount BLOCK_SIZE n)).map (bucketChain BLOCK_SIZE f) :=
    fun s hs => List.mem_map.mpr ⟨s, List.mem_range.mpr hs, rfl⟩
  have hlen : ((List.range (walkedBucketCount BLOCK_SIZE n)).map
        ((fun l : List (Int × Block) => l.length - 1) ∘ bucketChain BLOCK_SIZE f)
      ++ List.replicate (n - walkedBucketCount BLOCK_SIZE n) 0).length = n := by
    rw [List.length_append, List.length_map, List.length_range, List.length_replicate]
    omega
  refine ⟨_, prj2.HashStatistics.pass_walked BLOCK_SIZE f n hBS hrd h hh, ?_, ?_, ?_, ?_, ?_, ?_⟩
  · intro hmod
    rw [walkedBucketCount_eq BLOCK_SIZE n hBS, if_neg hmod]
  · intro s hs
    obtain ⟨l, hl⟩ := hrd.chains s hs
    obtain ⟨bb, hbb, hch⟩ := chainOf_cases _ _ _ _ hl
    refine ⟨bb, hbb, ?_⟩
    rw [bucketChain, hl]
    obtain ⟨_, _, hc⟩ := chainTo_cases _ _ _ _ _ hch
    rcases hc with ⟨hs1, hnil⟩ | ⟨hs1, b0, l', _, _, hcons⟩
    · exact ⟨fun _ => hs1, fun _ => hnil⟩
    · constructor
      · intro hnil
        rw [hcons] at hnil
        exact absurd hnil (List.cons_ne_nil _ _)
      · intro hneg
        exact absurd hneg hs1
  · intro s hs hne
    exact a3 _ (hmem s hs) hne
  · intro ⟨s0, hs0, hne0⟩
    obtain ⟨b1, b2⟩ := a3 _ (hmem s0 hs0) hne0
    have hlt : chainElementCount (bucketChain BLOCK_SIZE f s0) % 2 ^ 32 < 2 ^ 32 :=
      Nat.mod_lt _ (by norm_num)
    constructor
    · rcases a4 with hmin | ⟨l, hl, hne, hmin⟩
      · refine ⟨s0, hs0, hne0, ?_⟩
        have e : (prj2.HashStatistics.start n).minElementCount = 4294967295 := rfl
        rw [e] at hmin
        have hge : chainElementCount (bucketChain BLOCK_SIZE f s0) % 2 ^ 32 ≤ 4294967295 := by
          omega
        exact Nat.le_antisymm b1 (le_of_le_of_eq hge hmin.symm)
      · obtain ⟨s, hs, rfl⟩ := List.mem_map.mp hl
        exact ⟨s, List.mem_range.mp hs, hne, hmin⟩
    · rcases a5 with hmax | ⟨l, hl, hne, hmax⟩
      · refine ⟨s0, hs0, hne0, ?_⟩
        have e : (prj2.HashStatistics.start n).maxElementCount = 0 := rfl
        rw [e] at hmax
        exact Nat.le_antisymm (le_of_eq_of_le hmax (Nat.zero_le _)) b2
      · obtain ⟨s, hs, rfl⟩ := List.mem_map.mp hl
        exact ⟨s, List.mem_range.mp hs, hne, hmax⟩
  · show List.take n _ = _
    rw [i1, List.take_of_length_le (by rw [hlen])]
    rfl
  · show List.foldl _ 0 (List.take n _) = (List.take n _).sum % 2 ^ 32
    have := foldl_add_mod (2 ^ 32)
      (List.take n ((List.range (walkedBucketCount BLOCK_SIZE n)).map
          (bucketChain BLOCK_SIZE f)
        |>.foldl prj2.HashStatistics.account (prj2.HashStatistics.start n)).overflowBlocksPerBucket) 0
    rw [Nat.zero_add] at this
    exact this

theorem prj2.HashStatistics.min_max_overflow_witness :
    (8 ≤ 512 ∧ wellFormedCheck 512 prj2.HT.sevenRecords 1 = true ∧
      BF_ReadBlock 512 prj2.HT.sevenRecords prj2.HEADER_BLOCK_INDEX
        = some ((BF_ReadBlock 512 prj2.HT.sevenRecords 0).getD 0)) ∧
    ∃ c, prj2.HashStatistics.pass 512 prj2.HT.sevenRecords
          ((BF_ReadBlock 512 prj2.HT.sevenRecords 0).getD 0) = some (.next c) ∧
      (∀ s, s < walkedBucketCount 512 1 → bucketChain 512 prj2.HT.sevenRecords s ≠ [] →
        (prj2.HashStatistics.report 4 1 c).minElementCount
            ≤ bucketElementCount 512 prj2.HT.sevenRecords s ∧
          bucketElementCount 512 prj2.HT.sevenRecords s
            ≤ (prj2.HashStatistics.report 4 1 c).maxElementCount) ∧
      (prj2.HashStatistics.report 4 1 c).overflowBlocksPerBucket
        = (List.range (walkedBucketCount 512 1)).map
              (fun s => (bucketChain 512 prj2.HT.sevenRecords s).length - 1)
            ++ List.replicate (1 - walkedBucketCount 512 1) 0 ∧
      (prj2.HashStatistics.report 4 1 c).totalOverflowBlockCount
        = (prj2.HashStatistics.report 4 1 c).overflowBlocksPerBucket.sum % 2 ^ 32 :=
  ⟨⟨by decide, by decide!, by decide!⟩,
    (prj2.HashStatistics.min_max_overflow 512 prj2.HT.sevenRecords 1 (by decide)
      (StatisticsReady.of_wellFormed 512 prj2.HT.sevenRecords 1 (by decide)
        (wellFormed_of_check 512 prj2.HT.sevenRecords 1 (by decide!)))
      ((BF_ReadBlock 512 prj2.HT.sevenRecords 0).getD 0) (by decide!) 4).elim
      fun c hc => ⟨c, hc.1, hc.2.2.2.1, hc.2.2.2.2.2.1, hc.2.2.2.2.2.2⟩⟩

/-! ## Chains of a well-formed file after a data block is rewritten -/

theorem bucketChain_eq (BLOCK_SIZE : Nat) (f : File) (n : Nat) (hwf : WellFormed BLOCK_SIZE f n)
    (s : Nat) (hs : s < n) :
    chainOf BLOCK_SIZE f s = some (bucketChain BLOCK_SIZE f s) ∧
    ∀ p ∈ bucketChain BLOCK_SIZE f s, (directoryBlockCount BLOCK_SIZE n : Int) < p.1 := by
  obtain ⟨l, hl, hD⟩ := hwf.chains s hs
  rw [bucketChain, hl]
  exact ⟨rfl, hD⟩

theorem bucketChain_of (BLOCK_SIZE : Nat) (f : File) (s : Nat) (l : List (Int × Block))
    (h : chainOf BLOCK_SIZE f s = some l) : bucketChain BLOCK_SIZE f s = l := by
  rw [bucketChain, h]
  rfl

/-- The blocks of the chain of a bucket are blocks of the file, no block is there
twice, and the last one has no next block. -/
theorem bucketChain_blocks (BLOCK_SIZE : Nat) (f : File) (n : Nat)
    (hwf : WellFormed BLOCK_SIZE f n) (s : Nat) (hs : s < n) :
    (∀ p ∈ bucketChain BLOCK_SIZE f s, BF_ReadBlock BLOCK_SIZE f p.1 = some p.2) ∧
    ((bucketChain BLOCK_SIZE f s).map Prod.fst).Nodup := by
  obtain ⟨hl, _⟩ := bucketChain_eq BLOCK_SIZE f n hwf s hs
  obtain ⟨bb, _, hch⟩ := chainOf_cases _ _ _ _ hl
  exact ⟨chainTo_mem _ _ _ _ _ hch, chainTo_nodup _ _ _ _ _ hch⟩

/-- In a list of blocks without a repeated index, the replacement of the block of
index `c` touches one place. -/
theorem map_replace_of_nodup (c : Int) (b bA : Block) (l1 l2 : List (Int × Block))
    (h : ((l1 ++ (c, b) :: l2).map Prod.fst).Nodup) :
    (l1 ++ (c, b) :: l2).map (fun p => if p.1 = c then (c, bA) else p)
      = l1 ++ (c, bA) :: l2 := by
  rw [List.map_append, List.map_cons, List.nodup_append] at h
  obtain ⟨_, h2, h3⟩ := h
  rw [List.nodup_cons] at h2
  have e1 : ∀ l : List (Int × Block), (∀ p ∈ l, p.1 ≠ c) →
      l.map (fun p => if p.1 = c then (c, bA) else p) = l := by
    intro l hl
    induction l with
    | nil => rfl
    | cons p l ih =>
      rw [List.map_cons, if_neg (hl p (List.mem_cons_self _ _)),
        ih (fun q hq => hl q (List.mem_cons_of_mem _ hq))]
  rw [List.map_append, List.map_cons, if_pos rfl, e1 l1, e1 l2]
  · intro p hp hpc
    apply h2.1
    have hm : p.1 ∈ l2.map Prod.fst := List.mem_map_of_mem _ hp
    rw [hpc] at hm
    exact hm
  · intro p hp hpc
    have hm : p.1 ∈ l1.map Prod.fst := List.mem_map_of_mem _ hp
    rw [hpc] at hm
    exact h3 hm (List.mem_cons_self _ _)

theorem map_replace_of_not_mem (c : Int) (bA : Block) (l : List (Int × Block))
    (h : ∀ p ∈ l, p.1 ≠ c) : l.map (fun p => if p.1 = c then (c, bA) else p) = l := by
  induction l with
  | nil => rfl
  | cons p l ih =>
    rw [List.map_cons, if_neg (h p (List.mem_cons_self _ _)),
      ih (fun q hq => h q (List.mem_cons_of_mem _ hq))]

/-- A well-formed file after a data block is rewritten with the same link: it is
well formed, and the chain of every bucket is the chain of before with the new
contents at the index of the block. -/
theorem wellFormed_write (BLOCK_SIZE : Nat) (hBS : 8 ≤ BLOCK_SIZE) (f : File) (n : Nat)
    (hwf : WellFormed BLOCK_SIZE f n) (c : Int) (b bA : Block)
    (hrd : BF_ReadBlock BLOCK_SIZE f c = some b)
    (hDc : (directoryBlockCount BLOCK_SIZE n : Int) < c) (hlt : bA < 256 ^ BLOCK_SIZE)
    (hnext : readInt32 bA 4 = readInt32 b 4) :
    WellFormed BLOCK_SIZE (BF_WriteBlock BLOCK_SIZE f c bA) n ∧
    ∀ s, s < n →
      bucketChain BLOCK_SIZE (BF_WriteBlock BLOCK_SIZE f c bA) s
        = (bucketChain BLOCK_SIZE f s).map fun p => if p.1 = c then (c, bA) else p := by
  have hch : ∀ s, s < n →
      chainOf BLOCK_SIZE (BF_WriteBlock BLOCK_SIZE f c bA) s
        = some ((bucketChain BLOCK_SIZE f s).map fun p => if p.1 = c then (c, bA) else p) := by
    intro s hs
    obtain ⟨hls, _⟩ := bucketChain_eq BLOCK_SIZE f n hwf s hs
    obtain ⟨bbs, hbbs, hchain⟩ := chainOf_cases _ _ _ _ hls
    have hle := bucketBlock_le_directory BLOCK_SIZE n s hBS hs
    apply chainOf_of _ _ _ _ bbs
    · rw [BF_ReadBlock_WriteBlock_other _ _ _ _ _ (by omega)]
      exact hbbs
    · rw [BF_WriteBlock_blockCount]
      exact chainTo_store _ _ _ _ _ hrd hlt hnext _ _ _ hchain
  refine ⟨?_, fun s hs => bucketChain_of _ _ _ _ (hch s hs)⟩
  exact
    { n_pos := hwf.n_pos
      n_lt := hwf.n_lt
      blockCount_lt := by rw [BF_WriteBlock_blockCount]; exact hwf.blockCount_lt
      directory_le := by rw [BF_WriteBlock_blockCount]; exact hwf.directory_le
      header := by
        obtain ⟨h, hh, h1, h2⟩ := hwf.header
        refine ⟨h, ?_, h1, h2⟩
        rw [BF_ReadBlock_WriteBlock_other _ _ _ _ _ (by omega)]
        exact hh
      links := by
        intro i hi1 hi2
        obtain ⟨b', hb', hnext'⟩ := hwf.links i hi1 hi2
        refine ⟨b', ?_, hnext'⟩
        rw [BF_ReadBlock_WriteBlock_other _ _ _ _ _ (by omega)]
        exact hb'
      chains := by
        intro s hs
        refine ⟨_, hch s hs, ?_⟩
        obtain ⟨_, hD⟩ := bucketChain_eq BLOCK_SIZE f n hwf s hs
        intro p hp
        obtain ⟨q, hq, hqp⟩ := List.mem_map.mp hp
        by_cases hqc : q.1 = c
        · rw [if_pos hqc] at hqp
          rw [← hqp]
          exact hDc
        · rw [if_neg hqc] at hqp
          rw [← hqp]
          exact hD q hq }

/-- A well-formed file with disjoint chains after a data block of the chain of
bucket `s0` is rewritten with the same link: the chains stay disjoint, the
chains of the other buckets are as before, and the chain of `s0` has the new
contents in the place of the block. -/
theorem apart_write (BLOCK_SIZE : Nat) (hBS : 8 ≤ BLOCK_SIZE) (f : File) (n : Nat)
    (hwf : WellFormed BLOCK_SIZE f n) (hap : ChainsApart BLOCK_SIZE f n) (s0 : Nat) (hs0 : s0 < n)
    (l1 l2 : List (Int × Block)) (c : Int) (b bA : Block)
    (hl : bucketChain BLOCK_SIZE f s0 = l1 ++ (c, b) :: l2) (hlt : bA < 256 ^ BLOCK_SIZE)
    (hnext : readInt32 bA 4 = readInt32 b 4) :
    WellFormed BLOCK_SIZE (BF_WriteBlock BLOCK_SIZE f c bA) n ∧
    ChainsApart BLOCK_SIZE (BF_WriteBlock BLOCK_SIZE f c bA) n ∧
    (∀ t, t < n → t ≠ s0 →
      bucketChain BLOCK_SIZE (BF_WriteBlock BLOCK_SIZE f c bA) t = bucketChain BLOCK_SIZE f t) ∧
    bucketChain BLOCK_SIZE (BF_WriteBlock BLOCK_SIZE f c bA) s0 = l1 ++ (c, bA) :: l2 := by
  have hmem : (c, b) ∈ bucketChain BLOCK_SIZE f s0 := by
    rw [hl]; exact List.mem_append_right _ (List.mem_cons_self _ _)
  obtain ⟨hrds, hnd⟩ := bucketChain_blocks BLOCK_SIZE f n hwf s0 hs0
  obtain ⟨_, hD⟩ := bucketChain_eq BLOCK_SIZE f n hwf s0 hs0
  obtain ⟨hwf', hch⟩ := wellFormed_write BLOCK_SIZE hBS f n hwf c b bA (hrds _ hmem)
    (hD _ hmem) hlt hnext
  have hothers : ∀ t, t < n → t ≠ s0 →
      bucketChain BLOCK_SIZE (BF_WriteBlock BLOCK_SIZE f c bA) t = bucketChain BLOCK_SIZE f t := by
    intro t ht hts
    rw [hch t ht]
    apply map_replace_of_not_mem
    intro p hp hpc
    exact hap t s0 ht hs0 hts p hp (c, b) hmem hpc
  have hs0' : bucketChain BLOCK_SIZE (BF_WriteBlock BLOCK_SIZE f c bA) s0
      = l1 ++ (c, bA) :: l2 := by
    rw [hch s0 hs0, hl]
    rw [hl] at hnd
    exact map_replace_of_nodup c b bA l1 l2 hnd
  refine ⟨hwf', ?_, hothers, hs0'⟩
  -- the indices of the chains are those of before
  have hidx : ∀ t, t < n → ∀ p ∈ bucketChain BLOCK_SIZE (BF_WriteBlock BLOCK_SIZE f c bA) t,
      ∃ q ∈ bucketChain BLOCK_SIZE f t, q.1 = p.1 := by
    intro t ht p hp
    rw [hch t ht] at hp
    obtain ⟨q, hq, hqp⟩ := List.mem_map.mp hp
    refine ⟨q, hq, ?_⟩
    by_cases hqc : q.1 = c
    · rw [if_pos hqc] at hqp
      rw [← hqp]
      exact hqc
    · rw [if_neg hqc] at hqp
      rw [← hqp]
  intro s t hs ht hst p hp q hq hpq
  obtain ⟨p0, hp0, hp1⟩ := hidx s hs p hp
  obtain ⟨q0, hq0, hq1⟩ := hidx t ht q hq
  exact hap s t hs ht hst p0 hp0 q0 hq0 (by rw [hp1, hq1, hpq])

/-! ## What an insert makes of a well-formed file with disjoint chains -/

theorem SameContents.same (size : Nat) (l : List (Int × Block)) : SameContents size l l := by
  induction l with
  | nil => exact List.Forall₂.nil
  | cons p l ih => exact List.Forall₂.cons ⟨rfl, rfl⟩ ih

theorem SameContents.rewritten (size : Nat) (l0 : List (Int × Block)) (p : Int) (pb pb' : Block)
    (h : blockElements size pb' = blockElements size pb) :
    SameContents size (l0 ++ [(p, pb)]) (l0 ++ [(p, pb')]) := by
  induction l0 with
  | nil => exact List.Forall₂.cons ⟨rfl, h⟩ List.Forall₂.nil
  | cons q l0 ih => exact List.Forall₂.cons ⟨rfl, rfl⟩ ih

theorem SameContents.fst_mem (size : Nat) (l l' : List (Int × Block))
    (h : SameContents size l l') : ∀ p' ∈ l', ∃ p ∈ l, p.1 = p'.1 ∧
      blockElements size p'.2 = blockElements size p.2 := by
  induction h with
  | nil => intro p' hp'; exact absurd hp' (List.not_mem_nil _)
  | cons hab _ ih =>
    intro p' hp'
    rcases List.mem_cons.mp hp' with rfl | hp''
    · exact ⟨_, List.mem_cons_self _ _, hab.1.symm, hab.2⟩
    · obtain ⟨p, hp, h1, h2⟩ := ih p' hp''
      exact ⟨p, List.mem_cons_of_mem _ hp, h1, h2⟩

theorem SameContents.elementsOf (size : Nat) (l l' : List (Int × Block))
    (h : SameContents size l l') : elementsOf size l' = elementsOf size l := by
  induction h with
  | nil => rfl
  | cons hab _ ih =>
    rw [elementsOf_cons, elementsOf_cons, ih, hab.1, hab.2]

/-- The blocks on the chains of a well-formed file are blocks of the file. -/
theorem bucketChain_lt (BLOCK_SIZE : Nat) (f : File) (n : Nat) (hwf : WellFormed BLOCK_SIZE f n)
    (s : Nat) (hs : s < n) : ∀ p ∈ bucketChain BLOCK_SIZE f s, p.1 < (f.blockCount : Int) := by
  intro p hp
  obtain ⟨hrd, _⟩ := bucketChain_blocks BLOCK_SIZE f n hwf s hs
  obtain ⟨_, hlt, _⟩ := BF_ReadBlock_some _ _ _ _ (hrd p hp)
  exact hlt

/-- Chains stay disjoint when the chain of one bucket gets a new block at its end
and the blocks of all the chains keep their indices. -/
theorem apart_of_new (BLOCK_SIZE : Nat) (f f' : File) (n : Nat) (hwf : WellFormed BLOCK_SIZE f n)
    (hap : ChainsApart BLOCK_SIZE f n) (s0 : Nat) (l' : List (Int × Block)) (nb : Block)
    (hothers : ∀ t, t < n → t ≠ s0 → bucketChain BLOCK_SIZE f' t = bucketChain BLOCK_SIZE f t)
    (hs0 : bucketChain BLOCK_SIZE f' s0 = l' ++ [((f.blockCount : Int), nb)])
    (hidx : ∀ p' ∈ l', ∃ p ∈ bucketChain BLOCK_SIZE f s0, p.1 = p'.1) :
    ChainsApart BLOCK_SIZE f' n := by
  have hold : ∀ t, t < n → ∀ p ∈ bucketChain BLOCK_SIZE f' t,
      (p.1 = (f.blockCount : Int) ∧ t = s0) ∨ ∃ q ∈ bucketChain BLOCK_SIZE f t, q.1 = p.1 := by
    intro t ht p hp
    by_cases hts : t = s0
    · subst hts
      rw [hs0] at hp
      rcases List.mem_append.mp hp with h1 | h1
      · exact Or.inr (hidx p h1)
      · rw [List.mem_singleton.mp h1]
        exact Or.inl ⟨rfl, rfl⟩
    · rw [hothers t ht hts] at hp
      exact Or.inr ⟨p, hp, rfl⟩
  intro s t hs ht hst p hp q hq hpq
  rcases hold s hs p hp with ⟨hp1, hps⟩ | ⟨p0, hp0, hp1⟩
  · rcases hold t ht q hq with ⟨_, hqs⟩ | ⟨q0, hq0, hq1⟩
    · exact hst (by rw [hps, hqs])
    · have := bucketChain_lt BLOCK_SIZE f n hwf t ht q0 hq0
      omega
  · rcases hold t ht q hq with ⟨hq1, _⟩ | ⟨q0, hq0, hq1⟩
    · have := bucketChain_lt BLOCK_SIZE f n hwf s hs p0 hp0
      omega
    · exact hap s t hs ht hst p0 hp0 q0 hq0 (by rw [hp1, hq1, hpq])

/-- An insert that stores the element in the first data block with room. -/
theorem InsertEngine.placed_of_room (E : InsertEngine) (BLOCK_SIZE : Nat) (hE : E.Fits BLOCK_SIZE)
    (f : File) (n : Nat) (hwf : WellFormed BLOCK_SIZE f n) (hap : ChainsApart BLOCK_SIZE f n)
    (bytes : Nat) (s0 : Nat) (hs0 : s0 < n) (l1 l2 : List (Int × Block)) (c : Int) (b : Block)
    (hl : bucketChain BLOCK_SIZE f s0 = l1 ++ (c, b) :: l2)
    (hfull : ∀ p ∈ l1, ¬ readUInt32 p.2 0 < E.capacity) (hroom : readUInt32 b 0 < E.capacity) :
    E.Placed BLOCK_SIZE n f (BF_WriteBlock BLOCK_SIZE f c (E.store b bytes)) s0 c bytes := by
  have hBS : 8 ≤ BLOCK_SIZE := by
    have := hE.fits; unfold prj2.sizeofHashDataBlockHeader at this; omega
  have hmem : (c, b) ∈ bucketChain BLOCK_SIZE f s0 := by
    rw [hl]; exact List.mem_append_right _ (List.mem_cons_self _ _)
  obtain ⟨hrds, _⟩ := bucketChain_blocks BLOCK_SIZE f n hwf s0 hs0
  obtain ⟨_, _, hblt⟩ := BF_ReadBlock_some _ _ _ _ (hrds _ hmem)
  obtain ⟨hAnext, hAel⟩ := E.store_spec BLOCK_SIZE hE b bytes hroom
  obtain ⟨h1, h2, h3, h4⟩ := apart_write BLOCK_SIZE hBS f n hwf hap s0 hs0 l1 l2 c b
    (E.store b bytes) hl (E.store_lt BLOCK_SIZE hE b bytes hblt hroom) hAnext
  exact
    { wellFormed := h1
      apart := h2
      blockCount_ge := by rw [BF_WriteBlock_blockCount]
      blockCount_le := by rw [BF_WriteBlock_blockCount]; omega
      others := h3
      chain := Or.inl ⟨l1, c, b, _, l2, hl, h4, rfl, hfull, hroom, hAel,
        BF_WriteBlock_blockCount _ _ _ _⟩ }

theorem SameContents.mem_fst (size : Nat) (l l' : List (Int × Block))
    (h : SameContents size l l') : ∀ p ∈ l, ∃ p' ∈ l', p'.1 = p.1 := by
  induction h with
  | nil => intro p hp; exact absurd hp (List.not_mem_nil _)
  | cons hab _ ih =>
    intro p hp
    rcases List.mem_cons.mp hp with rfl | hp'
    · exact ⟨_, List.mem_cons_self _ _, hab.1⟩
    · obtain ⟨p', hp'', h1⟩ := ih p hp'
      exact ⟨p', List.mem_cons_of_mem _ hp'', h1⟩

/-- An insert that links a new data block behind the last block of the chain. -/
theorem InsertEngine.placed_of_link (E : InsertEngine) (BLOCK_SIZE : Nat) (hE : E.Fits BLOCK_SIZE)
    (f : File) (n : Nat) (hwf : WellFormed BLOCK_SIZE f n) (hap : ChainsApart BLOCK_SIZE f n)
    (hbc : f.blockCount + 1 < 2147483648) (bytes : Nat) (s0 : Nat) (hs0 : s0 < n)
    (l0 : List (Int × Block)) (p : Int) (pb : Block)
    (hl : bucketChain BLOCK_SIZE f s0 = l0 ++ [(p, pb)])
    (hfull : ∀ q ∈ bucketChain BLOCK_SIZE f s0, ¬ readUInt32 q.2 0 < E.capacity) :
    E.Placed BLOCK_SIZE n f
      (BF_WriteBlock BLOCK_SIZE
        (BF_WriteBlock BLOCK_SIZE (BF_AllocateBlock BLOCK_SIZE f) (f.blockCount : Int)
          (E.freshBlock bytes))
        p (writeInt32 pb 4 (f.blockCount : Int)))
      s0 (f.blockCount : Int) bytes := by
  have hBS : 8 ≤ BLOCK_SIZE := by
    have := hE.fits; unfold prj2.sizeofHashDataBlockHeader at this; omega
  obtain ⟨hchainOf, hD⟩ := bucketChain_eq BLOCK_SIZE f n hwf s0 hs0
  obtain ⟨hrds, _⟩ := bucketChain_blocks BLOCK_SIZE f n hwf s0 hs0
  have hpl : (p, pb) ∈ bucketChain BLOCK_SIZE f s0 := by
    rw [hl]; exact List.mem_append_right _ (List.mem_singleton_self _)
  have hlast : (bucketChain BLOCK_SIZE f s0).getLast? = some (p, pb) := by
    rw [hl, List.getLast?_append]
    rfl
  have hrd : BF_ReadBlock BLOCK_SIZE f p = some pb := hrds _ hpl
  obtain ⟨hp0, hp1, hpblt⟩ := BF_ReadBlock_some _ _ _ _ hrd
  have hDp : (directoryBlockCount BLOCK_SIZE n : Int) < p := hD _ hpl
  have hst := E.stored_of_link BLOCK_SIZE hE f n hwf hbc bytes s0 hs0 _ hchainOf p pb hlast
  obtain ⟨hcount, hrp, hrm, hsame⟩ := reads_after_newBlock BLOCK_SIZE f p (E.freshBlock bytes)
    (writeInt32 pb 4 (f.blockCount : Int)) hp0 hp1 (E.freshBlock_lt BLOCK_SIZE hE bytes)
    (writeInt32_lt _ _ _ _ hpblt (by omega))
  obtain ⟨hfnext, hfel⟩ := E.freshBlock_spec bytes
  have hpnext' : readInt32 (writeInt32 pb 4 (f.blockCount : Int)) 4 = (f.blockCount : Int) := by
    rw [readInt32_writeInt32_same]
    exact toInt32_of_range _ (by omega) (by omega)
  generalize BF_WriteBlock BLOCK_SIZE
        (BF_WriteBlock BLOCK_SIZE (BF_AllocateBlock BLOCK_SIZE f) (f.blockCount : Int)
          (E.freshBlock bytes))
        p (writeInt32 pb 4 (f.blockCount : Int)) = f' at hst hcount hrp hrm hsame ⊢
  have hothers : ∀ t, t < n → t ≠ s0 →
      bucketChain BLOCK_SIZE f' t = bucketChain BLOCK_SIZE f t := by
    intro t ht hts
    obtain ⟨hlt, _⟩ := bucketChain_eq BLOCK_SIZE f n hwf t ht
    obtain ⟨bbs, hbbs, hchain⟩ := chainOf_cases _ _ _ _ hlt
    have hle := bucketBlock_le_directory BLOCK_SIZE n t hBS ht
    apply bucketChain_of
    apply chainOf_of _ _ _ _ bbs (hsame _ _ (by omega) hbbs)
    rw [hcount]
    apply chainTo_succ
    apply chainTo_congr _ _ _ _ _ _ hchain
    intro q hq
    exact hsame _ _ (fun hqp => hap t s0 ht hs0 hts q hq (p, pb) hpl hqp)
      (chainTo_mem _ _ _ _ _ hchain q hq)
  have hs0' : bucketChain BLOCK_SIZE f' s0
      = (l0 ++ [(p, writeInt32 pb 4 (f.blockCount : Int))])
        ++ [((f.blockCount : Int), E.freshBlock bytes)] := by
    obtain ⟨bbs, hbbs, hchain⟩ := chainOf_cases _ _ _ _ hchainOf
    have hle := bucketBlock_le_directory BLOCK_SIZE n s0 hBS hs0
    apply bucketChain_of
    apply chainOf_of _ _ _ _ bbs (hsame _ _ (by omega) hbbs)
    rw [hcount, List.append_assoc]
    rw [hl] at hchain
    exact chainTo_snoc_link BLOCK_SIZE f f' p (f.blockCount : Int) pb _ _ hsame hrp hpnext'
      (by omega) hrm hfnext l0 _ _ hchain
  have hsc : SameContents E.elementSize (bucketChain BLOCK_SIZE f s0)
      (l0 ++ [(p, writeInt32 pb 4 (f.blockCount : Int))]) := by
    rw [hl]
    exact SameContents.rewritten _ _ _ _ _ (blockElements_writeInt32_link _ _ _)
  exact
    { wellFormed := hst.wellFormed
      apart := apart_of_new BLOCK_SIZE f f' n hwf hap s0 _ _ hothers hs0' (by
        intro p' hp'
        obtain ⟨q, hq, h1, _⟩ := SameContents.fst_mem _ _ _ hsc p' hp'
        exact ⟨q, hq, h1⟩)
      blockCount_ge := by rw [hcount]; omega
      blockCount_le := by rw [hcount]
      others := hothers
      chain := Or.inr ⟨_, _, hfull, rfl, hcount, hs0', hsc, hfel⟩ }

/-- An insert that enters a new data block in the slot of an empty bucket. -/
theorem InsertEngine.placed_of_slot (E : InsertEngine) (BLOCK_SIZE : Nat) (hE : E.Fits BLOCK_SIZE)
    (f : File) (n : Nat) (hwf : WellFormed BLOCK_SIZE f n) (hap : ChainsApart BLOCK_SIZE f n)
    (hbc : f.blockCount + 1 < 2147483648) (bytes : Nat) (s0 : Nat) (hs0 : s0 < n)
    (hl : bucketChain BLOCK_SIZE f s0 = []) (bb : Block)
    (hbb : BF_ReadBlock BLOCK_SIZE f
      ((1 + s0 / prj2.MAX_BUCKET_COUNT_PER_BLOCK BLOCK_SIZE : Nat) : Int) = some bb) :
    E.Placed BLOCK_SIZE n f
      (BF_WriteBlock BLOCK_SIZE
        (BF_WriteBlock BLOCK_SIZE (BF_AllocateBlock BLOCK_SIZE f) (f.blockCount : Int)
          (E.freshBlock bytes))
        ((1 + s0 / prj2.MAX_BUCKET_COUNT_PER_BLOCK BLOCK_SIZE : Nat) : Int)
        (writeInt32 bb (prj2.sizeofHashBucketBlockHeader
          + 4 * (s0 % prj2.MAX_BUCKET_COUNT_PER_BLOCK BLOCK_SIZE)) (f.blockCount : Int)))
      s0 (f.blockCount : Int) bytes := by
  have hBS : 8 ≤ BLOCK_SIZE := by
    have := hE.fits; unfold prj2.sizeofHashDataBlockHeader at this; omega
  have hC : 1 ≤ prj2.MAX_BUCKET_COUNT_PER_BLOCK BLOCK_SIZE := by
    unfold prj2.MAX_BUCKET_COUNT_PER_BLOCK; omega
  have hC4 : 4 * prj2.MAX_BUCKET_COUNT_PER_BLOCK BLOCK_SIZE + 4 ≤ BLOCK_SIZE := by
    unfold prj2.MAX_BUCKET_COUNT_PER_BLOCK; omega
  obtain ⟨hchainOf, _⟩ := bucketChain_eq BLOCK_SIZE f n hwf s0 hs0
  rw [hl] at hchainOf
  have hst := E.stored_of_slot BLOCK_SIZE hE f n hwf hbc bytes s0 hs0 hchainOf bb hbb
  have hdir := hwf.directory_le
  have hle0 := bucketBlock_le_directory BLOCK_SIZE n s0 hBS hs0
  obtain ⟨hq0, hq1, hbblt⟩ := BF_ReadBlock_some _ _ _ _ hbb
  have hmod0 : s0 % prj2.MAX_BUCKET_COUNT_PER_BLOCK BLOCK_SIZE
      < prj2.MAX_BUCKET_COUNT_PER_BLOCK BLOCK_SIZE := Nat.mod_lt _ hC
  obtain ⟨hcount, hrq, hrm, hsame⟩ := reads_after_newBlock BLOCK_SIZE f
    ((1 + s0 / prj2.MAX_BUCKET_COUNT_PER_BLOCK BLOCK_SIZE : Nat) : Int) (E.freshBlock bytes)
    (writeInt32 bb (prj2.sizeofHashBucketBlockHeader
      + 4 * (s0 % prj2.MAX_BUCKET_COUNT_PER_BLOCK BLOCK_SIZE)) (f.blockCount : Int)) hq0 hq1
    (E.freshBlock_lt BLOCK_SIZE hE bytes)
    (writeInt32_lt _ _ _ _ hbblt (by unfold prj2.sizeofHashBucketBlockHeader; omega))
  obtain ⟨hfnext, hfel⟩ := E.freshBlock_spec bytes
  generalize BF_WriteBlock BLOCK_SIZE
        (BF_WriteBlock BLOCK_SIZE (BF_AllocateBlock BLOCK_SIZE f) (f.blockCount : Int)
          (E.freshBlock bytes))
        ((1 + s0 / prj2.MAX_BUCKET_COUNT_PER_BLOCK BLOCK_SIZE : Nat) : Int)
        (writeInt32 bb (prj2.sizeofHashBucketBlockHeader
          + 4 * (s0 % prj2.MAX_BUCKET_COUNT_PER_BLOCK BLOCK_SIZE)) (f.blockCount : Int)) = f'
    at hst hcount hrq hrm hsame ⊢
  have hnew : bucketChain BLOCK_SIZE f' s0
      = [] ++ [((f.blockCount : Int), E.freshBlock bytes)] := by
    apply bucketChain_of
    apply chainOf_of _ _ _ _ _ hrq
    rw [readInt32_writeInt32_same, toInt32_of_range _ (by omega) (by omega), hcount]
    apply chainTo_cons _ _ _ _ _ _ (by omega) hrm
    rw [hfnext]
    exact chainTo_nil _ _ _
  have hothers : ∀ t, t < n → t ≠ s0 →
      bucketChain BLOCK_SIZE f' t = bucketChain BLOCK_SIZE f t := by
    intro t ht hts
    obtain ⟨hlt, hDt⟩ := bucketChain_eq BLOCK_SIZE f n hwf t ht
    obtain ⟨bbs, hbbs, hchain⟩ := chainOf_cases _ _ _ _ hlt
    have hold : chainTo BLOCK_SIZE f' (f'.blockCount + 1)
        (readInt32 bbs (prj2.sizeofHashBucketBlockHeader
          + 4 * (t % prj2.MAX_BUCKET_COUNT_PER_BLOCK BLOCK_SIZE)))
        = some (bucketChain BLOCK_SIZE f t) := by
      rw [hcount]
      apply chainTo_succ
      apply chainTo_congr _ _ _ _ _ _ hchain
      intro q hq
      have := hDt q hq
      exact hsame _ _ (by omega) (chainTo_mem _ _ _ _ _ hchain q hq)
    apply bucketChain_of
    by_cases hq : t / prj2.MAX_BUCKET_COUNT_PER_BLOCK BLOCK_SIZE
        = s0 / prj2.MAX_BUCKET_COUNT_PER_BLOCK BLOCK_SIZE
    · have hmod : t % prj2.MAX_BUCKET_COUNT_PER_BLOCK BLOCK_SIZE
          ≠ s0 % prj2.MAX_BUCKET_COUNT_PER_BLOCK BLOCK_SIZE := by
        intro hm
        apply hts
        rw [← Nat.div_add_mod t (prj2.MAX_BUCKET_COUNT_PER_BLOCK BLOCK_SIZE),
          ← Nat.div_add_mod s0 (prj2.MAX_BUCKET_COUNT_PER_BLOCK BLOCK_SIZE), hq, hm]
      rw [hq, hbb] at hbbs
      cases hbbs
      apply chainOf_of _ _ _ _ _ (by rw [hq]; exact hrq)
      rw [readInt32_writeInt32_ne _ _ _ _ (by unfold prj2.sizeofHashBucketBlockHeader; omega)]
      exact hold
    · have hle := bucketBlock_le_directory BLOCK_SIZE n t hBS ht
      apply chainOf_of _ _ _ _ bbs (hsame _ _ (by omega) hbbs)
      exact hold
  exact
    { wellFormed := hst.wellFormed
      apart := apart_of_new BLOCK_SIZE f f' n hwf hap s0 _ _ hothers hnew
        (fun p' hp' => absurd hp' (List.not_mem_nil _))
      blockCount_ge := by rw [hcount]; omega
      blockCount_le := by rw [hcount]
      others := hothers
      chain := Or.inr ⟨[], _, by rw [hl]; exact fun p hp => absurd hp (List.not_mem_nil _),
        rfl, hcount, hnew, by rw [hl]; exact List.Forall₂.nil, hfel⟩ }

/-- The insert functions on a well-formed file of `n` buckets with disjoint chains
and room for one more block; `s0` is the bucket of the element.  When the search
finds a duplicate in a block of the chain of `s0`, the function returns `-1` and
the file is as before; otherwise it returns `E.result idx` for a data block
`idx`, and what it makes of the file is described by `Placed`. -/
theorem InsertEngine.insert_placed (E : InsertEngine) (BLOCK_SIZE : Nat)
    (hE : E.Fits BLOCK_SIZE) (f : File) (n : Nat) (hwf : WellFormed BLOCK_SIZE f n)
    (hap : ChainsApart BLOCK_SIZE f n)
    (hbc : f.blockCount + 1 < 2147483648) (bucketIndex : Int → Int) (find : Block → Option Nat)
    (bytes : Nat) (s0 : Nat) (hs0 : bucketIndex (n : Int) = (s0 : Int)) (hlt : s0 < n) :
    ((∃ p ∈ bucketChain BLOCK_SIZE f s0, find p.2 ≠ none) →
      E.insert BLOCK_SIZE f bucketIndex find bytes = some (-1, f)) ∧
    ((∀ p ∈ bucketChain BLOCK_SIZE f s0, find p.2 = none) →
      ∃ f' idx, E.insert BLOCK_SIZE f bucketIndex find bytes = some (E.result idx, f') ∧
        E.Placed BLOCK_SIZE n f f' s0 idx bytes) := by
  have hBS : 8 ≤ BLOCK_SIZE := by
    have := hE.fits; unfold prj2.sizeofHashDataBlockHeader at this; omega
  obtain ⟨h, current, bb, l0, hh, hn, hwalk, hbb, hchain, hchainOf, hD⟩ :=
    wellFormed_bucket BLOCK_SIZE f n hBS hwf s0 hlt
  have hl := bucketChain_of _ _ _ _ hchainOf
  rw [hl]
  have heq := E.insert_eq BLOCK_SIZE f bucketIndex find bytes h (s0 : Int) _ current bb hh
    (by rw [hn]; exact hs0) hwalk hbb
  constructor
  · intro hdup
    rw [heq, InsertEngine.checkLoop_of_some _ _ _ _ _ _ hchain hdup]
  · intro hnone
    rw [heq, InsertEngine.checkLoop_of_none _ _ _ _ _ _ hchain hnone]
    dsimp only
    rcases E.insertLoop_of_chain BLOCK_SIZE f bytes _ prj2.INVALID_BLOCK_INDEX _ _ hchain with
      ⟨l1, c, b, l2, hl12, hfull, hroom, hres⟩ | ⟨hfull, hres⟩
    · rw [hres]
      refine ⟨_, c, rfl, ?_⟩
      exact E.placed_of_room BLOCK_SIZE hE f n hwf hap bytes s0 hlt l1 l2 c b
        (by rw [hl, hl12]) hfull hroom
    · rw [hres]
      dsimp only
      cases hlast : l0.getLast? with
      | none =>
        have hnil : l0 = [] := List.getLast?_eq_none_iff.mp hlast
        subst hnil
        rw [Option.map_none', Option.getD_none, E.newBlock_slot BLOCK_SIZE f bytes _ _ bb hbb,
          prj2.HT.bucketOffset_natCast BLOCK_SIZE s0 hBS (by have := hwf.n_lt; omega)]
        exact ⟨_, _, rfl, E.placed_of_slot BLOCK_SIZE hE f n hwf hap hbc bytes s0 hlt hl bb hbb⟩
      | some q =>
        obtain ⟨p, pb⟩ := q
        have hpl : (p, pb) ∈ l0 := List.mem_of_mem_getLast? hlast
        have hrd : BF_ReadBlock BLOCK_SIZE f p = some pb :=
          chainTo_mem _ _ _ _ _ hchain (p, pb) hpl
        have hsplit : l0 = l0.dropLast ++ [(p, pb)] := by
          have := List.dropLast_append_getLast? (p, pb) (by
            rw [Option.mem_def]; exact hlast)
          exact this.symm
        rw [Option.map_some', Option.getD_some, E.newBlock_link BLOCK_SIZE f bytes p _ _ pb hrd]
        exact ⟨_, _, rfl, E.placed_of_link BLOCK_SIZE hE f n hwf hap hbc bytes s0 hlt
          l0.dropLast p pb (by rw [hl]; exact hsplit) (by rw [hl]; exact hfull)⟩

/-! ## Files in good order: what an insert keeps -/

theorem length_blockElements (size : Nat) (b : Block) :
    (blockElements size b).length = readUInt32 b 0 := by
  unfold blockElements
  rw [List.length_map, List.length_range]

/-- The elements of the chain of the bucket after an insert that stores an element:
those of before and the new one, each in its block. -/
theorem InsertEngine.Placed.perm (E : InsertEngine) (BLOCK_SIZE n : Nat) (f f' : File) (s0 : Nat)
    (idx : Int) (bytes : Nat) (hp : E.Placed BLOCK_SIZE n f f' s0 idx bytes) :
    (elementsOf E.elementSize (bucketChain BLOCK_SIZE f' s0)).Perm
      ((idx, bytes % 256 ^ E.elementSize)
        :: elementsOf E.elementSize (bucketChain BLOCK_SIZE f s0)) := by
  rcases hp.chain with ⟨l1, c, b, b', l2, hl, hl', hidx, _, _, hel, _⟩ |
    ⟨l', nb, _, _, _, hl', hsc, hel⟩
  · rw [hl, hl', hidx, elementsOf_append, elementsOf_append, elementsOf_cons, elementsOf_cons]
    dsimp only
    rw [hel, List.map_append, List.map_singleton]
    have h1 : (List.map (fun e => (c, e)) (blockElements E.elementSize b)
          ++ [(c, bytes % 256 ^ E.elementSize)] ++ elementsOf E.elementSize l2).Perm
        ((c, bytes % 256 ^ E.elementSize)
          :: (List.map (fun e => (c, e)) (blockElements E.elementSize b)
            ++ elementsOf E.elementSize l2)) := by
      rw [List.append_assoc]
      exact List.perm_middle
    exact (List.Perm.append_left _ h1).trans List.perm_middle
  · rw [hl', elementsOf_append, elementsOf_cons, elementsOf_nil, List.append_nil,
      SameContents.elementsOf _ _ _ hsc]
    dsimp only
    rw [hel, List.map_singleton]
    exact List.perm_append_singleton _ _

/-- The blocks of the chain of the bucket after an insert that stores an element:
each has the elements of a block of before at the same index, or those and the
new element, or is the new block, with the one element. -/
theorem InsertEngine.Placed.blocks (E : InsertEngine) (BLOCK_SIZE n : Nat) (f f' : File)
    (s0 : Nat) (idx : Int) (bytes : Nat) (hp : E.Placed BLOCK_SIZE n f f' s0 idx bytes) :
    ∀ p' ∈ bucketChain BLOCK_SIZE f' s0,
      (∃ p ∈ bucketChain BLOCK_SIZE f s0, p.1 = p'.1 ∧
        (blockElements E.elementSize p'.2 = blockElements E.elementSize p.2 ∨
          (readUInt32 p.2 0 < E.capacity ∧ p'.1 = idx ∧
            blockElements E.elementSize p'.2
              = blockElements E.elementSize p.2 ++ [bytes % 256 ^ E.elementSize]))) ∨
      (p'.1 = (f.blockCount : Int) ∧ p'.1 = idx ∧
        blockElements E.elementSize p'.2 = [bytes % 256 ^ E.elementSize]) := by
  intro p' hp'
  rcases hp.chain with ⟨l1, c, b, b', l2, hl, hl', hidx, _, hroom, hel, _⟩ |
    ⟨l', nb, _, hidx, _, hl', hsc, hel⟩
  · rw [hl'] at hp'
    rw [hl]
    rcases List.mem_append.mp hp' with h1 | h1
    · exact Or.inl ⟨p', List.mem_append_left _ h1, rfl, Or.inl rfl⟩
    · rcases List.mem_cons.mp h1 with rfl | h2
      · exact Or.inl ⟨(c, b), List.mem_append_right _ (List.mem_cons_self _ _), rfl,
          Or.inr ⟨hroom, hidx.symm, hel⟩⟩
      · exact Or.inl ⟨p', List.mem_append_right _ (List.mem_cons_of_mem _ h2), rfl, Or.inl rfl⟩
  · rw [hl'] at hp'
    rcases List.mem_append.mp hp' with h1 | h1
    · obtain ⟨q, hq, hq1, hq2⟩ := SameContents.fst_mem _ _ _ hsc p' h1
      exact Or.inl ⟨q, hq, hq1, Or.inl hq2⟩
    · rw [List.mem_singleton.mp h1]
      exact Or.inr ⟨hidx, rfl, hel⟩

/-- An insert that stores an element in the bucket of the element, whose key no
element of that bucket has, keeps a file in good order. -/
theorem Tidy.of_placed {κ : Type} (E : InsertEngine) (BLOCK_SIZE n : Nat) (bucketOf : Nat → Nat)
    (keyOf : Nat → κ) (f f' : File) (s0 : Nat) (idx : Int) (bytes : Nat)
    (hcap : 1 ≤ E.capacity)
    (ht : Tidy BLOCK_SIZE E.elementSize E.capacity bucketOf keyOf f n)
    (hp : E.Placed BLOCK_SIZE n f f' s0 idx bytes)
    (hb : bucketOf (bytes % 256 ^ E.elementSize) = s0)
    (hk : ∀ x ∈ elementsOf E.elementSize (bucketChain BLOCK_SIZE f s0),
      keyOf x.2 ≠ keyOf (bytes % 256 ^ E.elementSize)) :
    Tidy BLOCK_SIZE E.elementSize E.capacity bucketOf keyOf f' n where
  wellFormed := hp.wellFormed
  apart := hp.apart
  capacity := by
    intro s hs p' hp'
    by_cases hss : s = s0
    · subst hss
      rcases hp.blocks E BLOCK_SIZE n f f' s idx bytes p' hp' with
        ⟨p, hpm, _, hel | ⟨hroom, _, hel⟩⟩ | ⟨_, _, hel⟩
      · rw [← length_blockElements E.elementSize, hel, length_blockElements]
        exact ht.capacity s hs p hpm
      · rw [← length_blockElements E.elementSize, hel, List.length_append,
          length_blockElements, List.length_singleton]
        omega
      · rw [← length_blockElements E.elementSize, hel, List.length_singleton]
        exact hcap
    · rw [hp.others s hs hss] at hp'
      exact ht.capacity s hs p' hp'
  placement := by
    intro s hs x hx
    by_cases hss : s = s0
    · subst hss
      rcases List.mem_cons.mp ((hp.perm E BLOCK_SIZE n f f' s idx bytes).mem_iff.mp hx) with
        rfl | hx'
      · exact hb
      · exact ht.placement s hs x hx'
    · rw [hp.others s hs hss] at hx
      exact ht.placement s hs x hx
  unique := by
    intro s hs
    by_cases hss : s = s0
    · subst hss
      have hperm := (hp.perm E BLOCK_SIZE n f f' s idx bytes).map (fun x => keyOf x.2)
      rw [hperm.nodup_iff, List.map_cons, List.nodup_cons]
      refine ⟨?_, ht.unique s hs⟩
      intro hmem
      obtain ⟨x, hx, hxk⟩ := List.mem_map.mp hmem
      exact hk x hx hxk
    · rw [hp.others s hs hss]
      exact ht.unique s hs

/-- The blocks of before are blocks of the chains after an insert that stores an
element, at their indices, and the file has a block more exactly when the
element is stored in the new block. -/
theorem InsertEngine.Placed.covers (E : InsertEngine) (BLOCK_SIZE n : Nat) (f f' : File)
    (s0 : Nat) (idx : Int) (bytes : Nat) (hp : E.Placed BLOCK_SIZE n f f' s0 idx bytes) :
    (∀ p ∈ bucketChain BLOCK_SIZE f s0, ∃ p' ∈ bucketChain BLOCK_SIZE f' s0, p'.1 = p.1) ∧
    (f'.blockCount = f.blockCount ∨
      (f'.blockCount = f.blockCount + 1 ∧
        ∃ p' ∈ bucketChain BLOCK_SIZE f' s0, p'.1 = (f.blockCount : Int))) := by
  rcases hp.chain with ⟨l1, c, b, b', l2, hl, hl', _, _, _, _, hcount⟩ |
    ⟨l', nb, _, hidx, hcount, hl', hsc, _⟩
  · refine ⟨?_, Or.inl hcount⟩
    intro p hpm
    rw [hl] at hpm
    rw [hl']
    rcases List.mem_append.mp hpm with h1 | h1
    · exact ⟨p, List.mem_append_left _ h1, rfl⟩
    · rcases List.mem_cons.mp h1 with rfl | h2
      · exact ⟨(c, b'), List.mem_append_right _ (List.mem_cons_self _ _), rfl⟩
      · exact ⟨p, List.mem_append_right _ (List.mem_cons_of_mem _ h2), rfl⟩
  · refine ⟨?_, Or.inr ⟨hcount, (idx, nb), ?_, hidx⟩⟩
    · intro p hpm
      obtain ⟨p', hp', h1⟩ := SameContents.mem_fst _ _ _ hsc p hpm
      exact ⟨p', by rw [hl']; exact List.mem_append_left _ hp', h1⟩
    · rw [hl']
      exact List.mem_append_right _ (List.mem_singleton_self _)

/-! ## Primary files in good order: insert -/

theorem getElem?_blockElements (size : Nat) (b : Block) (j : Nat) :
    (blockElements size b)[j]? = if j < readUInt32 b 0 then some (elementAt size b j) else none := by
  unfold blockElements
  rw [List.getElem?_map]
  by_cases hj : j < readUInt32 b 0
  · rw [List.getElem?_range hj, if_pos hj]
    rfl
  · rw [List.getElem?_eq_none (by rw [List.length_range]; omega), if_neg hj]
    rfl

/-- The key of a stored element of a primary data block is the `ID` field of its
slot. -/
theorem prj2.HT.keyOf_elementAt (b : Block) (j : Nat) :
    prj2.HT.keyOf (elementAt prj2.sizeofRecord b j)
      = readInt32 b (prj2.sizeofHashDataBlockHeader + prj2.sizeofRecord * j) := by
  unfold prj2.HT.keyOf prj2.readRecord elementAt readInt32 prj2.sizeofRecord
  dsimp only
  rw [readBytes_readBytes _ _ _ _ _ (by omega)]
  rfl

/-- A chain none of whose blocks holds the key has no element with the key. -/
theorem prj2.HT.keyOf_ne_of_findRecord (l : List (Int × Block)) (key : Int)
    (h : ∀ p ∈ l, prj2.HT.findRecord p.2 key (readUInt32 p.2 0) 0 = none) :
    ∀ x ∈ elementsOf prj2.sizeofRecord l, prj2.HT.keyOf x.2 ≠ key := by
  intro x hx
  obtain ⟨p, hp, _, hxe⟩ := (mem_elementsOf _ _ _).mp hx
  obtain ⟨j, hj, hxj⟩ := (mem_blockElements _ _ _).mp hxe
  rw [← hxj, prj2.HT.keyOf_elementAt]
  exact prj2.HT.findRecord_none p.2 key _ 0 (h p hp) j (Nat.zero_le _) (by omega)

/-- The function `HT_InsertEntry` on a primary file in good order with room for
one more block, for a record whose fields are values of their C types: it
returns `-1` and leaves the file as it is when the chain of the bucket of the
ID holds the ID, and otherwise returns the index of a data block, in which it
has stored the record; the file is in good order afterwards. -/
theorem prj2.HT.insert_tidy (BLOCK_SIZE : Nat) (h1 : 104 ≤ BLOCK_SIZE)
    (h2 : BLOCK_SIZE < 4294967296) (f : File) (n : Nat) (ht : PrimaryTidy BLOCK_SIZE f n)
    (hbc : f.blockCount + 1 < 2147483648) (record : prj2.Record) (hr : record.InRange) :
    (prj2.HT.HT_InsertEntry BLOCK_SIZE f record = some (-1, f) ∧
      ∃ x ∈ elementsOf prj2.sizeofRecord
          (bucketChain BLOCK_SIZE f (prj2.HT.HashFunction record.ID (n : Int)).toNat),
        prj2.HT.keyOf x.2 = record.ID) ∨
    (∃ idx f', prj2.HT.HT_InsertEntry BLOCK_SIZE f record = some (idx, f') ∧ idx ≠ -1 ∧
      (prj2.HT.insertEngine BLOCK_SIZE).Placed BLOCK_SIZE n f f'
        (prj2.HT.HashFunction record.ID (n : Int)).toNat idx record.toBytes ∧
      PrimaryTidy BLOCK_SIZE f' n) := by
  have hE := prj2.HT.HT_insertEngine_fits BLOCK_SIZE h1 h2
  have hwf := ht.wellFormed
  obtain ⟨hs0, hlt⟩ := prj2.HT.hash_bucket record.ID n hwf.n_pos
  have hbytes : record.toBytes % 256 ^ (prj2.HT.insertEngine BLOCK_SIZE).elementSize
      = record.toBytes := Nat.mod_eq_of_lt (prj2.Record.toBytes_lt record)
  have hrec : prj2.readRecord record.toBytes 0 = record := by
    have := prj2.readRecord_toBytes record hr
    rw [show prj2.sizeofRecord = (prj2.HT.insertEngine BLOCK_SIZE).elementSize from rfl,
      hbytes] at this
    exact this
  obtain ⟨hdup, hnew⟩ := (prj2.HT.insertEngine BLOCK_SIZE).insert_placed BLOCK_SIZE hE f n hwf
    ht.apart hbc (fun hashTableSize => prj2.HT.HashFunction record.ID hashTableSize)
    (fun b => prj2.HT.findRecord b record.ID (readUInt32 b 0) 0) record.toBytes
    (prj2.HT.HashFunction record.ID (n : Int)).toNat hs0 hlt
  rw [prj2.HT.HT_InsertEntry_eq]
  by_cases hd : ∃ p ∈ bucketChain BLOCK_SIZE f (prj2.HT.HashFunction record.ID (n : Int)).toNat,
      prj2.HT.findRecord p.2 record.ID (readUInt32 p.2 0) 0 ≠ none
  · left
    refine ⟨hdup hd, ?_⟩
    obtain ⟨p, hp, hne⟩ := hd
    cases hf : prj2.HT.findRecord p.2 record.ID (readUInt32 p.2 0) 0 with
    | none => exact absurd hf hne
    | some i =>
      obtain ⟨_, hi, hkey, _⟩ := prj2.HT.findRecord_some p.2 record.ID _ 0 i hf
      refine ⟨(p.1, elementAt prj2.sizeofRecord p.2 i), ?_, ?_⟩
      · exact (mem_elementsOf _ _ _).mpr ⟨p, hp, rfl,
          (mem_blockElements _ _ _).mpr ⟨i, by omega, rfl⟩⟩
      · rw [prj2.HT.keyOf_elementAt]
        exact hkey
  · right
    have hnone : ∀ p ∈ bucketChain BLOCK_SIZE f (prj2.HT.HashFunction record.ID (n : Int)).toNat,
        prj2.HT.findRecord p.2 record.ID (readUInt32 p.2 0) 0 = none := by
      intro p hp
      by_contra hne
      exact hd ⟨p, hp, hne⟩
    obtain ⟨f', idx, hins, hpl⟩ := hnew hnone
    refine ⟨idx, f', hins, ?_, hpl, ?_⟩
    · obtain ⟨_, hD⟩ := bucketChain_eq BLOCK_SIZE f n hwf _ hlt
      rcases hpl.chain with ⟨l1, c, b, b', l2, hl, _, hidx, _⟩ | ⟨_, _, _, hidx, _⟩
      · have := hD (c, b) (by rw [hl]; exact List.mem_append_right _ (List.mem_cons_self _ _))
        rw [hidx]
        show c ≠ -1
        omega
      · rw [hidx]
        omega
    · apply Tidy.of_placed (prj2.HT.insertEngine BLOCK_SIZE) BLOCK_SIZE n _ _ f f' _ idx
        record.toBytes hE.capacity_pos ht hpl
      · rw [hbytes]
        unfold prj2.HT.bucketOf
        rw [hrec]
      · intro x hx
        rw [hbytes]
        unfold prj2.HT.keyOf
        rw [hrec]
        exact prj2.HT.keyOf_ne_of_findRecord _ _ hnone x hx

/-! ## Primary files in good order: delete -/

/-- The elements of a data block after `HT_DeleteEntry` has removed the record of
slot `i`: those of before without the one of slot `i`, in their order. -/
theorem prj2.HT.blockElements_removeRecord (BLOCK_SIZE : Nat) (b : Block) (i : Nat)
    (hBS : BLOCK_SIZE < 4294967296) (hb : b < 256 ^ BLOCK_SIZE) (hi : i < readUInt32 b 0)
    (hn : readUInt32 b 0 ≤ prj2.HT.MAX_RECORD_COUNT_PER_BLOCK BLOCK_SIZE) :
    blockElements prj2.sizeofRecord (prj2.HT.HT_DeleteEntry.removeRecord BLOCK_SIZE b i)
      = (blockElements prj2.sizeofRecord b).eraseIdx i := by
  obtain ⟨_, hc, _, hlow, hhigh, _⟩ := prj2.HT.removeRecord_spec BLOCK_SIZE b i hBS hb hi hn
  apply List.ext_getElem?
  intro j
  rw [getElem?_blockElements, hc]
  by_cases hji : j < i
  · rw [List.getElem?_eraseIdx_of_lt _ _ _ hji, getElem?_blockElements, if_pos (by omega),
      if_pos (by omega), hlow j hji]
  · rw [List.getElem?_eraseIdx_of_ge _ _ _ (by omega), getElem?_blockElements]
    by_cases hj : j + 1 < readUInt32 b 0
    · rw [if_pos (by omega), if_pos hj, hhigh j (by omega) hj]
    · rw [if_neg (by omega), if_neg hj]

theorem elementsOf_sublist (size : Nat) (l1 l2 : List (Int × Block)) (c : Int) (b b' : Block)
    (h : (blockElements size b').Sublist (blockElements size b)) :
    (elementsOf size (l1 ++ (c, b') :: l2)).Sublist (elementsOf size (l1 ++ (c, b) :: l2)) := by
  rw [elementsOf_append, elementsOf_append, elementsOf_cons, elementsOf_cons]
  exact List.Sublist.append (List.Sublist.refl _)
    (List.Sublist.append (h.map _) (List.Sublist.refl _))

/-- A delete that removes a record keeps a primary file in good order. -/
theorem Tidy.of_removed (BLOCK_SIZE n : Nat) (f f' : File) (s0 : Nat) (key : Int)
    (hwf : WellFormed BLOCK_SIZE f' n) (hap : ChainsApart BLOCK_SIZE f' n)
    (ht : PrimaryTidy BLOCK_SIZE f n) (hrm : prj2.HT.Removed BLOCK_SIZE n f f' s0 key) :
    PrimaryTidy BLOCK_SIZE f' n := by
  obtain ⟨l1, c, b, b', l2, i, hl, hl', _, _, _, _, hel, _⟩ := hrm.chain
  have hsub : (blockElements prj2.sizeofRecord b').Sublist (blockElements prj2.sizeofRecord b) := by
    rw [hel]
    exact List.eraseIdx_sublist _ _
  have hsub' := elementsOf_sublist prj2.sizeofRecord l1 l2 c b b' hsub
  rw [← hl, ← hl'] at hsub'
  exact
    { wellFormed := hwf
      apart := hap
      capacity := by
        intro s hs p' hp'
        by_cases hss : s = s0
        · subst hss
          rw [hl'] at hp'
          have hold := ht.capacity s hs
          rw [hl] at hold
          rcases List.mem_append.mp hp' with h1 | h1
          · exact hold p' (List.mem_append_left _ h1)
          · rcases List.mem_cons.mp h1 with rfl | h2
            · have := hold (c, b) (List.mem_append_right _ (List.mem_cons_self _ _))
              have hlen := hsub.length_le
              rw [length_blockElements, length_blockElements] at hlen
              exact Nat.le_trans hlen this
            · exact hold p' (List.mem_append_right _ (List.mem_cons_of_mem _ h2))
        · rw [hrm.others s hs hss] at hp'
          exact ht.capacity s hs p' hp'
      placement := by
        intro s hs x hx
        by_cases hss : s = s0
        · subst hss
          exact ht.placement s hs x (hsub'.subset hx)
        · rw [hrm.others s hs hss] at hx
          exact ht.placement s hs x hx
      unique := by
        intro s hs
        by_cases hss : s = s0
        · subst hss
          exact (ht.unique s hs).sublist (hsub'.map _)
        · rw [hrm.others s hs hss]
          exact ht.unique s hs }

/-- The function `HT_DeleteEntry` on a primary file in good order: it returns `-1`
and leaves the file as it is when the chain of the bucket of the key has no
record with the key, and otherwise returns `0` after it has removed the record
with the key; the file is in good order afterwards. -/
theorem prj2.HT.delete_tidy (BLOCK_SIZE : Nat) (h1 : 104 ≤ BLOCK_SIZE)
    (h2 : BLOCK_SIZE < 4294967296) (f : File) (n : Nat) (ht : PrimaryTidy BLOCK_SIZE f n)
    (key : Int) :
    (prj2.HT.HT_DeleteEntry BLOCK_SIZE f key = some (-1, f) ∧
      ∀ x ∈ elementsOf prj2.sizeofRecord
          (bucketChain BLOCK_SIZE f (prj2.HT.HashFunction key (n : Int)).toNat),
        prj2.HT.keyOf x.2 ≠ key) ∨
    (∃ f', prj2.HT.HT_DeleteEntry BLOCK_SIZE f key = some (0, f') ∧
      prj2.HT.Removed BLOCK_SIZE n f f' (prj2.HT.HashFunction key (n : Int)).toNat key ∧
      PrimaryTidy BLOCK_SIZE f' n) := by
  have hwf := ht.wellFormed
  obtain ⟨_, hlt⟩ := prj2.HT.hash_bucket key n hwf.n_pos
  obtain ⟨l, hl, hcase⟩ := prj2.HT.delete_of_wellFormed BLOCK_SIZE (by omega) f n hwf key
  have hbl := bucketChain_of _ _ _ _ hl
  rcases hcase with ⟨hnone, hres⟩ | ⟨l1, c, b, l2, i, hl12, hnone, hfind, hDc, hrd, hres⟩
  · left
    refine ⟨hres, ?_⟩
    rw [hbl]
    exact prj2.HT.keyOf_ne_of_findRecord _ _ hnone
  · right
    obtain ⟨_, hi, hkey, hbefore⟩ := prj2.HT.findRecord_some b key _ 0 i hfind
    have hmem : (c, b) ∈ bucketChain BLOCK_SIZE f (prj2.HT.HashFunction key (n : Int)).toNat := by
      rw [hbl, hl12]; exact List.mem_append_right _ (List.mem_cons_self _ _)
    obtain ⟨_, _, hblt⟩ := BF_ReadBlock_some _ _ _ _ hrd
    have hcap := ht.capacity _ hlt (c, b) hmem
    obtain ⟨r1, _, r3, _⟩ := prj2.HT.removeRecord_spec BLOCK_SIZE b i h2 hblt (by omega) hcap
    obtain ⟨w1, w2, w3, w4⟩ := apart_write BLOCK_SIZE (by omega) f n hwf ht.apart _ hlt l1 l2 c b
      (prj2.HT.HT_DeleteEntry.removeRecord BLOCK_SIZE b i) (by rw [hbl, hl12]) r1 r3
    have hrm : prj2.HT.Removed BLOCK_SIZE n f
        (BF_WriteBlock BLOCK_SIZE f c (prj2.HT.HT_DeleteEntry.removeRecord BLOCK_SIZE b i))
        (prj2.HT.HashFunction key (n : Int)).toNat key :=
      { blockCount_eq := BF_WriteBlock_blockCount _ _ _ _
        others := w3
        chain := ⟨l1, c, b, _, l2, i, by rw [hbl, hl12], w4,
          prj2.HT.keyOf_ne_of_findRecord _ _ hnone, by omega,
          by rw [prj2.HT.keyOf_elementAt]; exact hkey,
          fun j hj => by
            rw [prj2.HT.keyOf_elementAt]
            exact hbefore j (Nat.zero_le _) hj,
          prj2.HT.blockElements_removeRecord BLOCK_SIZE b i h2 hblt (by omega) hcap, rfl⟩ }
    exact ⟨_, hres, hrm, Tidy.of_removed BLOCK_SIZE n f _ _ key w1 w2 ht hrm⟩

/-! ## The primary files that the calls make -/

theorem not_mem_changedBlocks (BLOCK_SIZE : Nat) (f f' : File) (c : Int) (h0 : 0 ≤ c)
    (h1 : c < (f.blockCount : Int)) (h : c ∉ changedBlocks BLOCK_SIZE f f') :
    BF_ReadBlock BLOCK_SIZE f c = BF_ReadBlock BLOCK_SIZE f' c := by
  by_contra hne
  apply h
  unfold changedBlocks
  refine List.mem_map.mpr ⟨c.toNat, ?_, Int.toNat_of_nonneg h0⟩
  rw [List.mem_filter, List.mem_range, Int.toNat_of_nonneg h0]
  exact ⟨by omega, decide_eq_true hne⟩

/-- The file that `HT_CreateIndex` makes is in good order, with no data block. -/
theorem prj2.HT.create_tidy (BLOCK_SIZE : Nat) (n : Nat) (hBS : 12 ≤ BLOCK_SIZE)
    (hBS2 : BLOCK_SIZE < 4294967296) (hn1 : 1 ≤ n) (hn : n < 2147483648)
    (hmod : n % prj2.MAX_BUCKET_COUNT_PER_BLOCK BLOCK_SIZE ≠ 0) :
    PrimaryTidy BLOCK_SIZE (prj2.HT.HT_CreateIndex BLOCK_SIZE (n : Int)).2 n ∧
    (prj2.HT.HT_CreateIndex BLOCK_SIZE (n : Int)).2.blockCount
      = 1 + directoryBlockCount BLOCK_SIZE n ∧
    ∀ s, s < n → bucketChain BLOCK_SIZE (prj2.HT.HT_CreateIndex BLOCK_SIZE (n : Int)).2 s = [] := by
  obtain ⟨⟨_, hwf, hcount, hch⟩, _⟩ := create_wellFormed BLOCK_SIZE n hBS hBS2 hn1 hn hmod
  have hnil : ∀ s, s < n →
      bucketChain BLOCK_SIZE (prj2.HT.HT_CreateIndex BLOCK_SIZE (n : Int)).2 s = [] :=
    fun s hs => bucketChain_of _ _ _ _ (hch s hs)
  refine ⟨?_, hcount, hnil⟩
  exact
    { wellFormed := hwf
      apart := by
        intro s t hs _ _ p hp
        rw [hnil s hs] at hp
        exact absurd hp (List.not_mem_nil _)
      capacity := by
        intro s hs p hp
        rw [hnil s hs] at hp
        exact absurd hp (List.not_mem_nil _)
      placement := by
        intro s hs x hx
        rw [hnil s hs] at hx
        exact absurd hx (List.not_mem_nil _)
      unique := by
        intro s hs
        rw [hnil s hs]
        exact List.nodup_nil }

/-- Every primary file that is reached from `HT_CreateIndex`, with a bucket count
that is not a multiple of the capacity of a bucket block, by inserts and deletes
is in good order; the data blocks that no delete has changed hold an element;
and every block behind the bucket blocks lies on the chain of a bucket. -/
theorem prj2.HT.reachable_tidy (BLOCK_SIZE : Nat) (h1 : 104 ≤ BLOCK_SIZE)
    (h2 : BLOCK_SIZE < 4294967296) (n : Nat) (hn1 : 1 ≤ n) (hn : n < 2147483648)
    (hmod : n % prj2.MAX_BUCKET_COUNT_PER_BLOCK BLOCK_SIZE ≠ 0) (f : File) (deleted : List Int)
    (hr : prj2.HT.Reachable BLOCK_SIZE n f deleted) :
    PrimaryTidy BLOCK_SIZE f n ∧
    (∀ s, s < n → ∀ p ∈ bucketChain BLOCK_SIZE f s, p.1 ∉ deleted → 1 ≤ readUInt32 p.2 0) ∧
    (∀ j : Int, (directoryBlockCount BLOCK_SIZE n : Int) < j → j < (f.blockCount : Int) →
      ∃ s, s < n ∧ ∃ p ∈ bucketChain BLOCK_SIZE f s, p.1 = j) := by
  induction hr with
  | create =>
    obtain ⟨ht, hcount, hnil⟩ := prj2.HT.create_tidy BLOCK_SIZE n (by omega) h2 hn1 hn hmod
    refine ⟨ht, ?_, ?_⟩
    · intro s hs p hp
      rw [hnil s hs] at hp
      exact absurd hp (List.not_mem_nil _)
    · intro j hj1 hj2
      rw [hcount] at hj2
      omega
  | insert f deleted record code f' _ hrange hbc hins ih =>
    obtain ⟨ht, hfilled, hcov⟩ := ih
    obtain ⟨_, hlt⟩ := prj2.HT.hash_bucket record.ID n hn1
    rcases prj2.HT.insert_tidy BLOCK_SIZE h1 h2 f n ht hbc record hrange with
      ⟨hsame, _⟩ | ⟨idx, f'', hins', _, hpl, ht'⟩
    · rw [hsame] at hins
      cases hins
      exact ⟨ht, hfilled, hcov⟩
    · rw [hins'] at hins
      cases hins
      refine ⟨ht', ?_, ?_⟩
      · intro s hs p' hp' hnd
        by_cases hss : s = (prj2.HT.HashFunction record.ID (n : Int)).toNat
        · subst hss
          rcases hpl.blocks _ BLOCK_SIZE n f f' _ code record.toBytes p' hp' with
            ⟨p, hpm, hidx, hel | ⟨_, _, hel⟩⟩ | ⟨_, _, hel⟩
          · rw [← length_blockElements (prj2.HT.insertEngine BLOCK_SIZE).elementSize, hel,
              length_blockElements]
            exact hfilled _ hs p hpm (by rw [hidx]; exact hnd)
          · rw [← length_blockElements (prj2.HT.insertEngine BLOCK_SIZE).elementSize, hel,
              List.length_append, List.length_singleton]
            omega
          · rw [← length_blockElements (prj2.HT.insertEngine BLOCK_SIZE).elementSize, hel,
              List.length_singleton]
        · rw [hpl.others s hs hss] at hp'
          exact hfilled s hs p' hp' hnd
      · intro j hj1 hj2
        obtain ⟨hold, hcount⟩ := hpl.covers _ BLOCK_SIZE n f f' _ code record.toBytes
        have hkeep : j < (f.blockCount : Int) →
            ∃ s, s < n ∧ ∃ p ∈ bucketChain BLOCK_SIZE f' s, p.1 = j := by
          intro hjlt
          obtain ⟨s, hs, p, hp, hpj⟩ := hcov j hj1 hjlt
          by_cases hss : s = (prj2.HT.HashFunction record.ID (n : Int)).toNat
          · subst hss
            obtain ⟨p', hp', hp1⟩ := hold p hp
            exact ⟨_, hs, p', hp', by rw [hp1, hpj]⟩
          · exact ⟨s, hs, p, by rw [hpl.others s hs hss]; exact hp, hpj⟩
        rcases hcount with hc | ⟨hc, p', hp', hp1⟩
        · rw [hc] at hj2
          exact hkeep hj2
        · rw [hc] at hj2
          by_cases hjlt : j < (f.blockCount : Int)
          · exact hkeep hjlt
          · exact ⟨_, hlt, p', hp', by rw [hp1]; push_cast at hj2; omega⟩
  | delete f deleted key code f' _ hdel ih =>
    obtain ⟨ht, hfilled, hcov⟩ := ih
    obtain ⟨_, hlt⟩ := prj2.HT.hash_bucket key n hn1
    rcases prj2.HT.delete_tidy BLOCK_SIZE h1 h2 f n ht key with
      ⟨hsame, _⟩ | ⟨f'', hdel', hrm, ht'⟩
    · rw [hsame] at hdel
      cases hdel
      refine ⟨ht, ?_, hcov⟩
      intro s hs p hp hnd
      exact hfilled s hs p hp (fun hmem => hnd (List.mem_append_right _ hmem))
    · rw [hdel'] at hdel
      cases hdel
      obtain ⟨l1, c, b, b', l2, i, hl, hl', _, _, _, _, _, _⟩ := hrm.chain
      refine ⟨ht', ?_, ?_⟩
      · intro s hs p' hp' hnd
        have hnd1 : p'.1 ∉ deleted := fun hmem => hnd (List.mem_append_right _ hmem)
        have hnd2 : p'.1 ∉ changedBlocks BLOCK_SIZE f f' :=
          fun hmem => hnd (List.mem_append_left _ hmem)
        by_cases hss : s = (prj2.HT.HashFunction key (n : Int)).toNat
        · subst hss
          obtain ⟨hrd', _⟩ := bucketChain_blocks BLOCK_SIZE f' n ht'.wellFormed _ hs
          obtain ⟨hrd, _⟩ := bucketChain_blocks BLOCK_SIZE f n ht.wellFormed _ hs
          have hp'' := hp'
          rw [hl'] at hp'
          rcases List.mem_append.mp hp' with h3 | h3
          · exact hfilled _ hs p' (by rw [hl]; exact List.mem_append_left _ h3) hnd1
          · rcases List.mem_cons.mp h3 with rfl | h4
            · have hmem : (c, b) ∈ bucketChain BLOCK_SIZE f
                  (prj2.HT.HashFunction key (n : Int)).toNat := by
                rw [hl]; exact List.mem_append_right _ (List.mem_cons_self _ _)
              have hb := hrd _ hmem
              obtain ⟨hc0, hc1, _⟩ := BF_ReadBlock_some _ _ _ _ hb
              have heq := not_mem_changedBlocks BLOCK_SIZE f f' c hc0 hc1 hnd2
              rw [hb, hrd' _ hp''] at heq
              have hbb : b = b' := Option.some.inj heq
              rw [← hbb]
              exact hfilled _ hs (c, b) hmem hnd1
            · exact hfilled _ hs p'
                (by rw [hl]; exact List.mem_append_right _ (List.mem_cons_of_mem _ h4)) hnd1
        · rw [hrm.others s hs hss] at hp'
          exact hfilled s hs p' hp' hnd1
      · intro j hj1 hj2
        rw [hrm.blockCount_eq] at hj2
        obtain ⟨s, hs, p, hp, hpj⟩ := hcov j hj1 hj2
        by_cases hss : s = (prj2.HT.HashFunction key (n : Int)).toNat
        · subst hss
          rw [hl] at hp
          refine ⟨_, hs, ?_⟩
          rw [hl']
          rcases List.mem_append.mp hp with h3 | h3
          · exact ⟨p, List.mem_append_left _ h3, hpj⟩
          · rcases List.mem_cons.mp h3 with rfl | h4
            · exact ⟨(c, b'), List.mem_append_right _ (List.mem_cons_self _ _), hpj⟩
            · exact ⟨p, List.mem_append_right _ (List.mem_cons_of_mem _ h4), hpj⟩
        · exact ⟨s, hs, p, by rw [hrm.others s hs hss]; exact hp, hpj⟩

/-! ## Secondary files in good order: insert -/

/-- The key of a stored element of a secondary data block is the surname of its
slot. -/
theorem prj2.SHT.keyOf_segmentAt (b : Block) (j : Nat) :
    prj2.SHT.keyOf (elementAt prj2.SHT.sizeofDataSegment b j)
      = prj2.cString (prj2.charArray (prj2.SHT.segmentAt b j).Surname 25) := by
  unfold prj2.SHT.keyOf
  rw [prj2.SHT.segmentAt_eq]

/-- A chain none of whose blocks holds the surname has no element with the
surname. -/
theorem prj2.SHT.keyOf_ne_of_findNamedSegment (l : List (Int × Block)) (key : List Nat)
    (h : ∀ p ∈ l, prj2.SHT.findNamedSegment p.2 key (readUInt32 p.2 0) 0 = none) :
    ∀ x ∈ elementsOf prj2.SHT.sizeofDataSegment l, prj2.SHT.keyOf x.2 ≠ prj2.cString key := by
  intro x hx
  obtain ⟨p, hp, _, hxe⟩ := (mem_elementsOf _ _ _).mp hx
  obtain ⟨j, hj, hxj⟩ := (mem_blockElements _ _ _).mp hxe
  rw [← hxj, prj2.SHT.keyOf_segmentAt]
  exact prj2.SHT.findNamedSegment_none p.2 key _ 0 (h p hp) j (Nat.zero_le _) (by omega)

/-- The segment that is read back from the bytes that `SHT_SecondaryInsertEntry`
stores has the surname of the record, as a character array. -/
theorem prj2.SHT.surname_of_stored (BLOCK_SIZE : Nat) (record : prj2.SecondaryRecord) :
    prj2.charArray (prj2.SHT.readDataSegment
        (prj2.SHT.DataSegment.toBytes
            { Surname := record.Record.Surname % 256 ^ 25, BlockID := record.BlockID }
          % 256 ^ (prj2.SHT.insertEngine BLOCK_SIZE).elementSize) 0).Surname 25
      = prj2.charArray record.Record.Surname 25 := by
  rw [show (prj2.SHT.insertEngine BLOCK_SIZE).elementSize = prj2.SHT.sizeofDataSegment from rfl,
    prj2.SHT.readDataSegment_toBytes]
  dsimp only
  rw [prj2.charArray_mod, prj2.charArray_mod]

/-- The function `SHT_SecondaryInsertEntry` on a secondary file in good order
with room for one more block, for a record whose surname has at most 24
characters: it returns `-1` and leaves the file as it is when
the chain of the bucket of the surname holds the surname, and otherwise returns
0 and has stored the segment in a data block; the file is in good order
afterwards. -/
theorem prj2.SHT.secondary_insert_tidy (BLOCK_SIZE : Nat) (h1 : 40 ≤ BLOCK_SIZE)
    (h2 : BLOCK_SIZE < 4294967296) (f : File) (n : Nat) (ht : SecondaryTidy BLOCK_SIZE f n)
    (hbc : f.blockCount + 1 < 2147483648) (record : prj2.SecondaryRecord)
    (hshort : (prj2.cString (prj2.charArray record.Record.Surname 25)).length < 25) :
    (prj2.SHT.SHT_SecondaryInsertEntry BLOCK_SIZE f record = some (-1, f) ∧
      ∃ x ∈ elementsOf prj2.SHT.sizeofDataSegment
          (bucketChain BLOCK_SIZE f
            (prj2.SHT.HashFunction (prj2.charArray record.Record.Surname 25) (n : Int))),
        prj2.SHT.keyOf x.2 = prj2.cString (prj2.charArray record.Record.Surname 25)) ∨
    (∃ idx f', prj2.SHT.SHT_SecondaryInsertEntry BLOCK_SIZE f record = some (0, f') ∧
      (prj2.SHT.insertEngine BLOCK_SIZE).Placed BLOCK_SIZE n f f'
        (prj2.SHT.HashFunction (prj2.charArray record.Record.Surname 25) (n : Int)) idx
        (prj2.SHT.DataSegment.toBytes
          { Surname := record.Record.Surname % 256 ^ 25, BlockID := record.BlockID }) ∧
      SecondaryTidy BLOCK_SIZE f' n) := by
  have hE := prj2.SHT.SHT_insertEngine_fits BLOCK_SIZE h1 h2
  have hwf := ht.wellFormed
  obtain ⟨hlt, hs0⟩ := prj2.SHT.stringHash_bucket (prj2.charArray record.Record.Surname 25) n
    hwf.n_pos hwf.n_lt
  have hsur := prj2.SHT.surname_of_stored BLOCK_SIZE record
  obtain ⟨hdup, hnew⟩ := (prj2.SHT.insertEngine BLOCK_SIZE).insert_placed BLOCK_SIZE hE f n hwf
    ht.apart hbc
    (fun hashTableSize =>
      toInt32 (prj2.SHT.HashFunction (prj2.charArray record.Record.Surname 25) hashTableSize : Nat))
    (fun b =>
      prj2.SHT.findNamedSegment b (prj2.charArray record.Record.Surname 25) (readUInt32 b 0) 0)
    (prj2.SHT.DataSegment.toBytes
      { Surname := record.Record.Surname % 256 ^ 25, BlockID := record.BlockID })
    (prj2.SHT.HashFunction (prj2.charArray record.Record.Surname 25) (n : Int)) hs0 hlt
  have hcap : ∀ p ∈ prj2.SHT.keyChain BLOCK_SIZE f (prj2.charArray record.Record.Surname 25),
      readUInt32 p.2 0 ≤ prj2.SHT.MAX_DATA_SEGMENT_COUNT_PER_BLOCK BLOCK_SIZE := by
    obtain ⟨hlt', _, _, _, hco⟩ := prj2.SHT.keyChain_of_wellFormed BLOCK_SIZE f n (by omega) hwf
      (prj2.charArray record.Record.Surname 25)
    rw [← bucketChain_of _ _ _ _ hco]
    exact ht.capacity _ hlt'
  rw [prj2.SHT.SHT_SecondaryInsertEntry_eq BLOCK_SIZE (by omega) f record hshort hcap]
  by_cases hd : ∃ p ∈ bucketChain BLOCK_SIZE f
        (prj2.SHT.HashFunction (prj2.charArray record.Record.Surname 25) (n : Int)),
      prj2.SHT.findNamedSegment p.2 (prj2.charArray record.Record.Surname 25) (readUInt32 p.2 0) 0
        ≠ none
  · left
    refine ⟨hdup hd, ?_⟩
    obtain ⟨p, hp, hne⟩ := hd
    cases hf : prj2.SHT.findNamedSegment p.2 (prj2.charArray record.Record.Surname 25)
        (readUInt32 p.2 0) 0 with
    | none => exact absurd hf hne
    | some i =>
      obtain ⟨_, hi, hkey, _⟩ := prj2.SHT.findNamedSegment_some p.2 _ _ 0 i hf
      refine ⟨(p.1, elementAt prj2.SHT.sizeofDataSegment p.2 i), ?_, ?_⟩
      · exact (mem_elementsOf _ _ _).mpr ⟨p, hp, rfl,
          (mem_blockElements _ _ _).mpr ⟨i, by omega, rfl⟩⟩
      · rw [prj2.SHT.keyOf_segmentAt]
        exact hkey
  · right
    have hnone : ∀ p ∈ bucketChain BLOCK_SIZE f
          (prj2.SHT.HashFunction (prj2.charArray record.Record.Surname 25) (n : Int)),
        prj2.SHT.findNamedSegment p.2 (prj2.charArray record.Record.Surname 25)
          (readUInt32 p.2 0) 0 = none := by
      intro p hp
      by_contra hne
      exact hd ⟨p, hp, hne⟩
    obtain ⟨f', idx, hins, hpl⟩ := hnew hnone
    refine ⟨idx, f', hins, hpl, ?_⟩
    apply Tidy.of_placed (prj2.SHT.insertEngine BLOCK_SIZE) BLOCK_SIZE n _ _ f f' _ idx _
      hE.capacity_pos ht hpl
    · unfold prj2.SHT.bucketOf
      rw [hsur]
    · intro x hx
      unfold prj2.SHT.keyOf
      rw [hsur]
      exact prj2.SHT.keyOf_ne_of_findNamedSegment _ _ hnone x hx

/-! ## The secondary files that the calls make -/

/-- A well-formed file whose chains are all empty is in good order. -/
theorem Tidy.of_empty {κ : Type} (BLOCK_SIZE size capacity : Nat) (bucketOf : Nat → Nat)
    (keyOf : Nat → κ) (f : File) (n : Nat) (hwf : WellFormed BLOCK_SIZE f n)
    (hnil : ∀ s, s < n → bucketChain BLOCK_SIZE f s = []) :
    Tidy BLOCK_SIZE size capacity bucketOf keyOf f n where
  wellFormed := hwf
  apart := by
    intro s t hs _ _ p hp
    rw [hnil s hs] at hp
    exact absurd hp (List.not_mem_nil _)
  capacity := by
    intro s hs p hp
    rw [hnil s hs] at hp
    exact absurd hp (List.not_mem_nil _)
  placement := by
    intro s hs x hx
    rw [hnil s hs] at hx
    exact absurd hx (List.not_mem_nil _)
  unique := by
    intro s hs
    rw [hnil s hs]
    exact List.nodup_nil

/-- After an insert that stores an element, the blocks of the chains hold an
element if they did before, the blocks in `deleted` apart. -/
theorem InsertEngine.Placed.filled (E : InsertEngine) (BLOCK_SIZE n : Nat) (f f' : File)
    (s0 : Nat) (idx : Int) (bytes : Nat) (hp : E.Placed BLOCK_SIZE n f f' s0 idx bytes)
    (deleted : List Int)
    (h : ∀ s, s < n → ∀ p ∈ bucketChain BLOCK_SIZE f s, p.1 ∉ deleted → 1 ≤ readUInt32 p.2 0) :
    ∀ s, s < n → ∀ p ∈ bucketChain BLOCK_SIZE f' s, p.1 ∉ deleted → 1 ≤ readUInt32 p.2 0 := by
  intro s hs p' hp' hnd
  by_cases hss : s = s0
  · subst hss
    rcases hp.blocks _ BLOCK_SIZE n f f' _ idx bytes p' hp' with
      ⟨p, hpm, hidx, hel | ⟨_, _, hel⟩⟩ | ⟨_, _, hel⟩
    · rw [← length_blockElements E.elementSize, hel, length_blockElements]
      exact h _ hs p hpm (by rw [hidx]; exact hnd)
    · rw [← length_blockElements E.elementSize, hel, List.length_append, List.length_singleton]
      omega
    · rw [← length_blockElements E.elementSize, hel, List.length_singleton]
  · rw [hp.others s hs hss] at hp'
    exact h s hs p' hp' hnd

/-- After an insert that stores an element, every block behind the bucket blocks
lies on a chain if that was so before. -/
theorem InsertEngine.Placed.covered (E : InsertEngine) (BLOCK_SIZE n : Nat) (f f' : File)
    (s0 : Nat) (idx : Int) (bytes : Nat) (hp : E.Placed BLOCK_SIZE n f f' s0 idx bytes)
    (hlt : s0 < n) (D : Int)
    (h : ∀ j : Int, D < j → j < (f.blockCount : Int) →
      ∃ s, s < n ∧ ∃ p ∈ bucketChain BLOCK_SIZE f s, p.1 = j) :
    ∀ j : Int, D < j → j < (f'.blockCount : Int) →
      ∃ s, s < n ∧ ∃ p ∈ bucketChain BLOCK_SIZE f' s, p.1 = j := by
  intro j hj1 hj2
  obtain ⟨hold, hcount⟩ := hp.covers _ BLOCK_SIZE n f f' _ idx bytes
  have hkeep : j < (f.blockCount : Int) →
      ∃ s, s < n ∧ ∃ p ∈ bucketChain BLOCK_SIZE f' s, p.1 = j := by
    intro hjlt
    obtain ⟨s, hs, p, hpm, hpj⟩ := h j hj1 hjlt
    by_cases hss : s = s0
    · subst hss
      obtain ⟨p', hp', hp1⟩ := hold p hpm
      exact ⟨_, hs, p', hp', by rw [hp1, hpj]⟩
    · exact ⟨s, hs, p, by rw [hp.others s hs hss]; exact hpm, hpj⟩
  rcases hcount with hc | ⟨hc, p', hp', hp1⟩
  · rw [hc] at hj2
    exact hkeep hj2
  · rw [hc] at hj2
    by_cases hjlt : j < (f.blockCount : Int)
    · exact hkeep hjlt
    · exact ⟨_, hlt, p', hp', by rw [hp1]; push_cast at hj2; omega⟩

/-! ## Element counts of the blocks behind the bucket blocks: deletes, and the files that the calls make -/

/-- A `HT_DeleteEntry` that returns, on any file: the counts stay in range, with
the blocks that the call has changed counted as deleted from. -/
theorem prj2.HT.delete_counts (BLOCK_SIZE : Nat) (h1 : 104 ≤ BLOCK_SIZE)
    (h2 : BLOCK_SIZE < 4294967296) (D : Nat) (f : File) (deleted : List Int) (key : Int)
    (code : Int) (f' : File) (hdel : prj2.HT.HT_DeleteEntry BLOCK_SIZE f key = some (code, f'))
    (hc : CountsInRange BLOCK_SIZE (prj2.HT.MAX_RECORD_COUNT_PER_BLOCK BLOCK_SIZE) D f deleted) :
    CountsInRange BLOCK_SIZE (prj2.HT.MAX_RECORD_COUNT_PER_BLOCK BLOCK_SIZE) D f'
      (changedBlocks BLOCK_SIZE f f' ++ deleted) := by
  have hsame : CountsInRange BLOCK_SIZE (prj2.HT.MAX_RECORD_COUNT_PER_BLOCK BLOCK_SIZE) D f
      (changedBlocks BLOCK_SIZE f f' ++ deleted) :=
    CountsInRange.mono _ _ _ _ _ _ hc (fun j hj => List.mem_append_right _ hj)
  cases hh : BF_ReadBlock BLOCK_SIZE f prj2.HEADER_BLOCK_INDEX with
  | none =>
    rw [prj2.HT.delete_of_no_header BLOCK_SIZE f key hh] at hdel
    cases hdel
    exact hsame
  | some h =>
    rcases prj2.HT.HT_DeleteEntry_cases BLOCK_SIZE f key h hh _ hdel with
      hr | ⟨idx, b, i, hb, hi, hr⟩
    · cases hr
      exact hsame
    · cases hr
      obtain ⟨_, hilt, _, _⟩ := prj2.HT.findRecord_some b key _ 0 i hi
      obtain ⟨hidx0, hidx1, hbl⟩ := BF_ReadBlock_some _ _ _ _ hb
      apply CountsInRange.write _ _ _ _ _ _ _ (by omega) hsame
      intro hD1 _
      obtain ⟨b0, hb0, hcap, _⟩ := hc.2 idx hD1 hidx1
      rw [hb] at hb0
      cases hb0
      obtain ⟨hlt, hcount, _⟩ := prj2.HT.removeRecord_spec BLOCK_SIZE b i h2 hbl (by omega) hcap
      refine ⟨by rw [hcount]; omega, ?_⟩
      intro hnd
      exfalso
      apply hnd
      apply List.mem_append_left
      by_contra hnm
      have heq := not_mem_changedBlocks BLOCK_SIZE f _ idx hidx0 hidx1 hnm
      rw [hb, BF_ReadBlock_WriteBlock_of_lt _ _ _ _ hidx0 hidx1 hlt] at heq
      have := congrArg (fun x => readUInt32 x 0) (Option.some.inj heq)
      dsimp only at this
      rw [hcount] at this
      omega

/-- In every primary file that is reached from `HT_CreateIndex` by inserts and
deletes the blocks behind the bucket blocks have their counts in range. -/
theorem prj2.HT.reachable_counts (BLOCK_SIZE : Nat) (h1 : 104 ≤ BLOCK_SIZE)
    (h2 : BLOCK_SIZE < 4294967296) (n : Nat) (hn : n < 2147483648) (f : File)
    (deleted : List Int) (hr : prj2.HT.Reachable BLOCK_SIZE n f deleted) :
    CountsInRange BLOCK_SIZE (prj2.HT.MAX_RECORD_COUNT_PER_BLOCK BLOCK_SIZE)
      (directoryBlockCount BLOCK_SIZE n) f deleted := by
  induction hr with
  | create =>
    exact CountsInRange.of_directory _ _ _ _ (create_blockCount BLOCK_SIZE n (by omega) hn).1
  | insert f deleted record code f' _ _ _ hins ih =>
    rw [prj2.HT.HT_InsertEntry_eq] at hins
    exact (prj2.HT.insertEngine BLOCK_SIZE).insert_counts BLOCK_SIZE
      (prj2.HT.HT_insertEngine_fits BLOCK_SIZE h1 h2) _ f deleted _ _ _ code f' hins ih
  | delete f deleted key code f' _ hdel ih =>
    exact prj2.HT.delete_counts BLOCK_SIZE h1 h2 _ f deleted key code f' hdel ih

/-! ## Element counts of the data blocks -/

/-- In a file in good order all of whose blocks behind the bucket blocks lie on
chains, each of these blocks has an element count within the capacity, and its
elements fit in the block. -/
theorem Tidy.data_blocks {κ : Type} (E : InsertEngine) (BLOCK_SIZE : Nat)
    (hE : E.Fits BLOCK_SIZE) (bucketOf : Nat → Nat) (keyOf : Nat → κ) (f : File) (n : Nat)
    (ht : Tidy BLOCK_SIZE E.elementSize E.capacity bucketOf keyOf f n) (deleted : List Int)
    (hfilled : ∀ s, s < n → ∀ p ∈ bucketChain BLOCK_SIZE f s, p.1 ∉ deleted →
      1 ≤ readUInt32 p.2 0)
    (hcov : ∀ j : Int, (directoryBlockCount BLOCK_SIZE n : Int) < j → j < (f.blockCount : Int) →
      ∃ s, s < n ∧ ∃ p ∈ bucketChain BLOCK_SIZE f s, p.1 = j) :
    ∀ j : Int, (directoryBlockCount BLOCK_SIZE n : Int) < j → j < (f.blockCount : Int) →
      ∃ b, BF_ReadBlock BLOCK_SIZE f j = some b ∧ readUInt32 b 0 ≤ E.capacity ∧
        (j ∉ deleted → 1 ≤ readUInt32 b 0) ∧
        prj2.sizeofHashDataBlockHeader + readUInt32 b 0 * E.elementSize ≤ BLOCK_SIZE := by
  intro j hj1 hj2
  obtain ⟨s, hs, p, hp, hpj⟩ := hcov j hj1 hj2
  obtain ⟨hrd, _⟩ := bucketChain_blocks BLOCK_SIZE f n ht.wellFormed s hs
  have hcap := ht.capacity s hs p hp
  refine ⟨p.2, by rw [← hpj]; exact hrd p hp, hcap,
    fun hnd => hfilled s hs p hp (by rw [hpj]; exact hnd), ?_⟩
  have hfit := hE.fits
  have := Nat.mul_le_mul_right E.elementSize hcap
  omega

/-- The file `threeRecords` is reached from `HT_CreateIndex` with one bucket by
three inserts. -/
theorem prj2.HT.threeRecords_reachable : prj2.HT.Reachable 512 1 prj2.HT.threeRecords [] := by
  have h0 : prj2.HT.Reachable 512 1 (prj2.HT.HT_CreateIndex 512 ((1 : Nat) : Int)).2 [] :=
    prj2.HT.Reachable.create
  have h1 := prj2.HT.Reachable.insert _ _ (prj2.HT.recordOf 1 65) 2
    (prj2.HT.fileOf 512 1 [prj2.HT.recordOf 1 65]) h0 (by decide) (by decide!) (by decide!)
  have h2 := prj2.HT.Reachable.insert _ _ (prj2.HT.recordOf 2 66) 2
    (prj2.HT.fileOf 512 1 [prj2.HT.recordOf 1 65, prj2.HT.recordOf 2 66]) h1 (by decide)
    (by decide!) (by decide!)
  exact prj2.HT.Reachable.insert _ _ (prj2.HT.recordOf 3 67) 2 prj2.HT.threeRecords h2
    (by decide) (by decide!) (by decide!)

/-- The file `threeRecordsAfterDelete` is reached from `HT_CreateIndex` with one
bucket by three inserts and a delete. -/
theorem prj2.HT.threeRecordsAfterDelete_reachable :
    prj2.HT.Reachable 512 1 prj2.HT.threeRecordsAfterDelete
      (changedBlocks 512 prj2.HT.threeRecords prj2.HT.threeRecordsAfterDelete ++ []) :=
  prj2.HT.Reachable.delete _ _ 2 0 prj2.HT.threeRecordsAfterDelete prj2.HT.threeRecords_reachable
    (by decide!)

/-- The file `twoEntries` is reached from the directory of
`SHT_CreateSecondaryIndex` with 5 buckets by two inserts. -/
theorem prj2.SHT.twoEntries_reachable : prj2.SHT.Reachable 512 5 prj2.SHT.twoEntries := by
  have h0 : prj2.SHT.Reachable 512 5
      (prj2.SHT.SHT_CreateSecondaryIndex.directory 512 ((5 : Nat) : Int)).2 :=
    prj2.SHT.Reachable.create
  have h1 := prj2.SHT.Reachable.insert _ { Record := prj2.HT.recordOf 9 65, BlockID := 5 } 0
    prj2.SHT.oneEntry h0 (by decide!) (by decide!)
  exact prj2.SHT.Reachable.insert _ { Record := prj2.HT.recordOf 9 66, BlockID := 5 } 0
    prj2.SHT.twoEntries h1 (by decide!) (by decide!)

/-- Every secondary file that is reached from the directory that
`SHT_CreateSecondaryIndex` makes by calls of `SHT_SecondaryInsertEntry`, for any
bucket count, has behind its bucket blocks only blocks with an element count
from 1 to the capacity. -/
theorem prj2.SHT.secondary_reachable_counts (BLOCK_SIZE : Nat) (h1 : 40 ≤ BLOCK_SIZE)
    (h2 : BLOCK_SIZE < 4294967296) (n : Nat) (hn : n < 2147483648) (f : File)
    (hr : prj2.SHT.Reachable BLOCK_SIZE n f) :
    CountsInRange BLOCK_SIZE (prj2.SHT.MAX_DATA_SEGMENT_COUNT_PER_BLOCK BLOCK_SIZE)
      (directoryBlockCount BLOCK_SIZE n) f [] := by
  induction hr with
  | create =>
    exact CountsInRange.of_directory BLOCK_SIZE _ _ _
      (create_blockCount BLOCK_SIZE n (by omega) hn).2
  | insert f record code f' _ _ hins ih =>
    exact prj2.SHT.secondary_insert_counts BLOCK_SIZE h1 h2 _ f [] record code f' hins ih

/-- C35.  In every primary file that is reached from `HT_CreateIndex`, with any
bucket count `n`, by calls of `HT_InsertEntry` and `HT_DeleteEntry`, and in
every secondary file that is reached from the directory of
`SHT_CreateSecondaryIndex`, with any bucket count `m`, by calls of
`SHT_SecondaryInsertEntry`, every block behind the bucket blocks (the blocks
that the inserts allocate as data blocks) has an `ElementCount` that is at most
the capacity `(BLOCK_SIZE - sizeof(HashDataBlockHeader)) / sizeof(element)` and
at least 1 when no delete has changed the block (no block of a secondary file is
deleted from); the header and the elements of the block take at most
`BLOCK_SIZE` bytes. -/
theorem prj2.capacity_invariant (BLOCK_SIZE : Nat) (h1 : 104 ≤ BLOCK_SIZE)
    (h2 : BLOCK_SIZE < 4294967296) (n : Nat) (hn : n < 2147483648)
    (m : Nat) (hm : m < 2147483648)
    (f : File) (deleted : List Int) (hf : prj2.HT.Reachable BLOCK_SIZE n f deleted)
    (g : File) (hg : prj2.SHT.Reachable BLOCK_SIZE m g) :
    (∀ j : Int, (directoryBlockCount BLOCK_SIZE n : Int) < j → j < (f.blockCount : Int) →
      ∃ b, BF_ReadBlock BLOCK_SIZE f j = some b ∧
        readUInt32 b 0 ≤ (BLOCK_SIZE - prj2.sizeofHashDataBlockHeader) / prj2.sizeofRecord ∧
        (j ∉ deleted → 1 ≤ readUInt32 b 0) ∧
        prj2.sizeofHashDataBlockHeader + readUInt32 b 0 * prj2.sizeofRecord ≤ BLOCK_SIZE) ∧
    (∀ j : Int, (directoryBlockCount BLOCK_SIZE m : Int) < j → j < (g.blockCount : Int) →
      ∃ b, BF_ReadBlock BLOCK_SIZE g j = some b ∧
        readUInt32 b 0
          ≤ (BLOCK_SIZE - prj2.sizeofHashDataBlockHeader) / prj2.SHT.sizeofDataSegment ∧
        1 ≤ readUInt32 b 0 ∧
        prj2.sizeofHashDataBlockHeader + readUInt32 b 0 * prj2.SHT.sizeofDataSegment
          ≤ BLOCK_SIZE) := by
  have hcf := prj2.HT.reachable_counts BLOCK_SIZE h1 h2 n hn f deleted hf
  have hcg := prj2.SHT.secondary_reachable_counts BLOCK_SIZE (by omega) h2 m hm g hg
  have hEf := (prj2.HT.HT_insertEngine_fits BLOCK_SIZE h1 h2).fits
  have hEg := (prj2.SHT.SHT_insertEngine_fits BLOCK_SIZE (by omega) h2).fits
  constructor
  · intro j hj1 hj2
    obtain ⟨b, hb, hle, hge⟩ := hcf.2 j hj1 hj2
    refine ⟨b, hb, hle, hge, ?_⟩
    have := Nat.mul_le_mul_right prj2.sizeofRecord hle
    exact Nat.le_trans (Nat.add_le_add_left this _) hEf
  · intro j hj1 hj2
    obtain ⟨b, hb, hle, hge⟩ := hcg.2 j hj1 hj2
    refine ⟨b, hb, hle, hge (List.not_mem_nil _), ?_⟩
    have := Nat.mul_le_mul_right prj2.SHT.sizeofDataSegment hle
    exact Nat.le_trans (Nat.add_le_add_left this _) hEg

theorem prj2.capacity_invariant_witness :
    (prj2.HT.Reachable 512 1 prj2.HT.threeRecordsAfterDelete
        (changedBlocks 512 prj2.HT.threeRecords prj2.HT.threeRecordsAfterDelete ++ []) ∧
      prj2.SHT.Reachable 512 5 prj2.SHT.twoEntries) ∧
    (∀ j : Int, (directoryBlockCount 512 1 : Int) < j →
        j < (prj2.HT.threeRecordsAfterDelete.blockCount : Int) →
      ∃ b, BF_ReadBlock 512 prj2.HT.threeRecordsAfterDelete j = some b ∧
        readUInt32 b 0 ≤ (512 - prj2.sizeofHashDataBlockHeader) / prj2.sizeofRecord ∧
        (j ∉ changedBlocks 512 prj2.HT.threeRecords prj2.HT.threeRecordsAfterDelete ++ [] →
          1 ≤ readUInt32 b 0) ∧
        prj2.sizeofHashDataBlockHeader + readUInt32 b 0 * prj2.sizeofRecord ≤ 512) ∧
    (∀ j : Int, (directoryBlockCount 512 5 : Int) < j → j < (prj2.SHT.twoEntries.blockCount : Int) →
      ∃ b, BF_ReadBlock 512 prj2.SHT.twoEntries j = some b ∧
        readUInt32 b 0 ≤ (512 - prj2.sizeofHashDataBlockHeader) / prj2.SHT.sizeofDataSegment ∧
        1 ≤ readUInt32 b 0 ∧
        prj2.sizeofHashDataBlockHeader + readUInt32 b 0 * prj2.SHT.sizeofDataSegment ≤ 512) :=
  ⟨⟨prj2.HT.threeRecordsAfterDelete_reachable, prj2.SHT.twoEntries_reachable⟩,
    prj2.capacity_invariant 512 (by decide) (by decide) 1 (by decide) 5
      (by decide) prj2.HT.threeRecordsAfterDelete _
      prj2.HT.threeRecordsAfterDelete_reachable prj2.SHT.twoEntries
      prj2.SHT.twoEntries_reachable⟩

/-! ## No key twice in a file in good order -/

theorem storedElements_eq (BLOCK_SIZE size : Nat) (f : File) (n : Nat) :
    storedElements BLOCK_SIZE size f n
      = (List.range n).flatMap fun s => elementsOf size (bucketChain BLOCK_SIZE f s) := by
  unfold storedElements
  congr 1
  funext s
  unfold bucketChain
  cases chainOf BLOCK_SIZE f s <;> rfl

/-- In a file in good order whose elements with the same key have the same
bucket, no two stored elements have the same key. -/
theorem Tidy.keys_nodup {κ : Type} (BLOCK_SIZE size capacity : Nat) (bucketOf : Nat → Nat)
    (keyOf : Nat → κ) (f : File) (n : Nat)
    (ht : Tidy BLOCK_SIZE size capacity bucketOf keyOf f n)
    (hkb : ∀ e e', keyOf e = keyOf e' → bucketOf e = bucketOf e') :
    ((storedElements BLOCK_SIZE size f n).map fun x => keyOf x.2).Nodup := by
  rw [storedElements_eq, List.map_flatMap, List.nodup_flatMap]
  constructor
  · intro s hs
    exact ht.unique s (List.mem_range.mp hs)
  · apply List.Nodup.pairwise_of_forall_ne (List.nodup_range n)
    intro a ha b hb hab k hk1 hk2
    obtain ⟨x, hx, hxk⟩ := List.mem_map.mp hk1
    obtain ⟨y, hy, hyk⟩ := List.mem_map.mp hk2
    apply hab
    rw [← ht.placement a (List.mem_range.mp ha) x hx, ← ht.placement b (List.mem_range.mp hb) y hy]
    exact hkb _ _ (hxk.trans hyk.symm)

theorem prj2.HT.bucketOf_of_keyOf (n : Nat) (e e' : Nat)
    (h : prj2.HT.keyOf e = prj2.HT.keyOf e') : prj2.HT.bucketOf n e = prj2.HT.bucketOf n e' := by
  unfold prj2.HT.keyOf at h
  unfold prj2.HT.bucketOf
  rw [h]

theorem prj2.SHT.secondary_bucketOf_of_keyOf (n : Nat) (e e' : Nat)
    (h : prj2.SHT.keyOf e = prj2.SHT.keyOf e') :
    prj2.SHT.bucketOf n e = prj2.SHT.bucketOf n e' := by
  unfold prj2.SHT.keyOf at h
  unfold prj2.SHT.bucketOf
  rw [← prj2.SHT.stringHash_cString, h, prj2.SHT.stringHash_cString]

/-- When the bucket count is not a multiple of the capacity of a bucket block,
in every primary file that is reached from `HT_CreateIndex` by calls of
`HT_InsertEntry` and `HT_DeleteEntry`, in any order, no two stored records have
the same `ID`: the IDs of the records of all the slots of all the data blocks of
all the buckets are different from each other. -/
theorem prj2.HT.key_uniqueness (BLOCK_SIZE : Nat) (h1 : 104 ≤ BLOCK_SIZE)
    (h2 : BLOCK_SIZE < 4294967296) (n : Nat) (hn1 : 1 ≤ n) (hn : n < 2147483648)
    (hmod : n % prj2.MAX_BUCKET_COUNT_PER_BLOCK BLOCK_SIZE ≠ 0) (f : File) (deleted : List Int)
    (hf : prj2.HT.Reachable BLOCK_SIZE n f deleted) :
    ((storedRecords BLOCK_SIZE f n).map fun r => r.ID).Nodup := by
  obtain ⟨ht, _, _⟩ := prj2.HT.reachable_tidy BLOCK_SIZE h1 h2 n hn1 hn hmod f deleted hf
  unfold storedRecords
  rw [List.map_map]
  exact Tidy.keys_nodup BLOCK_SIZE prj2.sizeofRecord _ (prj2.HT.bucketOf n) prj2.HT.keyOf f n ht
    (prj2.HT.bucketOf_of_keyOf n)

theorem prj2.HT.key_uniqueness_witness :
    prj2.HT.Reachable 512 1 prj2.HT.threeRecordsAfterDelete
        (changedBlocks 512 prj2.HT.threeRecords prj2.HT.threeRecordsAfterDelete ++ []) ∧
      ((storedRecords 512 prj2.HT.threeRecordsAfterDelete 1).map fun r => r.ID).Nodup :=
  ⟨prj2.HT.threeRecordsAfterDelete_reachable,
    prj2.HT.key_uniqueness 512 (by decide) (by decide) 1 (by decide) (by decide) (by decide)
      prj2.HT.threeRecordsAfterDelete _ prj2.HT.threeRecordsAfterDelete_reachable⟩

/-! ## The slots of the data blocks -/

theorem elementAt_of_getElem? (size : Nat) (b b' : Block) (i j : Nat)
    (h : (blockElements size b')[i]? = (blockElements size b)[j]?) (hi : i < readUInt32 b' 0) :
    j < readUInt32 b 0 ∧ elementAt size b' i = elementAt size b j := by
  rw [getElem?_blockElements, getElem?_blockElements, if_pos hi] at h
  split at h
  · rename_i hj
    exact ⟨hj, Option.some.inj h⟩
  · exact absurd h (by simp)

/-- Two data blocks with the same elements have them in the same slots. -/
theorem slots_of_eq (size : Nat) (b b' : Block)
    (h : blockElements size b' = blockElements size b) :
    readUInt32 b' 0 = readUInt32 b 0 ∧
    ∀ i, i < readUInt32 b 0 → elementAt size b' i = elementAt size b i := by
  have hlen : readUInt32 b' 0 = readUInt32 b 0 := by
    rw [← length_blockElements size b', h, length_blockElements]
  refine ⟨hlen, fun i hi => ?_⟩
  exact (elementAt_of_getElem? size b b' i i (by rw [h]) (by omega)).2

/-- A data block with one element more, at its end, has the other elements in
their slots and the new one in the next slot. -/
theorem slots_of_append (size : Nat) (b b' : Block) (x : Nat)
    (h : blockElements size b' = blockElements size b ++ [x]) :
    readUInt32 b' 0 = readUInt32 b 0 + 1 ∧
    (∀ i, i < readUInt32 b 0 → elementAt size b' i = elementAt size b i) ∧
    elementAt size b' (readUInt32 b 0) = x := by
  have hlen : readUInt32 b' 0 = readUInt32 b 0 + 1 := by
    rw [← length_blockElements size b', h, List.length_append, length_blockElements,
      List.length_singleton]
  refine ⟨hlen, fun i hi => ?_, ?_⟩
  · refine (elementAt_of_getElem? size b b' i i ?_ (by omega)).2
    rw [h, List.getElem?_append_left (by rw [length_blockElements]; exact hi)]
  · have h1 : (blockElements size b')[readUInt32 b 0]? = some x := by
      rw [h, List.getElem?_append_right (by rw [length_blockElements]), length_blockElements,
        Nat.sub_self]
      rfl
    rw [getElem?_blockElements, if_pos (by omega)] at h1
    exact Option.some.inj h1

/-- A data block whose elements are the one element `x` has it in slot 0. -/
theorem slots_of_single (size : Nat) (b' : Block) (x : Nat)
    (h : blockElements size b' = [x]) :
    readUInt32 b' 0 = 1 ∧ elementAt size b' 0 = x := by
  have hlen : readUInt32 b' 0 = 1 := by
    rw [← length_blockElements size b', h, List.length_singleton]
  refine ⟨hlen, ?_⟩
  have h1 : (blockElements size b')[0]? = some x := by rw [h]; rfl
  rw [getElem?_blockElements, if_pos (by omega)] at h1
  exact Option.some.inj h1

/-- A data block from which the element of slot `i0` is gone has the elements
before it in their slots and the elements behind it one slot lower. -/
theorem slots_of_eraseIdx (size : Nat) (b b' : Block) (i0 : Nat) (hi0 : i0 < readUInt32 b 0)
    (h : blockElements size b' = (blockElements size b).eraseIdx i0) :
    readUInt32 b' 0 + 1 = readUInt32 b 0 ∧
    (∀ i, i < i0 → elementAt size b' i = elementAt size b i) ∧
    (∀ i, i0 ≤ i → i + 1 < readUInt32 b 0 → elementAt size b' i = elementAt size b (i + 1)) := by
  have hlen : readUInt32 b' 0 + 1 = readUInt32 b 0 := by
    rw [← length_blockElements size b', h,
      List.length_eraseIdx_of_lt (by rw [length_blockElements]; exact hi0), length_blockElements]
    omega
  refine ⟨hlen, fun i hi => ?_, fun i hi1 hi2 => ?_⟩
  · refine (elementAt_of_getElem? size b b' i i ?_ (by omega)).2
    rw [h, List.getElem?_eraseIdx_of_lt _ _ _ hi]
  · refine (elementAt_of_getElem? size b b' i (i + 1) ?_ (by omega)).2
    rw [h, List.getElem?_eraseIdx_of_ge _ _ _ hi1]

/-- On a chain without a repeated block index whose elements have different
keys, two slots that hold the same key are one slot of one block. -/
theorem elementsOf_key_inj {κ : Type} (size : Nat) (keyOf : Nat → κ) (l : List (Int × Block))
    (hl : (l.map Prod.fst).Nodup)
    (hk : ((elementsOf size l).map fun x => keyOf x.2).Nodup)
    (p p' : Int × Block) (hp : p ∈ l) (hp' : p' ∈ l) (i i' : Nat)
    (hi : i < readUInt32 p.2 0) (hi' : i' < readUInt32 p'.2 0)
    (hkey : keyOf (elementAt size p.2 i) = keyOf (elementAt size p'.2 i')) :
    p = p' ∧ i = i' := by
  have hx : (p.1, elementAt size p.2 i) ∈ elementsOf size l :=
    (mem_elementsOf _ _ _).mpr ⟨p, hp, rfl, (mem_blockElements _ _ _).mpr ⟨i, hi, rfl⟩⟩
  have hy : (p'.1, elementAt size p'.2 i') ∈ elementsOf size l :=
    (mem_elementsOf _ _ _).mpr ⟨p', hp', rfl, (mem_blockElements _ _ _).mpr ⟨i', hi', rfl⟩⟩
  have hxy := List.inj_on_of_nodup_map hk hx hy hkey
  have hfst : p.1 = p'.1 := (Prod.mk.inj hxy).1
  have hpp : p = p' := List.inj_on_of_nodup_map hl hp hp' hfst
  subst hpp
  refine ⟨rfl, ?_⟩
  have hnd := List.Nodup.of_map _ hk
  unfold elementsOf at hnd
  have hb := (List.nodup_flatMap.mp hnd).1 p hp
  have hb' := List.Nodup.of_map _ hb
  unfold blockElements at hb'
  exact List.inj_on_of_nodup_map hb' (List.mem_range.mpr hi) (List.mem_range.mpr hi')
    (Prod.mk.inj hxy).2

/-- In a primary file in good order two slots that hold records with the same
`ID` are one slot of one data block. -/
theorem prj2.HT.storedAt_unique (BLOCK_SIZE : Nat) (f : File) (n : Nat)
    (ht : PrimaryTidy BLOCK_SIZE f n) (c c' : Int) (i i' : Nat) (e e' : Nat)
    (h : StoredAt BLOCK_SIZE prj2.sizeofRecord f n c i e)
    (h' : StoredAt BLOCK_SIZE prj2.sizeofRecord f n c' i' e')
    (hkey : prj2.HT.keyOf e = prj2.HT.keyOf e') : c = c' ∧ i = i' ∧ e = e' := by
  obtain ⟨s, hs, p, hp, hc, hi, he⟩ := h
  obtain ⟨s', hs', p', hp', hc', hi', he'⟩ := h'
  have hx : (p.1, e) ∈ elementsOf prj2.sizeofRecord (bucketChain BLOCK_SIZE f s) :=
    (mem_elementsOf _ _ _).mpr ⟨p, hp, rfl, (mem_blockElements _ _ _).mpr ⟨i, hi, he⟩⟩
  have hy : (p'.1, e') ∈ elementsOf prj2.sizeofRecord (bucketChain BLOCK_SIZE f s') :=
    (mem_elementsOf _ _ _).mpr ⟨p', hp', rfl, (mem_blockElements _ _ _).mpr ⟨i', hi', he'⟩⟩
  have hss : s = s' := by
    rw [← ht.placement s hs _ hx, ← ht.placement s' hs' _ hy]
    exact prj2.HT.bucketOf_of_keyOf n e e' hkey
  subst hss
  obtain ⟨_, hnd⟩ := bucketChain_blocks BLOCK_SIZE f n ht.wellFormed s hs
  obtain ⟨hpp, hii⟩ := elementsOf_key_inj prj2.sizeofRecord prj2.HT.keyOf _ hnd (ht.unique s hs)
    p p' hp hp' i i' hi hi' (by rw [he, he']; exact hkey)
  subst hpp
  subst hii
  exact ⟨hc.symm.trans hc', rfl, he.symm.trans he'⟩

/-! ## Where the elements are after an insert and after a delete -/

theorem SameContents.mem_snd (size : Nat) (l l' : List (Int × Block))
    (h : SameContents size l l') : ∀ p ∈ l, ∃ p' ∈ l', p'.1 = p.1 ∧
      blockElements size p'.2 = blockElements size p.2 := by
  induction h with
  | nil => intro p hp; exact absurd hp (List.not_mem_nil _)
  | cons hab _ ih =>
    intro p hp
    rcases List.mem_cons.mp hp with rfl | hp'
    · exact ⟨_, List.mem_cons_self _ _, hab.1, hab.2⟩
    · obtain ⟨p', hp'', h1, h2⟩ := ih p hp'
      exact ⟨p', List.mem_cons_of_mem _ hp'', h1, h2⟩

/-- The blocks of the chain of the bucket before an insert that stores an element
are blocks of the chain afterwards, with the same index and the same elements,
to which the new element may be added at the end. -/
theorem InsertEngine.Placed.keeps (E : InsertEngine) (BLOCK_SIZE n : Nat) (f f' : File)
    (s0 : Nat) (idx : Int) (bytes : Nat) (hp : E.Placed BLOCK_SIZE n f f' s0 idx bytes) :
    ∀ p ∈ bucketChain BLOCK_SIZE f s0, ∃ p' ∈ bucketChain BLOCK_SIZE f' s0, p'.1 = p.1 ∧
      (blockElements E.elementSize p'.2 = blockElements E.elementSize p.2 ∨
        blockElements E.elementSize p'.2
          = blockElements E.elementSize p.2 ++ [bytes % 256 ^ E.elementSize]) := by
  intro p hpm
  rcases hp.chain with ⟨l1, c, b, b', l2, hl, hl', _, _, _, hel, _⟩ |
    ⟨l', nb, _, _, _, hl', hsc, _⟩
  · rw [hl] at hpm
    rw [hl']
    rcases List.mem_append.mp hpm with h1 | h1
    · exact ⟨p, List.mem_append_left _ h1, rfl, Or.inl rfl⟩
    · rcases List.mem_cons.mp h1 with rfl | h2
      · exact ⟨(c, b'), List.mem_append_right _ (List.mem_cons_self _ _), rfl, Or.inr hel⟩
      · exact ⟨p, List.mem_append_right _ (List.mem_cons_of_mem _ h2), rfl, Or.inl rfl⟩
  · obtain ⟨p', hp', h1, h2⟩ := SameContents.mem_snd _ _ _ hsc p hpm
    exact ⟨p', by rw [hl']; exact List.mem_append_left _ hp', h1, Or.inl h2⟩

/-- After an insert that stores an element, every element of before lies in its
block and slot, and an element of afterwards lies where it lay before, or is the
new one, in the block whose index the insert gives. -/
theorem InsertEngine.Placed.storedAt (E : InsertEngine) (BLOCK_SIZE n : Nat) (f f' : File)
    (s0 : Nat) (idx : Int) (bytes : Nat) (hp : E.Placed BLOCK_SIZE n f f' s0 idx bytes) :
    (∀ c i e, StoredAt BLOCK_SIZE E.elementSize f n c i e →
      StoredAt BLOCK_SIZE E.elementSize f' n c i e) ∧
    (∀ c i e, StoredAt BLOCK_SIZE E.elementSize f' n c i e →
      StoredAt BLOCK_SIZE E.elementSize f n c i e ∨
        (c = idx ∧ e = bytes % 256 ^ E.elementSize)) := by
  constructor
  · rintro c i e ⟨s, hs, p, hpm, hc, hi, he⟩
    by_cases hss : s = s0
    · subst hss
      obtain ⟨p', hp', h1, hel | hel⟩ := hp.keeps _ BLOCK_SIZE n f f' _ idx bytes p hpm
      · obtain ⟨hcount, hslots⟩ := slots_of_eq _ _ _ hel
        exact ⟨s, hs, p', hp', h1.trans hc, by omega, (hslots i hi).trans he⟩
      · obtain ⟨hcount, hslots, _⟩ := slots_of_append _ _ _ _ hel
        exact ⟨s, hs, p', hp', h1.trans hc, by omega, (hslots i hi).trans he⟩
    · exact ⟨s, hs, p, by rw [hp.others s hs hss]; exact hpm, hc, hi, he⟩
  · rintro c i e ⟨s, hs, p', hp', hc, hi, he⟩
    by_cases hss : s = s0
    · subst hss
      rcases hp.blocks _ BLOCK_SIZE n f f' _ idx bytes p' hp' with
        ⟨p, hpm, hidx, hel | ⟨_, hpi, hel⟩⟩ | ⟨_, hpi, hel⟩
      · obtain ⟨hcount, hslots⟩ := slots_of_eq _ _ _ hel
        exact Or.inl ⟨s, hs, p, hpm, hidx.trans hc, by omega,
          (hslots i (by omega)).symm.trans he⟩
      · obtain ⟨hcount, hslots, hnew⟩ := slots_of_append _ _ _ _ hel
        by_cases hlt : i < readUInt32 p.2 0
        · exact Or.inl ⟨s, hs, p, hpm, hidx.trans hc, hlt, (hslots i hlt).symm.trans he⟩
        · have hii : i = readUInt32 p.2 0 := by omega
          subst hii
          exact Or.inr ⟨hc.symm.trans hpi, he.symm.trans hnew⟩
      · obtain ⟨hcount, hnew⟩ := slots_of_single _ _ _ hel
        have hii : i = 0 := by omega
        subst hii
        exact Or.inr ⟨hc.symm.trans hpi, he.symm.trans hnew⟩
    · rw [hp.others s hs hss] at hp'
      exact Or.inl ⟨s, hs, p', hp', hc, hi, he⟩

/-- After a delete that removes a record with the ID `key`, every record of
before with another ID lies in its block, in its slot or one slot lower, and
every record of afterwards lay in its block before, in its slot or one slot
higher. -/
theorem prj2.HT.Removed.storedAt_after (BLOCK_SIZE n : Nat) (f f' : File) (s0 : Nat) (key : Int)
    (hr : prj2.HT.Removed BLOCK_SIZE n f f' s0 key) :
    (∀ c i e, StoredAt BLOCK_SIZE prj2.sizeofRecord f n c i e → prj2.HT.keyOf e ≠ key →
      ∃ i', i' ≤ i ∧ StoredAt BLOCK_SIZE prj2.sizeofRecord f' n c i' e) ∧
    (∀ c i' e, StoredAt BLOCK_SIZE prj2.sizeofRecord f' n c i' e →
      ∃ i, i' ≤ i ∧ StoredAt BLOCK_SIZE prj2.sizeofRecord f n c i e) := by
  obtain ⟨l1, c0, b, b', l2, i0, hl, hl', _, hi0, hkey0, _, hel, _⟩ := hr.chain
  obtain ⟨hcount, hlow, hhigh⟩ := slots_of_eraseIdx _ _ _ _ hi0 hel
  constructor
  · rintro c i e ⟨s, hs, p, hpm, hc, hi, he⟩ hne
    by_cases hss : s = s0
    · subst hss
      rw [hl] at hpm
      rcases List.mem_append.mp hpm with h1 | h1
      · exact ⟨i, Nat.le_refl _, s, hs, p, by rw [hl']; exact List.mem_append_left _ h1, hc, hi,
          he⟩
      · rcases List.mem_cons.mp h1 with rfl | h2
        · have hmem : (c0, b') ∈ bucketChain BLOCK_SIZE f' s := by
            rw [hl']; exact List.mem_append_right _ (List.mem_cons_self _ _)
          have hii : i ≠ i0 := by
            intro h
            subst h
            apply hne
            rw [← he]
            exact hkey0
          by_cases hlt : i < i0
          · exact ⟨i, Nat.le_refl _, s, hs, (c0, b'), hmem, hc, by dsimp only at hi ⊢; omega,
              (hlow i hlt).trans he⟩
          · refine ⟨i - 1, Nat.sub_le _ _, s, hs, (c0, b'), hmem, hc,
              by dsimp only at hi ⊢; omega, ?_⟩
            have := hhigh (i - 1) (by omega) (by dsimp only at hi; omega)
            rw [show i - 1 + 1 = i by omega] at this
            exact this.trans he
        · exact ⟨i, Nat.le_refl _, s, hs, p,
            by rw [hl']; exact List.mem_append_right _ (List.mem_cons_of_mem _ h2), hc, hi, he⟩
    · exact ⟨i, Nat.le_refl _, s, hs, p, by rw [hr.others s hs hss]; exact hpm, hc, hi, he⟩
  · rintro c i' e ⟨s, hs, p', hp', hc, hi, he⟩
    by_cases hss : s = s0
    · subst hss
      rw [hl'] at hp'
      rcases List.mem_append.mp hp' with h1 | h1
      · exact ⟨i', Nat.le_refl _, s, hs, p', by rw [hl]; exact List.mem_append_left _ h1, hc, hi,
          he⟩
      · rcases List.mem_cons.mp h1 with rfl | h2
        · have hmem : (c0, b) ∈ bucketChain BLOCK_SIZE f s := by
            rw [hl]; exact List.mem_append_right _ (List.mem_cons_self _ _)
          by_cases hlt : i' < i0
          · exact ⟨i', Nat.le_refl _, s, hs, (c0, b), hmem, hc, by dsimp only at hi ⊢; omega,
              (hlow i' hlt).symm.trans he⟩
          · exact ⟨i' + 1, Nat.le_succ _, s, hs, (c0, b), hmem, hc,
              by dsimp only at hi ⊢; omega,
              (hhigh i' (by omega) (by dsimp only at hi; omega)).symm.trans he⟩
        · exact ⟨i', Nat.le_refl _, s, hs, p',
            by rw [hl]; exact List.mem_append_right _ (List.mem_cons_of_mem _ h2), hc, hi, he⟩
    · rw [hr.others s hs hss] at hp'
      exact ⟨i', Nat.le_refl _, s, hs, p', hp', hc, hi, he⟩

/-! ## Records keep their block -/

/-- Let `f` be a primary file in good order (as the files made by
`HT_CreateIndex`, `HT_InsertEntry` and `HT_DeleteEntry` are when the bucket
count is not a multiple of the capacity of a bucket block).  After a
`HT_InsertEntry` that returns a block index, every record of before lies in its
data block and slot, and a record of afterwards with the `ID` of a record of
before lies in the same data block, in the same slot, with the same bytes.
After a `HT_DeleteEntry` that returns 0, every record of before with an `ID`
other than the key lies in its data block, in its slot or a lower one, and a
record of afterwards with the `ID` of a record of before lies in the same data
block, in the same slot or a lower one, with the same bytes. -/
theorem prj2.HT.records_keep_block (BLOCK_SIZE : Nat) (h1 : 104 ≤ BLOCK_SIZE)
    (h2 : BLOCK_SIZE < 4294967296) (f : File) (n : Nat) (ht : PrimaryTidy BLOCK_SIZE f n) :
    (∀ record code f', record.InRange → f.blockCount + 1 < 2147483648 →
      prj2.HT.HT_InsertEntry BLOCK_SIZE f record = some (code, f') → code ≠ -1 →
      (∀ c i e, StoredAt BLOCK_SIZE prj2.sizeofRecord f n c i e →
        StoredAt BLOCK_SIZE prj2.sizeofRecord f' n c i e) ∧
      (∀ c i e c' i' e', StoredAt BLOCK_SIZE prj2.sizeofRecord f n c i e →
        StoredAt BLOCK_SIZE prj2.sizeofRecord f' n c' i' e' →
        prj2.HT.keyOf e' = prj2.HT.keyOf e → c' = c ∧ i' = i ∧ e' = e)) ∧
    (∀ key f', prj2.HT.HT_DeleteEntry BLOCK_SIZE f key = some (0, f') →
      (∀ c i e, StoredAt BLOCK_SIZE prj2.sizeofRecord f n c i e → prj2.HT.keyOf e ≠ key →
        ∃ i', i' ≤ i ∧ StoredAt BLOCK_SIZE prj2.sizeofRecord f' n c i' e) ∧
      (∀ c i e c' i' e', StoredAt BLOCK_SIZE prj2.sizeofRecord f n c i e →
        StoredAt BLOCK_SIZE prj2.sizeofRecord f' n c' i' e' →
        prj2.HT.keyOf e' = prj2.HT.keyOf e → c' = c ∧ i' ≤ i ∧ e' = e)) := by
  constructor
  · intro record code f' hr hbc hins hcode
    rcases prj2.HT.insert_tidy BLOCK_SIZE h1 h2 f n ht hbc record hr with
      ⟨hsame, _⟩ | ⟨idx, f'', hins', _, hpl, ht'⟩
    · rw [hsame] at hins
      cases hins
      exact absurd rfl hcode
    · rw [hins'] at hins
      cases hins
      obtain ⟨hfw, _⟩ := hpl.storedAt _ BLOCK_SIZE n f f' _ code record.toBytes
      refine ⟨hfw, ?_⟩
      intro c i e c' i' e' hst hst' hkey
      exact prj2.HT.storedAt_unique BLOCK_SIZE f' n ht' c' c i' i e' e hst' (hfw c i e hst) hkey
  · intro key f' hdel
    rcases prj2.HT.delete_tidy BLOCK_SIZE h1 h2 f n ht key with
      ⟨hsame, _⟩ | ⟨f'', hdel', hrm, _⟩
    · rw [hsame] at hdel
      have h0 : (-1 : Int) = 0 := congrArg Prod.fst (Option.some.inj hdel)
      exact absurd h0 (by decide)
    · rw [hdel'] at hdel
      cases hdel
      obtain ⟨hfw, hbw⟩ := hrm.storedAt_after BLOCK_SIZE n f f' _ key
      refine ⟨hfw, ?_⟩
      intro c i e c' i' e' hst hst' hkey
      obtain ⟨i'', hle, hst''⟩ := hbw c' i' e' hst'
      obtain ⟨hc, hi, he⟩ :=
        prj2.HT.storedAt_unique BLOCK_SIZE f n ht c' c i'' i e' e hst'' hst hkey
      exact ⟨hc, by omega, he⟩

theorem prj2.HT.records_keep_block_witness :
    (PrimaryTidy 512 prj2.HT.threeRecords 1 ∧
      prj2.HT.HT_InsertEntry 512 prj2.HT.threeRecords (prj2.HT.recordOf 4 68)
        = some (2, prj2.HT.fileOf 512 1 [prj2.HT.recordOf 1 65, prj2.HT.recordOf 2 66,
            prj2.HT.recordOf 3 67, prj2.HT.recordOf 4 68]) ∧
      prj2.HT.HT_DeleteEntry 512 prj2.HT.threeRecords 2
        = some (0, prj2.HT.threeRecordsAfterDelete)) ∧
    ((∀ c i e, StoredAt 512 prj2.sizeofRecord prj2.HT.threeRecords 1 c i e →
        StoredAt 512 prj2.sizeofRecord
          (prj2.HT.fileOf 512 1 [prj2.HT.recordOf 1 65, prj2.HT.recordOf 2 66,
            prj2.HT.recordOf 3 67, prj2.HT.recordOf 4 68]) 1 c i e) ∧
      (∀ c i e c' i' e', StoredAt 512 prj2.sizeofRecord prj2.HT.threeRecords 1 c i e →
        StoredAt 512 prj2.sizeofRecord
          (prj2.HT.fileOf 512 1 [prj2.HT.recordOf 1 65, prj2.HT.recordOf 2 66,
            prj2.HT.recordOf 3 67, prj2.HT.recordOf 4 68]) 1 c' i' e' →
        prj2.HT.keyOf e' = prj2.HT.keyOf e → c' = c ∧ i' = i ∧ e' = e)) ∧
    ((∀ c i e, StoredAt 512 prj2.sizeofRecord prj2.HT.threeRecords 1 c i e →
        prj2.HT.keyOf e ≠ 2 →
        ∃ i', i' ≤ i ∧ StoredAt 512 prj2.sizeofRecord prj2.HT.threeRecordsAfterDelete 1 c i' e) ∧
      (∀ c i e c' i' e', StoredAt 512 prj2.sizeofRecord prj2.HT.threeRecords 1 c i e →
        StoredAt 512 prj2.sizeofRecord prj2.HT.threeRecordsAfterDelete 1 c' i' e' →
        prj2.HT.keyOf e' = prj2.HT.keyOf e → c' = c ∧ i' ≤ i ∧ e' = e)) :=
  ⟨⟨(prj2.HT.reachable_tidy 512 (by decide) (by decide) 1 (by decide) (by decide) (by decide) _ _
        prj2.HT.threeRecords_reachable).1, by decide!, by decide!⟩,
    (prj2.HT.records_keep_block 512 (by decide) (by decide) prj2.HT.threeRecords 1
      (prj2.HT.reachable_tidy 512 (by decide) (by decide) 1 (by decide) (by decide) (by decide) _ _
        prj2.HT.threeRecords_reachable).1).1 (prj2.HT.recordOf 4 68) 2 _ (by decide) (by decide!)
      (by decide!) (by decide),
    (prj2.HT.records_keep_block 512 (by decide) (by decide) prj2.HT.threeRecords 1
      (prj2.HT.reachable_tidy 512 (by decide) (by decide) 1 (by decide) (by decide) (by decide) _ _
        prj2.HT.threeRecords_reachable).1).2 2 _ (by decide!)⟩

/-! ## Runs of the code: the chains of files whose last bucket block is not filled -/

set_option maxRecDepth 1000000 in
/-- C37, on one file.  In the file `aliasFileAfter`, made by `HT_CreateIndex` with
254 buckets, 752 inserts and the insert of the record with ID 2, the hash of 2
is 129, and the slot of bucket 130 holds 0: the chain of bucket 130 is made of
the blocks 0 and 254, and the records on it have the IDs 1, 0 and 2 (block 0)
and 3275 (block 254), of which 3275 hashes to bucket 68. -/
theorem prj2.HT.placement_run :
    prj2.HT.HashFunction 2 254 = 129 ∧ prj2.HT.HashFunction 3275 254 = 68 ∧
    directorySlot 512 prj2.HT.aliasFileAfter 130 = some 0 ∧
    (elementsOf prj2.sizeofRecord (bucketChain 512 prj2.HT.aliasFileAfter 130)).map
        (fun x => (x.1, prj2.HT.keyOf x.2))
      = [(0, 1), (0, 0), (0, 2), (254, 3275)] := by
  decide!

set_option maxRecDepth 1000000 in
/-- C38, on two files.  In the file that `HT_CreateIndex` has just made with 127
buckets, which has the two blocks 0 and 1, the slot of bucket 0 holds 0, the
index of the header block, whose second field is 127: the walk from the slot
does not reach `-1`.  In the file `aliasFileAfter` the chains of the buckets
129 and 130 are both made of the blocks 0 and 254, and block 254 also ends the
chain of bucket 68. -/
theorem prj2.HT.chains_run :
    (directoryBlockCount 512 127 = 1 ∧ (prj2.HT.HT_CreateIndex 512 127).2.blockCount = 2 ∧
      directorySlot 512 (prj2.HT.HT_CreateIndex 512 127).2 0 = some 0 ∧
      (BF_ReadBlock 512 (prj2.HT.HT_CreateIndex 512 127).2 0).map (fun b => readInt32 b 4)
        = some 127 ∧
      chainOf 512 (prj2.HT.HT_CreateIndex 512 127).2 0 = none) ∧
    ((chainOf 512 prj2.HT.aliasFileAfter 129).map (fun l => l.map Prod.fst) = some [0, 254] ∧
      (chainOf 512 prj2.HT.aliasFileAfter 130).map (fun l => l.map Prod.fst) = some [0, 254] ∧
      (chainOf 512 prj2.HT.aliasFileAfter 68).map (fun l => l.map Prod.fst) = some [34, 254]) := by
  decide!

/-! ## Runs of the code: a delete in a file whose last bucket block is not filled -/

set_option maxRecDepth 1000000 in
/-- C2, on one file.  The file `aliasFile` is made by `HT_CreateIndex` with 254
buckets and the 752 inserts of `fillRecords`, none of which has the ID 1 and the
first of which has the ID 3; the lookup of 3 finds its record.
`HT_DeleteEntry` of the key 1 returns 0 and rewrites the header block, whose
fields become 1, 254 and 0, so that the slot of bucket 51, the bucket of the ID
3, is read from the header block and no longer holds 3 but 0.  The record with
the ID 3 is still in slot 0 of block 3.  `HT_InsertEntry` of `markedRecord`,
whose ID is 3, then returns 0, not `-1`; it allocates no block and stores the
record in block 0, whose records had the ID 0 and now have the IDs 0 and 3. -/
theorem prj2.HT.duplicate_insert_run :
    ((1 ∉ prj2.HT.fillIDs ∧ prj2.HT.fillIDs.head? = some 3 ∧
        prj2.HT.HashFunction 1 254 = 200 ∧ prj2.HT.HashFunction 3 254 = 51) ∧
      ((prj2.HT.HT_GetAllEntries 512 prj2.HT.aliasFile (some 3)).map (fun p => p.1) = some 3 ∧
        (prj2.HT.HT_DeleteEntry 512 prj2.HT.aliasFile 1).map (fun p => p.1) = some 0 ∧
        (BF_ReadBlock 512 prj2.HT.aliasFileAfterDelete 0).map
            (fun b => (readUInt32 b 0, readUInt32 b 4, readInt32 b 8)) = some (1, 254, 0) ∧
        directorySlot 512 prj2.HT.aliasFile 51 = some 3 ∧
        directorySlot 512 prj2.HT.aliasFileAfterDelete 51 = some 0) ∧
      ((BF_ReadBlock 512 prj2.HT.aliasFileAfterDelete 3).map
            (fun b => (blockElements prj2.sizeofRecord b).map prj2.HT.keyOf)
          = some [3, 117, 213, 430, 599] ∧
        prj2.HT.markedRecord.ID = 3 ∧
        (prj2.HT.HT_InsertEntry 512 prj2.HT.aliasFileAfterDelete prj2.HT.markedRecord).map
            (fun p => p.1) = some 0 ∧
        prj2.HT.aliasFileAfterDelete.blockCount = 255 ∧
        prj2.HT.aliasFileAfterReinsert.blockCount = 255 ∧
        (BF_ReadBlock 512 prj2.HT.aliasFileAfterDelete 0).map
            (fun b => (blockElements prj2.sizeofRecord b).map prj2.HT.keyOf) = some [0] ∧
        (BF_ReadBlock 512 prj2.HT.aliasFileAfterReinsert 0).map
            (fun b => (blockElements prj2.sizeofRecord b).map prj2.HT.keyOf) = some [0, 3])) := by
  decide!

set_option maxRecDepth 1000000 in
/-- C36, on one file.  The file `aliasFileAfterReinsert` is made by
`HT_CreateIndex` with 254 buckets, the 752 inserts of `fillRecords`,
`HT_DeleteEntry` of the key 1, which is the ID of none of them, and
`HT_InsertEntry` of `markedRecord`, whose ID is 3; both calls return 0.  In it
two records have the ID 3: the record of the fill in slot 0 of the data block 3
and `markedRecord` in slot 1 of block 0, which is the one that the lookup of 3
prints. -/
theorem prj2.HT.duplicate_key_run :
    ((1 ∉ prj2.HT.fillIDs ∧ prj2.HT.fillIDs.head? = some 3) ∧
      ((prj2.HT.HT_DeleteEntry 512 prj2.HT.aliasFile 1).map (fun p => p.1) = some 0 ∧
        (prj2.HT.HT_InsertEntry 512 prj2.HT.aliasFileAfterDelete prj2.HT.markedRecord).map
            (fun p => p.1) = some 0) ∧
      (directoryBlockCount 512 254 = 2 ∧
        (BF_ReadBlock 512 prj2.HT.aliasFileAfterReinsert 3).map
            (fun b => (blockElements prj2.sizeofRecord b).map prj2.HT.keyOf)
          = some [3, 117, 213, 430, 599] ∧
        (BF_ReadBlock 512 prj2.HT.aliasFileAfterReinsert 3).map (fun b => prj2.SHT.recordAt b 0)
          = some (prj2.HT.recordOf 3 0) ∧
        (BF_ReadBlock 512 prj2.HT.aliasFileAfterReinsert 0).map
            (fun b => (blockElements prj2.sizeofRecord b).map prj2.HT.keyOf) = some [0, 3] ∧
        (BF_ReadBlock 512 prj2.HT.aliasFileAfterReinsert 0).map (fun b => prj2.SHT.recordAt b 1)
          = some prj2.HT.markedRecord ∧
        prj2.HT.HT_GetAllEntries 512 prj2.HT.aliasFileAfterReinsert (some 3)
          = some (3, [prj2.HT.markedRecord]))) := by
  decide!

set_option maxRecDepth 1000000 in
/-- C39, on one file.  `HT_InsertEntry` of `markedRecord` into
`aliasFileAfterDelete` returns the block index 0 and the record is in slot 1 of
block 0; the entry of its surname with this block index is stored in a secondary
file of 5 buckets (`markedEntry`), and `SHT_SecondaryGetAllEntries` with the
surname prints the record.  Then `HT_InsertEntry` of a record with the ID 1648,
which is in no record of the file and whose bucket is 30, returns the block
index 255: the slot of bucket 30 is read from block 0, where it is made of the
bytes 1 to 4 of the surname of `markedRecord`, and the insert writes the index
of its new block there.  No record has been deleted, yet slot 1 of block 0 now
holds a record with the surname `S` followed by one byte `0xFF`, and
`SHT_SecondaryGetAllEntries` with the surname of `markedRecord` returns `-1`. -/
theorem prj2.HT.stale_reference_run :
    (((prj2.HT.HT_InsertEntry 512 prj2.HT.aliasFileAfterDelete prj2.HT.markedRecord).map
            (fun p => p.1) = some 0 ∧
        (BF_ReadBlock 512 prj2.HT.aliasFileAfterReinsert 0).map (fun b => prj2.SHT.recordAt b 1)
          = some prj2.HT.markedRecord ∧
        prj2.cString (prj2.charArray prj2.HT.markedRecord.Surname 25) = [83, 255, 255, 255, 255] ∧
        (prj2.SHT.SHT_SecondaryInsertEntry 512 (prj2.SHT.SHT_CreateSecondaryIndex.directory 512 5).2
            { Record := prj2.HT.markedRecord, BlockID := 0 }).map (fun p => p.1) = some 0 ∧
        prj2.SHT.SHT_SecondaryGetAllEntries 512 prj2.SHT.markedEntry prj2.HT.aliasFileAfterReinsert
            (some [83, 255, 255, 255, 255]) = some (4, [prj2.HT.markedRecord])) ∧
      ((1648 : Int) ∉ prj2.HT.fillIDs ∧ prj2.HT.HashFunction 1648 254 = 30 ∧
        directorySlot 512 prj2.HT.aliasFileAfterReinsert 30 = some (-1) ∧
        (prj2.HT.HT_InsertEntry 512 prj2.HT.aliasFileAfterReinsert (prj2.HT.recordOf 1648 0)).map
            (fun p => p.1) = some 255 ∧
        directorySlot 512 prj2.HT.aliasFileAfterOverwrite 30 = some 255) ∧
      ((BF_ReadBlock 512 prj2.HT.aliasFileAfterOverwrite 0).map (fun b => prj2.SHT.recordAt b 1)
          = some { ID := 3, Name := 0, Surname := 83 + 256 * 255, Address := 0 } ∧
        prj2.SHT.SHT_SecondaryGetAllEntries 512 prj2.SHT.markedEntry prj2.HT.aliasFileAfterOverwrite
            (some [83, 255, 255, 255, 255]) = some (-1, []))) := by
  decide!

/-! ## Runs of the code: surnames of 25 characters, long keys, stray block indices -/

/-- C13, counterexample.  The record `longRecord 7 88` has fields that are values
of their C types; its array `Surname` holds 25 characters `A` and no zero byte,
so that the string at `Surname` runs on into `Address` and has the 26 characters
`A...AX`.  No segment of the secondary file `demoSecondary` (well-formed, 5
buckets, element counts within the capacity) has these 25 bytes.
`HT_InsertEntry` of the record into `demoPrimary` returns the block index 3 and
`SHT_SecondaryInsertEntry` of the record with that index returns 0.  Then
`SHT_SecondaryGetAllEntries` with the string at `Surname` of the record as key
has no result: the string is copied behind the 25 bytes of the buffer `key`.
So has the call whose key is the 25 characters of the array. -/
theorem prj2.SHT.long_surname_lookup :
    (prj2.SHT.longRecord 7 88).InRange ∧
    (prj2.SHT.longRecord 7 88).surnameString = some (List.replicate 25 65 ++ [88]) ∧
    wellFormedCheck 512 prj2.SHT.demoSecondary 5 = true ∧
    countsInRangeCheck 512 (prj2.SHT.MAX_DATA_SEGMENT_COUNT_PER_BLOCK 512)
      (directoryBlockCount 512 5) prj2.SHT.demoSecondary = true ∧
    (∀ x ∈ storedElements 512 prj2.SHT.sizeofDataSegment prj2.SHT.demoSecondary 5,
      (prj2.SHT.readDataSegment x.2 0).Surname ≠ (prj2.SHT.longRecord 7 88).Surname) ∧
    prj2.HT.HT_InsertEntry 512 prj2.SHT.demoPrimary (prj2.SHT.longRecord 7 88)
      = some (3, prj2.SHT.longPrimary) ∧
    prj2.SHT.SHT_SecondaryInsertEntry 512 prj2.SHT.demoSecondary
        { Record := prj2.SHT.longRecord 7 88, BlockID := 3 }
      = some (0, prj2.SHT.longSecondary) ∧
    prj2.SHT.SHT_SecondaryGetAllEntries 512 prj2.SHT.longSecondary prj2.SHT.longPrimary
        (some (List.replicate 25 65 ++ [88])) = none ∧
    prj2.SHT.SHT_SecondaryGetAllEntries 512 prj2.SHT.longSecondary prj2.SHT.longPrimary
        (some (prj2.charArray (prj2.SHT.longRecord 7 88).Surname 25)) = none := by
  decide!

/-- C14, counterexample.  (a) The key of 25 characters `A` is the surname of no
segment on the chain of its bucket in `demoSecondary`, a chain of one block that
ends; `SHT_SecondaryGetAllEntries` has no result, since the key and the zero
byte that ends it are copied behind the 25 bytes of the buffer `key`.  (b) The
secondary file `strayEntry` holds the entry `A -> 1`, stored by
`SHT_SecondaryInsertEntry` with the return code 0, and block 1 of `demoPrimary`
is its bucket block, whose first field reads as the element count 4294967295;
none of the five record slots inside the block holds a record with the surname
`A`.  `SHT_SecondaryGetAllEntries` with the key `A` has no result: the loop
over the records goes on behind the block. -/
theorem prj2.SHT.lookup_outside_runs :
    (prj2.SHT.firstMatch (prj2.SHT.keyChain 512 prj2.SHT.demoSecondary (List.replicate 25 65))
          (List.replicate 25 65) = none ∧
      (prj2.SHT.keyChain 512 prj2.SHT.demoSecondary (List.replicate 25 65)).length = 1 ∧
      prj2.SHT.SHT_SecondaryGetAllEntries 512 prj2.SHT.demoSecondary prj2.SHT.demoPrimary
          (some (List.replicate 25 65)) = none) ∧
    (prj2.SHT.SHT_SecondaryInsertEntry 512 (prj2.SHT.SHT_CreateSecondaryIndex.directory 512 5).2
          { Record := prj2.HT.recordOf 9 65, BlockID := 1 } = some (0, prj2.SHT.strayEntry) ∧
      prj2.SHT.firstMatch (prj2.SHT.keyChain 512 prj2.SHT.strayEntry [65]) [65]
        = some { Surname := 65, BlockID := 1 } ∧
      (BF_ReadBlock 512 prj2.SHT.demoPrimary 1).map
          (fun pb => (readUInt32 pb 0,
            (List.range 5).map fun j =>
              decide (prj2.SHT.sameSurname (prj2.SHT.recordAt pb j).Surname [65])))
        = some (4294967295, [false, false, false, false, false]) ∧
      prj2.sizeofHashDataBlockHeader + prj2.sizeofRecord * 5 ≤ 512 ∧
      512 < prj2.sizeofHashDataBlockHeader + prj2.sizeofRecord * 6 ∧
      prj2.SHT.SHT_SecondaryGetAllEntries 512 prj2.SHT.strayEntry prj2.SHT.demoPrimary
          (some [65]) = none) := by
  decide!

/-- C34, counterexample.  The primary file `twinPrimary` (3 buckets, well-formed,
element counts within the capacity) holds two records whose arrays `Surname`
hold the same 25 characters and no zero byte, and whose addresses are `X` and
`Y`.  `SHT_CreateSecondaryIndex` with 5 buckets reaches the end of its loops over
it and leaves `twinSecondary`, in which two entries are stored, in the blocks 2
and 3, with these same 25 bytes as `Surname`. -/
theorem prj2.SHT.bootstrap_twin_surnames :
    wellFormedCheck 512 prj2.SHT.twinPrimary 3 = true ∧
    countsInRangeCheck 512 (prj2.HT.MAX_RECORD_COUNT_PER_BLOCK 512) (directoryBlockCount 512 3)
      prj2.SHT.twinPrimary = true ∧
    (storedRecords 512 prj2.SHT.twinPrimary 3).map (fun r => (r.ID, r.Surname, r.Address))
      = [(2, (prj2.SHT.longRecord 2 89).Surname, 89), (1, (prj2.SHT.longRecord 1 88).Surname, 88)] ∧
    (prj2.SHT.SHT_CreateSecondaryIndex.directory 512 5).1 = 0 ∧
    prj2.SHT.SHT_CreateSecondaryIndex.bootstrap 512 prj2.SHT.twinPrimary
        (prj2.SHT.SHT_CreateSecondaryIndex.directory 512 5).2
      = some (CFlow.next prj2.SHT.twinSecondary) ∧
    (storedElements 512 prj2.SHT.sizeofDataSegment prj2.SHT.twinSecondary 5).map
        (fun x => (x.1, prj2.SHT.readDataSegment x.2 0))
      = [(2, { Surname := (prj2.SHT.longRecord 1 88).Surname, BlockID := 3 }),
         (3, { Surname := (prj2.SHT.longRecord 1 88).Surname, BlockID := 2 })] := by
  decide!

/-! ## The secondary file of `SHT_CreateSecondaryIndex`: what its entries refer to -/

/-- The inserts of a list of elements of a primary file, with surnames of at most
24 characters, into a secondary file in good order all return and leave a file
in good order, whose elements are those of before and segments made of elements
of the list. -/
theorem prj2.SHT.insertAll_tidy (BLOCK_SIZE : Nat) (h1 : 40 ≤ BLOCK_SIZE)
    (h2 : BLOCK_SIZE < 4294967296) (n : Nat) :
    ∀ (xs : List (Int × Nat)) (f : File), SecondaryTidy BLOCK_SIZE f n →
      (∀ x ∈ xs, (prj2.cString (prj2.charArray (prj2.readRecord x.2 0).Surname 25)).length < 25) →
      f.blockCount + xs.length + 1 < 2147483648 →
      ∃ f', prj2.SHT.insertAll BLOCK_SIZE f xs = some f' ∧ SecondaryTidy BLOCK_SIZE f' n ∧
        f'.blockCount ≤ f.blockCount + xs.length ∧
        ∀ s, s < n → ∀ e ∈ elementsOf prj2.SHT.sizeofDataSegment (bucketChain BLOCK_SIZE f' s),
          e ∈ elementsOf prj2.SHT.sizeofDataSegment (bucketChain BLOCK_SIZE f s) ∨
          ∃ x ∈ xs, e.2 = prj2.SHT.DataSegment.toBytes
              { Surname := (prj2.readRecord x.2 0).Surname % 256 ^ 25, BlockID := x.1 }
            % 256 ^ prj2.SHT.sizeofDataSegment := by
  intro xs
  induction xs with
  | nil =>
    intro f ht _ _
    exact ⟨f, rfl, ht, Nat.le_refl _, fun s _ e he => Or.inl he⟩
  | cons x xs ih =>
    intro f ht hshort hsize
    rw [List.length_cons] at hsize
    have hshort' : ∀ y ∈ xs,
        (prj2.cString (prj2.charArray (prj2.readRecord y.2 0).Surname 25)).length < 25 :=
      fun y hy => hshort y (List.mem_cons_of_mem _ hy)
    rcases prj2.SHT.secondary_insert_tidy BLOCK_SIZE h1 h2 f n ht (by omega)
        { Record := prj2.readRecord x.2 0, BlockID := x.1 } (hshort x (List.mem_cons_self _ _)) with
      ⟨hsame, _⟩ | ⟨idx, f1, hins, hpl, ht1⟩
    · obtain ⟨f', hf', ht', hcount, hel⟩ := ih f ht hshort' (by omega)
      refine ⟨f', ?_, ht', by rw [List.length_cons]; omega, ?_⟩
      · rw [prj2.SHT.insertAll, hsame]
        exact hf'
      · intro s hs e he
        rcases hel s hs e he with h | ⟨y, hy, hey⟩
        · exact Or.inl h
        · exact Or.inr ⟨y, List.mem_cons_of_mem _ hy, hey⟩
    · have hc1 := hpl.blockCount_le
      obtain ⟨f', hf', ht', hcount, hel⟩ := ih f1 ht1 hshort' (by omega)
      refine ⟨f', ?_, ht', by rw [List.length_cons]; omega, ?_⟩
      · rw [prj2.SHT.insertAll, hins]
        exact hf'
      · intro s hs e he
        rcases hel s hs e he with h | ⟨y, hy, hey⟩
        · by_cases hss : s = prj2.SHT.HashFunction
              (prj2.charArray (prj2.readRecord x.2 0).Surname 25) (n : Int)
          · subst hss
            have hperm := hpl.perm _ BLOCK_SIZE n f f1 _ idx _
            rcases List.mem_cons.mp (hperm.subset h) with h3 | h3
            · exact Or.inr ⟨x, List.mem_cons_self _ _, by rw [h3]; rfl⟩
            · exact Or.inl h3
          · rw [hpl.others s hs hss] at h
            exact Or.inl h
        · exact Or.inr ⟨y, List.mem_cons_of_mem _ hy, hey⟩

/-- An element of a well-formed primary file lies in a slot of a data block of
the file, behind the bucket blocks. -/
theorem storedElements_data_block (BLOCK_SIZE size : Nat) (f : File) (n : Nat)
    (hwf : WellFormed BLOCK_SIZE f n) (x : Int × Nat)
    (hx : x ∈ storedElements BLOCK_SIZE size f n) :
    (directoryBlockCount BLOCK_SIZE n : Int) < x.1 ∧ x.1 < 2147483648 ∧
    ∃ b, BF_ReadBlock BLOCK_SIZE f x.1 = some b ∧
      ∃ j, j < readUInt32 b 0 ∧ elementAt size b j = x.2 := by
  obtain ⟨s, hs, l, hl, hxl⟩ := (mem_storedElements _ _ _ _ _).mp hx
  obtain ⟨p, hp, hx1, hx2⟩ := (mem_elementsOf _ _ _).mp hxl
  obtain ⟨j, hj, hxj⟩ := (mem_blockElements _ _ _).mp hx2
  obtain ⟨l', hl', hD⟩ := hwf.chains s hs
  rw [hl] at hl'
  cases hl'
  have hlb : bucketChain BLOCK_SIZE f s = l := bucketChain_of _ _ _ _ hl
  obtain ⟨hrd, _⟩ := bucketChain_blocks BLOCK_SIZE f n hwf s hs
  rw [hlb] at hrd
  obtain ⟨_, hlt, _⟩ := BF_ReadBlock_some _ _ _ _ (hrd p hp)
  have := hwf.blockCount_lt
  rw [hx1]
  exact ⟨hD p hp, by omega, p.2, hrd p hp, j, hj, hxj⟩

/-- C34, as the code has it.  Let `primary` be a well-formed primary file of `n1`
buckets and `n2` the bucket count of the secondary file, neither count a
multiple of the capacity of a bucket block, with block counts that fit; the
data blocks of `primary` have element counts within the capacity, and its stored
records have surnames of at most 24 characters, so that each string ends inside
its array `Surname`.  Then
`SHT_CreateSecondaryIndex` makes its directory (code 0) and its loops over the
primary file reach their end, leaving a file `secondary`, in which every stored
entry has as `BlockID` the index of a data block of the primary file that holds,
in one of its slots, a record whose 25 bytes of `Surname` are those of the
entry; and no two stored entries have the same surname, read as a C string. -/
theorem prj2.SHT.bootstrap_sound (BLOCK_SIZE : Nat) (h1 : 40 ≤ BLOCK_SIZE)
    (h2 : BLOCK_SIZE < 4294967296) (primary : File) (n1 n2 : Nat)
    (hwf : WellFormed BLOCK_SIZE primary n1)
    (hn1 : n1 % prj2.MAX_BUCKET_COUNT_PER_BLOCK BLOCK_SIZE ≠ 0)
    (hn2 : 1 ≤ n2) (hn2lt : n2 < 2147483648)
    (hn2m : n2 % prj2.MAX_BUCKET_COUNT_PER_BLOCK BLOCK_SIZE ≠ 0)
    (hsize : directoryBlockCount BLOCK_SIZE n2
        + (storedElements BLOCK_SIZE prj2.sizeofRecord primary n1).length + 2 < 2147483648)
    (deleted : List Int)
    (hcounts : CountsInRange BLOCK_SIZE (prj2.HT.MAX_RECORD_COUNT_PER_BLOCK BLOCK_SIZE)
      (directoryBlockCount BLOCK_SIZE n1) primary deleted)
    (hshort : ∀ r ∈ storedRecords BLOCK_SIZE primary n1,
      (prj2.cString (prj2.charArray r.Surname 25)).length < 25) :
    (prj2.SHT.SHT_CreateSecondaryIndex.directory BLOCK_SIZE (n2 : Int)).1 = 0 ∧
    ∃ secondary,
      prj2.SHT.SHT_CreateSecondaryIndex.bootstrap BLOCK_SIZE primary
          (prj2.SHT.SHT_CreateSecondaryIndex.directory BLOCK_SIZE (n2 : Int)).2
        = some (CFlow.next secondary) ∧
      (∀ x ∈ storedElements BLOCK_SIZE prj2.SHT.sizeofDataSegment secondary n2,
        (directoryBlockCount BLOCK_SIZE n1 : Int) < (prj2.SHT.readDataSegment x.2 0).BlockID ∧
        ∃ b, BF_ReadBlock BLOCK_SIZE primary (prj2.SHT.readDataSegment x.2 0).BlockID = some b ∧
          ∃ j, j < readUInt32 b 0 ∧
            (prj2.SHT.recordAt b j).Surname = (prj2.SHT.readDataSegment x.2 0).Surname) ∧
      ((storedElements BLOCK_SIZE prj2.SHT.sizeofDataSegment secondary n2).map
        fun x => prj2.cString (prj2.charArray (prj2.SHT.readDataSegment x.2 0).Surname 25)).Nodup := by
  obtain ⟨_, hcode, hwfd, hcount, hch⟩ :=
    create_wellFormed BLOCK_SIZE n2 (by omega) h2 hn2 hn2lt hn2m
  have hnil : ∀ s, s < n2 → bucketChain BLOCK_SIZE
      (prj2.SHT.SHT_CreateSecondaryIndex.directory BLOCK_SIZE (n2 : Int)).2 s = [] :=
    fun s hs => bucketChain_of _ _ _ _ (hch s hs)
  have htd : SecondaryTidy BLOCK_SIZE
      (prj2.SHT.SHT_CreateSecondaryIndex.directory BLOCK_SIZE (n2 : Int)).2 n2 :=
    Tidy.of_empty _ _ _ _ _ _ _ hwfd hnil
  obtain ⟨secondary, hall, ht, _, hel⟩ := prj2.SHT.insertAll_tidy BLOCK_SIZE h1 h2 n2
    (storedElements BLOCK_SIZE prj2.sizeofRecord primary n1) _ htd
    (fun x hx => hshort _ (List.mem_map.mpr ⟨x, hx, rfl⟩)) (by rw [hcount]; omega)
  refine ⟨hcode, secondary, ?_, ?_, ?_⟩
  · rw [prj2.SHT.bootstrap_eq BLOCK_SIZE primary n1 (by omega) hwf hn1
      (chainOf_counts BLOCK_SIZE primary n1 hwf _ deleted hcounts), hall]
    rfl
  · intro x hx
    rw [storedElements_eq, List.mem_flatMap] at hx
    obtain ⟨s, hs, hxs⟩ := hx
    have hs' := List.mem_range.mp hs
    rcases hel s hs' x hxs with h | ⟨y, hy, hxy⟩
    · rw [hnil s hs'] at h
      exact absurd h (List.not_mem_nil _)
    · obtain ⟨hD, hlt, b, hb, j, hj, hyj⟩ :=
        storedElements_data_block BLOCK_SIZE prj2.sizeofRecord primary n1 hwf y hy
      have hD0 : (0 : Int) ≤ (directoryBlockCount BLOCK_SIZE n1 : Int) := Int.natCast_nonneg _
      rw [hxy, prj2.SHT.readDataSegment_toBytes]
      dsimp only
      rw [toInt32_of_range _ (by omega) hlt]
      refine ⟨hD, b, hb, j, hj, ?_⟩
      rw [prj2.SHT.recordAt_eq, hyj, Nat.mod_mod,
        Nat.mod_eq_of_lt (show (prj2.readRecord y.2 0).Surname < 256 ^ 25 from readBytes_lt _ _ _)]
  · exact Tidy.keys_nodup BLOCK_SIZE prj2.SHT.sizeofDataSegment _ (prj2.SHT.bucketOf n2)
      prj2.SHT.keyOf secondary n2 ht (prj2.SHT.secondary_bucketOf_of_keyOf n2)

theorem prj2.SHT.bootstrap_sound_witness :
    (WellFormed 512 prj2.SHT.demoPrimary 3 ∧
      directoryBlockCount 512 5
        + (storedElements 512 prj2.sizeofRecord prj2.SHT.demoPrimary 3).length + 2 < 2147483648) ∧
    (prj2.SHT.SHT_CreateSecondaryIndex.directory 512 ((5 : Nat) : Int)).1 = 0 ∧
    ∃ secondary,
      prj2.SHT.SHT_CreateSecondaryIndex.bootstrap 512 prj2.SHT.demoPrimary
          (prj2.SHT.SHT_CreateSecondaryIndex.directory 512 ((5 : Nat) : Int)).2
        = some (CFlow.next secondary) ∧
      (∀ x ∈ storedElements 512 prj2.SHT.sizeofDataSegment secondary 5,
        (directoryBlockCount 512 3 : Int) < (prj2.SHT.readDataSegment x.2 0).BlockID ∧
        ∃ b, BF_ReadBlock 512 prj2.SHT.demoPrimary (prj2.SHT.readDataSegment x.2 0).BlockID
            = some b ∧
          ∃ j, j < readUInt32 b 0 ∧
            (prj2.SHT.recordAt b j).Surname = (prj2.SHT.readDataSegment x.2 0).Surname) ∧
      ((storedElements 512 prj2.SHT.sizeofDataSegment secondary 5).map
        fun x => prj2.cString (prj2.charArray (prj2.SHT.readDataSegment x.2 0).Surname 25)).Nodup :=
  ⟨⟨wellFormed_of_check 512 prj2.SHT.demoPrimary 3 (by decide!), by decide!⟩,
    prj2.SHT.bootstrap_sound 512 (by decide) (by decide) prj2.SHT.demoPrimary 3 5
      (wellFormed_of_check 512 prj2.SHT.demoPrimary 3 (by decide!)) (by decide) (by decide)
      (by decide) (by decide) (by decide!) []
      (countsInRange_of_check 512 _ _ prj2.SHT.demoPrimary (by decide!)) (by decide!)⟩
